import Mathlib

/-!
# xdot_cpp: DOT lexer and parser, colour resolution, xdot decoding, shapes, graph elements

A shallow embedding of the parts of `castacks/xdot_cpp` that the specification
talks about, together with the theorems that settle the specification's claims.

Conventions of the embedding

* A C++ `std::string` is a `List Char`; every `Char` stands for one `char`.
* A cursor `text_`/`pos_` is kept as the unread remainder `rest` of the text
  (`rest = text_.substr(pos_)`), so `pos_ < text_.length()` reads `rest ≠ []`.
* C++ exceptions become the `Except.error` branch of the result.
* Every `while`/`for` loop is a function recursing on a fuel argument that the
  caller instantiates with a bound on the number of iterations (the length of
  the unread input); the loops stop by their own condition before the fuel
  is used up.
* A finite `double` is modelled by the rational number it denotes. The hit tests
  of the ellipse and of the polygon and the bounding box of the ellipse compute as
  the machine does: every `+ - * /` gives the double nearest to the exact result
  (IEEE 754 binary64, round to nearest, ties to even), see `round_double`; a
  result beyond the largest double, which the machine replaces by an infinity,
  has no counterpart, and the theorems about these methods bound their inputs
  far below it. `std::stod` rounds in the same way, and both `std::stod` and
  `std::stoi` throw on a text without digits or out of range. Everywhere else
  `+ - * /` on doubles are written as the exact operations. Where the code
  divides by a double that can be zero, or is handed an infinity or a NaN, the
  definition says what that leads to.
* A `std::shared_ptr` to a node or an edge is an address into a heap of
  objects, so that pointers to one object share its changes.
-/

namespace XDotCpp

/-! ## src/include/xdot_cpp/dot/lexer.h -/

namespace Dot

/-- The enumerators of `enum class TokenType`. -/
inductive TokenType
  | EOF_TOKEN | SKIP
  | ID | STR_ID | HTML_ID | EDGE_OP
  | LSQUARE | RSQUARE | LCURLY | RCURLY | COMMA | COLON | SEMI | EQUAL | PLUS
  | STRICT | GRAPH | DIGRAPH | NODE | EDGE | SUBGRAPH
  deriving DecidableEq, Repr

/-- The struct `Token`. -/
structure Token where
  type : TokenType
  text : List Char
  line : Nat
  column : Nat
  deriving DecidableEq, Repr

/-- The text of the message a `ParseError` is built with, kept as the message
template and the data the source formats into it. The first three are thrown
by the lexer, the other five by the parser. -/
inductive Message
  | unexpected_character (c : Char)
  | unterminated_string_literal
  | unterminated_html_string
  | expected_token_type (expected got : TokenType)
  | expected_graph_or_digraph
  | unexpected_token_in_graph_body (token : Token)
  | unexpected_token_in_subgraph_body
  | expected_identifier
  deriving DecidableEq, Repr

/-- The class `ParseError`: a message with a line and a column. -/
structure ParseError where
  message : Message
  line : Nat
  column : Nat
  deriving DecidableEq, Repr

/-- The state of a `DotLexer`; `rest` is `text_` from `pos_` on. -/
structure DotLexer where
  rest : List Char
  line : Nat
  column : Nat
  peeked_token : Token
  has_peeked : Bool
  deriving DecidableEq, Repr

/-- The default `Token()`: `Token(EOF_TOKEN, "", 0, 0)`. -/
def Token.default : Token := ⟨TokenType.EOF_TOKEN, [], 0, 0⟩

/-- The constructor `DotLexer::DotLexer(text)`. -/
def DotLexer.new (text : List Char) : DotLexer :=
  { rest := text, line := 1, column := 1, peeked_token := Token.default, has_peeked := false }

/-! ## src/src/dot/lexer.cpp -/

/-- The test `std::isspace(c)` in the C locale. -/
def is_whitespace (c : Char) : Bool :=
  c == ' ' || c == '\t' || c == '\n' || c == '\x0b' || c == '\x0c' || c == '\r'

/-- The test `std::isdigit(c)`. -/
def is_digit (c : Char) : Bool := c.isDigit

/-- The test `std::isalpha(c) || c == '_'`. -/
def is_alpha (c : Char) : Bool := c.isAlpha || c == '_'

/-- The test `std::isalnum(c) || c == '_'`. -/
def is_alnum (c : Char) : Bool := c.isAlphanum || c == '_'

/-- The method `DotLexer::has_more`: `pos_ < text_.length()`. -/
def DotLexer.has_more (s : DotLexer) : Bool := !s.rest.isEmpty

/-- The method `DotLexer::current_char`: the NUL character at the end of the text. -/
def DotLexer.current_char (s : DotLexer) : Char := s.rest.headD '\x00'

/-- The method `DotLexer::peek_char` with its default offset 1. -/
def DotLexer.peek_char (s : DotLexer) : Char := (s.rest.drop 1).headD '\x00'

/-- The method `DotLexer::advance`. -/
def DotLexer.advance (s : DotLexer) : DotLexer :=
  match s.rest with
  | [] => s
  | c :: cs =>
    if c == '\n' then { s with rest := cs, line := s.line + 1, column := 1 }
    else { s with rest := cs, column := s.column + 1 }

/-- The loop of `DotLexer::skip_comment`. -/
def skip_comment_loop : Nat → DotLexer → DotLexer
  | 0, s => s
  | fuel + 1, s =>
    if s.has_more && s.current_char != '\n' then skip_comment_loop fuel s.advance else s

/-- The method `DotLexer::skip_comment`. -/
def DotLexer.skip_comment (s : DotLexer) : DotLexer := skip_comment_loop s.rest.length s

/-- The inner loop of the block-comment branch of `skip_whitespace`:
`while (pos_ < text_.length() - 1)`, that is, while two characters are unread. -/
def block_comment_loop : Nat → DotLexer → DotLexer
  | 0, s => s
  | fuel + 1, s =>
    if 1 < s.rest.length then
      if s.current_char == '*' && s.peek_char == '/' then s.advance.advance
      else block_comment_loop fuel s.advance
    else s

/-- The loop of `DotLexer::skip_whitespace`. The loop is entered only while the
current character is white space, and its comment branches sit inside it. -/
def skip_whitespace_loop : Nat → DotLexer → DotLexer
  | 0, s => s
  | fuel + 1, s =>
    if s.has_more && is_whitespace s.current_char then
      if s.current_char == '/' && s.peek_char == '/' then
        skip_whitespace_loop fuel s.skip_comment
      else if s.current_char == '/' && s.peek_char == '*' then
        skip_whitespace_loop fuel (block_comment_loop s.rest.length s.advance.advance)
      else if s.current_char == '#' then
        skip_whitespace_loop fuel s.skip_comment
      else
        skip_whitespace_loop fuel s.advance
    else s

/-- The method `DotLexer::skip_whitespace`. -/
def DotLexer.skip_whitespace (s : DotLexer) : DotLexer := skip_whitespace_loop s.rest.length s

/-- The loop of `DotLexer::read_string`, with the value read so far. -/
def read_string_loop : Nat → DotLexer → List Char → DotLexer × List Char
  | 0, s, value => (s, value)
  | fuel + 1, s, value =>
    if s.has_more && s.current_char != '"' then
      if s.current_char == '\\' && s.peek_char != '\x00' then
        let s1 := s.advance
        let escaped := s1.current_char
        let value1 :=
          if escaped == 'n' then value ++ ['\n']
          else if escaped == 't' then value ++ ['\t']
          else if escaped == 'r' then value ++ ['\r']
          else if escaped == '\\' then value ++ ['\\']
          else if escaped == '"' then value ++ ['"']
          else value ++ [escaped]
        read_string_loop fuel s1.advance value1
      else
        read_string_loop fuel s.advance (value ++ [s.current_char])
    else (s, value)

/-- The method `DotLexer::read_string`. -/
def DotLexer.read_string (s : DotLexer) : Except ParseError (Token × DotLexer) :=
  let token_line := s.line
  let token_column := s.column
  let (s1, value) := read_string_loop s.rest.length s.advance []
  if !s1.has_more then
    .error ⟨Message.unterminated_string_literal, token_line, token_column⟩
  else
    .ok (⟨TokenType.STR_ID, value, token_line, token_column⟩, s1.advance)

/-- The `do ... while` loop of `DotLexer::read_html_string`; `depth` is a C++ `int`
that stays within the length of the text. -/
def read_html_string_loop : Nat → DotLexer → List Char → Int → DotLexer × List Char × Int
  | 0, s, value, depth => (s, value, depth)
  | fuel + 1, s, value, depth =>
    let depth1 :=
      if s.current_char == '<' then depth + 1
      else if s.current_char == '>' then depth - 1
      else depth
    let value1 := value ++ [s.current_char]
    let s1 := s.advance
    if s1.has_more && decide (0 < depth1) then read_html_string_loop fuel s1 value1 depth1
    else (s1, value1, depth1)

/-- The method `DotLexer::read_html_string`. -/
def DotLexer.read_html_string (s : DotLexer) : Except ParseError (Token × DotLexer) :=
  let token_line := s.line
  let token_column := s.column
  let (s1, value, depth) := read_html_string_loop s.rest.length s [] 0
  if 0 < depth then
    .error ⟨Message.unterminated_html_string, token_line, token_column⟩
  else
    .ok (⟨TokenType.HTML_ID, value, token_line, token_column⟩, s1)

/-- The loop of `DotLexer::read_identifier`. -/
def read_identifier_loop : Nat → DotLexer → List Char → DotLexer × List Char
  | 0, s, value => (s, value)
  | fuel + 1, s, value =>
    if s.has_more && (is_alnum s.current_char || s.current_char == '_') then
      read_identifier_loop fuel s.advance (value ++ [s.current_char])
    else (s, value)

/-- The table `keywords` of `DotLexer::read_identifier`, with the generic kind
for a word that is not in it. -/
def keyword_type (value : List Char) : TokenType :=
  if value = "strict".toList then TokenType.STRICT
  else if value = "graph".toList then TokenType.GRAPH
  else if value = "digraph".toList then TokenType.DIGRAPH
  else if value = "node".toList then TokenType.NODE
  else if value = "edge".toList then TokenType.EDGE
  else if value = "subgraph".toList then TokenType.SUBGRAPH
  else TokenType.ID

/-- The method `DotLexer::read_identifier`. -/
def DotLexer.read_identifier (s : DotLexer) : Token × DotLexer :=
  let (s1, value) := read_identifier_loop s.rest.length s []
  (⟨keyword_type value, value, s.line, s.column⟩, s1)

/-- The digit loops of `DotLexer::read_number`. -/
def read_digits_loop : Nat → DotLexer → List Char → DotLexer × List Char
  | 0, s, value => (s, value)
  | fuel + 1, s, value =>
    if s.has_more && is_digit s.current_char then
      read_digits_loop fuel s.advance (value ++ [s.current_char])
    else (s, value)

/-- The method `DotLexer::read_number`. -/
def DotLexer.read_number (s : DotLexer) : Token × DotLexer :=
  let (s1, v1) := read_digits_loop s.rest.length s []
  let (s2, v2) :=
    if s1.has_more && s1.current_char == '.' then
      read_digits_loop s1.rest.length s1.advance (v1 ++ [s1.current_char])
    else (s1, v1)
  let (s3, v3) :=
    if s2.has_more && (s2.current_char == 'e' || s2.current_char == 'E') then
      let s2a := s2.advance
      let v2a := v2 ++ [s2.current_char]
      let (s2b, v2b) :=
        if s2a.has_more && (s2a.current_char == '+' || s2a.current_char == '-') then
          (s2a.advance, v2a ++ [s2a.current_char])
        else (s2a, v2a)
      read_digits_loop s2b.rest.length s2b v2b
    else (s2, v2)
  (⟨TokenType.ID, v3, s.line, s.column⟩, s3)

/-- The part of `DotLexer::next_token` that follows the call of `skip_whitespace`. -/
def DotLexer.scan_token (s : DotLexer) : Except ParseError (Token × DotLexer) :=
  if !s.has_more then
    .ok (⟨TokenType.EOF_TOKEN, [], s.line, s.column⟩, s)
  else if s.current_char == '[' then
    .ok (⟨TokenType.LSQUARE, ['['], s.line, s.column⟩, s.advance)
  else if s.current_char == ']' then
    .ok (⟨TokenType.RSQUARE, [']'], s.line, s.column⟩, s.advance)
  else if s.current_char == '{' then
    .ok (⟨TokenType.LCURLY, ['{'], s.line, s.column⟩, s.advance)
  else if s.current_char == '}' then
    .ok (⟨TokenType.RCURLY, ['}'], s.line, s.column⟩, s.advance)
  else if s.current_char == ',' then
    .ok (⟨TokenType.COMMA, [','], s.line, s.column⟩, s.advance)
  else if s.current_char == ':' then
    .ok (⟨TokenType.COLON, [':'], s.line, s.column⟩, s.advance)
  else if s.current_char == ';' then
    .ok (⟨TokenType.SEMI, [';'], s.line, s.column⟩, s.advance)
  else if s.current_char == '=' then
    .ok (⟨TokenType.EQUAL, ['='], s.line, s.column⟩, s.advance)
  else if s.current_char == '+' then
    .ok (⟨TokenType.PLUS, ['+'], s.line, s.column⟩, s.advance)
  else if s.current_char == '-' && s.peek_char == '>' then
    .ok (⟨TokenType.EDGE_OP, ['-', '>'], s.line, s.column⟩, s.advance.advance)
  else if s.current_char == '-' && s.peek_char == '-' then
    .ok (⟨TokenType.EDGE_OP, ['-', '-'], s.line, s.column⟩, s.advance.advance)
  else if s.current_char == '"' then s.read_string
  else if s.current_char == '<' then s.read_html_string
  else if is_digit s.current_char || (s.current_char == '.' && is_digit s.peek_char) then
    .ok s.read_number
  else if is_alpha s.current_char || s.current_char == '_' then .ok s.read_identifier
  else .error ⟨Message.unexpected_character s.current_char, s.line, s.column⟩

/-- The method `DotLexer::next_token`: the peeked token if there is one, else the token
that follows the white space. -/
def DotLexer.next_token (s : DotLexer) : Except ParseError (Token × DotLexer) :=
  if s.has_peeked then
    .ok (s.peeked_token, { s with has_peeked := false })
  else s.skip_whitespace.scan_token

/-- The method `DotLexer::peek_token`. -/
def DotLexer.peek_token (s : DotLexer) : Except ParseError (Token × DotLexer) :=
  if !s.has_peeked then
    match s.next_token with
    | .error e => .error e
    | .ok (t, s1) => .ok (t, { s1 with peeked_token := t, has_peeked := true })
  else .ok (s.peeked_token, s)


/-- The tokens that `n` successive calls of `next_token` return, or the error of
the first call that throws. -/
def next_tokens : Nat → DotLexer → Except ParseError (List Token)
  | 0, _ => .ok []
  | n + 1, s =>
    match s.next_token with
    | .error e => .error e
    | .ok (t, s1) =>
      match next_tokens n s1 with
      | .error e => .error e
      | .ok ts => .ok (t :: ts)

/-! ## src/include/xdot_cpp/dot/parser.h -/

/-- The struct `Attribute`. -/
structure Attribute where
  name : List Char
  value : List Char
  deriving DecidableEq, Repr

/-- The alias `AttributeList`. -/
abbrev AttributeList := List Attribute

/-- The struct `Node`. -/
structure Node where
  id : List Char
  attributes : AttributeList
  deriving DecidableEq, Repr

/-- The struct `Edge`. -/
structure Edge where
  source : List Char
  target : List Char
  attributes : AttributeList
  deriving DecidableEq, Repr

/-- The struct `Subgraph`; the shared pointers it holds are kept as values. -/
inductive Subgraph
  | mk (id : List Char) (attributes : AttributeList) (nodes : List Node) (edges : List Edge)
      (subgraphs : List Subgraph)
  deriving Repr

/-- The member `id` of a `Subgraph`. -/
def Subgraph.id : Subgraph → List Char
  | .mk i _ _ _ _ => i

/-- The member `attributes` of a `Subgraph`. -/
def Subgraph.attributes : Subgraph → AttributeList
  | .mk _ a _ _ _ => a

/-- The member `nodes` of a `Subgraph`. -/
def Subgraph.nodes : Subgraph → List Node
  | .mk _ _ n _ _ => n

/-- The member `edges` of a `Subgraph`. -/
def Subgraph.edges : Subgraph → List Edge
  | .mk _ _ _ e _ => e

/-- The member `subgraphs` of a `Subgraph`. -/
def Subgraph.subgraphs : Subgraph → List Subgraph
  | .mk _ _ _ _ s => s

/-- The enum `Graph::Type`. -/
inductive GraphType
  | GRAPH | DIGRAPH
  deriving DecidableEq, Repr

/-- The struct `Graph`. -/
structure Graph where
  type : GraphType
  strict : Bool
  id : List Char
  attributes : AttributeList
  nodes : List Node
  edges : List Edge
  subgraphs : List Subgraph
  deriving Repr

/-- The constructor `Graph()`: a non-strict digraph with nothing in it. -/
def Graph.new : Graph :=
  { type := GraphType.DIGRAPH, strict := false, id := [], attributes := [], nodes := [],
    edges := [], subgraphs := [] }

/-- The state of a `DotParser`. -/
structure DotParser where
  lexer_ : DotLexer
  current_token_ : Token
  deriving DecidableEq, Repr

/-- How a run of the parser ends without a result: with the `ParseError` the
code throws, or because the fuel of the embedding was used up. -/
inductive Failure
  | thrown (e : ParseError)
  | out_of_fuel
  deriving DecidableEq, Repr

/-! ## src/src/dot/parser.cpp -/

/-- The throw statement `throw ParseError(message, current_token_.line, current_token_.column)`. -/
def DotParser.fail {α : Type} (p : DotParser) (message : Message) : Except Failure α :=
  .error (.thrown ⟨message, p.current_token_.line, p.current_token_.column⟩)

/-- The method `DotParser::advance`. -/
def DotParser.advance (p : DotParser) : Except Failure DotParser :=
  match p.lexer_.next_token with
  | .error e => .error (.thrown e)
  | .ok (t, l) => .ok { lexer_ := l, current_token_ := t }

/-- The constructor `DotParser::DotParser(text)`. -/
def DotParser.new (text : List Char) : Except Failure DotParser :=
  DotParser.advance { lexer_ := DotLexer.new text, current_token_ := Token.default }

/-- The method `DotParser::consume`. -/
def DotParser.consume (expected_type : TokenType) (p : DotParser) : Except Failure DotParser :=
  if p.current_token_.type != expected_type then
    p.fail (Message.expected_token_type expected_type p.current_token_.type)
  else p.advance

/-- The method `DotParser::parse_id`. -/
def DotParser.parse_id (p : DotParser) : Except Failure (List Char × DotParser) :=
  if p.current_token_.type == TokenType.ID || p.current_token_.type == TokenType.STR_ID
      || p.current_token_.type == TokenType.HTML_ID then do
    let p1 ← p.advance
    pure (p.current_token_.text, p1)
  else p.fail Message.expected_identifier

/-- The loop of `DotParser::parse_attributes`. -/
def parse_attributes_loop : Nat → DotParser → AttributeList →
    Except Failure (AttributeList × DotParser)
  | 0, _, _ => .error Failure.out_of_fuel
  | fuel + 1, p, attributes =>
    if p.current_token_.type != TokenType.RSQUARE
        && p.current_token_.type != TokenType.EOF_TOKEN then do
      let (name, p1) ← p.parse_id
      let (attributes1, p2) ←
        if p1.current_token_.type == TokenType.EQUAL then do
          let p1a ← p1.advance
          let (value, p1b) ← p1a.parse_id
          pure (attributes ++ [⟨name, value⟩], p1b)
        else pure (attributes ++ [⟨name, []⟩], p1)
      let p3 ←
        if p2.current_token_.type == TokenType.COMMA
            || p2.current_token_.type == TokenType.SEMI then p2.advance
        else pure p2
      parse_attributes_loop fuel p3 attributes1
    else pure (attributes, p)

/-- The method `DotParser::parse_attributes`. -/
def DotParser.parse_attributes (p : DotParser) : Except Failure (AttributeList × DotParser) := do
  let p1 ← p.consume TokenType.LSQUARE
  let (attributes, p2) ← parse_attributes_loop (p1.lexer_.rest.length + 2) p1 []
  let p3 ← p2.consume TokenType.RSQUARE
  pure (attributes, p3)

/-- The method `DotParser::parse_edge`. -/
def DotParser.parse_edge (source_id : List Char) (p : DotParser) :
    Except Failure (Edge × DotParser) := do
  let p1 ← p.consume TokenType.EDGE_OP
  let (target_id, p2) ← p1.parse_id
  if p2.current_token_.type == TokenType.LSQUARE then do
    let (attributes, p3) ← p2.parse_attributes
    pure (⟨source_id, target_id, attributes⟩, p3)
  else pure (⟨source_id, target_id, []⟩, p2)

/-- The node statement shared by the graph body and the subgraph body:
`make_shared<Node>(id)` with its optional attribute list. -/
def DotParser.node_statement (id : List Char) (p : DotParser) :
    Except Failure (Node × DotParser) :=
  if p.current_token_.type == TokenType.LSQUARE then do
    let (attributes, p1) ← p.parse_attributes
    pure (⟨id, attributes⟩, p1)
  else pure (⟨id, []⟩, p)

/-- The optional semicolon that ends a statement. -/
def DotParser.optional_semi (p : DotParser) : Except Failure DotParser :=
  if p.current_token_.type == TokenType.SEMI then p.advance else pure p

mutual

/-- The method `DotParser::parse_subgraph`. -/
def parse_subgraph : Nat → DotParser → Except Failure (Subgraph × DotParser)
  | 0, _ => .error Failure.out_of_fuel
  | fuel + 1, p => do
    let p1 ← p.consume TokenType.SUBGRAPH
    let (id, p2) ←
      if p1.current_token_.type == TokenType.ID || p1.current_token_.type == TokenType.STR_ID then
        p1.parse_id
      else pure ([], p1)
    let p3 ← p2.consume TokenType.LCURLY
    let (subgraph, p4) ← parse_subgraph_body fuel p3 (Subgraph.mk id [] [] [] [])
    let p5 ← p4.consume TokenType.RCURLY
    pure (subgraph, p5)

/-- The statement loop of `DotParser::parse_subgraph`. -/
def parse_subgraph_body : Nat → DotParser → Subgraph → Except Failure (Subgraph × DotParser)
  | 0, _, _ => .error Failure.out_of_fuel
  | fuel + 1, p, sg =>
    if p.current_token_.type != TokenType.RCURLY
        && p.current_token_.type != TokenType.EOF_TOKEN then do
      let (sg1, p1) ←
        if p.current_token_.type == TokenType.SUBGRAPH then do
          let (nested_subgraph, p1) ← parse_subgraph fuel p
          pure (Subgraph.mk sg.id sg.attributes sg.nodes sg.edges
            (sg.subgraphs ++ [nested_subgraph]), p1)
        else if p.current_token_.type == TokenType.ID
            || p.current_token_.type == TokenType.STR_ID then do
          let (id, p1) ← p.parse_id
          if p1.current_token_.type == TokenType.EDGE_OP then do
            let (edge, p2) ← p1.parse_edge id
            pure (Subgraph.mk sg.id sg.attributes sg.nodes (sg.edges ++ [edge]) sg.subgraphs, p2)
          else do
            let (node, p2) ← p1.node_statement id
            pure (Subgraph.mk sg.id sg.attributes (sg.nodes ++ [node]) sg.edges sg.subgraphs, p2)
        else p.fail Message.unexpected_token_in_subgraph_body
      let p2 ← p1.optional_semi
      parse_subgraph_body fuel p2 sg1
    else pure (sg, p)

end

/-- The statement loop of `DotParser::parse_graph`. -/
def parse_graph_body : Nat → DotParser → Graph → Except Failure (Graph × DotParser)
  | 0, _, _ => .error Failure.out_of_fuel
  | fuel + 1, p, graph =>
    if p.current_token_.type != TokenType.RCURLY
        && p.current_token_.type != TokenType.EOF_TOKEN then do
      let (graph1, p1) ←
        if p.current_token_.type == TokenType.NODE then do
          let p1 ← p.advance
          let (attrs, p2) ← p1.parse_attributes
          pure ({ graph with attributes := attrs }, p2)
        else if p.current_token_.type == TokenType.EDGE then do
          let p1 ← p.advance
          let (attrs, p2) ← p1.parse_attributes
          pure ({ graph with attributes := attrs }, p2)
        else if p.current_token_.type == TokenType.GRAPH then do
          let p1 ← p.advance
          let (attrs, p2) ← p1.parse_attributes
          pure ({ graph with attributes := graph.attributes ++ attrs }, p2)
        else if p.current_token_.type == TokenType.SUBGRAPH then do
          let (subgraph, p1) ← parse_subgraph fuel p
          pure ({ graph with subgraphs := graph.subgraphs ++ [subgraph] }, p1)
        else if p.current_token_.type == TokenType.ID
            || p.current_token_.type == TokenType.STR_ID then do
          let (id, p1) ← p.parse_id
          if p1.current_token_.type == TokenType.EDGE_OP then do
            let (edge, p2) ← p1.parse_edge id
            pure ({ graph with edges := graph.edges ++ [edge] }, p2)
          else if p1.current_token_.type == TokenType.EQUAL then do
            let p2 ← p1.advance
            let (value, p3) ← p2.parse_id
            pure ({ graph with attributes := graph.attributes ++ [⟨id, value⟩] }, p3)
          else do
            let (node, p2) ← p1.node_statement id
            pure ({ graph with nodes := graph.nodes ++ [node] }, p2)
        else p.fail (Message.unexpected_token_in_graph_body p.current_token_)
      let p2 ← p1.optional_semi
      parse_graph_body fuel p2 graph1
    else pure (graph, p)

/-- The method `DotParser::parse_graph`; `fuel` bounds the statement loops and
the nesting of subgraphs. -/
def DotParser.parse_graph (fuel : Nat) (p : DotParser) : Except Failure (Graph × DotParser) := do
  let graph := Graph.new
  let (graph, p) ←
    if p.current_token_.type == TokenType.STRICT then do
      let p1 ← p.advance
      pure ({ graph with strict := true }, p1)
    else pure (graph, p)
  let (graph, p) ←
    if p.current_token_.type == TokenType.GRAPH then do
      let p1 ← p.advance
      pure ({ graph with type := GraphType.GRAPH }, p1)
    else if p.current_token_.type == TokenType.DIGRAPH then do
      let p1 ← p.advance
      pure ({ graph with type := GraphType.DIGRAPH }, p1)
    else p.fail Message.expected_graph_or_digraph
  let (graph, p) ←
    if p.current_token_.type == TokenType.ID || p.current_token_.type == TokenType.STR_ID then do
      let (id, p1) ← p.parse_id
      pure ({ graph with id := id }, p1)
    else pure (graph, p)
  let p ← p.consume TokenType.LCURLY
  let (graph, p) ← parse_graph_body fuel p graph
  let p ← p.consume TokenType.RCURLY
  pure (graph, p)

/-- Construction of a `DotParser` on `text` followed by `DotParser::parse`. Every
statement and every subgraph consumes a token, so twice the length of the text
bounds the iterations. -/
def parse (text : List Char) : Except Failure Graph := do
  let p ← DotParser.new text
  let (graph, _) ← p.parse_graph (2 * text.length + 4)
  pure graph

end Dot

namespace XDot

/-! ## src/include/xdot_cpp/xdot/color.h, src/src/xdot/color.cpp -/

/-- The struct `Color`, its components being doubles. -/
structure Color where
  r : ℚ
  g : ℚ
  b : ℚ
  a : ℚ
  deriving DecidableEq, Repr

/-- The constructor `Color(red, green, blue)` with the default `alpha = 1.0`. -/
def Color.rgb (red green blue : ℚ) : Color := ⟨red, green, blue, 1⟩

/-- The default constructor `Color()`: opaque black. -/
def Color.black : Color := Color.rgb 0 0 0

/-- The value of a hexadecimal digit, if the character is one. -/
def hex_digit_value (c : Char) : Option Nat :=
  if '0' ≤ c ∧ c ≤ '9' then some (c.toNat - '0'.toNat)
  else if 'a' ≤ c ∧ c ≤ 'f' then some (c.toNat - 'a'.toNat + 10)
  else if 'A' ≤ c ∧ c ≤ 'F' then some (c.toNat - 'A'.toNat + 10)
  else none

/-- The digits an extraction in base 16 accumulates: the value of the longest
run of hexadecimal digits at the front of the text, and whether there was one. -/
def hex_digits_value : List Char → Nat → Bool → Nat × Bool
  | [], acc, found => (acc, found)
  | c :: cs, acc, found =>
    match hex_digit_value c with
    | some d => hex_digits_value cs (16 * acc + d) true
    | none => (acc, found)

/-- The value an `unsigned int` has before anything is stored in it. In
`from_hex` it is read only when a pair of characters is all white space, so
that the extraction stores nothing; the source leaves it indeterminate, and
the embedding fixes it to zero. -/
def indeterminate_unsigned : Nat := 0

/-- The statements `ss << std::hex << text; ss >> r;` on a fresh stream: the
extraction of an `unsigned int` in base 16 from `text`. Leading white space is
skipped, a sign and a `0x` are accepted, a text without digits stores 0, a
negated value wraps modulo `2^32`, a value that does not fit stores the
largest `unsigned int`. -/
def extract_hex (text : List Char) : Nat :=
  let t := text.dropWhile Dot.is_whitespace
  if t.isEmpty then indeterminate_unsigned
  else
    let (negative, t1) :=
      match t with
      | '-' :: u => (true, u)
      | '+' :: u => (false, u)
      | u => (false, u)
    let t2 :=
      match t1 with
      | '0' :: 'x' :: u => u
      | '0' :: 'X' :: u => u
      | u => u
    let (v, _) := hex_digits_value t2 0 false
    if 2 ^ 32 ≤ v then 2 ^ 32 - 1
    else if negative then (2 ^ 32 - v) % 2 ^ 32
    else v

/-- The function `Color::from_hex`. -/
def Color.from_hex (hex : List Char) : Color :=
  let hex_str := if hex.headD '\x00' == '#' then hex.drop 1 else hex
  let hex_str :=
    if hex_str.length == 3 then
      List.replicate 2 (hex_str.getD 0 '\x00') ++ List.replicate 2 (hex_str.getD 1 '\x00')
        ++ List.replicate 2 (hex_str.getD 2 '\x00')
    else hex_str
  if hex_str.length != 6 then Color.black
  else
    let r := extract_hex (hex_str.take 2)
    let g := extract_hex ((hex_str.drop 2).take 2)
    let b := extract_hex ((hex_str.drop 4).take 2)
    Color.rgb ((r : ℚ) / 255) ((g : ℚ) / 255) ((b : ℚ) / 255)

/-- The table that `ColorLookup::init_color_map` fills, in the order of its assignments. -/
def color_map : List (List Char × Color) :=
  [ ("black".toList, Color.rgb 0 0 0),
    ("white".toList, Color.rgb 1 1 1),
    ("red".toList, Color.rgb 1 0 0),
    ("green".toList, Color.rgb 0 (1 / 2) 0),
    ("blue".toList, Color.rgb 0 0 1),
    ("yellow".toList, Color.rgb 1 1 0),
    ("cyan".toList, Color.rgb 0 1 1),
    ("magenta".toList, Color.rgb 1 0 1),
    ("gray".toList, Color.rgb (1 / 2) (1 / 2) (1 / 2)),
    ("grey".toList, Color.rgb (1 / 2) (1 / 2) (1 / 2)),
    ("orange".toList, Color.rgb 1 (647 / 1000) 0),
    ("purple".toList, Color.rgb (1 / 2) 0 (1 / 2)),
    ("brown".toList, Color.rgb (647 / 1000) (165 / 1000) (165 / 1000)),
    ("pink".toList, Color.rgb 1 (753 / 1000) (796 / 1000)),
    ("lightblue".toList, Color.rgb (678 / 1000) (847 / 1000) (902 / 1000)),
    ("lightgreen".toList, Color.rgb (565 / 1000) (933 / 1000) (565 / 1000)),
    ("lightgray".toList, Color.rgb (827 / 1000) (827 / 1000) (827 / 1000)),
    ("lightgrey".toList, Color.rgb (827 / 1000) (827 / 1000) (827 / 1000)),
    ("darkblue".toList, Color.rgb 0 0 (545 / 1000)),
    ("darkgreen".toList, Color.rgb 0 (392 / 1000) 0),
    ("darkgray".toList, Color.rgb (663 / 1000) (663 / 1000) (663 / 1000)),
    ("darkgrey".toList, Color.rgb (663 / 1000) (663 / 1000) (663 / 1000)),
    ("transparent".toList, ⟨0, 0, 0, 0⟩) ]

/-- The call `color_map_.find(spec)`: the keys of the table are distinct. -/
def color_map_find (spec : List Char) : Option Color :=
  (color_map.find? (fun kv => kv.1 == spec)).map (fun kv => kv.2)

/-- The function `ColorLookup::lookup_color`. -/
def lookup_color (color_spec : List Char) : Color :=
  let spec := color_spec.map Char.toLower
  if spec.headD '\x00' == '#' then Color.from_hex spec
  else
    match color_map_find spec with
    | some c => c
    | none =>
      if spec.take 4 == "rgb(".toList then Color.black
      else Color.black

/-! ## src/include/xdot_cpp/xdot/pen.h -/

/-- The enum `LineStyle`. -/
inductive LineStyle
  | SOLID | DASHED | DOTTED
  deriving DecidableEq, Repr

/-- The struct `Pen`. -/
structure Pen where
  color : Color
  fill_color : Color
  line_width : ℚ
  line_style : LineStyle
  dash_pattern : List ℚ
  font_family : List Char
  font_size : ℚ
  deriving DecidableEq, Repr

/-- The constructor `Pen()`. -/
def Pen.new : Pen :=
  { color := Color.rgb 0 0 0, fill_color := Color.rgb 1 1 1, line_width := 1,
    line_style := LineStyle.SOLID, dash_pattern := [], font_family := "Arial".toList,
    font_size := 12 }

/-! ## The arithmetic of the type `double` -/

/-- The integer nearest to `x`, the even one of the two when `x` is half way. -/
def round_half_even (x : ℚ) : Int :=
  let f := ⌊x⌋
  let d := x - f
  if d < 1 / 2 then f
  else if 1 / 2 < d then f + 1
  else if f % 2 = 0 then f
  else f + 1

/-- The exponent `e` with `2^e ≤ q < 2^(e+1)`, for a positive `q`. -/
def binary_exponent (q : ℚ) : Int :=
  let e0 : Int := (Nat.log 2 q.num.toNat : Int) - (Nat.log 2 q.den : Int)
  if q < 2 ^ e0 then e0 - 1 else e0

/-- The double nearest to a non-negative `q` below the overflow threshold
(IEEE 754 binary64, round to nearest, ties to even): 53 significant bits,
least exponent `-1074`. -/
def round_to_double (q : ℚ) : ℚ :=
  if q ≤ 0 then 0
  else
    let p := max (binary_exponent q - 52) (-1074)
    (round_half_even (q / 2 ^ p) : ℚ) * 2 ^ p

/-- The double nearest to `q`, for a `q` of either sign: the rounding of the magnitude,
with the sign of `q` (round to nearest, ties to even, is symmetric). -/
def round_double (q : ℚ) : ℚ :=
  if q < 0 then -round_to_double (-q) else round_to_double q

/-- The operator `+` of `double`: the double nearest to the exact sum. -/
def double_add (x y : ℚ) : ℚ := round_double (x + y)

/-- The operator `-` of `double`: the double nearest to the exact difference. -/
def double_sub (x y : ℚ) : ℚ := round_double (x - y)

/-- The operator `*` of `double`: the double nearest to the exact product. -/
def double_mul (x y : ℚ) : ℚ := round_double (x * y)

/-- The operator `/` of `double` with a divisor that is not zero: the double nearest to
the exact quotient. -/
def double_div (x y : ℚ) : ℚ := round_double (x / y)

/-! ## src/include/xdot_cpp/xdot/elements.h, src/src/xdot/elements.cpp -/

/-- The struct `Point`. -/
structure Point where
  x : ℚ
  y : ℚ
  deriving DecidableEq, Repr

/-- The struct `BoundingBox`. -/
structure BoundingBox where
  x1 : ℚ
  y1 : ℚ
  x2 : ℚ
  y2 : ℚ
  deriving DecidableEq, Repr

/-- The method `BoundingBox::contains`. -/
def BoundingBox.contains (bb : BoundingBox) (p : Point) : Bool :=
  decide (p.x ≥ bb.x1) && decide (p.x ≤ bb.x2) && decide (p.y ≥ bb.y1) && decide (p.y ≤ bb.y2)

/-- The class `EllipseShape`. -/
structure EllipseShape where
  center_ : Point
  width_ : ℚ
  height_ : ℚ
  pen_ : Pen
  deriving DecidableEq, Repr

/-- The class `PolygonShape`. -/
structure PolygonShape where
  points_ : List Point
  pen_ : Pen
  deriving DecidableEq, Repr

/-- The class `PolylineShape`. -/
structure PolylineShape where
  points_ : List Point
  pen_ : Pen
  deriving DecidableEq, Repr

/-- The class `BezierShape`. -/
structure BezierShape where
  control_points_ : List Point
  pen_ : Pen
  deriving DecidableEq, Repr

/-- The class `TextShape`. -/
structure TextShape where
  position_ : Point
  text_ : List Char
  pen_ : Pen
  deriving DecidableEq, Repr

/-- The class `ImageShape`; its constructor takes no pen, so `pen_` is `Pen()`. -/
structure ImageShape where
  position_ : Point
  width_ : ℚ
  height_ : ℚ
  image_path_ : List Char
  pen_ : Pen
  deriving DecidableEq, Repr

/-- The closed set of classes derived from `Shape`. -/
inductive Shape
  | ellipse (s : EllipseShape)
  | polygon (s : PolygonShape)
  | polyline (s : PolylineShape)
  | bezier (s : BezierShape)
  | text (s : TextShape)
  | image (s : ImageShape)
  deriving DecidableEq, Repr

/-- The loop of `PolygonShape::bounding_box` over the points, with the running
`min_x, min_y, max_x, max_y`. -/
def bounding_box_loop : List Point → BoundingBox → BoundingBox
  | [], bb => bb
  | point :: rest, bb =>
    bounding_box_loop rest
      ⟨min bb.x1 point.x, min bb.y1 point.y, max bb.x2 point.x, max bb.y2 point.y⟩

/-- The method `PolygonShape::bounding_box`. -/
def PolygonShape.bounding_box (s : PolygonShape) : BoundingBox :=
  match s.points_ with
  | [] => ⟨0, 0, 0, 0⟩
  | p0 :: _ => bounding_box_loop s.points_ ⟨p0.x, p0.y, p0.x, p0.y⟩

/-- The abscissa `(pj.x - pi.x) * (p.y - pi.y) / (pj.y - pi.y) + pi.x` that the loop of
`PolygonShape::contains_point` compares `p.x` with, every operation rounded as the machine
rounds it. The code evaluates it only behind `(pi.y > p.y) != (pj.y > p.y)`, where
`pj.y - pi.y` is not zero. -/
def crossing_abscissa (p pi pj : Point) : ℚ :=
  double_add
    (double_div (double_mul (double_sub pj.x pi.x) (double_sub p.y pi.y)) (double_sub pj.y pi.y))
    pi.x

/-- The loop of `PolygonShape::contains_point`: `pts` are the points from index `i`
on, `pj` is `points_[j]`, and `inside` the flag so far. -/
def contains_point_loop (p : Point) : List Point → Point → Bool → Bool
  | [], _, inside => inside
  | pi :: pts, pj, inside =>
    let inside1 :=
      if (decide (pi.y > p.y) != decide (pj.y > p.y)) &&
          decide (p.x < crossing_abscissa p pi pj) then !inside
      else inside
    contains_point_loop p pts pi inside1

/-- The method `PolygonShape::contains_point`. -/
def PolygonShape.contains_point (s : PolygonShape) (p : Point) : Bool :=
  if s.points_.length < 3 then false
  else contains_point_loop p s.points_ (s.points_.getD (s.points_.length - 1) ⟨0, 0⟩) false

/-! ## The library conversions `std::stoi` and `std::stod` -/

/-- The exceptions of the standard library that the conversions throw. -/
inductive StdException
  | invalid_argument
  | out_of_range
  deriving DecidableEq, Repr

/-- The number a string of decimal digits denotes. -/
def decimal_value (digits : List Char) : Nat :=
  digits.foldl (fun acc c => 10 * acc + (c.toNat - '0'.toNat)) 0

/-- The call `std::stoi(num_str)` on a non-empty string of decimal digits:
`std::out_of_range` when the number is above `INT_MAX`. -/
def stoi (num_str : List Char) : Except StdException Int :=
  if 2 ^ 31 ≤ decimal_value num_str then .error StdException.out_of_range
  else .ok (decimal_value num_str : Int)

/-- The call `std::stod(num_str)` on a non-empty string of decimal digits and
points, as `read_float` builds it. The conversion reads the digits, one point
and the digits after it; `std::invalid_argument` when there is no digit,
`std::out_of_range` when the value rounds beyond the largest double or (as
glibc reports it) is a tiny value that is not a double; otherwise the double
nearest to the value. -/
def stod (num_str : List Char) : Except StdException ℚ :=
  let int_part := num_str.takeWhile Char.isDigit
  let after := num_str.dropWhile Char.isDigit
  let frac_part :=
    match after with
    | '.' :: u => u.takeWhile Char.isDigit
    | _ => []
  if int_part.isEmpty && frac_part.isEmpty then .error StdException.invalid_argument
  else
    let q : ℚ := (decimal_value (int_part ++ frac_part) : ℚ) / 10 ^ frac_part.length
    if 2 ^ 1024 - 2 ^ 970 ≤ q then .error StdException.out_of_range
    else if 0 < q ∧ q < 1 / 2 ^ 1022 ∧ round_to_double q ≠ q then
      .error StdException.out_of_range
    else .ok (round_to_double q)

/-! ## src/include/xdot_cpp/xdot/xdot_parser.h, src/src/xdot/xdot_parser.cpp -/

/-- The state of an `XDotAttrParser`; `rest` is `data_` from `pos_` on. -/
structure XDotAttrParser where
  data_ : List Char
  rest : List Char
  current_pen_ : Pen
  shapes_ : List Shape
  deriving DecidableEq, Repr

/-- The loop of the constructor that replaces every doubled backslash by one. -/
def fix_backslashes : List Char → List Char
  | '\\' :: '\\' :: cs => '\\' :: fix_backslashes cs
  | c :: cs => c :: fix_backslashes cs
  | [] => []

/-- The constructor `XDotAttrParser::XDotAttrParser(xdot_data, broken_backslashes)`. -/
def XDotAttrParser.new (xdot_data : List Char) (broken_backslashes : Bool := false) :
    XDotAttrParser :=
  let data := if broken_backslashes then fix_backslashes xdot_data else xdot_data
  { data_ := data, rest := data, current_pen_ := Pen.new, shapes_ := [] }

/-- The method `XDotAttrParser::has_more`. -/
def XDotAttrParser.has_more (s : XDotAttrParser) : Bool := !s.rest.isEmpty

/-- The method `XDotAttrParser::current_char`. -/
def XDotAttrParser.current_char (s : XDotAttrParser) : Char := s.rest.headD '\x00'

/-- The method `XDotAttrParser::advance`. -/
def XDotAttrParser.advance (s : XDotAttrParser) : XDotAttrParser :=
  { s with rest := s.rest.drop 1 }

/-- The method `XDotAttrParser::skip_whitespace`: advance while the current
character is white space. -/
def XDotAttrParser.skip_whitespace (s : XDotAttrParser) : XDotAttrParser :=
  { s with rest := s.rest.dropWhile Dot.is_whitespace }

/-- The method `XDotAttrParser::read_code`: the letters at the cursor. -/
def XDotAttrParser.read_code (s : XDotAttrParser) : List Char × XDotAttrParser :=
  let s := s.skip_whitespace
  (s.rest.takeWhile Char.isAlpha, { s with rest := s.rest.dropWhile Char.isAlpha })

/-- The method `XDotAttrParser::read_int`. -/
def XDotAttrParser.read_int (s : XDotAttrParser) : Except StdException (Int × XDotAttrParser) :=
  let s := s.skip_whitespace
  let negative := s.current_char == '-'
  let s := if negative then s.advance else s
  let num_str := s.rest.takeWhile Char.isDigit
  let s := { s with rest := s.rest.dropWhile Char.isDigit }
  if num_str.isEmpty then .ok (0, s)
  else
    match stoi num_str with
    | .error e => .error e
    | .ok result => .ok (if negative then -result else result, s)

/-- The method `XDotAttrParser::read_float`. -/
def XDotAttrParser.read_float (s : XDotAttrParser) : Except StdException (ℚ × XDotAttrParser) :=
  let s := s.skip_whitespace
  let negative := s.current_char == '-'
  let s := if negative then s.advance else s
  let num_str := s.rest.takeWhile (fun c => c.isDigit || c == '.')
  let s := { s with rest := s.rest.dropWhile (fun c => c.isDigit || c == '.') }
  if num_str.isEmpty then .ok (0, s)
  else
    match stod num_str with
    | .error e => .error e
    | .ok result => .ok (if negative then -result else result, s)

/-- The method `XDotAttrParser::transform`: the identity. -/
def XDotAttrParser.transform (x y : ℚ) : Point := ⟨x, y⟩

/-- The method `XDotAttrParser::read_point`. -/
def XDotAttrParser.read_point (s : XDotAttrParser) : Except StdException (Point × XDotAttrParser) := do
  let (x, s) ← s.read_float
  let (y, s) ← s.read_float
  pure (XDotAttrParser.transform x y, s)

/-- The method `XDotAttrParser::read_text`: the loop appends `length` characters,
or those that are left. -/
def XDotAttrParser.read_text (s : XDotAttrParser) :
    Except StdException (List Char × XDotAttrParser) := do
  let s := s.skip_whitespace
  let (length, s) ← s.read_int
  let s := s.skip_whitespace
  let s := if s.current_char == '-' then s.advance.skip_whitespace else s
  pure (s.rest.take length.toNat, { s with rest := s.rest.drop length.toNat })

/-- The loop of `XDotAttrParser::read_polygon`, with the number of points still to read. -/
def read_polygon_loop : Nat → XDotAttrParser → List Point →
    Except StdException (List Point × XDotAttrParser)
  | 0, s, points => .ok (points, s)
  | n + 1, s, points => do
    let (point, s) ← s.read_point
    read_polygon_loop n s (points ++ [point])

/-- The method `XDotAttrParser::read_polygon`. -/
def XDotAttrParser.read_polygon (s : XDotAttrParser) :
    Except StdException (List Point × XDotAttrParser) := do
  let (num_points, s) ← s.read_int
  read_polygon_loop num_points.toNat s []

/-- The method `XDotAttrParser::read_color`. -/
def XDotAttrParser.read_color (s : XDotAttrParser) : Except StdException (Color × XDotAttrParser) := do
  let (color_spec, s) ← s.read_text
  pure (lookup_color color_spec, s)

/-- The method `XDotAttrParser::handle_ellipse`. -/
def XDotAttrParser.handle_ellipse (s : XDotAttrParser) : Except StdException XDotAttrParser := do
  let (center, s) ← s.read_point
  let (width, s) ← s.read_float
  let (height, s) ← s.read_float
  pure { s with shapes_ := s.shapes_ ++ [Shape.ellipse ⟨center, width, height, s.current_pen_⟩] }

/-- The method `XDotAttrParser::handle_polygon`. -/
def XDotAttrParser.handle_polygon (s : XDotAttrParser) : Except StdException XDotAttrParser := do
  let (points, s) ← s.read_polygon
  pure { s with shapes_ := s.shapes_ ++ [Shape.polygon ⟨points, s.current_pen_⟩] }

/-- The method `XDotAttrParser::handle_polyline`. -/
def XDotAttrParser.handle_polyline (s : XDotAttrParser) : Except StdException XDotAttrParser := do
  let (points, s) ← s.read_polygon
  pure { s with shapes_ := s.shapes_ ++ [Shape.polyline ⟨points, s.current_pen_⟩] }

/-- The method `XDotAttrParser::handle_bezier`. -/
def XDotAttrParser.handle_bezier (s : XDotAttrParser) : Except StdException XDotAttrParser := do
  let (control_points, s) ← s.read_polygon
  pure { s with shapes_ := s.shapes_ ++ [Shape.bezier ⟨control_points, s.current_pen_⟩] }

/-- The method `XDotAttrParser::handle_text`; the alignment and the width are read and dropped. -/
def XDotAttrParser.handle_text (s : XDotAttrParser) : Except StdException XDotAttrParser := do
  let (position, s) ← s.read_point
  let (_, s) ← s.read_int
  let (_, s) ← s.read_float
  let (text, s) ← s.read_text
  pure { s with shapes_ := s.shapes_ ++ [Shape.text ⟨position, text, s.current_pen_⟩] }

/-- The method `XDotAttrParser::handle_image`. -/
def XDotAttrParser.handle_image (s : XDotAttrParser) : Except StdException XDotAttrParser := do
  let (position, s) ← s.read_point
  let (width, s) ← s.read_float
  let (height, s) ← s.read_float
  let (image_path, s) ← s.read_text
  pure { s with shapes_ := s.shapes_ ++ [Shape.image ⟨position, width, height, image_path, Pen.new⟩] }

/-- The test `style.find(word) != std::string::npos`. -/
def contains_word (style word : List Char) : Bool :=
  style.tails.any (fun t => word.isPrefixOf t)

/-- The method `XDotAttrParser::handle_style`. -/
def XDotAttrParser.handle_style (s : XDotAttrParser) : Except StdException XDotAttrParser := do
  let (style, s) ← s.read_text
  if contains_word style "solid".toList then
    pure { s with current_pen_ := { s.current_pen_ with line_style := LineStyle.SOLID } }
  else if contains_word style "dashed".toList then
    pure { s with current_pen_ := { s.current_pen_ with line_style := LineStyle.DASHED } }
  else if contains_word style "dotted".toList then
    pure { s with current_pen_ := { s.current_pen_ with line_style := LineStyle.DOTTED } }
  else pure s

/-- The method `XDotAttrParser::handle_color`. -/
def XDotAttrParser.handle_color (s : XDotAttrParser) : Except StdException XDotAttrParser := do
  let (color, s) ← s.read_color
  pure { s with current_pen_ := { s.current_pen_ with color := color } }

/-- The method `XDotAttrParser::handle_fill_color`. -/
def XDotAttrParser.handle_fill_color (s : XDotAttrParser) : Except StdException XDotAttrParser := do
  let (fill_color, s) ← s.read_color
  pure { s with current_pen_ := { s.current_pen_ with fill_color := fill_color } }

/-- The method `XDotAttrParser::handle_font`. -/
def XDotAttrParser.handle_font (s : XDotAttrParser) : Except StdException XDotAttrParser := do
  let (font_size, s) ← s.read_float
  let (font_name, s) ← s.read_text
  pure { s with current_pen_ :=
    { s.current_pen_ with font_family := font_name, font_size := font_size } }

/-- The chain of comparisons on `code` in `XDotAttrParser::parse`; a code that is
none of the ten is ignored. -/
def XDotAttrParser.dispatch (code : List Char) (s : XDotAttrParser) :
    Except StdException XDotAttrParser :=
  if code = ['E'] then s.handle_ellipse
  else if code = ['P'] then s.handle_polygon
  else if code = ['L'] then s.handle_polyline
  else if code = ['B'] then s.handle_bezier
  else if code = ['T'] then s.handle_text
  else if code = ['I'] then s.handle_image
  else if code = ['S'] then s.handle_style
  else if code = ['c'] then s.handle_color
  else if code = ['C'] then s.handle_fill_color
  else if code = ['F'] then s.handle_font
  else .ok s

/-- How a decode ends without a result: with an exception of the library, which
nothing in the decoder catches, or because the fuel of the embedding was used up. -/
inductive DecodeFailure
  | thrown (e : StdException)
  | out_of_fuel
  deriving DecidableEq, Repr

/-- The loop `while (has_more())` of `XDotAttrParser::parse`. -/
def parse_loop : Nat → XDotAttrParser → Except DecodeFailure XDotAttrParser
  | 0, _ => .error DecodeFailure.out_of_fuel
  | fuel + 1, s =>
    if s.has_more then
      let s := s.skip_whitespace
      if !s.has_more then .ok s
      else
        let (code, s) := s.read_code
        match s.dispatch code with
        | .error e => .error (DecodeFailure.thrown e)
        | .ok s => parse_loop fuel s
    else .ok s

/-- The method `XDotAttrParser::parse`: it clears `shapes_` and rewinds `pos_`, and
returns `shapes_` with the state the parser is left in. `fuel` bounds the
iterations of the loop. -/
def XDotAttrParser.parse (fuel : Nat) (s : XDotAttrParser) :
    Except DecodeFailure (List Shape × XDotAttrParser) :=
  match parse_loop fuel { s with shapes_ := [], rest := s.data_ } with
  | .error e => .error e
  | .ok s => .ok (s.shapes_, s)

/-- The method `XDotParser::parse_xdot_attr`: a fresh `XDotAttrParser` on the string, and
what its `parse` returns. -/
def parse_xdot_attr (fuel : Nat) (xdot_data : List Char) : Except DecodeFailure (List Shape) :=
  match (XDotAttrParser.new xdot_data).parse fuel with
  | .error e => .error e
  | .ok (shapes, _) => .ok shapes

end XDot

end XDotCpp

/-! ## Vocabulary of the specification -/

namespace XDotCpp

namespace Dot

/-- The position `(l1, c1)` is not after `(l2, c2)` in the text: an earlier line, or the
same line and no later column. -/
def pos_le (l1 c1 l2 c2 : Nat) : Prop := l1 < l2 ∨ (l1 = l2 ∧ c1 ≤ c2)

/-- A lexer at line `line` and column `column` with `rest` unread and no peeked token. -/
def lx (rest : List Char) (line column : Nat) : DotLexer :=
  ⟨rest, line, column, Token.default, false⟩

/-- An identifier: a letter or an underscore, then letters, digits and underscores. -/
def is_identifier (w : List Char) : Bool :=
  match w with
  | [] => false
  | c :: cs => (c.isAlpha || c == '_') && cs.all (fun d => d.isAlphanum || d == '_')

/-- The six keywords. -/
def keywords : List (List Char) :=
  ["strict".toList, "graph".toList, "digraph".toList, "node".toList, "edge".toList,
    "subgraph".toList]

/-- The text is not continued by a character that an identifier could go on with. -/
def ends_word (r : List Char) : Bool :=
  match r with
  | [] => true
  | c :: _ => !(c.isAlphanum || c == '_')

/-- The body of the quoted literal that denotes `s`: a backslash goes before every
backslash and every double quote. -/
def escape_string : List Char → List Char
  | [] => []
  | c :: cs =>
    if c = '\\' ∨ c = '"' then '\\' :: c :: escape_string cs else c :: escape_string cs

/-- A parser whose lexer is `lx rest line column` and whose current token is `current`. -/
def ps (rest : List Char) (line column : Nat) (current : Token) : DotParser :=
  ⟨lx rest line column, current⟩

/-- An id as it is written in the text: a word, or the literal of a quoted string. -/
inductive IdSource
  | plain (w : List Char)
  | quoted (s : List Char)

/-- The characters of the id in the text. -/
def IdSource.literal : IdSource → List Char
  | .plain w => w
  | .quoted s => '"' :: (escape_string s ++ ['"'])

/-- The id that the text denotes. -/
def IdSource.value : IdSource → List Char
  | .plain w => w
  | .quoted s => s

/-- A plain id is an identifier that is no keyword; every string can be quoted. -/
def IdSource.valid : IdSource → Bool
  | .plain w => is_identifier w && !keywords.contains w
  | .quoted _ => true

/-- The keyword of a graph type. -/
def GraphType.keyword : GraphType → List Char
  | .GRAPH => "graph".toList
  | .DIGRAPH => "digraph".toList

/-- The optional id of a graph in the text, with the space after it. -/
def id_text : Option IdSource → List Char
  | none => []
  | some i => i.literal ++ [' ']

/-- The minimal graph text `strict? (graph|digraph) ID? { }`, its parts separated by one
space. -/
def minimal_graph_text (strict : Bool) (type : GraphType) (id : Option IdSource) : List Char :=
  (if strict then "strict ".toList else []) ++ type.keyword ++ [' '] ++ id_text id ++
    ['\x7b', ' ', '\x7d']

/-- The text `digraph G { s -> t [n=v]; }`. -/
def one_edge_text (s t : List Char) (n v : IdSource) : List Char :=
  "digraph G \x7b ".toList ++ s ++ " -> ".toList ++ t ++ " [".toList ++ n.literal ++ ['=']
    ++ v.literal ++ "]; \x7d".toList

/-- The messages of the errors that the parser throws, as opposed to the lexer. -/
def Message.is_syntactic : Message → Bool
  | .expected_token_type _ _ => true
  | .expected_graph_or_digraph => true
  | .unexpected_token_in_graph_body _ => true
  | .unexpected_token_in_subgraph_body => true
  | .expected_identifier => true
  | _ => false

/-- The message of a syntax error says that the grammar does not allow a token of type `ty`
at this place: the token type that `consume` expected is another one, the token is neither
`graph` nor `digraph`, it starts no statement of a graph body or of a subgraph body and does
not end the body, or it is not an id. -/
def Message.rejects : Message → TokenType → Bool
  | .expected_token_type expected got, ty => got == ty && ty != expected
  | .expected_graph_or_digraph, ty => ty != TokenType.GRAPH && ty != TokenType.DIGRAPH
  | .unexpected_token_in_graph_body token, ty =>
    token.type == ty &&
      !([TokenType.NODE, TokenType.EDGE, TokenType.GRAPH, TokenType.SUBGRAPH, TokenType.ID,
        TokenType.STR_ID, TokenType.RCURLY, TokenType.EOF_TOKEN].contains ty)
  | .unexpected_token_in_subgraph_body, ty =>
    !([TokenType.SUBGRAPH, TokenType.ID, TokenType.STR_ID, TokenType.RCURLY,
      TokenType.EOF_TOKEN].contains ty)
  | .expected_identifier, ty =>
    !([TokenType.ID, TokenType.STR_ID, TokenType.HTML_ID].contains ty)
  | _, _ => false

/-- The parser state `q` comes from `p` by calls of `advance` that all return. -/
inductive Reaches : DotParser → DotParser → Prop
  | refl (p : DotParser) : Reaches p p
  | step (p p1 q : DotParser) : p.advance = .ok p1 → Reaches p1 q → Reaches p q

/-- The characters that are no part of a word. -/
def special_chars : List Char :=
  ['[', ']', '{', '}', ',', ':', ';', '=', '+', '-', '"', '<', '>', '.', ' ', '\t', '\n', '\x0b',
    '\x0c', '\r', '/', '#', '*', '\\', '\x00']

/-- The cursor of `s2` is not before the cursor of `s1`, and the two states hold the same
peeked token. -/
def DotLexer.le (s1 s2 : DotLexer) : Prop :=
  pos_le s1.line s1.column s2.line s2.column ∧ s2.has_peeked = s1.has_peeked ∧
    s2.peeked_token = s1.peeked_token

/-- Two consecutive tokens are in the order of the text: the line of the second is not
smaller, and on the same line its column is not smaller. -/
def Token.in_order (a b : Token) : Prop :=
  a.line ≤ b.line ∧ (a.line = b.line → a.column ≤ b.column)

end Dot

namespace XDot

/-- A non-negative decimal integer literal: a non-empty string of decimal digits. -/
def is_literal (lit : List Char) : Bool := !lit.isEmpty && lit.all Char.isDigit

/-- The drawing string `E x y w h`. -/
def ellipse_text (x y w h : List Char) : List Char :=
  'E' :: ' ' :: (x ++ ' ' :: (y ++ ' ' :: (w ++ ' ' :: h)))

/-- Twice the signed area of the triangle `a b c`: positive when `c` lies to the left of
the line from `a` to `b`. -/
def orient (a b c : Point) : ℚ := (b.x - a.x) * (c.y - a.y) - (b.y - a.y) * (c.x - a.x)

/-- The edges of a polygon: every vertex with its predecessor, the last vertex being the
predecessor of the first. These are the pairs `(points_[j], points_[i])` that the loop of
`contains_point` visits. -/
def polygon_edges (pts : List Point) : List (Point × Point) :=
  List.zip (pts.getLastD ⟨0, 0⟩ :: pts) pts

/-- The centroid of the vertices: the mean of their coordinates. -/
def centroid (pts : List Point) : Point :=
  ⟨(pts.map (fun v => v.x)).sum / pts.length, (pts.map (fun v => v.y)).sum / pts.length⟩

/-- A strictly convex polygon: the vertices are pairwise distinct, and either every vertex
lies strictly to the left of every edge it is no end of, or every vertex lies strictly to the
right of every such edge. -/
def strictly_convex (pts : List Point) : Prop :=
  pts.Nodup ∧
    ((∀ e ∈ polygon_edges pts, ∀ c ∈ pts, c ≠ e.1 → c ≠ e.2 → 0 < orient e.1 e.2 c) ∨
     (∀ e ∈ polygon_edges pts, ∀ c ∈ pts, c ≠ e.1 → c ≠ e.2 → orient e.1 e.2 c < 0))

/-- The condition under which an iteration of the loop of `contains_point` flips the flag,
for the edge from `e.1` to `e.2`. -/
def toggles (p : Point) (e : Point × Point) : Bool :=
  (decide (e.2.y > p.y) != decide (e.1.y > p.y)) && decide (p.x < crossing_abscissa p e.2 e.1)

/-- The geometric condition that `toggles` computes with rounding: the edge from `e.1` to
`e.2` straddles the horizontal line through `p` and meets it to the right of `p`, the
abscissa of the meeting point taken exactly. -/
def crosses_right_of (p : Point) (e : Point × Point) : Bool :=
  (decide (e.2.y > p.y) != decide (e.1.y > p.y)) &&
    decide (p.x < (e.1.x - e.2.x) * (p.y - e.2.y) / (e.1.y - e.2.y) + e.2.x)

/-- The number is an integer of absolute value at most `bound`. -/
def is_integer_within (bound : Nat) (x : ℚ) : Prop := x.den = 1 ∧ x.num.natAbs ≤ bound

/-- Both coordinates of the point are integers of absolute value at most `bound`. -/
def Point.is_integral_within (bound : Nat) (p : Point) : Prop :=
  is_integer_within bound p.x ∧ is_integer_within bound p.y

/-- The edge leads from a vertex outside the set `b` to a vertex inside it. -/
def enters (b : Point → Bool) (e : Point × Point) : Bool := !b e.1 && b e.2

/-- The point `c` lies on the closed segment from `a` to `b`. -/
def on_segment (a b c : Point) : Bool :=
  decide (orient a b c = 0) && decide (min a.x b.x ≤ c.x) && decide (c.x ≤ max a.x b.x) &&
    decide (min a.y b.y ≤ c.y) && decide (c.y ≤ max a.y b.y)

/-- The closed segments from `a` to `b` and from `c` to `d` have a point in common: either
each separates the ends of the other strictly, or an end of one lies on the other. -/
def segments_meet (a b c d : Point) : Bool :=
  (decide (orient c d a * orient c d b < 0) && decide (orient a b c * orient a b d < 0)) ||
    on_segment c d a || on_segment c d b || on_segment a b c || on_segment a b d

/-- The edge that starts at the vertex of index `i`, in the order of the vertices. -/
def edge_from (pts : List Point) (i : Nat) : Point × Point :=
  (pts.getD i ⟨0, 0⟩, pts.getD ((i + 1) % pts.length) ⟨0, 0⟩)

/-- A simple polygon: at least three pairwise distinct vertices, two edges that follow one
another have only their common vertex in common, and two other edges have no point in
common. -/
def is_simple (pts : List Point) : Bool :=
  decide (3 ≤ pts.length) && decide pts.Nodup &&
    (List.range pts.length).all (fun i => (List.range pts.length).all (fun j =>
      decide (j ≤ i) ||
        (if j = i + 1 then
          !on_segment (edge_from pts i).1 (edge_from pts i).2 (edge_from pts j).2 &&
            !on_segment (edge_from pts j).1 (edge_from pts j).2 (edge_from pts i).1
        else if (j + 1) % pts.length = i then
          !on_segment (edge_from pts i).1 (edge_from pts i).2 (edge_from pts j).1 &&
            !on_segment (edge_from pts j).1 (edge_from pts j).2 (edge_from pts i).2
        else
          !segments_meet (edge_from pts i).1 (edge_from pts i).2 (edge_from pts j).1
            (edge_from pts j).2)))

/-- Twice the signed area of a polygon. -/
def double_area (pts : List Point) : ℚ :=
  ((polygon_edges pts).map (fun e => e.1.x * e.2.y - e.2.x * e.1.y)).sum

/-- The centroid of the area of a polygon. -/
def area_centroid (pts : List Point) : Point :=
  ⟨((polygon_edges pts).map
      (fun e => (e.1.x + e.2.x) * (e.1.x * e.2.y - e.2.x * e.1.y))).sum / (3 * double_area pts),
    ((polygon_edges pts).map
      (fun e => (e.1.y + e.2.y) * (e.1.x * e.2.y - e.2.x * e.1.y))).sum / (3 * double_area pts)⟩

/-- An L-shaped hexagon with arms of width 2 and length 10. -/
def l_shape : List Point := [⟨0, 0⟩, ⟨10, 0⟩, ⟨10, 2⟩, ⟨2, 2⟩, ⟨2, 10⟩, ⟨0, 10⟩]

/-- The hexadecimal digits, in both cases. -/
def hex_digit_chars : List Char := "0123456789abcdefABCDEF".toList

/-- The number a hexadecimal digit stands for. -/
def hex_value (c : Char) : Nat :=
  if c.isDigit then c.toNat - 48
  else if c.isLower then c.toNat - 87
  else c.toNat - 55

end XDot

end XDotCpp

namespace XDotCpp
namespace XDot

/-! ## src/src/xdot/elements.cpp: the bounding boxes and hit tests of the shapes -/

/-- How a hit test ends without a result: it reads an element of a vector at an index
that is not below its size (`operator[]`, undefined behaviour), or the fuel of the
embedding was used up. -/
inductive Fault
  | out_of_bounds
  | out_of_fuel
  deriving DecidableEq, Repr

/-- The constructor `BoundingBox()`: all four coordinates are `0.0`. -/
def BoundingBox.new : BoundingBox := ⟨0, 0, 0, 0⟩

/-- The method `EllipseShape::bounding_box`, every operation rounded as the machine
rounds it. -/
def EllipseShape.bounding_box (s : EllipseShape) : BoundingBox :=
  let half_width := double_div s.width_ 2
  let half_height := double_div s.height_ 2
  ⟨double_sub s.center_.x half_width, double_sub s.center_.y half_height,
    double_add s.center_.x half_width, double_add s.center_.y half_height⟩

/-- The method `EllipseShape::contains_point`, every operation rounded as the machine
rounds it. When `width_ / 2.0` or `height_ / 2.0` is zero, the division gives an infinity
or a NaN, so does the sum of the squares, and the comparison `<= 1.0` is false. -/
def EllipseShape.contains_point (s : EllipseShape) (p : Point) : Bool :=
  if double_div s.width_ 2 = 0 ∨ double_div s.height_ 2 = 0 then false
  else
    let dx := double_div (double_sub p.x s.center_.x) (double_div s.width_ 2)
    let dy := double_div (double_sub p.y s.center_.y) (double_div s.height_ 2)
    decide (double_add (double_mul dx dx) (double_mul dy dy) ≤ 1)

/-- The body that `PolygonShape::bounding_box`, `PolylineShape::bounding_box` and
`BezierShape::bounding_box` share: the least and greatest coordinates of the points. -/
def points_bounding_box (points : List Point) : BoundingBox :=
  match points with
  | [] => BoundingBox.new
  | p0 :: _ => bounding_box_loop points ⟨p0.x, p0.y, p0.x, p0.y⟩

/-- The method `PolylineShape::bounding_box`. -/
def PolylineShape.bounding_box (s : PolylineShape) : BoundingBox := points_bounding_box s.points_

/-- The method `BezierShape::bounding_box`. -/
def BezierShape.bounding_box (s : BezierShape) : BoundingBox :=
  points_bounding_box s.control_points_

/-- The test `std::sqrt(v) <= t` for a sum of squares `v`, on exact numbers: `t` is not
negative and `v` is at most its square. -/
def sqrt_le (v t : ℚ) : Bool := decide (0 ≤ t) && decide (v ≤ t * t)

/-- The value of `points_.size() - 1` in the type `size_t` of 64 bits: it wraps around
when the vector is empty. -/
def size_minus_one (size : Nat) : Nat := (size + 2 ^ 64 - 1) % 2 ^ 64

/-- The loop `for (size_t i = 0; i < points_.size() - 1; i++)` of
`PolylineShape::contains_point`, from the index `i` on. -/
def polyline_loop (points : List Point) (p : Point) (tolerance : ℚ) :
    Nat → Nat → Except Fault Bool
  | 0, _ => .error Fault.out_of_fuel
  | fuel + 1, i =>
    if i < size_minus_one points.length then
      match points.get? i, points.get? (i + 1) with
      | some p1, some p2 =>
        let A := p.x - p1.x
        let B := p.y - p1.y
        let C := p2.x - p1.x
        let D := p2.y - p1.y
        let dot := A * C + B * D
        let len_sq := C * C + D * D
        if len_sq = 0 then polyline_loop points p tolerance fuel (i + 1)
        else
          let param := dot / len_sq
          let xx := if param < 0 then p1.x else if param > 1 then p2.x else p1.x + param * C
          let yy := if param < 0 then p1.y else if param > 1 then p2.y else p1.y + param * D
          let dx := p.x - xx
          let dy := p.y - yy
          if sqrt_le (dx * dx + dy * dy) tolerance then .ok true
          else polyline_loop points p tolerance fuel (i + 1)
      | _, _ => .error Fault.out_of_bounds
    else .ok false

/-- The method `PolylineShape::contains_point`. The loop makes fewer iterations than the
vector has points, unless it reads outside the vector in its first iteration. -/
def PolylineShape.contains_point (s : PolylineShape) (p : Point) : Except Fault Bool :=
  polyline_loop s.points_ p (s.pen_.line_width + 2) (s.points_.length + 1) 0

/-- The method `BezierShape::contains_point`. -/
def BezierShape.contains_point (s : BezierShape) (p : Point) : Bool :=
  s.control_points_.any (fun cp =>
    let dx := p.x - cp.x
    let dy := p.y - cp.y
    sqrt_le (dx * dx + dy * dy) (s.pen_.line_width + 5))

/-- The double nearest to `0.6`. -/
def double_0_6 : ℚ := 5404319552844595 / 9007199254740992

/-- The method `TextShape::bounding_box`. -/
def TextShape.bounding_box (s : TextShape) : BoundingBox :=
  let text_width := (s.text_.length : ℚ) * s.pen_.font_size * double_0_6
  let text_height := s.pen_.font_size
  let half_width := text_width / 2
  let half_height := text_height / 2
  ⟨s.position_.x - half_width, s.position_.y - half_height,
    s.position_.x + half_width, s.position_.y + half_height⟩

/-- The method `TextShape::contains_point`. -/
def TextShape.contains_point (s : TextShape) (p : Point) : Bool := s.bounding_box.contains p

/-- The method `ImageShape::bounding_box`. -/
def ImageShape.bounding_box (s : ImageShape) : BoundingBox :=
  ⟨s.position_.x, s.position_.y, s.position_.x + s.width_, s.position_.y + s.height_⟩

/-- The method `ImageShape::contains_point`. -/
def ImageShape.contains_point (s : ImageShape) (p : Point) : Bool := s.bounding_box.contains p

/-- The virtual method `Shape::bounding_box`. -/
def Shape.bounding_box : Shape → BoundingBox
  | .ellipse s => s.bounding_box
  | .polygon s => s.bounding_box
  | .polyline s => s.bounding_box
  | .bezier s => s.bounding_box
  | .text s => s.bounding_box
  | .image s => s.bounding_box

/-- The virtual method `Shape::contains_point`. -/
def Shape.contains_point : Shape → Point → Except Fault Bool
  | .ellipse s, p => .ok (s.contains_point p)
  | .polygon s, p => .ok (s.contains_point p)
  | .polyline s, p => s.contains_point p
  | .bezier s, p => .ok (s.contains_point p)
  | .text s, p => .ok (s.contains_point p)
  | .image s, p => .ok (s.contains_point p)

/-! ## src/include/xdot_cpp/xdot/graph.h, src/src/xdot/graph.cpp -/

/-- The class `GraphNode`. -/
structure GraphNode where
  id_ : List Char
  shapes_ : List Shape
  url_ : List Char
  highlighted_ : Bool
  deriving DecidableEq, Repr

/-- The class `GraphEdge`. -/
structure GraphEdge where
  source_ : List Char
  target_ : List Char
  shapes_ : List Shape
  url_ : List Char
  highlighted_ : Bool
  deriving DecidableEq, Repr

/-- The constructor `GraphNode::GraphNode(id, shapes)`. -/
def GraphNode.new (id : List Char) (shapes : List Shape) : GraphNode :=
  { id_ := id, shapes_ := shapes, url_ := [], highlighted_ := false }

/-- The constructor `GraphEdge::GraphEdge(source, target, shapes)`. -/
def GraphEdge.new (source target : List Char) (shapes : List Shape) : GraphEdge :=
  { source_ := source, target_ := target, shapes_ := shapes, url_ := [], highlighted_ := false }

/-- The widening of `bbox` by `shape_bbox` with `std::min` and `std::max`. -/
def BoundingBox.extend (bbox shape_bbox : BoundingBox) : BoundingBox :=
  ⟨min bbox.x1 shape_bbox.x1, min bbox.y1 shape_bbox.y1, max bbox.x2 shape_bbox.x2,
    max bbox.y2 shape_bbox.y2⟩

/-- The body that `GraphNode::bounding_box` and `GraphEdge::bounding_box` share. -/
def shapes_bounding_box (shapes : List Shape) : BoundingBox :=
  match shapes with
  | [] => BoundingBox.new
  | s0 :: rest => rest.foldl (fun bbox shape => bbox.extend shape.bounding_box) s0.bounding_box

/-- The body that `GraphNode::contains_point` and `GraphEdge::contains_point` share: the
shapes are tried in their order until one contains the point. -/
def shapes_contain_point (p : Point) : List Shape → Except Fault Bool
  | [] => .ok false
  | shape :: rest =>
    match shape.contains_point p with
    | .error e => .error e
    | .ok true => .ok true
    | .ok false => shapes_contain_point p rest

/-- The method `GraphNode::bounding_box`. -/
def GraphNode.bounding_box (n : GraphNode) : BoundingBox := shapes_bounding_box n.shapes_

/-- The method `GraphNode::contains_point`. -/
def GraphNode.contains_point (n : GraphNode) (p : Point) : Except Fault Bool :=
  shapes_contain_point p n.shapes_

/-- The method `GraphNode::set_url`. -/
def GraphNode.set_url (n : GraphNode) (url : List Char) : GraphNode := { n with url_ := url }

/-- The method `GraphNode::set_highlighted`. -/
def GraphNode.set_highlighted (n : GraphNode) (highlighted : Bool) : GraphNode :=
  { n with highlighted_ := highlighted }

/-- The method `GraphEdge::bounding_box`. -/
def GraphEdge.bounding_box (e : GraphEdge) : BoundingBox := shapes_bounding_box e.shapes_

/-- The method `GraphEdge::contains_point`. -/
def GraphEdge.contains_point (e : GraphEdge) (p : Point) : Except Fault Bool :=
  shapes_contain_point p e.shapes_

/-- The method `GraphEdge::set_url`. -/
def GraphEdge.set_url (e : GraphEdge) (url : List Char) : GraphEdge := { e with url_ := url }

/-- The method `GraphEdge::set_highlighted`. -/
def GraphEdge.set_highlighted (e : GraphEdge) (highlighted : Bool) : GraphEdge :=
  { e with highlighted_ := highlighted }

/-- The objects that the `std::shared_ptr<GraphNode>` and `std::shared_ptr<GraphEdge>` of a
program point to: a shared pointer is the address of its object, and two pointers with the
same address share the object. The pointers are not null. -/
structure Heap where
  nodes : Nat → GraphNode
  edges : Nat → GraphEdge

/-- The heap after the node at the address `a` is replaced by `n`. -/
def Heap.set_node (h : Heap) (a : Nat) (n : GraphNode) : Heap :=
  { h with nodes := fun b => if b = a then n else h.nodes b }

/-- The heap after the edge at the address `a` is replaced by `e`. -/
def Heap.set_edge (h : Heap) (a : Nat) (e : GraphEdge) : Heap :=
  { h with edges := fun b => if b = a then e else h.edges b }

/-- The class `GraphElement`; `nodes_`, `edges_` and the values of `node_map_` are
shared pointers, and `node_map_` is a `std::map`, kept as the list of its entries. -/
structure GraphElement where
  nodes_ : List Nat
  edges_ : List Nat
  background_shapes_ : List Shape
  node_map_ : List (List Char × Nat)
  deriving DecidableEq, Repr

/-- The constructor `GraphElement::GraphElement()`. -/
def GraphElement.new : GraphElement :=
  { nodes_ := [], edges_ := [], background_shapes_ := [], node_map_ := [] }

/-- The call `node_map_.find(key)`: the value of the entry with that key, if there is
one. -/
def map_find (m : List (List Char × Nat)) (key : List Char) : Option Nat :=
  (m.find? (fun kv => kv.1 == key)).map (fun kv => kv.2)

/-- The assignment `node_map_[key] = value`: the entry with that key gets the value, and
a new entry is made when there is none. -/
def map_assign : List (List Char × Nat) → List Char → Nat → List (List Char × Nat)
  | [], key, value => [(key, value)]
  | kv :: m, key, value =>
    if kv.1 == key then (key, value) :: m else kv :: map_assign m key value

/-- The method `GraphElement::add_node`. -/
def GraphElement.add_node (g : GraphElement) (h : Heap) (node : Nat) : GraphElement :=
  { g with nodes_ := g.nodes_ ++ [node],
           node_map_ := map_assign g.node_map_ (h.nodes node).id_ node }

/-- The method `GraphElement::add_edge`. -/
def GraphElement.add_edge (g : GraphElement) (edge : Nat) : GraphElement :=
  { g with edges_ := g.edges_ ++ [edge] }

/-- The method `GraphElement::add_background_shape`. -/
def GraphElement.add_background_shape (g : GraphElement) (shape : Shape) : GraphElement :=
  { g with background_shapes_ := g.background_shapes_ ++ [shape] }

/-- One step of the loops of `GraphElement::bounding_box`: the first box is taken as it
is, every later one widens the box so far. -/
def bounding_box_step (acc : BoundingBox × Bool) (b : BoundingBox) : BoundingBox × Bool :=
  if acc.2 then (b, false) else (acc.1.extend b, false)

/-- The method `GraphElement::bounding_box`. -/
def GraphElement.bounding_box (g : GraphElement) (h : Heap) : BoundingBox :=
  if g.nodes_.isEmpty && g.edges_.isEmpty && g.background_shapes_.isEmpty then BoundingBox.new
  else
    let acc := g.nodes_.foldl (fun acc node => bounding_box_step acc (h.nodes node).bounding_box)
      (BoundingBox.new, true)
    let acc := g.edges_.foldl (fun acc edge => bounding_box_step acc (h.edges edge).bounding_box)
      acc
    let acc := g.background_shapes_.foldl (fun acc shape => bounding_box_step acc shape.bounding_box)
      acc
    acc.1

/-- The loop of `GraphElement::find_node_at` over the nodes from `rbegin()` on; the null
pointer is `none`. -/
def find_node_at_loop (h : Heap) (p : Point) : List Nat → Except Fault (Option Nat)
  | [] => .ok none
  | it :: rest =>
    match (h.nodes it).contains_point p with
    | .error e => .error e
    | .ok true => .ok (some it)
    | .ok false => find_node_at_loop h p rest

/-- The method `GraphElement::find_node_at`. -/
def GraphElement.find_node_at (g : GraphElement) (h : Heap) (p : Point) :
    Except Fault (Option Nat) :=
  find_node_at_loop h p g.nodes_.reverse

/-- The loop of `GraphElement::find_edge_at` over the edges from `rbegin()` on. -/
def find_edge_at_loop (h : Heap) (p : Point) : List Nat → Except Fault (Option Nat)
  | [] => .ok none
  | it :: rest =>
    match (h.edges it).contains_point p with
    | .error e => .error e
    | .ok true => .ok (some it)
    | .ok false => find_edge_at_loop h p rest

/-- The method `GraphElement::find_edge_at`. -/
def GraphElement.find_edge_at (g : GraphElement) (h : Heap) (p : Point) :
    Except Fault (Option Nat) :=
  find_edge_at_loop h p g.edges_.reverse

/-- The method `GraphElement::clear_highlights`. -/
def GraphElement.clear_highlights (g : GraphElement) (h : Heap) : Heap :=
  let h := g.nodes_.foldl (fun h node => h.set_node node ((h.nodes node).set_highlighted false)) h
  g.edges_.foldl (fun h edge => h.set_edge edge ((h.edges edge).set_highlighted false)) h

/-- The method `GraphElement::highlight_node`. -/
def GraphElement.highlight_node (g : GraphElement) (h : Heap) (node_id : List Char) : Heap :=
  match map_find g.node_map_ node_id with
  | some it => h.set_node it ((h.nodes it).set_highlighted true)
  | none => h

/-- The loop of `GraphElement::highlight_edge`, which stops at the first edge with the
source and the target. -/
def highlight_edge_loop (h : Heap) (source target : List Char) : List Nat → Heap
  | [] => h
  | edge :: rest =>
    if (h.edges edge).source_ = source ∧ (h.edges edge).target_ = target then
      h.set_edge edge ((h.edges edge).set_highlighted true)
    else highlight_edge_loop h source target rest

/-- The method `GraphElement::highlight_edge`. -/
def GraphElement.highlight_edge (g : GraphElement) (h : Heap) (source target : List Char) :
    Heap :=
  highlight_edge_loop h source target g.edges_

end XDot
end XDotCpp

namespace XDotCpp
namespace XDot

/-- A heap with two nodes: at the address `0` the circle of radius 2 around `(0, 0)`, at
every other address the circle of radius 1 around `(2, 2)`; the edges have no shapes. -/
def two_circles_heap : Heap :=
  { nodes := fun a =>
      if a = 0 then GraphNode.new ['a'] [Shape.ellipse ⟨⟨0, 0⟩, 4, 4, Pen.new⟩]
      else GraphNode.new ['b'] [Shape.ellipse ⟨⟨2, 2⟩, 2, 2, Pen.new⟩],
    edges := fun _ => GraphEdge.new [] [] [] }

/-- The graph element to which the node at `0` and then the node at `1` were added. -/
def two_circles : GraphElement :=
  (GraphElement.new.add_node two_circles_heap 0).add_node two_circles_heap 1

end XDot
end XDotCpp

namespace XDotCpp
namespace XDot

/-- The parser state `s` with the text `d` in `data_`. -/
def XDotAttrParser.with_data (s : XDotAttrParser) (d : List Char) : XDotAttrParser :=
  { s with data_ := d }

/-- A decimal integer literal with an optional minus sign. -/
def is_int_literal (lit : List Char) : Bool :=
  match lit with
  | '-' :: digits => is_literal digits
  | digits => is_literal digits

/-- The number that a decimal integer literal with an optional minus sign denotes. -/
def int_literal_value (lit : List Char) : Int :=
  match lit with
  | '-' :: digits => -(decimal_value digits : Int)
  | digits => (decimal_value digits : Int)

/-- The text does not start with white space. -/
def starts_without_space (t : List Char) : Bool := t.head?.all (fun c => !Dot.is_whitespace c)

/-- The style string contains none of the three keywords. -/
def no_style_keyword (style : List Char) : Bool :=
  !contains_word style "solid".toList && !contains_word style "dashed".toList &&
    !contains_word style "dotted".toList

/-- The drawing string `S n -style`. -/
def style_text (n style : List Char) : List Char :=
  'S' :: ' ' :: (n ++ ' ' :: '-' :: style)

/-- The drawing string `c n -col`. -/
def color_text (n col : List Char) : List Char :=
  'c' :: ' ' :: (n ++ ' ' :: '-' :: col)

/-- The drawing string `T x y j w n -` followed by the text `t`. -/
def text_text (x y j w n t : List Char) : List Char :=
  'T' :: ' ' :: (x ++ ' ' :: (y ++ ' ' :: (j ++ ' ' :: (w ++ ' ' :: (n ++ ' ' :: '-' :: t)))))

/-- The ten opcodes that `parse` knows. -/
def known_opcodes : List (List Char) :=
  [['E'], ['P'], ['L'], ['B'], ['T'], ['I'], ['S'], ['c'], ['C'], ['F']]

/-- An alphabetic opcode word: one letter or more. -/
def is_opcode_word (u : List Char) : Bool := !u.isEmpty && u.all Char.isAlpha

end XDot
end XDotCpp

/-! ## Vocabulary of the specification: literals and calls of the lexer -/

namespace XDotCpp

namespace Dot

/-- The character that an escape denotes: `n`, `t` and `r` after a backslash denote the
newline, the tab and the carriage return, every other character denotes itself. -/
def unescape (c : Char) : Char :=
  if c = 'n' then '\n' else if c = 't' then '\t' else if c = 'r' then '\r' else c

/-- A piece of the body of a quoted literal: a character that stands for itself, or a
backslash with the character that it escapes. -/
inductive StringPiece
  | plain (c : Char)
  | escaped (c : Char)
  deriving DecidableEq, Repr

/-- The characters of the piece in the text. -/
def StringPiece.literal : StringPiece → List Char
  | .plain c => [c]
  | .escaped c => ['\\', c]

/-- The character that the piece denotes. -/
def StringPiece.value : StringPiece → Char
  | .plain c => c
  | .escaped c => unescape c

/-- A character stands for itself when it is neither the backslash nor the double quote;
the escaped character is any character but NUL. -/
def StringPiece.valid : StringPiece → Bool
  | .plain c => c != '\\' && c != '"'
  | .escaped c => c != '\x00'

/-- The body of the quoted literal that is made of the pieces. -/
def pieces_literal (pieces : List StringPiece) : List Char :=
  (pieces.map StringPiece.literal).flatten

/-- The string that the pieces denote. -/
def pieces_value (pieces : List StringPiece) : List Char :=
  pieces.map StringPiece.value

/-- Whether the text after an opening double quote holds the closing one: a double quote
that no backslash escapes. A backslash escapes the character after it, be it a double
quote or another backslash, unless that character is NUL. -/
def closing_quote : List Char → Bool
  | [] => false
  | [c] => c == '"'
  | c :: d :: t =>
    if c == '"' then true
    else if c == '\\' && d != '\x00' then closing_quote t
    else closing_quote (d :: t)

/-- The number of `<` less the number of `>` in the text. -/
def angle_depth (t : List Char) : Int :=
  (t.count '<' : Int) - (t.count '>' : Int)

/-- The text is not empty and its `<` and `>` balance. -/
def balanced (t : List Char) : Bool :=
  !t.isEmpty && angle_depth t == 0

/-- The text `h` is bracketed text at the head of `h ++ r`: it starts with `<`, its
brackets balance, and they balance in no shorter prefix. -/
def is_bracketed (h : List Char) : Bool :=
  h.head? == some '<' && balanced h && h.inits.all (fun p => p == h || !balanced p)

/-- No prefix of the text balances its brackets. -/
def never_balanced (t : List Char) : Bool :=
  t.inits.all (fun p => !balanced p)

/-- A call of the lexer from outside: `next_token()` or `peek_token()`. -/
inductive LexerCall
  | next
  | peek
  deriving DecidableEq, Repr

/-- The tokens that the calls of `next_token` return when the lexer is called as the list
says, or the error of the first call that throws. What `peek_token` returns is not
listed. -/
def run_calls : List LexerCall → DotLexer → Except ParseError (List Token)
  | [], _ => .ok []
  | .next :: cs, s =>
    match s.next_token with
    | .error e => .error e
    | .ok (t, s1) =>
      match run_calls cs s1 with
      | .error e => .error e
      | .ok ts => .ok (t :: ts)
  | .peek :: cs, s =>
    match s.peek_token with
    | .error e => .error e
    | .ok (_, s1) => run_calls cs s1

/-- The number of calls of `next_token` in the list. -/
def count_next (calls : List LexerCall) : Nat := calls.count LexerCall.next

/-- The lexer with other values in the fields `peeked_token_` and `has_peeked_`. -/
def DotLexer.with_peeked (s : DotLexer) (t : Token) (b : Bool) : DotLexer :=
  ⟨s.rest, s.line, s.column, t, b⟩

/-- The result of a call of the lexer with other values in the fields `peeked_token_` and
`has_peeked_` of the lexer that the call leaves. -/
def lift_peeked (t : Token) (b : Bool) :
    Except ParseError (Token × DotLexer) → Except ParseError (Token × DotLexer)
  | .error e => .error e
  | .ok (tok, s) => .ok (tok, s.with_peeked t b)

/-- Two lexers that read the same text from the same position and answer the next call
alike: they differ at most in a peeked token that is not valid. -/
def DotLexer.agree (a b : DotLexer) : Prop :=
  a.rest = b.rest ∧ a.line = b.line ∧ a.column = b.column ∧ a.has_peeked = b.has_peeked ∧
    (a.has_peeked = true → a.peeked_token = b.peeked_token)

/-- The lexer `a` holds a peeked token that the lexer `b` has still to read: the next call
of `next_token` on `b` returns it, and leaves a lexer with which `a` agrees once its
peeked token is taken. -/
def DotLexer.ahead (a b : DotLexer) : Prop :=
  a.has_peeked = true ∧ b.has_peeked = false ∧
    ∃ b1, b.next_token = .ok (a.peeked_token, b1) ∧
      DotLexer.agree { a with has_peeked := false } b1

end Dot

end XDotCpp

/-! ## Vocabulary of the specification: attribute lists in the text -/

namespace XDotCpp

namespace Dot

/-- A numeral as it is written in the text: digits, then optionally a point with the
digits of the fraction, then optionally an exponent, which is the letter `e` or `E`,
optionally a sign, and digits. -/
structure Numeral where
  whole : List Char
  fraction : Option (List Char)
  exponent : Option (Char × Option Char × List Char)
  deriving DecidableEq, Repr

/-- The characters of the fraction, with the point. -/
def fraction_text : Option (List Char) → List Char
  | none => []
  | some f => '.' :: f

/-- The characters of the exponent, with the letter and the sign. -/
def exponent_text : Option (Char × Option Char × List Char) → List Char
  | none => []
  | some (m, none, ds) => m :: ds
  | some (m, some sg, ds) => m :: sg :: ds

/-- The characters of the numeral in the text. -/
def Numeral.literal (n : Numeral) : List Char :=
  n.whole ++ (fraction_text n.fraction ++ exponent_text n.exponent)

/-- The digits are digits, the numeral starts with one, the letter of the exponent is `e`
or `E`, its sign `+` or `-`, and the exponent has a digit. -/
def Numeral.valid (n : Numeral) : Bool :=
  !n.whole.isEmpty && n.whole.all Char.isDigit &&
    (match n.fraction with
      | none => true
      | some f => f.all Char.isDigit) &&
    (match n.exponent with
      | none => true
      | some (m, none, ds) => (m == 'e' || m == 'E') && !ds.isEmpty && ds.all Char.isDigit
      | some (m, some sg, ds) =>
        (m == 'e' || m == 'E') && (sg == '+' || sg == '-') && !ds.isEmpty && ds.all Char.isDigit)

/-- A name or a value of an attribute as it is written in the text: an identifier, a
numeral, a quoted string or bracketed text. -/
inductive AttrId
  | word (w : List Char)
  | number (n : Numeral)
  | quoted (s : List Char)
  | bracketed (h : List Char)
  deriving DecidableEq, Repr

/-- The characters of the name or value in the text. -/
def AttrId.literal : AttrId → List Char
  | .word w => w
  | .number n => n.literal
  | .quoted s => '"' :: (escape_string s ++ ['"'])
  | .bracketed h => h

/-- The string that the text denotes: the string between the quotes for a quoted string,
the text itself otherwise, brackets included. -/
def AttrId.value : AttrId → List Char
  | .word w => w
  | .number n => n.literal
  | .quoted s => s
  | .bracketed h => h

/-- An identifier is no keyword, a numeral is well formed, bracketed text ends with the
`>` that matches its first `<`; every string can be quoted. -/
def AttrId.valid : AttrId → Bool
  | .word w => is_identifier w && !keywords.contains w
  | .number n => n.valid
  | .quoted _ => true
  | .bracketed h => is_bracketed h

/-- The kind of the token that the lexer returns for the name or value. -/
def AttrId.token_type : AttrId → TokenType
  | .word _ => TokenType.ID
  | .number _ => TokenType.ID
  | .quoted _ => TokenType.STR_ID
  | .bracketed _ => TokenType.HTML_ID

/-- What stands between two elements of an attribute list: a comma, a semicolon, or
nothing but a blank. -/
inductive Separator
  | comma
  | semicolon
  | blank
  deriving DecidableEq, Repr

/-- The character of the separator. -/
def Separator.text : Separator → List Char
  | .comma => [',']
  | .semicolon => [';']
  | .blank => [' ']

/-- An element of an attribute list, `name` or `name=value`, with the separator that
follows it when it is not the last one, and with the white space `pad` that is written
before each of its tokens. -/
structure AttrItem where
  name : AttrId
  value : Option AttrId
  sep : Separator
  pad : List Char
  deriving DecidableEq, Repr

/-- The characters of `=value`. -/
def value_text (pad : List Char) : Option AttrId → List Char
  | none => []
  | some v => pad ++ '=' :: (pad ++ v.literal)

/-- The characters of the element in the text, without its separator. -/
def AttrItem.text (e : AttrItem) : List Char :=
  e.pad ++ (e.name.literal ++ value_text e.pad e.value)

/-- The name and the value are well formed and the padding is white space. -/
def AttrItem.valid (e : AttrItem) : Bool :=
  e.name.valid && (match e.value with
    | none => true
    | some v => v.valid) && e.pad.all is_whitespace

/-- The attribute that the element stands for: a bare name has the empty value. -/
def AttrItem.attribute (e : AttrItem) : Attribute :=
  ⟨e.name.value, match e.value with
    | none => []
    | some v => v.value⟩

/-- The text between the square brackets: the elements with a separator between each
two of them. -/
def attr_items_text : List AttrItem → List Char
  | [] => []
  | [e] => e.text
  | e :: e2 :: es => e.text ++ (e.pad ++ (e.sep.text ++ attr_items_text (e2 :: es)))

/-- A character that can follow a name or a value in an attribute list. -/
def is_terminator (c : Char) : Bool :=
  is_whitespace c || c == '=' || c == ',' || c == ';' || c == ']'

/-- The text goes on with a character that can follow a name or a value. -/
def terminated (r : List Char) : Bool :=
  match r with
  | [] => false
  | c :: _ => is_terminator c

end Dot

end XDotCpp

/-! ## src/src/xdot/xdot_parser.cpp: the class `XDotParser` -/

namespace XDotCpp
namespace XDot

/-- The method `XDotParser::get_attribute_value`: the value of the first attribute with
the name, and `default_value` when there is none. -/
def get_attribute_value (attrs : Dot.AttributeList) (name : List Char)
    (default_value : List Char := []) : List Char :=
  match attrs with
  | [] => default_value
  | attr :: rest =>
    if attr.name == name then attr.value else get_attribute_value rest name default_value

/-- The block `if (!draw.empty()) { auto shapes = parse_xdot_attr(draw);
all.insert(all.end(), shapes.begin(), shapes.end()); }` of `XDotParser::parse`; `fuel`
bounds the iterations of the decoder. -/
def append_drawing (fuel : Nat) (all : List Shape) (draw : List Char) :
    Except DecodeFailure (List Shape) :=
  if !draw.isEmpty then
    match parse_xdot_attr fuel draw with
    | .error e => .error e
    | .ok shapes => .ok (all ++ shapes)
  else .ok all

/-- A heap on which nothing has been allocated; what it holds at its addresses is never
read. -/
def Heap.empty : Heap :=
  { nodes := fun _ => GraphNode.new [] [], edges := fun _ => GraphEdge.new [] [] [] }

/-- The body of the loop over `graph_->nodes` in `XDotParser::parse`. The object that
`std::make_shared<GraphNode>` allocates gets the address that follows those of the nodes
made before it, each of which was added to `nodes_`. -/
def parse_node (fuel : Nat) (state : GraphElement × Heap) (node : Dot.Node) :
    Except DecodeFailure (GraphElement × Heap) := do
  let node_draw := get_attribute_value node.attributes "_draw_".toList
  let node_ldraw := get_attribute_value node.attributes "_ldraw_".toList
  let node_shapes ← append_drawing fuel [] node_draw
  let node_shapes ← append_drawing fuel node_shapes node_ldraw
  if !node_shapes.isEmpty then
    let graph_node := GraphNode.new node.id node_shapes
    let url := get_attribute_value node.attributes "URL".toList
    let graph_node := if !url.isEmpty then graph_node.set_url url else graph_node
    let address := state.1.nodes_.length
    let heap := state.2.set_node address graph_node
    pure (state.1.add_node heap address, heap)
  else pure state

/-- The loop over `graph_->nodes`. -/
def parse_nodes (fuel : Nat) : List Dot.Node → GraphElement × Heap →
    Except DecodeFailure (GraphElement × Heap)
  | [], state => .ok state
  | node :: rest, state =>
    match parse_node fuel state node with
    | .error e => .error e
    | .ok state1 => parse_nodes fuel rest state1

/-- The body of the loop over `graph_->edges` in `XDotParser::parse`, with the address of
the new `GraphEdge` chosen as that of a new `GraphNode` is. -/
def parse_edge (fuel : Nat) (state : GraphElement × Heap) (edge : Dot.Edge) :
    Except DecodeFailure (GraphElement × Heap) := do
  let edge_draw := get_attribute_value edge.attributes "_draw_".toList
  let edge_hdraw := get_attribute_value edge.attributes "_hdraw_".toList
  let edge_ldraw := get_attribute_value edge.attributes "_ldraw_".toList
  let edge_shapes ← append_drawing fuel [] edge_draw
  let edge_shapes ← append_drawing fuel edge_shapes edge_hdraw
  let edge_shapes ← append_drawing fuel edge_shapes edge_ldraw
  if !edge_shapes.isEmpty then
    let graph_edge := GraphEdge.new edge.source edge.target edge_shapes
    let url := get_attribute_value edge.attributes "URL".toList
    let graph_edge := if !url.isEmpty then graph_edge.set_url url else graph_edge
    let address := state.1.edges_.length
    let heap := state.2.set_edge address graph_edge
    pure (state.1.add_edge address, heap)
  else pure state

/-- The loop over `graph_->edges`. -/
def parse_edges (fuel : Nat) : List Dot.Edge → GraphElement × Heap →
    Except DecodeFailure (GraphElement × Heap)
  | [], state => .ok state
  | edge :: rest, state =>
    match parse_edge fuel state edge with
    | .error e => .error e
    | .ok state1 => parse_edges fuel rest state1

/-- The class `XDotParser`: the graph that its constructor is given. -/
structure XDotParser where
  graph_ : Dot.Graph

/-- The method `XDotParser::parse`: the `GraphElement` that it returns and the heap with
the nodes and edges that it has made. An exception of a decode is not caught. -/
def XDotParser.parse (fuel : Nat) (self : XDotParser) :
    Except DecodeFailure (GraphElement × Heap) := do
  let graph_element := GraphElement.new
  let graph_draw := get_attribute_value self.graph_.attributes "_draw_".toList
  let graph_element ←
    if !graph_draw.isEmpty then
      match parse_xdot_attr fuel graph_draw with
      | .error e => .error e
      | .ok bg_shapes =>
        .ok (bg_shapes.foldl (fun g shape => g.add_background_shape shape) graph_element)
    else .ok graph_element
  let state ← parse_nodes fuel self.graph_.nodes (graph_element, Heap.empty)
  parse_edges fuel self.graph_.edges state

/-! ## Vocabulary of the specification: what the orchestrator builds -/

/-- The decode of the value of the attribute `name`; an attribute that is missing has the
empty drawing string. -/
def decode_attribute (fuel : Nat) (attrs : Dot.AttributeList) (name : List Char) :
    Except DecodeFailure (List Shape) :=
  parse_xdot_attr fuel (get_attribute_value attrs name)

/-- The shapes of a node: the decode of `_draw_` followed by the decode of `_ldraw_`. -/
def node_drawing (fuel : Nat) (node : Dot.Node) : Except DecodeFailure (List Shape) :=
  match decode_attribute fuel node.attributes "_draw_".toList with
  | .error e => .error e
  | .ok body =>
    match decode_attribute fuel node.attributes "_ldraw_".toList with
    | .error e => .error e
    | .ok label => .ok (body ++ label)

/-- The shapes of an edge: the decode of `_draw_` followed by the decode of `_hdraw_` and
by the decode of `_ldraw_`. -/
def edge_drawing (fuel : Nat) (edge : Dot.Edge) : Except DecodeFailure (List Shape) :=
  match decode_attribute fuel edge.attributes "_draw_".toList with
  | .error e => .error e
  | .ok line =>
    match decode_attribute fuel edge.attributes "_hdraw_".toList with
    | .error e => .error e
    | .ok head =>
      match decode_attribute fuel edge.attributes "_ldraw_".toList with
      | .error e => .error e
      | .ok label => .ok (line ++ head ++ label)

/-- Every drawing attribute that `XDotParser::parse` reads is decoded within `fuel`
iterations: the `_draw_` of the graph, the `_draw_` and `_ldraw_` of every node, and the
`_draw_`, `_hdraw_` and `_ldraw_` of every edge. -/
def drawings_decode (fuel : Nat) (graph : Dot.Graph) : Prop :=
  (∃ shapes, decode_attribute fuel graph.attributes "_draw_".toList = .ok shapes) ∧
    (∀ node ∈ graph.nodes, ∃ shapes, node_drawing fuel node = .ok shapes) ∧
    (∀ edge ∈ graph.edges, ∃ shapes, edge_drawing fuel edge = .ok shapes)

/-- The `GraphNode` that the specification gives to a node whose shapes are `shapes`: none
when there is no shape, else the node with the id, the shapes, the value of the attribute
`URL` (empty when there is none) and no highlight. -/
def expected_node (node : Dot.Node) (shapes : List Shape) : Option GraphNode :=
  if shapes.isEmpty then none
  else some ⟨node.id, shapes, get_attribute_value node.attributes "URL".toList, false⟩

/-- The `GraphEdge` that the specification gives to an edge whose shapes are `shapes`. -/
def expected_edge (edge : Dot.Edge) (shapes : List Shape) : Option GraphEdge :=
  if shapes.isEmpty then none
  else some ⟨edge.source, edge.target, shapes,
    get_attribute_value edge.attributes "URL".toList, false⟩

/-- The nodes that the specification expects for the nodes of a graph, in their order. -/
def expected_nodes (fuel : Nat) (nodes : List Dot.Node) : List GraphNode :=
  nodes.filterMap (fun node =>
    match node_drawing fuel node with
    | .error _ => none
    | .ok shapes => expected_node node shapes)

/-- The edges that the specification expects for the edges of a graph, in their order. -/
def expected_edges (fuel : Nat) (edges : List Dot.Edge) : List GraphEdge :=
  edges.filterMap (fun edge =>
    match edge_drawing fuel edge with
    | .error _ => none
    | .ok shapes => expected_edge edge shapes)

/-- A graph with the nodes `a`, drawn as an ellipse and with a `URL`, and `b`, without a
drawing, and with the edges from `a` to `b`, drawn with an arrowhead only, and from `b` to
`a`, without a drawing. -/
def sample_graph : Dot.Graph :=
  { type := Dot.GraphType.DIGRAPH, strict := false, id := ['G'], attributes := [],
    nodes := [⟨['a'], [⟨"_draw_".toList, "E 0 0 1 1".toList⟩, ⟨"URL".toList, ['u']⟩]⟩,
      ⟨['b'], []⟩],
    edges := [⟨['a'], ['b'], [⟨"_hdraw_".toList, "E 0 0 1 1".toList⟩]⟩, ⟨['b'], ['a'], []⟩],
    subgraphs := [] }

/-- A drawing string whose style string has `2^31` characters. -/
def overlong_drawing : List Char :=
  style_text "2147483648".toList (List.replicate (2 ^ 31) 'x')

/-- A graph with the node `a`, drawn as an ellipse, and the node `b`, whose `_draw_` is the
overlong drawing string. -/
def overlong_node_graph : Dot.Graph :=
  { type := Dot.GraphType.DIGRAPH, strict := false, id := ['G'], attributes := [],
    nodes := [⟨['a'], [⟨"_draw_".toList, "E 0 0 1 1".toList⟩]⟩,
      ⟨['b'], [⟨"_draw_".toList, overlong_drawing⟩]⟩],
    edges := [], subgraphs := [] }

/-- A graph with an edge from `a` to `b`, drawn as an ellipse, and an edge from `b` to `a`,
whose `_draw_` is the overlong drawing string. -/
def overlong_edge_graph : Dot.Graph :=
  { type := Dot.GraphType.DIGRAPH, strict := false, id := ['G'], attributes := [],
    nodes := [],
    edges := [⟨['a'], ['b'], [⟨"_draw_".toList, "E 0 0 1 1".toList⟩]⟩,
      ⟨['b'], ['a'], [⟨"_draw_".toList, overlong_drawing⟩]⟩],
    subgraphs := [] }

end XDot
end XDotCpp

/-! ## Vocabulary of the specification: a graph inside a subgraph -/

namespace XDotCpp
namespace XDot

/-- A DOT text whose nodes `a` and `b` and whose edge from `a` to `b` are declared inside
the subgraph `s`; the node `a` and the edge carry a drawing. -/
def nested_text : List Char :=
  "digraph \x7b subgraph s \x7b a [_draw_=\"E 0 0 1 1\"]; b; a -> b [_draw_=\"E 0 0 1 1\"]; \x7d \x7d".toList

/-- The graph that the text `nested_text` stands for: nothing at the top level, and the
subgraph `s` with the two nodes and the edge. -/
def nested_graph : Dot.Graph :=
  { type := Dot.GraphType.DIGRAPH, strict := false, id := [], attributes := [], nodes := [],
    edges := [],
    subgraphs := [Dot.Subgraph.mk ['s'] []
      [⟨['a'], [⟨"_draw_".toList, "E 0 0 1 1".toList⟩]⟩, ⟨['b'], []⟩]
      [⟨['a'], ['b'], [⟨"_draw_".toList, "E 0 0 1 1".toList⟩]⟩] []] }

end XDot
end XDotCpp

/-! ## Vocabulary of the specification: unions of boxes -/

namespace XDotCpp
namespace XDot

/-- The number `v` is the least of the list `vals`. -/
def is_least (vals : List ℚ) (v : ℚ) : Prop := v ∈ vals ∧ ∀ w ∈ vals, v ≤ w

/-- The number `v` is the greatest of the list `vals`. -/
def is_greatest (vals : List ℚ) (v : ℚ) : Prop := v ∈ vals ∧ ∀ w ∈ vals, w ≤ v

/-- The box `r` has the four extremes of the boxes: the least `x1`, the least `y1`, the
greatest `x2` and the greatest `y2`. -/
def box_extremes (boxes : List BoundingBox) (r : BoundingBox) : Prop :=
  is_least (boxes.map (fun b => b.x1)) r.x1 ∧ is_least (boxes.map (fun b => b.y1)) r.y1 ∧
    is_greatest (boxes.map (fun b => b.x2)) r.x2 ∧ is_greatest (boxes.map (fun b => b.y2)) r.y2

/-- The box `r` is the component-wise union of the boxes of a collection: the zero box
`(0, 0, 0, 0)` for the empty collection, and otherwise the box
`(min x1, min y1, max x2, max y2)` over the boxes. -/
def is_box_union (boxes : List BoundingBox) (r : BoundingBox) : Prop :=
  if boxes = [] then r = ⟨0, 0, 0, 0⟩ else box_extremes boxes r

/-- The boxes of the constituents of a graph element: those of its nodes, of its edges
and of its background shapes. -/
def GraphElement.boxes (g : GraphElement) (h : Heap) : List BoundingBox :=
  g.nodes_.map (fun node => (h.nodes node).bounding_box) ++
    g.edges_.map (fun edge => (h.edges edge).bounding_box) ++
    g.background_shapes_.map (fun shape => shape.bounding_box)

end XDot
end XDotCpp

/-! ## Vocabulary of the specification: the id index of a graph element -/

namespace XDotCpp
namespace XDot

/-- The graph element after the calls `add_node` for the nodes of `nodes`, in their
order. -/
def GraphElement.add_nodes (g : GraphElement) (h : Heap) (nodes : List Nat) : GraphElement :=
  nodes.foldl (fun g node => g.add_node h node) g

/-- The last node of the list `nodes` that has the id `id`, if there is one. -/
def last_with_id (h : Heap) (nodes : List Nat) (id : List Char) : Option Nat :=
  nodes.reverse.find? (fun a => (h.nodes a).id_ == id)

/-- The id index follows the node list: for every id it returns the last node of the list
with that id, and nothing when no node of the list has the id. -/
def index_consistent (g : GraphElement) (h : Heap) : Prop :=
  ∀ id : List Char, map_find g.node_map_ id = last_with_id h g.nodes_ id

/-- A heap whose nodes all have the id `a`: at the address `0` the circle of diameter 1
around `(0, 0)`, at every other address the circle of diameter 1 around `(5, 5)`. -/
def twin_heap : Heap :=
  { nodes := fun a =>
      if a = 0 then GraphNode.new ['a'] [Shape.ellipse ⟨⟨0, 0⟩, 1, 1, Pen.new⟩]
      else GraphNode.new ['a'] [Shape.ellipse ⟨⟨5, 5⟩, 1, 1, Pen.new⟩],
    edges := fun _ => GraphEdge.new [] [] [] }

/-- The graph element to which the node at `0` and then the node at `1` of the heap
`twin_heap` were added. -/
def twins : GraphElement := GraphElement.new.add_nodes twin_heap [0, 1]

/-- A DOT text with two statements for the node `a`, each with a drawing. -/
def twin_text : List Char :=
  "digraph \x7b a [_draw_=\"E 0 0 1 1\"]; a [_draw_=\"E 0 0 1 1\"]; \x7d".toList

/-- The graph that the text `twin_text` stands for: the parser keeps both statements as
nodes. -/
def twin_graph : Dot.Graph :=
  { type := Dot.GraphType.DIGRAPH, strict := false, id := [], attributes := [],
    nodes := [⟨['a'], [⟨"_draw_".toList, "E 0 0 1 1".toList⟩]⟩,
      ⟨['a'], [⟨"_draw_".toList, "E 0 0 1 1".toList⟩]⟩],
    edges := [], subgraphs := [] }

end XDot
end XDotCpp

/-! ## src/src/xdot/color.cpp: `Color::from_hsv` -/

namespace XDotCpp
namespace XDot

/-- The function `std::fmod(x, y)` for `y` other than zero, on exact numbers: `x - n * y`
where `n` is the quotient `x / y` with its fraction cut off, so the result has the sign of
`x`. -/
def fmod (x y : ℚ) : ℚ :=
  let q := x / y
  let n : Int := if 0 ≤ q then Rat.floor q else -Rat.floor (-q)
  x - n * y

/-- The function `Color::from_hsv` at a finite hue `h`. -/
def Color.from_hsv (h s v : ℚ) : Color :=
  let c := v * s
  let x := c * (1 - |fmod (h / 60) 2 - 1|)
  let m := v - c
  let rgb : ℚ × ℚ × ℚ :=
    if h ≥ 0 ∧ h < 60 then (c, x, 0)
    else if h ≥ 60 ∧ h < 120 then (x, c, 0)
    else if h ≥ 120 ∧ h < 180 then (0, c, x)
    else if h ≥ 180 ∧ h < 240 then (0, x, c)
    else if h ≥ 240 ∧ h < 300 then (x, 0, c)
    else (c, 0, x)
  Color.rgb (rgb.1 + m) (rgb.2.1 + m) (rgb.2.2 + m)

/-- A `double` that is handed to `Color::from_hsv` as the hue: a finite number, an
infinity, or a NaN. -/
inductive Hue
  | finite (h : ℚ)
  | infinity (negative : Bool)
  | nan
  deriving DecidableEq, Repr

/-- The function `Color::from_hsv` at every `double` hue, with finite `s` and `v`: the four
components of the colour it returns, `none` for a component that is a NaN. At a finite hue
they are the components of `Color.from_hsv`. At an infinity or a NaN,
`std::fmod(h / 60.0, 2)` is a NaN and so is `x`; none of the five conditions holds (at
`+inf`, `h >= 0` holds and every `h < ...` fails), so the last branch assigns `r = c`,
`g = 0`, `b = x`, and the blue component `b + m` is a NaN. -/
def Color.from_hsv_components (h : Hue) (s v : ℚ) :
    Option ℚ × Option ℚ × Option ℚ × Option ℚ :=
  match h with
  | .finite h =>
    let color := Color.from_hsv h s v
    (some color.r, some color.g, some color.b, some color.a)
  | _ =>
    let c := v * s
    let m := v - c
    (some (c + m), some (0 + m), none, some 1)

/-! ## Vocabulary of the specification: the range of a colour -/

/-- All four components of the colour are in `[0, 1]`. -/
def Color.in_range (c : Color) : Prop :=
  0 ≤ c.r ∧ c.r ≤ 1 ∧ 0 ≤ c.g ∧ c.g ≤ 1 ∧ 0 ≤ c.b ∧ c.b ≤ 1 ∧ 0 ≤ c.a ∧ c.a ≤ 1

/-- The string has no minus sign and no white space. -/
def plain_chars (s : List Char) : Prop := ∀ c ∈ s, c ≠ '-' ∧ Dot.is_whitespace c = false

end XDot
end XDotCpp

/-! ## Vocabulary of the specification: what is left for the parser -/

namespace XDotCpp
namespace Dot

/-- What is left for the parser to take: the unread characters, and one more when the
current token is not the end marker. -/
def DotParser.remaining (p : DotParser) : Nat :=
  p.lexer_.rest.length + (if p.current_token_.type = TokenType.EOF_TOKEN then 0 else 1)

/-- The run `m` of a step of the parser from the state `p` ends, with a result or with a
`ParseError`, and not because the fuel of the embedding was used up; and a result leaves
the parser, `proj` of the result, without a peeked token and with at least `k` less to
take than `p` had. -/
def Completes {α : Type} (proj : α → DotParser) (p : DotParser) (k : Nat)
    (m : Except Failure α) : Prop :=
  m ≠ .error Failure.out_of_fuel ∧
    ∀ a, m = .ok a → (proj a).lexer_.has_peeked = false ∧ (proj a).remaining + k ≤ p.remaining

/-- The body of one iteration of the loop of `DotParser::parse_attributes`: a name, the
value behind an `=` if there is one, and the comma or semicolon behind them if there is
one. -/
def attribute_item (p : DotParser) (attributes : AttributeList) :
    Except Failure (AttributeList × DotParser) := do
  let (name, p1) ← p.parse_id
  let (attributes1, p2) ←
    if p1.current_token_.type == TokenType.EQUAL then do
      let p1a ← p1.advance
      let (value, p1b) ← p1a.parse_id
      pure (attributes ++ [⟨name, value⟩], p1b)
    else pure (attributes ++ [⟨name, []⟩], p1)
  let p3 ←
    if p2.current_token_.type == TokenType.COMMA
        || p2.current_token_.type == TokenType.SEMI then p2.advance
    else pure p2
  pure (attributes1, p3)

/-- The body of one iteration of the statement loop of `DotParser::parse_subgraph`: a
statement and the semicolon behind it if there is one. -/
def subgraph_statement (fuel : Nat) (p : DotParser) (sg : Subgraph) :
    Except Failure (Subgraph × DotParser) := do
  let (sg1, p1) ←
    if p.current_token_.type == TokenType.SUBGRAPH then do
      let (nested_subgraph, p1) ← parse_subgraph fuel p
      pure (Subgraph.mk sg.id sg.attributes sg.nodes sg.edges
        (sg.subgraphs ++ [nested_subgraph]), p1)
    else if p.current_token_.type == TokenType.ID
        || p.current_token_.type == TokenType.STR_ID then do
      let (id, p1) ← p.parse_id
      if p1.current_token_.type == TokenType.EDGE_OP then do
        let (edge, p2) ← p1.parse_edge id
        pure (Subgraph.mk sg.id sg.attributes sg.nodes (sg.edges ++ [edge]) sg.subgraphs, p2)
      else do
        let (node, p2) ← p1.node_statement id
        pure (Subgraph.mk sg.id sg.attributes (sg.nodes ++ [node]) sg.edges sg.subgraphs, p2)
    else p.fail Message.unexpected_token_in_subgraph_body
  let p2 ← p1.optional_semi
  pure (sg1, p2)

/-- The body of one iteration of the statement loop of `DotParser::parse_graph`: a
statement and the semicolon behind it if there is one. -/
def graph_statement (fuel : Nat) (p : DotParser) (graph : Graph) :
    Except Failure (Graph × DotParser) := do
  let (graph1, p1) ←
    if p.current_token_.type == TokenType.NODE then do
      let p1 ← p.advance
      let (attrs, p2) ← p1.parse_attributes
      pure ({ graph with attributes := attrs }, p2)
    else if p.current_token_.type == TokenType.EDGE then do
      let p1 ← p.advance
      let (attrs, p2) ← p1.parse_attributes
      pure ({ graph with attributes := attrs }, p2)
    else if p.current_token_.type == TokenType.GRAPH then do
      let p1 ← p.advance
      let (attrs, p2) ← p1.parse_attributes
      pure ({ graph with attributes := graph.attributes ++ attrs }, p2)
    else if p.current_token_.type == TokenType.SUBGRAPH then do
      let (subgraph, p1) ← parse_subgraph fuel p
      pure ({ graph with subgraphs := graph.subgraphs ++ [subgraph] }, p1)
    else if p.current_token_.type == TokenType.ID
        || p.current_token_.type == TokenType.STR_ID then do
      let (id, p1) ← p.parse_id
      if p1.current_token_.type == TokenType.EDGE_OP then do
        let (edge, p2) ← p1.parse_edge id
        pure ({ graph with edges := graph.edges ++ [edge] }, p2)
      else if p1.current_token_.type == TokenType.EQUAL then do
        let p2 ← p1.advance
        let (value, p3) ← p2.parse_id
        pure ({ graph with attributes := graph.attributes ++ [⟨id, value⟩] }, p3)
      else do
        let (node, p2) ← p1.node_statement id
        pure ({ graph with nodes := graph.nodes ++ [node] }, p2)
    else p.fail (Message.unexpected_token_in_graph_body p.current_token_)
  let p2 ← p1.optional_semi
  pure (graph1, p2)

end Dot
end XDotCpp

/-! ## Shapes and points at which the rounding of the operations shows -/

namespace XDotCpp
namespace XDot

/-- The ellipse of the drawing `E 0.1 0 0.4 2`: the abscissa of the center and the width
are the doubles nearest to `0.1` and to `0.4`. -/
def narrow_ellipse : EllipseShape :=
  ⟨⟨(3602879701896397 : ℚ) / 36028797018963968, 0⟩,
    (3602879701896397 : ℚ) / 9007199254740992, 2, Pen.new⟩

/-- The point `(-0.10000000000000002, 0)`: its abscissa is the double next below `-0.1`. -/
def left_of_narrow_ellipse : Point := ⟨-((7205759403792795 : ℚ) / 72057594037927936), 0⟩

/-- The ellipse with center `(-1, 0)`, width `3` and height `2`. -/
def offset_ellipse : EllipseShape := ⟨⟨-1, 0⟩, 3, 2, Pen.new⟩

/-- The point `(0.5 + 2^-53, 0)`: its abscissa is the double next above `0.5`. -/
def right_of_offset_ellipse : Point := ⟨(4503599627370497 : ℚ) / 9007199254740992, 0⟩

/-- The ellipse with center `(-0.5 - 2^-53, 0)`, width `3` and height `2`: the abscissa of
the center is the double next below `-0.5`. -/
def shifted_ellipse : EllipseShape := ⟨⟨-((4503599627370497 : ℚ) / 9007199254740992), 0⟩, 3, 2, Pen.new⟩

/-- An ellipse whose width is the least positive double, `2^-1074`: half of it rounds to
zero. -/
def flat_ellipse : EllipseShape := ⟨⟨0, 0⟩, 1 / 2 ^ 1074, 2, Pen.new⟩

/-- The triangle `(17.8, 62.28) (23.65, 99.94) (60.11, 4.25)`: every coordinate is the
double nearest to the decimal number. -/
def slanted_triangle : PolygonShape :=
  ⟨[⟨(5010254585449677 : ℚ) / 281474976710656, (2191282693692457 : ℚ) / 35184372088832⟩,
    ⟨(3328441599603507 : ℚ) / 140737488355328, (1758163073278935 : ℚ) / 17592186044416⟩,
    ⟨(4229865212519383 : ℚ) / 70368744177664, (17 : ℚ) / 4⟩], Pen.new⟩

/-- The point `(60.110000000000007, 4.2500000000000009)`: its coordinates are the doubles
next above `60.11` and `4.25`, the coordinates of the third vertex of `slanted_triangle`. -/
def right_of_slanted_triangle : Point :=
  ⟨(8459730425038767 : ℚ) / 140737488355328, (4785074604081153 : ℚ) / 1125899906842624⟩

/-- The triangle `(0, 0) (6, 12) (12, 23.99999999999999)`, the last number being the double
nearest to it: a thin triangle that is strictly convex. -/
def thin_triangle : List Point :=
  [⟨0, 0⟩, ⟨6, 12⟩, ⟨12, (6755399441055741 : ℚ) / 281474976710656⟩]

end XDot
end XDotCpp

/-! ## src/src/dot/parser.cpp, with the state of the parser at the throw

The methods of the parser once more, word for word, where a failure is handed out together
with the `DotParser` as it is at the moment the `throw` statement is executed (for an error
of the lexer: at the moment of the call of `next_token`; for the fuel of the embedding: at
the moment it runs out). The current token of that state is the token the parser looks at
when it fails. `forget_state` drops the state again; the results are then those of the
definitions above (`forget_state_parse`). -/

namespace XDotCpp

namespace Dot

/-- The failure alone, without the state of the parser at the throw. -/
def forget_state {α : Type} : Except (Failure × DotParser) α → Except Failure α
  | .error (failure, _) => .error failure
  | .ok a => .ok a

/-- The failure of a run and the current token of the parser at the throw; `none` for a
run that returns. -/
def failure_token {α : Type} : Except (Failure × DotParser) α → Option (Failure × Token)
  | .error (failure, p) => some (failure, p.current_token_)
  | .ok _ => none

/-- The lexer after `n` calls of `next_token` that all return. -/
def lexer_after : Nat → DotLexer → Option DotLexer
  | 0, s => some s
  | n + 1, s =>
    match s.next_token with
    | .error _ => none
    | .ok (_, s1) => lexer_after n s1

namespace Traced

/-- The throw statement `throw ParseError(message, current_token_.line, current_token_.column)`,
together with the parser that executes it. -/
def fail {α : Type} (p : DotParser) (message : Message) : Except (Failure × DotParser) α :=
  .error (.thrown ⟨message, p.current_token_.line, p.current_token_.column⟩, p)

/-- The method `DotParser::advance`; an error of the lexer leaves the parser as it is. -/
def advance (p : DotParser) : Except (Failure × DotParser) DotParser :=
  match p.lexer_.next_token with
  | .error e => .error (.thrown e, p)
  | .ok (t, l) => .ok { lexer_ := l, current_token_ := t }

/-- The constructor `DotParser::DotParser(text)`. -/
def new (text : List Char) : Except (Failure × DotParser) DotParser :=
  advance { lexer_ := DotLexer.new text, current_token_ := Token.default }

/-- The method `DotParser::consume`. -/
def consume (expected_type : TokenType) (p : DotParser) : Except (Failure × DotParser) DotParser :=
  if p.current_token_.type != expected_type then
    fail p (Message.expected_token_type expected_type p.current_token_.type)
  else advance p

/-- The method `DotParser::parse_id`. -/
def parse_id (p : DotParser) : Except (Failure × DotParser) (List Char × DotParser) :=
  if p.current_token_.type == TokenType.ID || p.current_token_.type == TokenType.STR_ID
      || p.current_token_.type == TokenType.HTML_ID then do
    let p1 ← advance p
    pure (p.current_token_.text, p1)
  else fail p Message.expected_identifier

/-- The loop of `DotParser::parse_attributes`. -/
def parse_attributes_loop : Nat → DotParser → AttributeList →
    Except (Failure × DotParser) (AttributeList × DotParser)
  | 0, p, _ => .error (Failure.out_of_fuel, p)
  | fuel + 1, p, attributes =>
    if p.current_token_.type != TokenType.RSQUARE
        && p.current_token_.type != TokenType.EOF_TOKEN then do
      let (name, p1) ← parse_id p
      let (attributes1, p2) ←
        if p1.current_token_.type == TokenType.EQUAL then do
          let p1a ← advance p1
          let (value, p1b) ← parse_id p1a
          pure (attributes ++ [⟨name, value⟩], p1b)
        else pure (attributes ++ [⟨name, []⟩], p1)
      let p3 ←
        if p2.current_token_.type == TokenType.COMMA
            || p2.current_token_.type == TokenType.SEMI then advance p2
        else pure p2
      parse_attributes_loop fuel p3 attributes1
    else pure (attributes, p)

/-- The method `DotParser::parse_attributes`. -/
def parse_attributes (p : DotParser) : Except (Failure × DotParser) (AttributeList × DotParser) := do
  let p1 ← consume TokenType.LSQUARE p
  let (attributes, p2) ← parse_attributes_loop (p1.lexer_.rest.length + 2) p1 []
  let p3 ← consume TokenType.RSQUARE p2
  pure (attributes, p3)

/-- The method `DotParser::parse_edge`. -/
def parse_edge (source_id : List Char) (p : DotParser) :
    Except (Failure × DotParser) (Edge × DotParser) := do
  let p1 ← consume TokenType.EDGE_OP p
  let (target_id, p2) ← parse_id p1
  if p2.current_token_.type == TokenType.LSQUARE then do
    let (attributes, p3) ← parse_attributes p2
    pure (⟨source_id, target_id, attributes⟩, p3)
  else pure (⟨source_id, target_id, []⟩, p2)

/-- The node statement shared by the graph body and the subgraph body:
`make_shared<Node>(id)` with its optional attribute list. -/
def node_statement (id : List Char) (p : DotParser) :
    Except (Failure × DotParser) (Node × DotParser) :=
  if p.current_token_.type == TokenType.LSQUARE then do
    let (attributes, p1) ← parse_attributes p
    pure (⟨id, attributes⟩, p1)
  else pure (⟨id, []⟩, p)

/-- The optional semicolon that ends a statement. -/
def optional_semi (p : DotParser) : Except (Failure × DotParser) DotParser :=
  if p.current_token_.type == TokenType.SEMI then advance p else pure p

mutual

/-- The method `DotParser::parse_subgraph`. -/
def parse_subgraph : Nat → DotParser → Except (Failure × DotParser) (Subgraph × DotParser)
  | 0, p => .error (Failure.out_of_fuel, p)
  | fuel + 1, p => do
    let p1 ← consume TokenType.SUBGRAPH p
    let (id, p2) ←
      if p1.current_token_.type == TokenType.ID || p1.current_token_.type == TokenType.STR_ID then
        parse_id p1
      else pure ([], p1)
    let p3 ← consume TokenType.LCURLY p2
    let (subgraph, p4) ← parse_subgraph_body fuel p3 (Subgraph.mk id [] [] [] [])
    let p5 ← consume TokenType.RCURLY p4
    pure (subgraph, p5)

/-- The statement loop of `DotParser::parse_subgraph`. -/
def parse_subgraph_body : Nat → DotParser → Subgraph → Except (Failure × DotParser) (Subgraph × DotParser)
  | 0, p, _ => .error (Failure.out_of_fuel, p)
  | fuel + 1, p, sg =>
    if p.current_token_.type != TokenType.RCURLY
        && p.current_token_.type != TokenType.EOF_TOKEN then do
      let (sg1, p1) ←
        if p.current_token_.type == TokenType.SUBGRAPH then do
          let (nested_subgraph, p1) ← parse_subgraph fuel p
          pure (Subgraph.mk sg.id sg.attributes sg.nodes sg.edges
            (sg.subgraphs ++ [nested_subgraph]), p1)
        else if p.current_token_.type == TokenType.ID
            || p.current_token_.type == TokenType.STR_ID then do
          let (id, p1) ← parse_id p
          if p1.current_token_.type == TokenType.EDGE_OP then do
            let (edge, p2) ← parse_edge id p1
            pure (Subgraph.mk sg.id sg.attributes sg.nodes (sg.edges ++ [edge]) sg.subgraphs, p2)
          else do
            let (node, p2) ← node_statement id p1
            pure (Subgraph.mk sg.id sg.attributes (sg.nodes ++ [node]) sg.edges sg.subgraphs, p2)
        else fail p Message.unexpected_token_in_subgraph_body
      let p2 ← optional_semi p1
      parse_subgraph_body fuel p2 sg1
    else pure (sg, p)

end

/-- The statement loop of `DotParser::parse_graph`. -/
def parse_graph_body : Nat → DotParser → Graph → Except (Failure × DotParser) (Graph × DotParser)
  | 0, p, _ => .error (Failure.out_of_fuel, p)
  | fuel + 1, p, graph =>
    if p.current_token_.type != TokenType.RCURLY
        && p.current_token_.type != TokenType.EOF_TOKEN then do
      let (graph1, p1) ←
        if p.current_token_.type == TokenType.NODE then do
          let p1 ← advance p
          let (attrs, p2) ← parse_attributes p1
          pure ({ graph with attributes := attrs }, p2)
        else if p.current_token_.type == TokenType.EDGE then do
          let p1 ← advance p
          let (attrs, p2) ← parse_attributes p1
          pure ({ graph with attributes := attrs }, p2)
        else if p.current_token_.type == TokenType.GRAPH then do
          let p1 ← advance p
          let (attrs, p2) ← parse_attributes p1
          pure ({ graph with attributes := graph.attributes ++ attrs }, p2)
        else if p.current_token_.type == TokenType.SUBGRAPH then do
          let (subgraph, p1) ← parse_subgraph fuel p
          pure ({ graph with subgraphs := graph.subgraphs ++ [subgraph] }, p1)
        else if p.current_token_.type == TokenType.ID
            || p.current_token_.type == TokenType.STR_ID then do
          let (id, p1) ← parse_id p
          if p1.current_token_.type == TokenType.EDGE_OP then do
            let (edge, p2) ← parse_edge id p1
            pure ({ graph with edges := graph.edges ++ [edge] }, p2)
          else if p1.current_token_.type == TokenType.EQUAL then do
            let p2 ← advance p1
            let (value, p3) ← parse_id p2
            pure ({ graph with attributes := graph.attributes ++ [⟨id, value⟩] }, p3)
          else do
            let (node, p2) ← node_statement id p1
            pure ({ graph with nodes := graph.nodes ++ [node] }, p2)
        else fail p (Message.unexpected_token_in_graph_body p.current_token_)
      let p2 ← optional_semi p1
      parse_graph_body fuel p2 graph1
    else pure (graph, p)

/-- The method `DotParser::parse_graph`; `fuel` bounds the statement loops and
the nesting of subgraphs. -/
def parse_graph (fuel : Nat) (p : DotParser) : Except (Failure × DotParser) (Graph × DotParser) := do
  let graph := Graph.new
  let (graph, p) ←
    if p.current_token_.type == TokenType.STRICT then do
      let p1 ← advance p
      pure ({ graph with strict := true }, p1)
    else pure (graph, p)
  let (graph, p) ←
    if p.current_token_.type == TokenType.GRAPH then do
      let p1 ← advance p
      pure ({ graph with type := GraphType.GRAPH }, p1)
    else if p.current_token_.type == TokenType.DIGRAPH then do
      let p1 ← advance p
      pure ({ graph with type := GraphType.DIGRAPH }, p1)
    else fail p Message.expected_graph_or_digraph
  let (graph, p) ←
    if p.current_token_.type == TokenType.ID || p.current_token_.type == TokenType.STR_ID then do
      let (id, p1) ← parse_id p
      pure ({ graph with id := id }, p1)
    else pure (graph, p)
  let p ← consume TokenType.LCURLY p
  let (graph, p) ← parse_graph_body fuel p graph
  let p ← consume TokenType.RCURLY p
  pure (graph, p)

/-- Construction of a `DotParser` on `text` followed by `DotParser::parse`. Every
statement and every subgraph consumes a token, so twice the length of the text
bounds the iterations. -/
def parse (text : List Char) : Except (Failure × DotParser) Graph := do
  let p ← new text
  let (graph, _) ← parse_graph (2 * text.length + 4) p
  pure graph


end Traced

/-- A step of the parser with the state at the throw, from the state `p`: without the state
it is the step `m0`; a syntax error it throws has the line and the column of the current
token of the state `q` at the throw, which the parser reaches from `p`, and its message
rejects the type of that token; and a result comes with a state that the parser reaches
from `p`. -/
def Traces {α : Type} (proj : α → DotParser) (p : DotParser)
    (m : Except (Failure × DotParser) α) (m0 : Except Failure α) : Prop :=
  forget_state m = m0 ∧
  (∀ e q, m = .error (.thrown e, q) → e.message.is_syntactic = true →
    Reaches p q ∧ e.line = q.current_token_.line ∧ e.column = q.current_token_.column ∧
      e.message.rejects q.current_token_.type = true) ∧
  (∀ a, m = .ok a → Reaches p (proj a))

end Dot

end XDotCpp

/-! ## The lexer moves forward -/

namespace XDotCpp

namespace Dot

theorem pos_le_refl (l c : Nat) : pos_le l c l c := Or.inr ⟨rfl, le_refl c⟩

theorem pos_le_trans {l1 c1 l2 c2 l3 c3 : Nat} (h12 : pos_le l1 c1 l2 c2)
    (h23 : pos_le l2 c2 l3 c3) : pos_le l1 c1 l3 c3 := by
  unfold pos_le at *
  omega

theorem DotLexer.le_refl (s : DotLexer) : s.le s := ⟨pos_le_refl _ _, rfl, rfl⟩

theorem DotLexer.le_trans {s1 s2 s3 : DotLexer} (h12 : s1.le s2) (h23 : s2.le s3) : s1.le s3 :=
  ⟨pos_le_trans h12.1 h23.1, h23.2.1.trans h12.2.1, h23.2.2.trans h12.2.2⟩

theorem DotLexer.le_advance (s : DotLexer) : s.le s.advance := by
  unfold DotLexer.advance DotLexer.le pos_le
  cases h : s.rest with
  | nil => simp
  | cons c cs =>
    by_cases hc : (c == '\n') = true
    · simp [hc]
    · simp [hc]

theorem skip_comment_loop_le (fuel : Nat) : ∀ s : DotLexer, s.le (skip_comment_loop fuel s) := by
  induction fuel with
  | zero => intro s; exact s.le_refl
  | succ n ih =>
    intro s
    unfold skip_comment_loop
    split
    · exact DotLexer.le_trans s.le_advance (ih _)
    · exact s.le_refl

theorem block_comment_loop_le (fuel : Nat) : ∀ s : DotLexer, s.le (block_comment_loop fuel s) := by
  induction fuel with
  | zero => intro s; exact s.le_refl
  | succ n ih =>
    intro s
    unfold block_comment_loop
    split
    · split
      · exact DotLexer.le_trans s.le_advance s.advance.le_advance
      · exact DotLexer.le_trans s.le_advance (ih _)
    · exact s.le_refl

theorem skip_whitespace_loop_le (fuel : Nat) :
    ∀ s : DotLexer, s.le (skip_whitespace_loop fuel s) := by
  induction fuel with
  | zero => intro s; exact s.le_refl
  | succ n ih =>
    intro s
    unfold skip_whitespace_loop
    split
    · split
      · exact DotLexer.le_trans (skip_comment_loop_le _ s) (ih _)
      · split
        · exact DotLexer.le_trans (DotLexer.le_trans s.le_advance s.advance.le_advance)
            (DotLexer.le_trans (block_comment_loop_le _ _) (ih _))
        · split
          · exact DotLexer.le_trans (skip_comment_loop_le _ s) (ih _)
          · exact DotLexer.le_trans s.le_advance (ih _)
    · exact s.le_refl

theorem read_string_loop_le (fuel : Nat) :
    ∀ (s : DotLexer) (value : List Char), s.le (read_string_loop fuel s value).1 := by
  induction fuel with
  | zero => intro s value; exact s.le_refl
  | succ n ih =>
    intro s value
    unfold read_string_loop
    split
    · split
      · exact DotLexer.le_trans (DotLexer.le_trans s.le_advance s.advance.le_advance) (ih _ _)
      · exact DotLexer.le_trans s.le_advance (ih _ _)
    · exact s.le_refl

theorem read_html_string_loop_le (fuel : Nat) :
    ∀ (s : DotLexer) (value : List Char) (depth : Int),
      s.le (read_html_string_loop fuel s value depth).1 := by
  induction fuel with
  | zero => intro s value depth; exact s.le_refl
  | succ n ih =>
    intro s value depth
    unfold read_html_string_loop
    simp only
    generalize (if (s.current_char == '<') = true then depth + 1
      else if (s.current_char == '>') = true then depth - 1 else depth) = depth1
    split
    · exact DotLexer.le_trans s.le_advance (ih _ _ _)
    · exact s.le_advance

theorem read_identifier_loop_le (fuel : Nat) :
    ∀ (s : DotLexer) (value : List Char), s.le (read_identifier_loop fuel s value).1 := by
  induction fuel with
  | zero => intro s value; exact s.le_refl
  | succ n ih =>
    intro s value
    unfold read_identifier_loop
    split
    · exact DotLexer.le_trans s.le_advance (ih _ _)
    · exact s.le_refl

theorem read_digits_loop_le (fuel : Nat) :
    ∀ (s : DotLexer) (value : List Char), s.le (read_digits_loop fuel s value).1 := by
  induction fuel with
  | zero => intro s value; exact s.le_refl
  | succ n ih =>
    intro s value
    unfold read_digits_loop
    split
    · exact DotLexer.le_trans s.le_advance (ih _ _)
    · exact s.le_refl

theorem read_number_le (s : DotLexer) : s.le s.read_number.2 := by
  unfold DotLexer.read_number
  have h1 := read_digits_loop_le s.rest.length s []
  generalize read_digits_loop s.rest.length s [] = r1 at h1
  obtain ⟨s1, v1⟩ := r1
  simp only at h1 ⊢
  have h2 : s1.le (if (s1.has_more && s1.current_char == '.') = true then
      read_digits_loop s1.rest.length s1.advance (v1 ++ [s1.current_char]) else (s1, v1)).1 := by
    split
    · exact DotLexer.le_trans s1.le_advance (read_digits_loop_le _ _ _)
    · exact s1.le_refl
  generalize (if (s1.has_more && s1.current_char == '.') = true then
      read_digits_loop s1.rest.length s1.advance (v1 ++ [s1.current_char]) else (s1, v1)) = r2 at h2
  obtain ⟨s2, v2⟩ := r2
  simp only at h2 ⊢
  refine DotLexer.le_trans h1 (DotLexer.le_trans h2 ?_)
  split
  · split
    · exact DotLexer.le_trans s2.le_advance
        (DotLexer.le_trans s2.advance.le_advance (read_digits_loop_le _ _ _))
    · exact DotLexer.le_trans s2.le_advance (read_digits_loop_le _ _ _)
  · exact s2.le_refl

/-- A conditional that has a given value has it in one of its branches. -/
theorem ite_eq_cases {α : Type} {c : Prop} [Decidable c] {a b r : α}
    (h : (if c then a else b) = r) : (c ∧ a = r) ∨ (¬ c ∧ b = r) := by
  by_cases hc : c
  · rw [if_pos hc] at h; exact Or.inl ⟨hc, h⟩
  · rw [if_neg hc] at h; exact Or.inr ⟨hc, h⟩

theorem next_token_start_key (w : DotLexer) (t : Token) (s1 : DotLexer) (ty : TokenType)
    (tx : List Char) (w1 : DotLexer) (hle : w.le w1)
    (heq : ((⟨ty, tx, w.line, w.column⟩ : Token), w1) = (t, s1)) :
    t.line = w.line ∧ t.column = w.column ∧ w.le s1 := by
  cases heq
  exact ⟨rfl, rfl, hle⟩

theorem read_number_shape (w : DotLexer) :
    w.read_number = (⟨TokenType.ID, w.read_number.1.text, w.line, w.column⟩,
      w.read_number.2) := by
  unfold DotLexer.read_number
  rfl

theorem read_identifier_shape (w : DotLexer) :
    w.read_identifier = (⟨w.read_identifier.1.type, w.read_identifier.1.text, w.line, w.column⟩,
      w.read_identifier.2) := by
  unfold DotLexer.read_identifier
  rfl

theorem read_identifier_le (w : DotLexer) : w.le w.read_identifier.2 :=
  read_identifier_loop_le w.rest.length w []

/-- A call of `next_token` without a peeked token returns a token that starts where the
white space ends, and leaves the cursor at or after that place. -/
theorem next_token_start (s : DotLexer) (hs : s.has_peeked = false) (t : Token) (s1 : DotLexer)
    (h : s.next_token = .ok (t, s1)) :
    t.line = s.skip_whitespace.line ∧ t.column = s.skip_whitespace.column ∧
      s.skip_whitespace.le s1 := by
  unfold DotLexer.next_token at h
  rw [hs, if_neg Bool.false_ne_true] at h
  generalize s.skip_whitespace = w at h ⊢
  unfold DotLexer.scan_token at h
  repeat' (refine (ite_eq_cases h).elim (fun h' => ?_) (fun h' => ?_) <;> clear h <;>
    obtain ⟨-, h⟩ := h')
  all_goals have key := next_token_start_key w t s1
  all_goals first
    | exact key _ _ _ w.le_refl (Except.ok.inj h)
    | exact key _ _ _ w.le_advance (Except.ok.inj h)
    | exact key _ _ _ (DotLexer.le_trans w.le_advance w.advance.le_advance) (Except.ok.inj h)
    | exact key _ _ _ (DotLexer.le_trans w.le_advance (DotLexer.le_trans
        (read_string_loop_le w.rest.length w.advance []) (DotLexer.le_advance _)))
        (Except.ok.inj h)
    | exact key _ _ _ (read_html_string_loop_le w.rest.length w [] 0) (Except.ok.inj h)
    | exact key _ _ _ (read_number_le w) ((read_number_shape w).symm.trans (Except.ok.inj h))
    | exact key _ _ _ (read_identifier_le w)
        ((read_identifier_shape w).symm.trans (Except.ok.inj h))
    | exact Except.noConfusion h

/-- A call of `next_token` without a peeked token returns a token that starts at or after
the cursor, and leaves the cursor at or after the start of the token. -/
theorem next_token_order (s : DotLexer) (hs : s.has_peeked = false) (t : Token) (s1 : DotLexer)
    (h : s.next_token = .ok (t, s1)) :
    pos_le s.line s.column t.line t.column ∧ pos_le t.line t.column s1.line s1.column ∧
      s1.has_peeked = false := by
  obtain ⟨hl, hc, hle⟩ := next_token_start s hs t s1 h
  have hw : s.le s.skip_whitespace := skip_whitespace_loop_le _ s
  rw [hl, hc]
  exact ⟨hw.1, hle.1, (hle.2.1.trans hw.2.1).trans hs⟩

/-- The tokens of successive calls are in the order of the text, and the first of them
starts at or after the cursor. -/
theorem next_tokens_order (n : Nat) : ∀ (s : DotLexer) (toks : List Token),
    s.has_peeked = false → next_tokens n s = .ok toks →
    toks.Chain' Token.in_order ∧ ∀ t ∈ toks.head?, pos_le s.line s.column t.line t.column := by
  induction n with
  | zero =>
    intro s toks _ h
    cases Except.ok.inj h
    simp
  | succ n ih =>
    intro s toks hs h
    unfold next_tokens at h
    cases h1 : s.next_token with
    | error e => rw [h1] at h; cases h
    | ok r =>
      obtain ⟨t, s1⟩ := r
      rw [h1] at h
      simp only at h
      cases h2 : next_tokens n s1 with
      | error e => rw [h2] at h; cases h
      | ok ts =>
        rw [h2] at h
        cases Except.ok.inj h
        obtain ⟨o1, o2, o3⟩ := next_token_order s hs t s1 h1
        obtain ⟨c, hd⟩ := ih s1 ts o3 h2
        refine ⟨?_, by simpa using o1⟩
        rw [List.chain'_cons']
        refine ⟨?_, c⟩
        intro u hu
        have := pos_le_trans o2 (hd u hu)
        unfold Token.in_order
        unfold pos_le at this
        omega

/-- C5: on every input, as long as lexing does not fail, the tokens that successive calls
of `next_token` return have non-decreasing line numbers, and two consecutive tokens on the
same line have non-decreasing column numbers. -/
theorem token_positions_monotone (text : List Char) (n : Nat) (toks : List Token)
    (h : next_tokens n (DotLexer.new text) = .ok toks) : toks.Chain' Token.in_order :=
  (next_tokens_order n (DotLexer.new text) toks rfl h).1

/-- The theorem `token_positions_monotone` on a text of three lines. -/
theorem token_positions_monotone_witness :
    next_tokens 6 (DotLexer.new "a -> \"x\ny\"\n b".toList) =
      .ok [⟨TokenType.ID, ['a'], 1, 1⟩, ⟨TokenType.EDGE_OP, ['-', '>'], 1, 3⟩,
        ⟨TokenType.STR_ID, ['x', '\n', 'y'], 1, 6⟩, ⟨TokenType.ID, ['b'], 3, 2⟩,
        ⟨TokenType.EOF_TOKEN, [], 3, 3⟩, ⟨TokenType.EOF_TOKEN, [], 3, 3⟩] ∧
    List.Chain' Token.in_order
      [⟨TokenType.ID, ['a'], 1, 1⟩, ⟨TokenType.EDGE_OP, ['-', '>'], 1, 3⟩,
        ⟨TokenType.STR_ID, ['x', '\n', 'y'], 1, 6⟩, ⟨TokenType.ID, ['b'], 3, 2⟩,
        ⟨TokenType.EOF_TOKEN, [], 3, 3⟩, ⟨TokenType.EOF_TOKEN, [], 3, 3⟩] :=
  ⟨rfl, token_positions_monotone "a -> \"x\ny\"\n b".toList 6 _ rfl⟩

end Dot

end XDotCpp

/-! ## What the lexer returns on given text -/

namespace XDotCpp

namespace Dot

theorem not_digit_of_alpha (c : Char) (h : c.isAlpha = true) : c.isDigit = false := by
  simp only [Char.isAlpha, Char.isUpper, Char.isLower, Char.isDigit, Bool.or_eq_true,
    Bool.and_eq_true, decide_eq_true_eq, Bool.and_eq_false_iff, decide_eq_false_iff_not] at *
  simp only [UInt32.le_def, BitVec.le_def] at *
  have e1 : (UInt32.toBitVec 65).toNat = 65 := rfl
  have e2 : (UInt32.toBitVec 90).toNat = 90 := rfl
  have e3 : (UInt32.toBitVec 97).toNat = 97 := rfl
  have e4 : (UInt32.toBitVec 122).toNat = 122 := rfl
  have e5 : (UInt32.toBitVec 48).toNat = 48 := rfl
  have e6 : (UInt32.toBitVec 57).toNat = 57 := rfl
  rw [e1, e2, e3, e4] at h
  rw [e5, e6]
  omega

theorem special_chars_not_word :
    ∀ x ∈ special_chars, (x.isAlphanum || x == '_') = false := by decide

/-- A character of a word is none of the special characters. -/
theorem word_char_ne (c : Char) (h : (c.isAlphanum || c == '_') = true) (x : Char)
    (hx : x ∈ special_chars) : (c == x) = false := by
  have := special_chars_not_word x hx
  by_contra hc
  simp only [Bool.not_eq_false, beq_iff_eq] at hc
  rw [hc, this] at h
  cases h

theorem word_char_not_whitespace (c : Char) (h : (c.isAlphanum || c == '_') = true) :
    is_whitespace c = false := by
  unfold is_whitespace
  rw [word_char_ne c h ' ' (by decide), word_char_ne c h '\t' (by decide),
    word_char_ne c h '\n' (by decide), word_char_ne c h '\x0b' (by decide),
    word_char_ne c h '\x0c' (by decide), word_char_ne c h '\r' (by decide)]
  rfl

theorem alphanum_of_alpha (c : Char) (h : (c.isAlpha || c == '_') = true) :
    (c.isAlphanum || c == '_') = true := by
  unfold Char.isAlphanum
  cases h1 : c.isAlpha <;> simp_all

/-- White space is neither a slash nor a hash: the comment branches of
`skip_whitespace` are never taken. -/
theorem whitespace_not_comment (c : Char) (h : is_whitespace c = true) :
    (c == '/') = false ∧ (c == '#') = false := by
  unfold is_whitespace at h
  simp only [Bool.or_eq_true, beq_iff_eq] at h
  rcases h with ((((h | h) | h) | h) | h) | h <;> subst h <;> decide

/-- One iteration of the loop of `skip_whitespace` on a white space character. -/
theorem skip_whitespace_cons (c : Char) (r : List Char) (l k : Nat) (h : is_whitespace c = true) :
    (lx (c :: r) l k).skip_whitespace = ((lx (c :: r) l k).advance).skip_whitespace := by
  obtain ⟨h1, h2⟩ := whitespace_not_comment c h
  have hr : ((lx (c :: r) l k).advance).rest = r := by
    unfold DotLexer.advance lx
    simp only
    split <;> rfl
  unfold DotLexer.skip_whitespace
  rw [hr]
  show skip_whitespace_loop (r.length + 1) _ = _
  rw [skip_whitespace_loop]
  simp [lx, DotLexer.has_more, DotLexer.current_char, h, h1, h2]

/-- The method `skip_whitespace` stays where it is at the end of the text and in front of
a character that is no white space. -/
theorem skip_whitespace_stop (r : List Char) (l k : Nat)
    (h : r.head?.all (fun c => !is_whitespace c) = true) :
    (lx r l k).skip_whitespace = lx r l k := by
  unfold DotLexer.skip_whitespace
  cases r with
  | nil => rfl
  | cons c r =>
    simp only [List.head?_cons, Option.all_some, Bool.not_eq_true'] at h
    show skip_whitespace_loop (r.length + 1) _ = _
    rw [skip_whitespace_loop]
    simp [lx, DotLexer.has_more, DotLexer.current_char, h]

/-- Advancing over a character keeps the form of the state. -/
theorem advance_lx (c : Char) (r : List Char) (l k : Nat) :
    (lx (c :: r) l k).advance = if c = '\n' then lx r (l + 1) 1 else lx r l (k + 1) := by
  by_cases h : c = '\n' <;> simp [DotLexer.advance, lx, h]

/-- A lexer without a peeked token scans the token after the white space. -/
theorem next_token_lx (r : List Char) (l k : Nat) :
    (lx r l k).next_token = (lx r l k).skip_whitespace.scan_token := rfl

/-- Leading white space does not change the token that is returned, only its position. -/
theorem next_token_skip_blank (ws : List Char) (hws : ∀ c ∈ ws, is_whitespace c = true) :
    ∀ (r : List Char) (l k : Nat), ∃ l1 k1,
      (lx (ws ++ r) l k).next_token = (lx r l1 k1).next_token := by
  induction ws with
  | nil => intro r l k; exact ⟨l, k, rfl⟩
  | cons c ws ih =>
    intro r l k
    have hc := hws c (List.mem_cons_self _ _)
    rw [List.cons_append, next_token_lx, skip_whitespace_cons c _ l k hc, advance_lx]
    split
    · exact ih (fun d hd => hws d (List.mem_cons_of_mem _ hd)) r (l + 1) 1
    · exact ih (fun d hd => hws d (List.mem_cons_of_mem _ hd)) r l (k + 1)

/-- In front of a character that is no white space, and at the end of the text, the
next token is the one scanned at the cursor. -/
theorem next_token_stop (r : List Char) (l k : Nat)
    (h : r.head?.all (fun c => !is_whitespace c) = true) :
    (lx r l k).next_token = (lx r l k).scan_token := by
  rw [next_token_lx, skip_whitespace_stop r l k h]

theorem scan_eof (l k : Nat) :
    (lx [] l k).scan_token = .ok (⟨TokenType.EOF_TOKEN, [], l, k⟩, lx [] l k) := rfl

theorem scan_lcurly (r : List Char) (l k : Nat) :
    (lx ('{' :: r) l k).scan_token = .ok (⟨TokenType.LCURLY, ['{'], l, k⟩, lx r l (k + 1)) := by
  simp [DotLexer.scan_token, lx, DotLexer.has_more, DotLexer.current_char, DotLexer.advance]

theorem scan_rcurly (r : List Char) (l k : Nat) :
    (lx ('}' :: r) l k).scan_token = .ok (⟨TokenType.RCURLY, ['}'], l, k⟩, lx r l (k + 1)) := by
  simp [DotLexer.scan_token, lx, DotLexer.has_more, DotLexer.current_char, DotLexer.advance]

theorem scan_lsquare (r : List Char) (l k : Nat) :
    (lx ('[' :: r) l k).scan_token = .ok (⟨TokenType.LSQUARE, ['['], l, k⟩, lx r l (k + 1)) := by
  simp [DotLexer.scan_token, lx, DotLexer.has_more, DotLexer.current_char, DotLexer.advance]

theorem scan_rsquare (r : List Char) (l k : Nat) :
    (lx (']' :: r) l k).scan_token = .ok (⟨TokenType.RSQUARE, [']'], l, k⟩, lx r l (k + 1)) := by
  simp [DotLexer.scan_token, lx, DotLexer.has_more, DotLexer.current_char, DotLexer.advance]

theorem scan_equal (r : List Char) (l k : Nat) :
    (lx ('=' :: r) l k).scan_token = .ok (⟨TokenType.EQUAL, ['='], l, k⟩, lx r l (k + 1)) := by
  simp [DotLexer.scan_token, lx, DotLexer.has_more, DotLexer.current_char, DotLexer.advance]

theorem scan_semi (r : List Char) (l k : Nat) :
    (lx (';' :: r) l k).scan_token = .ok (⟨TokenType.SEMI, [';'], l, k⟩, lx r l (k + 1)) := by
  simp [DotLexer.scan_token, lx, DotLexer.has_more, DotLexer.current_char, DotLexer.advance]

theorem scan_arrow (r : List Char) (l k : Nat) :
    (lx ('-' :: '>' :: r) l k).scan_token =
      .ok (⟨TokenType.EDGE_OP, ['-', '>'], l, k⟩, lx r l (k + 1 + 1)) := by
  simp [DotLexer.scan_token, lx, DotLexer.has_more, DotLexer.current_char, DotLexer.advance,
    DotLexer.peek_char]

/-- The loop of `read_identifier` reads a run of word characters up to its end. -/
theorem read_identifier_loop_word (w : List Char)
    (hw : ∀ c ∈ w, (c.isAlphanum || c == '_') = true) (r : List Char) (hr : ends_word r = true) :
    ∀ (l k : Nat) (v : List Char),
      read_identifier_loop (w ++ r).length (lx (w ++ r) l k) v = (lx r l (k + w.length), v ++ w) := by
  induction w with
  | nil =>
    intro l k v
    cases r with
    | nil => simp [read_identifier_loop]
    | cons c r =>
      simp only [ends_word, Bool.not_eq_true'] at hr
      have hc : (c == '_') = false := by
        cases h : (c == '_') <;> simp_all
      have hc2 : c.isAlphanum = false := by
        cases h : c.isAlphanum <;> simp_all
      simp [read_identifier_loop, lx, DotLexer.has_more, DotLexer.current_char, is_alnum, hc, hc2]
  | cons c w ih =>
    intro l k v
    have hc := hw c (List.mem_cons_self _ _)
    have hnl : c ≠ '\n' := by
      have := word_char_ne c hc '\n' (by decide)
      simpa using this
    have hcur : (lx (c :: (w ++ r)) l k).current_char = c := rfl
    have hmore : (lx (c :: (w ++ r)) l k).has_more = true := rfl
    have hcond : (is_alnum c || c == '_') = true := by
      unfold is_alnum
      cases h : c.isAlphanum <;> cases h2 : (c == '_') <;> simp_all
    rw [List.cons_append, List.length_cons, read_identifier_loop, hcur, hmore, hcond, advance_lx,
      if_neg hnl]
    simp only [Bool.and_self, if_true]
    rw [ih (fun d hd => hw d (List.mem_cons_of_mem _ hd)) l (k + 1) (v ++ [c])]
    simp only [List.length_cons, List.append_assoc, List.singleton_append]
    congr 2
    omega

/-- The characters of an identifier are word characters. -/
theorem is_identifier_chars (w : List Char) (hw : is_identifier w = true) :
    ∃ c cs, w = c :: cs ∧ (c.isAlpha || c == '_') = true ∧
      ∀ d ∈ w, (d.isAlphanum || d == '_') = true := by
  cases w with
  | nil => cases hw
  | cons c cs =>
    unfold is_identifier at hw
    simp only [Bool.and_eq_true, List.all_eq_true] at hw
    refine ⟨c, cs, rfl, hw.1, ?_⟩
    intro d hd
    rcases List.mem_cons.1 hd with rfl | hd
    · exact alphanum_of_alpha _ hw.1
    · exact hw.2 d hd

/-- An identifier or keyword at the cursor is scanned as one token. -/
theorem scan_word (w : List Char) (hw : is_identifier w = true) (r : List Char)
    (hr : ends_word r = true) (l k : Nat) :
    (lx (w ++ r) l k).scan_token =
      .ok (⟨keyword_type w, w, l, k⟩, lx r l (k + w.length)) := by
  obtain ⟨c, cs, rfl, hc, hall⟩ := is_identifier_chars w hw
  have hc' := alphanum_of_alpha c hc
  have hloop := read_identifier_loop_word (c :: cs) hall r hr l k []
  have hcur : (lx (c :: cs ++ r) l k).current_char = c := rfl
  have hmore : (lx (c :: cs ++ r) l k).has_more = true := rfl
  have hdig : is_digit c = false := by
    unfold is_digit
    cases h : c.isAlpha
    · have : c = '_' := by simpa [h] using hc
      subst this; decide
    · exact not_digit_of_alpha c h
  have halpha : (is_alpha c || c == '_') = true := by
    unfold is_alpha
    cases h : c.isAlpha <;> cases h2 : (c == '_') <;> simp_all
  unfold DotLexer.scan_token
  rw [hcur, hmore, word_char_ne c hc' '[' (by decide), word_char_ne c hc' ']' (by decide),
    word_char_ne c hc' '{' (by decide), word_char_ne c hc' '}' (by decide),
    word_char_ne c hc' ',' (by decide), word_char_ne c hc' ':' (by decide),
    word_char_ne c hc' ';' (by decide), word_char_ne c hc' '=' (by decide),
    word_char_ne c hc' '+' (by decide), word_char_ne c hc' '-' (by decide),
    word_char_ne c hc' '"' (by decide), word_char_ne c hc' '<' (by decide),
    word_char_ne c hc' '.' (by decide), hdig, halpha]
  simp only [Bool.not_true, Bool.false_eq_true, if_false, Bool.false_and, Bool.or_self, if_true]
  unfold DotLexer.read_identifier
  have hlen : (lx (c :: cs ++ r) l k).rest.length = (c :: cs ++ r).length := rfl
  rw [hlen, hloop]
  rfl

/-- The loop of `read_string` undoes `escape_string` and stops at the closing quote. -/
theorem read_string_loop_escape (s : List Char) (r : List Char) :
    ∀ (fuel l k : Nat) (v : List Char), (escape_string s ++ '"' :: r).length ≤ fuel →
      ∃ l1 k1, read_string_loop fuel (lx (escape_string s ++ '"' :: r) l k) v =
        (lx ('"' :: r) l1 k1, v ++ s) := by
  induction s with
  | nil =>
    intro fuel l k v hf
    cases fuel with
    | zero => simp [escape_string] at hf
    | succ n =>
      refine ⟨l, k, ?_⟩
      simp [escape_string, read_string_loop, lx, DotLexer.has_more, DotLexer.current_char]
  | cons c cs ih =>
    intro fuel l k v hf
    by_cases hc : c = '\\' ∨ c = '"'
    · have he : escape_string (c :: cs) = '\\' :: c :: escape_string cs := by
        simp only [escape_string, if_pos hc]
      rw [he] at hf ⊢
      cases fuel with
      | zero => simp at hf
      | succ n =>
        have hf' : (escape_string cs ++ '"' :: r).length ≤ n := by
          simp only [List.cons_append, List.length_cons] at hf
          omega
        obtain ⟨l1, k1, h1⟩ := ih n l (k + 1 + 1) (v ++ [c]) hf'
        refine ⟨l1, k1, ?_⟩
        rw [List.cons_append, List.cons_append, read_string_loop]
        rcases hc with rfl | rfl
        · simpa [lx, DotLexer.has_more, DotLexer.current_char, DotLexer.peek_char,
            DotLexer.advance] using h1
        · simpa [lx, DotLexer.has_more, DotLexer.current_char, DotLexer.peek_char,
            DotLexer.advance] using h1
    · have he : escape_string (c :: cs) = c :: escape_string cs := by
        simp only [escape_string, if_neg hc]
      rw [he] at hf ⊢
      have hc1 : c ≠ '\\' := fun h => hc (Or.inl h)
      have hc2 : c ≠ '"' := fun h => hc (Or.inr h)
      cases fuel with
      | zero => simp at hf
      | succ n =>
        have hf' : (escape_string cs ++ '"' :: r).length ≤ n := by
          simp only [List.cons_append, List.length_cons] at hf
          omega
        rw [List.cons_append, read_string_loop]
        have hcur : (lx (c :: (escape_string cs ++ '"' :: r)) l k).current_char = c := rfl
        have hmore : (lx (c :: (escape_string cs ++ '"' :: r)) l k).has_more = true := rfl
        have hb : (c == '\\') = false := by simpa using hc1
        have hq : (c != '"') = true := by simpa using hc2
        rw [hcur, hmore, hb, hq]
        simp only [Bool.and_self, if_true, Bool.false_and, Bool.false_eq_true, if_false]
        rw [advance_lx]
        by_cases hn : c = '\n'
        · rw [if_pos hn]
          obtain ⟨l1, k1, h1⟩ := ih n (l + 1) 1 (v ++ [c]) hf'
          exact ⟨l1, k1, by simpa using h1⟩
        · rw [if_neg hn]
          obtain ⟨l1, k1, h1⟩ := ih n l (k + 1) (v ++ [c]) hf'
          exact ⟨l1, k1, by simpa using h1⟩

/-- The literal of a quoted string at the cursor is scanned as one `STR_ID` token whose
text is the string it denotes. -/
theorem scan_quoted (s : List Char) (r : List Char) (l k : Nat) :
    ∃ l1 k1, (lx ('"' :: (escape_string s ++ '"' :: r)) l k).scan_token =
      .ok (⟨TokenType.STR_ID, s, l, k⟩, lx r l1 k1) := by
  obtain ⟨l1, k1, h⟩ := read_string_loop_escape s r
    (lx ('"' :: (escape_string s ++ '"' :: r)) l k).rest.length l (k + 1) []
    (by simp [lx])
  refine ⟨l1, k1 + 1, ?_⟩
  have hadv : (lx ('"' :: (escape_string s ++ '"' :: r)) l k).advance =
      lx (escape_string s ++ '"' :: r) l (k + 1) := by
    rw [advance_lx]; rfl
  have hscan : (lx ('"' :: (escape_string s ++ '"' :: r)) l k).scan_token =
      (lx ('"' :: (escape_string s ++ '"' :: r)) l k).read_string := by
    simp [DotLexer.scan_token, lx, DotLexer.has_more, DotLexer.current_char]
  rw [hscan]
  unfold DotLexer.read_string
  rw [hadv, h]
  simp [lx, DotLexer.has_more, DotLexer.advance]

end Dot

end XDotCpp

/-! ## What the parser does on given text -/

namespace XDotCpp

namespace Dot

/-- The parser's `advance` over white space `sp` and a piece `x` that the lexer scans as
one token with type `ty` and text `tx`, leaving `r`. -/
theorem advance_piece (sp : List Char) (hsp : ∀ c ∈ sp, is_whitespace c = true) (x r : List Char)
    (hx : x.head?.all (fun c => !is_whitespace c) = true) (ty : TokenType) (tx : List Char)
    (hscan : ∀ l k, ∃ l2 k2, (lx x l k).scan_token = .ok (⟨ty, tx, l, k⟩, lx r l2 k2)) :
    ∀ (l k : Nat) (tok0 : Token), ∃ l1 k1 l2 k2,
      (ps (sp ++ x) l k tok0).advance = .ok (ps r l2 k2 ⟨ty, tx, l1, k1⟩) := by
  intro l k tok0
  obtain ⟨l1, k1, h1⟩ := next_token_skip_blank sp hsp x l k
  obtain ⟨l2, k2, h2⟩ := hscan l1 k1
  refine ⟨l1, k1, l2, k2, ?_⟩
  unfold DotParser.advance ps
  simp only
  rw [h1, next_token_stop x l1 k1 hx, h2]

theorem ends_word_head (r : List Char) (c : Char) (h : is_whitespace c = true) :
    ends_word (c :: r) = true := by
  cases hc : (c.isAlphanum || c == '_')
  · simp only [ends_word, hc, Bool.not_false]
  · rw [word_char_not_whitespace c hc] at h; cases h

theorem advance_word (sp : List Char) (hsp : ∀ c ∈ sp, is_whitespace c = true) (w r : List Char)
    (hw : is_identifier w = true) (hr : ends_word r = true) (l k : Nat) (tok0 : Token) :
    ∃ l1 k1 l2 k2,
      (ps (sp ++ (w ++ r)) l k tok0).advance = .ok (ps r l2 k2 ⟨keyword_type w, w, l1, k1⟩) := by
  apply advance_piece sp hsp (w ++ r) r _ _ _ (fun l k => ⟨l, k + w.length, scan_word w hw r hr l k⟩)
  obtain ⟨c, cs, rfl, hc, -⟩ := is_identifier_chars w hw
  simp [word_char_not_whitespace c (alphanum_of_alpha c hc)]

theorem advance_quoted (sp : List Char) (hsp : ∀ c ∈ sp, is_whitespace c = true)
    (s r : List Char) (l k : Nat) (tok0 : Token) :
    ∃ l1 k1 l2 k2,
      (ps (sp ++ '"' :: (escape_string s ++ '"' :: r)) l k tok0).advance =
        .ok (ps r l2 k2 ⟨TokenType.STR_ID, s, l1, k1⟩) := by
  refine advance_piece sp hsp _ r ?_ _ _ ?_ l k tok0
  · rfl
  · exact fun l k => scan_quoted s r l k

theorem advance_eof (sp : List Char) (hsp : ∀ c ∈ sp, is_whitespace c = true) (l k : Nat)
    (tok0 : Token) :
    ∃ l1 k1 l2 k2,
      (ps (sp ++ []) l k tok0).advance = .ok (ps [] l2 k2 ⟨TokenType.EOF_TOKEN, [], l1, k1⟩) :=
  advance_piece sp hsp [] [] (by decide) _ _ (fun l k => ⟨l, k, scan_eof l k⟩) l k tok0

theorem advance_lcurly (sp : List Char) (hsp : ∀ c ∈ sp, is_whitespace c = true) (r : List Char)
    (l k : Nat) (tok0 : Token) :
    ∃ l1 k1 l2 k2,
      (ps (sp ++ '{' :: r) l k tok0).advance = .ok (ps r l2 k2 ⟨TokenType.LCURLY, ['{'], l1, k1⟩) := by
  refine advance_piece sp hsp _ r ?_ _ _ ?_ l k tok0
  · rfl
  · exact fun l k => ⟨l, k + 1, scan_lcurly r l k⟩

theorem advance_rcurly (sp : List Char) (hsp : ∀ c ∈ sp, is_whitespace c = true) (r : List Char)
    (l k : Nat) (tok0 : Token) :
    ∃ l1 k1 l2 k2,
      (ps (sp ++ '}' :: r) l k tok0).advance = .ok (ps r l2 k2 ⟨TokenType.RCURLY, ['}'], l1, k1⟩) := by
  refine advance_piece sp hsp _ r ?_ _ _ ?_ l k tok0
  · rfl
  · exact fun l k => ⟨l, k + 1, scan_rcurly r l k⟩

theorem advance_lsquare (sp : List Char) (hsp : ∀ c ∈ sp, is_whitespace c = true) (r : List Char)
    (l k : Nat) (tok0 : Token) :
    ∃ l1 k1 l2 k2,
      (ps (sp ++ '[' :: r) l k tok0).advance =
        .ok (ps r l2 k2 ⟨TokenType.LSQUARE, ['['], l1, k1⟩) := by
  refine advance_piece sp hsp _ r ?_ _ _ ?_ l k tok0
  · rfl
  · exact fun l k => ⟨l, k + 1, scan_lsquare r l k⟩

theorem advance_rsquare (sp : List Char) (hsp : ∀ c ∈ sp, is_whitespace c = true) (r : List Char)
    (l k : Nat) (tok0 : Token) :
    ∃ l1 k1 l2 k2,
      (ps (sp ++ ']' :: r) l k tok0).advance =
        .ok (ps r l2 k2 ⟨TokenType.RSQUARE, [']'], l1, k1⟩) := by
  refine advance_piece sp hsp _ r ?_ _ _ ?_ l k tok0
  · rfl
  · exact fun l k => ⟨l, k + 1, scan_rsquare r l k⟩

theorem advance_equal (sp : List Char) (hsp : ∀ c ∈ sp, is_whitespace c = true) (r : List Char)
    (l k : Nat) (tok0 : Token) :
    ∃ l1 k1 l2 k2,
      (ps (sp ++ '=' :: r) l k tok0).advance = .ok (ps r l2 k2 ⟨TokenType.EQUAL, ['='], l1, k1⟩) := by
  refine advance_piece sp hsp _ r ?_ _ _ ?_ l k tok0
  · rfl
  · exact fun l k => ⟨l, k + 1, scan_equal r l k⟩

theorem advance_semi (sp : List Char) (hsp : ∀ c ∈ sp, is_whitespace c = true) (r : List Char)
    (l k : Nat) (tok0 : Token) :
    ∃ l1 k1 l2 k2,
      (ps (sp ++ ';' :: r) l k tok0).advance = .ok (ps r l2 k2 ⟨TokenType.SEMI, [';'], l1, k1⟩) := by
  refine advance_piece sp hsp _ r ?_ _ _ ?_ l k tok0
  · rfl
  · exact fun l k => ⟨l, k + 1, scan_semi r l k⟩

theorem advance_arrow (sp : List Char) (hsp : ∀ c ∈ sp, is_whitespace c = true) (r : List Char)
    (l k : Nat) (tok0 : Token) :
    ∃ l1 k1 l2 k2,
      (ps (sp ++ '-' :: '>' :: r) l k tok0).advance =
        .ok (ps r l2 k2 ⟨TokenType.EDGE_OP, ['-', '>'], l1, k1⟩) := by
  refine advance_piece sp hsp _ r ?_ _ _ ?_ l k tok0
  · rfl
  · exact fun l k => ⟨l, k + 1 + 1, scan_arrow r l k⟩

/-- The id of `IdSource`, followed by a space, is read by `advance` as a token that is
an `ID` or a `STR_ID` and carries the value of the id. -/
theorem advance_id (sp : List Char) (hsp : ∀ c ∈ sp, is_whitespace c = true) (i : IdSource)
    (hi : i.valid = true) (c : Char) (hc : ends_word (c :: r) = true) (l k : Nat)
    (tok0 : Token) :
    ∃ ty l1 k1 l2 k2, (ty = TokenType.ID ∨ ty = TokenType.STR_ID) ∧
      (ps (sp ++ (i.literal ++ c :: r)) l k tok0).advance =
        .ok (ps (c :: r) l2 k2 ⟨ty, i.value, l1, k1⟩) := by
  cases i with
  | plain w =>
    simp only [IdSource.valid, Bool.and_eq_true, Bool.not_eq_true'] at hi
    obtain ⟨l1, k1, l2, k2, h⟩ := advance_word sp hsp w (c :: r) hi.1 hc l k tok0
    have hk : keyword_type w = TokenType.ID := by
      have := hi.2
      simp only [keywords, List.contains_eq_any_beq, List.any_cons, List.any_nil, Bool.or_false,
        Bool.or_eq_false_iff, beq_eq_false_iff_ne, ne_eq] at this
      obtain ⟨h1, h2, h3, h4, h5, h6⟩ := this
      unfold keyword_type
      rw [if_neg h1, if_neg h2, if_neg h3, if_neg h4, if_neg h5, if_neg h6]
    rw [hk] at h
    exact ⟨_, l1, k1, l2, k2, Or.inl rfl, h⟩
  | quoted s =>
    obtain ⟨l1, k1, l2, k2, h⟩ := advance_quoted sp hsp s (c :: r) l k tok0
    refine ⟨_, l1, k1, l2, k2, Or.inr rfl, ?_⟩
    simpa [IdSource.literal, IdSource.value] using h

end Dot

end XDotCpp

/-! ## Minimal graphs -/

namespace XDotCpp
namespace Dot

theorem blank_nil : ∀ c ∈ ([] : List Char), is_whitespace c = true := by simp
theorem blank_space : ∀ c ∈ [' '], is_whitespace c = true := by decide

theorem new_eq (text : List Char) :
    DotParser.new text = (ps ([] ++ text) 1 1 Token.default).advance := rfl

/-- The token type of the keyword of a graph type. -/
theorem keyword_type_keyword (type : GraphType) :
    keyword_type type.keyword =
      (match type with
        | .GRAPH => TokenType.GRAPH
        | .DIGRAPH => TokenType.DIGRAPH) := by
  cases type <;> rfl

/-- The run of `parse_graph` over the tokens of a minimal graph, given what each
`advance` returns. -/
theorem parse_graph_minimal (fuel : Nat) (p0 p1 p2 p3 p4 p5 : DotParser) (strict : Bool)
    (type : GraphType) (id : Option (List Char))
    (hs : if strict = true then p0.current_token_.type = TokenType.STRICT ∧ p0.advance = .ok p1
      else p0.current_token_.type ≠ TokenType.STRICT ∧ p1 = p0)
    (hk : p1.current_token_.type = keyword_type type.keyword) (ak : p1.advance = .ok p2)
    (hi : match id with
      | some v => (p2.current_token_.type = TokenType.ID ∨ p2.current_token_.type = TokenType.STR_ID)
          ∧ p2.current_token_.text = v ∧ p2.advance = .ok p3
      | none => p3 = p2)
    (h3 : p3.current_token_.type = TokenType.LCURLY) (a3 : p3.advance = .ok p4)
    (h4 : p4.current_token_.type = TokenType.RCURLY) (a4 : p4.advance = .ok p5) :
    p0.parse_graph (fuel + 1) = .ok (⟨type, strict, id.getD [], [], [], [], []⟩, p5) := by
  rw [keyword_type_keyword] at hk
  cases strict <;> cases type <;> cases id
  all_goals simp only [if_true, if_false, Bool.false_eq_true] at hs hi hk
  all_goals obtain ⟨hs1, hs2⟩ := hs
  all_goals first
    | subst hs2
    | skip
  all_goals first
    | subst hi
    | (obtain ⟨hi1, hi2, hi3⟩ := hi; rcases hi1 with hi1 | hi1)
  all_goals
    simp [DotParser.parse_graph, DotParser.consume, DotParser.parse_id, parse_graph_body, Graph.new,
      bind, Except.bind, pure, Except.pure, *]

theorem is_identifier_keyword (type : GraphType) : is_identifier type.keyword = true := by
  cases type <;> rfl

/-- C1: every minimal graph text `strict? (graph|digraph) ID? { }` - with or without
`strict`, with either keyword, with no id, a non-keyword identifier or a quoted string -
parses to the graph with that strict flag, that type, that id (empty when there is none)
and with no attribute, node, edge or subgraph. -/
theorem parse_minimal_graph (strict : Bool) (type : GraphType) (id : Option IdSource)
    (hid : ∀ i ∈ id, i.valid = true) :
    parse (minimal_graph_text strict type id) =
      .ok ⟨type, strict, (id.map IdSource.value).getD [], [], [], [], []⟩ := by
  -- the text after the keyword
  obtain ⟨tail, htail⟩ : ∃ tail, tail = id_text id ++ ['{', ' ', '}'] := ⟨_, rfl⟩
  have htext : minimal_graph_text strict type id =
      (if strict = true then "strict ".toList else []) ++ (type.keyword ++ ' ' :: tail) := by
    rw [htail]
    simp [minimal_graph_text]
  have hfuel : ∃ n, 2 * (minimal_graph_text strict type id).length + 4 = n + 1 := ⟨_, rfl⟩
  obtain ⟨fuel, hfuel⟩ := hfuel
  unfold parse
  rw [hfuel, htext]
  -- from the keyword on
  have chain : ∀ (sp : List Char) (hsp : ∀ c ∈ sp, is_whitespace c = true) (l k : Nat)
      (tok0 : Token), ∃ p1 p2 p3 p4 p5,
      (ps (sp ++ (type.keyword ++ ' ' :: tail)) l k tok0).advance = .ok p1 ∧
      p1.current_token_.type = keyword_type type.keyword ∧ p1.advance = .ok p2 ∧
      (match id.map IdSource.value with
        | some v => (p2.current_token_.type = TokenType.ID ∨
            p2.current_token_.type = TokenType.STR_ID) ∧ p2.current_token_.text = v ∧
            p2.advance = .ok p3
        | none => p3 = p2) ∧
      p3.current_token_.type = TokenType.LCURLY ∧ p3.advance = .ok p4 ∧
      p4.current_token_.type = TokenType.RCURLY ∧ p4.advance = .ok p5 := by
    intro sp hsp l k tok0
    obtain ⟨l1, k1, l1', k1', h1⟩ := advance_word sp hsp type.keyword (' ' :: tail)
      (is_identifier_keyword type) rfl l k tok0
    cases id with
    | none =>
      simp only [id_text, List.nil_append] at htail
      subst htail
      obtain ⟨l4, k4, l4', k4', h4⟩ := advance_lcurly [' '] blank_space [' ', '}'] l1' k1'
        ⟨keyword_type type.keyword, type.keyword, l1, k1⟩
      obtain ⟨l5, k5, l5', k5', h5⟩ := advance_rcurly [' '] blank_space [] l4' k4'
        ⟨TokenType.LCURLY, ['{'], l4, k4⟩
      obtain ⟨l6, k6, l6', k6', h6⟩ := advance_eof [] blank_nil l5' k5'
        ⟨TokenType.RCURLY, ['}'], l5, k5⟩
      exact ⟨_, _, _, _, _, h1, rfl, h4, rfl, rfl, h5, rfl, h6⟩
    | some i =>
      simp only [id_text, List.append_assoc, List.singleton_append] at htail
      subst htail
      obtain ⟨ty, l3, k3, l3', k3', hty, h3⟩ := advance_id [' '] blank_space i
        (hid i rfl) ' ' (r := ['{', ' ', '}']) rfl l1' k1'
        ⟨keyword_type type.keyword, type.keyword, l1, k1⟩
      obtain ⟨l4, k4, l4', k4', h4⟩ := advance_lcurly [' '] blank_space [' ', '}'] l3' k3'
        ⟨ty, i.value, l3, k3⟩
      obtain ⟨l5, k5, l5', k5', h5⟩ := advance_rcurly [' '] blank_space [] l4' k4'
        ⟨TokenType.LCURLY, ['{'], l4, k4⟩
      obtain ⟨l6, k6, l6', k6', h6⟩ := advance_eof [] blank_nil l5' k5'
        ⟨TokenType.RCURLY, ['}'], l5, k5⟩
      exact ⟨_, _, _, _, _, h1, rfl, h3, ⟨hty, rfl, h4⟩, rfl, h5, rfl, h6⟩
  cases strict with
  | false =>
    obtain ⟨p1, p2, p3, p4, p5, a0, hk, ak, hi, h3, a3, h4, a4⟩ := chain [] blank_nil 1 1
      Token.default
    have hne : p1.current_token_.type ≠ TokenType.STRICT := by
      rw [hk, keyword_type_keyword]
      cases type <;> simp
    have := parse_graph_minimal fuel p1 p1 p2 p3 p4 p5 false type (id.map IdSource.value)
      ⟨hne, rfl⟩ hk ak hi h3 a3 h4 a4
    rw [new_eq]
    simp only [Bool.false_eq_true, if_false, List.nil_append] at a0 ⊢
    rw [a0]
    simp only [bind, Except.bind, this, pure, Except.pure]
  | true =>
    obtain ⟨l0, k0, l0', k0', a0⟩ := advance_word [] blank_nil "strict".toList
      (' ' :: (type.keyword ++ ' ' :: tail)) rfl rfl 1 1 Token.default
    obtain ⟨p1, p2, p3, p4, p5, a1, hk, ak, hi, h3, a3, h4, a4⟩ := chain [' '] blank_space
      l0' k0' ⟨keyword_type "strict".toList, "strict".toList, l0, k0⟩
    have := parse_graph_minimal fuel (ps (' ' :: (type.keyword ++ ' ' :: tail)) l0' k0'
      ⟨keyword_type "strict".toList, "strict".toList, l0, k0⟩) p1 p2 p3 p4 p5 true type
      (id.map IdSource.value) ⟨rfl, a1⟩ hk ak hi h3 a3 h4 a4
    rw [new_eq]
    have e : ("strict ".toList ++ (type.keyword ++ ' ' :: tail)) =
        "strict".toList ++ ' ' :: (type.keyword ++ ' ' :: tail) := by
      simp
    simp only [if_true]
    rw [e, a0]
    simp only [bind, Except.bind, this, pure, Except.pure]

/-- The theorem `parse_minimal_graph` at `strict graph "a b" { }`. -/
theorem parse_minimal_graph_witness :
    (∀ i ∈ some (IdSource.quoted "a b".toList), i.valid = true) ∧
    parse "strict graph \"a b\" \x7b \x7d".toList =
      .ok ⟨GraphType.GRAPH, true, "a b".toList, [], [], [], []⟩ :=
  ⟨by decide, parse_minimal_graph true GraphType.GRAPH (some (IdSource.quoted "a b".toList))
    (by decide)⟩

end Dot
end XDotCpp

/-! ## A digraph with one edge -/

namespace XDotCpp
namespace Dot

/-- The run of `parse_graph` over the tokens of `digraph G { s -> t [n=v]; }`, given what
each `advance` returns. -/
theorem parse_graph_one_edge (fuel : Nat) (p0 p1 p2 p3 p4 p5 p6 p7 p8 p9 p10 p11 p12 p13 : DotParser)
    (gid s t n v : List Char)
    (h0 : p0.current_token_.type = TokenType.DIGRAPH) (a0 : p0.advance = .ok p1)
    (h1 : p1.current_token_.type = TokenType.ID) (t1 : p1.current_token_.text = gid)
    (a1 : p1.advance = .ok p2)
    (h2 : p2.current_token_.type = TokenType.LCURLY) (a2 : p2.advance = .ok p3)
    (h3 : p3.current_token_.type = TokenType.ID) (t3 : p3.current_token_.text = s)
    (a3 : p3.advance = .ok p4)
    (h4 : p4.current_token_.type = TokenType.EDGE_OP) (a4 : p4.advance = .ok p5)
    (h5 : p5.current_token_.type = TokenType.ID) (t5 : p5.current_token_.text = t)
    (a5 : p5.advance = .ok p6)
    (h6 : p6.current_token_.type = TokenType.LSQUARE) (a6 : p6.advance = .ok p7)
    (h7 : p7.current_token_.type = TokenType.ID ∨ p7.current_token_.type = TokenType.STR_ID)
    (t7 : p7.current_token_.text = n) (a7 : p7.advance = .ok p8)
    (h8 : p8.current_token_.type = TokenType.EQUAL) (a8 : p8.advance = .ok p9)
    (h9 : p9.current_token_.type = TokenType.ID ∨ p9.current_token_.type = TokenType.STR_ID)
    (t9 : p9.current_token_.text = v) (a9 : p9.advance = .ok p10)
    (h10 : p10.current_token_.type = TokenType.RSQUARE) (a10 : p10.advance = .ok p11)
    (h11 : p11.current_token_.type = TokenType.SEMI) (a11 : p11.advance = .ok p12)
    (h12 : p12.current_token_.type = TokenType.RCURLY) (a12 : p12.advance = .ok p13) :
    p0.parse_graph (fuel + 2) =
      .ok (⟨GraphType.DIGRAPH, false, gid, [], [], [⟨s, t, [⟨n, v⟩]⟩], []⟩, p13) := by
  have attrs : p6.parse_attributes = .ok ([⟨n, v⟩], p11) := by
    unfold DotParser.parse_attributes
    rcases h7 with h7 | h7 <;> rcases h9 with h9 | h9 <;>
      simp [DotParser.consume, DotParser.parse_id, parse_attributes_loop,
        bind, Except.bind, pure, Except.pure, *]
  have edge : p4.parse_edge s = .ok (⟨s, t, [⟨n, v⟩]⟩, p11) := by
    simp [DotParser.parse_edge, DotParser.consume, DotParser.parse_id,
      bind, Except.bind, pure, Except.pure, *]
  simp [DotParser.parse_graph, DotParser.consume, DotParser.parse_id, parse_graph_body, Graph.new,
    DotParser.optional_semi, bind, Except.bind, pure, Except.pure, *]


/-- A word that is no keyword has the generic token type. -/
theorem keyword_type_plain (w : List Char) (h : keywords.contains w = false) :
    keyword_type w = TokenType.ID := by
  simp only [keywords, List.contains_eq_any_beq, List.any_cons, List.any_nil, Bool.or_false,
    Bool.or_eq_false_iff, beq_eq_false_iff_ne, ne_eq] at h
  obtain ⟨h1, h2, h3, h4, h5, h6⟩ := h
  unfold keyword_type
  rw [if_neg h1, if_neg h2, if_neg h3, if_neg h4, if_neg h5, if_neg h6]

/-- C2: for all non-keyword identifiers `s` and `t` and every attribute name `n` and value
`v`, the text `digraph G { s -> t [n=v]; }` parses to a graph with exactly one edge, from `s`
to `t` with the attribute list `[(n, v)]`, and with an empty node list. -/
theorem parse_one_edge (s t : List Char) (n v : IdSource)
    (hs : (IdSource.plain s).valid = true) (ht : (IdSource.plain t).valid = true)
    (hn : n.valid = true) (hv : v.valid = true) :
    parse (one_edge_text s t n v) =
      .ok ⟨GraphType.DIGRAPH, false, ['G'], [], [], [⟨s, t, [⟨n.value, v.value⟩]⟩], []⟩ := by
  simp only [IdSource.valid, Bool.and_eq_true, Bool.not_eq_true'] at hs ht
  have htext : one_edge_text s t n v = ("digraph".toList ++ ' ' :: ("G".toList ++ ' ' :: '{' ::
      ' ' :: (s ++ ' ' :: '-' :: '>' :: ' ' :: (t ++ ' ' :: '[' :: (n.literal ++ '=' ::
      (v.literal ++ ']' :: ';' :: ' ' :: '}' :: [])))))) := by
    simp [one_edge_text]
  obtain ⟨fuel, hfuel⟩ : ∃ f, 2 * (one_edge_text s t n v).length + 4 = f + 2 := ⟨_, rfl⟩
  unfold parse
  rw [hfuel, htext, new_eq]
  obtain ⟨l0, k0, l0', k0', a⟩ := advance_word [] blank_nil "digraph".toList
    (' ' :: ("G".toList ++ ' ' :: '{' :: ' ' :: (s ++ ' ' :: '-' :: '>' :: ' ' :: (t ++ ' ' :: '[' :: (n.literal ++ '=' :: (v.literal ++ [']', ';', ' ', '}'])))))) rfl rfl 1 1 Token.default
  obtain ⟨l1, k1, l1', k1', a0⟩ := advance_word [' '] blank_space "G".toList
    (' ' :: '{' :: ' ' :: (s ++ ' ' :: '-' :: '>' :: ' ' :: (t ++ ' ' :: '[' :: (n.literal ++ '=' :: (v.literal ++ [']', ';', ' ', '}']))))) rfl rfl l0' k0'
    ⟨keyword_type "digraph".toList, "digraph".toList, l0, k0⟩
  obtain ⟨l2, k2, l2', k2', a1⟩ := advance_lcurly [' '] blank_space
    (' ' :: (s ++ ' ' :: '-' :: '>' :: ' ' :: (t ++ ' ' :: '[' :: (n.literal ++ '=' :: (v.literal ++ [']', ';', ' ', '}']))))) l1' k1' ⟨keyword_type "G".toList, "G".toList, l1, k1⟩
  obtain ⟨l3, k3, l3', k3', a2⟩ := advance_word [' '] blank_space s
    (' ' :: '-' :: '>' :: ' ' :: (t ++ ' ' :: '[' :: (n.literal ++ '=' :: (v.literal ++ [']', ';', ' ', '}'])))) hs.1 rfl l2' k2' ⟨TokenType.LCURLY, ['{'], l2, k2⟩
  obtain ⟨l4, k4, l4', k4', a3⟩ := advance_arrow [' '] blank_space
    (' ' :: (t ++ ' ' :: '[' :: (n.literal ++ '=' :: (v.literal ++ [']', ';', ' ', '}'])))) l3' k3' ⟨keyword_type s, s, l3, k3⟩
  obtain ⟨l5, k5, l5', k5', a4⟩ := advance_word [' '] blank_space t
    (' ' :: '[' :: (n.literal ++ '=' :: (v.literal ++ [']', ';', ' ', '}']))) ht.1 rfl l4' k4' ⟨TokenType.EDGE_OP, ['-', '>'], l4, k4⟩
  obtain ⟨l6, k6, l6', k6', a5⟩ := advance_lsquare [' '] blank_space
    (n.literal ++ '=' :: (v.literal ++ [']', ';', ' ', '}'])) l5' k5' ⟨keyword_type t, t, l5, k5⟩
  obtain ⟨ty7, l7, k7, l7', k7', h7, a6⟩ := advance_id [] blank_nil n hn '='
    (r := (v.literal ++ [']', ';', ' ', '}'])) rfl l6' k6' ⟨TokenType.LSQUARE, ['['], l6, k6⟩
  obtain ⟨l8, k8, l8', k8', a7⟩ := advance_equal [] blank_nil
    (v.literal ++ [']', ';', ' ', '}']) l7' k7' ⟨ty7, n.value, l7, k7⟩
  obtain ⟨ty9, l9, k9, l9', k9', h9, a8⟩ := advance_id [] blank_nil v hv ']'
    (r := [';', ' ', '}']) rfl l8' k8' ⟨TokenType.EQUAL, ['='], l8, k8⟩
  obtain ⟨l10, k10, l10', k10', a9⟩ := advance_rsquare [] blank_nil [';', ' ', '}'] l9' k9'
    ⟨ty9, v.value, l9, k9⟩
  obtain ⟨l11, k11, l11', k11', a10⟩ := advance_semi [] blank_nil [' ', '}'] l10' k10'
    ⟨TokenType.RSQUARE, [']'], l10, k10⟩
  obtain ⟨l12, k12, l12', k12', a11⟩ := advance_rcurly [' '] blank_space [] l11' k11'
    ⟨TokenType.SEMI, [';'], l11, k11⟩
  obtain ⟨l13, k13, l13', k13', a12⟩ := advance_eof [] blank_nil l12' k12'
    ⟨TokenType.RCURLY, ['}'], l12, k12⟩
  have := parse_graph_one_edge fuel _ _ _ _ _ _ _ _ _ _ _ _ _ _ ['G'] s t n.value v.value
    rfl a0 rfl rfl a1 rfl a2 (keyword_type_plain s hs.2) rfl a3 rfl a4
    (keyword_type_plain t ht.2) rfl a5 rfl a6 h7 rfl a7 rfl a8 h9 rfl a9 rfl a10 rfl a11 rfl a12
  rw [a]
  simp only [bind, Except.bind, pure, Except.pure]
  erw [this]

/-- The theorem `parse_one_edge` at `digraph G { a -> b [color=red]; }`. -/
theorem parse_one_edge_witness :
    ((IdSource.plain ['a']).valid = true ∧ (IdSource.plain ['b']).valid = true ∧
      (IdSource.plain "color".toList).valid = true ∧
      (IdSource.plain "red".toList).valid = true) ∧
    parse "digraph G \x7b a -> b [color=red]; \x7d".toList =
      .ok ⟨GraphType.DIGRAPH, false, ['G'], [], [],
        [⟨['a'], ['b'], [⟨"color".toList, "red".toList⟩]⟩], []⟩ :=
  ⟨by decide, parse_one_edge ['a'] ['b'] (IdSource.plain "color".toList)
    (IdSource.plain "red".toList) (by decide) (by decide) (by decide) (by decide)⟩

end Dot
end XDotCpp

/-! ## The position of a syntax error: the state of the parser at the throw -/

set_option linter.unusedTactic false
set_option linter.unreachableTactic false

namespace XDotCpp

namespace Dot

theorem Reaches.trans {p q r : DotParser} (h1 : Reaches p q) (h2 : Reaches q r) : Reaches p r := by
  induction h1 with
  | refl => exact h2
  | step p p1 q a _ ih => exact Reaches.step p p1 r a (ih h2)

/-- The messages of the lexer are no syntax errors. -/
theorem next_token_error_lexical (s : DotLexer) (e : ParseError) (h : s.next_token = .error e) :
    e.message.is_syntactic = false := by
  unfold DotLexer.next_token at h
  refine (ite_eq_cases h).elim (fun h' => ?_) (fun h' => ?_) <;> clear h <;> obtain ⟨-, h⟩ := h'
  · cases h
  generalize s.skip_whitespace = w at h
  unfold DotLexer.scan_token at h
  repeat' (refine (ite_eq_cases h).elim (fun h' => ?_) (fun h' => ?_) <;> clear h <;>
    obtain ⟨-, h⟩ := h')
  all_goals first
    | (cases h; rfl)
    | exact Except.noConfusion h

/-- The current token of a state that the parser reaches is a token of the lexer: the
last one of a run of calls of `next_token` that all return. -/
theorem Reaches.tokens {p q : DotParser} (h : Reaches p q) :
    ∀ s0 : DotLexer, s0.next_token = .ok (p.current_token_, p.lexer_) →
      ∃ (n : Nat) (toks : List Token),
        next_tokens (n + 1) s0 = .ok (toks ++ [q.current_token_]) := by
  induction h with
  | refl p =>
    intro s0 h0
    refine ⟨0, [], ?_⟩
    simp [next_tokens, h0]
  | step p p1 q a _ ih =>
    intro s0 h0
    have h1 : p.lexer_.next_token = .ok (p1.current_token_, p1.lexer_) := by
      unfold DotParser.advance at a
      cases hn : p.lexer_.next_token with
      | error e => rw [hn] at a; cases a
      | ok r =>
        rw [hn] at a
        cases a
        rfl
    obtain ⟨n, toks, hn⟩ := ih p.lexer_ h1
    refine ⟨n + 1, p.current_token_ :: toks, ?_⟩
    rw [next_tokens, h0]
    simp only [hn, List.cons_append]

theorem Traces.after {α : Type} {proj : α → DotParser} {p q : DotParser}
    {m : Except (Failure × DotParser) α} {m0 : Except Failure α} (h : Reaches p q)
    (hq : Traces proj q m m0) : Traces proj p m m0 :=
  ⟨hq.1, fun e r he hs => by
      obtain ⟨h1, h2, h3, h4⟩ := hq.2.1 e r he hs
      exact ⟨h.trans h1, h2, h3, h4⟩,
    fun a ha => h.trans (hq.2.2 a ha)⟩

theorem Traces.value {α : Type} {proj : α → DotParser} {p : DotParser} (a : α)
    (h : Reaches p (proj a)) : Traces proj p (Pure.pure a) (Pure.pure a) := by
  refine ⟨rfl, fun e q he => ?_, fun b hb => ?_⟩
  · cases he
  · cases hb; exact h

theorem Traces.chain {α β : Type} {proj : α → DotParser} {proj' : β → DotParser}
    {p : DotParser} {m : Except (Failure × DotParser) α} {m0 : Except Failure α}
    {f : α → Except (Failure × DotParser) β} {f0 : α → Except Failure β}
    (hm : Traces proj p m m0) (hf : ∀ a, Traces proj' (proj a) (f a) (f0 a)) :
    Traces proj' p (m >>= f) (m0 >>= f0) := by
  obtain ⟨h1, h2, h3⟩ := hm
  cases m with
  | error x =>
    obtain ⟨x1, x2⟩ := x
    subst h1
    refine ⟨rfl, fun e q he hs => ?_, fun b hb => ?_⟩
    · exact h2 e q (by simpa [Bind.bind, Except.bind] using he) hs
    · cases hb
  | ok a =>
    subst h1
    exact Traces.after (h3 a rfl) (hf a)

theorem Traces.no_fuel {α : Type} {proj : α → DotParser} {p q : DotParser} :
    Traces proj p (Except.error (Failure.out_of_fuel, q) : Except (Failure × DotParser) α)
      (Except.error Failure.out_of_fuel) :=
  ⟨rfl, fun e r he => (by cases he), fun a ha => (by cases ha)⟩

/-- The throw statement of the parser: the state at the throw is the state that throws, and
the error is located at its current token. -/
theorem Traces.throw {α : Type} {proj : α → DotParser} {p : DotParser} (message : Message)
    (h : message.rejects p.current_token_.type = true) :
    Traces proj p (Traced.fail p message : Except (Failure × DotParser) α) (p.fail message) := by
  refine ⟨rfl, fun e q he _ => ?_, fun a ha => by cases ha⟩
  unfold Traced.fail at he
  cases he
  exact ⟨Reaches.refl p, rfl, rfl, h⟩

theorem advance_traces (p : DotParser) : Traces id p (Traced.advance p) p.advance := by
  unfold Traced.advance DotParser.advance
  cases h : p.lexer_.next_token with
  | error x =>
    refine ⟨rfl, fun e q he hs => ?_, fun a ha => (by cases ha)⟩
    cases he
    rw [next_token_error_lexical _ _ h] at hs
    cases hs
  | ok r =>
    refine ⟨rfl, fun e q he hs => (by cases he), fun a ha => ?_⟩
    cases ha
    refine Reaches.step p _ _ ?_ (Reaches.refl _)
    unfold DotParser.advance
    rw [h]
    rfl

theorem consume_traces (ty : TokenType) (p : DotParser) :
    Traces id p (Traced.consume ty p) (p.consume ty) := by
  unfold Traced.consume DotParser.consume
  split
  · rename_i h
    apply Traces.throw
    simpa [Message.rejects] using h
  · exact advance_traces p

theorem parse_id_traces (p : DotParser) : Traces Prod.snd p (Traced.parse_id p) p.parse_id := by
  unfold Traced.parse_id DotParser.parse_id
  split
  · exact Traces.chain (advance_traces p) (fun q => Traces.value _ (Reaches.refl _))
  · rename_i h
    apply Traces.throw
    simp only [Bool.or_eq_true, beq_iff_eq, not_or] at h
    simp [Message.rejects, h]

theorem optional_semi_traces (p : DotParser) :
    Traces id p (Traced.optional_semi p) p.optional_semi := by
  unfold Traced.optional_semi DotParser.optional_semi
  split
  · exact advance_traces p
  · exact Traces.value p (Reaches.refl p)

theorem parse_attributes_loop_traces (fuel : Nat) : ∀ (p : DotParser) (attributes : AttributeList),
    Traces Prod.snd p (Traced.parse_attributes_loop fuel p attributes)
      (parse_attributes_loop fuel p attributes) := by
  induction fuel with
  | zero => intro p attributes; exact Traces.no_fuel
  | succ n ih =>
    intro p attributes
    unfold Traced.parse_attributes_loop parse_attributes_loop
    repeat' first
      | exact Traces.no_fuel
      | exact Traces.value _ (Reaches.refl _)
      | exact ih _ _
      | (refine Traces.chain (advance_traces _) ?_; intro _)
      | (refine Traces.chain (consume_traces _ _) ?_; intro _)
      | (refine Traces.chain (optional_semi_traces _) ?_; intro _)
      | (refine Traces.chain (parse_id_traces _) ?_; rintro ⟨_, _⟩)
      | (refine @Traces.chain _ _ Prod.snd _ _ _ _ _ _ (Traces.value _ (Reaches.refl _)) ?_;
          rintro ⟨_, _⟩)
      | (refine @Traces.chain _ _ id _ _ _ _ _ _ (Traces.value _ (Reaches.refl _)) ?_; intro _)
      | (apply Traces.throw; simp_all [Message.rejects]; done)
      | simp only []
      | split

end Dot

end XDotCpp

set_option linter.unusedTactic false
set_option linter.unreachableTactic false

namespace XDotCpp

namespace Dot

theorem parse_attributes_traces (p : DotParser) :
    Traces Prod.snd p (Traced.parse_attributes p) p.parse_attributes := by
  unfold Traced.parse_attributes DotParser.parse_attributes
  repeat' first
    | exact Traces.no_fuel
    | exact Traces.value _ (Reaches.refl _)
    | (refine Traces.chain (parse_attributes_loop_traces _ _ _) ?_; rintro ⟨_, _⟩)
    | (refine Traces.chain (advance_traces _) ?_; intro _)
    | (refine Traces.chain (consume_traces _ _) ?_; intro _)
    | (refine Traces.chain (optional_semi_traces _) ?_; intro _)
    | (refine Traces.chain (parse_id_traces _) ?_; rintro ⟨_, _⟩)
    | (refine @Traces.chain _ _ Prod.snd _ _ _ _ _ _ (Traces.value _ (Reaches.refl _)) ?_;
        rintro ⟨_, _⟩)
    | (refine @Traces.chain _ _ id _ _ _ _ _ _ (Traces.value _ (Reaches.refl _)) ?_; intro _)
    | (apply Traces.throw; simp_all [Message.rejects]; done)
    | simp only []
    | split

theorem parse_edge_traces (source_id : List Char) (p : DotParser) :
    Traces Prod.snd p (Traced.parse_edge source_id p) (p.parse_edge source_id) := by
  unfold Traced.parse_edge DotParser.parse_edge
  repeat' first
    | exact Traces.no_fuel
    | exact Traces.value _ (Reaches.refl _)
    | (refine Traces.chain (parse_attributes_traces _) ?_; rintro ⟨_, _⟩)
    | (refine Traces.chain (advance_traces _) ?_; intro _)
    | (refine Traces.chain (consume_traces _ _) ?_; intro _)
    | (refine Traces.chain (optional_semi_traces _) ?_; intro _)
    | (refine Traces.chain (parse_id_traces _) ?_; rintro ⟨_, _⟩)
    | (refine @Traces.chain _ _ Prod.snd _ _ _ _ _ _ (Traces.value _ (Reaches.refl _)) ?_;
        rintro ⟨_, _⟩)
    | (refine @Traces.chain _ _ id _ _ _ _ _ _ (Traces.value _ (Reaches.refl _)) ?_; intro _)
    | (apply Traces.throw; simp_all [Message.rejects]; done)
    | simp only []
    | split

theorem node_statement_traces (id : List Char) (p : DotParser) :
    Traces Prod.snd p (Traced.node_statement id p) (p.node_statement id) := by
  unfold Traced.node_statement DotParser.node_statement
  repeat' first
    | exact Traces.no_fuel
    | exact Traces.value _ (Reaches.refl _)
    | (refine Traces.chain (parse_attributes_traces _) ?_; rintro ⟨_, _⟩)
    | (refine Traces.chain (advance_traces _) ?_; intro _)
    | (refine Traces.chain (consume_traces _ _) ?_; intro _)
    | (refine Traces.chain (optional_semi_traces _) ?_; intro _)
    | (refine Traces.chain (parse_id_traces _) ?_; rintro ⟨_, _⟩)
    | (refine @Traces.chain _ _ Prod.snd _ _ _ _ _ _ (Traces.value _ (Reaches.refl _)) ?_;
        rintro ⟨_, _⟩)
    | (refine @Traces.chain _ _ id _ _ _ _ _ _ (Traces.value _ (Reaches.refl _)) ?_; intro _)
    | (apply Traces.throw; simp_all [Message.rejects]; done)
    | simp only []
    | split

theorem parse_subgraph_traces (fuel : Nat) :
    (∀ p : DotParser, Traces Prod.snd p (Traced.parse_subgraph fuel p) (parse_subgraph fuel p)) ∧
    (∀ (p : DotParser) (sg : Subgraph),
      Traces Prod.snd p (Traced.parse_subgraph_body fuel p sg) (parse_subgraph_body fuel p sg)) := by
  induction fuel with
  | zero =>
    constructor
    · intro p; unfold Traced.parse_subgraph parse_subgraph; exact Traces.no_fuel
    · intro p sg; unfold Traced.parse_subgraph_body parse_subgraph_body; exact Traces.no_fuel
  | succ n ih =>
    constructor
    · intro p
      unfold Traced.parse_subgraph parse_subgraph
      repeat' first
        | exact Traces.no_fuel
        | exact Traces.value _ (Reaches.refl _)
        | (refine Traces.chain (ih.2 _ _) ?_; rintro ⟨_, _⟩)
        | (refine Traces.chain (advance_traces _) ?_; intro _)
        | (refine Traces.chain (consume_traces _ _) ?_; intro _)
        | (refine Traces.chain (optional_semi_traces _) ?_; intro _)
        | (refine Traces.chain (parse_id_traces _) ?_; rintro ⟨_, _⟩)
        | (refine @Traces.chain _ _ Prod.snd _ _ _ _ _ _ (Traces.value _ (Reaches.refl _)) ?_;
            rintro ⟨_, _⟩)
        | (refine @Traces.chain _ _ id _ _ _ _ _ _ (Traces.value _ (Reaches.refl _)) ?_; intro _)
        | (apply Traces.throw; simp_all [Message.rejects]; done)
        | simp only []
        | split
    · intro p sg
      unfold Traced.parse_subgraph_body parse_subgraph_body
      repeat' first
        | exact Traces.no_fuel
        | exact Traces.value _ (Reaches.refl _)
        | exact ih.2 _ _
        | (refine Traces.chain (ih.1 _) ?_; rintro ⟨_, _⟩)
        | (refine Traces.chain (parse_edge_traces _ _) ?_; rintro ⟨_, _⟩)
        | (refine Traces.chain (node_statement_traces _ _) ?_; rintro ⟨_, _⟩)
        | (refine Traces.chain (advance_traces _) ?_; intro _)
        | (refine Traces.chain (consume_traces _ _) ?_; intro _)
        | (refine Traces.chain (optional_semi_traces _) ?_; intro _)
        | (refine Traces.chain (parse_id_traces _) ?_; rintro ⟨_, _⟩)
        | (refine @Traces.chain _ _ Prod.snd _ _ _ _ _ _ (Traces.value _ (Reaches.refl _)) ?_;
            rintro ⟨_, _⟩)
        | (refine @Traces.chain _ _ id _ _ _ _ _ _ (Traces.value _ (Reaches.refl _)) ?_; intro _)
        | (apply Traces.throw; simp_all [Message.rejects]; done)
        | simp only []
        | split

theorem parse_graph_body_traces (fuel : Nat) : ∀ (p : DotParser) (graph : Graph),
    Traces Prod.snd p (Traced.parse_graph_body fuel p graph) (parse_graph_body fuel p graph) := by
  induction fuel with
  | zero => intro p graph; exact Traces.no_fuel
  | succ n ih =>
    intro p graph
    unfold Traced.parse_graph_body parse_graph_body
    by_cases h0 : (p.current_token_.type != TokenType.RCURLY
        && p.current_token_.type != TokenType.EOF_TOKEN) = true
    swap
    · rw [if_neg h0, if_neg h0]
      exact Traces.value _ (Reaches.refl _)
    rw [if_pos h0, if_pos h0]
    by_cases h1 : (p.current_token_.type == TokenType.NODE) = true
    · rw [if_pos h1, if_pos h1]
      repeat' first
        | exact Traces.no_fuel
        | exact Traces.value _ (Reaches.refl _)
        | exact ih _ _
        | (refine Traces.chain ((parse_subgraph_traces _).1 _) ?_; rintro ⟨_, _⟩)
        | (refine Traces.chain (parse_attributes_traces _) ?_; rintro ⟨_, _⟩)
        | (refine Traces.chain (parse_edge_traces _ _) ?_; rintro ⟨_, _⟩)
        | (refine Traces.chain (node_statement_traces _ _) ?_; rintro ⟨_, _⟩)
        | (refine Traces.chain (advance_traces _) ?_; intro _)
        | (refine Traces.chain (consume_traces _ _) ?_; intro _)
        | (refine Traces.chain (optional_semi_traces _) ?_; intro _)
        | (refine Traces.chain (parse_id_traces _) ?_; rintro ⟨_, _⟩)
        | (refine @Traces.chain _ _ Prod.snd _ _ _ _ _ _ (Traces.value _ (Reaches.refl _)) ?_;
            rintro ⟨_, _⟩)
        | (refine @Traces.chain _ _ id _ _ _ _ _ _ (Traces.value _ (Reaches.refl _)) ?_; intro _)
        | (apply Traces.throw; simp_all [Message.rejects]; done)
        | simp only []
        | split
    rw [if_neg h1, if_neg h1]
    by_cases h2 : (p.current_token_.type == TokenType.EDGE) = true
    · rw [if_pos h2, if_pos h2]
      repeat' first
        | exact Traces.no_fuel
        | exact Traces.value _ (Reaches.refl _)
        | exact ih _ _
        | (refine Traces.chain ((parse_subgraph_traces _).1 _) ?_; rintro ⟨_, _⟩)
        | (refine Traces.chain (parse_attributes_traces _) ?_; rintro ⟨_, _⟩)
        | (refine Traces.chain (parse_edge_traces _ _) ?_; rintro ⟨_, _⟩)
        | (refine Traces.chain (node_statement_traces _ _) ?_; rintro ⟨_, _⟩)
        | (refine Traces.chain (advance_traces _) ?_; intro _)
        | (refine Traces.chain (consume_traces _ _) ?_; intro _)
        | (refine Traces.chain (optional_semi_traces _) ?_; intro _)
        | (refine Traces.chain (parse_id_traces _) ?_; rintro ⟨_, _⟩)
        | (refine @Traces.chain _ _ Prod.snd _ _ _ _ _ _ (Traces.value _ (Reaches.refl _)) ?_;
            rintro ⟨_, _⟩)
        | (refine @Traces.chain _ _ id _ _ _ _ _ _ (Traces.value _ (Reaches.refl _)) ?_; intro _)
        | (apply Traces.throw; simp_all [Message.rejects]; done)
        | simp only []
        | split
    rw [if_neg h2, if_neg h2]
    by_cases h3 : (p.current_token_.type == TokenType.GRAPH) = true
    · rw [if_pos h3, if_pos h3]
      repeat' first
        | exact Traces.no_fuel
        | exact Traces.value _ (Reaches.refl _)
        | exact ih _ _
        | (refine Traces.chain ((parse_subgraph_traces _).1 _) ?_; rintro ⟨_, _⟩)
        | (refine Traces.chain (parse_attributes_traces _) ?_; rintro ⟨_, _⟩)
        | (refine Traces.chain (parse_edge_traces _ _) ?_; rintro ⟨_, _⟩)
        | (refine Traces.chain (node_statement_traces _ _) ?_; rintro ⟨_, _⟩)
        | (refine Traces.chain (advance_traces _) ?_; intro _)
        | (refine Traces.chain (consume_traces _ _) ?_; intro _)
        | (refine Traces.chain (optional_semi_traces _) ?_; intro _)
        | (refine Traces.chain (parse_id_traces _) ?_; rintro ⟨_, _⟩)
        | (refine @Traces.chain _ _ Prod.snd _ _ _ _ _ _ (Traces.value _ (Reaches.refl _)) ?_;
            rintro ⟨_, _⟩)
        | (refine @Traces.chain _ _ id _ _ _ _ _ _ (Traces.value _ (Reaches.refl _)) ?_; intro _)
        | (apply Traces.throw; simp_all [Message.rejects]; done)
        | simp only []
        | split
    rw [if_neg h3, if_neg h3]
    by_cases h4 : (p.current_token_.type == TokenType.SUBGRAPH) = true
    · rw [if_pos h4, if_pos h4]
      repeat' first
        | exact Traces.no_fuel
        | exact Traces.value _ (Reaches.refl _)
        | exact ih _ _
        | (refine Traces.chain ((parse_subgraph_traces _).1 _) ?_; rintro ⟨_, _⟩)
        | (refine Traces.chain (parse_attributes_traces _) ?_; rintro ⟨_, _⟩)
        | (refine Traces.chain (parse_edge_traces _ _) ?_; rintro ⟨_, _⟩)
        | (refine Traces.chain (node_statement_traces _ _) ?_; rintro ⟨_, _⟩)
        | (refine Traces.chain (advance_traces _) ?_; intro _)
        | (refine Traces.chain (consume_traces _ _) ?_; intro _)
        | (refine Traces.chain (optional_semi_traces _) ?_; intro _)
        | (refine Traces.chain (parse_id_traces _) ?_; rintro ⟨_, _⟩)
        | (refine @Traces.chain _ _ Prod.snd _ _ _ _ _ _ (Traces.value _ (Reaches.refl _)) ?_;
            rintro ⟨_, _⟩)
        | (refine @Traces.chain _ _ id _ _ _ _ _ _ (Traces.value _ (Reaches.refl _)) ?_; intro _)
        | (apply Traces.throw; simp_all [Message.rejects]; done)
        | simp only []
        | split
    rw [if_neg h4, if_neg h4]
    by_cases h5 : (p.current_token_.type == TokenType.ID
        || p.current_token_.type == TokenType.STR_ID) = true
    · rw [if_pos h5, if_pos h5]
      repeat' first
        | exact Traces.no_fuel
        | exact Traces.value _ (Reaches.refl _)
        | exact ih _ _
        | (refine Traces.chain ((parse_subgraph_traces _).1 _) ?_; rintro ⟨_, _⟩)
        | (refine Traces.chain (parse_attributes_traces _) ?_; rintro ⟨_, _⟩)
        | (refine Traces.chain (parse_edge_traces _ _) ?_; rintro ⟨_, _⟩)
        | (refine Traces.chain (node_statement_traces _ _) ?_; rintro ⟨_, _⟩)
        | (refine Traces.chain (advance_traces _) ?_; intro _)
        | (refine Traces.chain (consume_traces _ _) ?_; intro _)
        | (refine Traces.chain (optional_semi_traces _) ?_; intro _)
        | (refine Traces.chain (parse_id_traces _) ?_; rintro ⟨_, _⟩)
        | (refine @Traces.chain _ _ Prod.snd _ _ _ _ _ _ (Traces.value _ (Reaches.refl _)) ?_;
            rintro ⟨_, _⟩)
        | (refine @Traces.chain _ _ id _ _ _ _ _ _ (Traces.value _ (Reaches.refl _)) ?_; intro _)
        | (apply Traces.throw; simp_all [Message.rejects]; done)
        | simp only []
        | split
    rw [if_neg h5, if_neg h5]
    repeat' first
      | exact Traces.no_fuel
      | exact Traces.value _ (Reaches.refl _)
      | exact ih _ _
      | (refine Traces.chain ((parse_subgraph_traces _).1 _) ?_; rintro ⟨_, _⟩)
      | (refine Traces.chain (parse_attributes_traces _) ?_; rintro ⟨_, _⟩)
      | (refine Traces.chain (parse_edge_traces _ _) ?_; rintro ⟨_, _⟩)
      | (refine Traces.chain (node_statement_traces _ _) ?_; rintro ⟨_, _⟩)
      | (refine Traces.chain (advance_traces _) ?_; intro _)
      | (refine Traces.chain (consume_traces _ _) ?_; intro _)
      | (refine Traces.chain (optional_semi_traces _) ?_; intro _)
      | (refine Traces.chain (parse_id_traces _) ?_; rintro ⟨_, _⟩)
      | (refine @Traces.chain _ _ Prod.snd _ _ _ _ _ _ (Traces.value _ (Reaches.refl _)) ?_;
          rintro ⟨_, _⟩)
      | (refine @Traces.chain _ _ id _ _ _ _ _ _ (Traces.value _ (Reaches.refl _)) ?_; intro _)
      | (apply Traces.throw; simp_all [Message.rejects]; done)
      | simp only []
      | split

theorem parse_graph_traces (fuel : Nat) (p : DotParser) :
    Traces Prod.snd p (Traced.parse_graph fuel p) (p.parse_graph fuel) := by
  unfold Traced.parse_graph DotParser.parse_graph
  repeat' first
    | exact Traces.no_fuel
    | exact Traces.value _ (Reaches.refl _)
    | (refine Traces.chain (parse_graph_body_traces _ _ _) ?_; rintro ⟨_, _⟩)
    | (refine Traces.chain (advance_traces _) ?_; intro _)
    | (refine Traces.chain (consume_traces _ _) ?_; intro _)
    | (refine Traces.chain (optional_semi_traces _) ?_; intro _)
    | (refine Traces.chain (parse_id_traces _) ?_; rintro ⟨_, _⟩)
    | (refine @Traces.chain _ _ Prod.snd _ _ _ _ _ _ (Traces.value _ (Reaches.refl _)) ?_;
        rintro ⟨_, _⟩)
    | (refine @Traces.chain _ _ id _ _ _ _ _ _ (Traces.value _ (Reaches.refl _)) ?_; intro _)
    | (apply Traces.throw; simp_all [Message.rejects]; done)
    | simp only []
    | split

end Dot

end XDotCpp

namespace XDotCpp

namespace Dot

/-- The state that the parser reaches is the state after a run of calls of `next_token`
that all return: its current token is the last token of the run, and its lexer is the lexer
after the run. -/
theorem Reaches.lexer {p q : DotParser} (h : Reaches p q) :
    ∀ s0 : DotLexer, s0.next_token = .ok (p.current_token_, p.lexer_) →
      ∃ (n : Nat) (toks : List Token),
        next_tokens (n + 1) s0 = .ok (toks ++ [q.current_token_]) ∧
        lexer_after (n + 1) s0 = some q.lexer_ := by
  induction h with
  | refl p =>
    intro s0 h0
    refine ⟨0, [], ?_, ?_⟩
    · simp [next_tokens, h0]
    · simp [lexer_after, h0]
  | step p p1 q a _ ih =>
    intro s0 h0
    have h1 : p.lexer_.next_token = .ok (p1.current_token_, p1.lexer_) := by
      unfold DotParser.advance at a
      cases hn : p.lexer_.next_token with
      | error e => rw [hn] at a; cases a
      | ok r =>
        rw [hn] at a
        cases a
        rfl
    obtain ⟨n, toks, hn, hl⟩ := ih p.lexer_ h1
    refine ⟨n + 1, p.current_token_ :: toks, ?_, ?_⟩
    · rw [next_tokens, h0]
      simp only [hn, List.cons_append]
    · rw [lexer_after, h0]
      exact hl

/-- The parser with the state at the throw on a text: without the state it is `parse`; and
a syntax error it throws has the line and the column of the current token of the state at
the throw, which is the state after a run of calls of `next_token` on the text, and its
message rejects the type of that token. -/
theorem parse_traces (text : List Char) :
    forget_state (Traced.parse text) = parse text ∧
    ∀ e q, Traced.parse text = .error (.thrown e, q) → e.message.is_syntactic = true →
      ∃ (n : Nat) (toks : List Token),
        next_tokens (n + 1) (DotLexer.new text) = .ok (toks ++ [q.current_token_]) ∧
        lexer_after (n + 1) (DotLexer.new text) = some q.lexer_ ∧
        e.line = q.current_token_.line ∧ e.column = q.current_token_.column ∧
        e.message.rejects q.current_token_.type = true := by
  unfold Traced.parse parse Traced.new DotParser.new
  obtain ⟨a1, a2, a3⟩ :=
    advance_traces { lexer_ := DotLexer.new text, current_token_ := Token.default }
  cases h0 : Traced.advance { lexer_ := DotLexer.new text, current_token_ := Token.default } with
  | error x =>
    obtain ⟨f, r⟩ := x
    rw [h0] at a1
    rw [← a1]
    refine ⟨rfl, fun e q he hs => ?_⟩
    have he' : f = .thrown e ∧ r = q := by
      simpa [Bind.bind, Except.bind] using he
    obtain ⟨rfl, rfl⟩ := he'
    -- an error of the constructor is an error of the lexer
    unfold Traced.advance at h0
    cases hn : (DotLexer.new text).next_token with
    | error y =>
      simp only [hn] at h0
      cases h0
      rw [next_token_error_lexical _ _ hn] at hs
      cases hs
    | ok y => simp only [hn] at h0; cases h0
  | ok p0 =>
    rw [h0] at a1
    rw [← a1]
    have hl : (DotLexer.new text).next_token = .ok (p0.current_token_, p0.lexer_) := by
      unfold Traced.advance at h0
      cases hn : (DotLexer.new text).next_token with
      | error y => simp only [hn] at h0; cases h0
      | ok y =>
        simp only [hn] at h0
        cases h0
        rfl
    obtain ⟨b1, b2, b3⟩ := parse_graph_traces (2 * text.length + 4) p0
    cases h1 : Traced.parse_graph (2 * text.length + 4) p0 with
    | error x =>
      obtain ⟨f, r⟩ := x
      rw [h1] at b1
      refine ⟨?_, fun e q he hs => ?_⟩
      · simp only [h1, forget_state, Bind.bind, Except.bind, ← b1]
      · have he' : f = .thrown e ∧ r = q := by
          simpa [h1, Bind.bind, Except.bind] using he
        obtain ⟨rfl, rfl⟩ := he'
        obtain ⟨hr, e1, e2, e3⟩ := b2 e r h1 hs
        obtain ⟨n, toks, hn, hla⟩ := hr.lexer (DotLexer.new text) hl
        exact ⟨n, toks, hn, hla, e1, e2, e3⟩
    | ok r =>
      rw [h1] at b1
      refine ⟨?_, fun e q he hs => ?_⟩
      · simp only [h1, forget_state, Bind.bind, Except.bind, ← b1]
        rfl
      · simp [h1, Bind.bind, Except.bind, Pure.pure, Except.pure] at he

/-- C3: when `parse` fails with a syntax error - an error of the parser, as opposed to the
lexer - no graph is returned and the error carries the line and the column of the
offending token, the token the parser looks at when it throws. In terms of the parser with
the state at the throw, which without the state is `parse`: the run ends with the same
error in a state `q`; `q` is the state of the parser after `n + 1` calls of `next_token` on
the text, its current token being the last token read and its lexer the lexer after these
calls; the error has the line and the column of the current token of `q`; and its message
rejects the type of that token. -/
theorem parse_error_position (text : List Char) (e : ParseError)
    (h : parse text = .error (.thrown e)) (hsyn : e.message.is_syntactic = true) :
    forget_state (Traced.parse text) = parse text ∧
    ∃ (q : DotParser) (n : Nat) (toks : List Token),
      Traced.parse text = .error (.thrown e, q) ∧
      next_tokens (n + 1) (DotLexer.new text) = .ok (toks ++ [q.current_token_]) ∧
      lexer_after (n + 1) (DotLexer.new text) = some q.lexer_ ∧
      e.line = q.current_token_.line ∧ e.column = q.current_token_.column ∧
      e.message.rejects q.current_token_.type = true := by
  obtain ⟨h1, h2⟩ := parse_traces text
  refine ⟨h1, ?_⟩
  cases ht : Traced.parse text with
  | ok g =>
    rw [ht, h] at h1
    cases h1
  | error x =>
    obtain ⟨f, q⟩ := x
    rw [ht, h] at h1
    have hf : f = .thrown e := by
      simpa [forget_state] using h1
    subst hf
    obtain ⟨n, toks, t1, t2, t3, t4, t5⟩ := h2 e q ht hsyn
    exact ⟨q, n, toks, rfl, t1, t2, t3, t4, t5⟩

/-- The theorem `parse_error_position` on a text whose body is not closed: the error is at
the end marker in line 2; and the run on `strict foo { }`, which throws at the token `foo`
in column 8 and not at `strict` in column 1. -/
theorem parse_error_position_witness :
    parse "graph \x7b a\n".toList =
      .error (.thrown ⟨Message.expected_token_type TokenType.RCURLY TokenType.EOF_TOKEN, 2, 1⟩) ∧
    failure_token (Traced.parse "graph \x7b a\n".toList) =
      some (.thrown ⟨Message.expected_token_type TokenType.RCURLY TokenType.EOF_TOKEN, 2, 1⟩,
        ⟨TokenType.EOF_TOKEN, [], 2, 1⟩) ∧
    failure_token (Traced.parse "strict foo \x7b \x7d".toList) =
      some (.thrown ⟨Message.expected_graph_or_digraph, 1, 8⟩,
        ⟨TokenType.ID, "foo".toList, 1, 8⟩) ∧
    (forget_state (Traced.parse "graph \x7b a\n".toList) = parse "graph \x7b a\n".toList ∧
    ∃ (q : DotParser) (n : Nat) (toks : List Token),
      Traced.parse "graph \x7b a\n".toList = .error
        (.thrown ⟨Message.expected_token_type TokenType.RCURLY TokenType.EOF_TOKEN, 2, 1⟩, q) ∧
      next_tokens (n + 1) (DotLexer.new "graph \x7b a\n".toList) =
        .ok (toks ++ [q.current_token_]) ∧
      lexer_after (n + 1) (DotLexer.new "graph \x7b a\n".toList) = some q.lexer_ ∧
      2 = q.current_token_.line ∧ 1 = q.current_token_.column ∧
      (Message.expected_token_type TokenType.RCURLY TokenType.EOF_TOKEN).rejects
        q.current_token_.type = true) :=
  ⟨rfl, rfl, rfl, parse_error_position "graph \x7b a\n".toList
    ⟨Message.expected_token_type TokenType.RCURLY TokenType.EOF_TOKEN, 2, 1⟩ rfl rfl⟩

end Dot

end XDotCpp

/-! ## Comments -/

namespace XDotCpp

namespace Dot

/-- The comment branches of `skip_whitespace` are dead: in a state without a peeked token whose
unread text begins with `/` or with `#`, the call of `next_token` throws the error of an
unexpected character at the cursor. -/
theorem next_token_comment_start (c : Char) (hc : c = '/' ∨ c = '#') (r : List Char)
    (l k : Nat) :
    (lx (c :: r) l k).next_token = .error ⟨Message.unexpected_character c, l, k⟩ := by
  rw [next_token_stop (c :: r) l k (by rcases hc with rfl | rfl <;> rfl)]
  rcases hc with rfl | rfl <;>
    simp [DotLexer.scan_token, lx, DotLexer.has_more, DotLexer.current_char, DotLexer.peek_char,
      is_digit, is_alpha]

/-- C4, the code at a failing input: on `a // c`, `a # c` and `a /* c */ b` the second call of
`next_token` throws at the first character of the comment, while the same texts with the
comment replaced by one space lex to the tokens `a`, `b` and the end marker. -/
theorem comments_not_skipped :
    next_tokens 3 (DotLexer.new "a // c\n b".toList) =
      .error ⟨Message.unexpected_character '/', 1, 3⟩ ∧
    next_tokens 3 (DotLexer.new "a  \n b".toList) =
      .ok [⟨TokenType.ID, ['a'], 1, 1⟩, ⟨TokenType.ID, ['b'], 2, 2⟩,
        ⟨TokenType.EOF_TOKEN, [], 2, 3⟩] ∧
    next_tokens 3 (DotLexer.new "a # c\n b".toList) =
      .error ⟨Message.unexpected_character '#', 1, 3⟩ ∧
    next_tokens 3 (DotLexer.new "a /* c */ b".toList) =
      .error ⟨Message.unexpected_character '/', 1, 3⟩ ∧
    next_tokens 3 (DotLexer.new "a   b".toList) =
      .ok [⟨TokenType.ID, ['a'], 1, 1⟩, ⟨TokenType.ID, ['b'], 1, 5⟩,
        ⟨TokenType.EOF_TOKEN, [], 1, 6⟩] ∧
    parse "graph \x7b // c\n \x7d".toList =
      .error (.thrown ⟨Message.unexpected_character '/', 1, 9⟩) :=
  ⟨rfl, rfl, rfl, rfl, rfl, rfl⟩

end Dot

end XDotCpp

/-! ## Identifiers and keywords -/

namespace XDotCpp
namespace Dot

/-- The kind of a word is a keyword kind exactly for the keyword itself. -/
theorem keyword_type_iff (w : List Char) :
    (keyword_type w = TokenType.STRICT ↔ w = "strict".toList) ∧
    (keyword_type w = TokenType.GRAPH ↔ w = "graph".toList) ∧
    (keyword_type w = TokenType.DIGRAPH ↔ w = "digraph".toList) ∧
    (keyword_type w = TokenType.NODE ↔ w = "node".toList) ∧
    (keyword_type w = TokenType.EDGE ↔ w = "edge".toList) ∧
    (keyword_type w = TokenType.SUBGRAPH ↔ w = "subgraph".toList) ∧
    (keyword_type w = TokenType.ID ↔ w ∉ keywords) := by
  unfold keyword_type
  by_cases h1 : w = "strict".toList
  · subst h1; decide
  by_cases h2 : w = "graph".toList
  · subst h2; decide
  by_cases h3 : w = "digraph".toList
  · subst h3; decide
  by_cases h4 : w = "node".toList
  · subst h4; decide
  by_cases h5 : w = "edge".toList
  · subst h5; decide
  by_cases h6 : w = "subgraph".toList
  · subst h6; decide
  rw [if_neg h1, if_neg h2, if_neg h3, if_neg h4, if_neg h5, if_neg h6]
  simp only [keywords, List.mem_cons, List.mem_singleton, List.not_mem_nil, or_false, h1, h2,
    h3, h4, h5, h6, or_self, not_false_eq_true, iff_true]
  decide

/-- The first character of an identifier is no white space. -/
theorem identifier_head_not_whitespace (w : List Char) (hw : is_identifier w = true)
    (r : List Char) : (w ++ r).head?.all (fun c => !is_whitespace c) = true := by
  obtain ⟨c, cs, rfl, hc, -⟩ := is_identifier_chars w hw
  simp [word_char_not_whitespace c (alphanum_of_alpha c hc)]

/-- C29: a maximal run `w` of letters, digits and underscores that starts with a letter
or an underscore is returned as one token with the text `w`, at the position where the
run starts, and the lexer goes on behind it. The kind of the token is the kind of a
keyword exactly when `w` is that keyword, letter for letter, and it is the generic kind
`ID` exactly when `w` is none of the six keywords. -/
theorem keyword_exact_match (w : List Char) (hw : is_identifier w = true) (r : List Char)
    (hr : ends_word r = true) (l k : Nat) :
    ∃ kind, (lx (w ++ r) l k).next_token = .ok (⟨kind, w, l, k⟩, lx r l (k + w.length)) ∧
      (kind = TokenType.STRICT ↔ w = "strict".toList) ∧
      (kind = TokenType.GRAPH ↔ w = "graph".toList) ∧
      (kind = TokenType.DIGRAPH ↔ w = "digraph".toList) ∧
      (kind = TokenType.NODE ↔ w = "node".toList) ∧
      (kind = TokenType.EDGE ↔ w = "edge".toList) ∧
      (kind = TokenType.SUBGRAPH ↔ w = "subgraph".toList) ∧
      (kind = TokenType.ID ↔ w ∉ keywords) := by
  refine ⟨keyword_type w, ?_, keyword_type_iff w⟩
  rw [next_token_stop _ l k (identifier_head_not_whitespace w hw r), scan_word w hw r hr l k]

/-- The words `Graph` and `NODE` are generic identifiers and `node` is a keyword. -/
theorem keyword_exact_match_witness :
    (lx "Graph NODE".toList 1 1).next_token =
        .ok (⟨TokenType.ID, "Graph".toList, 1, 1⟩, lx " NODE".toList 1 6) ∧
      (lx "NODE;".toList 1 1).next_token =
        .ok (⟨TokenType.ID, "NODE".toList, 1, 1⟩, lx [';'] 1 5) ∧
      (lx "node[".toList 2 3).next_token =
        .ok (⟨TokenType.NODE, "node".toList, 2, 3⟩, lx ['['] 2 7) := by
  refine ⟨?_, ?_, ?_⟩
  · obtain ⟨kind, h, -, -, -, -, -, -, h7⟩ :=
      keyword_exact_match "Graph".toList (by decide) " NODE".toList (by decide) 1 1
    have hk := h7.2 (by decide)
    subst hk
    exact h
  · obtain ⟨kind, h, -, -, -, -, -, -, h7⟩ :=
      keyword_exact_match "NODE".toList (by decide) [';'] (by decide) 1 1
    have hk := h7.2 (by decide)
    subst hk
    exact h
  · obtain ⟨kind, h, -, -, -, h4, -, -, -⟩ :=
      keyword_exact_match "node".toList (by decide) ['['] (by decide) 2 3
    have hk := h4.2 rfl
    subst hk
    exact h

end Dot
end XDotCpp

/-! ## Quoted strings -/

namespace XDotCpp
namespace Dot

/-- The loop of `read_string` decodes the pieces of a body and stops at the closing
quote. -/
theorem read_string_loop_pieces (pieces : List StringPiece)
    (hp : ∀ p ∈ pieces, p.valid = true) (r : List Char) :
    ∀ (fuel l k : Nat) (v : List Char), (pieces_literal pieces ++ '"' :: r).length ≤ fuel →
      ∃ l1 k1, read_string_loop fuel (lx (pieces_literal pieces ++ '"' :: r) l k) v =
        (lx ('"' :: r) l1 k1, v ++ pieces_value pieces) := by
  induction pieces with
  | nil =>
    intro fuel l k v hf
    cases fuel with
    | zero => simp [pieces_literal] at hf
    | succ n =>
      refine ⟨l, k, ?_⟩
      simp [pieces_literal, pieces_value, read_string_loop, lx, DotLexer.has_more,
        DotLexer.current_char]
  | cons p ps ih =>
    intro fuel l k v hf
    have hps : ∀ q ∈ ps, q.valid = true := fun q hq => hp q (List.mem_cons_of_mem _ hq)
    have hpv := hp p (List.mem_cons_self _ _)
    cases p with
    | plain c =>
      have he : pieces_literal (StringPiece.plain c :: ps) = c :: pieces_literal ps := rfl
      have hv : pieces_value (StringPiece.plain c :: ps) = c :: pieces_value ps := rfl
      rw [he] at hf
      rw [he, hv]
      simp only [StringPiece.valid, Bool.and_eq_true, bne_iff_ne, ne_eq] at hpv
      cases fuel with
      | zero => simp at hf
      | succ n =>
        have hf' : (pieces_literal ps ++ '"' :: r).length ≤ n := by
          simp only [List.cons_append, List.length_cons] at hf
          omega
        rw [List.cons_append, read_string_loop]
        have hcur : (lx (c :: (pieces_literal ps ++ '"' :: r)) l k).current_char = c := rfl
        have hmore : (lx (c :: (pieces_literal ps ++ '"' :: r)) l k).has_more = true := rfl
        have hb : (c == '\\') = false := by simpa using hpv.1
        have hq : (c != '"') = true := by simpa using hpv.2
        rw [hcur, hmore, hb, hq]
        simp only [Bool.and_self, if_true, Bool.false_and, Bool.false_eq_true, if_false]
        rw [advance_lx]
        by_cases hn : c = '\n'
        · rw [if_pos hn]
          obtain ⟨l1, k1, h1⟩ := ih hps n (l + 1) 1 (v ++ [c]) hf'
          exact ⟨l1, k1, by simpa using h1⟩
        · rw [if_neg hn]
          obtain ⟨l1, k1, h1⟩ := ih hps n l (k + 1) (v ++ [c]) hf'
          exact ⟨l1, k1, by simpa using h1⟩
    | escaped c =>
      have he : pieces_literal (StringPiece.escaped c :: ps) = '\\' :: c :: pieces_literal ps :=
        rfl
      have hv : pieces_value (StringPiece.escaped c :: ps) = unescape c :: pieces_value ps :=
        rfl
      rw [he] at hf
      rw [he, hv]
      simp only [StringPiece.valid, bne_iff_ne, ne_eq] at hpv
      cases fuel with
      | zero => simp at hf
      | succ n =>
        have hf' : (pieces_literal ps ++ '"' :: r).length ≤ n := by
          simp only [List.cons_append, List.length_cons] at hf
          omega
        rw [List.cons_append, List.cons_append, read_string_loop]
        have hcur : (lx ('\\' :: c :: (pieces_literal ps ++ '"' :: r)) l k).current_char =
            '\\' := rfl
        have hmore : (lx ('\\' :: c :: (pieces_literal ps ++ '"' :: r)) l k).has_more = true :=
          rfl
        have hpeek : (lx ('\\' :: c :: (pieces_literal ps ++ '"' :: r)) l k).peek_char = c :=
          rfl
        have hnul : (c != '\x00') = true := by simpa using hpv
        have hadv : (lx ('\\' :: c :: (pieces_literal ps ++ '"' :: r)) l k).advance =
            lx (c :: (pieces_literal ps ++ '"' :: r)) l (k + 1) := by
          rw [advance_lx]; rfl
        have hcur1 : (lx (c :: (pieces_literal ps ++ '"' :: r)) l (k + 1)).current_char = c :=
          rfl
        rw [hcur, hmore, hpeek, hnul, hadv]
        dsimp only
        rw [hcur1]
        have hval : (if (c == 'n') = true then v ++ ['\n']
            else if (c == 't') = true then v ++ ['\t']
            else if (c == 'r') = true then v ++ ['\r']
            else if (c == '\\') = true then v ++ ['\\']
            else if (c == '"') = true then v ++ ['"']
            else v ++ [c]) = v ++ [unescape c] := by
          unfold unescape
          by_cases h1 : c = 'n'
          · subst h1; rfl
          by_cases h2 : c = 't'
          · subst h2; rfl
          by_cases h3 : c = 'r'
          · subst h3; rfl
          by_cases h4 : c = '\\'
          · subst h4; rfl
          by_cases h5 : c = '"'
          · subst h5; rfl
          simp [h1, h2, h3, h4, h5]
        simp only [bne_self_eq_false, Bool.true_and, Bool.and_self, if_true, ne_eq,
          Bool.not_eq_true, hval]
        rw [advance_lx]
        by_cases hn : c = '\n'
        · rw [if_pos hn]
          obtain ⟨l1, k1, h1⟩ := ih hps n (l + 1) 1 (v ++ [unescape c]) hf'
          exact ⟨l1, k1, by simpa using h1⟩
        · rw [if_neg hn]
          obtain ⟨l1, k1, h1⟩ := ih hps n l (k + 1 + 1) (v ++ [unescape c]) hf'
          exact ⟨l1, k1, by simpa using h1⟩

/-- The literal made of the pieces is scanned as one `STR_ID` token whose text is the
string that the pieces denote. -/
theorem scan_pieces (pieces : List StringPiece) (hp : ∀ p ∈ pieces, p.valid = true)
    (r : List Char) (l k : Nat) :
    ∃ l1 k1, (lx ('"' :: (pieces_literal pieces ++ '"' :: r)) l k).scan_token =
      .ok (⟨TokenType.STR_ID, pieces_value pieces, l, k⟩, lx r l1 k1) := by
  obtain ⟨l1, k1, h⟩ := read_string_loop_pieces pieces hp r
    (lx ('"' :: (pieces_literal pieces ++ '"' :: r)) l k).rest.length l (k + 1) []
    (by simp [lx])
  refine ⟨l1, k1 + 1, ?_⟩
  have hadv : (lx ('"' :: (pieces_literal pieces ++ '"' :: r)) l k).advance =
      lx (pieces_literal pieces ++ '"' :: r) l (k + 1) := by
    rw [advance_lx]; rfl
  have hscan : (lx ('"' :: (pieces_literal pieces ++ '"' :: r)) l k).scan_token =
      (lx ('"' :: (pieces_literal pieces ++ '"' :: r)) l k).read_string := by
    simp [DotLexer.scan_token, lx, DotLexer.has_more, DotLexer.current_char]
  rw [hscan]
  unfold DotLexer.read_string
  rw [hadv, h]
  simp [lx, DotLexer.has_more, DotLexer.advance]

/-- A double quote at the cursor is no white space. -/
theorem quote_not_whitespace (r : List Char) :
    ('"' :: r).head?.all (fun c => !is_whitespace c) = true := by
  simp [is_whitespace]

/-- C27, as amended: for every string `s`, the literal made of a double quote, of `s` with a
backslash before every backslash and every double quote, and of a double quote is
returned as one `STR_ID` token with the text `s` at the position of the opening quote.
In the body of a literal a backslash with a character other than NUL after it denotes
one character: the newline for `n`, the tab for `t`, the carriage return for `r`, and the
character itself otherwise. -/
theorem quoted_string_unescapes (s : List Char) (pieces : List StringPiece)
    (hp : ∀ p ∈ pieces, p.valid = true) (r : List Char) (l k : Nat) :
    (∃ l1 k1, (lx ('"' :: (escape_string s ++ '"' :: r)) l k).next_token =
      .ok (⟨TokenType.STR_ID, s, l, k⟩, lx r l1 k1)) ∧
    (∃ l1 k1, (lx ('"' :: (pieces_literal pieces ++ '"' :: r)) l k).next_token =
      .ok (⟨TokenType.STR_ID, pieces_value pieces, l, k⟩, lx r l1 k1)) := by
  rw [next_token_stop _ l k (quote_not_whitespace _), next_token_stop _ l k (quote_not_whitespace _)]
  exact ⟨scan_quoted s r l k, scan_pieces pieces hp r l k⟩

/-- The literal `"a\"b\\"` denotes `a"b\`, and `"x\ny\qz"` denotes `x`, newline, `yqz`. -/
theorem quoted_string_unescapes_witness :
    (∀ p ∈ [StringPiece.plain 'x', .escaped 'n', .plain 'y', .escaped 'q', .plain 'z'],
      p.valid = true) ∧
    ((∃ l1 k1, (lx ('"' :: (escape_string ['a', '"', 'b', '\\'] ++ '"' :: [';'])) 1 1).next_token =
      .ok (⟨TokenType.STR_ID, ['a', '"', 'b', '\\'], 1, 1⟩, lx [';'] l1 k1)) ∧
    (∃ l1 k1, (lx ('"' :: (pieces_literal [StringPiece.plain 'x', .escaped 'n', .plain 'y',
        .escaped 'q', .plain 'z'] ++ '"' :: [';'])) 1 1).next_token =
      .ok (⟨TokenType.STR_ID, pieces_value [StringPiece.plain 'x', .escaped 'n', .plain 'y',
        .escaped 'q', .plain 'z'], 1, 1⟩, lx [';'] l1 k1))) :=
  ⟨by decide, quoted_string_unescapes _ _ (by decide) _ 1 1⟩

/-- C27 as stated fails: in the literal `"\0"`, whose body is a backslash and the NUL
character, the escaped character does not decode to itself: the token has the two
characters backslash and NUL. -/
theorem escaped_nul_keeps_backslash :
    (lx ['"', '\\', '\x00', '"'] 1 1).next_token =
        .ok (⟨TokenType.STR_ID, ['\\', '\x00'], 1, 1⟩, lx [] 1 5) ∧
      ['\\', '\x00'] ≠ [unescape '\x00'] := by
  constructor
  · rfl
  · decide

end Dot
end XDotCpp

/-! ## Bracketed text and literals that are not closed -/

namespace XDotCpp
namespace Dot

/-- The position after one character, whatever the character is. -/
theorem advance_lx_some (c : Char) (r : List Char) (l k : Nat) :
    ∃ l1 k1, (lx (c :: r) l k).advance = lx r l1 k1 := by
  rw [advance_lx]
  split
  · exact ⟨_, _, rfl⟩
  · exact ⟨_, _, rfl⟩

/-- What one character adds to the depth of the angle brackets. -/
theorem angle_depth_cons (c : Char) (t : List Char) :
    angle_depth (c :: t) =
      (if c = '<' then 1 else if c = '>' then -1 else 0) + angle_depth t := by
  unfold angle_depth
  by_cases h1 : c = '<'
  · subst h1
    rw [List.count_cons_self, List.count_cons_of_ne (by decide)]
    simp only [if_true]; push_cast; ring
  · by_cases h2 : c = '>'
    · subst h2
      rw [List.count_cons_self, List.count_cons_of_ne (by decide)]
      simp only [if_neg h1, if_true]; push_cast; ring
    · rw [List.count_cons_of_ne (fun h => h1 h.symm), List.count_cons_of_ne (fun h => h2 h.symm)]
      simp only [if_neg h1, if_neg h2]; ring

/-- The depth of a text is the depth of its first character and the depth of the rest. -/
theorem angle_depth_head (c : Char) (t : List Char) :
    angle_depth (c :: t) = angle_depth [c] + angle_depth t := by
  rw [angle_depth_cons c t, angle_depth_cons c []]
  simp [angle_depth]

/-- One character changes the depth by one at most. -/
theorem angle_depth_single (c : Char) :
    (c = '<' ∧ angle_depth [c] = 1) ∨ (c ≠ '<' ∧ -1 ≤ angle_depth [c] ∧ angle_depth [c] ≤ 0) := by
  rw [angle_depth_cons c []]
  by_cases h1 : c = '<'
  · left; simp [h1, angle_depth]
  · right
    refine ⟨h1, ?_⟩
    by_cases h2 : c = '>' <;> simp [h1, h2, angle_depth]

/-- The depth that `read_html_string` reaches after one character. -/
theorem html_depth_step (c : Char) (t r : List Char) (l k : Nat) (d : Int) :
    (if ((lx (c :: t ++ r) l k).current_char == '<') = true then d + 1
      else if ((lx (c :: t ++ r) l k).current_char == '>') = true then d - 1 else d) =
      d + angle_depth [c] := by
  have hcur : (lx (c :: t ++ r) l k).current_char = c := rfl
  rw [hcur, angle_depth_cons]
  by_cases h1 : c = '<'
  · subst h1; simp [angle_depth]
  · by_cases h2 : c = '>'
    · subst h2; simp [angle_depth]; ring
    · simp [h1, h2, angle_depth]

/-- The loop of `read_html_string` on bracketed text: it stops behind the text, at
depth zero. -/
theorem read_html_loop_balanced (r : List Char) :
    ∀ (h : List Char) (fuel l k : Nat) (v : List Char) (d : Int), h ≠ [] →
      (0 < d ∨ (d = 0 ∧ h.head? = some '<')) → d + angle_depth h = 0 →
      (∀ p, p <+: h → p ≠ [] → p ≠ h → d + angle_depth p ≠ 0) → h.length ≤ fuel →
      ∃ l1 k1, read_html_string_loop fuel (lx (h ++ r) l k) v d = (lx r l1 k1, v ++ h, 0) := by
  intro h
  induction h with
  | nil => intro fuel l k v d hne; exact absurd rfl hne
  | cons c h ih =>
    intro fuel l k v d _ hd hsum hpre hf
    cases fuel with
    | zero => simp at hf
    | succ n =>
      obtain ⟨l1, k1, hadv⟩ := advance_lx_some c (h ++ r) l k
      have hcur : (lx (c :: h ++ r) l k).current_char = c := rfl
      rw [read_html_string_loop, html_depth_step c h r l k d]
      simp only [hcur]
      rw [show lx (c :: h ++ r) l k = lx (c :: (h ++ r)) l k from rfl, hadv]
      have hge : 0 ≤ d + angle_depth [c] := by
        rcases hd with hd | ⟨hd, hc⟩
        · rcases angle_depth_single c with ⟨-, h1⟩ | ⟨-, h1, -⟩ <;> omega
        · simp only [List.head?_cons, Option.some.injEq] at hc
          rcases angle_depth_single c with ⟨-, h1⟩ | ⟨h1, -, -⟩
          · omega
          · exact absurd hc h1
      rw [angle_depth_head] at hsum
      cases h with
      | nil =>
        have h0 : d + angle_depth [c] = 0 := by simpa [angle_depth] using hsum
        rw [h0]
        exact ⟨l1, k1, by simp [lx, DotLexer.has_more]⟩
      | cons c2 h2 =>
        have hne0 : d + angle_depth [c] ≠ 0 :=
          hpre [c] (by simp) (by simp) (by simp)
        have hpos : 0 < d + angle_depth [c] := lt_of_le_of_ne hge (Ne.symm hne0)
        have hmore : (lx (c2 :: h2 ++ r) l1 k1).has_more = true := rfl
        rw [hmore]
        simp only [hpos, decide_True, Bool.and_self, if_true]
        obtain ⟨l2, k2, h2eq⟩ := ih n l1 k1 (v ++ [c]) (d + angle_depth [c]) (by simp)
          (Or.inl hpos)
          (by linarith)
          (by
            intro p hp hp1 hp2
            have := hpre (c :: p) ((List.prefix_cons_inj c).2 hp) (by simp) (by simpa using hp2)
            rw [angle_depth_head] at this
            intro hh; apply this; linarith)
          (by simp at hf ⊢; omega)
        exact ⟨l2, k2, by rw [h2eq]; simp⟩
/-- The loop of `read_html_string` on text whose brackets never balance: it stops at a
depth above zero. -/
theorem read_html_loop_open :
    ∀ (t : List Char) (fuel l k : Nat) (v : List Char) (d : Int), t ≠ [] →
      (0 < d ∨ (d = 0 ∧ t.head? = some '<')) →
      (∀ p, p <+: t → p ≠ [] → d + angle_depth p ≠ 0) → t.length ≤ fuel →
      0 < (read_html_string_loop fuel (lx t l k) v d).2.2 := by
  intro t
  induction t with
  | nil => intro fuel l k v d hne; exact absurd rfl hne
  | cons c t ih =>
    intro fuel l k v d _ hd hpre hf
    cases fuel with
    | zero => simp at hf
    | succ n =>
      obtain ⟨l1, k1, hadv⟩ := advance_lx_some c t l k
      have hstep := html_depth_step c t [] l k d
      rw [List.append_nil] at hstep
      rw [read_html_string_loop, hstep]
      have hcur : (lx (c :: t) l k).current_char = c := rfl
      simp only [hcur]
      rw [hadv]
      have hge : 0 ≤ d + angle_depth [c] := by
        rcases hd with hd | ⟨hd, hc⟩
        · rcases angle_depth_single c with ⟨-, h1⟩ | ⟨-, h1, -⟩ <;> omega
        · simp only [List.head?_cons, Option.some.injEq] at hc
          rcases angle_depth_single c with ⟨-, h1⟩ | ⟨h1, -, -⟩
          · omega
          · exact absurd hc h1
      have hne0 : d + angle_depth [c] ≠ 0 := hpre [c] (by simp) (by simp)
      have hpos : 0 < d + angle_depth [c] := lt_of_le_of_ne hge (Ne.symm hne0)
      cases t with
      | nil =>
        have hmore : (lx [] l1 k1).has_more = false := rfl
        rw [hmore]
        simpa using hpos
      | cons c2 t2 =>
        have hmore : (lx (c2 :: t2) l1 k1).has_more = true := rfl
        rw [hmore]
        simp only [hpos, decide_True, Bool.and_self, if_true]
        exact ih n l1 k1 (v ++ [c]) (d + angle_depth [c]) (by simp) (Or.inl hpos)
          (by
            intro p hp hp1
            have := hpre (c :: p) ((List.prefix_cons_inj c).2 hp) (by simp)
            rw [angle_depth_head] at this
            intro hh; apply this; linarith)
          (by simp at hf ⊢; omega)

/-- What `is_bracketed` says, prefix by prefix. -/
theorem is_bracketed_iff (h : List Char) :
    is_bracketed h = true ↔ h.head? = some '<' ∧ h ≠ [] ∧ angle_depth h = 0 ∧
      ∀ p, p <+: h → p ≠ [] → p ≠ h → angle_depth p ≠ 0 := by
  unfold is_bracketed balanced
  simp only [Bool.and_eq_true, beq_iff_eq, Bool.not_eq_true', List.isEmpty_eq_false,
    List.all_eq_true, List.mem_inits, Bool.or_eq_true, Bool.not_eq_true', Bool.and_eq_false_iff,
    List.isEmpty_iff, ne_eq]
  constructor
  · rintro ⟨⟨h1, h2, h3⟩, h4⟩
    refine ⟨h1, h2, h3, ?_⟩
    intro p hp hp1 hp2
    rcases h4 p hp with h5 | h5 | h5
    · exact absurd h5 hp2
    · exact absurd (by simpa using h5) hp1
    · simpa using h5
  · rintro ⟨h1, h2, h3, h4⟩
    refine ⟨⟨h1, h2, h3⟩, ?_⟩
    intro p hp
    by_cases hp2 : p = h
    · exact Or.inl hp2
    by_cases hp1 : p = []
    · exact Or.inr (Or.inl (by simp [hp1]))
    · exact Or.inr (Or.inr (by simpa using h4 p hp hp1 hp2))

/-- What `never_balanced` says, prefix by prefix. -/
theorem never_balanced_iff (t : List Char) :
    never_balanced t = true ↔ ∀ p, p <+: t → p ≠ [] → angle_depth p ≠ 0 := by
  unfold never_balanced balanced
  simp only [List.all_eq_true, List.mem_inits, Bool.not_eq_true', Bool.and_eq_false_iff,
    Bool.not_eq_false', List.isEmpty_iff, ne_eq]
  constructor
  · intro h p hp hp1
    rcases h p hp with h5 | h5
    · exact absurd (by simpa using h5) hp1
    · simpa using h5
  · intro h p hp
    by_cases hp1 : p = []
    · exact Or.inl (by simp [hp1])
    · exact Or.inr (by simpa using h p hp hp1)

/-- A `<` at the cursor is no white space. -/
theorem angle_not_whitespace (r : List Char) :
    ('<' :: r).head?.all (fun c => !is_whitespace c) = true := by
  simp [is_whitespace]

/-- At a `<` the token is read by `read_html_string`. -/
theorem next_token_angle (t : List Char) (l k : Nat) :
    (lx ('<' :: t) l k).next_token = (lx ('<' :: t) l k).read_html_string := by
  rw [next_token_stop _ l k (angle_not_whitespace t)]
  simp [DotLexer.scan_token, lx, DotLexer.has_more, DotLexer.current_char]

/-- At a double quote the token is read by `read_string`. -/
theorem next_token_quote (t : List Char) (l k : Nat) :
    (lx ('"' :: t) l k).next_token = (lx ('"' :: t) l k).read_string := by
  rw [next_token_stop _ l k (quote_not_whitespace t)]
  simp [DotLexer.scan_token, lx, DotLexer.has_more, DotLexer.current_char]

/-- Bracketed text at the cursor is returned as one `HTML_ID` token. -/
theorem next_token_bracketed (h r : List Char) (hh : is_bracketed h = true) (l k : Nat) :
    ∃ l1 k1, (lx (h ++ r) l k).next_token = .ok (⟨TokenType.HTML_ID, h, l, k⟩, lx r l1 k1) := by
  obtain ⟨h1, h2, h3, h4⟩ := (is_bracketed_iff h).1 hh
  obtain ⟨l1, k1, hloop⟩ := read_html_loop_balanced r h (h ++ r).length l k [] 0 h2
    (Or.inr ⟨rfl, h1⟩) (by simpa using h3) (by simpa using h4) (by simp)
  refine ⟨l1, k1, ?_⟩
  cases h with
  | nil => exact absurd rfl h2
  | cons c h =>
    simp only [List.head?_cons, Option.some.injEq] at h1
    subst h1
    rw [List.cons_append, next_token_angle]
    unfold DotLexer.read_html_string
    have hlen : (lx ('<' :: (h ++ r)) l k).rest.length = ('<' :: h ++ r).length := rfl
    rw [hlen, show lx ('<' :: (h ++ r)) l k = lx ('<' :: h ++ r) l k from rfl, hloop]
    rfl

/-- Text that starts with `<` and never balances its brackets is not lexed. -/
theorem next_token_open_bracket (t : List Char) (ht : never_balanced ('<' :: t) = true)
    (l k : Nat) :
    (lx ('<' :: t) l k).next_token = .error ⟨Message.unterminated_html_string, l, k⟩ := by
  have hpos := read_html_loop_open ('<' :: t) ('<' :: t).length l k [] 0 (by simp)
    (Or.inr ⟨rfl, rfl⟩) (by simpa using (never_balanced_iff _).1 ht) (le_refl _)
  rw [next_token_angle]
  unfold DotLexer.read_html_string
  have hlen : (lx ('<' :: t) l k).rest.length = ('<' :: t).length := rfl
  rw [hlen]
  generalize read_html_string_loop ('<' :: t).length (lx ('<' :: t) l k) [] 0 = res at hpos
  obtain ⟨s1, v1, d1⟩ := res
  simp only at hpos ⊢
  rw [if_pos hpos]
  rfl

/-- Text that starts with `<` either never balances its brackets or starts with bracketed
text. -/
theorem bracketed_or_open (t : List Char) :
    never_balanced ('<' :: t) = true ∨
      ∃ h r, '<' :: t = h ++ r ∧ is_bracketed h = true := by
  by_cases hex : ∃ n, balanced (('<' :: t).take n) = true
  · right
    have hmin := fun m => Nat.find_min hex (m := m)
    have hspec := Nat.find_spec hex
    generalize Nat.find hex = n0 at hmin hspec
    refine ⟨('<' :: t).take n0, ('<' :: t).drop n0, (List.take_append_drop _ _).symm, ?_⟩
    have hb : ('<' :: t).take n0 ≠ [] ∧ angle_depth (('<' :: t).take n0) = 0 := by
      simpa [balanced] using hspec
    rw [is_bracketed_iff]
    refine ⟨?_, hb.1, hb.2, ?_⟩
    · cases n0 with
      | zero => exact absurd rfl hb.1
      | succ n => rfl
    · intro p hp hp1 hp2
      have hlen : p.length < (('<' :: t).take n0).length := by
        rcases Nat.lt_or_ge p.length (('<' :: t).take n0).length with h | h
        · exact h
        · exact absurd (List.IsPrefix.eq_of_length_le hp h) hp2
      have hlt : p.length < n0 := lt_of_lt_of_le hlen (by simp)
      have hp' : p = ('<' :: t).take p.length := by
        have h1 := List.prefix_iff_eq_take.1 hp
        rw [List.take_take, min_eq_left (le_of_lt hlt)] at h1
        exact h1
      have := hmin p.length hlt
      rw [← hp'] at this
      simpa [balanced, hp1] using this
  · left
    rw [never_balanced_iff]
    intro p hp hp1
    have hp' := List.prefix_iff_eq_take.1 hp
    have := fun h => hex ⟨p.length, h⟩
    rw [← hp'] at this
    simpa [balanced, hp1] using this

/-- The loop of `read_string` stops in front of the closing quote when there is one, and
at the end of the text otherwise. -/
theorem read_string_loop_more :
    ∀ (fuel : Nat) (t : List Char) (l k : Nat) (v : List Char), t.length ≤ fuel →
      (read_string_loop fuel (lx t l k) v).1.has_more = closing_quote t := by
  intro fuel
  induction fuel with
  | zero =>
    intro t l k v hf
    have : t = [] := List.length_eq_zero.1 (Nat.le_zero.1 hf)
    subst this
    rfl
  | succ n ih =>
    intro t l k v hf
    cases t with
    | nil => rfl
    | cons c t =>
      rw [read_string_loop]
      have hcur : (lx (c :: t) l k).current_char = c := rfl
      have hmore : (lx (c :: t) l k).has_more = true := rfl
      rw [hcur, hmore]
      by_cases hq : c = '"'
      · subst hq
        cases t <;> rfl
      · have hq' : (c != '"') = true := by simpa using hq
        have hq2 : (c == '"') = false := by simpa using hq
        rw [hq']
        simp only [Bool.and_self, if_true]
        obtain ⟨l1, k1, hadv⟩ := advance_lx_some c t l k
        cases t with
        | nil =>
          have hpeek : (lx [c] l k).peek_char = '\x00' := rfl
          rw [hpeek]
          simp only [bne_self_eq_false, Bool.and_false, Bool.false_eq_true, if_false]
          rw [hadv, ih [] l1 k1 _ (by simp)]
          simp [closing_quote, hq2]
        | cons d t =>
          have hpeek : (lx (c :: d :: t) l k).peek_char = d := rfl
          rw [hpeek]
          have hcq : closing_quote (c :: d :: t) =
              if (c == '\\' && d != '\x00') = true then closing_quote t
              else closing_quote (d :: t) := by
            rw [closing_quote, hq2]
            simp only [Bool.false_eq_true, if_false]
          rw [hcq]
          by_cases hesc : (c == '\\' && d != '\x00') = true
          · rw [if_pos hesc, if_pos hesc]
            rw [hadv]
            obtain ⟨l2, k2, hadv2⟩ := advance_lx_some d t l1 k1
            rw [hadv2]
            exact ih t l2 k2 _ (by simp at hf; omega)
          · rw [if_neg hesc, if_neg hesc, hadv]
            exact ih (d :: t) l1 k1 _ (by simp at hf ⊢; omega)

/-- C28: at a `<` the lexer returns an `HTML_ID` token at the position of the `<` whose
text is the shortest prefix of the input, not empty, in which the `<` and the `>` are
equal in number, read whatever is between them, and it goes on behind that prefix; if no
prefix balances the brackets, the call fails with a `ParseError` at the line and column
of the `<`. At a double quote the call returns a `STR_ID` token at the position of the
quote when a closing quote follows, and fails with a `ParseError` at the line and column
of the opening quote when none does. -/
theorem html_string_token (t q : List Char) (l k : Nat) :
    ((never_balanced ('<' :: t) = true ∧
        (lx ('<' :: t) l k).next_token =
          .error ⟨Message.unterminated_html_string, l, k⟩) ∨
      (∃ h r l1 k1, '<' :: t = h ++ r ∧ is_bracketed h = true ∧
        (lx ('<' :: t) l k).next_token =
          .ok (⟨TokenType.HTML_ID, h, l, k⟩, lx r l1 k1))) ∧
    (if closing_quote q = true then
      ∃ v s1, (lx ('"' :: q) l k).next_token = .ok (⟨TokenType.STR_ID, v, l, k⟩, s1)
    else
      (lx ('"' :: q) l k).next_token =
        .error ⟨Message.unterminated_string_literal, l, k⟩) := by
  constructor
  · rcases bracketed_or_open t with h | ⟨h, r, he, hh⟩
    · exact Or.inl ⟨h, next_token_open_bracket t h l k⟩
    · obtain ⟨l1, k1, h1⟩ := next_token_bracketed h r hh l k
      rw [← he] at h1
      exact Or.inr ⟨h, r, l1, k1, he, hh, h1⟩
  · have hloop := read_string_loop_more (lx ('"' :: q) l k).rest.length q l (k + 1) []
      (by simp [lx])
    have hadv : (lx ('"' :: q) l k).advance = lx q l (k + 1) := by
      rw [advance_lx]; rfl
    rw [next_token_quote]
    unfold DotLexer.read_string
    rw [hadv]
    generalize read_string_loop (lx ('"' :: q) l k).rest.length (lx q l (k + 1)) [] = res
      at hloop
    obtain ⟨s1, v1⟩ := res
    simp only at hloop ⊢
    rw [hloop]
    cases hc : closing_quote q
    · simp [lx]
    · simp only [Bool.not_true, Bool.false_eq_true, if_false, if_true]
      exact ⟨v1, s1.advance, rfl⟩

end Dot
end XDotCpp

/-! ## The lexer does not read the peeked token -/

namespace XDotCpp
namespace Dot

theorem with_peeked_rest (s : DotLexer) (t : Token) (b : Bool) : (s.with_peeked t b).rest = s.rest := rfl

theorem with_peeked_line (s : DotLexer) (t : Token) (b : Bool) : (s.with_peeked t b).line = s.line := rfl

theorem with_peeked_column (s : DotLexer) (t : Token) (b : Bool) :
    (s.with_peeked t b).column = s.column := rfl

theorem with_peeked_has_more (s : DotLexer) (t : Token) (b : Bool) :
    (s.with_peeked t b).has_more = s.has_more := rfl

theorem with_peeked_current_char (s : DotLexer) (t : Token) (b : Bool) :
    (s.with_peeked t b).current_char = s.current_char := rfl

theorem with_peeked_peek_char (s : DotLexer) (t : Token) (b : Bool) :
    (s.with_peeked t b).peek_char = s.peek_char := rfl

/-- The method `advance` does not read the peeked token. -/
theorem with_peeked_advance (s : DotLexer) (t : Token) (b : Bool) :
    (s.with_peeked t b).advance = s.advance.with_peeked t b := by
  obtain ⟨rest, line, column, pt, hp⟩ := s
  cases rest with
  | nil => rfl
  | cons c cs =>
    simp only [DotLexer.advance, DotLexer.with_peeked]
    split <;> rfl

theorem with_peeked_skip_comment_loop (t : Token) (b : Bool) :
    ∀ (fuel : Nat) (s : DotLexer),
      skip_comment_loop fuel (s.with_peeked t b) = (skip_comment_loop fuel s).with_peeked t b := by
  intro fuel
  induction fuel with
  | zero => intro s; rfl
  | succ n ih =>
    intro s
    rw [skip_comment_loop, skip_comment_loop, with_peeked_has_more, with_peeked_current_char,
      with_peeked_advance, ih]
    split <;> rfl

theorem with_peeked_skip_comment (s : DotLexer) (t : Token) (b : Bool) :
    (s.with_peeked t b).skip_comment = s.skip_comment.with_peeked t b := by
  unfold DotLexer.skip_comment
  rw [with_peeked_rest, with_peeked_skip_comment_loop]

theorem with_peeked_block_comment_loop (t : Token) (b : Bool) :
    ∀ (fuel : Nat) (s : DotLexer),
      block_comment_loop fuel (s.with_peeked t b) =
        (block_comment_loop fuel s).with_peeked t b := by
  intro fuel
  induction fuel with
  | zero => intro s; rfl
  | succ n ih =>
    intro s
    rw [block_comment_loop, block_comment_loop, with_peeked_rest, with_peeked_current_char,
      with_peeked_peek_char, with_peeked_advance, with_peeked_advance, ih]
    split
    · split <;> rfl
    · rfl

theorem with_peeked_skip_whitespace_loop (t : Token) (b : Bool) :
    ∀ (fuel : Nat) (s : DotLexer),
      skip_whitespace_loop fuel (s.with_peeked t b) =
        (skip_whitespace_loop fuel s).with_peeked t b := by
  intro fuel
  induction fuel with
  | zero => intro s; rfl
  | succ n ih =>
    intro s
    rw [skip_whitespace_loop, skip_whitespace_loop, with_peeked_has_more,
      with_peeked_current_char, with_peeked_peek_char, with_peeked_skip_comment,
      with_peeked_advance, with_peeked_advance, with_peeked_rest,
      with_peeked_block_comment_loop, ih, ih, ih]
    split
    · split
      · rfl
      · split
        · rfl
        · split <;> rfl
    · rfl

theorem with_peeked_skip_whitespace (s : DotLexer) (t : Token) (b : Bool) :
    (s.with_peeked t b).skip_whitespace = s.skip_whitespace.with_peeked t b := by
  unfold DotLexer.skip_whitespace
  rw [with_peeked_rest, with_peeked_skip_whitespace_loop]

theorem with_peeked_read_string_loop (t : Token) (b : Bool) :
    ∀ (fuel : Nat) (s : DotLexer) (v : List Char),
      read_string_loop fuel (s.with_peeked t b) v =
        ((read_string_loop fuel s v).1.with_peeked t b, (read_string_loop fuel s v).2) := by
  intro fuel
  induction fuel with
  | zero => intro s v; rfl
  | succ n ih =>
    intro s v
    rw [read_string_loop, read_string_loop, with_peeked_has_more, with_peeked_current_char,
      with_peeked_peek_char, with_peeked_advance]
    split
    · split
      · dsimp only
        rw [with_peeked_advance, with_peeked_current_char, ih]
      · rw [ih]
    · rfl

theorem with_peeked_read_html_string_loop (t : Token) (b : Bool) :
    ∀ (fuel : Nat) (s : DotLexer) (v : List Char) (d : Int),
      read_html_string_loop fuel (s.with_peeked t b) v d =
        ((read_html_string_loop fuel s v d).1.with_peeked t b,
          (read_html_string_loop fuel s v d).2) := by
  intro fuel
  induction fuel with
  | zero => intro s v d; rfl
  | succ n ih =>
    intro s v d
    rw [read_html_string_loop, read_html_string_loop, with_peeked_current_char,
      with_peeked_advance, with_peeked_has_more]
    simp only [ih]
    split_ifs <;> rfl

theorem with_peeked_read_identifier_loop (t : Token) (b : Bool) :
    ∀ (fuel : Nat) (s : DotLexer) (v : List Char),
      read_identifier_loop fuel (s.with_peeked t b) v =
        ((read_identifier_loop fuel s v).1.with_peeked t b,
          (read_identifier_loop fuel s v).2) := by
  intro fuel
  induction fuel with
  | zero => intro s v; rfl
  | succ n ih =>
    intro s v
    rw [read_identifier_loop, read_identifier_loop, with_peeked_has_more,
      with_peeked_current_char, with_peeked_advance]
    split
    · rw [ih]
    · rfl

theorem with_peeked_read_digits_loop (t : Token) (b : Bool) :
    ∀ (fuel : Nat) (s : DotLexer) (v : List Char),
      read_digits_loop fuel (s.with_peeked t b) v =
        ((read_digits_loop fuel s v).1.with_peeked t b, (read_digits_loop fuel s v).2) := by
  intro fuel
  induction fuel with
  | zero => intro s v; rfl
  | succ n ih =>
    intro s v
    rw [read_digits_loop, read_digits_loop, with_peeked_has_more, with_peeked_current_char,
      with_peeked_advance]
    split
    · rw [ih]
    · rfl

theorem with_peeked_read_string (s : DotLexer) (t : Token) (b : Bool) :
    (s.with_peeked t b).read_string = lift_peeked t b s.read_string := by
  unfold DotLexer.read_string
  simp only [with_peeked_rest, with_peeked_advance, with_peeked_read_string_loop,
    with_peeked_has_more, with_peeked_line, with_peeked_column]
  split <;> rfl

theorem with_peeked_read_html_string (s : DotLexer) (t : Token) (b : Bool) :
    (s.with_peeked t b).read_html_string = lift_peeked t b s.read_html_string := by
  unfold DotLexer.read_html_string
  simp only [with_peeked_rest, with_peeked_read_html_string_loop, with_peeked_line,
    with_peeked_column]
  split <;> rfl

theorem with_peeked_read_identifier (s : DotLexer) (t : Token) (b : Bool) :
    (s.with_peeked t b).read_identifier =
      (s.read_identifier.1, s.read_identifier.2.with_peeked t b) := by
  unfold DotLexer.read_identifier
  simp only [with_peeked_rest, with_peeked_read_identifier_loop, with_peeked_line,
    with_peeked_column]

theorem with_peeked_read_number (s : DotLexer) (t : Token) (b : Bool) :
    (s.with_peeked t b).read_number = (s.read_number.1, s.read_number.2.with_peeked t b) := by
  unfold DotLexer.read_number
  rw [with_peeked_rest, with_peeked_read_digits_loop, with_peeked_line, with_peeked_column]
  generalize read_digits_loop s.rest.length s [] = r1
  obtain ⟨s1, v1⟩ := r1
  dsimp only
  rw [with_peeked_has_more, with_peeked_current_char, with_peeked_advance, with_peeked_rest,
    with_peeked_read_digits_loop]
  have key : ∀ (s2 : DotLexer) (v2 : List Char) (ln cl : Nat),
      (match
        (if ((s2.with_peeked t b).has_more && ((s2.with_peeked t b).current_char == 'e' ||
            (s2.with_peeked t b).current_char == 'E')) = true then
          let s2a := (s2.with_peeked t b).advance
          let v2a := v2 ++ [(s2.with_peeked t b).current_char]
          match
            (if (s2a.has_more && (s2a.current_char == '+' || s2a.current_char == '-')) = true
            then (s2a.advance, v2a ++ [s2a.current_char]) else (s2a, v2a)) with
          | (s2b, v2b) => read_digits_loop s2b.rest.length s2b v2b
        else (s2.with_peeked t b, v2)) with
      | (s3, v3) => ((⟨TokenType.ID, v3, ln, cl⟩ : Token), s3)) =
      ((match
        (if (s2.has_more && (s2.current_char == 'e' || s2.current_char == 'E')) = true then
          let s2a := s2.advance
          let v2a := v2 ++ [s2.current_char]
          match
            (if (s2a.has_more && (s2a.current_char == '+' || s2a.current_char == '-')) = true
            then (s2a.advance, v2a ++ [s2a.current_char]) else (s2a, v2a)) with
          | (s2b, v2b) => read_digits_loop s2b.rest.length s2b v2b
        else (s2, v2)) with
      | (s3, v3) => ((⟨TokenType.ID, v3, ln, cl⟩ : Token), s3)).1,
       (match
        (if (s2.has_more && (s2.current_char == 'e' || s2.current_char == 'E')) = true then
          let s2a := s2.advance
          let v2a := v2 ++ [s2.current_char]
          match
            (if (s2a.has_more && (s2a.current_char == '+' || s2a.current_char == '-')) = true
            then (s2a.advance, v2a ++ [s2a.current_char]) else (s2a, v2a)) with
          | (s2b, v2b) => read_digits_loop s2b.rest.length s2b v2b
        else (s2, v2)) with
      | (s3, v3) => ((⟨TokenType.ID, v3, ln, cl⟩ : Token), s3)).2.with_peeked t b) := by
    intro s2 v2 ln cl
    rw [with_peeked_has_more, with_peeked_current_char, with_peeked_advance]
    by_cases h2 : (s2.has_more && (s2.current_char == 'e' || s2.current_char == 'E')) = true
    · rw [if_pos h2]
      dsimp only
      rw [with_peeked_has_more, with_peeked_current_char, with_peeked_advance]
      by_cases h3 : (s2.advance.has_more &&
          (s2.advance.current_char == '+' || s2.advance.current_char == '-')) = true
      · rw [if_pos h3]
        dsimp only
        rw [with_peeked_rest, with_peeked_read_digits_loop]
        simp only [h2, h3, if_true]
      · rw [if_neg h3]
        dsimp only
        rw [with_peeked_rest, with_peeked_read_digits_loop]
        simp only [h2, h3, if_true, if_false, Bool.false_eq_true]
    · simp only [h2, if_false, Bool.false_eq_true]
  by_cases h1 : (s1.has_more && s1.current_char == '.') = true
  · rw [if_pos h1, if_pos h1]
    generalize read_digits_loop s1.rest.length s1.advance (v1 ++ [s1.current_char]) = r2
    obtain ⟨s2, v2⟩ := r2
    exact key s2 v2 _ _
  · rw [if_neg h1, if_neg h1]
    exact key s1 v1 _ _

theorem lift_peeked_ok (t : Token) (b : Bool) (tok : Token) (s : DotLexer) :
    lift_peeked t b (.ok (tok, s)) = .ok (tok, s.with_peeked t b) := rfl

theorem lift_peeked_error (t : Token) (b : Bool) (e : ParseError) :
    lift_peeked t b (.error e) = .error e := rfl

theorem lift_peeked_pair (t : Token) (b : Bool) (p : Token × DotLexer) :
    lift_peeked t b (.ok p) = .ok (p.1, p.2.with_peeked t b) := rfl

/-- The token that is scanned does not depend on the peeked token. -/
theorem with_peeked_scan_token (s : DotLexer) (t : Token) (b : Bool) :
    (s.with_peeked t b).scan_token = lift_peeked t b s.scan_token := by
  unfold DotLexer.scan_token
  simp only [with_peeked_has_more, with_peeked_current_char, with_peeked_peek_char,
    with_peeked_line, with_peeked_column, with_peeked_advance, with_peeked_read_string,
    with_peeked_read_html_string, with_peeked_read_number, with_peeked_read_identifier,
    apply_ite (lift_peeked t b), lift_peeked_ok, lift_peeked_error, lift_peeked_pair]

/-- Without a peeked token, the token that `next_token` returns does not depend on what
the field `peeked_token_` holds. -/
theorem with_peeked_next_token (s : DotLexer) (t : Token) :
    (s.with_peeked t false).next_token = lift_peeked t false s.skip_whitespace.scan_token := by
  unfold DotLexer.next_token
  rw [show (s.with_peeked t false).has_peeked = false from rfl]
  simp only [Bool.false_eq_true, if_false]
  rw [with_peeked_skip_whitespace, with_peeked_scan_token]

/-- A lexer without a peeked token, written with `with_peeked`. -/
theorem with_peeked_self (s : DotLexer) : s.with_peeked s.peeked_token s.has_peeked = s := rfl

/-- Lexers that agree return the same token or the same error, and agree afterwards. -/
theorem next_token_agree (a b : DotLexer) (h : a.agree b) :
    (∀ e, a.next_token = .error e → b.next_token = .error e) ∧
    (∀ tok a1, a.next_token = .ok (tok, a1) →
      a1.has_peeked = false ∧ ∃ b1, b.next_token = .ok (tok, b1) ∧ a1.agree b1) := by
  obtain ⟨ar, al, ac, apt, ahp⟩ := a
  obtain ⟨br, bl, bc, bpt, bhp⟩ := b
  obtain ⟨h1, h2, h3, h4, h5⟩ := h
  simp only at h1 h2 h3 h4 h5
  subst h1 h2 h3 h4
  cases ahp with
  | true =>
    have h6 := h5 rfl
    subst h6
    constructor
    · intro e he; exact he
    · intro tok a1 he
      simp only [DotLexer.next_token, if_true, Except.ok.injEq, Prod.mk.injEq] at he
      obtain ⟨rfl, rfl⟩ := he
      exact ⟨rfl, _, rfl, rfl, rfl, rfl, rfl, fun _ => rfl⟩
  | false =>
    have ea : (⟨ar, al, ac, apt, false⟩ : DotLexer) =
        (lx ar al ac).with_peeked apt false := rfl
    have eb : (⟨ar, al, ac, bpt, false⟩ : DotLexer) =
        (lx ar al ac).with_peeked bpt false := rfl
    rw [ea, eb, with_peeked_next_token, with_peeked_next_token]
    cases hs : (lx ar al ac).skip_whitespace.scan_token with
    | error e =>
      constructor
      · intro e1 he; exact he
      · intro tok a1 he; cases he
    | ok p =>
      obtain ⟨tok0, s0⟩ := p
      constructor
      · intro e1 he; cases he
      · intro tok a1 he
        simp only [lift_peeked_ok, Except.ok.injEq, Prod.mk.injEq] at he
        obtain ⟨rfl, rfl⟩ := he
        exact ⟨rfl, _, rfl, rfl, rfl, rfl, rfl, fun hh => by cases hh⟩

end Dot
end XDotCpp

/-! ## Peeking -/

namespace XDotCpp
namespace Dot

theorem agree_refl (a : DotLexer) : a.agree a := ⟨rfl, rfl, rfl, rfl, fun _ => rfl⟩

/-- A call of `next_token` on two lexers of which the one agrees with the other or is
ahead of it. -/
theorem next_token_related (a b : DotLexer) (h : a.agree b ∨ a.ahead b) :
    (∀ e, a.next_token = .error e → b.next_token = .error e) ∧
    (∀ tok a1, a.next_token = .ok (tok, a1) →
      ∃ b1, b.next_token = .ok (tok, b1) ∧ a1.agree b1) := by
  rcases h with h | ⟨h1, _, b1, h3, h4⟩
  · obtain ⟨he, ho⟩ := next_token_agree a b h
    exact ⟨he, fun tok a1 h1 => (ho tok a1 h1).2⟩
  · have hn : a.next_token = .ok (a.peeked_token, { a with has_peeked := false }) := by
      unfold DotLexer.next_token
      rw [if_pos h1]
    rw [hn]
    constructor
    · intro e he; cases he
    · intro tok a1 he
      simp only [Except.ok.injEq, Prod.mk.injEq] at he
      obtain ⟨rfl, rfl⟩ := he
      exact ⟨b1, h3, h4⟩

/-- A call of `peek_token` on a lexer that agrees with another or is ahead of it: it
returns what `next_token` returns on the other, and the lexer it leaves is ahead. -/
theorem peek_token_related (a b : DotLexer) (h : a.agree b ∨ a.ahead b) :
    (∀ e, a.peek_token = .error e → a.has_peeked = false ∧ b.next_token = .error e) ∧
    (∀ tok a1, a.peek_token = .ok (tok, a1) →
      a1.has_peeked = true ∧ a1.peeked_token = tok ∧ (a1.agree b ∨ a1.ahead b)) := by
  cases hp : a.has_peeked with
  | true =>
    have hn : a.peek_token = .ok (a.peeked_token, a) := by
      unfold DotLexer.peek_token
      rw [hp]; rfl
    rw [hn]
    constructor
    · intro e he; cases he
    · intro tok a1 he
      simp only [Except.ok.injEq, Prod.mk.injEq] at he
      obtain ⟨rfl, rfl⟩ := he
      exact ⟨hp, rfl, h⟩
  | false =>
    have hab : a.agree b := by
      rcases h with h | ⟨h1, _⟩
      · exact h
      · rw [hp] at h1; cases h1
    obtain ⟨he, ho⟩ := next_token_agree a b hab
    have hbp : b.has_peeked = false := by rw [← hab.2.2.2.1, hp]
    unfold DotLexer.peek_token
    rw [hp]
    simp only [Bool.not_false, if_true]
    cases hn : a.next_token with
    | error e =>
      constructor
      · intro e1 h1
        simp only [Except.error.injEq] at h1
        subst h1
        exact ⟨trivial, he e hn⟩
      · intro tok a1 h1; cases h1
    | ok p =>
      obtain ⟨tok0, s0⟩ := p
      obtain ⟨hs0, b1, hb1, hag⟩ := ho tok0 s0 hn
      constructor
      · intro e1 h1; cases h1
      · intro tok a1 h1
        simp only [Except.ok.injEq, Prod.mk.injEq] at h1
        obtain ⟨rfl, rfl⟩ := h1
        refine ⟨rfl, rfl, Or.inr ⟨rfl, hbp, b1, hb1, ?_⟩⟩
        obtain ⟨g1, g2, g3, g4, _⟩ := hag
        exact ⟨g1, g2, g3, by rw [← g4, hs0], fun hh => by cases hh⟩

/-- Calls of `peek_token` between the calls of `next_token` do not change the tokens that
are returned. -/
theorem run_calls_tokens :
    ∀ (calls : List LexerCall) (a b : DotLexer), (a.agree b ∨ a.ahead b) →
      ∀ ts, run_calls calls a = .ok ts → next_tokens (count_next calls) b = .ok ts := by
  intro calls
  induction calls with
  | nil => intro a b _ ts h; exact h
  | cons c cs ih =>
    intro a b hab ts h
    cases c with
    | next =>
      have hc : count_next (LexerCall.next :: cs) = count_next cs + 1 := by
        simp [count_next]
      rw [hc, next_tokens]
      rw [run_calls] at h
      obtain ⟨he, ho⟩ := next_token_related a b hab
      cases hn : a.next_token with
      | error e => rw [hn] at h; cases h
      | ok p =>
        obtain ⟨tok, a1⟩ := p
        obtain ⟨b1, hb1, hag⟩ := ho tok a1 hn
        rw [hn] at h
        rw [hb1]
        simp only at h ⊢
        cases hr : run_calls cs a1 with
        | error e => rw [hr] at h; cases h
        | ok ts1 =>
          rw [hr] at h
          rw [ih a1 b1 (Or.inl hag) ts1 hr]
          exact h
    | peek =>
      have hc : count_next (LexerCall.peek :: cs) = count_next cs := by
        simp [count_next]
      rw [hc]
      rw [run_calls] at h
      obtain ⟨he, ho⟩ := peek_token_related a b hab
      cases hn : a.peek_token with
      | error e => rw [hn] at h; cases h
      | ok p =>
        obtain ⟨tok, a1⟩ := p
        rw [hn] at h
        exact ih a1 b (ho tok a1 hn).2.2 ts h

/-- When the last call is one of `next_token`, the run with calls of `peek_token` between
returns what the run without them returns, be it tokens or an error. -/
theorem run_calls_then_next :
    ∀ (calls : List LexerCall) (a b : DotLexer), (a.agree b ∨ a.ahead b) →
      run_calls (calls ++ [LexerCall.next]) a = next_tokens (count_next calls + 1) b := by
  intro calls
  induction calls with
  | nil =>
    intro a b hab
    obtain ⟨he, ho⟩ := next_token_related a b hab
    rw [List.nil_append, run_calls, next_tokens]
    cases hn : a.next_token with
    | error e => rw [he e hn]
    | ok p =>
      obtain ⟨tok, a1⟩ := p
      obtain ⟨b1, hb1, _⟩ := ho tok a1 hn
      rw [hb1]
      rfl
  | cons c cs ih =>
    intro a b hab
    cases c with
    | next =>
      have hc : count_next (LexerCall.next :: cs) = count_next cs + 1 := by
        simp [count_next]
      rw [hc, next_tokens, List.cons_append, run_calls]
      obtain ⟨he, ho⟩ := next_token_related a b hab
      cases hn : a.next_token with
      | error e => rw [he e hn]
      | ok p =>
        obtain ⟨tok, a1⟩ := p
        obtain ⟨b1, hb1, hag⟩ := ho tok a1 hn
        rw [hb1]
        simp only
        rw [ih a1 b1 (Or.inl hag)]
    | peek =>
      have hc : count_next (LexerCall.peek :: cs) = count_next cs := by
        simp [count_next]
      rw [hc, List.cons_append, run_calls]
      obtain ⟨he, ho⟩ := peek_token_related a b hab
      cases hn : a.peek_token with
      | error e =>
        rw [next_tokens, (he e hn).2]
      | ok p =>
        obtain ⟨tok, a1⟩ := p
        simp only
        exact ih a1 b (ho tok a1 hn).2.2

/-- C30: `peek_token` does not consume. In every state of the lexer, a call of
`peek_token` throws exactly when `next_token` would throw, with the same error; when it
returns a token, the call of `next_token` that follows returns that token, another call
of `peek_token` returns it again and leaves the lexer as it is, and it is the token that
`next_token` returns when nothing is peeked. For every list of calls, the tokens that the
calls of `next_token` return are those that they return when the calls of `peek_token`
are left out: so it is whenever all the calls return, and also for the errors when the
last call is one of `next_token`. -/
theorem peek_token_does_not_consume (s : DotLexer) (calls : List LexerCall) :
    (∀ e, s.peek_token = .error e ↔ (s.has_peeked = false ∧ s.next_token = .error e)) ∧
    (∀ t s1, s.peek_token = .ok (t, s1) →
      (∃ s2, s1.next_token = .ok (t, s2)) ∧ s1.peek_token = .ok (t, s1) ∧
        ∃ s3, s.next_token = .ok (t, s3)) ∧
    (∀ ts, run_calls calls s = .ok ts → next_tokens (count_next calls) s = .ok ts) ∧
    run_calls (calls ++ [LexerCall.next]) s = next_tokens (count_next calls + 1) s := by
  refine ⟨?_, ?_, run_calls_tokens calls s s (Or.inl (agree_refl s)),
    run_calls_then_next calls s s (Or.inl (agree_refl s))⟩
  · intro e
    constructor
    · exact (peek_token_related s s (Or.inl (agree_refl s))).1 e
    · rintro ⟨hp, hn⟩
      unfold DotLexer.peek_token
      rw [hp, hn]
      rfl
  · intro t s1 h
    obtain ⟨h1, h2, h3⟩ := (peek_token_related s s (Or.inl (agree_refl s))).2 t s1 h
    refine ⟨⟨{ s1 with has_peeked := false }, ?_⟩, ?_, ?_⟩
    · unfold DotLexer.next_token
      rw [if_pos h1, h2]
    · unfold DotLexer.peek_token
      rw [h1, h2]
      rfl
    · obtain ⟨_, ho⟩ := next_token_related s1 s (h3)
      have hn : s1.next_token = .ok (t, { s1 with has_peeked := false }) := by
        unfold DotLexer.next_token
        rw [if_pos h1, h2]
      obtain ⟨b1, hb1, _⟩ := ho t _ hn
      exact ⟨b1, hb1⟩

end Dot
end XDotCpp

/-! ## Numerals -/

namespace XDotCpp
namespace Dot

/-- The characters that can follow a name or a value. -/
theorem terminator_cases (c : Char) (h : is_terminator c = true) :
    c ∈ [' ', '\t', '\n', '\x0b', '\x0c', '\r', '=', ',', ';', ']'] := by
  unfold is_terminator is_whitespace at h
  simp only [Bool.or_eq_true, beq_iff_eq] at h
  simp only [List.mem_cons, List.mem_singleton, List.not_mem_nil, or_false]
  tauto

/-- None of them is a digit, a letter, an underscore, a point or a sign. -/
theorem terminator_plain (c : Char) (h : is_terminator c = true) :
    c.isDigit = false ∧ (c.isAlphanum || c == '_') = false ∧ c ≠ '.' ∧ c ≠ 'e' ∧ c ≠ 'E' ∧
      c ≠ '+' ∧ c ≠ '-' := by
  have key : ∀ x ∈ [' ', '\t', '\n', '\x0b', '\x0c', '\r', '=', ',', ';', ']'],
      x.isDigit = false ∧ (x.isAlphanum || x == '_') = false ∧ x ≠ '.' ∧ x ≠ 'e' ∧ x ≠ 'E' ∧
        x ≠ '+' ∧ x ≠ '-' := by decide
  exact key c (terminator_cases c h)

theorem terminated_cons (r : List Char) (h : terminated r = true) :
    ∃ c r1, r = c :: r1 ∧ is_terminator c = true := by
  cases r with
  | nil => cases h
  | cons c r1 => exact ⟨c, r1, rfl, h⟩

theorem terminated_ends_word (r : List Char) (h : terminated r = true) :
    ends_word r = true := by
  obtain ⟨c, r1, rfl, hc⟩ := terminated_cons r h
  simp only [ends_word, (terminator_plain c hc).2.1, Bool.not_false]

/-- White space and then a terminator is text that can follow a name or a value. -/
theorem terminated_pad (pad : List Char) (hpad : ∀ c ∈ pad, is_whitespace c = true) (c : Char)
    (hc : is_terminator c = true) (r : List Char) : terminated (pad ++ c :: r) = true := by
  cases pad with
  | nil => exact hc
  | cons d ds =>
    have := hpad d (List.mem_cons_self _ _)
    simp only [List.cons_append, terminated, is_terminator, this, Bool.true_or]

/-- A digit loop of `read_number` reads the digits and stops behind them. -/
theorem read_digits_loop_digits (ds : List Char) (hds : ∀ c ∈ ds, c.isDigit = true)
    (r : List Char) (hr : r.head?.all (fun c => !c.isDigit) = true) :
    ∀ (fuel l k : Nat) (v : List Char), ds.length ≤ fuel →
      ∃ l1 k1, read_digits_loop fuel (lx (ds ++ r) l k) v = (lx r l1 k1, v ++ ds) := by
  induction ds with
  | nil =>
    intro fuel l k v _
    refine ⟨l, k, ?_⟩
    cases fuel with
    | zero => simp [read_digits_loop]
    | succ n =>
      cases r with
      | nil => simp [read_digits_loop, lx, DotLexer.has_more]
      | cons c r1 =>
        have hc : c.isDigit = false := by simpa using hr
        simp [read_digits_loop, lx, DotLexer.has_more, DotLexer.current_char, is_digit, hc]
  | cons d ds ih =>
    intro fuel l k v hf
    cases fuel with
    | zero => simp at hf
    | succ n =>
      obtain ⟨l1, k1, hadv⟩ := advance_lx_some d (ds ++ r) l k
      obtain ⟨l2, k2, h2⟩ := ih (fun c hc => hds c (List.mem_cons_of_mem _ hc)) n l1 k1
        (v ++ [d]) (by simp at hf; omega)
      refine ⟨l2, k2, ?_⟩
      have hd := hds d (List.mem_cons_self _ _)
      have hcur : (lx (d :: ds ++ r) l k).current_char = d := rfl
      have hmore : (lx (d :: ds ++ r) l k).has_more = true := rfl
      rw [read_digits_loop, hcur, hmore]
      simp only [is_digit, hd, Bool.and_self, if_true]
      rw [show lx (d :: ds ++ r) l k = lx (d :: (ds ++ r)) l k from rfl, hadv, h2]
      simp

/-- The fraction of a numeral, as `read_number` reads it. -/
theorem read_number_fraction (fr : Option (List Char))
    (hfr : ∀ f, fr = some f → ∀ c ∈ f, c.isDigit = true) (r : List Char)
    (hr : r.head?.all (fun c => !c.isDigit && c != '.') = true) (l k : Nat) (v : List Char) :
    ∃ l1 k1,
      (if ((lx (fraction_text fr ++ r) l k).has_more &&
          (lx (fraction_text fr ++ r) l k).current_char == '.') = true then
        read_digits_loop (lx (fraction_text fr ++ r) l k).rest.length
          (lx (fraction_text fr ++ r) l k).advance
          (v ++ [(lx (fraction_text fr ++ r) l k).current_char])
      else (lx (fraction_text fr ++ r) l k, v)) = (lx r l1 k1, v ++ fraction_text fr) := by
  have hr1 : r.head?.all (fun c => !c.isDigit) = true := by
    cases r with
    | nil => rfl
    | cons c r1 =>
      simp only [List.head?_cons, Option.all_some, Bool.and_eq_true] at hr ⊢
      exact hr.1
  cases fr with
  | none =>
    refine ⟨l, k, ?_⟩
    cases r with
    | nil => simp [fraction_text, lx, DotLexer.has_more]
    | cons c r1 =>
      have hc : (c == '.') = false := by
        simp only [List.head?_cons, Option.all_some, Bool.and_eq_true] at hr
        simpa using hr.2
      simp [fraction_text, lx, DotLexer.has_more, DotLexer.current_char, hc]
  | some f =>
    obtain ⟨l1, k1, hadv⟩ := advance_lx_some '.' (f ++ r) l k
    obtain ⟨l2, k2, h2⟩ := read_digits_loop_digits f (hfr f rfl) r hr1
      (lx ('.' :: (f ++ r)) l k).rest.length l1 k1 (v ++ ['.']) (by simp [lx]; omega)
    refine ⟨l2, k2, ?_⟩
    have hcur : (lx ('.' :: (f ++ r)) l k).current_char = '.' := rfl
    have hmore : (lx ('.' :: (f ++ r)) l k).has_more = true := rfl
    simp only [fraction_text, List.cons_append]
    rw [hcur, hmore, hadv, h2]
    simp

/-- The method `read_number`, stage by stage. -/
theorem read_number_stages (s s1 s2 s3 : DotLexer) (v1 v2 v3 : List Char)
    (h1 : read_digits_loop s.rest.length s [] = (s1, v1))
    (h2 : (if (s1.has_more && s1.current_char == '.') = true then
        read_digits_loop s1.rest.length s1.advance (v1 ++ [s1.current_char])
      else (s1, v1)) = (s2, v2))
    (h3 : (if (s2.has_more && (s2.current_char == 'e' || s2.current_char == 'E')) = true then
        match
          (if (s2.advance.has_more &&
              (s2.advance.current_char == '+' || s2.advance.current_char == '-')) = true then
            (s2.advance.advance, v2 ++ [s2.current_char] ++ [s2.advance.current_char])
          else (s2.advance, v2 ++ [s2.current_char])) with
        | (s2b, v2b) => read_digits_loop s2b.rest.length s2b v2b
      else (s2, v2)) = (s3, v3)) :
    s.read_number = (⟨TokenType.ID, v3, s.line, s.column⟩, s3) := by
  unfold DotLexer.read_number
  rw [h1]
  dsimp only
  rw [h2]
  dsimp only
  rw [h3]

/-- The exponent of a numeral, as `read_number` reads it. -/
theorem read_number_exponent (ex : Option (Char × Option Char × List Char))
    (hex : (match ex with
      | none => true
      | some (m, none, ds) => (m == 'e' || m == 'E') && !ds.isEmpty && ds.all Char.isDigit
      | some (m, some sg, ds) =>
        (m == 'e' || m == 'E') && (sg == '+' || sg == '-') && !ds.isEmpty &&
          ds.all Char.isDigit) = true)
    (r : List Char) (hr : terminated r = true) (l k : Nat) (v : List Char) :
    ∃ l1 k1,
      (if ((lx (exponent_text ex ++ r) l k).has_more &&
          ((lx (exponent_text ex ++ r) l k).current_char == 'e' ||
            (lx (exponent_text ex ++ r) l k).current_char == 'E')) = true then
        match
          (if ((lx (exponent_text ex ++ r) l k).advance.has_more &&
              ((lx (exponent_text ex ++ r) l k).advance.current_char == '+' ||
                (lx (exponent_text ex ++ r) l k).advance.current_char == '-')) = true then
            ((lx (exponent_text ex ++ r) l k).advance.advance,
              v ++ [(lx (exponent_text ex ++ r) l k).current_char] ++
                [(lx (exponent_text ex ++ r) l k).advance.current_char])
          else ((lx (exponent_text ex ++ r) l k).advance,
            v ++ [(lx (exponent_text ex ++ r) l k).current_char])) with
        | (s2b, v2b) => read_digits_loop s2b.rest.length s2b v2b
      else (lx (exponent_text ex ++ r) l k, v)) = (lx r l1 k1, v ++ exponent_text ex) := by
  obtain ⟨c, r1, rfl, hc⟩ := terminated_cons r hr
  obtain ⟨hc1, -, -, hc4, hc5, -, -⟩ := terminator_plain c hc
  have hrd : (c :: r1).head?.all (fun c => !c.isDigit) = true := by simp [hc1]
  match ex, hex with
  | none, _ =>
    refine ⟨l, k, ?_⟩
    have h4 : (c == 'e') = false := by simpa using hc4
    have h5 : (c == 'E') = false := by simpa using hc5
    simp [exponent_text, lx, DotLexer.has_more, DotLexer.current_char, h4, h5]
  | some (m, none, ds), hex =>
    simp only [Bool.and_eq_true, Bool.not_eq_true', List.isEmpty_eq_false, List.all_eq_true]
      at hex
    obtain ⟨⟨hm, hne⟩, hds⟩ := hex
    obtain ⟨l1, k1, hadv⟩ := advance_lx_some m (ds ++ c :: r1) l k
    obtain ⟨l2, k2, h2⟩ := read_digits_loop_digits ds hds (c :: r1) hrd
      (lx (ds ++ c :: r1) l1 k1).rest.length l1 k1 (v ++ [m]) (by simp [lx])
    refine ⟨l2, k2, ?_⟩
    have hcur : (lx (m :: (ds ++ c :: r1)) l k).current_char = m := rfl
    have hmore : (lx (m :: (ds ++ c :: r1)) l k).has_more = true := rfl
    simp only [exponent_text, List.cons_append]
    rw [hcur, hmore, hadv, hm]
    cases ds with
    | nil => exact absurd rfl hne
    | cons d ds1 =>
      have hd := hds d (List.mem_cons_self _ _)
      have hcur1 : (lx (d :: ds1 ++ c :: r1) l1 k1).current_char = d := rfl
      have hmore1 : (lx (d :: ds1 ++ c :: r1) l1 k1).has_more = true := rfl
      have hp : (d == '+') = false := by
        by_contra hh; simp only [Bool.not_eq_false, beq_iff_eq] at hh; subst hh; cases hd
      have hq : (d == '-') = false := by
        by_contra hh; simp only [Bool.not_eq_false, beq_iff_eq] at hh; subst hh; cases hd
      rw [hcur1, hmore1, hp, hq]
      simp only [Bool.and_self, if_true, Bool.or_self, Bool.and_false, Bool.false_eq_true,
        if_false]
      rw [h2]
      simp
  | some (m, some sg, ds), hex =>
    simp only [Bool.and_eq_true, Bool.not_eq_true', List.isEmpty_eq_false, List.all_eq_true]
      at hex
    obtain ⟨⟨⟨hm, hsg⟩, hne⟩, hds⟩ := hex
    obtain ⟨l1, k1, hadv⟩ := advance_lx_some m (sg :: (ds ++ c :: r1)) l k
    obtain ⟨l1b, k1b, hadv2⟩ := advance_lx_some sg (ds ++ c :: r1) l1 k1
    obtain ⟨l2, k2, h2⟩ := read_digits_loop_digits ds hds (c :: r1) hrd
      (lx (ds ++ c :: r1) l1b k1b).rest.length l1b k1b (v ++ [m] ++ [sg]) (by simp [lx])
    refine ⟨l2, k2, ?_⟩
    have hcur : (lx (m :: sg :: (ds ++ c :: r1)) l k).current_char = m := rfl
    have hmore : (lx (m :: sg :: (ds ++ c :: r1)) l k).has_more = true := rfl
    have hcur1 : (lx (sg :: (ds ++ c :: r1)) l1 k1).current_char = sg := rfl
    have hmore1 : (lx (sg :: (ds ++ c :: r1)) l1 k1).has_more = true := rfl
    simp only [exponent_text, List.cons_append]
    rw [hcur, hmore, hadv, hm, hcur1, hmore1, hsg, hadv2]
    simp only [Bool.and_self, if_true]
    rw [h2]
    simp

/-- A numeral at the cursor, followed by a character that ends it, is scanned as one
token of the kind `ID` whose text is the numeral. -/
theorem scan_number (n : Numeral) (hn : n.valid = true) (r : List Char)
    (hr : terminated r = true) (l k : Nat) :
    ∃ l2 k2, (lx (n.literal ++ r) l k).scan_token =
      .ok (⟨TokenType.ID, n.literal, l, k⟩, lx r l2 k2) := by
  obtain ⟨whole, fr, ex⟩ := n
  simp only [Numeral.valid, Bool.and_eq_true, Bool.not_eq_true', List.isEmpty_eq_false,
    List.all_eq_true] at hn
  obtain ⟨⟨⟨hne, hw⟩, hfr⟩, hex⟩ := hn
  obtain ⟨c, r1, rfl, hc⟩ := terminated_cons r hr
  obtain ⟨hc1, -, hc3, hc4, hc5, -, -⟩ := terminator_plain c hc
  -- what follows the digits of the whole part is no digit
  have hhead2 : (exponent_text ex ++ c :: r1).head?.all (fun c => !c.isDigit && c != '.')
      = true := by
    match ex, hex with
    | none, _ => simp [exponent_text, hc1, hc3]
    | some (m, none, ds), hex =>
      simp only [Bool.and_eq_true, Bool.or_eq_true, beq_iff_eq] at hex
      rcases hex.1.1 with rfl | rfl <;> simp [exponent_text]
    | some (m, some sg, ds), hex =>
      simp only [Bool.and_eq_true, Bool.or_eq_true, beq_iff_eq] at hex
      rcases hex.1.1.1 with rfl | rfl <;> simp [exponent_text]
  have hhead1 : (fraction_text fr ++ (exponent_text ex ++ c :: r1)).head?.all
      (fun c => !c.isDigit) = true := by
    cases fr with
    | none =>
      simp only [fraction_text, List.nil_append]
      cases hh : exponent_text ex ++ c :: r1 with
      | nil => rfl
      | cons d t =>
        rw [hh] at hhead2
        simp only [List.head?_cons, Option.all_some, Bool.and_eq_true] at hhead2 ⊢
        exact hhead2.1
    | some f => simp [fraction_text]
  obtain ⟨l1, k1, h1⟩ := read_digits_loop_digits whole hw _ hhead1
    (lx (whole ++ (fraction_text fr ++ (exponent_text ex ++ c :: r1))) l k).rest.length l k []
    (by simp [lx])
  obtain ⟨l2, k2, h2⟩ := read_number_fraction fr
    (fun f hf => by subst hf; simpa using hfr) (exponent_text ex ++ c :: r1) hhead2 l1 k1
    ([] ++ whole)
  obtain ⟨l3, k3, h3⟩ := read_number_exponent ex hex (c :: r1) hc l2 k2
    ([] ++ whole ++ fraction_text fr)
  refine ⟨l3, k3, ?_⟩
  have hnum := read_number_stages _ _ _ _ _ _ _ h1 h2 h3
  have hlit : ({ whole := whole, fraction := fr, exponent := ex } : Numeral).literal ++ c :: r1 =
      whole ++ (fraction_text fr ++ (exponent_text ex ++ c :: r1)) := by
    simp [Numeral.literal]
  have hval : [] ++ whole ++ fraction_text fr ++ exponent_text ex =
      ({ whole := whole, fraction := fr, exponent := ex } : Numeral).literal := by
    simp [Numeral.literal]
  rw [hlit, ← hval]
  cases whole with
  | nil => exact absurd rfl hne
  | cons d ds =>
    have hd := hw d (List.mem_cons_self _ _)
    have hd' : (d.isAlphanum || d == '_') = true := by
      simp [Char.isAlphanum, hd]
    have hcur : (lx (d :: ds ++ (fraction_text fr ++ (exponent_text ex ++ c :: r1))) l k).current_char
        = d := rfl
    have hmore : (lx (d :: ds ++ (fraction_text fr ++ (exponent_text ex ++ c :: r1))) l k).has_more
        = true := rfl
    unfold DotLexer.scan_token
    rw [hcur, hmore, word_char_ne d hd' '[' (by decide), word_char_ne d hd' ']' (by decide),
      word_char_ne d hd' '{' (by decide), word_char_ne d hd' '}' (by decide),
      word_char_ne d hd' ',' (by decide), word_char_ne d hd' ':' (by decide),
      word_char_ne d hd' ';' (by decide), word_char_ne d hd' '=' (by decide),
      word_char_ne d hd' '+' (by decide), word_char_ne d hd' '-' (by decide),
      word_char_ne d hd' '"' (by decide), word_char_ne d hd' '<' (by decide)]
    simp only [Bool.not_true, Bool.false_eq_true, if_false, Bool.false_and, is_digit, hd,
      Bool.true_or, if_true]
    rw [hnum]
    rfl

end Dot
end XDotCpp

/-! ## The loop of `parse_attributes` -/

namespace XDotCpp
namespace Dot

theorem scan_comma (r : List Char) (l k : Nat) :
    (lx (',' :: r) l k).scan_token =
      .ok (⟨TokenType.COMMA, [','], l, k⟩, lx r l (k + 1)) := rfl

theorem advance_comma (sp : List Char) (hsp : ∀ c ∈ sp, is_whitespace c = true) (r : List Char)
    (l k : Nat) (tok0 : Token) :
    ∃ l1 k1 l2 k2,
      (ps (sp ++ ',' :: r) l k tok0).advance = .ok (ps r l2 k2 ⟨TokenType.COMMA, [','], l1, k1⟩) := by
  refine advance_piece sp hsp _ r ?_ _ _ ?_ l k tok0
  · rfl
  · exact fun l k => ⟨l, k + 1, scan_comma r l k⟩

/-- Bracketed text is read by `advance` as one `HTML_ID` token. -/
theorem advance_bracketed (sp : List Char) (hsp : ∀ c ∈ sp, is_whitespace c = true)
    (h r : List Char) (hh : is_bracketed h = true) (l k : Nat) (tok0 : Token) :
    ∃ l1 k1 l2 k2,
      (ps (sp ++ (h ++ r)) l k tok0).advance = .ok (ps r l2 k2 ⟨TokenType.HTML_ID, h, l1, k1⟩) := by
  have hhead : (h ++ r).head?.all (fun c => !is_whitespace c) = true := by
    obtain ⟨h1, -, -, -⟩ := (is_bracketed_iff h).1 hh
    cases h with
    | nil => cases h1
    | cons c h =>
      simp only [List.head?_cons, Option.some.injEq] at h1
      subst h1
      rfl
  refine advance_piece sp hsp _ r hhead _ _ ?_ l k tok0
  intro l k
  obtain ⟨l2, k2, h2⟩ := next_token_bracketed h r hh l k
  rw [next_token_stop _ l k hhead] at h2
  exact ⟨l2, k2, h2⟩

/-- A numeral is read by `advance` as one `ID` token. -/
theorem advance_number (sp : List Char) (hsp : ∀ c ∈ sp, is_whitespace c = true)
    (n : Numeral) (hn : n.valid = true) (r : List Char) (hr : terminated r = true) (l k : Nat)
    (tok0 : Token) :
    ∃ l1 k1 l2 k2,
      (ps (sp ++ (n.literal ++ r)) l k tok0).advance =
        .ok (ps r l2 k2 ⟨TokenType.ID, n.literal, l1, k1⟩) := by
  have hhead : (n.literal ++ r).head?.all (fun c => !is_whitespace c) = true := by
    obtain ⟨whole, fr, ex⟩ := n
    simp only [Numeral.valid, Bool.and_eq_true, Bool.not_eq_true', List.isEmpty_eq_false,
      List.all_eq_true] at hn
    obtain ⟨⟨⟨hne, hw⟩, -⟩, -⟩ := hn
    cases whole with
    | nil => exact absurd rfl hne
    | cons d ds =>
      have hd := hw d (List.mem_cons_self _ _)
      have hd' : (d.isAlphanum || d == '_') = true := by simp [Char.isAlphanum, hd]
      simp [Numeral.literal, word_char_not_whitespace d hd']
  exact advance_piece sp hsp _ r hhead _ _ (fun l k => scan_number n hn r hr l k) l k tok0

/-- A name or a value, followed by a character that ends it, is read by `advance` as one
token of its kind whose text is the string that it denotes. -/
theorem advance_attr_id (sp : List Char) (hsp : ∀ c ∈ sp, is_whitespace c = true) (i : AttrId)
    (hi : i.valid = true) (r : List Char) (hr : terminated r = true) (l k : Nat)
    (tok0 : Token) :
    ∃ l1 k1 l2 k2,
      (ps (sp ++ (i.literal ++ r)) l k tok0).advance =
        .ok (ps r l2 k2 ⟨i.token_type, i.value, l1, k1⟩) := by
  cases i with
  | word w =>
    simp only [AttrId.valid, Bool.and_eq_true, Bool.not_eq_true'] at hi
    obtain ⟨l1, k1, l2, k2, h⟩ := advance_word sp hsp w r hi.1 (terminated_ends_word r hr) l k tok0
    rw [keyword_type_plain w hi.2] at h
    exact ⟨l1, k1, l2, k2, h⟩
  | number n => exact advance_number sp hsp n hi r hr l k tok0
  | quoted s =>
    obtain ⟨l1, k1, l2, k2, h⟩ := advance_quoted sp hsp s r l k tok0
    refine ⟨l1, k1, l2, k2, ?_⟩
    simpa [AttrId.literal, AttrId.value, AttrId.token_type] using h
  | bracketed h => exact advance_bracketed sp hsp h r hi l k tok0

/-- White space in front does not change what `advance` returns, but for the position. -/
theorem advance_skip_blank (ws : List Char) (hws : ∀ c ∈ ws, is_whitespace c = true)
    (t : List Char) (l k : Nat) (tok0 : Token) :
    ∃ l1 k1, (ps (ws ++ t) l k tok0).advance = (ps t l1 k1 tok0).advance := by
  obtain ⟨l1, k1, h⟩ := next_token_skip_blank ws hws t l k
  refine ⟨l1, k1, ?_⟩
  unfold DotParser.advance ps
  simp only
  rw [h]

/-- The kind of a name or value is one of the three that `parse_id` takes. -/
theorem token_type_id (i : AttrId) :
    (i.token_type == TokenType.ID || i.token_type == TokenType.STR_ID ||
      i.token_type == TokenType.HTML_ID) = true ∧ i.token_type ≠ TokenType.EQUAL ∧
      i.token_type ≠ TokenType.COMMA ∧ i.token_type ≠ TokenType.SEMI ∧
      i.token_type ≠ TokenType.RSQUARE ∧ i.token_type ≠ TokenType.EOF_TOKEN := by
  cases i <;> simp [AttrId.token_type]

/-- One turn of the loop of `parse_attributes` on a bare name. -/
theorem parse_attributes_loop_bare (fuel : Nat) (p p2 : DotParser) (acc : AttributeList)
    (hty : (p.current_token_.type == TokenType.ID || p.current_token_.type == TokenType.STR_ID
      || p.current_token_.type == TokenType.HTML_ID) = true)
    (hadv : p.advance = .ok p2) (hne : p2.current_token_.type ≠ TokenType.EQUAL) :
    parse_attributes_loop (fuel + 1) p acc =
      if (p2.current_token_.type == TokenType.COMMA
          || p2.current_token_.type == TokenType.SEMI) = true then
        match p2.advance with
        | .error x => .error x
        | .ok p3 => parse_attributes_loop fuel p3 (acc ++ [⟨p.current_token_.text, []⟩])
      else parse_attributes_loop fuel p2 (acc ++ [⟨p.current_token_.text, []⟩]) := by
  have h1 : (p.current_token_.type != TokenType.RSQUARE) = true := by
    rw [bne_iff_ne]; intro h; rw [h] at hty; cases hty
  have h2 : (p.current_token_.type != TokenType.EOF_TOKEN) = true := by
    rw [bne_iff_ne]; intro h; rw [h] at hty; cases hty
  rw [parse_attributes_loop]
  have hne' : (p2.current_token_.type == TokenType.EQUAL) = false := by simpa using hne
  simp only [DotParser.parse_id, hty, hadv, bind, Except.bind, pure, Except.pure, h1, h2, hne',
    Bool.and_self, if_true, Bool.false_eq_true, if_false]
  by_cases hc : (p2.current_token_.type == TokenType.COMMA
      || p2.current_token_.type == TokenType.SEMI) = true
  · rw [if_pos hc, if_pos hc]
    cases p2.advance <;> rfl
  · rw [if_neg hc, if_neg hc]

/-- One turn of the loop of `parse_attributes` on a name with a value. -/
theorem parse_attributes_loop_value (fuel : Nat) (p p1 p1a p2 : DotParser)
    (acc : AttributeList)
    (hty : (p.current_token_.type == TokenType.ID || p.current_token_.type == TokenType.STR_ID
      || p.current_token_.type == TokenType.HTML_ID) = true)
    (hadv : p.advance = .ok p1) (heq : p1.current_token_.type = TokenType.EQUAL)
    (hadv1 : p1.advance = .ok p1a)
    (hty1 : (p1a.current_token_.type == TokenType.ID
      || p1a.current_token_.type == TokenType.STR_ID
      || p1a.current_token_.type == TokenType.HTML_ID) = true)
    (hadv2 : p1a.advance = .ok p2) :
    parse_attributes_loop (fuel + 1) p acc =
      if (p2.current_token_.type == TokenType.COMMA
          || p2.current_token_.type == TokenType.SEMI) = true then
        match p2.advance with
        | .error x => .error x
        | .ok p3 =>
          parse_attributes_loop fuel p3
            (acc ++ [⟨p.current_token_.text, p1a.current_token_.text⟩])
      else
        parse_attributes_loop fuel p2
          (acc ++ [⟨p.current_token_.text, p1a.current_token_.text⟩]) := by
  have h1 : (p.current_token_.type != TokenType.RSQUARE) = true := by
    rw [bne_iff_ne]; intro h; rw [h] at hty; cases hty
  have h2 : (p.current_token_.type != TokenType.EOF_TOKEN) = true := by
    rw [bne_iff_ne]; intro h; rw [h] at hty; cases hty
  rw [parse_attributes_loop]
  simp only [DotParser.parse_id, hty, hadv, bind, Except.bind, pure, Except.pure, h1, h2, heq,
    hadv1, hty1, hadv2, Bool.and_self, if_true, beq_self_eq_true]
  by_cases hc : (p2.current_token_.type == TokenType.COMMA
      || p2.current_token_.type == TokenType.SEMI) = true
  · rw [if_pos hc, if_pos hc]
    cases p2.advance <;> rfl
  · rw [if_neg hc, if_neg hc]

/-- The loop of `parse_attributes` stops at the closing bracket. -/
theorem parse_attributes_loop_end (fuel : Nat) (p : DotParser) (acc : AttributeList)
    (hty : p.current_token_.type = TokenType.RSQUARE) :
    parse_attributes_loop (fuel + 1) p acc = .ok (acc, p) := by
  rw [parse_attributes_loop]
  simp [hty, pure, Except.pure]

/-- The literal of a name or value is not empty. -/
theorem attr_id_literal_length (i : AttrId) (hi : i.valid = true) : 1 ≤ i.literal.length := by
  cases i with
  | word w =>
    simp only [AttrId.valid, Bool.and_eq_true] at hi
    obtain ⟨c, cs, rfl, -, -⟩ := is_identifier_chars w hi.1
    simp [AttrId.literal]
  | number n =>
    obtain ⟨whole, fr, ex⟩ := n
    simp only [AttrId.valid, Numeral.valid, Bool.and_eq_true, Bool.not_eq_true',
      List.isEmpty_eq_false] at hi
    cases whole with
    | nil => exact absurd rfl hi.1.1.1
    | cons d ds => simp [AttrId.literal, Numeral.literal]
  | quoted s => simp [AttrId.literal]
  | bracketed h =>
    obtain ⟨-, h2, -, -⟩ := (is_bracketed_iff h).1 hi
    cases h with
    | nil => exact absurd rfl h2
    | cons c h => simp [AttrId.literal]

theorem attr_item_valid (e : AttrItem) (he : e.valid = true) :
    e.name.valid = true ∧ (∀ v, e.value = some v → v.valid = true) ∧
      ∀ c ∈ e.pad, is_whitespace c = true := by
  obtain ⟨name, value, sep, pad⟩ := e
  simp only [AttrItem.valid, Bool.and_eq_true, List.all_eq_true] at he
  refine ⟨he.1.1, ?_, he.2⟩
  intro v hv
  simp only at hv
  subst hv
  exact he.1.2

/-- The text of the elements is at least as long as their number. -/
theorem attr_items_text_length :
    ∀ (items : List AttrItem), (∀ e ∈ items, e.valid = true) →
      items.length ≤ (attr_items_text items).length := by
  intro items
  induction items with
  | nil => intro _; simp
  | cons e es ih =>
    intro hv
    have he := attr_id_literal_length e.name (attr_item_valid e (hv e (List.mem_cons_self _ _))).1
    have hes := ih (fun x hx => hv x (List.mem_cons_of_mem _ hx))
    cases es with
    | nil =>
      simp only [attr_items_text, AttrItem.text, List.length_append, List.length_cons,
        List.length_nil]
      omega
    | cons e2 es =>
      simp only [attr_items_text, AttrItem.text, List.length_append, List.length_cons] at hes ⊢
      omega

/-- The text that follows the name of an element can follow a name. -/
theorem value_text_terminated (pad : List Char) (hpad : ∀ c ∈ pad, is_whitespace c = true)
    (value : Option AttrId) (rest : List Char) (hrest : terminated rest = true) :
    terminated (value_text pad value ++ rest) = true := by
  cases value with
  | none => exact hrest
  | some v =>
    simp only [value_text, List.append_assoc, List.cons_append]
    exact terminated_pad pad hpad '=' (by decide) _

/-- One turn of the loop of `parse_attributes` over an element of the text, given what
follows the element. -/
theorem parse_attributes_loop_item (e : AttrItem) (he : e.valid = true) (rest : List Char)
    (hrest : terminated rest = true) (fuel : Nat) (acc out : AttributeList) (r : List Char)
    (hcont : ∀ l k tok, ∃ p2, (ps rest l k tok).advance = .ok p2 ∧
      p2.current_token_.type ≠ TokenType.EQUAL ∧
      ∃ l1 k1 l2 k2,
        (if (p2.current_token_.type == TokenType.COMMA
            || p2.current_token_.type == TokenType.SEMI) = true then
          match p2.advance with
          | .error x => .error x
          | .ok p3 => parse_attributes_loop fuel p3 (acc ++ [e.attribute])
        else parse_attributes_loop fuel p2 (acc ++ [e.attribute])) =
          .ok (out, ps r l2 k2 ⟨TokenType.RSQUARE, [']'], l1, k1⟩))
    (l k : Nat) (tok : Token) :
    ∃ p, (ps (e.text ++ rest) l k tok).advance = .ok p ∧
      rest.length ≤ p.lexer_.rest.length ∧
      p.current_token_.type = e.name.token_type ∧
      ∃ l1 k1 l2 k2, parse_attributes_loop (fuel + 1) p acc =
        .ok (out, ps r l2 k2 ⟨TokenType.RSQUARE, [']'], l1, k1⟩) := by
  obtain ⟨hname, hvalue, hpad⟩ := attr_item_valid e he
  obtain ⟨name, value, sep, pad⟩ := e
  simp only at hname hvalue hpad
  have htext : (⟨name, value, sep, pad⟩ : AttrItem).text ++ rest =
      pad ++ (name.literal ++ (value_text pad value ++ rest)) := by
    simp [AttrItem.text]
  rw [htext]
  obtain ⟨l1, k1, l2, k2, hp⟩ := advance_attr_id pad hpad name hname
    (value_text pad value ++ rest) (value_text_terminated pad hpad value rest hrest) l k tok
  refine ⟨_, hp, by simp [ps, lx], rfl, ?_⟩
  have hty := (token_type_id name).1
  cases value with
  | none =>
    obtain ⟨p2, hp2, hne, l3, k3, l4, k4, hres⟩ := hcont l2 k2 ⟨name.token_type, name.value, l1, k1⟩
    refine ⟨l3, k3, l4, k4, ?_⟩
    exact (parse_attributes_loop_bare fuel
      (ps rest l2 k2 ⟨name.token_type, name.value, l1, k1⟩) p2 acc hty hp2 hne).trans hres
  | some v =>
    have hv := hvalue v rfl
    obtain ⟨l5, k5, l6, k6, hp1⟩ := advance_equal pad hpad (pad ++ (v.literal ++ rest)) l2 k2
      ⟨name.token_type, name.value, l1, k1⟩
    obtain ⟨l7, k7, l8, k8, hp1a⟩ := advance_attr_id pad hpad v hv rest hrest l6 k6
      ⟨TokenType.EQUAL, ['='], l5, k5⟩
    obtain ⟨p2, hp2, hne, l3, k3, l4, k4, hres⟩ := hcont l8 k8 ⟨v.token_type, v.value, l7, k7⟩
    refine ⟨l3, k3, l4, k4, ?_⟩
    have hp1' : (ps (value_text pad (some v) ++ rest) l2 k2
        ⟨name.token_type, name.value, l1, k1⟩).advance =
        .ok (ps (pad ++ (v.literal ++ rest)) l6 k6 ⟨TokenType.EQUAL, ['='], l5, k5⟩) := by
      simpa [value_text] using hp1
    exact (parse_attributes_loop_value fuel _ _ _ p2 acc hty hp1' rfl hp1a (token_type_id v).1
      hp2).trans hres

end Dot
end XDotCpp

/-! ## Attribute lists -/

namespace XDotCpp
namespace Dot

/-- The loop of `parse_attributes` over the elements of an attribute list: the parser
that `advance` leaves at the first token returns the attributes of the elements, in their
order, and stops at the closing bracket. -/
theorem parse_attributes_items (endpad : List Char)
    (hpad : ∀ c ∈ endpad, is_whitespace c = true) (r : List Char) :
    ∀ (items : List AttrItem), (∀ e ∈ items, e.valid = true) → ∀ (l k : Nat) (tok : Token),
      ∃ p, (ps (attr_items_text items ++ (endpad ++ ']' :: r)) l k tok).advance = .ok p ∧
        items.length ≤ p.lexer_.rest.length + 1 ∧
        p.current_token_.type ≠ TokenType.EQUAL ∧
        (p.current_token_.type == TokenType.COMMA
          || p.current_token_.type == TokenType.SEMI) = false ∧
        ∀ (fuel : Nat) (acc : AttributeList), items.length + 1 ≤ fuel →
          ∃ l1 k1 l2 k2, parse_attributes_loop fuel p acc =
            .ok (acc ++ items.map AttrItem.attribute,
              ps r l2 k2 ⟨TokenType.RSQUARE, [']'], l1, k1⟩) := by
  intro items
  induction items with
  | nil =>
    intro _ l k tok
    obtain ⟨l1, k1, l2, k2, h⟩ := advance_rsquare endpad hpad r l k tok
    refine ⟨_, h, by simp, by simp [ps], rfl, ?_⟩
    intro fuel acc hf
    cases fuel with
    | zero => simp at hf
    | succ n =>
      refine ⟨l1, k1, l2, k2, ?_⟩
      rw [parse_attributes_loop_end n _ acc rfl]
      simp
  | cons e es ih =>
    intro hv l k tok
    have he := hv e (List.mem_cons_self _ _)
    have hes : ∀ x ∈ es, x.valid = true := fun x hx => hv x (List.mem_cons_of_mem _ hx)
    obtain ⟨hname, -, hepad⟩ := attr_item_valid e he
    have hlen := attr_items_text_length es hes
    -- the text behind the element, and what the loop does from there
    have key : ∀ (rest : List Char), terminated rest = true → es.length ≤ rest.length →
        (∀ (fuel : Nat) (acc : AttributeList), es.length + 1 ≤ fuel →
          ∀ l k tok, ∃ p2, (ps rest l k tok).advance = .ok p2 ∧
            p2.current_token_.type ≠ TokenType.EQUAL ∧
            ∃ l1 k1 l2 k2,
              (if (p2.current_token_.type == TokenType.COMMA
                  || p2.current_token_.type == TokenType.SEMI) = true then
                match p2.advance with
                | .error x => .error x
                | .ok p3 => parse_attributes_loop fuel p3 (acc ++ [e.attribute])
              else parse_attributes_loop fuel p2 (acc ++ [e.attribute])) =
                .ok (acc ++ (e :: es).map AttrItem.attribute,
                  ps r l2 k2 ⟨TokenType.RSQUARE, [']'], l1, k1⟩)) →
        ∃ p, (ps (e.text ++ rest) l k tok).advance = .ok p ∧
          (e :: es).length ≤ p.lexer_.rest.length + 1 ∧
          p.current_token_.type ≠ TokenType.EQUAL ∧
          (p.current_token_.type == TokenType.COMMA
            || p.current_token_.type == TokenType.SEMI) = false ∧
          ∀ (fuel : Nat) (acc : AttributeList), (e :: es).length + 1 ≤ fuel →
            ∃ l1 k1 l2 k2, parse_attributes_loop fuel p acc =
              .ok (acc ++ (e :: es).map AttrItem.attribute,
                ps r l2 k2 ⟨TokenType.RSQUARE, [']'], l1, k1⟩) := by
      intro rest hrest hrl hcont
      obtain ⟨l1, k1, l2, k2, hp⟩ := advance_attr_id e.pad hepad e.name hname
        (value_text e.pad e.value ++ rest)
        (value_text_terminated e.pad hepad e.value rest hrest) l k tok
      have htext : e.text ++ rest =
          e.pad ++ (e.name.literal ++ (value_text e.pad e.value ++ rest)) := by
        simp [AttrItem.text]
      refine ⟨_, by rw [htext]; exact hp, ?_, (token_type_id e.name).2.1, ?_, ?_⟩
      · simp only [ps, lx, List.length_cons, List.length_append]
        omega
      · have h3 := (token_type_id e.name).2.2.1
        have h4 := (token_type_id e.name).2.2.2.1
        simp [ps, h3, h4]
      · intro fuel acc hf
        cases fuel with
        | zero => simp at hf
        | succ n =>
          obtain ⟨p, hp', -, -, l3, k3, l4, k4, hres⟩ :=
            parse_attributes_loop_item e he rest hrest n acc _ r
              (hcont n acc (by simp at hf; omega)) l k tok
          rw [htext, hp] at hp'
          simp only [Except.ok.injEq] at hp'
          subst hp'
          exact ⟨l3, k3, l4, k4, hres⟩
    cases es with
    | nil =>
      have ht : attr_items_text [e] ++ (endpad ++ ']' :: r) = e.text ++ (endpad ++ ']' :: r) := rfl
      rw [ht]
      refine key (endpad ++ ']' :: r) (terminated_pad endpad hpad ']' (by decide) r) (by simp) ?_
      intro fuel acc hf l k tok
      obtain ⟨p2, hp2, -, hne, hsep, hloop⟩ := ih hes l k tok
      obtain ⟨l1, k1, l2, k2, h⟩ := hloop fuel (acc ++ [e.attribute]) hf
      refine ⟨p2, hp2, hne, l1, k1, l2, k2, ?_⟩
      rw [hsep]
      simpa using h
    | cons e2 es2 =>
      have ht : attr_items_text (e :: e2 :: es2) ++ (endpad ++ ']' :: r) =
          e.text ++ (e.pad ++ (e.sep.text ++
            (attr_items_text (e2 :: es2) ++ (endpad ++ ']' :: r)))) := by
        simp [attr_items_text]
      rw [ht]
      have hsepterm : terminated (e.pad ++ (e.sep.text ++
          (attr_items_text (e2 :: es2) ++ (endpad ++ ']' :: r)))) = true := by
        cases hs : e.sep
        · exact terminated_pad e.pad hepad ',' (by decide) _
        · exact terminated_pad e.pad hepad ';' (by decide) _
        · exact terminated_pad e.pad hepad ' ' (by decide) _
      refine key _ hsepterm (by simp only [List.length_append]; omega) ?_
      intro fuel acc hf l k tok
      cases hs : e.sep with
      | comma =>
        obtain ⟨l1, k1, l2, k2, hc⟩ := advance_comma e.pad hepad
          (attr_items_text (e2 :: es2) ++ (endpad ++ ']' :: r)) l k tok
        obtain ⟨p3, hp3, -, -, -, hloop⟩ := ih hes l2 k2 ⟨TokenType.COMMA, [','], l1, k1⟩
        obtain ⟨l3, k3, l4, k4, h⟩ := hloop fuel (acc ++ [e.attribute]) hf
        refine ⟨_, hc, by simp [ps], l3, k3, l4, k4, ?_⟩
        rw [if_pos (by simp [ps]), hp3]
        simpa using h
      | semicolon =>
        obtain ⟨l1, k1, l2, k2, hc⟩ := advance_semi e.pad hepad
          (attr_items_text (e2 :: es2) ++ (endpad ++ ']' :: r)) l k tok
        obtain ⟨p3, hp3, -, -, -, hloop⟩ := ih hes l2 k2 ⟨TokenType.SEMI, [';'], l1, k1⟩
        obtain ⟨l3, k3, l4, k4, h⟩ := hloop fuel (acc ++ [e.attribute]) hf
        refine ⟨_, hc, by simp [ps], l3, k3, l4, k4, ?_⟩
        rw [if_pos (by simp [ps]), hp3]
        simpa using h
      | blank =>
        obtain ⟨l1, k1, hb⟩ := advance_skip_blank (e.pad ++ [' '])
          (by
            intro c hc
            rcases List.mem_append.1 hc with h | h
            · exact hepad c h
            · simp only [List.mem_singleton] at h; subst h; rfl)
          (attr_items_text (e2 :: es2) ++ (endpad ++ ']' :: r)) l k tok
        obtain ⟨p3, hp3, -, hne, hsep, hloop⟩ := ih hes l1 k1 tok
        obtain ⟨l3, k3, l4, k4, h⟩ := hloop fuel (acc ++ [e.attribute]) hf
        refine ⟨p3, ?_, hne, l3, k3, l4, k4, ?_⟩
        · rw [← hp3, ← hb]
          simp [Separator.text]
        · rw [hsep]
          simpa using h

/-- C26: an attribute list `[` e1 sep e2 sep ... en `]`, each element a `name` or a
`name=value`, names and values being identifiers that are no keywords, numerals, quoted
strings or bracketed text, each separator a comma, a semicolon or a blank, white space
allowed before every token: with the parser at the `[`, `parse_attributes` reads up to
the `]` and returns the `n` attributes in the order of the text, whatever their names are,
the pair of its name and its value for a `name=value` and the name with the empty value
for a bare `name`; for `[]` it returns the empty list. The parser that it returns is the
one that `advance` leaves behind the `]`, and the call throws only if reading the token
behind the `]` throws. -/
theorem parse_attributes_list (items : List AttrItem) (hv : ∀ e ∈ items, e.valid = true)
    (endpad : List Char) (hpad : ∀ c ∈ endpad, is_whitespace c = true) (r : List Char)
    (l k l0 k0 : Nat) :
    ∃ l1 k1 l2 k2,
      (ps (attr_items_text items ++ (endpad ++ ']' :: r)) l k
          ⟨TokenType.LSQUARE, ['['], l0, k0⟩).parse_attributes =
        match (ps r l2 k2 ⟨TokenType.RSQUARE, [']'], l1, k1⟩).advance with
        | .error x => .error x
        | .ok p => .ok (items.map AttrItem.attribute, p) := by
  obtain ⟨p, hp, hlen, -, -, hloop⟩ := parse_attributes_items endpad hpad r items hv l k
    ⟨TokenType.LSQUARE, ['['], l0, k0⟩
  obtain ⟨l1, k1, l2, k2, h⟩ := hloop (p.lexer_.rest.length + 2) [] (by omega)
  refine ⟨l1, k1, l2, k2, ?_⟩
  unfold DotParser.parse_attributes
  have hc : DotParser.consume TokenType.LSQUARE
      (ps (attr_items_text items ++ (endpad ++ ']' :: r)) l k
        ⟨TokenType.LSQUARE, ['['], l0, k0⟩) = .ok p := by
    rw [← hp]
    rfl
  rw [hc]
  simp only [bind, Except.bind, h, List.nil_append]
  have hc2 : DotParser.consume TokenType.RSQUARE
      (ps r l2 k2 ⟨TokenType.RSQUARE, [']'], l1, k1⟩) =
      (ps r l2 k2 ⟨TokenType.RSQUARE, [']'], l1, k1⟩).advance := rfl
  rw [hc2]
  cases (ps r l2 k2 ⟨TokenType.RSQUARE, [']'], l1, k1⟩).advance <;> rfl

/-- The list `[a=1.5,b  "x y" = <b> ;a=z]` has the four attributes `(a, 1.5)`, `(b, "")`,
`(x y, <b>)` and `(a, z)`. -/
theorem parse_attributes_list_witness :
    (∀ e ∈ [(⟨.word ['a'], some (.number ⟨['1'], some ['5'], none⟩), .comma, []⟩ : AttrItem),
        ⟨.word ['b'], none, .blank, []⟩,
        ⟨.quoted ['x', ' ', 'y'], some (.bracketed ['<', 'b', '>']), .semicolon, [' ']⟩,
        ⟨.word ['a'], some (.word ['z']), .comma, []⟩], e.valid = true) ∧
    (∀ c ∈ ([] : List Char), is_whitespace c = true) ∧
    ∃ l1 k1 l2 k2,
      (ps (attr_items_text [(⟨.word ['a'], some (.number ⟨['1'], some ['5'], none⟩), .comma,
            []⟩ : AttrItem),
          ⟨.word ['b'], none, .blank, []⟩,
          ⟨.quoted ['x', ' ', 'y'], some (.bracketed ['<', 'b', '>']), .semicolon, [' ']⟩,
          ⟨.word ['a'], some (.word ['z']), .comma, []⟩] ++ ([] ++ ']' :: [';'])) 1 2
          ⟨TokenType.LSQUARE, ['['], 1, 1⟩).parse_attributes =
        match (ps [';'] l2 k2 ⟨TokenType.RSQUARE, [']'], l1, k1⟩).advance with
        | .error x => .error x
        | .ok p => .ok ([⟨['a'], ['1', '.', '5']⟩, ⟨['b'], []⟩, ⟨['x', ' ', 'y'], ['<', 'b', '>']⟩,
            ⟨['a'], ['z']⟩], p) :=
  ⟨by decide, by simp, parse_attributes_list _ (by decide) [] (by simp) [';'] 1 2 1 1⟩

end Dot
end XDotCpp

/-! ## Statements that the parser does not take as the grammar says -/

namespace XDotCpp
namespace Dot

/-- C23 fails on the code: the statements `node [...]` and `edge [...]` replace the attribute list of the
graph instead of adding to it. The text `graph { a = b; node [c = d]; }` parses to a graph
whose attribute list is `(c, d)` alone, the earlier `(a, b)` is lost; so it is for
`graph { graph [a = b]; edge [c = d]; }`; the statement `graph [...]` in the same place
keeps what was recorded: `graph { a = b; graph [c = d]; }` gives `(a, b), (c, d)`. -/
theorem node_statement_discards_attributes :
    (parse "graph \x7b a = b; node [c = d]; \x7d".toList).map (fun g => g.attributes) =
        .ok [⟨['c'], ['d']⟩] ∧
      (parse "graph \x7b graph [a = b]; edge [c = d]; \x7d".toList).map (fun g => g.attributes) =
        .ok [⟨['c'], ['d']⟩] ∧
      (parse "graph \x7b a = b; graph [c = d]; \x7d".toList).map (fun g => g.attributes) =
        .ok [⟨['a'], ['b']⟩, ⟨['c'], ['d']⟩] :=
  ⟨rfl, rfl, rfl⟩

/-- C24 fails on the code: the body of a subgraph does not follow the grammar of the body of a graph. The
texts `graph { a = b }` and `graph { node [a = b] }` parse, each to a graph with the
attribute `(a, b)`; with the same bodies in a subgraph, `graph { subgraph S { a = b } }`
and `graph { subgraph S { node [a = b] } }`, the parser throws "Unexpected token in
subgraph body", at the `=` and at the `node`. -/
theorem subgraph_body_rejects_attributes :
    (parse "graph \x7b a = b \x7d".toList).map (fun g => g.attributes) =
        .ok [⟨['a'], ['b']⟩] ∧
      parse "graph \x7b subgraph S \x7b a = b \x7d \x7d".toList =
        .error (.thrown ⟨Message.unexpected_token_in_subgraph_body, 1, 24⟩) ∧
      (parse "graph \x7b node [a = b] \x7d".toList).map (fun g => g.attributes) =
        .ok [⟨['a'], ['b']⟩] ∧
      parse "graph \x7b subgraph S \x7b node [a = b] \x7d \x7d".toList =
        .error (.thrown ⟨Message.unexpected_token_in_subgraph_body, 1, 22⟩) :=
  ⟨rfl, rfl, rfl, rfl⟩

/-- C25 fails on the code: bracketed text is not taken as the id of a graph. On `graph <b> { }` and on
`digraph <b> { }` the parser throws at the `<`: it expects the `{` and finds a token of
the kind `HTML_ID`; the same text is taken as a value, `graph { a = <b> }` gives the
attribute `(a, <b>)` with the brackets. -/
theorem bracketed_graph_id_rejected :
    parse "graph <b> \x7b \x7d".toList =
        .error (.thrown ⟨Message.expected_token_type TokenType.LCURLY TokenType.HTML_ID, 1, 7⟩) ∧
      parse "digraph <b> \x7b \x7d".toList =
        .error (.thrown ⟨Message.expected_token_type TokenType.LCURLY TokenType.HTML_ID, 1, 9⟩) ∧
      (parse "graph \x7b a = <b> \x7d".toList).map (fun g => g.attributes) =
        .ok [⟨['a'], ['<', 'b', '>']⟩] :=
  ⟨rfl, rfl, rfl⟩

end Dot
end XDotCpp

/-! ## The parser terminates -/

namespace XDotCpp
namespace Dot

/-! ### The lexer consumes what it reads -/


theorem advance_length (s : DotLexer) : s.advance.rest.length = s.rest.length - 1 := by
  unfold DotLexer.advance
  cases h : s.rest with
  | nil => simp [h]
  | cons c cs =>
    by_cases hc : (c == '\n') = true
    · simp [hc]
    · simp [hc]

theorem advance_length_le (s : DotLexer) : s.advance.rest.length ≤ s.rest.length := by
  rw [advance_length]; omega

theorem has_more_length (s : DotLexer) (h : s.has_more = true) : 0 < s.rest.length := by
  unfold DotLexer.has_more at h
  cases hr : s.rest with
  | nil => rw [hr] at h; simp at h
  | cons c cs => simp

theorem advance_length_lt (s : DotLexer) (h : s.has_more = true) :
    s.advance.rest.length < s.rest.length := by
  have := has_more_length s h
  rw [advance_length]; omega

theorem skip_comment_loop_length (fuel : Nat) :
    ∀ s : DotLexer, (skip_comment_loop fuel s).rest.length ≤ s.rest.length := by
  induction fuel with
  | zero => intro s; exact le_refl _
  | succ n ih =>
    intro s
    unfold skip_comment_loop
    split
    · exact le_trans (ih _) (advance_length_le s)
    · exact le_refl _

theorem block_comment_loop_length (fuel : Nat) :
    ∀ s : DotLexer, (block_comment_loop fuel s).rest.length ≤ s.rest.length := by
  induction fuel with
  | zero => intro s; exact le_refl _
  | succ n ih =>
    intro s
    unfold block_comment_loop
    split
    · split
      · exact le_trans (advance_length_le _) (advance_length_le s)
      · exact le_trans (ih _) (advance_length_le s)
    · exact le_refl _

theorem skip_whitespace_loop_length (fuel : Nat) :
    ∀ s : DotLexer, (skip_whitespace_loop fuel s).rest.length ≤ s.rest.length := by
  induction fuel with
  | zero => intro s; exact le_refl _
  | succ n ih =>
    intro s
    unfold skip_whitespace_loop
    split
    · split
      · exact le_trans (ih _) (skip_comment_loop_length _ s)
      · split
        · exact le_trans (ih _) (le_trans (block_comment_loop_length _ _)
            (le_trans (advance_length_le _) (advance_length_le s)))
        · split
          · exact le_trans (ih _) (skip_comment_loop_length _ s)
          · exact le_trans (ih _) (advance_length_le s)
    · exact le_refl _

theorem read_string_loop_length (fuel : Nat) :
    ∀ (s : DotLexer) (value : List Char),
      (read_string_loop fuel s value).1.rest.length ≤ s.rest.length := by
  induction fuel with
  | zero => intro s value; exact le_refl _
  | succ n ih =>
    intro s value
    unfold read_string_loop
    split
    · split
      · exact le_trans (ih _ _) (le_trans (advance_length_le _) (advance_length_le s))
      · exact le_trans (ih _ _) (advance_length_le s)
    · exact le_refl _

theorem read_html_string_loop_length (fuel : Nat) :
    ∀ (s : DotLexer) (value : List Char) (depth : Int),
      (read_html_string_loop (fuel + 1) s value depth).1.rest.length ≤ s.advance.rest.length := by
  induction fuel with
  | zero =>
    intro s value depth
    unfold read_html_string_loop
    simp only
    generalize (if (s.current_char == '<') = true then depth + 1
      else if (s.current_char == '>') = true then depth - 1 else depth) = depth1
    split
    · unfold read_html_string_loop; exact Nat.le_refl _
    · exact Nat.le_refl _
  | succ n ih =>
    intro s value depth
    unfold read_html_string_loop
    simp only
    generalize (if (s.current_char == '<') = true then depth + 1
      else if (s.current_char == '>') = true then depth - 1 else depth) = depth1
    split
    · exact le_trans (ih _ _ _) (advance_length_le _)
    · exact le_refl _

theorem read_identifier_loop_length (fuel : Nat) :
    ∀ (s : DotLexer) (value : List Char),
      (read_identifier_loop fuel s value).1.rest.length ≤ s.rest.length := by
  induction fuel with
  | zero => intro s value; exact le_refl _
  | succ n ih =>
    intro s value
    unfold read_identifier_loop
    split
    · exact le_trans (ih _ _) (advance_length_le s)
    · exact le_refl _

theorem read_digits_loop_length (fuel : Nat) :
    ∀ (s : DotLexer) (value : List Char),
      (read_digits_loop fuel s value).1.rest.length ≤ s.rest.length := by
  induction fuel with
  | zero => intro s value; exact le_refl _
  | succ n ih =>
    intro s value
    unfold read_digits_loop
    split
    · exact le_trans (ih _ _) (advance_length_le s)
    · exact le_refl _

/-- The method `read_identifier` at a character of a word takes it. -/
theorem read_identifier_length (w : DotLexer) (hm : w.has_more = true)
    (ha : (is_alpha w.current_char || w.current_char == '_') = true) :
    w.read_identifier.2.rest.length < w.rest.length := by
  have hpos := has_more_length w hm
  obtain ⟨n, hn⟩ : ∃ n, w.rest.length = n + 1 := ⟨w.rest.length - 1, by omega⟩
  have hal : (is_alnum w.current_char || w.current_char == '_') = true := by
    unfold is_alpha at ha
    unfold is_alnum
    simp only [Bool.or_eq_true] at ha ⊢
    rcases ha with (ha | ha) | ha
    · left; left
      unfold Char.isAlphanum
      simp [ha]
    · left; right; exact ha
    · right; exact ha
  show (read_identifier_loop w.rest.length w []).1.rest.length < w.rest.length
  have e : read_identifier_loop w.rest.length w [] =
      read_identifier_loop n w.advance ([] ++ [w.current_char]) := by
    rw [hn, read_identifier_loop]
    simp only [hm, hal, Bool.and_self, if_true]
  rw [e]
  exact lt_of_le_of_lt (read_identifier_loop_length _ _ _) (advance_length_lt w hm)

/-- The method `read_number` at a digit, or at a point before a digit, takes it. -/
theorem read_number_length (w : DotLexer) (hm : w.has_more = true)
    (hd : (is_digit w.current_char || (w.current_char == '.' && is_digit w.peek_char)) = true) :
    w.read_number.2.rest.length < w.rest.length := by
  have hpos := has_more_length w hm
  obtain ⟨n, hn⟩ : ∃ n, w.rest.length = n + 1 := ⟨w.rest.length - 1, by omega⟩
  unfold DotLexer.read_number
  have h1 := read_digits_loop_length w.rest.length w []
  have h1' : is_digit w.current_char = true →
      (read_digits_loop w.rest.length w []).1.rest.length < w.rest.length := by
    intro hdig
    have e : read_digits_loop w.rest.length w [] =
        read_digits_loop n w.advance ([] ++ [w.current_char]) := by
      rw [hn, read_digits_loop]
      simp only [hm, hdig, Bool.and_self, if_true]
    rw [e]
    exact lt_of_le_of_lt (read_digits_loop_length _ _ _) (advance_length_lt w hm)
  have h1'' : is_digit w.current_char = false →
      read_digits_loop w.rest.length w [] = (w, []) := by
    intro hdig
    rw [hn, read_digits_loop]
    simp only [hm, hdig, Bool.and_false, Bool.false_eq_true, if_false]
  generalize read_digits_loop w.rest.length w [] = r1 at h1 h1' h1''
  obtain ⟨s1, v1⟩ := r1
  simp only at h1 h1' h1'' ⊢
  have h2 : (if (s1.has_more && s1.current_char == '.') = true then
      read_digits_loop s1.rest.length s1.advance (v1 ++ [s1.current_char]) else (s1, v1)).1.rest.length
        < w.rest.length := by
    by_cases hdig : is_digit w.current_char = true
    · have := h1' hdig
      split
      · exact lt_of_le_of_lt (le_trans (read_digits_loop_length _ _ _) (advance_length_le _)) this
      · exact this
    · have hdig' : is_digit w.current_char = false := by simpa using hdig
      have e := h1'' hdig'
      simp only [Prod.mk.injEq] at e
      obtain ⟨e1, -⟩ := e
      subst e1
      have hpt : (s1.current_char == '.') = true := by
        rw [hdig'] at hd
        simp only [Bool.false_or, Bool.and_eq_true] at hd
        exact hd.1
      rw [if_pos (by rw [hm, hpt]; rfl)]
      exact lt_of_le_of_lt (read_digits_loop_length _ _ _) (advance_length_lt s1 hm)
  generalize (if (s1.has_more && s1.current_char == '.') = true then
      read_digits_loop s1.rest.length s1.advance (v1 ++ [s1.current_char]) else (s1, v1)) = r2 at h2
  obtain ⟨s2, v2⟩ := r2
  simp only at h2 ⊢
  refine lt_of_le_of_lt ?_ h2
  split
  · split
    · exact le_trans (read_digits_loop_length _ _ _)
        (le_trans (advance_length_le _) (advance_length_le _))
    · exact le_trans (read_digits_loop_length _ _ _) (advance_length_le _)
  · exact le_refl _

theorem scan_token_key (w : DotLexer) (t : Token) (s1 : DotLexer) (tok : Token) (w1 : DotLexer)
    (hlt : w1.rest.length < w.rest.length) (heq : (tok, w1) = (t, s1)) :
    s1.rest.length ≤ w.rest.length ∧
      (t.type = TokenType.EOF_TOKEN ∨ s1.rest.length < w.rest.length) := by
  cases heq
  exact ⟨le_of_lt hlt, Or.inr hlt⟩

/-- The scan of a token returns the end marker, or it takes at least one character. -/
theorem scan_token_progress (w : DotLexer) (t : Token) (s1 : DotLexer)
    (h : w.scan_token = .ok (t, s1)) :
    s1.rest.length ≤ w.rest.length ∧
      (t.type = TokenType.EOF_TOKEN ∨ s1.rest.length < w.rest.length) := by
  unfold DotLexer.scan_token at h
  by_cases hm : w.has_more = true
  · rw [if_neg (by simp [hm])] at h
    have a1 := advance_length_lt w hm
    have a2 : w.advance.advance.rest.length < w.rest.length :=
      lt_of_le_of_lt (advance_length_le _) a1
    have a3 : (read_string_loop w.rest.length w.advance []).1.advance.rest.length <
        w.rest.length :=
      lt_of_le_of_lt (le_trans (advance_length_le _) (read_string_loop_length _ _ _)) a1
    have a4 : (read_html_string_loop w.rest.length w [] 0).1.rest.length < w.rest.length := by
      obtain ⟨n, hn⟩ : ∃ n, w.rest.length = n + 1 := ⟨w.rest.length - 1, by omega⟩
      have h1 := read_html_string_loop_length n w [] 0
      rw [← hn] at h1
      exact lt_of_le_of_lt h1 a1
    repeat' (refine (ite_eq_cases h).elim (fun h' => ?_) (fun h' => ?_) <;> clear h <;>
      obtain ⟨hc, h⟩ := h')
    all_goals have key := scan_token_key w t s1
    all_goals first
      | exact key _ _ a1 (Except.ok.inj h)
      | exact key _ _ a2 (Except.ok.inj h)
      | exact key _ _ a3 (Except.ok.inj h)
      | exact key _ _ a4 (Except.ok.inj h)
      | exact key _ _ (read_number_length w hm hc) (Except.ok.inj h)
      | exact key _ _ (read_identifier_length w hm hc) (Except.ok.inj h)
      | exact Except.noConfusion h
  · rw [if_pos (by simpa using hm)] at h
    cases h
    exact ⟨le_refl _, Or.inl rfl⟩

/-- A call of `next_token` without a peeked token returns the end marker, or it takes at
least one character; it leaves no peeked token. -/
theorem next_token_progress (s : DotLexer) (hs : s.has_peeked = false) (t : Token)
    (s1 : DotLexer) (h : s.next_token = .ok (t, s1)) :
    s1.has_peeked = false ∧ s1.rest.length ≤ s.rest.length ∧
      (t.type = TokenType.EOF_TOKEN ∨ s1.rest.length < s.rest.length) := by
  have hp := (next_token_order s hs t s1 h).2.2
  unfold DotLexer.next_token at h
  rw [hs, if_neg Bool.false_ne_true] at h
  have hw : s.skip_whitespace.rest.length ≤ s.rest.length := skip_whitespace_loop_length _ s
  obtain ⟨h1, h2⟩ := scan_token_progress s.skip_whitespace t s1 h
  refine ⟨hp, le_trans h1 hw, ?_⟩
  rcases h2 with h2 | h2
  · exact Or.inl h2
  · exact Or.inr (lt_of_lt_of_le h2 hw)


/-! ### The steps of the parser end -/


theorem Completes.mono {α : Type} {proj : α → DotParser} {p : DotParser} {k k' : Nat}
    {m : Except Failure α} (h : Completes proj p k m) (hk : k' ≤ k) : Completes proj p k' m :=
  ⟨h.1, fun a ha => ⟨(h.2 a ha).1, by have := (h.2 a ha).2; omega⟩⟩

theorem Completes.rebase {α : Type} {proj : α → DotParser} {p q : DotParser} {k j : Nat}
    {m : Except Failure α} (h : Completes proj q k m) (hq : q.remaining + j ≤ p.remaining) :
    Completes proj p j m :=
  ⟨h.1, fun a ha => ⟨(h.2 a ha).1, by have := (h.2 a ha).2; omega⟩⟩

/-- A step that ends, followed by steps that end. -/
theorem Completes.step {α β : Type} {proj : α → DotParser} {p : DotParser} {k : Nat}
    {m : Except Failure α} {f : α → Except Failure β} (proj2 : β → DotParser) (j : Nat)
    (hm : Completes proj p k m)
    (hf : ∀ a, (proj a).lexer_.has_peeked = false → (proj a).remaining + k ≤ p.remaining →
      Completes proj2 p j (f a)) : Completes proj2 p j (m >>= f) := by
  cases m with
  | error x =>
    exact ⟨fun h => hm.1 (by simpa [Bind.bind, Except.bind] using h), fun b hb => (by cases hb)⟩
  | ok a =>
    obtain ⟨h1, h2⟩ := hm.2 a rfl
    exact hf a h1 h2

theorem Completes.ret {α : Type} {proj : α → DotParser} {p : DotParser} {k : Nat} (a : α)
    (h1 : (proj a).lexer_.has_peeked = false) (h2 : (proj a).remaining + k ≤ p.remaining) :
    Completes proj p k (Pure.pure a) := by
  refine ⟨fun h => (by cases h), fun b hb => ?_⟩
  cases hb
  exact ⟨h1, h2⟩

theorem Completes.thrown {α : Type} {proj : α → DotParser} {p q : DotParser} {k : Nat}
    (message : Message) : Completes proj p k (q.fail message : Except Failure α) :=
  ⟨fun h => (by cases h), fun b hb => (by cases hb)⟩

theorem Completes.seq {α β : Type} {proj : α → DotParser} {p : DotParser} {k : Nat}
    {m : Except Failure α} {f : α → Except Failure β} (proj2 : β → DotParser) (j n : Nat)
    (hm : Completes proj p k m)
    (hf : ∀ a, (proj a).lexer_.has_peeked = false → (proj a).remaining + k ≤ p.remaining →
      Completes proj2 (proj a) j (f a))
    (hn : n ≤ k + j) : Completes proj2 p n (m >>= f) := by
  cases m with
  | error x =>
    refine ⟨fun h => hm.1 (by simpa [Bind.bind, Except.bind] using h), fun b hb => (by cases hb)⟩
  | ok a =>
    obtain ⟨h1, h2⟩ := hm.2 a rfl
    have hfa := hf a h1 h2
    refine ⟨hfa.1, fun b hb => ?_⟩
    obtain ⟨g1, g2⟩ := hfa.2 b hb
    exact ⟨g1, by omega⟩

/-- The method `advance` ends, and takes nothing back. -/
theorem advance_completes (p : DotParser) (hp : p.lexer_.has_peeked = false) :
    Completes id p (if p.current_token_.type = TokenType.EOF_TOKEN then 0 else 1) p.advance := by
  unfold DotParser.advance
  cases h : p.lexer_.next_token with
  | error x => exact ⟨fun h => (by cases h), fun b hb => (by cases hb)⟩
  | ok r =>
    obtain ⟨t, l⟩ := r
    obtain ⟨h1, h2, h3⟩ := next_token_progress p.lexer_ hp t l h
    refine ⟨fun h => (by cases h), fun b hb => ?_⟩
    cases hb
    refine ⟨h1, ?_⟩
    simp only [id, DotParser.remaining]
    rcases h3 with h3 | h3
    · rw [if_pos h3]
      split <;> omega
    · split <;> split <;> omega

theorem advance_weak (p : DotParser) (hp : p.lexer_.has_peeked = false) :
    Completes id p 0 p.advance :=
  (advance_completes p hp).mono (Nat.zero_le _)

theorem advance_strict (p : DotParser) (hp : p.lexer_.has_peeked = false)
    (hne : p.current_token_.type ≠ TokenType.EOF_TOKEN) : Completes id p 1 p.advance := by
  have := advance_completes p hp
  rwa [if_neg hne] at this

/-- The method `consume` for a token type other than the end marker takes a token or
throws. -/
theorem consume_completes (ty : TokenType) (hty : ty ≠ TokenType.EOF_TOKEN) (p : DotParser)
    (hp : p.lexer_.has_peeked = false) : Completes id p 1 (p.consume ty) := by
  unfold DotParser.consume
  split
  · exact Completes.thrown _
  · rename_i h
    have : p.current_token_.type = ty := by simpa using h
    exact advance_strict p hp (by rw [this]; exact hty)

/-- The method `parse_id` takes a token or throws. -/
theorem parse_id_completes (p : DotParser) (hp : p.lexer_.has_peeked = false) :
    Completes Prod.snd p 1 p.parse_id := by
  unfold DotParser.parse_id
  split
  · rename_i h
    have hne : p.current_token_.type ≠ TokenType.EOF_TOKEN := by
      intro he
      rw [he] at h
      simp at h
    exact Completes.seq Prod.snd 0 1 (advance_strict p hp hne)
      (fun a h1 _ => Completes.ret _ h1 (by simp)) (le_refl _)
  · exact Completes.thrown _

theorem optional_semi_completes (p : DotParser) (hp : p.lexer_.has_peeked = false) :
    Completes id p 0 p.optional_semi := by
  unfold DotParser.optional_semi
  split
  · exact advance_weak p hp
  · exact Completes.ret p hp (by simp)

theorem ite_bind_except {α β : Type} (c : Prop) [Decidable c] (a b : Except Failure α)
    (f : α → Except Failure β) :
    (if c then a else b) >>= f = if c then a >>= f else b >>= f := by
  split <;> rfl

theorem fail_bind_except {α β : Type} (q : DotParser) (message : Message)
    (f : α → Except Failure β) :
    (q.fail message : Except Failure α) >>= f = q.fail message := rfl

/-- The loop of `parse_attributes` is its body followed by the loop. -/
theorem parse_attributes_loop_step (fuel : Nat) (p : DotParser) (attributes : AttributeList) :
    parse_attributes_loop (fuel + 1) p attributes =
      if p.current_token_.type != TokenType.RSQUARE
          && p.current_token_.type != TokenType.EOF_TOKEN then
        attribute_item p attributes >>= fun r => parse_attributes_loop fuel r.2 r.1
      else pure (attributes, p) := by
  rw [parse_attributes_loop]
  unfold attribute_item
  simp only [bind_assoc, pure_bind, ite_bind_except]

/-- The statement loop of `parse_subgraph` is its body followed by the loop. -/
theorem parse_subgraph_body_step (fuel : Nat) (p : DotParser) (sg : Subgraph) :
    parse_subgraph_body (fuel + 1) p sg =
      if p.current_token_.type != TokenType.RCURLY
          && p.current_token_.type != TokenType.EOF_TOKEN then
        subgraph_statement fuel p sg >>= fun r => parse_subgraph_body fuel r.2 r.1
      else pure (sg, p) := by
  rw [parse_subgraph_body]
  unfold subgraph_statement
  simp only [bind_assoc, pure_bind, ite_bind_except, fail_bind_except]

/-- The statement loop of `parse_graph` is its body followed by the loop. -/
theorem parse_graph_body_step (fuel : Nat) (p : DotParser) (graph : Graph) :
    parse_graph_body (fuel + 1) p graph =
      if p.current_token_.type != TokenType.RCURLY
          && p.current_token_.type != TokenType.EOF_TOKEN then
        graph_statement fuel p graph >>= fun r => parse_graph_body fuel r.2 r.1
      else pure (graph, p) := by
  rw [parse_graph_body]
  unfold graph_statement
  simp only [bind_assoc, pure_bind, ite_bind_except, fail_bind_except]

/-- One item of an attribute list ends, and takes a token when it returns. -/
theorem attribute_item_completes (p : DotParser) (attributes : AttributeList)
    (hp : p.lexer_.has_peeked = false) : Completes Prod.snd p 1 (attribute_item p attributes) := by
  unfold attribute_item
  refine Completes.seq Prod.snd 0 1 (parse_id_completes p hp) ?_ (by omega)
  rintro ⟨name, p1⟩ h1 h2
  dsimp only at h1 h2 ⊢
  have hjp : ∀ (y : AttributeList × DotParser), y.2.lexer_.has_peeked = false →
      y.2.remaining ≤ p1.remaining → Completes Prod.snd y.2 0 (do
        let p3 ←
          if (y.2.current_token_.type == TokenType.COMMA
            || y.2.current_token_.type == TokenType.SEMI) = true then y.2.advance
          else Pure.pure y.2
        Pure.pure (y.1, p3)) := by
    intro y g1 g2
    dsimp only
    split
    · refine Completes.seq Prod.snd 0 0 (advance_weak y.2 g1) ?_ (by omega)
      intro p3 f1 f2
      exact Completes.ret _ f1 (by simp)
    · exact Completes.ret _ g1 (by simp)
  split
  · refine Completes.seq Prod.snd 0 0 (advance_weak p1 h1) ?_ (by omega)
    intro p1a g1 g2
    refine Completes.seq Prod.snd 0 0 (parse_id_completes p1a g1) ?_ (by omega)
    rintro ⟨value, p1b⟩ f1 f2
    have e := hjp (attributes ++ [⟨name, value⟩], p1b) f1
      (by first | omega | (simp only [id] at *; omega))
    exact ⟨e.1, fun a ha => ⟨(e.2 a ha).1, by
      have := (e.2 a ha).2
      first | omega | (simp only [id] at *; omega)⟩⟩
  · exact hjp (attributes ++ [⟨name, []⟩], p1) h1 (le_refl _)

/-- The loop of `parse_attributes` ends when its fuel is more than what is left: every
iteration takes a token or throws. -/
theorem parse_attributes_loop_completes (fuel : Nat) :
    ∀ (p : DotParser) (attributes : AttributeList), p.lexer_.has_peeked = false →
      p.remaining < fuel → Completes Prod.snd p 0 (parse_attributes_loop fuel p attributes) := by
  induction fuel with
  | zero => intro p attributes _ h; omega
  | succ n ih =>
    intro p attributes hp hfuel
    rw [parse_attributes_loop_step]
    split
    · refine Completes.seq Prod.snd 0 0 (attribute_item_completes p attributes hp) ?_ (by omega)
      intro r h1 h2
      exact ih r.2 r.1 h1 (by omega)
    · exact Completes.ret _ hp (by simp)

/-- The method `parse_attributes` ends, and takes a token when it returns. -/
theorem parse_attributes_completes (p : DotParser) (hp : p.lexer_.has_peeked = false) :
    Completes Prod.snd p 1 p.parse_attributes := by
  unfold DotParser.parse_attributes
  refine Completes.seq Prod.snd 0 1 (consume_completes _ (by decide) p hp) ?_ (by omega)
  intro p1 h1 h2
  simp only [id] at h1 h2
  refine Completes.seq Prod.snd 0 0
    (parse_attributes_loop_completes (p1.lexer_.rest.length + 2) p1 [] h1 ?_) ?_ (by omega)
  · unfold DotParser.remaining
    split <;> omega
  rintro ⟨attributes, p2⟩ g1 g2
  dsimp only at g1 g2 ⊢
  refine Completes.seq Prod.snd 0 0 (consume_completes _ (by decide) p2 g1) ?_ (by omega)
  intro p3 f1 f2
  exact Completes.ret _ f1 (by simp)

/-- The method `parse_edge` ends, and takes a token when it returns. -/
theorem parse_edge_completes (source_id : List Char) (p : DotParser)
    (hp : p.lexer_.has_peeked = false) : Completes Prod.snd p 1 (p.parse_edge source_id) := by
  unfold DotParser.parse_edge
  refine Completes.seq Prod.snd 0 1 (consume_completes _ (by decide) p hp) ?_ (by omega)
  intro p1 h1 h2
  simp only [id] at h1 h2
  refine Completes.seq Prod.snd 0 0 (parse_id_completes p1 h1) ?_ (by omega)
  rintro ⟨target_id, p2⟩ g1 g2
  dsimp only at g1 g2 ⊢
  split
  · refine Completes.seq Prod.snd 0 0 (parse_attributes_completes p2 g1) ?_ (by omega)
    rintro ⟨attributes, p3⟩ f1 f2
    exact Completes.ret _ f1 (by simp)
  · exact Completes.ret _ g1 (by simp)

/-- A node statement ends. -/
theorem node_statement_completes (id : List Char) (p : DotParser)
    (hp : p.lexer_.has_peeked = false) : Completes Prod.snd p 0 (p.node_statement id) := by
  unfold DotParser.node_statement
  split
  · refine Completes.seq Prod.snd 0 0 (parse_attributes_completes p hp) ?_ (by omega)
    rintro ⟨attributes, p1⟩ f1 f2
    exact Completes.ret _ f1 (by simp)
  · exact Completes.ret _ hp (by simp)

/-- A thrown error ends what follows it. -/
theorem Completes.fail_bind {α β : Type} (proj : β → DotParser) (p q : DotParser) (k : Nat)
    (message : Message) (f : α → Except Failure β) :
    Completes proj p k ((q.fail message : Except Failure α) >>= f) :=
  ⟨fun h => (by cases h), fun b hb => (by cases hb)⟩

/-- A statement of a subgraph body ends, and takes a token when it returns, if every
subgraph does. -/
theorem subgraph_statement_completes (n : Nat)
    (ih1 : ∀ p : DotParser, p.lexer_.has_peeked = false → 2 * p.remaining ≤ n →
      p.current_token_.type ≠ TokenType.EOF_TOKEN →
      Completes Prod.snd p 1 (parse_subgraph n p))
    (p : DotParser) (sg : Subgraph) (hp : p.lexer_.has_peeked = false)
    (hf : 2 * p.remaining ≤ n) (hne : p.current_token_.type ≠ TokenType.EOF_TOKEN) :
    Completes Prod.snd p 1 (subgraph_statement n p sg) := by
  unfold subgraph_statement
  have hjp : ∀ (sg1 : Subgraph) (p1 : DotParser), p1.lexer_.has_peeked = false →
      p1.remaining + 1 ≤ p.remaining → Completes Prod.snd p1 0 (do
        let p2 ← p1.optional_semi
        Pure.pure (sg1, p2)) := by
    intro sg1 p1 g1 g2
    refine Completes.seq Prod.snd 0 0 (optional_semi_completes p1 g1) ?_ (by omega)
    intro p2 f1 f2
    exact Completes.ret _ f1 (by simp)
  have hlift : ∀ (sg1 : Subgraph) (p1 : DotParser), p1.lexer_.has_peeked = false →
      p1.remaining + 1 ≤ p.remaining → Completes Prod.snd p 1 (do
        let p2 ← p1.optional_semi
        Pure.pure (sg1, p2)) := by
    intro sg1 p1 g1 g2
    have e := hjp sg1 p1 g1 g2
    exact ⟨e.1, fun a ha => ⟨(e.2 a ha).1, by have := (e.2 a ha).2; omega⟩⟩
  dsimp only
  split
  · refine Completes.seq Prod.snd 0 1 (ih1 p hp hf hne) ?_ (by omega)
    rintro ⟨nested_subgraph, p1⟩ g1 g2
    exact hjp _ p1 g1 g2
  · split
    · refine Completes.seq Prod.snd 0 1 (parse_id_completes p hp) ?_ (by omega)
      rintro ⟨name, p1⟩ g1 g2
      dsimp only at g1 g2 ⊢
      split
      · refine Completes.seq Prod.snd 0 0 (parse_edge_completes name p1 g1) ?_ (by omega)
        rintro ⟨edge, p2⟩ f1 f2
        have e := hjp (Subgraph.mk sg.id sg.attributes sg.nodes (sg.edges ++ [edge])
          sg.subgraphs) p2 f1 (by first | omega | (simp only [id] at *; omega))
        exact ⟨e.1, fun a ha => ⟨(e.2 a ha).1, by
          have := (e.2 a ha).2
          first | omega | (simp only [id] at *; omega)⟩⟩
      · refine Completes.seq Prod.snd 0 0 (node_statement_completes name p1 g1) ?_ (by omega)
        rintro ⟨node, p2⟩ f1 f2
        have e := hjp (Subgraph.mk sg.id sg.attributes (sg.nodes ++ [node]) sg.edges
          sg.subgraphs) p2 f1 (by first | omega | (simp only [id] at *; omega))
        exact ⟨e.1, fun a ha => ⟨(e.2 a ha).1, by
          have := (e.2 a ha).2
          first | omega | (simp only [id] at *; omega)⟩⟩
    · exact Completes.fail_bind _ _ _ _ _ _

/-- The method `parse_subgraph` and its statement loop end when the fuel is more than
twice what is left: every iteration of the loop takes a token or throws, and so does every
subgraph. -/
theorem parse_subgraph_completes (fuel : Nat) :
    (∀ p : DotParser, p.lexer_.has_peeked = false → 2 * p.remaining ≤ fuel →
      p.current_token_.type ≠ TokenType.EOF_TOKEN →
      Completes Prod.snd p 1 (parse_subgraph fuel p)) ∧
    (∀ (p : DotParser) (sg : Subgraph), p.lexer_.has_peeked = false →
      2 * p.remaining < fuel → Completes Prod.snd p 0 (parse_subgraph_body fuel p sg)) := by
  induction fuel with
  | zero =>
    constructor
    · intro p _ hf hne
      exfalso
      unfold DotParser.remaining at hf
      rw [if_neg hne] at hf
      omega
    · intro p sg _ hf; omega
  | succ n ih =>
    obtain ⟨ih1, ih2⟩ := ih
    constructor
    · intro p hp hf hne
      unfold parse_subgraph
      refine Completes.seq Prod.snd 0 1 (consume_completes _ (by decide) p hp) ?_ (by omega)
      intro p1 h1 h2
      simp only [id] at h1 h2
      have hjp : ∀ (name : List Char) (p2 : DotParser), p2.lexer_.has_peeked = false →
          p2.remaining + 1 ≤ p.remaining → Completes Prod.snd p2 0 (do
            let p3 ← p2.consume TokenType.LCURLY
            let (subgraph, p4) ← parse_subgraph_body n p3 (Subgraph.mk name [] [] [] [])
            let p5 ← p4.consume TokenType.RCURLY
            Pure.pure (subgraph, p5)) := by
        intro name p2 g1 g2
        refine Completes.seq Prod.snd 0 0 (consume_completes _ (by decide) p2 g1) ?_ (by omega)
        intro p3 f1 f2
        simp only [id] at f1 f2
        refine Completes.seq Prod.snd 0 0 (ih2 p3 _ f1 (by omega)) ?_ (by omega)
        rintro ⟨subgraph, p4⟩ e1 e2
        dsimp only at e1 e2 ⊢
        refine Completes.seq Prod.snd 0 0 (consume_completes _ (by decide) p4 e1) ?_ (by omega)
        intro p5 d1 d2
        exact Completes.ret _ d1 (by simp)
      dsimp only
      split
      · refine Completes.seq Prod.snd 0 0 (parse_id_completes p1 h1) ?_ (by omega)
        rintro ⟨name, p2⟩ g1 g2
        exact hjp name p2 g1 (by simp only [id] at g2; omega)
      · exact hjp [] p1 h1 h2
    · intro p sg hp hf
      rw [parse_subgraph_body_step]
      split
      · rename_i hloop
        have hne : p.current_token_.type ≠ TokenType.EOF_TOKEN := by
          intro he
          rw [he] at hloop
          simp at hloop
        refine Completes.seq Prod.snd 0 0
          (subgraph_statement_completes n ih1 p sg hp (by omega) hne) ?_ (by omega)
        intro r h1 h2
        exact ih2 r.2 r.1 h1 (by omega)
      · exact Completes.ret _ hp (by simp)

/-- A statement of a graph body ends, and takes a token when it returns. -/
theorem graph_statement_completes (n : Nat) (p : DotParser) (graph : Graph)
    (hp : p.lexer_.has_peeked = false) (hf : 2 * p.remaining ≤ n)
    (hne : p.current_token_.type ≠ TokenType.EOF_TOKEN) :
    Completes Prod.snd p 1 (graph_statement n p graph) := by
  unfold graph_statement
  have hjp : ∀ (graph1 : Graph) (p1 : DotParser), p1.lexer_.has_peeked = false →
      p1.remaining + 1 ≤ p.remaining → Completes Prod.snd p 1 (do
        let p2 ← p1.optional_semi
        Pure.pure (graph1, p2)) := by
    intro graph1 p1 g1 g2
    refine Completes.step Prod.snd 1 ((optional_semi_completes p1 g1).rebase g2) ?_
    intro p2 f1 f2
    exact Completes.ret _ f1 f2
  have hattrs : ∀ (mk : AttributeList → Graph), Completes Prod.snd p 1 (do
      let p1 ← p.advance
      let (attrs, p2) ← p1.parse_attributes
      let y ← Pure.pure (mk attrs, p2)
      let p2 ← y.2.optional_semi
      Pure.pure (y.1, p2)) := by
    intro mk
    refine Completes.step Prod.snd 1 (advance_strict p hp hne) ?_
    intro p1 g1 g2
    refine Completes.step Prod.snd 1 ((parse_attributes_completes p1 g1).rebase g2) ?_
    rintro ⟨attrs, p2⟩ f1 f2
    exact hjp (mk attrs) p2 f1 f2
  dsimp only
  split
  · exact hattrs (fun attrs => { graph with attributes := attrs })
  · split
    · exact hattrs (fun attrs => { graph with attributes := attrs })
    · split
      · exact hattrs (fun attrs => { graph with attributes := graph.attributes ++ attrs })
      · split
        · refine Completes.step Prod.snd 1 ((parse_subgraph_completes n).1 p hp hf hne) ?_
          rintro ⟨subgraph, p1⟩ g1 g2
          exact hjp _ p1 g1 g2
        · split
          · refine Completes.step Prod.snd 1 (parse_id_completes p hp) ?_
            rintro ⟨name, p1⟩ g1 g2
            dsimp only at g1 g2 ⊢
            split
            · refine Completes.step Prod.snd 1 ((parse_edge_completes name p1 g1).rebase g2) ?_
              rintro ⟨edge, p2⟩ f1 f2
              exact hjp _ p2 f1 f2
            · split
              · refine Completes.step Prod.snd 1 ((advance_weak p1 g1).rebase g2) ?_
                intro p2 f1 f2
                refine Completes.step Prod.snd 1 ((parse_id_completes p2 f1).rebase f2) ?_
                rintro ⟨value, p3⟩ e1 e2
                exact hjp _ p3 e1 e2
              · refine Completes.step Prod.snd 1
                  ((node_statement_completes name p1 g1).rebase g2) ?_
                rintro ⟨node, p2⟩ f1 f2
                exact hjp _ p2 f1 f2
          · exact Completes.fail_bind _ _ _ _ _ _

/-- The statement loop of `parse_graph` ends when the fuel is more than twice what is
left: every iteration takes a token or throws. -/
theorem parse_graph_body_completes (fuel : Nat) :
    ∀ (p : DotParser) (graph : Graph), p.lexer_.has_peeked = false →
      2 * p.remaining < fuel → Completes Prod.snd p 0 (parse_graph_body fuel p graph) := by
  induction fuel with
  | zero => intro p graph _ hf; omega
  | succ n ih =>
    intro p graph hp hf
    rw [parse_graph_body_step]
    split
    · rename_i hloop
      have hne : p.current_token_.type ≠ TokenType.EOF_TOKEN := by
        intro he
        rw [he] at hloop
        simp at hloop
      refine Completes.seq Prod.snd 0 0
        (graph_statement_completes n p graph hp (by omega) hne) ?_ (by omega)
      intro r h1 h2
      exact ih r.2 r.1 h1 (by omega)
    · exact Completes.ret _ hp (by simp)

/-- The method `parse_graph` ends when the fuel is more than twice what is left. -/
theorem parse_graph_completes (fuel : Nat) (p : DotParser) (hp : p.lexer_.has_peeked = false)
    (hf : 2 * p.remaining < fuel) : Completes Prod.snd p 0 (p.parse_graph fuel) := by
  have hbody : ∀ (graph : Graph) (p3 : DotParser), p3.lexer_.has_peeked = false →
      p3.remaining ≤ p.remaining → Completes Prod.snd p3 0 (do
        let p4 ← p3.consume TokenType.LCURLY
        let (graph1, p5) ← parse_graph_body fuel p4 graph
        let p6 ← p5.consume TokenType.RCURLY
        Pure.pure (graph1, p6)) := by
    intro graph p3 h1 h2
    refine Completes.seq Prod.snd 0 0 (consume_completes _ (by decide) p3 h1) ?_ (by omega)
    intro p4 g1 g2
    simp only [id] at g1 g2
    refine Completes.seq Prod.snd 0 0 (parse_graph_body_completes fuel p4 graph g1 (by omega)) ?_
      (by omega)
    rintro ⟨graph1, p5⟩ f1 f2
    dsimp only at f1 f2 ⊢
    refine Completes.seq Prod.snd 0 0 (consume_completes _ (by decide) p5 f1) ?_ (by omega)
    intro p6 e1 e2
    exact Completes.ret _ e1 (by simp)
  have hid : ∀ (graph : Graph) (p2 : DotParser), p2.lexer_.has_peeked = false →
      p2.remaining ≤ p.remaining → Completes Prod.snd p2 0 (do
        let (graph0, p3) ←
          if (p2.current_token_.type == TokenType.ID
              || p2.current_token_.type == TokenType.STR_ID) = true then do
            let (name, p1) ← p2.parse_id
            Pure.pure ({ graph with id := name }, p1)
          else Pure.pure (graph, p2)
        let p4 ← p3.consume TokenType.LCURLY
        let (graph1, p5) ← parse_graph_body fuel p4 graph0
        let p6 ← p5.consume TokenType.RCURLY
        Pure.pure (graph1, p6)) := by
    intro graph p2 h1 h2
    dsimp only
    split
    · refine Completes.seq Prod.snd 0 0 (parse_id_completes p2 h1) ?_ (by omega)
      rintro ⟨name, p1⟩ g1 g2
      exact hbody _ p1 g1 (by first | omega | (simp only [id] at *; omega))
    · exact hbody graph p2 h1 h2
  have htype : ∀ (graph : Graph) (p1 : DotParser), p1.lexer_.has_peeked = false →
      p1.remaining ≤ p.remaining → Completes Prod.snd p1 0 (do
        let (graph2, p2) ←
          if (p1.current_token_.type == TokenType.GRAPH) = true then do
            let q ← p1.advance
            Pure.pure ({ graph with type := GraphType.GRAPH }, q)
          else if (p1.current_token_.type == TokenType.DIGRAPH) = true then do
            let q ← p1.advance
            Pure.pure ({ graph with type := GraphType.DIGRAPH }, q)
          else p1.fail Message.expected_graph_or_digraph
        let (graph0, p3) ←
          if (p2.current_token_.type == TokenType.ID
              || p2.current_token_.type == TokenType.STR_ID) = true then do
            let (name, q) ← p2.parse_id
            Pure.pure ({ graph2 with id := name }, q)
          else Pure.pure (graph2, p2)
        let p4 ← p3.consume TokenType.LCURLY
        let (graph1, p5) ← parse_graph_body fuel p4 graph0
        let p6 ← p5.consume TokenType.RCURLY
        Pure.pure (graph1, p6)) := by
    intro graph p1 h1 h2
    dsimp only
    split
    · refine Completes.seq Prod.snd 0 0 (advance_weak p1 h1) ?_ (by omega)
      intro q g1 g2
      exact hid _ q g1 (by first | omega | (simp only [id] at *; omega))
    · split
      · refine Completes.seq Prod.snd 0 0 (advance_weak p1 h1) ?_ (by omega)
        intro q g1 g2
        exact hid _ q g1 (by first | omega | (simp only [id] at *; omega))
      · exact Completes.fail_bind _ _ _ _ _ _
  unfold DotParser.parse_graph
  dsimp only
  split
  · refine Completes.seq Prod.snd 0 0 (advance_weak p hp) ?_ (by omega)
    intro q g1 g2
    exact htype _ q g1 (by first | omega | (simp only [id] at *; omega))
  · exact htype _ p hp (le_refl _)

/-- The constructor of `DotParser` ends, and leaves at most the text and one token. -/
theorem new_completes (text : List Char) :
    DotParser.new text ≠ .error Failure.out_of_fuel ∧
      ∀ p, DotParser.new text = .ok p →
        p.lexer_.has_peeked = false ∧ p.remaining ≤ text.length + 1 := by
  have h := advance_weak { lexer_ := DotLexer.new text, current_token_ := Token.default } rfl
  refine ⟨h.1, fun p hp => ?_⟩
  obtain ⟨h1, h2⟩ := h.2 p hp
  refine ⟨h1, ?_⟩
  have e : ({ lexer_ := DotLexer.new text, current_token_ := Token.default } :
      DotParser).remaining = text.length := by
    simp [DotParser.remaining, DotLexer.new, Token.default]
  rw [e] at h2
  simp only [id] at h2
  omega

/-- Construction of a `DotParser` and `parse` end on every text, with a graph or with a
`ParseError`. -/
theorem parse_completes (text : List Char) :
    (∃ graph, parse text = .ok graph) ∨ (∃ e, parse text = .error (Failure.thrown e)) := by
  obtain ⟨n1, n2⟩ := new_completes text
  unfold parse
  cases hnew : DotParser.new text with
  | error x =>
    cases x with
    | thrown e => exact Or.inr ⟨e, rfl⟩
    | out_of_fuel => exact absurd hnew n1
  | ok p =>
    obtain ⟨hp, hr⟩ := n2 p hnew
    have hg := parse_graph_completes (2 * text.length + 4) p hp (by omega)
    cases hgr : p.parse_graph (2 * text.length + 4) with
    | error x =>
      cases x with
      | thrown e => exact Or.inr ⟨e, by simp [bind, Except.bind, hgr]⟩
      | out_of_fuel => exact absurd hgr hg.1
    | ok r =>
      obtain ⟨graph, q⟩ := r
      exact Or.inl ⟨graph, by simp [bind, Except.bind, hgr, pure, Except.pure]⟩


/-! ### The loops of the lexer stop by their own condition -/


theorem not_has_more_of_length (s : DotLexer) (h : s.rest.length ≤ 0) : s.has_more = false := by
  unfold DotLexer.has_more
  have : s.rest = [] := List.length_eq_zero.mp (by omega)
  rw [this]; rfl

/-- With as much fuel as there are unread characters, the loop of `read_identifier` gives
what it gives with more. -/
theorem read_identifier_loop_stable (fuel : Nat) :
    ∀ (s : DotLexer) (value : List Char), s.rest.length ≤ fuel →
      read_identifier_loop (fuel + 1) s value = read_identifier_loop fuel s value := by
  induction fuel with
  | zero =>
    intro s value h
    unfold read_identifier_loop
    simp [not_has_more_of_length s h]
  | succ n ih =>
    intro s value h
    rw [read_identifier_loop]
    conv_rhs => rw [read_identifier_loop]
    split
    · exact ih _ _ (by rw [advance_length]; omega)
    · rfl

/-- The same for the digit loops of `read_number`. -/
theorem read_digits_loop_stable (fuel : Nat) :
    ∀ (s : DotLexer) (value : List Char), s.rest.length ≤ fuel →
      read_digits_loop (fuel + 1) s value = read_digits_loop fuel s value := by
  induction fuel with
  | zero =>
    intro s value h
    unfold read_digits_loop
    simp [not_has_more_of_length s h]
  | succ n ih =>
    intro s value h
    rw [read_digits_loop]
    conv_rhs => rw [read_digits_loop]
    split
    · exact ih _ _ (by rw [advance_length]; omega)
    · rfl

/-- The same for the loop of `read_string`. -/
theorem read_string_loop_stable (fuel : Nat) :
    ∀ (s : DotLexer) (value : List Char), s.rest.length ≤ fuel →
      read_string_loop (fuel + 1) s value = read_string_loop fuel s value := by
  induction fuel with
  | zero =>
    intro s value h
    unfold read_string_loop
    simp [not_has_more_of_length s h]
  | succ n ih =>
    intro s value h
    rw [read_string_loop]
    conv_rhs => rw [read_string_loop]
    split
    · split
      · exact ih _ _ (by rw [advance_length, advance_length]; omega)
      · exact ih _ _ (by rw [advance_length]; omega)
    · rfl

/-- The same for the loop of `read_html_string`, which runs its body once at least. -/
theorem read_html_string_loop_stable (fuel : Nat) :
    ∀ (s : DotLexer) (value : List Char) (depth : Int), s.rest.length ≤ fuel + 1 →
      read_html_string_loop (fuel + 2) s value depth =
        read_html_string_loop (fuel + 1) s value depth := by
  induction fuel with
  | zero =>
    intro s value depth h
    rw [read_html_string_loop]
    conv_rhs => rw [read_html_string_loop]
    have : s.advance.has_more = false :=
      not_has_more_of_length _ (by rw [advance_length]; omega)
    simp [this]
  | succ n ih =>
    intro s value depth h
    rw [read_html_string_loop]
    conv_rhs => rw [read_html_string_loop]
    generalize (if (s.current_char == '<') = true then depth + 1
      else if (s.current_char == '>') = true then depth - 1 else depth) = depth1
    by_cases hc : (s.advance.has_more && decide (0 < depth1)) = true
    · rw [if_pos hc, if_pos hc]
      exact ih _ _ _ (by rw [advance_length]; omega)
    · rw [if_neg hc, if_neg hc]

/-- The same for the loop of `skip_whitespace`. -/
theorem skip_whitespace_loop_stable (fuel : Nat) :
    ∀ s : DotLexer, s.rest.length ≤ fuel →
      skip_whitespace_loop (fuel + 1) s = skip_whitespace_loop fuel s := by
  induction fuel with
  | zero =>
    intro s h
    unfold skip_whitespace_loop
    simp [not_has_more_of_length s h]
  | succ n ih =>
    intro s h
    rw [skip_whitespace_loop]
    conv_rhs => rw [skip_whitespace_loop]
    split
    · rename_i hc
      have hw : is_whitespace s.current_char = true := by
        simp only [Bool.and_eq_true] at hc
        exact hc.2
      obtain ⟨h1, h2⟩ := whitespace_not_comment s.current_char hw
      simp only [h1, h2, Bool.false_and, Bool.false_eq_true, if_false]
      exact ih _ (by rw [advance_length]; omega)
    · rfl


/-- C37: construction of a `DotParser` followed by `parse()` runs to completion on every
text: it returns a graph or fails with a `ParseError`, and the fuel of the embedding is
never used up. The reasons are those of the claim. A call of `next_token` on a lexer
without a peeked token, and the parser never peeks, returns the end marker or takes at
least one character, and leaves no peeked token. Each of the three loops is its body
followed by the loop, and the body - an item of an attribute list, a statement of a
subgraph body, a statement of a graph body - throws or leaves the parser with less to take
than it had, by one token at least; so the loops end within the fuel they are given. And
the loops of the lexer stop by their own condition: with as much fuel as there are unread
characters they give what they give with more. -/
theorem parse_runs_to_completion (text : List Char) :
    ((∃ graph, parse text = .ok graph) ∨ (∃ e, parse text = .error (Failure.thrown e))) ∧
      (∀ (s : DotLexer) (t : Token) (s1 : DotLexer), s.has_peeked = false →
        s.next_token = .ok (t, s1) →
        s1.has_peeked = false ∧
          (t.type = TokenType.EOF_TOKEN ∨ s1.rest.length < s.rest.length)) ∧
      (∀ (fuel : Nat) (p : DotParser) (attributes : AttributeList),
        parse_attributes_loop (fuel + 1) p attributes =
          if p.current_token_.type != TokenType.RSQUARE
              && p.current_token_.type != TokenType.EOF_TOKEN then
            attribute_item p attributes >>= fun r => parse_attributes_loop fuel r.2 r.1
          else pure (attributes, p)) ∧
      (∀ (p : DotParser) (attributes : AttributeList), p.lexer_.has_peeked = false →
        Completes Prod.snd p 1 (attribute_item p attributes)) ∧
      (∀ (fuel : Nat) (p : DotParser) (sg : Subgraph),
        parse_subgraph_body (fuel + 1) p sg =
          if p.current_token_.type != TokenType.RCURLY
              && p.current_token_.type != TokenType.EOF_TOKEN then
            subgraph_statement fuel p sg >>= fun r => parse_subgraph_body fuel r.2 r.1
          else pure (sg, p)) ∧
      (∀ (fuel : Nat) (p : DotParser) (sg : Subgraph), p.lexer_.has_peeked = false →
        2 * p.remaining ≤ fuel → p.current_token_.type ≠ TokenType.EOF_TOKEN →
        Completes Prod.snd p 1 (subgraph_statement fuel p sg)) ∧
      (∀ (fuel : Nat) (p : DotParser) (graph : Graph),
        parse_graph_body (fuel + 1) p graph =
          if p.current_token_.type != TokenType.RCURLY
              && p.current_token_.type != TokenType.EOF_TOKEN then
            graph_statement fuel p graph >>= fun r => parse_graph_body fuel r.2 r.1
          else pure (graph, p)) ∧
      (∀ (fuel : Nat) (p : DotParser) (graph : Graph), p.lexer_.has_peeked = false →
        2 * p.remaining ≤ fuel → p.current_token_.type ≠ TokenType.EOF_TOKEN →
        Completes Prod.snd p 1 (graph_statement fuel p graph)) ∧
      (∀ (fuel : Nat) (p : DotParser) (attributes : AttributeList),
        p.lexer_.has_peeked = false → p.remaining < fuel →
        Completes Prod.snd p 0 (parse_attributes_loop fuel p attributes)) ∧
      (∀ (fuel : Nat) (p : DotParser) (sg : Subgraph), p.lexer_.has_peeked = false →
        2 * p.remaining < fuel → Completes Prod.snd p 0 (parse_subgraph_body fuel p sg)) ∧
      (∀ (fuel : Nat) (p : DotParser) (graph : Graph), p.lexer_.has_peeked = false →
        2 * p.remaining < fuel → Completes Prod.snd p 0 (parse_graph_body fuel p graph)) ∧
      (∀ (fuel : Nat) (s : DotLexer), s.rest.length ≤ fuel →
        skip_whitespace_loop (fuel + 1) s = skip_whitespace_loop fuel s) ∧
      (∀ (fuel : Nat) (s : DotLexer) (value : List Char), s.rest.length ≤ fuel →
        read_string_loop (fuel + 1) s value = read_string_loop fuel s value ∧
          read_identifier_loop (fuel + 1) s value = read_identifier_loop fuel s value ∧
          read_digits_loop (fuel + 1) s value = read_digits_loop fuel s value) ∧
      (∀ (fuel : Nat) (s : DotLexer) (value : List Char) (depth : Int),
        s.rest.length ≤ fuel + 1 →
        read_html_string_loop (fuel + 2) s value depth =
          read_html_string_loop (fuel + 1) s value depth) :=
  ⟨parse_completes text,
    fun s t s1 hs h =>
      ⟨(next_token_progress s hs t s1 h).1, (next_token_progress s hs t s1 h).2.2⟩,
    parse_attributes_loop_step,
    fun p attributes hp => attribute_item_completes p attributes hp,
    parse_subgraph_body_step,
    fun fuel p sg hp hf hne =>
      subgraph_statement_completes fuel (parse_subgraph_completes fuel).1 p sg hp hf hne,
    parse_graph_body_step,
    fun fuel p graph hp hf hne => graph_statement_completes fuel p graph hp hf hne,
    fun fuel p attributes hp hf => parse_attributes_loop_completes fuel p attributes hp hf,
    fun fuel p sg hp hf => (parse_subgraph_completes fuel).2 p sg hp hf,
    fun fuel p graph hp hf => parse_graph_body_completes fuel p graph hp hf,
    fun fuel s h => skip_whitespace_loop_stable fuel s h,
    fun fuel s value h => ⟨read_string_loop_stable fuel s value h,
      read_identifier_loop_stable fuel s value h, read_digits_loop_stable fuel s value h⟩,
    fun fuel s value depth h => read_html_string_loop_stable fuel s value depth h⟩

end Dot
end XDotCpp

namespace XDotCpp
namespace XDot

/-- Lower-casing never produces or removes a leading `#`. -/
theorem toLower_eq_hash (c : Char) : (c.toLower == '#') = (c == '#') := by
  unfold Char.toLower
  by_cases h : c.toNat ≥ 65 ∧ c.toNat ≤ 90
  · simp only [h, and_self, if_true]
    obtain ⟨h1, h2⟩ := h
    have hc : c ≠ '#' := by
      intro hc; rw [hc] at h1; revert h1; decide
    have : Char.ofNat (c.toNat + 32) ≠ '#' := by
      generalize c.toNat = n at h1 h2
      interval_cases n <;> decide
    simp [this, hc]
  · simp [h]

theorem extract_hex_pair : ∀ a ∈ hex_digit_chars,
    extract_hex [a.toLower, a.toLower] = 16 * hex_value a + hex_value a := by
  decide

theorem extract_hex_pair' : ∀ a ∈ hex_digit_chars, ∀ b ∈ hex_digit_chars,
    extract_hex [a.toLower, b.toLower] = 16 * hex_value a + hex_value b := by
  decide

end XDot
end XDotCpp

namespace XDotCpp
namespace XDot

theorem from_hex_six (a1 a2 b1 b2 c1 c2 : Char) :
    Color.from_hex ['#', a1, a2, b1, b2, c1, c2] =
      ⟨(extract_hex [a1, a2] : ℚ) / 255, (extract_hex [b1, b2] : ℚ) / 255,
        (extract_hex [c1, c2] : ℚ) / 255, 1⟩ := by
  simp [Color.from_hex, Color.rgb]

theorem from_hex_three (a b c : Char) :
    Color.from_hex ['#', a, b, c] = Color.from_hex ['#', a, a, b, b, c, c] := by
  simp [Color.from_hex, Color.rgb]

/-- C7: for all hexadecimal digits `a`, `b`, `c` the short form `#abc` and the
long form `#aabbcc` resolve to the same colour, the opaque colour
`(0xaa/255, 0xbb/255, 0xcc/255, 1)`; `#ff0000` and `#f00` both resolve to
`(1, 0, 0, 1)`. -/
theorem lookup_color_hex_short_long (a b c : Char) (ha : a ∈ hex_digit_chars)
    (hb : b ∈ hex_digit_chars) (hc : c ∈ hex_digit_chars) :
    lookup_color ['#', a, b, c] = lookup_color ['#', a, a, b, b, c, c] ∧
    lookup_color ['#', a, a, b, b, c, c] =
      ⟨((16 * hex_value a + hex_value a : Nat) : ℚ) / 255,
       ((16 * hex_value b + hex_value b : Nat) : ℚ) / 255,
       ((16 * hex_value c + hex_value c : Nat) : ℚ) / 255, 1⟩ ∧
    lookup_color "#ff0000".toList = ⟨1, 0, 0, 1⟩ ∧
    lookup_color "#f00".toList = ⟨1, 0, 0, 1⟩ := by
  have hash : ('#' : Char).toLower = '#' := by decide
  have long : lookup_color ['#', a, a, b, b, c, c] =
      ⟨((16 * hex_value a + hex_value a : Nat) : ℚ) / 255,
       ((16 * hex_value b + hex_value b : Nat) : ℚ) / 255,
       ((16 * hex_value c + hex_value c : Nat) : ℚ) / 255, 1⟩ := by
    unfold lookup_color
    simp only [List.map_cons, List.map_nil, hash, List.headD_cons, beq_self_eq_true, if_true]
    rw [from_hex_six, extract_hex_pair a ha, extract_hex_pair b hb, extract_hex_pair c hc]
  refine ⟨?_, long, ?_, ?_⟩
  · rw [long]
    unfold lookup_color
    simp only [List.map_cons, List.map_nil, hash, List.headD_cons, beq_self_eq_true, if_true]
    rw [from_hex_three, from_hex_six, extract_hex_pair a ha, extract_hex_pair b hb,
      extract_hex_pair c hc]
  · with_unfolding_all decide
  · with_unfolding_all decide

/-- The theorem `lookup_color_hex_short_long` at the digits `3`, `c`, `F`. -/
theorem lookup_color_hex_short_long_witness :
    lookup_color "#3cF".toList = lookup_color "#33ccFF".toList ∧
    lookup_color "#33ccFF".toList = ⟨51 / 255, 204 / 255, 255 / 255, 1⟩ := by
  have h := lookup_color_hex_short_long '3' 'c' 'F' (by decide) (by decide) (by decide)
  refine ⟨h.1, ?_⟩
  rw [show "#33ccFF".toList = ['#', '3', '3', 'c', 'c', 'F', 'F'] from rfl, h.2.1]
  simp [hex_value]

/-- C8: `lookup_color` degrades to opaque black: on every string, the empty one
included, that does not start with `#` and whose lower-cased form is no key of
the table of names, and on every `#` followed by a number of characters that
is neither 3 nor 6. -/
theorem lookup_color_fallback_black :
    (∀ s : List Char, s.head? ≠ some '#' →
      s.map Char.toLower ∉ color_map.map Prod.fst → lookup_color s = ⟨0, 0, 0, 1⟩) ∧
    (∀ t : List Char, t.length ≠ 3 → t.length ≠ 6 →
      lookup_color ('#' :: t) = ⟨0, 0, 0, 1⟩) := by
  constructor
  · intro s hs hkey
    have hhead : ((s.map Char.toLower).headD '\x00' == '#') = false := by
      cases s with
      | nil => decide
      | cons c cs =>
        simp only [List.map_cons, List.headD_cons]
        rw [toLower_eq_hash]
        simpa using hs
    have hfind : color_map_find (s.map Char.toLower) = none := by
      unfold color_map_find
      rw [Option.map_eq_none', List.find?_eq_none]
      intro kv hkv hk
      apply hkey
      rw [List.mem_map]
      exact ⟨kv, hkv, by simpa using hk⟩
    unfold lookup_color
    simp only [hhead, hfind]
    simp [Color.black, Color.rgb]
  · intro t h3 h6
    have hash : ('#' : Char).toLower = '#' := by decide
    unfold lookup_color
    simp only [List.map_cons, hash, List.headD_cons, beq_self_eq_true, if_true]
    unfold Color.from_hex
    simp [h3, h6, Color.black, Color.rgb]

/-- The theorem `lookup_color_fallback_black` at `notacolor`, at the empty string
and at `#ff00`. -/
theorem lookup_color_fallback_black_witness :
    lookup_color "notacolor".toList = ⟨0, 0, 0, 1⟩ ∧ lookup_color [] = ⟨0, 0, 0, 1⟩ ∧
    lookup_color "#ff00".toList = ⟨0, 0, 0, 1⟩ :=
  ⟨lookup_color_fallback_black.1 "notacolor".toList (by decide) (by decide),
   lookup_color_fallback_black.1 [] (by decide) (by decide),
   lookup_color_fallback_black.2 "ff00".toList (by decide) (by decide)⟩

end XDot
end XDotCpp

/-! ## The range of the colours -/

namespace XDotCpp
namespace XDot

theorem extract_hex_minus_one : extract_hex ['-', '1'] = 4294967295 := by
  decide

/-- The value of a hexadecimal digit is below 16. -/
theorem hex_digit_value_le (c : Char) (d : Nat) (h : hex_digit_value c = some d) : d ≤ 15 := by
  unfold hex_digit_value at h
  split_ifs at h with h1 h2 h3
  · obtain ⟨-, h1⟩ := h1
    have h1' : c.toNat ≤ '9'.toNat := h1
    have e : '9'.toNat = 57 := rfl
    have e0 : '0'.toNat = 48 := rfl
    simp only [Option.some.injEq] at h
    omega
  · obtain ⟨-, h2⟩ := h2
    have h2' : c.toNat ≤ 'f'.toNat := h2
    have e : 'f'.toNat = 102 := rfl
    have e0 : 'a'.toNat = 97 := rfl
    simp only [Option.some.injEq] at h
    omega
  · obtain ⟨-, h3⟩ := h3
    have h3' : c.toNat ≤ 'F'.toNat := h3
    have e : 'F'.toNat = 70 := rfl
    have e0 : 'A'.toNat = 65 := rfl
    simp only [Option.some.injEq] at h
    omega

/-- The digits of a text of length `n` add less than `16 ^ n` times the next value. -/
theorem hex_digits_value_lt : ∀ (l : List Char) (acc : Nat) (found : Bool),
    (hex_digits_value l acc found).1 < 16 ^ l.length * (acc + 1) := by
  intro l
  induction l with
  | nil => intro acc found; simp [hex_digits_value]
  | cons c cs ih =>
    intro acc found
    unfold hex_digits_value
    cases hd : hex_digit_value c with
    | none =>
      simp only [List.length_cons]
      have : 1 ≤ 16 ^ (cs.length + 1) := Nat.one_le_two_pow.trans (by
        exact Nat.pow_le_pow_left (by norm_num) _)
      nlinarith
    | some d =>
      simp only [List.length_cons]
      have hd15 := hex_digit_value_le c d hd
      have := ih (16 * acc + d) true
      have e : 16 ^ (cs.length + 1) * (acc + 1) = 16 ^ cs.length * (16 * acc + 16) := by ring
      rw [e]
      refine lt_of_lt_of_le this ?_
      exact Nat.mul_le_mul_left _ (by omega)

/-- The extraction from two characters, none of them a minus sign or white space, stores
at most 255. -/
theorem extract_hex_pair_le (a b : Char) (ha : a ≠ '-') (hwa : Dot.is_whitespace a = false) :
    extract_hex [a, b] ≤ 255 := by
  unfold extract_hex
  have hdrop : List.dropWhile Dot.is_whitespace [a, b] = [a, b] := by
    simp [List.dropWhile, hwa]
  rw [hdrop]
  simp only [List.isEmpty_cons, Bool.false_eq_true, if_false]
  have key : ∀ t2 : List Char, t2.length ≤ 2 →
      (if 2 ^ 32 ≤ (hex_digits_value t2 0 false).1 then 2 ^ 32 - 1
        else if false = true then (2 ^ 32 - (hex_digits_value t2 0 false).1) % 2 ^ 32
        else (hex_digits_value t2 0 false).1) ≤ 255 := by
    intro t2 ht
    have h1 := hex_digits_value_lt t2 0 false
    have h2 : 16 ^ t2.length ≤ 16 ^ 2 := Nat.pow_le_pow_right (by norm_num) ht
    have h3 : (hex_digits_value t2 0 false).1 < 256 := by
      have : 16 ^ t2.length * (0 + 1) ≤ 256 := by simpa using h2
      omega
    rw [if_neg (by omega)]
    simp only [Bool.false_eq_true, if_false]
    omega
  by_cases hp : a = '+'
  · subst hp
    by_cases hx : b = '0'
    · subst hx; exact key _ (by simp)
    · exact key _ (by simp)
  · by_cases h0 : a = '0'
    · subst h0
      by_cases hx : b = 'x'
      · subst hx; exact key [] (by simp)
      · by_cases hX : b = 'X'
        · subst hX; exact key [] (by simp)
        · have := key ['0', b] (by simp)
          simpa [hx, hX] using this
    · have := key [a, b] (by simp)
      simpa [ha, hp, h0] using this

/-- A colour whose components are extracted from pairs of plain characters is in range. -/
theorem rgb_of_pairs_in_range (l : List Char) (h6 : l.length = 6) (hp : plain_chars l) :
    (Color.rgb ((extract_hex (l.take 2) : ℚ) / 255) ((extract_hex ((l.drop 2).take 2) : ℚ) / 255)
      ((extract_hex ((l.drop 4).take 2) : ℚ) / 255)).in_range := by
  match l, h6, hp with
  | [a, b, c, d, e, f], _, hp =>
    have ha := hp a (by simp)
    have hc := hp c (by simp)
    have he := hp e (by simp)
    have h1 := extract_hex_pair_le a b ha.1 ha.2
    have h2 := extract_hex_pair_le c d hc.1 hc.2
    have h3 := extract_hex_pair_le e f he.1 he.2
    have q : ∀ n : Nat, n ≤ 255 → (0 : ℚ) ≤ (n : ℚ) / 255 ∧ (n : ℚ) / 255 ≤ 1 := by
      intro n hn
      have : (n : ℚ) ≤ 255 := by exact_mod_cast hn
      constructor
      · positivity
      · rw [div_le_one (by norm_num)]; exact this
    simp only [List.take, List.drop, Color.in_range, Color.rgb]
    exact ⟨(q _ h1).1, (q _ h1).2, (q _ h2).1, (q _ h2).2, (q _ h3).1, (q _ h3).2, by norm_num,
      by norm_num⟩

/-- Black is in range. -/
theorem black_in_range : Color.black.in_range := by
  simp [Color.in_range, Color.black, Color.rgb]

/-- The colour of a string of plain characters is in range. -/
theorem from_hex_in_range (hex : List Char) (hp : plain_chars hex) :
    (Color.from_hex hex).in_range := by
  have hsub : ∀ l : List Char, plain_chars l → (if l.length == 3 then
        List.replicate 2 (l.getD 0 '\x00') ++ List.replicate 2 (l.getD 1 '\x00')
          ++ List.replicate 2 (l.getD 2 '\x00')
      else l).length = 6 →
      plain_chars (if l.length == 3 then
        List.replicate 2 (l.getD 0 '\x00') ++ List.replicate 2 (l.getD 1 '\x00')
          ++ List.replicate 2 (l.getD 2 '\x00')
      else l) := by
    intro l hl _
    by_cases h3 : l.length = 3
    · match l, h3, hl with
      | [a, b, c], _, hl =>
        intro x hx
        simp only [List.length_cons, List.length_nil, beq_self_eq_true, if_true,
          List.getD_cons_zero, List.getD_cons_succ, List.replicate, List.cons_append,
          List.nil_append, List.mem_cons, List.mem_singleton, List.not_mem_nil, or_false]
          at hx
        rcases hx with rfl | rfl | rfl | rfl | rfl | rfl
        · exact hl _ (by simp)
        · exact hl _ (by simp)
        · exact hl _ (by simp)
        · exact hl _ (by simp)
        · exact hl _ (by simp)
        · exact hl _ (by simp)
    · have : (l.length == 3) = false := by simpa using h3
      rw [this]
      exact hl
  have hstrip : plain_chars (if hex.headD '\x00' == '#' then hex.drop 1 else hex) := by
    split_ifs
    · exact fun c hc => hp c (List.mem_of_mem_drop hc)
    · exact hp
  unfold Color.from_hex
  simp only
  by_cases h6 : (if (if hex.headD '\x00' == '#' then hex.drop 1 else hex).length == 3 then
        List.replicate 2 ((if hex.headD '\x00' == '#' then hex.drop 1 else hex).getD 0 '\x00') ++
          List.replicate 2 ((if hex.headD '\x00' == '#' then hex.drop 1 else hex).getD 1 '\x00')
          ++ List.replicate 2 ((if hex.headD '\x00' == '#' then hex.drop 1 else hex).getD 2 '\x00')
      else (if hex.headD '\x00' == '#' then hex.drop 1 else hex)).length = 6
  · have hne : ((if (if hex.headD '\x00' == '#' then hex.drop 1 else hex).length == 3 then
        List.replicate 2 ((if hex.headD '\x00' == '#' then hex.drop 1 else hex).getD 0 '\x00') ++
          List.replicate 2 ((if hex.headD '\x00' == '#' then hex.drop 1 else hex).getD 1 '\x00')
          ++ List.replicate 2 ((if hex.headD '\x00' == '#' then hex.drop 1 else hex).getD 2 '\x00')
      else (if hex.headD '\x00' == '#' then hex.drop 1 else hex)).length != 6) = false := by
      simpa using h6
    rw [if_neg (by rw [hne]; simp)]
    exact rgb_of_pairs_in_range _ h6 (hsub _ hstrip h6)
  · have hne : ((if (if hex.headD '\x00' == '#' then hex.drop 1 else hex).length == 3 then
        List.replicate 2 ((if hex.headD '\x00' == '#' then hex.drop 1 else hex).getD 0 '\x00') ++
          List.replicate 2 ((if hex.headD '\x00' == '#' then hex.drop 1 else hex).getD 1 '\x00')
          ++ List.replicate 2 ((if hex.headD '\x00' == '#' then hex.drop 1 else hex).getD 2 '\x00')
      else (if hex.headD '\x00' == '#' then hex.drop 1 else hex)).length != 6) = true := by
      simpa using h6
    rw [if_pos hne]
    exact black_in_range

/-- Lower-casing leaves a character as it is or gives a small letter. -/
theorem toLower_cases (c : Char) :
    c.toLower = c ∨ (97 ≤ c.toLower.toNat ∧ c.toLower.toNat ≤ 122) := by
  unfold Char.toLower
  by_cases h : c.toNat ≥ 65 ∧ c.toNat ≤ 90
  · right
    simp only [h, and_self, if_true]
    obtain ⟨h1, h2⟩ := h
    generalize c.toNat = n at h1 h2
    interval_cases n <;> decide
  · left
    simp [h]

/-- Lower-casing makes no minus sign and no white space. -/
theorem plain_chars_toLower (s : List Char) (hp : plain_chars s) :
    plain_chars (s.map Char.toLower) := by
  intro d hd
  obtain ⟨c, hc, rfl⟩ := List.mem_map.mp hd
  rcases toLower_cases c with e | ⟨h1, h2⟩
  · rw [e]; exact hp c hc
  · constructor
    · intro e
      rw [e] at h1
      revert h1
      decide
    · unfold Dot.is_whitespace
      have hne : ∀ d : Char, d.toNat < 97 → c.toLower ≠ d := by
        intro d hd e
        rw [e] at h1
        omega
      simp [hne ' ' (by decide), hne '\t' (by decide), hne '\n' (by decide),
        hne '\x0b' (by decide), hne '\x0c' (by decide), hne '\r' (by decide)]

/-- Every colour of the table of names is in range. -/
theorem color_map_in_range : ∀ kv ∈ color_map, kv.2.in_range := by
  intro kv hkv
  simp only [color_map, List.mem_cons, List.mem_singleton, List.not_mem_nil, or_false] at hkv
  rcases hkv with rfl | rfl | rfl | rfl | rfl | rfl | rfl | rfl | rfl | rfl | rfl | rfl | rfl |
    rfl | rfl | rfl | rfl | rfl | rfl | rfl | rfl | rfl | rfl <;>
    (simp only [Color.in_range, Color.rgb]; norm_num)

/-- The colour that `lookup_color` resolves a string to is in range, unless the string
starts with `#` and has a minus sign or white space. -/
theorem lookup_color_in_range (s : List Char) (hs : s.head? ≠ some '#' ∨ plain_chars s) :
    (lookup_color s).in_range := by
  unfold lookup_color
  simp only
  by_cases hh : ((s.map Char.toLower).headD '\x00' == '#') = true
  · rw [if_pos hh]
    have hp : plain_chars s := by
      rcases hs with hs | hs
      · exfalso
        apply hs
        cases s with
        | nil => revert hh; decide
        | cons c cs =>
          simp only [List.map_cons, List.headD_cons] at hh
          rw [toLower_eq_hash] at hh
          simpa using hh
      · exact hs
    exact from_hex_in_range _ (plain_chars_toLower s hp)
  · rw [if_neg hh]
    cases hf : color_map_find (s.map Char.toLower) with
    | none =>
      simp only
      split_ifs <;> exact black_in_range
    | some c =>
      simp only
      unfold color_map_find at hf
      obtain ⟨kv, hkv, rfl⟩ := Option.map_eq_some'.mp hf
      exact color_map_in_range kv (List.mem_of_find?_eq_some hkv)

/-- The remainder of a number that is not negative, by 2, is in `[0, 2)`. -/
theorem fmod_two_range (x : ℚ) (hx : 0 ≤ x) : 0 ≤ fmod x 2 ∧ fmod x 2 < 2 := by
  unfold fmod
  simp only
  have hq : (0 : ℚ) ≤ x / 2 := by positivity
  rw [if_pos hq]
  have e : Rat.floor (x / 2) = ⌊x / 2⌋ := rfl
  have h1 : ((Rat.floor (x / 2) : Int) : ℚ) ≤ x / 2 := by
    rw [e]; exact Int.floor_le (x / 2)
  have h2 : x / 2 < ((Rat.floor (x / 2) : Int) : ℚ) + 1 := by
    rw [e]; exact Int.lt_floor_add_one (x / 2)
  constructor <;> linarith

/-- The colour of a hue that is not negative, with saturation and value in `[0, 1]`. -/
theorem from_hsv_in_range (h s v : ℚ) (hh : 0 ≤ h) (hs0 : 0 ≤ s) (hs1 : s ≤ 1) (hv0 : 0 ≤ v)
    (hv1 : v ≤ 1) : (Color.from_hsv h s v).in_range ∧ (Color.from_hsv h s v).a = 1 := by
  obtain ⟨f0, f2⟩ := fmod_two_range (h / 60) (by positivity)
  have habs : |fmod (h / 60) 2 - 1| ≤ 1 := by
    rw [abs_le]; constructor <;> linarith
  have habs0 : 0 ≤ |fmod (h / 60) 2 - 1| := abs_nonneg _
  have hc0 : 0 ≤ v * s := mul_nonneg hv0 hs0
  have hc1 : v * s ≤ v := by nlinarith
  have hx0 : 0 ≤ v * s * (1 - |fmod (h / 60) 2 - 1|) := mul_nonneg hc0 (by linarith)
  have hx1 : v * s * (1 - |fmod (h / 60) 2 - 1|) ≤ v * s := by nlinarith
  unfold Color.from_hsv
  simp only [Color.in_range, Color.rgb]
  refine ⟨?_, trivial⟩
  split_ifs <;> simp only <;> refine ⟨?_, ?_, ?_, ?_, ?_, ?_, ?_, ?_⟩ <;> linarith

/-- C34, as amended: for every string without a minus sign and without white space
`Color::from_hex` returns a colour whose four components are in `[0, 1]`; so does
`ColorLookup::lookup_color` for every such string and for every string that does not start
with `#`; and for every finite hue `h` that is not negative and all `s`, `v` in `[0, 1]`,
`Color::from_hsv(h, s, v)` returns components in `[0, 1]` with `a = 1`, none of them a
NaN. -/
theorem colors_in_range :
    (∀ s : List Char, plain_chars s → (Color.from_hex s).in_range) ∧
      (∀ s : List Char, s.head? ≠ some '#' ∨ plain_chars s → (lookup_color s).in_range) ∧
      (∀ h s v : ℚ, 0 ≤ h → 0 ≤ s → s ≤ 1 → 0 ≤ v → v ≤ 1 →
        (Color.from_hsv h s v).in_range ∧ (Color.from_hsv h s v).a = 1 ∧
        Color.from_hsv_components (Hue.finite h) s v =
          (some (Color.from_hsv h s v).r, some (Color.from_hsv h s v).g,
            some (Color.from_hsv h s v).b, some (Color.from_hsv h s v).a)) :=
  ⟨from_hex_in_range, lookup_color_in_range,
    fun h s v h0 s0 s1 v0 v1 =>
      ⟨(from_hsv_in_range h s v h0 s0 s1 v0 v1).1, (from_hsv_in_range h s v h0 s0 s1 v0 v1).2,
        rfl⟩⟩

/-- The theorem `colors_in_range` at `#ff8000`, at the name `Red`, at `#bad` and at the
hue 200 with saturation and value one half. -/
theorem colors_in_range_witness :
    plain_chars "#ff8000".toList ∧ (Color.from_hex "#ff8000".toList).in_range ∧
      "Red".toList.head? ≠ some '#' ∧ (lookup_color "Red".toList).in_range ∧
      plain_chars "#bad".toList ∧ (lookup_color "#bad".toList).in_range ∧
      (Color.from_hsv 200 (1 / 2) (1 / 2)).in_range ∧ (Color.from_hsv 200 (1 / 2) (1 / 2)).a = 1 :=
  ⟨by unfold plain_chars; decide,
    colors_in_range.1 "#ff8000".toList (by unfold plain_chars; decide),
    by decide,
    colors_in_range.2.1 "Red".toList (Or.inl (by decide)),
    by unfold plain_chars; decide,
    colors_in_range.2.1 "#bad".toList (Or.inr (by unfold plain_chars; decide)),
    (colors_in_range.2.2 200 (1 / 2) (1 / 2) (by norm_num) (by norm_num) (by norm_num)
      (by norm_num) (by norm_num)).1,
    (colors_in_range.2.2 200 (1 / 2) (1 / 2) (by norm_num) (by norm_num) (by norm_num)
      (by norm_num) (by norm_num)).2.1⟩

/-- C34 as stated fails: `Color::from_hex` and `lookup_color` resolve `#-1-1-1` to a colour
whose red, green and blue are 16843009, since each pair `-1` is extracted as the unsigned
`2^32 - 1`; `Color::from_hsv(-90, 1, 1)` has the blue `-3/2`, since `std::fmod` keeps the
sign of the hue; `Color::from_hsv(+inf, 1, 1)` has a NaN for its blue, although `+inf >= 0`;
and for `#` followed by six blanks the components are those of an `unsigned int` that
`from_hex` never stored to. -/
theorem colors_out_of_range :
    Color.from_hex "#-1-1-1".toList = ⟨16843009, 16843009, 16843009, 1⟩ ∧
      lookup_color "#-1-1-1".toList = ⟨16843009, 16843009, 16843009, 1⟩ ∧
      ¬ (Color.from_hex "#-1-1-1".toList).in_range ∧
      ¬ (lookup_color "#-1-1-1".toList).in_range ∧
      Color.from_hsv (-90) 1 1 = ⟨1, 0, -3 / 2, 1⟩ ∧
      ¬ (Color.from_hsv (-90) 1 1).in_range ∧
      Color.from_hsv_components (Hue.infinity false) 1 1 = (some 1, some 0, none, some 1) ∧
      Color.from_hex "#      ".toList = Color.rgb ((indeterminate_unsigned : ℚ) / 255)
        ((indeterminate_unsigned : ℚ) / 255) ((indeterminate_unsigned : ℚ) / 255) := by
  have h1 : Color.from_hex "#-1-1-1".toList = ⟨16843009, 16843009, 16843009, 1⟩ := by
    rw [show "#-1-1-1".toList = ['#', '-', '1', '-', '1', '-', '1'] from rfl, from_hex_six,
      extract_hex_minus_one]
    norm_num
  have h2 : lookup_color "#-1-1-1".toList = ⟨16843009, 16843009, 16843009, 1⟩ := by
    rw [← h1]
    rfl
  have h3 : Color.from_hsv (-90) 1 1 = ⟨1, 0, -3 / 2, 1⟩ := by
    with_unfolding_all decide
  refine ⟨h1, h2, ?_, ?_, h3, ?_, by with_unfolding_all decide, ?_⟩
  · rw [h1]
    simp only [Color.in_range]
    norm_num
  · rw [h2]
    simp only [Color.in_range]
    norm_num
  · rw [h3]
    simp only [Color.in_range]
    norm_num
  · with_unfolding_all decide

end XDot
end XDotCpp

/-! ## The doubles: rounding to the nearest one -/

namespace XDotCpp
namespace XDot

/-- An integer is its own rounding. -/
theorem round_half_even_intCast (m : Int) : round_half_even (m : ℚ) = m := by
  unfold round_half_even
  simp

/-- Rounding at a scale at which the value is an integer returns the value. -/
theorem round_scaled_exact (q : ℚ) (p : Int) (m : Int) (h : q / 2 ^ p = m) :
    (round_half_even (q / 2 ^ p) : ℚ) * 2 ^ p = q := by
  rw [h, round_half_even_intCast, ← h]
  have : (2 : ℚ) ^ p ≠ 0 := zpow_ne_zero _ (by norm_num)
  field_simp

theorem binary_exponent_natCast (n : Nat) (hn : n ≠ 0) :
    binary_exponent (n : ℚ) = (Nat.log 2 n : Int) := by
  unfold binary_exponent
  simp only [Rat.num_natCast, Int.toNat_ofNat, Rat.den_natCast, Nat.log_one_right,
    Nat.cast_zero, sub_zero]
  rw [if_neg]
  rw [not_lt, zpow_natCast]
  exact_mod_cast Nat.pow_log_le_self 2 hn

/-- Every natural number up to `2^53` is a double. -/
theorem round_to_double_natCast (n : Nat) (h : n ≤ 2 ^ 53) : round_to_double (n : ℚ) = n := by
  by_cases hn : n = 0
  · subst hn; simp [round_to_double]
  have hpos : ¬ ((n : ℚ) ≤ 0) := by
    rw [not_le]; exact_mod_cast Nat.pos_of_ne_zero hn
  unfold round_to_double
  rw [if_neg hpos, binary_exponent_natCast n hn]
  simp only []
  have hL : Nat.log 2 n ≤ 53 := by
    by_contra hc
    have h1 := Nat.pow_log_le_self 2 hn
    have h2 : 2 ^ 54 ≤ 2 ^ Nat.log 2 n := Nat.pow_le_pow_right (by norm_num) (by omega)
    omega
  have hp : max ((Nat.log 2 n : Int) - 52) (-1074) = (Nat.log 2 n : Int) - 52 := by
    apply max_eq_left; omega
  rw [hp]
  by_cases hL52 : Nat.log 2 n ≤ 52
  · obtain ⟨k, hk⟩ : ∃ k : Nat, (Nat.log 2 n : Int) - 52 = -(k : Int) :=
      ⟨52 - Nat.log 2 n, by omega⟩
    rw [hk]
    apply round_scaled_exact _ _ ((n * 2 ^ k : Nat) : Int)
    rw [zpow_neg, zpow_natCast]
    push_cast
    field_simp
  · have hL53 : Nat.log 2 n = 53 := by omega
    have h1 := Nat.pow_log_le_self 2 hn
    rw [hL53] at h1
    have hn53 : n = 2 ^ 53 := by omega
    rw [hL53, hn53]
    apply round_scaled_exact _ _ ((2 ^ 52 : Nat) : Int)
    norm_num

/-- The double nearest to `2^53 + 1` is `2^53`. -/
theorem round_to_double_example :
    round_to_double 9007199254740993 = 9007199254740992 := by
  have hb : binary_exponent (9007199254740993 : ℚ) = 53 := by
    have := binary_exponent_natCast 9007199254740993 (by norm_num)
    rw [Nat.log_eq_of_pow_le_of_lt_pow (m := 53) (by norm_num) (by norm_num)] at this
    exact_mod_cast this
  unfold round_to_double
  rw [if_neg (by norm_num), hb]
  have hf : ⌊(9007199254740993 : ℚ) / 2⌋ = 4503599627370496 := by
    rw [Int.floor_eq_iff]; constructor <;> norm_num
  have hp : max ((53 : Int) - 52) (-1074) = 1 := by norm_num
  simp only [hp, zpow_one]
  unfold round_half_even
  simp only [hf]
  norm_num

/-- The nearest integer is at most one half away. -/
theorem round_half_even_err (x : ℚ) : |(round_half_even x : ℚ) - x| ≤ 1 / 2 := by
  unfold round_half_even
  have h1 := Int.floor_le x
  have h2 := Int.lt_floor_add_one x
  simp only
  split_ifs with a b c
  · rw [abs_le]; constructor <;> linarith
  · push_cast; rw [abs_le]; constructor <;> linarith
  · have : x - ⌊x⌋ = 1 / 2 := le_antisymm (not_lt.1 b) (not_lt.1 a)
    rw [abs_le]; constructor <;> linarith
  · have : x - ⌊x⌋ = 1 / 2 := le_antisymm (not_lt.1 b) (not_lt.1 a)
    push_cast; rw [abs_le]; constructor <;> linarith

theorem round_half_even_nonneg (x : ℚ) (h : 0 ≤ x) : 0 ≤ round_half_even x := by
  unfold round_half_even
  have h1 : 0 ≤ ⌊x⌋ := Int.floor_nonneg.2 h
  simp only
  split_ifs <;> omega

/-- An integer less than one half away is the nearest one. -/
theorem round_half_even_eq (x : ℚ) (m : Int) (h : |x - m| < 1 / 2) : round_half_even x = m := by
  rw [abs_lt] at h
  obtain ⟨h1, h2⟩ := h
  unfold round_half_even
  simp only
  by_cases hm : (m : ℚ) ≤ x
  · have hf : ⌊x⌋ = m := by
      rw [Int.floor_eq_iff]; constructor <;> linarith
    rw [hf, if_pos (by linarith)]
  · have hf : ⌊x⌋ = m - 1 := by
      rw [Int.floor_eq_iff]; push_cast; constructor <;> linarith
    rw [hf, if_neg (by push_cast; linarith), if_pos (by push_cast; linarith)]
    ring

/-- The quotient of two numbers lies within a factor two of the quotient of the powers of
two below them. -/
theorem quotient_log_bounds (n d : Nat) (hn : n ≠ 0) (hd : d ≠ 0) :
    (2 : ℚ) ^ Nat.log 2 n / 2 ^ Nat.log 2 d / 2 ≤ (n : ℚ) / d ∧
    (n : ℚ) / d < (2 : ℚ) ^ Nat.log 2 n / 2 ^ Nat.log 2 d * 2 := by
  have a1 := Nat.pow_log_le_self 2 hn
  have a2 := Nat.lt_pow_succ_log_self (by norm_num : 1 < 2) n
  have b1 := Nat.pow_log_le_self 2 hd
  have b2 := Nat.lt_pow_succ_log_self (by norm_num : 1 < 2) d
  have a1' : (2 : ℚ) ^ Nat.log 2 n ≤ n := by exact_mod_cast a1
  have a2' : (n : ℚ) < 2 ^ Nat.log 2 n * 2 := by
    have : (n : ℚ) < 2 ^ (Nat.log 2 n + 1) := by exact_mod_cast a2
    rwa [pow_succ] at this
  have b1' : (2 : ℚ) ^ Nat.log 2 d ≤ d := by exact_mod_cast b1
  have b2' : (d : ℚ) < 2 ^ Nat.log 2 d * 2 := by
    have : (d : ℚ) < 2 ^ (Nat.log 2 d + 1) := by exact_mod_cast b2
    rwa [pow_succ] at this
  have hdpos : (0 : ℚ) < d := by exact_mod_cast Nat.pos_of_ne_zero hd
  have h2a : (0 : ℚ) < 2 ^ Nat.log 2 n := by positivity
  have h2b : (0 : ℚ) < 2 ^ Nat.log 2 d := by positivity
  constructor
  · rw [div_div, div_le_div_iff₀ (by positivity) hdpos]
    nlinarith
  · rw [div_mul_eq_mul_div, div_lt_div_iff₀ hdpos h2b]
    nlinarith

/-- The exponent that `binary_exponent` returns is the one of the doc comment. -/
theorem binary_exponent_spec (q : ℚ) (hq : 0 < q) :
    (2 : ℚ) ^ binary_exponent q ≤ q ∧ q < 2 ^ (binary_exponent q + 1) := by
  have hn : 0 < q.num := Rat.num_pos.2 hq
  have hd : q.den ≠ 0 := q.den_nz
  obtain ⟨n, hn'⟩ : ∃ n : Nat, q.num = n := ⟨q.num.toNat, (Int.toNat_of_nonneg hn.le).symm⟩
  have hn0 : n ≠ 0 := by
    rintro rfl
    simp [hn'] at hn
  have hq' : (n : ℚ) / q.den = q := by
    have := Rat.num_div_den q
    rw [hn'] at this
    simpa using this
  obtain ⟨lo, hi⟩ := quotient_log_bounds n q.den hn0 hd
  rw [hq'] at lo hi
  have e0 : (2 : ℚ) ^ ((Nat.log 2 n : Int) - (Nat.log 2 q.den : Int)) =
      2 ^ Nat.log 2 n / 2 ^ Nat.log 2 q.den := by
    rw [zpow_sub₀ (by norm_num), zpow_natCast, zpow_natCast]
  unfold binary_exponent
  simp only [hn', Int.toNat_ofNat]
  split_ifs with hlt
  · constructor
    · rw [zpow_sub_one₀ (by norm_num), e0]
      simpa [div_eq_mul_inv] using lo
    · simpa using hlt
  · constructor
    · exact not_lt.1 hlt
    · rw [zpow_add_one₀ (by norm_num), e0]
      exact hi

/-- The exponent is determined by the two powers of two around the number. -/
theorem binary_exponent_eq (q : ℚ) (E : Int) (h1 : (2 : ℚ) ^ E ≤ q) (h2 : q < 2 ^ (E + 1)) :
    binary_exponent q = E := by
  have hq : 0 < q := lt_of_lt_of_le (by positivity) h1
  obtain ⟨s1, s2⟩ := binary_exponent_spec q hq
  have c1 : (2 : ℚ) ^ E < 2 ^ (binary_exponent q + 1) := lt_of_le_of_lt h1 s2
  have c2 : (2 : ℚ) ^ binary_exponent q < 2 ^ (E + 1) := lt_of_le_of_lt s1 h2
  have d1 := (zpow_lt_zpow_iff_right₀ (by norm_num : (1 : ℚ) < 2)).1 c1
  have d2 := (zpow_lt_zpow_iff_right₀ (by norm_num : (1 : ℚ) < 2)).1 c2
  omega

end XDot
end XDotCpp

namespace XDotCpp
namespace XDot

/-- The rounding of a positive number is at most half a unit in the last place away. -/
theorem round_to_double_err (q : ℚ) (hq : 0 < q) :
    |round_to_double q - q| ≤ q / 2 ^ 53 + 1 / 2 ^ 1075 := by
  obtain ⟨s1, -⟩ := binary_exponent_spec q hq
  unfold round_to_double
  rw [if_neg (not_le.2 hq)]
  simp only
  generalize hp : max (binary_exponent q - 52) (-1074) = p
  have h2p : (0 : ℚ) < 2 ^ p := by positivity
  have e : (round_half_even (q / 2 ^ p) : ℚ) * 2 ^ p - q =
      ((round_half_even (q / 2 ^ p) : ℚ) - q / 2 ^ p) * 2 ^ p := by
    field_simp
  rw [e, abs_mul, abs_of_pos h2p]
  have h1 := round_half_even_err (q / 2 ^ p)
  have hle : |(round_half_even (q / 2 ^ p) : ℚ) - q / 2 ^ p| * 2 ^ p ≤ 1 / 2 * 2 ^ p :=
    mul_le_mul_of_nonneg_right h1 h2p.le
  refine le_trans hle ?_
  rcases max_cases (binary_exponent q - 52) (-1074) with ⟨hm, -⟩ | ⟨hm, -⟩
  · rw [hp] at hm
    have : (2 : ℚ) ^ p = 2 ^ binary_exponent q / 2 ^ 52 := by
      rw [hm, zpow_sub₀ (by norm_num)]
      norm_num
    rw [this]
    have hpos : (0 : ℚ) ≤ 1 / 2 ^ 1075 := by positivity
    have : 1 / 2 * ((2 : ℚ) ^ binary_exponent q / 2 ^ 52) = 2 ^ binary_exponent q / 2 ^ 53 := by
      ring
    rw [this]
    have : (2 : ℚ) ^ binary_exponent q / 2 ^ 53 ≤ q / 2 ^ 53 :=
      div_le_div_of_nonneg_right s1 (by positivity)
    linarith
  · rw [hp] at hm
    have : (1 : ℚ) / 2 * 2 ^ p = 1 / 2 ^ 1075 := by
      rw [hm, zpow_neg]
      norm_num
    rw [this]
    have : (0 : ℚ) ≤ q / 2 ^ 53 := by positivity
    linarith

theorem round_to_double_nonneg (q : ℚ) : 0 ≤ round_to_double q := by
  unfold round_to_double
  split_ifs with h
  · exact le_refl 0
  · simp only
    have h1 : 0 ≤ round_half_even (q / 2 ^ max (binary_exponent q - 52) (-1074)) := by
      apply round_half_even_nonneg
      have := not_le.1 h
      positivity
    have h2 : (0 : ℚ) ≤ round_half_even (q / 2 ^ max (binary_exponent q - 52) (-1074)) := by
      exact_mod_cast h1
    positivity

theorem round_to_double_zero : round_to_double 0 = 0 := by
  simp [round_to_double]

theorem round_double_zero : round_double 0 = 0 := by
  simp [round_double, round_to_double_zero]

/-- Rounding is symmetric. -/
theorem round_double_neg (x : ℚ) : round_double (-x) = -round_double x := by
  unfold round_double
  rcases lt_trichotomy x 0 with h | h | h
  · rw [if_neg (by linarith), if_pos h]; simp
  · subst h; simp [round_to_double_zero]
  · rw [if_pos (by linarith), if_neg (by linarith)]; simp

theorem round_double_nonneg (x : ℚ) (h : 0 ≤ x) : 0 ≤ round_double x := by
  unfold round_double
  rw [if_neg (by linarith)]
  exact round_to_double_nonneg x

theorem round_double_nonpos (x : ℚ) (h : x ≤ 0) : round_double x ≤ 0 := by
  have := round_double_nonneg (-x) (by linarith)
  rw [round_double_neg] at this
  linarith

/-- The double nearest to a number is at most half a unit in the last place away: a
relative error of `2^-53`, or `2^-1075` for the smallest numbers. -/
theorem round_double_err (x : ℚ) : |round_double x - x| ≤ |x| / 2 ^ 53 + 1 / 2 ^ 1075 := by
  unfold round_double
  rcases lt_trichotomy x 0 with h | h | h
  · rw [if_pos h, abs_of_neg h]
    have := round_to_double_err (-x) (by linarith)
    have e : -round_to_double (-x) - x = -(round_to_double (-x) - -x) := by ring
    rw [e, abs_neg]
    exact this
  · subst h
    simp [round_to_double_zero]
  · rw [if_neg (by linarith), abs_of_pos h]
    exact round_to_double_err x h

/-- The rounding error of a number of magnitude at most `M`, for an `M` that is not tiny. -/
theorem round_double_near (x M : ℚ) (hx : |x| ≤ M) (hM : 1 / 2 ^ 1000 ≤ M) :
    |round_double x - x| ≤ M / 2 ^ 52 := by
  have h := round_double_err x
  have h1 : |x| / 2 ^ 53 ≤ M / 2 ^ 53 := div_le_div_of_nonneg_right hx (by positivity)
  have h2 : (1 : ℚ) / 2 ^ 1075 ≤ M / 2 ^ 53 := by
    have : (1 : ℚ) / 2 ^ 1075 = 1 / 2 ^ 1000 / 2 ^ 75 := by norm_num
    rw [this]
    have h3 : (1 : ℚ) / 2 ^ 1000 / 2 ^ 75 ≤ M / 2 ^ 75 :=
      div_le_div_of_nonneg_right hM (by positivity)
    have hM0 : 0 ≤ M := le_trans (by positivity) hM
    have h4 : M / 2 ^ 75 ≤ M / 2 ^ 53 :=
      div_le_div_of_nonneg_left hM0 (by positivity) (by norm_num)
    linarith
  have : M / 2 ^ 53 + M / 2 ^ 53 = M / 2 ^ 52 := by ring
  linarith

/-- An integer between the two half-way points around it is the nearest one. -/
theorem round_half_even_between (x : ℚ) (m : Int) (h1 : (m : ℚ) - 1 / 2 < x)
    (h2 : x < m + 1 / 2) : round_half_even x = m := by
  apply round_half_even_eq
  rw [abs_lt]
  constructor <;> linarith

/-- Half way above an even integer, the rounding goes down to it. -/
theorem round_half_even_tie_down (x : ℚ) (m : Int) (h : x = m + 1 / 2) (he : m % 2 = 0) :
    round_half_even x = m := by
  have hf : ⌊x⌋ = m := by
    rw [Int.floor_eq_iff]; constructor <;> linarith
  unfold round_half_even
  simp only
  rw [hf, if_neg (by linarith), if_neg (by linarith), if_pos he]

/-- Half way below an even integer, the rounding goes up to it. -/
theorem round_half_even_tie_up (x : ℚ) (m : Int) (h : x = m - 1 / 2) (he : m % 2 = 0) :
    round_half_even x = m := by
  have hf : ⌊x⌋ = m - 1 := by
    rw [Int.floor_eq_iff]; push_cast; constructor <;> linarith
  unfold round_half_even
  simp only
  rw [hf, if_neg (by push_cast; linarith), if_neg (by push_cast; linarith), if_neg (by omega)]
  ring

/-- The rounding of a positive number, from the rounding of its significand: with
`2^52 ≤ q * 2^k < 2^53` and `m` the integer nearest to `q * 2^k`, the double is `m / 2^k`. -/
theorem round_to_double_eval (q : ℚ) (m : Int) (k : Nat) (hk : k ≤ 1074)
    (h1 : 2 ^ 52 ≤ q * 2 ^ k) (h2 : q * 2 ^ k < 2 ^ 53) (h3 : round_half_even (q * 2 ^ k) = m) :
    round_to_double q = m / 2 ^ k := by
  have h2k : (0 : ℚ) < 2 ^ k := by positivity
  have hq : 0 < q := by
    by_contra hc
    have : q * 2 ^ k ≤ 0 := mul_nonpos_of_nonpos_of_nonneg (not_lt.1 hc) h2k.le
    have : (0 : ℚ) < 2 ^ 52 := by positivity
    linarith
  have hb : binary_exponent q = 52 - (k : Int) := by
    apply binary_exponent_eq
    · rw [zpow_sub₀ (by norm_num), zpow_natCast]
      rw [div_le_iff₀ h2k]
      exact_mod_cast h1
    · have : (52 : Int) - k + 1 = 53 - k := by ring
      rw [this, zpow_sub₀ (by norm_num), zpow_natCast, lt_div_iff₀ h2k]
      exact_mod_cast h2
  unfold round_to_double
  rw [if_neg (not_le.2 hq), hb]
  simp only
  have hp : max ((52 : Int) - k - 52) (-1074) = -(k : Int) := by
    rw [max_eq_left (by omega)]
    ring
  rw [hp]
  have e : q / 2 ^ (-(k : Int)) = q * 2 ^ k := by
    rw [zpow_neg, zpow_natCast]
    field_simp
  rw [e, h3, zpow_neg, zpow_natCast]
  field_simp

/-- The evaluation of `round_double` at a positive number. -/
theorem round_double_eval_pos (q : ℚ) (m : Int) (k : Nat) (hk : k ≤ 1074)
    (h1 : 2 ^ 52 ≤ q * 2 ^ k) (h2 : q * 2 ^ k < 2 ^ 53) (h3 : round_half_even (q * 2 ^ k) = m) :
    round_double q = m / 2 ^ k := by
  have h2k : (0 : ℚ) < 2 ^ k := by positivity
  have hq : 0 < q := by
    by_contra hc
    have : q * 2 ^ k ≤ 0 := mul_nonpos_of_nonpos_of_nonneg (not_lt.1 hc) h2k.le
    have : (0 : ℚ) < 2 ^ 52 := by positivity
    linarith
  unfold round_double
  rw [if_neg (by linarith)]
  exact round_to_double_eval q m k hk h1 h2 h3

/-- The evaluation of `round_double` at a negative number. -/
theorem round_double_eval_neg (q : ℚ) (m : Int) (k : Nat) (hk : k ≤ 1074)
    (h1 : 2 ^ 52 ≤ -q * 2 ^ k) (h2 : -q * 2 ^ k < 2 ^ 53)
    (h3 : round_half_even (-q * 2 ^ k) = m) : round_double q = -(m / 2 ^ k) := by
  have := round_double_eval_pos (-q) m k hk h1 h2 h3
  rw [round_double_neg] at this
  linarith

/-- A number with at most 53 significant bits and an exponent in range is a double: it is
its own rounding. -/
theorem round_double_dyadic (z : Int) (k : Nat) (hz : |z| < 2 ^ 53) (hk : k ≤ 1074) :
    round_double ((z : ℚ) / 2 ^ k) = z / 2 ^ k := by
  have key : ∀ n : Nat, n < 2 ^ 53 → round_to_double ((n : ℚ) / 2 ^ k) = n / 2 ^ k := by
    intro n hn
    by_cases hn0 : n = 0
    · subst hn0; simp [round_to_double_zero]
    have h2k : (0 : ℚ) < 2 ^ k := by positivity
    have hnpos : (0 : ℚ) < n := by exact_mod_cast Nat.pos_of_ne_zero hn0
    have hq : (0 : ℚ) < n / 2 ^ k := by positivity
    have a1 := Nat.pow_log_le_self 2 hn0
    have a2 := Nat.lt_pow_succ_log_self (by norm_num : 1 < 2) n
    have hL : Nat.log 2 n ≤ 52 := by
      by_contra hc
      have : 2 ^ 53 ≤ 2 ^ Nat.log 2 n := Nat.pow_le_pow_right (by norm_num) (by omega)
      omega
    have hb : binary_exponent ((n : ℚ) / 2 ^ k) = (Nat.log 2 n : Int) - k := by
      apply binary_exponent_eq
      · rw [zpow_sub₀ (by norm_num), zpow_natCast, zpow_natCast]
        apply div_le_div_of_nonneg_right _ h2k.le
        exact_mod_cast a1
      · have : (Nat.log 2 n : Int) - k + 1 = ((Nat.log 2 n + 1 : Nat) : Int) - k := by
          push_cast; ring
        rw [this, zpow_sub₀ (by norm_num), zpow_natCast, zpow_natCast]
        apply div_lt_div_of_pos_right _ h2k
        exact_mod_cast a2
    unfold round_to_double
    rw [if_neg (not_le.2 hq), hb]
    simp only
    obtain ⟨j, hj⟩ : ∃ j : Nat, max ((Nat.log 2 n : Int) - k - 52) (-1074) = -(k : Int) - j := by
      rcases max_cases ((Nat.log 2 n : Int) - k - 52) (-1074) with ⟨hm, -⟩ | ⟨hm, -⟩
      · exact ⟨52 - Nat.log 2 n, by rw [hm]; omega⟩
      · exact ⟨1074 - k, by rw [hm]; omega⟩
    rw [hj]
    have e2 : (2 : ℚ) ^ (-(k : Int) - j) = 1 / (2 ^ k * 2 ^ j) := by
      rw [zpow_sub₀ (by norm_num), zpow_neg, zpow_natCast, zpow_natCast]
      field_simp
    apply round_scaled_exact _ _ ((n * 2 ^ j : Nat) : Int)
    rw [e2]
    push_cast
    field_simp
    ring
  unfold round_double
  split_ifs with hneg
  · have hz0 : z < 0 := by
      by_contra hc
      have : (0 : ℚ) ≤ z / 2 ^ k := div_nonneg (by exact_mod_cast not_lt.1 hc) (by positivity)
      linarith
    obtain ⟨n, hn⟩ : ∃ n : Nat, z = -(n : Int) := ⟨z.natAbs, by omega⟩
    subst hn
    have hn53 : n < 2 ^ 53 := by
      have := abs_lt.1 hz
      omega
    have : -(((-(n : Int) : Int) : ℚ) / 2 ^ k) = (n : ℚ) / 2 ^ k := by push_cast; ring
    rw [this, key n hn53]
    push_cast
    ring
  · have hz0 : 0 ≤ z := by
      by_contra hc
      have hzneg : (z : ℚ) < 0 := by exact_mod_cast not_le.1 hc
      have : (z : ℚ) / 2 ^ k < 0 := div_neg_of_neg_of_pos hzneg (by positivity)
      linarith
    obtain ⟨n, hn⟩ : ∃ n : Nat, z = (n : Int) := ⟨z.toNat, by omega⟩
    subst hn
    have hn53 : n < 2 ^ 53 := by
      have := abs_lt.1 hz
      omega
    simpa using key n hn53

/-- An integer below `2^53` in magnitude is a double. -/
theorem round_double_intCast (z : Int) (hz : |z| < 2 ^ 53) : round_double (z : ℚ) = z := by
  simpa using round_double_dyadic z 0 hz (by norm_num)

/-- Half an integer below `2^53` in magnitude is a double. -/
theorem round_double_half (z : Int) (hz : |z| < 2 ^ 53) : round_double ((z : ℚ) / 2) = z / 2 := by
  simpa using round_double_dyadic z 1 hz (by norm_num)

/-- A number that `is_integer_within` a bound is the cast of an integer within the bound. -/
theorem is_integer_within.cast {bound : Nat} {x : ℚ} (h : is_integer_within bound x) :
    ∃ z : Int, x = z ∧ |z| ≤ bound := by
  obtain ⟨h1, h2⟩ := h
  refine ⟨x.num, ?_, ?_⟩
  · exact (Rat.den_eq_one_iff x).1 h1 |>.symm
  · rw [Int.abs_eq_natAbs]
    exact_mod_cast h2

/-- The magnitude of a double is at least the magnitude of the number it rounds, up to the
relative error. -/
theorem round_double_abs_ge (y L : ℚ) (hL : L ≤ |y|) (h1 : 1 ≤ L) :
    L * (1 - 1 / 2 ^ 52) ≤ |round_double y| := by
  have h := round_double_err y
  have h2 : |y| - |round_double y| ≤ |round_double y - y| := by
    have := abs_sub_abs_le_abs_sub y (round_double y)
    rwa [abs_sub_comm] at this
  have h3 : (1 : ℚ) / 2 ^ 1075 ≤ |y| / 2 ^ 53 := by
    have : (1 : ℚ) / 2 ^ 1075 ≤ 1 / 2 ^ 53 := by norm_num
    have h4 : (1 : ℚ) / 2 ^ 53 ≤ |y| / 2 ^ 53 :=
      div_le_div_of_nonneg_right (by linarith) (by positivity)
    linarith
  have h5 : |y| * (1 - 1 / 2 ^ 52) ≤ |round_double y| := by
    have : |y| / 2 ^ 53 + |y| / 2 ^ 53 = |y| * (1 / 2 ^ 52) := by ring
    linarith
  have h6 : L * (1 - 1 / 2 ^ 52) ≤ |y| * (1 - 1 / 2 ^ 52) :=
    mul_le_mul_of_nonneg_right hL (by norm_num)
  linarith

/-- The rounding of a positive number below the least normal double, from the rounding of
its multiple of `2^1074`: with `q * 2^1074 < 2^52` and `m` the integer nearest to
`q * 2^1074`, the double is `m / 2^1074`. -/
theorem round_double_subnormal (q : ℚ) (m : Int) (h0 : 0 < q) (h2 : q * 2 ^ 1074 < 2 ^ 52)
    (h3 : round_half_even (q * 2 ^ 1074) = m) : round_double q = m / 2 ^ 1074 := by
  obtain ⟨s1, -⟩ := binary_exponent_spec q h0
  have hb : binary_exponent q - 52 ≤ -1074 := by
    have c : (2 : ℚ) ^ binary_exponent q < 2 ^ ((52 : Int) - 1074) := by
      refine lt_of_le_of_lt s1 ?_
      rw [zpow_sub₀ (by norm_num), lt_div_iff₀ (by positivity)]
      exact_mod_cast h2
    have d := (zpow_lt_zpow_iff_right₀ (by norm_num : (1 : ℚ) < 2)).1 c
    omega
  unfold round_double round_to_double
  rw [if_neg (not_lt.2 h0.le), if_neg (not_le.2 h0)]
  simp only
  rw [max_eq_right hb]
  have e : q / 2 ^ (-1074 : Int) = q * 2 ^ 1074 := by
    rw [zpow_neg]
    have : (2 : ℚ) ^ (1074 : Int) = 2 ^ 1074 := by exact_mod_cast zpow_natCast (2 : ℚ) 1074
    rw [this]
    field_simp
  rw [e, h3, zpow_neg]
  have : (2 : ℚ) ^ (1074 : Int) = 2 ^ 1074 := by exact_mod_cast zpow_natCast (2 : ℚ) 1074
  rw [this]
  field_simp

/-- Half the least positive double rounds to zero. -/
theorem double_div_least : double_div (1 / 2 ^ 1074) 2 = 0 := by
  unfold double_div
  rw [round_double_subnormal (1 / 2 ^ 1074 / 2) 0 (by positivity) (by norm_num)
    (round_half_even_tie_down _ 0 (by norm_num) (by decide))]
  norm_num

/-- Rounding to an integer is monotone. -/
theorem round_half_even_mono (x y : ℚ) (h : x ≤ y) : round_half_even x ≤ round_half_even y := by
  by_contra hc
  have h1 : round_half_even y + 1 ≤ round_half_even x := by omega
  have h2 : ((round_half_even y : Int) : ℚ) + 1 ≤ round_half_even x := by exact_mod_cast h1
  have e1 := abs_le.1 (round_half_even_err x)
  have e2 := abs_le.1 (round_half_even_err y)
  have hxy : x = y := by linarith [e1.1, e1.2, e2.1, e2.2]
  subst hxy
  omega

/-- The exponent of a positive number grows with the number. -/
theorem binary_exponent_mono (x y : ℚ) (hx : 0 < x) (h : x ≤ y) :
    binary_exponent x ≤ binary_exponent y := by
  obtain ⟨a1, -⟩ := binary_exponent_spec x hx
  obtain ⟨-, b2⟩ := binary_exponent_spec y (lt_of_lt_of_le hx h)
  have c : (2 : ℚ) ^ binary_exponent x < 2 ^ (binary_exponent y + 1) := by linarith
  have d := (zpow_lt_zpow_iff_right₀ (by norm_num : (1 : ℚ) < 2)).1 c
  omega

/-- The rounding of non-negative numbers is monotone. -/
theorem round_to_double_mono (x y : ℚ) (h : x ≤ y) : round_to_double x ≤ round_to_double y := by
  by_cases hx : x ≤ 0
  · have : round_to_double x = 0 := by unfold round_to_double; rw [if_pos hx]
    rw [this]
    exact round_to_double_nonneg y
  have hx0 : 0 < x := not_le.1 hx
  have hy0 : 0 < y := lt_of_lt_of_le hx0 h
  have he := binary_exponent_mono x y hx0 h
  obtain ⟨-, a2⟩ := binary_exponent_spec x hx0
  obtain ⟨b1, -⟩ := binary_exponent_spec y hy0
  unfold round_to_double
  rw [if_neg hx, if_neg (not_le.2 hy0)]
  simp only
  generalize hpx : max (binary_exponent x - 52) (-1074) = px
  generalize hpy : max (binary_exponent y - 52) (-1074) = py
  have hp : px ≤ py := by
    rw [← hpx, ← hpy]
    exact max_le_max (by omega) le_rfl
  have h2x : (0 : ℚ) < 2 ^ px := by positivity
  have h2y : (0 : ℚ) < 2 ^ py := by positivity
  rcases eq_or_lt_of_le hp with heq | hlt
  · subst heq
    have : round_half_even (x / 2 ^ px) ≤ round_half_even (y / 2 ^ px) :=
      round_half_even_mono _ _ (div_le_div_of_nonneg_right h h2x.le)
    have h3 : ((round_half_even (x / 2 ^ px) : Int) : ℚ) ≤ round_half_even (y / 2 ^ px) := by
      exact_mod_cast this
    exact mul_le_mul_of_nonneg_right h3 h2x.le
  · have hpy' : py = binary_exponent y - 52 := by
      rw [← hpy]
      apply max_eq_left
      have : -1074 ≤ px := by rw [← hpx]; exact le_max_right _ _
      rw [← hpy] at hlt
      by_contra hc
      rw [max_eq_right (by omega)] at hlt
      omega
    have hex : binary_exponent x - 52 ≤ px := by rw [← hpx]; exact le_max_left _ _
    have hlt2 : binary_exponent x + 1 ≤ binary_exponent y := by omega
    -- the power of two between the two numbers
    have B1 : ((round_half_even (x / 2 ^ px) : Int) : ℚ) * 2 ^ px ≤ 2 ^ binary_exponent y := by
      obtain ⟨n, hn⟩ : ∃ n : Nat, binary_exponent y - px = n :=
        ⟨(binary_exponent y - px).toNat, (Int.toNat_of_nonneg (by omega)).symm⟩
      have hs : (2 : ℚ) ^ binary_exponent y = 2 ^ n * 2 ^ px := by
        rw [← zpow_natCast, ← hn, ← zpow_add₀ (by norm_num)]
        congr 1
        ring
      have hle : x / 2 ^ px ≤ ((2 ^ n : Int) : ℚ) := by
        rw [div_le_iff₀ h2x]
        push_cast
        rw [← hs]
        have : (2 : ℚ) ^ (binary_exponent x + 1) ≤ 2 ^ binary_exponent y :=
          zpow_le_zpow_right₀ (by norm_num) hlt2
        linarith
      have hr := round_half_even_mono _ _ hle
      rw [round_half_even_intCast] at hr
      have hr' : ((round_half_even (x / 2 ^ px) : Int) : ℚ) ≤ 2 ^ n := by exact_mod_cast hr
      rw [hs]
      exact mul_le_mul_of_nonneg_right hr' h2x.le
    have B2 : (2 : ℚ) ^ binary_exponent y ≤ ((round_half_even (y / 2 ^ py) : Int) : ℚ) * 2 ^ py := by
      have hs : (2 : ℚ) ^ binary_exponent y = 2 ^ 52 * 2 ^ py := by
        rw [hpy', ← zpow_natCast, ← zpow_add₀ (by norm_num)]
        congr 1
        push_cast
        ring
      have hle : ((2 ^ 52 : Int) : ℚ) ≤ y / 2 ^ py := by
        rw [le_div_iff₀ h2y]
        have e : ((2 ^ 52 : Int) : ℚ) = 2 ^ 52 := by norm_num
        rw [e, ← hs]
        exact b1
      have hr := round_half_even_mono _ _ hle
      rw [round_half_even_intCast] at hr
      have hr' : (2 : ℚ) ^ 52 ≤ ((round_half_even (y / 2 ^ py) : Int) : ℚ) := by exact_mod_cast hr
      rw [hs]
      exact mul_le_mul_of_nonneg_right hr' h2y.le
    exact le_trans B1 B2

/-- The rounding of the machine is monotone. -/
theorem round_double_mono (x y : ℚ) (h : x ≤ y) : round_double x ≤ round_double y := by
  unfold round_double
  by_cases hx : x < 0
  · by_cases hy : y < 0
    · rw [if_pos hx, if_pos hy]
      have := round_to_double_mono (-y) (-x) (by linarith)
      linarith
    · rw [if_pos hx, if_neg hy]
      have h1 := round_to_double_nonneg (-x)
      have h2 := round_to_double_nonneg y
      linarith
  · have hy : ¬ y < 0 := by linarith
    rw [if_neg hx, if_neg hy]
    exact round_to_double_mono x y h

/-- A number between two doubles rounds to a double between them. -/
theorem round_double_between (lo x hi : ℚ) (hlo : round_double lo = lo)
    (hhi : round_double hi = hi) (h1 : lo ≤ x) (h2 : x ≤ hi) :
    lo ≤ round_double x ∧ round_double x ≤ hi := by
  constructor
  · rw [← hlo]; exact round_double_mono _ _ h1
  · rw [← hhi]; exact round_double_mono _ _ h2

end XDot
end XDotCpp

/-! ## The polygon and its bounding box -/

namespace XDotCpp
namespace XDot

/-- The rounding error of a number of magnitude at most `M`, for an `M` of at least `1`. -/
theorem round_double_within (x M : ℚ) (hx : |x| ≤ M) (hM : 1 ≤ M) :
    |round_double x - x| ≤ M * (1 / 2 ^ 53 + 1 / 2 ^ 1075) := by
  have h := round_double_err x
  have h1 : |x| / 2 ^ 53 ≤ M / 2 ^ 53 := div_le_div_of_nonneg_right hx (by positivity)
  have h2 : (1 : ℚ) / 2 ^ 1075 ≤ M * (1 / 2 ^ 1075) := by
    have : (1 : ℚ) * (1 / 2 ^ 1075) ≤ M * (1 / 2 ^ 1075) :=
      mul_le_mul_of_nonneg_right hM (by positivity)
    linarith
  have : M * (1 / 2 ^ 53 + 1 / 2 ^ 1075) = M / 2 ^ 53 + M * (1 / 2 ^ 1075) := by ring
  linarith

/-- The difference of two integers of absolute value at most `2^20` is a double. -/
theorem double_sub_integers (x y : ℚ) (hx : is_integer_within (2 ^ 20) x)
    (hy : is_integer_within (2 ^ 20) y) :
    double_sub x y = x - y ∧ |x - y| ≤ 2 ^ 21 ∧ (x ≠ y → 1 ≤ |x - y|) := by
  obtain ⟨a, ha, ha'⟩ := hx.cast
  obtain ⟨b, hb, hb'⟩ := hy.cast
  have ha2 := abs_le.1 ha'
  have hb2 := abs_le.1 hb'
  norm_num at ha2 hb2
  have e : x - y = ((a - b : Int) : ℚ) := by rw [ha, hb]; push_cast; ring
  refine ⟨?_, ?_, ?_⟩
  · unfold double_sub
    rw [e]
    exact round_double_intCast _ (by rw [abs_lt]; constructor <;> omega)
  · rw [e]
    have : |a - b| ≤ 2 ^ 21 := by rw [abs_le]; constructor <;> omega
    exact_mod_cast this
  · intro hne
    rw [e]
    have hab : a ≠ b := by
      intro h
      apply hne
      rw [ha, hb, h]
    have : 1 ≤ |a - b| := by
      rcases lt_or_gt_of_ne hab with h | h
      · rw [abs_of_neg (by omega)]; omega
      · rw [abs_of_pos (by omega)]; omega
    exact_mod_cast this

end XDot
end XDotCpp

namespace XDotCpp
namespace XDot

/-- The abscissa at which the edge from `pj` to `pi` meets the horizontal line through `p`
lies between the abscissas of the two ends, when the edge straddles the line. -/
theorem crossing_between (p pi pj : Point)
    (h : (decide (pi.y > p.y) != decide (pj.y > p.y)) = true) (m M : ℚ)
    (hmi : m ≤ pi.x) (hmj : m ≤ pj.x) (hMi : pi.x ≤ M) (hMj : pj.x ≤ M) :
    m ≤ (pj.x - pi.x) * (p.y - pi.y) / (pj.y - pi.y) + pi.x ∧
    (pj.x - pi.x) * (p.y - pi.y) / (pj.y - pi.y) + pi.x ≤ M := by
  have hne : pj.y - pi.y ≠ 0 := by
    intro h0
    have : pj.y = pi.y := by linarith
    rw [this] at h
    simp at h
  have ht : 0 ≤ (p.y - pi.y) / (pj.y - pi.y) ∧ (p.y - pi.y) / (pj.y - pi.y) ≤ 1 := by
    by_cases hi : pi.y > p.y
    · have hj : ¬ pj.y > p.y := by
        intro hj; simp [hi, hj] at h
      have hd : pj.y - pi.y < 0 := by linarith
      constructor
      · exact div_nonneg_of_nonpos (by linarith) (le_of_lt hd)
      · rw [div_le_one_of_neg hd]; linarith
    · have hj : pj.y > p.y := by
        by_contra hj; simp [hi, hj] at h
      have hd : 0 < pj.y - pi.y := by linarith
      constructor
      · exact div_nonneg (by linarith) (le_of_lt hd)
      · rw [div_le_one hd]; linarith
  obtain ⟨t0, t1⟩ := ht
  have e : (pj.x - pi.x) * (p.y - pi.y) / (pj.y - pi.y) + pi.x
      = (1 - (p.y - pi.y) / (pj.y - pi.y)) * pi.x + (p.y - pi.y) / (pj.y - pi.y) * pj.x := by
    field_simp
    ring
  rw [e]
  generalize (p.y - pi.y) / (pj.y - pi.y) = t at t0 t1
  constructor
  · nlinarith
  · nlinarith

/-- On an edge that straddles the horizontal line through `p`, the height of `p` above the
first end is at most the height of the edge. -/
theorem straddle_height (p pi pj : Point)
    (h : (decide (pi.y > p.y) != decide (pj.y > p.y)) = true) :
    pj.y ≠ pi.y ∧ |p.y - pi.y| ≤ |pj.y - pi.y| := by
  by_cases hi : pi.y > p.y
  · have hj : ¬ pj.y > p.y := by
      intro hj; simp [hi, hj] at h
    refine ⟨by intro e; rw [e] at hj; exact hj hi, ?_⟩
    rw [abs_of_nonpos (by linarith), abs_of_nonpos (by linarith)]
    linarith
  · have hj : pj.y > p.y := by
      by_contra hj; simp [hi, hj] at h
    refine ⟨by intro e; rw [e] at hj; exact hi hj, ?_⟩
    rw [abs_of_nonneg (by linarith), abs_of_nonneg (by linarith)]
    linarith

/-- The abscissa that the loop of `contains_point` computes for an edge with integer ends
of absolute value at most `2^20` that straddles the horizontal line through `p` differs
from the exact abscissa of the crossing by `2^-30` at most. -/
theorem crossing_abscissa_near (p pi pj : Point) (hi : pi.is_integral_within (2 ^ 20))
    (hj : pj.is_integral_within (2 ^ 20))
    (h : (decide (pi.y > p.y) != decide (pj.y > p.y)) = true) :
    |crossing_abscissa p pi pj - ((pj.x - pi.x) * (p.y - pi.y) / (pj.y - pi.y) + pi.x)|
      ≤ 1 / 2 ^ 30 := by
  obtain ⟨hxe, hxb, -⟩ := double_sub_integers pj.x pi.x hj.1 hi.1
  obtain ⟨hye, hyb, hy1⟩ := double_sub_integers pj.y pi.y hj.2 hi.2
  obtain ⟨hne, hb⟩ := straddle_height p pi pj h
  have hD1 : 1 ≤ |pj.y - pi.y| := hy1 hne
  obtain ⟨a1, ha1, ha1'⟩ := hi.1.cast
  obtain ⟨a2, ha2, ha2'⟩ := hj.1.cast
  have hpix : |pi.x| ≤ 2 ^ 20 := by
    rw [ha1]; exact_mod_cast ha1'
  have hpjx : |pj.x| ≤ 2 ^ 20 := by
    rw [ha2]; exact_mod_cast ha2'
  unfold crossing_abscissa
  rw [hxe, hye]
  generalize hdx : pj.x - pi.x = dx at *
  generalize hdy : pj.y - pi.y = dy at *
  generalize hbb : p.y - pi.y = b at *
  generalize hDD : |dy| = D at *
  have hD0 : 0 < D := by linarith
  have hdy0 : dy ≠ 0 := by
    intro h0
    rw [h0, abs_zero] at hDD
    linarith
  -- the difference of the heights
  have h1 : |double_sub p.y pi.y - b| ≤ D * (1 / 2 ^ 53 + 1 / 2 ^ 1075) := by
    unfold double_sub
    rw [hbb]
    exact round_double_within b D hb hD1
  generalize double_sub p.y pi.y = t1 at *
  have ht1 : |t1| ≤ D * (1 + 1 / 2 ^ 52) := by
    have := abs_sub_abs_le_abs_sub t1 b
    have e : D * (1 / 2 ^ 53 + 1 / 2 ^ 1075) ≤ D * (1 / 2 ^ 52) :=
      mul_le_mul_of_nonneg_left (by norm_num) hD0.le
    nlinarith
  -- the product
  have hp : |dx * t1| ≤ 2 ^ 21 * (D * (1 + 1 / 2 ^ 52)) := by
    rw [abs_mul]
    exact mul_le_mul hxb ht1 (abs_nonneg _) (by norm_num)
  have hp1 : (1 : ℚ) ≤ 2 ^ 21 * (D * (1 + 1 / 2 ^ 52)) := by nlinarith
  have h2 : |double_mul dx t1 - dx * t1| ≤
      2 ^ 21 * (D * (1 + 1 / 2 ^ 52)) * (1 / 2 ^ 53 + 1 / 2 ^ 1075) := by
    unfold double_mul
    exact round_double_within _ _ hp hp1
  generalize double_mul dx t1 = t2 at *
  have h2' : |t2 - dx * b| ≤ D * (1 / 2 ^ 31 + 1 / 2 ^ 60) := by
    have e : t2 - dx * b = (t2 - dx * t1) + dx * (t1 - b) := by ring
    have e2 : |dx * (t1 - b)| ≤ 2 ^ 21 * (D * (1 / 2 ^ 53 + 1 / 2 ^ 1075)) := by
      rw [abs_mul]
      exact mul_le_mul hxb h1 (abs_nonneg _) (by norm_num)
    rw [e]
    refine le_trans (abs_add _ _) ?_
    have e3 : 2 ^ 21 * (D * (1 + 1 / 2 ^ 52)) * (1 / 2 ^ 53 + 1 / 2 ^ 1075) +
        2 ^ 21 * (D * (1 / 2 ^ 53 + 1 / 2 ^ 1075)) ≤ D * (1 / 2 ^ 31 + 1 / 2 ^ 60) := by
      have : (2 : ℚ) ^ 21 * ((1 + 1 / 2 ^ 52)) * (1 / 2 ^ 53 + 1 / 2 ^ 1075) +
          2 ^ 21 * ((1 / 2 ^ 53 + 1 / 2 ^ 1075)) ≤ (1 / 2 ^ 31 + 1 / 2 ^ 60) := by norm_num
      nlinarith
    linarith
  -- the quotient
  have hq : |t2 / dy - dx * b / dy| ≤ 1 / 2 ^ 31 + 1 / 2 ^ 60 := by
    have e : t2 / dy - dx * b / dy = (t2 - dx * b) / dy := by ring
    rw [e, abs_div, hDD, div_le_iff₀ hD0]
    linarith
  have hxq : |dx * b / dy| ≤ 2 ^ 21 := by
    rw [abs_div, abs_mul, hDD, div_le_iff₀ hD0]
    have := mul_le_mul hxb hb (abs_nonneg _) (by norm_num : (0 : ℚ) ≤ 2 ^ 21)
    linarith
  have hq2 : |t2 / dy| ≤ 2 ^ 21 + 1 := by
    have := abs_sub_abs_le_abs_sub (t2 / dy) (dx * b / dy)
    have : (1 : ℚ) / 2 ^ 31 + 1 / 2 ^ 60 ≤ 1 := by norm_num
    linarith
  have h3 : |double_div t2 dy - t2 / dy| ≤ (2 ^ 21 + 1) * (1 / 2 ^ 53 + 1 / 2 ^ 1075) := by
    unfold double_div
    exact round_double_within _ _ hq2 (by norm_num)
  generalize double_div t2 dy = t3 at *
  -- the sum
  have hX : |dx * b / dy + pi.x| ≤ 2 ^ 20 := by
    have hb1 := crossing_between p pi pj h (-(2 ^ 20)) (2 ^ 20) (abs_le.1 hpix).1
      (abs_le.1 hpjx).1 (abs_le.1 hpix).2 (abs_le.1 hpjx).2
    rw [hdx, hbb, hdy] at hb1
    rw [abs_le]
    exact hb1
  have h3' : |t3 - dx * b / dy| ≤ 1 / 2 ^ 31 + 1 / 2 ^ 32 + 1 / 2 ^ 50 := by
    have e : t3 - dx * b / dy = (t3 - t2 / dy) + (t2 / dy - dx * b / dy) := by ring
    rw [e]
    refine le_trans (abs_add _ _) ?_
    have : ((2 : ℚ) ^ 21 + 1) * (1 / 2 ^ 53 + 1 / 2 ^ 1075) + (1 / 2 ^ 31 + 1 / 2 ^ 60) ≤
        1 / 2 ^ 31 + 1 / 2 ^ 32 + 1 / 2 ^ 50 := by norm_num
    linarith
  have hs : |t3 + pi.x| ≤ 2 ^ 20 + 1 := by
    have e : t3 + pi.x = (t3 - dx * b / dy) + (dx * b / dy + pi.x) := by ring
    rw [e]
    refine le_trans (abs_add _ _) ?_
    have : (1 : ℚ) / 2 ^ 31 + 1 / 2 ^ 32 + 1 / 2 ^ 50 ≤ 1 := by norm_num
    linarith
  have h4 : |double_add t3 pi.x - (t3 + pi.x)| ≤ (2 ^ 20 + 1) * (1 / 2 ^ 53 + 1 / 2 ^ 1075) := by
    unfold double_add
    exact round_double_within _ _ hs (by norm_num)
  have e : double_add t3 pi.x - (dx * b / dy + pi.x) =
      (double_add t3 pi.x - (t3 + pi.x)) + (t3 - dx * b / dy) := by ring
  rw [e]
  refine le_trans (abs_add _ _) ?_
  have : ((2 : ℚ) ^ 20 + 1) * (1 / 2 ^ 53 + 1 / 2 ^ 1075) +
      (1 / 2 ^ 31 + 1 / 2 ^ 32 + 1 / 2 ^ 50) ≤ 1 / 2 ^ 30 := by norm_num
  linarith

/-- The steps of `crossing_abscissa` on an edge from `x0` to `x0 + a` of height `c`, at the
rounded height `b` of the point above the first end: with `a`, `a * c`, `x0` and `x0 + a`
doubles and `b` between `0` and `c`, every step stays between the values it takes at the
two ends, and the result lies between `x0` and `x0 + a`. -/
theorem crossing_steps_between (a b c x0 : ℚ) (hac : round_double (a * c) = a * c)
    (ha : round_double a = a) (hx0 : round_double x0 = x0)
    (hx1 : round_double (x0 + a) = x0 + a) (hc : c ≠ 0)
    (hb : (0 ≤ b ∧ b ≤ c) ∨ (c ≤ b ∧ b ≤ 0)) :
    min x0 (x0 + a) ≤ double_add (double_div (double_mul a b) c) x0 ∧
    double_add (double_div (double_mul a b) c) x0 ≤ max x0 (x0 + a) := by
  unfold double_add double_div double_mul
  have h0 := round_double_zero
  have ht : (0 ≤ round_double (round_double (a * b) / c) ∧
        round_double (round_double (a * b) / c) ≤ a) ∨
      (a ≤ round_double (round_double (a * b) / c) ∧
        round_double (round_double (a * b) / c) ≤ 0) := by
    rcases hb with ⟨b0, b1⟩ | ⟨b0, b1⟩
    · have hcp : 0 < c := lt_of_le_of_ne (le_trans b0 b1) (Ne.symm hc)
      rcases le_total 0 a with hA | hA
      · left
        obtain ⟨u0, u1⟩ := round_double_between 0 (a * b) (a * c) h0 hac (mul_nonneg hA b0)
          (mul_le_mul_of_nonneg_left b1 hA)
        exact round_double_between 0 _ a h0 ha (div_nonneg u0 hcp.le)
          ((div_le_iff₀ hcp).2 u1)
      · right
        obtain ⟨u0, u1⟩ := round_double_between (a * c) (a * b) 0 hac h0
          (mul_le_mul_of_nonpos_left b1 hA) (mul_nonpos_of_nonpos_of_nonneg hA b0)
        exact round_double_between a _ 0 ha h0 ((le_div_iff₀ hcp).2 u0)
          (div_nonpos_of_nonpos_of_nonneg u1 hcp.le)
    · have hcn : c < 0 := lt_of_le_of_ne (le_trans b0 b1) hc
      rcases le_total 0 a with hA | hA
      · left
        obtain ⟨u0, u1⟩ := round_double_between (a * c) (a * b) 0 hac h0
          (mul_le_mul_of_nonneg_left b0 hA) (mul_nonpos_of_nonneg_of_nonpos hA b1)
        exact round_double_between 0 _ a h0 ha (div_nonneg_of_nonpos u1 hcn.le)
          ((div_le_iff_of_neg hcn).2 u0)
      · right
        obtain ⟨u0, u1⟩ := round_double_between 0 (a * b) (a * c) h0 hac
          (mul_nonneg_of_nonpos_of_nonpos hA b1) (mul_le_mul_of_nonpos_left b0 hA)
        exact round_double_between a _ 0 ha h0 ((le_div_iff_of_neg hcn).2 u1)
          (div_nonpos_of_nonneg_of_nonpos u0 hcn.le)
  rcases ht with ⟨t0, t1⟩ | ⟨t0, t1⟩
  · obtain ⟨r0, r1⟩ := round_double_between x0 (round_double (round_double (a * b) / c) + x0)
      (x0 + a) hx0 hx1 (by linarith) (by linarith)
    exact ⟨le_trans (min_le_left _ _) r0, le_trans r1 (le_max_right _ _)⟩
  · obtain ⟨r0, r1⟩ := round_double_between (x0 + a)
      (round_double (round_double (a * b) / c) + x0) x0 hx1 hx0 (by linarith) (by linarith)
    exact ⟨le_trans (min_le_right _ _) r0, le_trans r1 (le_max_left _ _)⟩

/-- The abscissa that the loop of `contains_point` computes for an edge with integer ends
of absolute value at most `2^20` that straddles the horizontal line through `p` lies
between the abscissas of the two ends: the rounding is monotone and the ends are doubles. -/
theorem crossing_abscissa_between (p pi pj : Point) (hi : pi.is_integral_within (2 ^ 20))
    (hj : pj.is_integral_within (2 ^ 20))
    (h : (decide (pi.y > p.y) != decide (pj.y > p.y)) = true) :
    min pi.x pj.x ≤ crossing_abscissa p pi pj ∧ crossing_abscissa p pi pj ≤ max pi.x pj.x := by
  obtain ⟨hxe, -, -⟩ := double_sub_integers pj.x pi.x hj.1 hi.1
  obtain ⟨hye, -, -⟩ := double_sub_integers pj.y pi.y hj.2 hi.2
  obtain ⟨hne, -⟩ := straddle_height p pi pj h
  obtain ⟨a1, ha1, ha1'⟩ := hi.1.cast
  obtain ⟨a2, ha2, ha2'⟩ := hj.1.cast
  obtain ⟨b1, hb1, hb1'⟩ := hi.2.cast
  obtain ⟨b2, hb2, hb2'⟩ := hj.2.cast
  have A1 := abs_le.1 ha1'
  have A2 := abs_le.1 ha2'
  have B1 := abs_le.1 hb1'
  have B2 := abs_le.1 hb2'
  norm_num at A1 A2 B1 B2
  have hc : round_double (pj.y - pi.y) = pj.y - pi.y := hye
  have ha : round_double (pj.x - pi.x) = pj.x - pi.x := hxe
  have hac : round_double ((pj.x - pi.x) * (pj.y - pi.y)) = (pj.x - pi.x) * (pj.y - pi.y) := by
    have e : (pj.x - pi.x) * (pj.y - pi.y) = (((a2 - a1) * (b2 - b1) : Int) : ℚ) := by
      rw [ha1, ha2, hb1, hb2]; push_cast; ring
    rw [e]
    apply round_double_intCast
    have h1 : |a2 - a1| ≤ 2 ^ 21 := by rw [abs_le]; constructor <;> omega
    have h2 : |b2 - b1| ≤ 2 ^ 21 := by rw [abs_le]; constructor <;> omega
    rw [abs_mul]
    calc |a2 - a1| * |b2 - b1| ≤ 2 ^ 21 * 2 ^ 21 :=
          mul_le_mul h1 h2 (abs_nonneg _) (by norm_num)
      _ < 2 ^ 53 := by norm_num
  have hx0 : round_double pi.x = pi.x := by
    rw [ha1]; exact round_double_intCast _ (by rw [abs_lt]; constructor <;> omega)
  have hx1 : round_double (pi.x + (pj.x - pi.x)) = pi.x + (pj.x - pi.x) := by
    have : pi.x + (pj.x - pi.x) = pj.x := by ring
    rw [this, ha2]; exact round_double_intCast _ (by rw [abs_lt]; constructor <;> omega)
  have hb : (0 ≤ double_sub p.y pi.y ∧ double_sub p.y pi.y ≤ pj.y - pi.y) ∨
      (pj.y - pi.y ≤ double_sub p.y pi.y ∧ double_sub p.y pi.y ≤ 0) := by
    unfold double_sub
    by_cases hi' : pi.y > p.y
    · have hj' : ¬ pj.y > p.y := by
        intro hj'; simp [hi', hj'] at h
      right
      exact round_double_between _ _ 0 hc round_double_zero (by linarith) (by linarith)
    · have hj' : pj.y > p.y := by
        by_contra hj'; simp [hi', hj'] at h
      left
      exact round_double_between 0 _ _ round_double_zero hc (by linarith) (by linarith)
  have key := crossing_steps_between (pj.x - pi.x) (double_sub p.y pi.y) (pj.y - pi.y) pi.x
    hac ha hx0 hx1 (sub_ne_zero.2 hne) hb
  have e1 : pi.x + (pj.x - pi.x) = pj.x := by ring
  rw [e1] at key
  unfold crossing_abscissa
  rw [hxe, hye]
  exact key

end XDot
end XDotCpp

namespace XDotCpp
namespace XDot

/-- The box the loop returns lies around the box it starts with and around every point. -/
theorem bounding_box_loop_bounds (pts : List Point) : ∀ bb : BoundingBox,
    (bounding_box_loop pts bb).x1 ≤ bb.x1 ∧ bb.x2 ≤ (bounding_box_loop pts bb).x2 ∧
    (bounding_box_loop pts bb).y1 ≤ bb.y1 ∧ bb.y2 ≤ (bounding_box_loop pts bb).y2 ∧
    ∀ q ∈ pts, (bounding_box_loop pts bb).x1 ≤ q.x ∧ q.x ≤ (bounding_box_loop pts bb).x2 ∧
      (bounding_box_loop pts bb).y1 ≤ q.y ∧ q.y ≤ (bounding_box_loop pts bb).y2 := by
  induction pts with
  | nil => intro bb; simp [bounding_box_loop]
  | cons a pts ih =>
    intro bb
    obtain ⟨h1, h2, h3, h4, h5⟩ := ih ⟨min bb.x1 a.x, min bb.y1 a.y, max bb.x2 a.x, max bb.y2 a.y⟩
    simp only [bounding_box_loop]
    simp only at h1 h2 h3 h4
    refine ⟨le_trans h1 (min_le_left _ _), le_trans (le_max_left _ _) h2,
      le_trans h3 (min_le_left _ _), le_trans (le_max_left _ _) h4, ?_⟩
    intro q hq
    rcases List.mem_cons.1 hq with rfl | hq
    · exact ⟨le_trans h1 (min_le_right _ _), le_trans (le_max_right _ _) h2,
        le_trans h3 (min_le_right _ _), le_trans (le_max_right _ _) h4⟩
    · exact h5 q hq

/-- Every vertex of a polygon lies in its bounding box. -/
theorem bounding_box_points (s : PolygonShape) (q : Point) (hq : q ∈ s.points_) :
    s.bounding_box.x1 ≤ q.x ∧ q.x ≤ s.bounding_box.x2 ∧
    s.bounding_box.y1 ≤ q.y ∧ q.y ≤ s.bounding_box.y2 := by
  unfold PolygonShape.bounding_box
  cases hp : s.points_ with
  | nil => rw [hp] at hq; cases hq
  | cons p0 rest =>
    simp only
    rw [hp] at hq
    exact (bounding_box_loop_bounds (p0 :: rest) _).2.2.2.2 q hq

/-- With all vertices on one side of the horizontal line through `p`, no edge toggles the flag. -/
theorem contains_point_loop_same_side (p : Point) (b : Bool) (pts : List Point) :
    ∀ (pj : Point) (inside : Bool), decide (pj.y > p.y) = b →
      (∀ q ∈ pts, decide (q.y > p.y) = b) → contains_point_loop p pts pj inside = inside := by
  induction pts with
  | nil => intro pj inside _ _; rfl
  | cons a pts ih =>
    intro pj inside hj hall
    have ha : decide (a.y > p.y) = b := hall a (List.mem_cons_self _ _)
    simp only [contains_point_loop, ha, hj, bne_self_eq_false, Bool.false_and]
    exact ih a inside ha (fun q hq => hall q (List.mem_cons_of_mem _ hq))

/-- With `p` to the right of all vertices, no edge toggles the flag. -/
theorem contains_point_loop_right (p : Point) (pts : List Point) :
    ∀ (pj : Point) (inside : Bool), pj.is_integral_within (2 ^ 20) → pj.x < p.x →
      (∀ q ∈ pts, q.is_integral_within (2 ^ 20) ∧ q.x < p.x) →
      contains_point_loop p pts pj inside = inside := by
  induction pts with
  | nil => intro pj inside _ _ _; rfl
  | cons a pts ih =>
    intro pj inside hji hj hall
    obtain ⟨hai, ha⟩ := hall a (List.mem_cons_self _ _)
    have hcond : ((decide (a.y > p.y) != decide (pj.y > p.y)) &&
        decide (p.x < crossing_abscissa p a pj)) = false := by
      cases hs : (decide (a.y > p.y) != decide (pj.y > p.y)) with
      | false => rfl
      | true =>
        have h1 := (crossing_abscissa_between p a pj hai hji hs).2
        simp only [Bool.true_and, decide_eq_false_iff_not, not_lt]
        exact le_trans h1 (max_le ha.le hj.le)
    simp only [contains_point_loop, hcond]
    exact ih a inside hai ha (fun q hq => hall q (List.mem_cons_of_mem _ hq))

/-- With `p` to the left of all vertices, the flag is toggled by exactly the edges that
straddle the line, so that at the end it records whether the first and the last vertex lie
on different sides. -/
theorem contains_point_loop_left (p : Point) (pts : List Point) :
    ∀ (pj : Point) (inside : Bool), pj.is_integral_within (2 ^ 20) → p.x < pj.x →
      (∀ q ∈ pts, q.is_integral_within (2 ^ 20) ∧ p.x < q.x) →
      contains_point_loop p pts pj inside =
        (inside != (decide (pj.y > p.y) != decide ((pts.getLastD pj).y > p.y))) := by
  induction pts with
  | nil => intro pj inside _ _ _; simp [contains_point_loop]
  | cons a pts ih =>
    intro pj inside hji hj hall
    obtain ⟨hai, ha⟩ := hall a (List.mem_cons_self _ _)
    have hcond : ((decide (a.y > p.y) != decide (pj.y > p.y)) &&
        decide (p.x < crossing_abscissa p a pj)) =
        (decide (a.y > p.y) != decide (pj.y > p.y)) := by
      cases hs : (decide (a.y > p.y) != decide (pj.y > p.y)) with
      | false => rfl
      | true =>
        have h1 := (crossing_abscissa_between p a pj hai hji hs).1
        simp only [Bool.true_and, decide_eq_true_eq]
        exact lt_of_lt_of_le (lt_min ha hj) h1
    simp only [contains_point_loop, hcond]
    rw [ih a _ hai ha (fun q hq => hall q (List.mem_cons_of_mem _ hq))]
    simp only [List.getLastD_cons]
    cases inside <;> cases decide (a.y > p.y) <;> cases decide (pj.y > p.y) <;>
      cases decide ((pts.getLastD a).y > p.y) <;> rfl

/-- The element `points_[points_.size() - 1]` is the last one. -/
theorem getD_last_eq_getLastD (pts : List Point) (hne : pts ≠ []) (d e : Point) :
    pts.getD (pts.length - 1) d = pts.getLastD e := by
  obtain ⟨a, l, rfl⟩ := List.exists_cons_of_ne_nil hne
  rw [List.getD_eq_getElem _ _ (by simp), List.getLastD_cons, ← List.getLast_eq_getLastD,
    List.getLast_eq_getElem]
  exact hne

/-- The hit test of a polygon with integer vertices at a point that lies to the left or to
the right of all vertices. -/
theorem contains_point_false_beside (s : PolygonShape) (p : Point)
    (hv : ∀ v ∈ s.points_, v.is_integral_within (2 ^ 20))
    (hout : (∀ v ∈ s.points_, p.x < v.x) ∨ (∀ v ∈ s.points_, v.x < p.x)) :
    s.contains_point p = false := by
  unfold PolygonShape.contains_point
  split_ifs with h3
  · rfl
  have hne : s.points_ ≠ [] := by
    intro h; rw [h] at h3; simp at h3
  have hlast : ∀ e, s.points_.getD (s.points_.length - 1) ⟨0, 0⟩ = s.points_.getLastD e :=
    getD_last_eq_getLastD s.points_ hne ⟨0, 0⟩
  have hlast_mem : s.points_.getD (s.points_.length - 1) ⟨0, 0⟩ ∈ s.points_ := by
    rw [List.getD_eq_getElem _ _ (by omega)]
    exact List.getElem_mem _
  rcases hout with hl | hr
  · rw [contains_point_loop_left p s.points_ _ false (hv _ hlast_mem) (hl _ hlast_mem)
      (fun q hq => ⟨hv q hq, hl q hq⟩), ← hlast]
    simp
  · exact contains_point_loop_right p s.points_ _ false (hv _ hlast_mem) (hr _ hlast_mem)
      (fun q hq => ⟨hv q hq, hr q hq⟩)

/-- The hit test of a polygon at a point above or below all vertices. -/
theorem contains_point_false_above_below (s : PolygonShape) (p : Point)
    (hout : p.y < s.bounding_box.y1 ∨ s.bounding_box.y2 < p.y) : s.contains_point p = false := by
  unfold PolygonShape.contains_point
  split_ifs with h3
  · rfl
  have hne : s.points_ ≠ [] := by
    intro h; rw [h] at h3; simp at h3
  have hlast_mem : s.points_.getD (s.points_.length - 1) ⟨0, 0⟩ ∈ s.points_ := by
    rw [List.getD_eq_getElem _ _ (by omega)]
    exact List.getElem_mem _
  have hbb := bounding_box_points s
  rcases hout with hy1 | hy2
  · apply contains_point_loop_same_side p true
    · simpa using lt_of_lt_of_le hy1 (hbb _ hlast_mem).2.2.1
    · intro q hq; simpa using lt_of_lt_of_le hy1 (hbb q hq).2.2.1
  · apply contains_point_loop_same_side p false
    · simpa using le_trans (hbb _ hlast_mem).2.2.2 (le_of_lt hy2)
    · intro q hq; simpa using le_trans (hbb q hq).2.2.2 (le_of_lt hy2)

/-- C10 on integer vertices: `contains_point` is false at every point above or below the
bounding box of the polygon, whatever the polygon; and for every polygon whose vertices have
integer coordinates of absolute value at most `2^20`, `contains_point` is false at every
point that the bounding box does not contain. Every operation is rounded as the machine
rounds it. -/
theorem contains_point_false_outside_bounding_box :
    (∀ (s : PolygonShape) (p : Point), p.y < s.bounding_box.y1 ∨ s.bounding_box.y2 < p.y →
      s.contains_point p = false) ∧
    (∀ (s : PolygonShape) (p : Point), (∀ v ∈ s.points_, v.is_integral_within (2 ^ 20)) →
      s.bounding_box.contains p = false → s.contains_point p = false) := by
  refine ⟨contains_point_false_above_below, ?_⟩
  intro s p hv hout
  have hbb := bounding_box_points s
  unfold BoundingBox.contains at hout
  simp only [Bool.and_eq_false_iff, decide_eq_false_iff_not, not_le, ge_iff_le] at hout
  rcases hout with ((hx1 | hx2) | hy1) | hy2
  · apply contains_point_false_beside s p hv
    left
    intro v hv'
    exact lt_of_lt_of_le hx1 (hbb v hv').1
  · apply contains_point_false_beside s p hv
    right
    intro v hv'
    exact lt_of_le_of_lt (hbb v hv').2.1 hx2
  · exact contains_point_false_above_below s p (Or.inl hy1)
  · exact contains_point_false_above_below s p (Or.inr hy2)

/-- The theorem `contains_point_false_outside_bounding_box` at the triangle
`(0, 0) (4, 0) (0, 3)` and the points `(-1, 1)`, to the left of it, and `(1, 4)`, above
it. -/
theorem contains_point_false_outside_bounding_box_witness :
    (∀ v ∈ (PolygonShape.mk [⟨0, 0⟩, ⟨4, 0⟩, ⟨0, 3⟩] Pen.new).points_,
      v.is_integral_within (2 ^ 20)) ∧
    (PolygonShape.mk [⟨0, 0⟩, ⟨4, 0⟩, ⟨0, 3⟩] Pen.new).bounding_box.contains ⟨-1, 1⟩ = false ∧
    (PolygonShape.mk [⟨0, 0⟩, ⟨4, 0⟩, ⟨0, 3⟩] Pen.new).contains_point ⟨-1, 1⟩ = false ∧
    (PolygonShape.mk [⟨0, 0⟩, ⟨4, 0⟩, ⟨0, 3⟩] Pen.new).bounding_box.y2 < (4 : ℚ) ∧
    (PolygonShape.mk [⟨0, 0⟩, ⟨4, 0⟩, ⟨0, 3⟩] Pen.new).contains_point ⟨1, 4⟩ = false :=
  have hv : ∀ v ∈ (PolygonShape.mk [⟨0, 0⟩, ⟨4, 0⟩, ⟨0, 3⟩] Pen.new).points_,
      v.is_integral_within (2 ^ 20) := by
    intro v hv
    simp only [List.mem_cons, List.mem_singleton, List.not_mem_nil, or_false] at hv
    rcases hv with rfl | rfl | rfl <;>
      (unfold Point.is_integral_within is_integer_within; norm_num)
  have hb : (PolygonShape.mk [⟨0, 0⟩, ⟨4, 0⟩, ⟨0, 3⟩] Pen.new).bounding_box.contains ⟨-1, 1⟩ =
      false := by with_unfolding_all decide
  have hy : (PolygonShape.mk [⟨0, 0⟩, ⟨4, 0⟩, ⟨0, 3⟩] Pen.new).bounding_box.y2 < (4 : ℚ) := by
    with_unfolding_all decide
  ⟨hv, hb,
    contains_point_false_outside_bounding_box.2 _ ⟨-1, 1⟩ hv hb, hy,
    contains_point_false_outside_bounding_box.1 _ ⟨1, 4⟩ (Or.inr hy)⟩

end XDot
end XDotCpp

namespace XDotCpp
namespace XDot

/-- The points of `slanted_triangle` are the doubles nearest to the decimal numbers, and the
coordinates of `right_of_slanted_triangle` are doubles. -/
theorem slanted_triangle_doubles :
    slanted_triangle.points_ =
      [⟨round_double (178 / 10), round_double (6228 / 100)⟩,
       ⟨round_double (2365 / 100), round_double (9994 / 100)⟩,
       ⟨round_double (6011 / 100), round_double (425 / 100)⟩] ∧
    round_double right_of_slanted_triangle.x = right_of_slanted_triangle.x ∧
    round_double right_of_slanted_triangle.y = right_of_slanted_triangle.y := by
  have e1 : round_double ((178 : ℚ) / 10) = ((5010254585449677 : ℚ) / 281474976710656) := by
    rw [round_double_eval_pos ((178 : ℚ) / 10) 5010254585449677 48 (by norm_num) (by norm_num) (by norm_num)
      (round_half_even_between _ 5010254585449677 (by norm_num) (by norm_num))]
    norm_num
  have e2 : round_double ((6228 : ℚ) / 100) = ((2191282693692457 : ℚ) / 35184372088832) := by
    rw [round_double_eval_pos ((6228 : ℚ) / 100) 8765130774769828 47 (by norm_num) (by norm_num) (by norm_num)
      (round_half_even_between _ 8765130774769828 (by norm_num) (by norm_num))]
    norm_num
  have e3 : round_double ((2365 : ℚ) / 100) = ((3328441599603507 : ℚ) / 140737488355328) := by
    rw [round_double_eval_pos ((2365 : ℚ) / 100) 6656883199207014 48 (by norm_num) (by norm_num) (by norm_num)
      (round_half_even_between _ 6656883199207014 (by norm_num) (by norm_num))]
    norm_num
  have e4 : round_double ((9994 : ℚ) / 100) = ((1758163073278935 : ℚ) / 17592186044416) := by
    rw [round_double_eval_pos ((9994 : ℚ) / 100) 7032652293115740 46 (by norm_num) (by norm_num) (by norm_num)
      (round_half_even_between _ 7032652293115740 (by norm_num) (by norm_num))]
    norm_num
  have e5 : round_double ((6011 : ℚ) / 100) = ((4229865212519383 : ℚ) / 70368744177664) := by
    rw [round_double_eval_pos ((6011 : ℚ) / 100) 8459730425038766 47 (by norm_num) (by norm_num) (by norm_num)
      (round_half_even_between _ 8459730425038766 (by norm_num) (by norm_num))]
    norm_num
  have e6 : round_double ((425 : ℚ) / 100) = ((17 : ℚ) / 4) := by
    rw [round_double_eval_pos ((425 : ℚ) / 100) 4785074604081152 50 (by norm_num) (by norm_num) (by norm_num)
      (round_half_even_between _ 4785074604081152 (by norm_num) (by norm_num))]
    norm_num
  have e7 : round_double ((8459730425038767 : ℚ) / 140737488355328) = ((8459730425038767 : ℚ) / 140737488355328) := by
    rw [round_double_eval_pos ((8459730425038767 : ℚ) / 140737488355328) 8459730425038767 47 (by norm_num) (by norm_num) (by norm_num)
      (round_half_even_between _ 8459730425038767 (by norm_num) (by norm_num))]
    norm_num
  have e8 : round_double ((4785074604081153 : ℚ) / 1125899906842624) = ((4785074604081153 : ℚ) / 1125899906842624) := by
    rw [round_double_eval_pos ((4785074604081153 : ℚ) / 1125899906842624) 4785074604081153 50 (by norm_num) (by norm_num) (by norm_num)
      (round_half_even_between _ 4785074604081153 (by norm_num) (by norm_num))]
    norm_num
  refine ⟨?_, e7, e8⟩
  rw [e1, e2, e3, e4, e5, e6]
  rfl

/-- C10 as stated fails on the triangle `(17.8, 62.28) (23.65, 99.94) (60.11, 4.25)`: the
point `(60.110000000000007, 4.2500000000000009)` lies to the right of the box of
`bounding_box`, whose right edge is at the third vertex, and `contains_point` is true
there: the edge from the third to the first vertex is computed to meet the line through
the point at `60.110000000000014`, to the right of the point. -/
theorem contains_point_true_outside_bounding_box :
    slanted_triangle.bounding_box.contains right_of_slanted_triangle = false ∧
    slanted_triangle.contains_point right_of_slanted_triangle = true ∧
    crossing_abscissa right_of_slanted_triangle
      ⟨(5010254585449677 : ℚ) / 281474976710656, (2191282693692457 : ℚ) / 35184372088832⟩
      ⟨(4229865212519383 : ℚ) / 70368744177664, (17 : ℚ) / 4⟩ =
        ((528733151564923 : ℚ) / 8796093022208) := by
  have e1 : double_sub ((4229865212519383 : ℚ) / 70368744177664) ((5010254585449677 : ℚ) / 281474976710656) = ((744325391539241 : ℚ) / 17592186044416) := by
    unfold double_sub
    rw [round_double_eval_pos (((4229865212519383 : ℚ) / 70368744177664) - ((5010254585449677 : ℚ) / 281474976710656)) 5954603132313928 47 (by norm_num) (by norm_num) (by norm_num)
      (round_half_even_tie_up _ 5954603132313928 (by norm_num) (by norm_num))]
    norm_num
  have e2 : double_sub ((4785074604081153 : ℚ) / 1125899906842624) ((2191282693692457 : ℚ) / 35184372088832) = (-((2041749112314921 : ℚ) / 35184372088832)) := by
    unfold double_sub
    rw [round_double_eval_neg (((4785074604081153 : ℚ) / 1125899906842624) - ((2191282693692457 : ℚ) / 35184372088832)) 8166996449259684 47 (by norm_num) (by norm_num) (by norm_num)
      (round_half_even_between _ 8166996449259684 (by norm_num) (by norm_num))]
    norm_num
  have e3 : double_mul ((744325391539241 : ℚ) / 17592186044416) (-((2041749112314921 : ℚ) / 35184372088832)) = (-((2699575154438885 : ℚ) / 1099511627776)) := by
    unfold double_mul
    rw [round_double_eval_neg (((744325391539241 : ℚ) / 17592186044416) * (-((2041749112314921 : ℚ) / 35184372088832))) 5399150308877770 41 (by norm_num) (by norm_num) (by norm_num)
      (round_half_even_between _ 5399150308877770 (by norm_num) (by norm_num))]
    norm_num
  have e4 : double_sub ((17 : ℚ) / 4) ((2191282693692457 : ℚ) / 35184372088832) = (-((2041749112314921 : ℚ) / 35184372088832)) := by
    unfold double_sub
    rw [round_double_eval_neg (((17 : ℚ) / 4) - ((2191282693692457 : ℚ) / 35184372088832)) 8166996449259684 47 (by norm_num) (by norm_num) (by norm_num)
      (round_half_even_between _ 8166996449259684 (by norm_num) (by norm_num))]
    norm_num
  have e5 : double_div (-((2699575154438885 : ℚ) / 1099511627776)) (-((2041749112314921 : ℚ) / 35184372088832)) = ((5954603132313929 : ℚ) / 140737488355328) := by
    unfold double_div
    rw [round_double_eval_pos ((-((2699575154438885 : ℚ) / 1099511627776)) / (-((2041749112314921 : ℚ) / 35184372088832))) 5954603132313929 47 (by norm_num) (by norm_num) (by norm_num)
      (round_half_even_between _ 5954603132313929 (by norm_num) (by norm_num))]
    norm_num
  have e6 : double_add ((5954603132313929 : ℚ) / 140737488355328) ((5010254585449677 : ℚ) / 281474976710656) = ((528733151564923 : ℚ) / 8796093022208) := by
    unfold double_add
    rw [round_double_eval_pos (((5954603132313929 : ℚ) / 140737488355328) + ((5010254585449677 : ℚ) / 281474976710656)) 8459730425038768 47 (by norm_num) (by norm_num) (by norm_num)
      (round_half_even_tie_up _ 8459730425038768 (by norm_num) (by norm_num))]
    norm_num
  have e7 : double_sub ((3328441599603507 : ℚ) / 140737488355328) ((4229865212519383 : ℚ) / 70368744177664) = (-((5131288825435259 : ℚ) / 140737488355328)) := by
    unfold double_sub
    rw [round_double_eval_neg (((3328441599603507 : ℚ) / 140737488355328) - ((4229865212519383 : ℚ) / 70368744177664)) 5131288825435259 47 (by norm_num) (by norm_num) (by norm_num)
      (round_half_even_between _ 5131288825435259 (by norm_num) (by norm_num))]
    norm_num
  have e8 : double_sub ((4785074604081153 : ℚ) / 1125899906842624) ((17 : ℚ) / 4) = ((1 : ℚ) / 1125899906842624) := by
    unfold double_sub
    rw [round_double_eval_pos (((4785074604081153 : ℚ) / 1125899906842624) - ((17 : ℚ) / 4)) 4503599627370496 102 (by norm_num) (by norm_num) (by norm_num)
      (round_half_even_between _ 4503599627370496 (by norm_num) (by norm_num))]
    norm_num
  have e9 : double_mul (-((5131288825435259 : ℚ) / 140737488355328)) ((1 : ℚ) / 1125899906842624) = (-((5131288825435259 : ℚ) / 158456325028528675187087900672)) := by
    unfold double_mul
    rw [round_double_eval_neg ((-((5131288825435259 : ℚ) / 140737488355328)) * ((1 : ℚ) / 1125899906842624)) 5131288825435259 97 (by norm_num) (by norm_num) (by norm_num)
      (round_half_even_between _ 5131288825435259 (by norm_num) (by norm_num))]
    norm_num
  have e10 : double_sub ((1758163073278935 : ℚ) / 17592186044416) ((17 : ℚ) / 4) = ((1683396282590167 : ℚ) / 17592186044416) := by
    unfold double_sub
    rw [round_double_eval_pos (((1758163073278935 : ℚ) / 17592186044416) - ((17 : ℚ) / 4)) 6733585130360668 46 (by norm_num) (by norm_num) (by norm_num)
      (round_half_even_between _ 6733585130360668 (by norm_num) (by norm_num))]
    norm_num
  have e11 : double_div (-((5131288825435259 : ℚ) / 158456325028528675187087900672)) ((1683396282590167 : ℚ) / 17592186044416) = (-((3431941528141463 : ℚ) / 10141204801825835211973625643008)) := by
    unfold double_div
    rw [round_double_eval_neg ((-((5131288825435259 : ℚ) / 158456325028528675187087900672)) / ((1683396282590167 : ℚ) / 17592186044416)) 6863883056282926 104 (by norm_num) (by norm_num) (by norm_num)
      (round_half_even_between _ 6863883056282926 (by norm_num) (by norm_num))]
    norm_num
  have e12 : double_add (-((3431941528141463 : ℚ) / 10141204801825835211973625643008)) ((4229865212519383 : ℚ) / 70368744177664) = ((4229865212519383 : ℚ) / 70368744177664) := by
    unfold double_add
    rw [round_double_eval_pos ((-((3431941528141463 : ℚ) / 10141204801825835211973625643008)) + ((4229865212519383 : ℚ) / 70368744177664)) 8459730425038766 47 (by norm_num) (by norm_num) (by norm_num)
      (round_half_even_between _ 8459730425038766 (by norm_num) (by norm_num))]
    norm_num
  refine ⟨?_, ?_, ?_⟩
  · simp only [PolygonShape.bounding_box, slanted_triangle, bounding_box_loop,
      BoundingBox.contains, right_of_slanted_triangle]
    norm_num
  · simp only [PolygonShape.contains_point, slanted_triangle, right_of_slanted_triangle,
      contains_point_loop, crossing_abscissa, List.length_cons, List.length_nil,
      List.getD_cons_succ, List.getD_cons_zero, e1, e2, e3, e4, e5, e6, e7, e8, e9, e10, e11, e12]
    norm_num
  · simp only [crossing_abscissa, right_of_slanted_triangle, e1, e2, e3, e4, e5, e6, e7, e8, e9, e10, e11, e12]

end XDot
end XDotCpp

namespace XDotCpp
namespace XDot

/-! ## The ray cast of `PolygonShape::contains_point` at the centroid -/

/-- The flag at the end of the loop of `contains_point` records the parity of the number of
edges that toggle it. -/
theorem contains_point_loop_parity (p : Point) (pts : List Point) :
    ∀ (pj : Point) (inside : Bool),
      contains_point_loop p pts pj inside =
        (inside != decide ((List.zip (pj :: pts) pts).countP (toggles p) % 2 = 1)) := by
  induction pts with
  | nil => intro pj inside; simp [contains_point_loop]
  | cons a pts ih =>
    intro pj inside
    rw [contains_point_loop, ih]
    simp only [List.zip_cons_cons, List.countP_cons]
    have ht : toggles p (pj, a) = ((decide (a.y > p.y) != decide (pj.y > p.y)) &&
        decide (p.x < crossing_abscissa p a pj)) := rfl
    rw [← ht]
    generalize (List.zip (a :: pts) pts).countP (toggles p) = n
    rcases Nat.mod_two_eq_zero_or_one n with h | h <;>
      cases toggles p (pj, a) <;> cases inside <;> simp [Nat.add_mod, h]

/-- The method `contains_point` on a polygon with exactly one toggling edge. -/
theorem contains_point_of_count_one (s : PolygonShape) (p : Point) (h3 : 3 ≤ s.points_.length)
    (h : (polygon_edges s.points_).countP (toggles p) = 1) : s.contains_point p = true := by
  have hne : s.points_ ≠ [] := by
    intro h0; rw [h0] at h3; simp at h3
  unfold PolygonShape.contains_point
  rw [if_neg (by omega), contains_point_loop_parity,
    getD_last_eq_getLastD s.points_ hne ⟨0, 0⟩ ⟨0, 0⟩]
  unfold polygon_edges at h
  rw [h]
  rfl


/-- The distance from `p` to the crossing of the edge with the horizontal line through `p`,
in terms of the side of the edge on which `p` lies. -/
theorem crossing_sub (p a b : Point) (h : a.y - b.y ≠ 0) :
    (a.x - b.x) * (p.y - b.y) / (a.y - b.y) + b.x - p.x = -orient a b p / (a.y - b.y) := by
  unfold orient
  field_simp
  ring

/-- With `p` strictly to the left of an edge, the edge crosses to the right of `p` exactly when it
leads from a vertex that is not above `p` to a vertex above `p`. -/
theorem crosses_left (p : Point) (e : Point × Point) (h : 0 < orient e.1 e.2 p) :
    crosses_right_of p e = enters (fun v => decide (v.y > p.y)) e := by
  obtain ⟨a, b⟩ := e
  simp only at h
  unfold crosses_right_of enters
  simp only
  by_cases hb : b.y > p.y <;> by_cases ha : a.y > p.y
  · simp [ha, hb]
  · have hd : a.y - b.y < 0 := by linarith
    have := crossing_sub p a b (ne_of_lt hd)
    have hpos : 0 < -orient a b p / (a.y - b.y) := div_pos_of_neg_of_neg (by linarith) hd
    have hx : p.x < (a.x - b.x) * (p.y - b.y) / (a.y - b.y) + b.x := by linarith
    simp [ha, hb, hx]
  · have hd : 0 < a.y - b.y := by linarith
    have := crossing_sub p a b (ne_of_gt hd)
    have hneg : -orient a b p / (a.y - b.y) < 0 := div_neg_of_neg_of_pos (by linarith) hd
    simp only [ha, hb, decide_True, decide_False, Bool.not_true, Bool.false_and, Bool.and_false,
      Bool.and_eq_false_imp, bne_iff_ne, ne_eq, decide_eq_false_iff_not, not_lt]
    intro _
    linarith
  · simp [ha, hb]

/-- With `p` strictly to the right of an edge, the edge crosses to the right of `p` exactly when it
leads from a vertex above `p` to a vertex that is not above `p`. -/
theorem crosses_right (p : Point) (e : Point × Point) (h : orient e.1 e.2 p < 0) :
    crosses_right_of p e = enters (fun v => !decide (v.y > p.y)) e := by
  obtain ⟨a, b⟩ := e
  simp only at h
  unfold crosses_right_of enters
  simp only
  by_cases hb : b.y > p.y <;> by_cases ha : a.y > p.y
  · simp [ha, hb]
  · have hd : a.y - b.y < 0 := by linarith
    have := crossing_sub p a b (ne_of_lt hd)
    have hneg : -orient a b p / (a.y - b.y) < 0 := div_neg_of_pos_of_neg (by linarith) hd
    simp only [ha, hb, decide_True, decide_False, Bool.not_true, Bool.not_false, Bool.false_and,
      Bool.and_false, Bool.and_eq_false_imp, bne_iff_ne, ne_eq, decide_eq_false_iff_not, not_lt]
    intro _
    linarith
  · have hd : 0 < a.y - b.y := by linarith
    have := crossing_sub p a b (ne_of_gt hd)
    have hpos : 0 < -orient a b p / (a.y - b.y) := div_pos (by linarith) hd
    have hx : p.x < (a.x - b.x) * (p.y - b.y) / (a.y - b.y) + b.x := by linarith
    simp [ha, hb, hx]
  · simp [ha, hb]


/-- Two edges that both lead upwards across the horizontal line at height `h` cannot each
have the ends of the other strictly on its left. -/
theorem two_edges_up (a b c d : Point) (h : ℚ) (ha : a.y ≤ h) (hb : h < b.y) (hc : c.y ≤ h)
    (hd : h < d.y) (h1 : 0 < orient a b c) (h2 : 0 < orient a b d) (h3 : 0 < orient c d a)
    (h4 : 0 < orient c d b) : False := by
  have e : (d.y - h) * orient a b c + (h - c.y) * orient a b d +
      ((b.y - h) * orient c d a + (h - a.y) * orient c d b) = 0 := by
    unfold orient; ring
  have p1 : 0 < (d.y - h) * orient a b c := mul_pos (by linarith) h1
  have p2 : 0 ≤ (h - c.y) * orient a b d := mul_nonneg (by linarith) (le_of_lt h2)
  have p3 : 0 < (b.y - h) * orient c d a := mul_pos (by linarith) h3
  have p4 : 0 ≤ (h - a.y) * orient c d b := mul_nonneg (by linarith) (le_of_lt h4)
  linarith

/-- Two edges that both lead downwards across the horizontal line at height `h` cannot each
have the ends of the other strictly on its right. -/
theorem two_edges_down (a b c d : Point) (h : ℚ) (ha : h < a.y) (hb : b.y ≤ h) (hc : h < c.y)
    (hd : d.y ≤ h) (h1 : orient a b c < 0) (h2 : orient a b d < 0) (h3 : orient c d a < 0)
    (h4 : orient c d b < 0) : False := by
  have e : (d.y - h) * orient a b c + (h - c.y) * orient a b d +
      ((b.y - h) * orient c d a + (h - a.y) * orient c d b) = 0 := by
    unfold orient; ring
  have p1 : 0 ≤ (d.y - h) * orient a b c := mul_nonneg_of_nonpos_of_nonpos (by linarith) (le_of_lt h1)
  have p2 : 0 < (h - c.y) * orient a b d := mul_pos_of_neg_of_neg (by linarith) h2
  have p3 : 0 ≤ (b.y - h) * orient c d a := mul_nonneg_of_nonpos_of_nonpos (by linarith) (le_of_lt h3)
  have p4 : 0 < (h - a.y) * orient c d b := mul_pos_of_neg_of_neg (by linarith) h4
  linarith

/-- Along a run of vertices in which no edge enters the set `b`, membership in `b` is
inherited backwards. -/
theorem no_enter_backwards (b : Point → Bool) (pts : List Point) :
    ∀ prev : Point, (∀ e ∈ List.zip (prev :: pts) pts, enters b e = false) →
      (∀ y ∈ pts, b y = true → b prev = true) ∧
      (b (pts.getLastD prev) = true → ∀ y ∈ pts, b y = true) := by
  induction pts with
  | nil => intro prev _; simp
  | cons a pts ih =>
    intro prev h
    have h0 : enters b (prev, a) = false := h (prev, a) (by simp)
    have hrest : ∀ e ∈ List.zip (a :: pts) pts, enters b e = false := by
      intro e he
      exact h e (by simp [he])
    obtain ⟨i1, i2⟩ := ih a hrest
    have step : b a = true → b prev = true := by
      intro hba
      cases hp : b prev
      · simp [enters, hp, hba] at h0
      · rfl
    constructor
    · intro y hy hby
      rcases List.mem_cons.1 hy with rfl | hy
      · exact step hby
      · exact step (i1 y hy hby)
    · intro hl y hy
      rw [List.getLastD_cons] at hl
      cases pts with
      | nil =>
        simp only [List.getLastD_nil] at hl
        rcases List.mem_cons.1 hy with rfl | hy
        · exact hl
        · cases hy
      | cons c cs =>
        have hall := i2 hl
        rcases List.mem_cons.1 hy with rfl | hy
        · exact i1 c (List.mem_cons_self _ _) (hall c (List.mem_cons_self _ _))
        · exact hall y hy

/-- A polygon with a vertex in the set `b` and a vertex outside it has an edge that enters
the set. -/
theorem exists_entering_edge (b : Point → Bool) (pts : List Point) (u w : Point)
    (hu : u ∈ pts) (hbu : b u = true) (hw : w ∈ pts) (hbw : b w = false) :
    ∃ e ∈ polygon_edges pts, enters b e = true := by
  by_contra hno
  have hall : ∀ e ∈ List.zip (pts.getLastD ⟨0, 0⟩ :: pts) pts, enters b e = false := by
    intro e he
    cases hen : enters b e
    · rfl
    · exact absurd ⟨e, he, hen⟩ hno
  obtain ⟨i1, i2⟩ := no_enter_backwards b pts (pts.getLastD ⟨0, 0⟩) hall
  have hlast : b (pts.getLastD ⟨0, 0⟩) = true := i1 u hu hbu
  have hne : pts ≠ [] := List.ne_nil_of_mem hu
  have hl2 : pts.getLastD (pts.getLastD ⟨0, 0⟩) = pts.getLastD ⟨0, 0⟩ := by
    simp [List.getLastD_eq_getLast?, List.getLast?_eq_getLast _ hne]
  rw [← hl2] at hlast
  have := i2 hlast w hw
  rw [hbw] at this
  cases this


/-- In a list without repetition, a property that any two of its elements share only when
they are equal holds for at most one element. -/
theorem countP_le_one {α : Type} (P : α → Bool) (l : List α) (hn : l.Nodup)
    (h : ∀ x ∈ l, ∀ y ∈ l, P x = true → P y = true → x = y) : l.countP P ≤ 1 := by
  induction l with
  | nil => simp
  | cons a l ih =>
    have hal : a ∉ l := (List.nodup_cons.1 hn).1
    have hl : l.Nodup := (List.nodup_cons.1 hn).2
    have ih1 := ih hl (fun x hx y hy => h x (List.mem_cons_of_mem _ hx) y (List.mem_cons_of_mem _ hy))
    rw [List.countP_cons]
    by_cases hPa : P a = true
    · have h0 : l.countP P = 0 := by
        rw [List.countP_eq_zero]
        intro y hy hPy
        have := h a (List.mem_cons_self _ _) y (List.mem_cons_of_mem _ hy) hPa hPy
        exact hal (this ▸ hy)
      simp [h0, hPa]
    · simp [hPa, ih1]

/-- The edges of a polygon with pairwise distinct vertices are pairwise distinct. -/
theorem polygon_edges_nodup (pts : List Point) (h : pts.Nodup) : (polygon_edges pts).Nodup := by
  apply List.Nodup.of_map Prod.snd
  unfold polygon_edges
  rw [List.map_snd_zip]
  · exact h
  · simp

/-- The ends of an edge of a polygon are vertices of the polygon. -/
theorem polygon_edges_mem (pts : List Point) (e : Point × Point) (h : e ∈ polygon_edges pts) :
    e.1 ∈ pts ∧ e.2 ∈ pts := by
  obtain ⟨a, b⟩ := e
  have h2 : b ∈ pts := (List.of_mem_zip h).2
  have h1 : a ∈ pts.getLastD ⟨0, 0⟩ :: pts := (List.of_mem_zip h).1
  have hne : pts ≠ [] := List.ne_nil_of_mem h2
  refine ⟨?_, h2⟩
  rcases List.mem_cons.1 h1 with h1 | h1
  · rw [h1, List.getLastD_eq_getLast?, List.getLast?_eq_getLast _ hne]
    exact List.getLast_mem hne
  · exact h1

theorem orient_swap (a b c : Point) : orient a c b = -orient a b c := by
  unfold orient; ring

theorem orient_swap_first (a b c : Point) : orient c b a = -orient a b c := by
  unfold orient; ring

/-- In a polygon whose vertices lie strictly to the left of the edges, at most one edge
leads upwards across the horizontal line at height `h`. -/
theorem at_most_one_up (pts : List Point) (h : ℚ) (hn : pts.Nodup)
    (hc : ∀ e ∈ polygon_edges pts, ∀ c ∈ pts, c ≠ e.1 → c ≠ e.2 → 0 < orient e.1 e.2 c) :
    (polygon_edges pts).countP (enters (fun v => decide (v.y > h))) ≤ 1 := by
  apply countP_le_one _ _ (polygon_edges_nodup pts hn)
  rintro ⟨a, b⟩ he1 ⟨c, d⟩ he2 h1 h2
  simp only [enters, Bool.and_eq_true, Bool.not_eq_true', decide_eq_false_iff_not,
    decide_eq_true_eq, gt_iff_lt, not_lt] at h1 h2
  obtain ⟨ha, hb⟩ := h1
  obtain ⟨hc1, hd⟩ := h2
  obtain ⟨ma, mb⟩ := polygon_edges_mem pts _ he1
  obtain ⟨mc, md⟩ := polygon_edges_mem pts _ he2
  have hbc : b ≠ c := by rintro rfl; linarith
  have hda : d ≠ a := by rintro rfl; linarith
  by_contra hne
  by_cases hac : a = c
  · subst hac
    have hbd : b ≠ d := by rintro rfl; exact hne rfl
    have o1 := hc _ he1 d md hda (Ne.symm hbd)
    have o2 := hc _ he2 b mb hbc hbd
    simp only at o1 o2
    rw [orient_swap] at o2
    linarith
  · by_cases hbd : b = d
    · subst hbd
      have o1 := hc _ he1 c mc (Ne.symm hac) (Ne.symm hbc)
      have o2 := hc _ he2 a ma hac (Ne.symm hda)
      simp only at o1 o2
      rw [orient_swap_first] at o2
      linarith
    · have o1 := hc _ he1 c mc (Ne.symm hac) (Ne.symm hbc)
      have o2 := hc _ he1 d md hda (Ne.symm hbd)
      have o3 := hc _ he2 a ma hac (Ne.symm hda)
      have o4 := hc _ he2 b mb hbc hbd
      exact two_edges_up a b c d h ha hb hc1 hd o1 o2 o3 o4

/-- In a polygon whose vertices lie strictly to the right of the edges, at most one edge
leads downwards across the horizontal line at height `h`. -/
theorem at_most_one_down (pts : List Point) (h : ℚ) (hn : pts.Nodup)
    (hc : ∀ e ∈ polygon_edges pts, ∀ c ∈ pts, c ≠ e.1 → c ≠ e.2 → orient e.1 e.2 c < 0) :
    (polygon_edges pts).countP (enters (fun v => !decide (v.y > h))) ≤ 1 := by
  apply countP_le_one _ _ (polygon_edges_nodup pts hn)
  rintro ⟨a, b⟩ he1 ⟨c, d⟩ he2 h1 h2
  simp only [enters, Bool.and_eq_true, Bool.not_eq_true', decide_eq_false_iff_not,
    decide_eq_true_eq, gt_iff_lt, not_lt, Bool.not_not] at h1 h2
  obtain ⟨ha, hb⟩ := h1
  obtain ⟨hc1, hd⟩ := h2
  obtain ⟨ma, mb⟩ := polygon_edges_mem pts _ he1
  obtain ⟨mc, md⟩ := polygon_edges_mem pts _ he2
  have hbc : b ≠ c := by rintro rfl; linarith
  have hda : d ≠ a := by rintro rfl; linarith
  by_contra hne
  by_cases hac : a = c
  · subst hac
    have hbd : b ≠ d := by rintro rfl; exact hne rfl
    have o1 := hc _ he1 d md hda (Ne.symm hbd)
    have o2 := hc _ he2 b mb hbc hbd
    simp only at o1 o2
    rw [orient_swap] at o2
    linarith
  · by_cases hbd : b = d
    · subst hbd
      have o1 := hc _ he1 c mc (Ne.symm hac) (Ne.symm hbc)
      have o2 := hc _ he2 a ma hac (Ne.symm hda)
      simp only at o1 o2
      rw [orient_swap_first] at o2
      linarith
    · have o1 := hc _ he1 c mc (Ne.symm hac) (Ne.symm hbc)
      have o2 := hc _ he1 d md hda (Ne.symm hbd)
      have o3 := hc _ he2 a ma hac (Ne.symm hda)
      have o4 := hc _ he2 b mb hbc hbd
      exact two_edges_down a b c d h ha hb hc1 hd o1 o2 o3 o4


/-- The sum of an affine function over the vertices. -/
theorem sum_affine (α β γ : ℚ) (pts : List Point) :
    (pts.map (fun v => α * v.x + β * v.y + γ)).sum =
      α * (pts.map (fun v => v.x)).sum + β * (pts.map (fun v => v.y)).sum + pts.length * γ := by
  induction pts with
  | nil => simp
  | cons a l ih =>
    simp only [List.map_cons, List.sum_cons, List.length_cons, ih]
    push_cast
    ring

/-- The orientation of the centroid against an edge is the mean of the orientations of the
vertices. -/
theorem orient_centroid (a b : Point) (pts : List Point) (hne : pts ≠ []) :
    (pts.length : ℚ) * orient a b (centroid pts) = (pts.map (orient a b)).sum := by
  have hlen : (pts.length : ℚ) ≠ 0 := by
    have : pts.length ≠ 0 := fun h => hne (List.length_eq_zero.1 h)
    exact_mod_cast this
  have e : orient a b = fun v : Point =>
      (-(b.y - a.y)) * v.x + (b.x - a.x) * v.y +
        ((b.y - a.y) * a.x - (b.x - a.x) * a.y) := by
    funext v; unfold orient; ring
  rw [e, sum_affine]
  simp only [centroid]
  field_simp
  ring

/-- A sum of non-negative terms one of which is positive is positive. -/
theorem sum_pos_of_mem {α : Type} (f : α → ℚ) (l : List α) (h0 : ∀ x ∈ l, 0 ≤ f x)
    (x : α) (hx : x ∈ l) (hpos : 0 < f x) : 0 < (l.map f).sum := by
  induction l with
  | nil => cases hx
  | cons a l ih =>
    have hl : 0 ≤ (l.map f).sum :=
      List.sum_nonneg (by
        intro y hy
        obtain ⟨z, hz, rfl⟩ := List.mem_map.1 hy
        exact h0 z (List.mem_cons_of_mem _ hz))
    rw [List.map_cons, List.sum_cons]
    rcases List.mem_cons.1 hx with rfl | hx
    · linarith
    · have := ih (fun y hy => h0 y (List.mem_cons_of_mem _ hy)) hx
      have := h0 a (List.mem_cons_self _ _)
      linarith

/-- Among at least three pairwise distinct vertices there is one apart from two given
points. -/
theorem exists_third (pts : List Point) (a b : Point) (h3 : 3 ≤ pts.length) (hn : pts.Nodup) :
    ∃ c ∈ pts, c ≠ a ∧ c ≠ b := by
  by_contra hno
  have hsub : pts ⊆ [a, b] := by
    intro c hc
    by_contra hcab
    simp only [List.mem_cons, List.mem_singleton, List.not_mem_nil, or_false, not_or] at hcab
    exact hno ⟨c, hc, hcab.1, hcab.2⟩
  have := (List.Nodup.subperm hn hsub).length_le
  simp at this
  omega

theorem orient_first (a b : Point) : orient a b a = 0 := by unfold orient; ring

theorem orient_second (a b : Point) : orient a b b = 0 := by unfold orient; ring

/-- The centroid of a polygon whose vertices lie strictly to the left of the edges lies
strictly to the left of every edge. -/
theorem centroid_left (pts : List Point) (h3 : 3 ≤ pts.length) (hn : pts.Nodup)
    (hc : ∀ e ∈ polygon_edges pts, ∀ c ∈ pts, c ≠ e.1 → c ≠ e.2 → 0 < orient e.1 e.2 c)
    (e : Point × Point) (he : e ∈ polygon_edges pts) : 0 < orient e.1 e.2 (centroid pts) := by
  have hne : pts ≠ [] := by rintro rfl; simp at h3
  have hlen : (0 : ℚ) < pts.length := by
    have : 0 < pts.length := by omega
    exact_mod_cast this
  obtain ⟨c, mc, hca, hcb⟩ := exists_third pts e.1 e.2 h3 hn
  have hsum : 0 < (pts.map (orient e.1 e.2)).sum := by
    apply sum_pos_of_mem _ _ _ c mc (hc e he c mc hca hcb)
    intro x hx
    by_cases hxa : x = e.1
    · rw [hxa, orient_first]
    · by_cases hxb : x = e.2
      · rw [hxb, orient_second]
      · exact le_of_lt (hc e he x hx hxa hxb)
  rw [← orient_centroid _ _ _ hne] at hsum
  by_contra hle
  have : (pts.length : ℚ) * orient e.1 e.2 (centroid pts) ≤ 0 :=
    mul_nonpos_of_nonneg_of_nonpos hlen.le (not_lt.1 hle)
  linarith

/-- The centroid of a polygon whose vertices lie strictly to the right of the edges lies
strictly to the right of every edge. -/
theorem centroid_right (pts : List Point) (h3 : 3 ≤ pts.length) (hn : pts.Nodup)
    (hc : ∀ e ∈ polygon_edges pts, ∀ c ∈ pts, c ≠ e.1 → c ≠ e.2 → orient e.1 e.2 c < 0)
    (e : Point × Point) (he : e ∈ polygon_edges pts) : orient e.1 e.2 (centroid pts) < 0 := by
  have hne : pts ≠ [] := by rintro rfl; simp at h3
  have hlen : (0 : ℚ) < pts.length := by
    have : 0 < pts.length := by omega
    exact_mod_cast this
  obtain ⟨c, mc, hca, hcb⟩ := exists_third pts e.1 e.2 h3 hn
  have hsum : 0 < (pts.map (fun v => -orient e.1 e.2 v)).sum := by
    apply sum_pos_of_mem (fun v => -orient e.1 e.2 v) _ _ c mc
      (by have := hc e he c mc hca hcb; simp only; linarith)
    intro x hx
    by_cases hxa : x = e.1
    · simp only [hxa, orient_first]; norm_num
    · by_cases hxb : x = e.2
      · simp only [hxb, orient_second]; norm_num
      · have := hc e he x hx hxa hxb
        simp only; linarith
  have hneg : (pts.map (fun v => -orient e.1 e.2 v)).sum = -(pts.map (orient e.1 e.2)).sum := by
    clear hsum hc hn h3 hne hlen mc he
    induction pts with
    | nil => simp
    | cons a l ih => simp only [List.map_cons, List.sum_cons, ih]; ring
  rw [hneg, ← orient_centroid _ _ _ hne] at hsum
  by_contra hge
  have : 0 ≤ (pts.length : ℚ) * orient e.1 e.2 (centroid pts) :=
    mul_nonneg hlen.le (not_lt.1 hge)
  linarith


/-- The heights of the vertices sum up to the height of the centroid, once for each
vertex. -/
theorem sum_heights (pts : List Point) (hne : pts ≠ []) :
    (pts.map (fun v => v.y)).sum = pts.length * (centroid pts).y := by
  have hlen : (pts.length : ℚ) ≠ 0 := by
    have : pts.length ≠ 0 := fun h => hne (List.length_eq_zero.1 h)
    exact_mod_cast this
  simp only [centroid]
  field_simp

/-- The sum of the distances of the heights from a bound `m` above all of them. -/
theorem sum_gap (m : ℚ) (pts : List Point) :
    (pts.map (fun v => m - v.y)).sum = pts.length * m - (pts.map (fun v => v.y)).sum := by
  induction pts with
  | nil => simp
  | cons a l ih =>
    simp only [List.map_cons, List.sum_cons, List.length_cons, ih]
    push_cast
    ring

/-- Some vertex is not above the centroid. -/
theorem exists_not_above (pts : List Point) (hne : pts ≠ []) :
    ∃ w ∈ pts, decide (w.y > (centroid pts).y) = false := by
  by_contra hno
  have hall : ∀ w ∈ pts, (centroid pts).y < w.y := by
    intro w hw
    by_contra hle
    exact hno ⟨w, hw, by simpa using hle⟩
  obtain ⟨a, l, hal⟩ := List.exists_cons_of_ne_nil hne
  have hpos : 0 < (pts.map (fun v => v.y - (centroid pts).y)).sum :=
    sum_pos_of_mem (fun v => v.y - (centroid pts).y) pts
      (fun x hx => by have := hall x hx; simp only; linarith) a (by simp [hal])
      (by have := hall a (by simp [hal]); simp only; linarith)
  have e : (pts.map (fun v => v.y - (centroid pts).y)).sum =
      -(pts.map (fun v => (centroid pts).y - v.y)).sum := by
    generalize (centroid pts).y = m
    clear hpos hall hno hal hne
    induction pts with
    | nil => simp
    | cons a l ih => simp only [List.map_cons, List.sum_cons, ih]; ring
  rw [e, sum_gap, sum_heights pts hne] at hpos
  linarith

/-- Unless all vertices have the same height, some vertex is above the centroid. -/
theorem exists_above (pts : List Point) (u w : Point) (hu : u ∈ pts) (hw : w ∈ pts)
    (huw : u.y ≠ w.y) : ∃ v ∈ pts, decide (v.y > (centroid pts).y) = true := by
  have hne : pts ≠ [] := List.ne_nil_of_mem hu
  by_contra hno
  have hall : ∀ v ∈ pts, v.y ≤ (centroid pts).y := by
    intro v hv
    by_contra hgt
    exact hno ⟨v, hv, by simpa using hgt⟩
  have hzero : (pts.map (fun v => (centroid pts).y - v.y)).sum = 0 := by
    rw [sum_gap, sum_heights pts hne]; ring
  have heq : ∀ v ∈ pts, v.y = (centroid pts).y := by
    intro v hv
    by_contra hvne
    have hlt : v.y < (centroid pts).y := lt_of_le_of_ne (hall v hv) hvne
    have := sum_pos_of_mem (fun v => (centroid pts).y - v.y) pts
      (fun x hx => by have := hall x hx; simp only; linarith) v hv
      (by simp only; linarith)
    linarith
  exact huw ((heq u hu).trans (heq w hw).symm)


/-- The vertices of a polygon with a vertex off the line of an edge are not all of the same
height. -/
theorem exists_heights_differ (pts : List Point) (h3 : 3 ≤ pts.length) (hn : pts.Nodup)
    (hc : ∀ e ∈ polygon_edges pts, ∀ c ∈ pts, c ≠ e.1 → c ≠ e.2 → orient e.1 e.2 c ≠ 0) :
    ∃ u ∈ pts, ∃ w ∈ pts, u.y ≠ w.y := by
  by_contra hno
  have hall : ∀ u ∈ pts, ∀ w ∈ pts, u.y = w.y := by
    intro u hu w hw
    by_contra hne
    exact hno ⟨u, hu, w, hw, hne⟩
  obtain ⟨a, l, hal⟩ : ∃ a l, pts = a :: l := by
    cases pts with
    | nil => simp at h3
    | cons a l => exact ⟨a, l, rfl⟩
  have he : (pts.getLastD ⟨0, 0⟩, a) ∈ polygon_edges pts := by
    unfold polygon_edges
    rw [hal]
    simp
  obtain ⟨m1, m2⟩ := polygon_edges_mem pts _ he
  obtain ⟨c, mc, hca, hcb⟩ := exists_third pts (pts.getLastD ⟨0, 0⟩) a h3 hn
  apply hc _ he c mc hca hcb
  have e1 := hall c mc _ m1
  have e2 := hall a m2 _ m1
  simp only at e1 e2 ⊢
  unfold orient
  rw [e1, e2]
  ring

/-- In a strictly convex polygon the ray cast from the centroid of the vertices crosses
exactly one edge. -/
theorem centroid_count_one (pts : List Point) (h3 : 3 ≤ pts.length)
    (hc : strictly_convex pts) :
    (polygon_edges pts).countP (crosses_right_of (centroid pts)) = 1 := by
  obtain ⟨hn, hl | hr⟩ := hc
  · obtain ⟨u, hu, w, hw, huw⟩ := exists_heights_differ pts h3 hn
      (fun e he c mc h1 h2 => ne_of_gt (hl e he c mc h1 h2))
    obtain ⟨v, hv, hvb⟩ := exists_above pts u w hu hw huw
    obtain ⟨z, hz, hzb⟩ := exists_not_above pts (List.ne_nil_of_mem hu)
    have hcongr : (polygon_edges pts).countP (crosses_right_of (centroid pts)) =
        (polygon_edges pts).countP (enters (fun v => decide (v.y > (centroid pts).y))) := by
      apply List.countP_congr
      intro e he
      rw [crosses_left _ e (centroid_left pts h3 hn hl e he)]
    rw [hcongr]
    have hle := at_most_one_up pts (centroid pts).y hn hl
    have hge : 0 < (polygon_edges pts).countP
        (enters (fun v => decide (v.y > (centroid pts).y))) := by
      rw [List.countP_pos_iff]
      exact exists_entering_edge _ pts v z hv hvb hz hzb
    omega
  · obtain ⟨u, hu, w, hw, huw⟩ := exists_heights_differ pts h3 hn
      (fun e he c mc h1 h2 => ne_of_lt (hr e he c mc h1 h2))
    obtain ⟨v, hv, hvb⟩ := exists_above pts u w hu hw huw
    obtain ⟨z, hz, hzb⟩ := exists_not_above pts (List.ne_nil_of_mem hu)
    have hcongr : (polygon_edges pts).countP (crosses_right_of (centroid pts)) =
        (polygon_edges pts).countP (enters (fun v => !decide (v.y > (centroid pts).y))) := by
      apply List.countP_congr
      intro e he
      rw [crosses_right _ e (centroid_right pts h3 hn hr e he)]
    rw [hcongr]
    have hle := at_most_one_down pts (centroid pts).y hn hr
    have hge : 0 < (polygon_edges pts).countP
        (enters (fun v => !decide (v.y > (centroid pts).y))) := by
      rw [List.countP_pos_iff]
      exact exists_entering_edge _ pts z v hz (by simp only [hzb]; rfl) hv
        (by simp only [hvb]; rfl)
    omega



end XDot
end XDotCpp

namespace XDotCpp
namespace XDot

/-! ## The ray cast at the centroid with rounding -/

/-- A sum of integers is an integer. -/
theorem sum_is_integer (l : List ℚ) (h : ∀ x ∈ l, ∃ z : Int, x = z) : ∃ z : Int, l.sum = z := by
  induction l with
  | nil => exact ⟨0, by simp⟩
  | cons a l ih =>
    obtain ⟨z1, h1⟩ := h a (List.mem_cons_self _ _)
    obtain ⟨z2, h2⟩ := ih (fun x hx => h x (List.mem_cons_of_mem _ hx))
    exact ⟨z1 + z2, by rw [List.sum_cons, h1, h2]; push_cast; ring⟩

/-- A sum of numbers of magnitude at most `B` has magnitude at most `B` for each. -/
theorem sum_abs_le (l : List ℚ) (B : ℚ) (h : ∀ x ∈ l, |x| ≤ B) : |l.sum| ≤ l.length * B := by
  induction l with
  | nil => simp
  | cons a l ih =>
    have h1 := h a (List.mem_cons_self _ _)
    have h2 := ih (fun x hx => h x (List.mem_cons_of_mem _ hx))
    rw [List.sum_cons, List.length_cons]
    push_cast
    have := abs_add a l.sum
    linarith

/-- A positive number that is an integer after multiplication with `n` is at least `1 / n`
in magnitude when it is not zero. -/
theorem abs_ge_inv_of_integer (n : Nat) (hn : 0 < n) (x : ℚ) (z : Int) (hz : (n : ℚ) * x = z)
    (hx : x ≠ 0) : 1 / (n : ℚ) ≤ |x| := by
  have hnq : (0 : ℚ) < n := by exact_mod_cast hn
  have hz0 : z ≠ 0 := by
    intro h0
    rw [h0] at hz
    simp only [Int.cast_zero, mul_eq_zero] at hz
    rcases hz with h | h
    · linarith
    · exact hx h
  have h1 : (1 : ℚ) ≤ |(z : ℚ)| := by
    have : 1 ≤ |z| := Int.one_le_abs hz0
    exact_mod_cast this
  rw [← hz, abs_mul, abs_of_pos hnq] at h1
  rw [div_le_iff₀ hnq]
  linarith

/-- The centroid of vertices with integer coordinates of absolute value at most `2^20`:
its coordinates are at most `2^20` in magnitude, and integers after multiplication with the
number of vertices. -/
theorem centroid_of_integers (pts : List Point) (hne : pts ≠ [])
    (hv : ∀ v ∈ pts, v.is_integral_within (2 ^ 20)) :
    |(centroid pts).x| ≤ 2 ^ 20 ∧ |(centroid pts).y| ≤ 2 ^ 20 ∧
    (∃ z : Int, (pts.length : ℚ) * (centroid pts).x = z) ∧
    (∃ z : Int, (pts.length : ℚ) * (centroid pts).y = z) := by
  have hlen : (0 : ℚ) < pts.length := by
    have : 0 < pts.length := List.length_pos.2 hne
    exact_mod_cast this
  have hbx : ∀ x ∈ pts.map (fun v : Point => v.x), |x| ≤ (2 : ℚ) ^ 20 ∧ ∃ z : Int, x = (z : ℚ) := by
    intro x hx
    obtain ⟨v, hv', rfl⟩ := List.mem_map.1 hx
    obtain ⟨z, hz, hz'⟩ := (hv v hv').1.cast
    exact ⟨by rw [hz]; exact_mod_cast hz', z, hz⟩
  have hby : ∀ x ∈ pts.map (fun v : Point => v.y), |x| ≤ (2 : ℚ) ^ 20 ∧ ∃ z : Int, x = (z : ℚ) := by
    intro x hx
    obtain ⟨v, hv', rfl⟩ := List.mem_map.1 hx
    obtain ⟨z, hz, hz'⟩ := (hv v hv').2.cast
    exact ⟨by rw [hz]; exact_mod_cast hz', z, hz⟩
  have sx := sum_abs_le _ _ (fun x hx => (hbx x hx).1)
  have sy := sum_abs_le _ _ (fun x hx => (hby x hx).1)
  rw [List.length_map] at sx sy
  obtain ⟨zx, hzx⟩ := sum_is_integer _ (fun x hx => (hbx x hx).2)
  obtain ⟨zy, hzy⟩ := sum_is_integer _ (fun x hx => (hby x hx).2)
  simp only [centroid]
  refine ⟨?_, ?_, ⟨zx, ?_⟩, ⟨zy, ?_⟩⟩
  · rw [abs_div, abs_of_pos hlen, div_le_iff₀ hlen]
    linarith
  · rw [abs_div, abs_of_pos hlen, div_le_iff₀ hlen]
    linarith
  · rw [← hzx]; field_simp
  · rw [← hzy]; field_simp

/-- The double nearest to a number of magnitude at most `2^20` is less than `2^-32` away. -/
theorem round_double_close (x : ℚ) (hx : |x| ≤ 2 ^ 20) : |round_double x - x| ≤ 1 / 2 ^ 32 := by
  have := round_double_within x (2 ^ 20) hx (by norm_num)
  have e : (2 : ℚ) ^ 20 * (1 / 2 ^ 53 + 1 / 2 ^ 1075) ≤ 1 / 2 ^ 32 := by norm_num
  linarith

/-- A vertex with integer coordinates is above the double nearest to the height of the
centroid exactly when it is above the centroid, for at most 256 vertices. -/
theorem above_rounded_centroid (pts : List Point) (hne : pts ≠ []) (hn : pts.length ≤ 256)
    (hv : ∀ v ∈ pts, v.is_integral_within (2 ^ 20)) (v : Point) (hm : v ∈ pts) :
    decide (v.y > round_double (centroid pts).y) = decide (v.y > (centroid pts).y) := by
  obtain ⟨-, hcy, -, ⟨zy, hzy⟩⟩ := centroid_of_integers pts hne hv
  have hlen : (0 : ℚ) < pts.length := by
    have : 0 < pts.length := List.length_pos.2 hne
    exact_mod_cast this
  have hlen' : (pts.length : ℚ) ≤ 256 := by exact_mod_cast hn
  obtain ⟨w, hw, hw'⟩ := (hv v hm).2.cast
  have hclose := abs_le.1 (round_double_close _ hcy)
  by_cases h0 : v.y - (centroid pts).y = 0
  · have e : (centroid pts).y = v.y := by linarith
    have hr : round_double (centroid pts).y = (centroid pts).y := by
      rw [e, hw]
      apply round_double_intCast
      have := abs_le.1 hw'
      norm_num at this
      rw [abs_lt]
      constructor <;> omega
    rw [hr]
  · have hk : (pts.length : ℚ) * (v.y - (centroid pts).y) = ((pts.length * w - zy : Int) : ℚ) := by
      rw [mul_sub, hzy, hw]
      push_cast
      ring
    have hge := abs_ge_inv_of_integer pts.length (List.length_pos.2 hne) _ _ hk h0
    have h256 : (1 : ℚ) / 256 ≤ 1 / (pts.length : ℚ) :=
      one_div_le_one_div_of_le hlen hlen'
    have hsmall : (1 : ℚ) / 2 ^ 32 < 1 / 256 := by norm_num
    rcases lt_or_gt_of_ne h0 with hneg | hpos
    · rw [abs_of_neg hneg] at hge
      have h1 : ¬ v.y > round_double (centroid pts).y := by
        rw [not_lt]; linarith [hclose.1]
      have h2 : ¬ v.y > (centroid pts).y := by
        rw [not_lt]; linarith
      simp [h1, h2]
    · rw [abs_of_pos hpos] at hge
      have h1 : v.y > round_double (centroid pts).y := by
        linarith [hclose.2]
      have h2 : v.y > (centroid pts).y := by linarith
      simp [h1, h2]

end XDot
end XDotCpp

namespace XDotCpp
namespace XDot

/-- A number within less than the magnitude of `g` from `g` has the sign of `g`. -/
theorem pos_iff_of_close (a g : ℚ) (h : |a - g| < |g|) : 0 < a ↔ 0 < g := by
  rcases abs_cases g with ⟨hg, hg0⟩ | ⟨hg, hg0⟩ <;> rw [hg] at h <;>
    have h' := abs_lt.1 h <;> constructor <;> intro hh <;> linarith [h'.1, h'.2]

/-- At the doubles nearest to the coordinates of the centroid of at most 256 vertices with
integer coordinates of absolute value at most `2^20`, an edge against which the centroid is
not aligned toggles the flag of `contains_point` exactly when it crosses to the right of
the centroid. -/
theorem toggles_at_rounded_centroid (pts : List Point) (hne : pts ≠ [])
    (hn : pts.length ≤ 256) (hv : ∀ v ∈ pts, v.is_integral_within (2 ^ 20))
    (e : Point × Point) (he : e ∈ polygon_edges pts)
    (ho : orient e.1 e.2 (centroid pts) ≠ 0) :
    toggles ⟨round_double (centroid pts).x, round_double (centroid pts).y⟩ e =
      crosses_right_of (centroid pts) e := by
  obtain ⟨m1, m2⟩ := polygon_edges_mem pts e he
  have a1 := above_rounded_centroid pts hne hn hv e.1 m1
  have a2 := above_rounded_centroid pts hne hn hv e.2 m2
  unfold toggles crosses_right_of
  simp only
  rw [a1, a2]
  cases hs : (decide (e.2.y > (centroid pts).y) != decide (e.1.y > (centroid pts).y)) with
  | false => rfl
  | true =>
    simp only [Bool.true_and]
    have hsp : (decide (e.2.y > (⟨round_double (centroid pts).x,
        round_double (centroid pts).y⟩ : Point).y) !=
        decide (e.1.y > (⟨round_double (centroid pts).x,
          round_double (centroid pts).y⟩ : Point).y)) = true := by
      simp only
      rw [a1, a2]
      exact hs
    have near := crossing_abscissa_near _ e.2 e.1 (hv _ m2) (hv _ m1) hsp
    obtain ⟨hΔne, -⟩ := straddle_height (centroid pts) e.2 e.1 hs
    obtain ⟨-, hxb, -⟩ := double_sub_integers e.1.x e.2.x (hv _ m1).1 (hv _ m2).1
    obtain ⟨-, hyb, hy1⟩ := double_sub_integers e.1.y e.2.y (hv _ m1).2 (hv _ m2).2
    have hD1 := hy1 hΔne
    have hΔ0 : e.1.y - e.2.y ≠ 0 := fun h => hΔne (by linarith)
    have cs := crossing_sub (centroid pts) e.1 e.2 hΔ0
    obtain ⟨hcx, hcy, -, -⟩ := centroid_of_integers pts hne hv
    have hpx := round_double_close _ hcx
    have hpy := round_double_close _ hcy
    -- the orientation of the centroid is at least 1/256
    have hlen : (0 : ℚ) < pts.length := by
      have : 0 < pts.length := List.length_pos.2 hne
      exact_mod_cast this
    have hlen' : (pts.length : ℚ) ≤ 256 := by exact_mod_cast hn
    have hoz : ∃ z : Int, (pts.length : ℚ) * orient e.1 e.2 (centroid pts) = z := by
      rw [orient_centroid _ _ _ hne]
      apply sum_is_integer
      intro x hx
      obtain ⟨v, hv', rfl⟩ := List.mem_map.1 hx
      obtain ⟨vx, hvx, -⟩ := (hv v hv').1.cast
      obtain ⟨vy, hvy, -⟩ := (hv v hv').2.cast
      obtain ⟨ax, hax, -⟩ := (hv _ m1).1.cast
      obtain ⟨ay, hay, -⟩ := (hv _ m1).2.cast
      obtain ⟨bx, hbx, -⟩ := (hv _ m2).1.cast
      obtain ⟨by', hby, -⟩ := (hv _ m2).2.cast
      refine ⟨(bx - ax) * (vy - ay) - (by' - ay) * (vx - ax), ?_⟩
      unfold orient
      rw [hvx, hvy, hax, hay, hbx, hby]
      push_cast
      ring
    obtain ⟨z, hz⟩ := hoz
    have hoge := abs_ge_inv_of_integer pts.length (List.length_pos.2 hne) _ z hz ho
    have h256 : (1 : ℚ) / 256 ≤ 1 / (pts.length : ℚ) := one_div_le_one_div_of_le hlen hlen'
    -- everything in terms of the inverse of the height of the edge
    generalize hK : 1 / |e.1.y - e.2.y| = K at *
    have hDpos : 0 < |e.1.y - e.2.y| := by linarith
    have hK0 : 0 < K := by rw [← hK]; positivity
    have hK1 : 1 / 2 ^ 21 ≤ K := by
      rw [← hK]
      exact one_div_le_one_div_of_le hDpos hyb
    generalize hg : (e.1.x - e.2.x) * ((centroid pts).y - e.2.y) / (e.1.y - e.2.y) + e.2.x -
      (centroid pts).x = g at *
    have hgabs : 1 / 256 * K ≤ |g| := by
      have e0 : |g| = |orient e.1 e.2 (centroid pts)| * K := by
        rw [cs, abs_div, abs_neg, ← hK]
        ring
      rw [e0]
      exact mul_le_mul_of_nonneg_right (by linarith) hK0.le
    have hshift : |(e.1.x - e.2.x) * (round_double (centroid pts).y - e.2.y) / (e.1.y - e.2.y) -
        (e.1.x - e.2.x) * ((centroid pts).y - e.2.y) / (e.1.y - e.2.y)| ≤ 1 / 2 ^ 11 * K := by
      have e1 : (e.1.x - e.2.x) * (round_double (centroid pts).y - e.2.y) / (e.1.y - e.2.y) -
          (e.1.x - e.2.x) * ((centroid pts).y - e.2.y) / (e.1.y - e.2.y) =
          (e.1.x - e.2.x) * (round_double (centroid pts).y - (centroid pts).y) /
            (e.1.y - e.2.y) := by ring
      have e0 : |(e.1.x - e.2.x) * (round_double (centroid pts).y - (centroid pts).y) /
            (e.1.y - e.2.y)| =
          |e.1.x - e.2.x| * |round_double (centroid pts).y - (centroid pts).y| * K := by
        rw [abs_div, abs_mul, ← hK]
        ring
      rw [e1, e0]
      have := mul_le_mul hxb hpy (abs_nonneg _) (by norm_num : (0 : ℚ) ≤ 2 ^ 21)
      have e2 : (2 : ℚ) ^ 21 * (1 / 2 ^ 32) = 1 / 2 ^ 11 := by norm_num
      exact mul_le_mul_of_nonneg_right (by linarith) hK0.le
    have hclose : |(crossing_abscissa ⟨round_double (centroid pts).x,
        round_double (centroid pts).y⟩ e.2 e.1 - round_double (centroid pts).x) - g| < |g| := by
      have e1 : (crossing_abscissa ⟨round_double (centroid pts).x,
          round_double (centroid pts).y⟩ e.2 e.1 - round_double (centroid pts).x) - g =
          (crossing_abscissa ⟨round_double (centroid pts).x,
            round_double (centroid pts).y⟩ e.2 e.1 -
            ((e.1.x - e.2.x) * (round_double (centroid pts).y - e.2.y) / (e.1.y - e.2.y) +
              e.2.x)) +
          ((e.1.x - e.2.x) * (round_double (centroid pts).y - e.2.y) / (e.1.y - e.2.y) -
            (e.1.x - e.2.x) * ((centroid pts).y - e.2.y) / (e.1.y - e.2.y)) -
          (round_double (centroid pts).x - (centroid pts).x) := by
        rw [← hg]; ring
      rw [e1]
      have t1 := abs_sub (crossing_abscissa ⟨round_double (centroid pts).x,
            round_double (centroid pts).y⟩ e.2 e.1 -
            ((e.1.x - e.2.x) * (round_double (centroid pts).y - e.2.y) / (e.1.y - e.2.y) +
              e.2.x) +
          ((e.1.x - e.2.x) * (round_double (centroid pts).y - e.2.y) / (e.1.y - e.2.y) -
            (e.1.x - e.2.x) * ((centroid pts).y - e.2.y) / (e.1.y - e.2.y)))
          (round_double (centroid pts).x - (centroid pts).x)
      have t2 := abs_add (crossing_abscissa ⟨round_double (centroid pts).x,
            round_double (centroid pts).y⟩ e.2 e.1 -
            ((e.1.x - e.2.x) * (round_double (centroid pts).y - e.2.y) / (e.1.y - e.2.y) +
              e.2.x))
          ((e.1.x - e.2.x) * (round_double (centroid pts).y - e.2.y) / (e.1.y - e.2.y) -
            (e.1.x - e.2.x) * ((centroid pts).y - e.2.y) / (e.1.y - e.2.y))
      have n1 : (1 : ℚ) / 2 ^ 30 + 1 / 2 ^ 32 + 1 / 2 ^ 11 * K < 1 / 256 * K := by
        have : (1 : ℚ) / 2 ^ 30 + 1 / 2 ^ 32 < (1 / 256 - 1 / 2 ^ 11) * (1 / 2 ^ 21) := by
          norm_num
        have : (1 / 256 - 1 / 2 ^ 11) * (1 / 2 ^ 21) ≤ (1 / 256 - 1 / 2 ^ 11) * K :=
          mul_le_mul_of_nonneg_left hK1 (by norm_num)
        linarith
      simp only at near
      linarith
    have key := pos_iff_of_close _ _ hclose
    have k1 : (round_double (centroid pts).x <
        crossing_abscissa ⟨round_double (centroid pts).x,
          round_double (centroid pts).y⟩ e.2 e.1) ↔
        ((centroid pts).x <
          (e.1.x - e.2.x) * ((centroid pts).y - e.2.y) / (e.1.y - e.2.y) + e.2.x) := by
      constructor
      · intro h1
        have := key.1 (by linarith)
        rw [← hg] at this
        linarith
      · intro h1
        have : 0 < g := by rw [← hg]; linarith
        have := key.2 this
        linarith
    simp only [k1]

end XDot
end XDotCpp

namespace XDotCpp
namespace XDot

/-- C9, for strictly convex polygons with integer vertices: for every polygon with at least
3 and at most 256 vertices whose coordinates are integers of absolute value at most `2^20`
and that is strictly convex (the vertices are pairwise distinct and every vertex lies
strictly on one and the same side of every edge it is no end of), `contains_point` is true
at the doubles nearest to the coordinates of the centroid of the vertices, which is the
centroid itself when its coordinates are doubles. Every operation is rounded as the machine
rounds it. -/
theorem contains_point_centroid_of_strictly_convex (s : PolygonShape)
    (h3 : 3 ≤ s.points_.length) (hn : s.points_.length ≤ 256)
    (hv : ∀ v ∈ s.points_, v.is_integral_within (2 ^ 20)) (hc : strictly_convex s.points_) :
    s.contains_point ⟨round_double (centroid s.points_).x,
      round_double (centroid s.points_).y⟩ = true ∧
    (round_double (centroid s.points_).x = (centroid s.points_).x →
      round_double (centroid s.points_).y = (centroid s.points_).y →
      s.contains_point (centroid s.points_) = true) := by
  have hne : s.points_ ≠ [] := by
    intro h0; rw [h0] at h3; simp at h3
  have hside : ∀ e ∈ polygon_edges s.points_, orient e.1 e.2 (centroid s.points_) ≠ 0 := by
    intro e he
    rcases hc.2 with hl | hr
    · exact ne_of_gt (centroid_left s.points_ h3 hc.1 hl e he)
    · exact ne_of_lt (centroid_right s.points_ h3 hc.1 hr e he)
  have hcount : (polygon_edges s.points_).countP
      (toggles ⟨round_double (centroid s.points_).x, round_double (centroid s.points_).y⟩) =
      1 := by
    rw [← centroid_count_one s.points_ h3 hc]
    apply List.countP_congr
    intro e he
    rw [toggles_at_rounded_centroid s.points_ hne hn hv e he (hside e he)]
  have h1 := contains_point_of_count_one s _ h3 hcount
  refine ⟨h1, fun hx hy => ?_⟩
  rw [hx, hy] at h1
  exact h1

/-- The theorem `contains_point_centroid_of_strictly_convex` at the square with the corners
`(0, 0)` and `(2, 2)`, whose centroid is `(1, 1)`. -/
theorem contains_point_centroid_of_strictly_convex_witness :
    strictly_convex [⟨0, 0⟩, ⟨2, 0⟩, ⟨2, 2⟩, ⟨0, 2⟩] ∧
    (∀ v ∈ (PolygonShape.mk [⟨0, 0⟩, ⟨2, 0⟩, ⟨2, 2⟩, ⟨0, 2⟩] Pen.new).points_,
      v.is_integral_within (2 ^ 20)) ∧
    centroid [⟨0, 0⟩, ⟨2, 0⟩, ⟨2, 2⟩, ⟨0, 2⟩] = ⟨1, 1⟩ ∧
    (PolygonShape.mk [⟨0, 0⟩, ⟨2, 0⟩, ⟨2, 2⟩, ⟨0, 2⟩] Pen.new).contains_point
      ⟨round_double (centroid [⟨0, 0⟩, ⟨2, 0⟩, ⟨2, 2⟩, ⟨0, 2⟩]).x,
        round_double (centroid [⟨0, 0⟩, ⟨2, 0⟩, ⟨2, 2⟩, ⟨0, 2⟩]).y⟩ = true :=
  have hv : ∀ v ∈ (PolygonShape.mk [⟨0, 0⟩, ⟨2, 0⟩, ⟨2, 2⟩, ⟨0, 2⟩] Pen.new).points_,
      v.is_integral_within (2 ^ 20) := by
    intro v hv
    simp only [List.mem_cons, List.mem_singleton, List.not_mem_nil, or_false] at hv
    rcases hv with rfl | rfl | rfl | rfl <;>
      (unfold Point.is_integral_within is_integer_within; norm_num)
  have hc : strictly_convex [⟨0, 0⟩, ⟨2, 0⟩, ⟨2, 2⟩, ⟨0, 2⟩] := by
    unfold strictly_convex; with_unfolding_all decide
  ⟨hc, hv, by with_unfolding_all decide,
   (contains_point_centroid_of_strictly_convex
     (PolygonShape.mk [⟨0, 0⟩, ⟨2, 0⟩, ⟨2, 2⟩, ⟨0, 2⟩] Pen.new) (by decide) (by decide) hv hc).1⟩

end XDot
end XDotCpp

namespace XDotCpp
namespace XDot

/-- C9 as stated fails: the L-shaped hexagon `(0,0) (10,0) (10,2) (2,2) (2,10) (0,10)` is a
simple polygon, the centroid of its vertices is `(4, 4)` and the centroid of its area is
`(29/9, 29/9)`, and `contains_point` is false at `(4, 4)` and at the doubles nearest to
`29/9`. And convexity alone is not enough where the operations round: the triangle
`(0, 0) (6, 12) (12, 23.99999999999999)` is strictly convex, the coordinates of its
centroid are doubles, and `contains_point` is false at the centroid, since the edge from
the third to the first vertex is computed to meet the line through the centroid at `6`,
the abscissa of the centroid. -/
theorem contains_point_centroid_l_shape :
    is_simple l_shape = true ∧
    centroid l_shape = ⟨4, 4⟩ ∧
    area_centroid l_shape = ⟨29 / 9, 29 / 9⟩ ∧
    (PolygonShape.mk l_shape Pen.new).contains_point (centroid l_shape) = false ∧
    (PolygonShape.mk l_shape Pen.new).contains_point
      ⟨round_double (area_centroid l_shape).x, round_double (area_centroid l_shape).y⟩ =
        false ∧
    thin_triangle = [⟨0, 0⟩, ⟨6, 12⟩, ⟨12, round_double (2399999999999999 / 100000000000000)⟩] ∧
    strictly_convex thin_triangle ∧
    centroid thin_triangle = ⟨6, ((3377699720527871 : ℚ) / 281474976710656)⟩ ∧
    round_double (centroid thin_triangle).y = (centroid thin_triangle).y ∧
    (PolygonShape.mk thin_triangle Pen.new).contains_point (centroid thin_triangle) = false ∧
    crossing_abscissa (centroid thin_triangle) ⟨0, 0⟩ ⟨12, ((6755399441055741 : ℚ) / 281474976710656)⟩ = 6 := by
  have hc : centroid l_shape = ⟨4, 4⟩ := by with_unfolding_all decide
  have ha : area_centroid l_shape = ⟨29 / 9, 29 / 9⟩ := by with_unfolding_all decide
  have ht : centroid thin_triangle = ⟨6, ((3377699720527871 : ℚ) / 281474976710656)⟩ := by
    simp only [centroid, thin_triangle, List.map_cons, List.map_nil, List.sum_cons,
      List.sum_nil, List.length_cons, List.length_nil, Point.mk.injEq]
    constructor <;> norm_num
  have r1 : round_double ((29 : ℚ) / 9) = ((3627899699826233 : ℚ) / 1125899906842624) := by
    rw [round_double_eval_pos ((29 : ℚ) / 9) 7255799399652466 51 (by norm_num) (by norm_num) (by norm_num)
      (round_half_even_between _ 7255799399652466 (by norm_num) (by norm_num))]
    norm_num
  have e1 : double_sub (0 : ℚ) (0 : ℚ) = (0 : ℚ) := by
    unfold double_sub
    norm_num [round_double_zero]
  have e2 : double_sub (4 : ℚ) (0 : ℚ) = (4 : ℚ) := by
    unfold double_sub
    rw [round_double_eval_pos ((4 : ℚ) - (0 : ℚ)) 4503599627370496 50 (by norm_num) (by norm_num) (by norm_num)
      (round_half_even_between _ 4503599627370496 (by norm_num) (by norm_num))]
    norm_num
  have e3 : double_mul (0 : ℚ) (4 : ℚ) = (0 : ℚ) := by
    unfold double_mul
    norm_num [round_double_zero]
  have e4 : double_sub (10 : ℚ) (0 : ℚ) = (10 : ℚ) := by
    unfold double_sub
    rw [round_double_eval_pos ((10 : ℚ) - (0 : ℚ)) 5629499534213120 49 (by norm_num) (by norm_num) (by norm_num)
      (round_half_even_between _ 5629499534213120 (by norm_num) (by norm_num))]
    norm_num
  have e5 : double_div (0 : ℚ) (10 : ℚ) = (0 : ℚ) := by
    unfold double_div
    norm_num [round_double_zero]
  have e6 : double_add (0 : ℚ) (0 : ℚ) = (0 : ℚ) := by
    unfold double_add
    norm_num [round_double_zero]
  have e7 : double_sub (2 : ℚ) (2 : ℚ) = (0 : ℚ) := by
    unfold double_sub
    norm_num [round_double_zero]
  have e8 : double_sub (4 : ℚ) (10 : ℚ) = (-6 : ℚ) := by
    unfold double_sub
    rw [round_double_eval_neg ((4 : ℚ) - (10 : ℚ)) 6755399441055744 50 (by norm_num) (by norm_num) (by norm_num)
      (round_half_even_between _ 6755399441055744 (by norm_num) (by norm_num))]
    norm_num
  have e9 : double_mul (0 : ℚ) (-6 : ℚ) = (0 : ℚ) := by
    unfold double_mul
    norm_num [round_double_zero]
  have e10 : double_sub (2 : ℚ) (10 : ℚ) = (-8 : ℚ) := by
    unfold double_sub
    rw [round_double_eval_neg ((2 : ℚ) - (10 : ℚ)) 4503599627370496 49 (by norm_num) (by norm_num) (by norm_num)
      (round_half_even_between _ 4503599627370496 (by norm_num) (by norm_num))]
    norm_num
  have e11 : double_div (0 : ℚ) (-8 : ℚ) = (0 : ℚ) := by
    unfold double_div
    norm_num [round_double_zero]
  have e12 : double_add (0 : ℚ) (2 : ℚ) = (2 : ℚ) := by
    unfold double_add
    rw [round_double_eval_pos ((0 : ℚ) + (2 : ℚ)) 4503599627370496 51 (by norm_num) (by norm_num) (by norm_num)
      (round_half_even_between _ 4503599627370496 (by norm_num) (by norm_num))]
    norm_num
  have e13 : double_sub ((3627899699826233 : ℚ) / 1125899906842624) (0 : ℚ) = ((3627899699826233 : ℚ) / 1125899906842624) := by
    unfold double_sub
    rw [round_double_eval_pos (((3627899699826233 : ℚ) / 1125899906842624) - (0 : ℚ)) 7255799399652466 51 (by norm_num) (by norm_num) (by norm_num)
      (round_half_even_between _ 7255799399652466 (by norm_num) (by norm_num))]
    norm_num
  have e14 : double_mul (0 : ℚ) ((3627899699826233 : ℚ) / 1125899906842624) = (0 : ℚ) := by
    unfold double_mul
    norm_num [round_double_zero]
  have e15 : double_sub ((3627899699826233 : ℚ) / 1125899906842624) (10 : ℚ) = (-((7631099368600007 : ℚ) / 1125899906842624)) := by
    unfold double_sub
    rw [round_double_eval_neg (((3627899699826233 : ℚ) / 1125899906842624) - (10 : ℚ)) 7631099368600007 50 (by norm_num) (by norm_num) (by norm_num)
      (round_half_even_between _ 7631099368600007 (by norm_num) (by norm_num))]
    norm_num
  have e16 : double_mul (0 : ℚ) (-((7631099368600007 : ℚ) / 1125899906842624)) = (0 : ℚ) := by
    unfold double_mul
    norm_num [round_double_zero]
  have e101 : double_sub (12 : ℚ) (0 : ℚ) = (12 : ℚ) := by
    unfold double_sub
    rw [round_double_eval_pos ((12 : ℚ) - (0 : ℚ)) 6755399441055744 49 (by norm_num) (by norm_num) (by norm_num)
      (round_half_even_between _ 6755399441055744 (by norm_num) (by norm_num))]
    norm_num
  have e102 : double_sub ((3377699720527871 : ℚ) / 281474976710656) (0 : ℚ) = ((3377699720527871 : ℚ) / 281474976710656) := by
    unfold double_sub
    rw [round_double_eval_pos (((3377699720527871 : ℚ) / 281474976710656) - (0 : ℚ)) 6755399441055742 49 (by norm_num) (by norm_num) (by norm_num)
      (round_half_even_between _ 6755399441055742 (by norm_num) (by norm_num))]
    norm_num
  have e103 : double_mul (12 : ℚ) ((3377699720527871 : ℚ) / 281474976710656) = ((2533274790395903 : ℚ) / 17592186044416) := by
    unfold double_mul
    rw [round_double_eval_pos ((12 : ℚ) * ((3377699720527871 : ℚ) / 281474976710656)) 5066549580791806 45 (by norm_num) (by norm_num) (by norm_num)
      (round_half_even_tie_down _ 5066549580791806 (by norm_num) (by norm_num))]
    norm_num
  have e104 : double_sub ((6755399441055741 : ℚ) / 281474976710656) (0 : ℚ) = ((6755399441055741 : ℚ) / 281474976710656) := by
    unfold double_sub
    rw [round_double_eval_pos (((6755399441055741 : ℚ) / 281474976710656) - (0 : ℚ)) 6755399441055741 48 (by norm_num) (by norm_num) (by norm_num)
      (round_half_even_between _ 6755399441055741 (by norm_num) (by norm_num))]
    norm_num
  have e105 : double_div ((2533274790395903 : ℚ) / 17592186044416) ((6755399441055741 : ℚ) / 281474976710656) = (6 : ℚ) := by
    unfold double_div
    rw [round_double_eval_pos (((2533274790395903 : ℚ) / 17592186044416) / ((6755399441055741 : ℚ) / 281474976710656)) 6755399441055744 50 (by norm_num) (by norm_num) (by norm_num)
      (round_half_even_between _ 6755399441055744 (by norm_num) (by norm_num))]
    norm_num
  have e106 : double_add (6 : ℚ) (0 : ℚ) = (6 : ℚ) := by
    unfold double_add
    rw [round_double_eval_pos ((6 : ℚ) + (0 : ℚ)) 6755399441055744 50 (by norm_num) (by norm_num) (by norm_num)
      (round_half_even_between _ 6755399441055744 (by norm_num) (by norm_num))]
    norm_num
  have e107 : double_sub (0 : ℚ) (6 : ℚ) = (-6 : ℚ) := by
    unfold double_sub
    rw [round_double_eval_neg ((0 : ℚ) - (6 : ℚ)) 6755399441055744 50 (by norm_num) (by norm_num) (by norm_num)
      (round_half_even_between _ 6755399441055744 (by norm_num) (by norm_num))]
    norm_num
  have e108 : double_sub ((3377699720527871 : ℚ) / 281474976710656) (12 : ℚ) = (-((1 : ℚ) / 281474976710656)) := by
    unfold double_sub
    rw [round_double_eval_neg (((3377699720527871 : ℚ) / 281474976710656) - (12 : ℚ)) 4503599627370496 100 (by norm_num) (by norm_num) (by norm_num)
      (round_half_even_between _ 4503599627370496 (by norm_num) (by norm_num))]
    norm_num
  have e109 : double_mul (-6 : ℚ) (-((1 : ℚ) / 281474976710656)) = ((3 : ℚ) / 140737488355328) := by
    unfold double_mul
    rw [round_double_eval_pos ((-6 : ℚ) * (-((1 : ℚ) / 281474976710656))) 6755399441055744 98 (by norm_num) (by norm_num) (by norm_num)
      (round_half_even_between _ 6755399441055744 (by norm_num) (by norm_num))]
    norm_num
  have e110 : double_sub (0 : ℚ) (12 : ℚ) = (-12 : ℚ) := by
    unfold double_sub
    rw [round_double_eval_neg ((0 : ℚ) - (12 : ℚ)) 6755399441055744 49 (by norm_num) (by norm_num) (by norm_num)
      (round_half_even_between _ 6755399441055744 (by norm_num) (by norm_num))]
    norm_num
  have e111 : double_div ((3 : ℚ) / 140737488355328) (-12 : ℚ) = (-((1 : ℚ) / 562949953421312)) := by
    unfold double_div
    rw [round_double_eval_neg (((3 : ℚ) / 140737488355328) / (-12 : ℚ)) 4503599627370496 101 (by norm_num) (by norm_num) (by norm_num)
      (round_half_even_between _ 4503599627370496 (by norm_num) (by norm_num))]
    norm_num
  have e112 : double_add (-((1 : ℚ) / 562949953421312)) (6 : ℚ) = ((3377699720527871 : ℚ) / 562949953421312) := by
    unfold double_add
    rw [round_double_eval_pos ((-((1 : ℚ) / 562949953421312)) + (6 : ℚ)) 6755399441055742 50 (by norm_num) (by norm_num) (by norm_num)
      (round_half_even_between _ 6755399441055742 (by norm_num) (by norm_num))]
    norm_num
  have e201 : round_double ((3377699720527871 : ℚ) / 281474976710656) = ((3377699720527871 : ℚ) / 281474976710656) := by
    rw [round_double_eval_pos ((3377699720527871 : ℚ) / 281474976710656) 6755399441055742 49 (by norm_num) (by norm_num) (by norm_num)
      (round_half_even_between _ 6755399441055742 (by norm_num) (by norm_num))]
    norm_num
  have e202 : round_double ((2399999999999999 : ℚ) / 100000000000000) = ((6755399441055741 : ℚ) / 281474976710656) := by
    rw [round_double_eval_pos ((2399999999999999 : ℚ) / 100000000000000) 6755399441055741 48 (by norm_num) (by norm_num) (by norm_num)
      (round_half_even_between _ 6755399441055741 (by norm_num) (by norm_num))]
    norm_num
  refine ⟨by with_unfolding_all decide, hc, ha, ?_, ?_, ?_, ?_, ht, ?_, ?_, ?_⟩
  · rw [hc]
    simp only [PolygonShape.contains_point, l_shape, contains_point_loop, crossing_abscissa,
      List.length_cons, List.length_nil, List.getD_cons_succ, List.getD_cons_zero, e1, e2, e3, e4, e5, e6, e7, e8, e9, e10, e11, e12, e13, e14, e15, e16]
    norm_num
  · rw [ha]
    simp only [r1]
    simp only [PolygonShape.contains_point, l_shape, contains_point_loop, crossing_abscissa,
      List.length_cons, List.length_nil, List.getD_cons_succ, List.getD_cons_zero, e1, e2, e3, e4, e5, e6, e7, e8, e9, e10, e11, e12, e13, e14, e15, e16]
    norm_num
  · rw [e202]
    rfl
  · refine ⟨?_, Or.inr ?_⟩
    · simp only [thin_triangle, List.nodup_cons, List.mem_cons, List.mem_singleton,
        Point.mk.injEq, List.not_mem_nil, List.nodup_nil]
      norm_num
    · intro e he c hc h1 h2
      simp only [polygon_edges, thin_triangle, List.getLastD_cons, List.getLastD_nil,
        List.zip_cons_cons, List.zip_nil_right, List.mem_cons, List.mem_singleton,
        List.not_mem_nil, or_false] at he hc
      rcases he with rfl | rfl | rfl <;> rcases hc with rfl | rfl | rfl <;>
        first
        | exact absurd rfl h1
        | exact absurd rfl h2
        | (simp only [orient]; norm_num)
  · rw [ht]
    exact e201
  · rw [ht]
    simp only [PolygonShape.contains_point, thin_triangle, contains_point_loop,
      crossing_abscissa, List.length_cons, List.length_nil, List.getD_cons_succ,
      List.getD_cons_zero, e101, e102, e103, e104, e105, e106, e107, e108, e109, e110, e111, e112]
    norm_num
  · rw [ht]
    simp only [crossing_abscissa, e101, e102, e103, e104, e105, e106, e107, e108, e109, e110, e111, e112]

end XDot
end XDotCpp

/-! ## The ellipse opcode -/

namespace XDotCpp
namespace XDot

theorem takeWhile_append_stop {p : Char → Bool} (l r : List Char) (hl : ∀ c ∈ l, p c = true)
    (hr : r.head?.all (fun c => !p c) = true) : (l ++ r).takeWhile p = l := by
  induction l with
  | nil =>
    cases r with
    | nil => rfl
    | cons c r =>
      simp only [List.head?_cons, Option.all_some, Bool.not_eq_true'] at hr
      simp [List.takeWhile, hr]
  | cons a l ih =>
    rw [List.cons_append, List.takeWhile_cons, hl a (List.mem_cons_self _ _), if_pos rfl,
      ih (fun c hc => hl c (List.mem_cons_of_mem _ hc))]

theorem dropWhile_append_stop {p : Char → Bool} (l r : List Char) (hl : ∀ c ∈ l, p c = true)
    (hr : r.head?.all (fun c => !p c) = true) : (l ++ r).dropWhile p = r := by
  induction l with
  | nil =>
    cases r with
    | nil => rfl
    | cons c r =>
      simp only [List.head?_cons, Option.all_some, Bool.not_eq_true'] at hr
      simp [List.dropWhile, hr]
  | cons a l ih =>
    rw [List.cons_append, List.dropWhile_cons, hl a (List.mem_cons_self _ _), if_pos rfl]
    exact ih (fun c hc => hl c (List.mem_cons_of_mem _ hc))

theorem is_literal_chars (lit : List Char) (h : is_literal lit = true) :
    ∃ c cs, lit = c :: cs ∧ c.isDigit = true ∧ ∀ d ∈ lit, d.isDigit = true := by
  cases lit with
  | nil => cases h
  | cons c cs =>
    simp only [is_literal, List.isEmpty_cons, Bool.not_false, List.all_eq_true,
      Bool.true_and] at h
    exact ⟨c, cs, rfl, h c (List.mem_cons_self _ _), h⟩

/-- The conversion `std::stod` of a decimal integer literal: the double nearest to its value,
unless the value is beyond the doubles. -/
theorem stod_literal (lit : List Char) (h : is_literal lit = true) :
    stod lit = if (2 : ℚ) ^ 1024 - 2 ^ 970 ≤ (decimal_value lit : ℚ) then
      .error StdException.out_of_range else .ok (round_to_double (decimal_value lit : ℚ)) := by
  obtain ⟨c, cs, rfl, hc, hall⟩ := is_literal_chars lit h
  have ht : (c :: cs).takeWhile Char.isDigit = c :: cs := by
    have := takeWhile_append_stop (p := Char.isDigit) (c :: cs) [] hall rfl
    simpa using this
  have hd : (c :: cs).dropWhile Char.isDigit = [] := by
    have := dropWhile_append_stop (p := Char.isDigit) (c :: cs) [] hall rfl
    simpa using this
  unfold stod
  simp only [ht, hd, List.isEmpty_cons, Bool.false_and, Bool.false_eq_true, if_false,
    List.append_nil, List.length_nil, pow_zero, div_one]
  split
  · rfl
  · rw [if_neg]
    rintro ⟨h0, h1, -⟩
    have h2 : (1 : ℚ) ≤ (decimal_value (c :: cs) : ℚ) := by
      have : 0 < decimal_value (c :: cs) := by exact_mod_cast h0
      exact_mod_cast this
    have h3 : (1 : ℚ) / 2 ^ 1022 ≤ 1 := by
      rw [div_le_one (by positivity)]
      exact one_le_pow₀ (by norm_num)
    linarith

/-- The conversion of a literal whose value is at most `2^53` is exact. -/
theorem stod_literal_exact (lit : List Char) (h : is_literal lit = true)
    (hv : decimal_value lit ≤ 2 ^ 53) : stod lit = .ok (decimal_value lit : ℚ) := by
  rw [stod_literal lit h, round_to_double_natCast _ hv, if_neg]
  rw [not_le]
  have h1 : (decimal_value lit : ℚ) ≤ 2 ^ 53 := by exact_mod_cast hv
  have h2 : (2 : ℚ) ^ 53 < 2 ^ 1024 - 2 ^ 970 := by norm_num
  linarith

/-- The method `read_float` on a space and a literal that is followed by the end of the
data or by a character that is neither a digit nor a point. -/
theorem read_float_literal (s : XDotAttrParser) (lit r : List Char) (h : is_literal lit = true)
    (hr : r.head?.all (fun c => !(c.isDigit || c == '.')) = true)
    (hs : s.rest = ' ' :: (lit ++ r)) :
    s.read_float =
      match stod lit with
      | .error e => .error e
      | .ok v => .ok (v, { s with rest := r }) := by
  obtain ⟨c, cs, rfl, hc, hall⟩ := is_literal_chars lit h
  have hall' : ∀ d ∈ c :: cs, (d.isDigit || d == '.') = true := by
    intro d hd; simp [hall d hd]
  have hws : Dot.is_whitespace c = false := by
    cases hw : Dot.is_whitespace c
    · rfl
    · unfold Dot.is_whitespace at hw
      simp only [Bool.or_eq_true, beq_iff_eq] at hw
      rcases hw with ((((h | h) | h) | h) | h) | h <;> subst h <;> cases hc
  have hminus : (c == '-') = false := by
    cases hm : (c == '-')
    · rfl
    · simp only [beq_iff_eq] at hm; subst hm; cases hc
  have hskip : s.skip_whitespace = { s with rest := c :: (cs ++ r) } := by
    unfold XDotAttrParser.skip_whitespace
    rw [hs, List.dropWhile_cons, if_pos (by decide), List.cons_append, List.dropWhile_cons, hws]
    rfl
  unfold XDotAttrParser.read_float
  rw [hskip]
  simp only [XDotAttrParser.current_char, List.headD_cons, hminus, Bool.false_eq_true, if_false]
  have e1 := takeWhile_append_stop (p := fun c => c.isDigit || c == '.') (c :: cs) r hall' hr
  have e2 := dropWhile_append_stop (p := fun c => c.isDigit || c == '.') (c :: cs) r hall' hr
  simp only [List.cons_append] at e1 e2
  rw [e1, e2]
  cases stod (c :: cs) <;> simp only [List.isEmpty_cons, Bool.false_eq_true, if_false]

end XDot
end XDotCpp

namespace XDotCpp
namespace XDot

/-- The decode of `E x y w h`, given what `std::stod` returns on the four literals. -/
theorem parse_ellipse_text_of_stod (x y w h : List Char) (hx : is_literal x = true)
    (hy : is_literal y = true) (hw : is_literal w = true) (hh : is_literal h = true)
    (vx vy vw vh : ℚ) (sx : stod x = .ok vx) (sy : stod y = .ok vy) (sw : stod w = .ok vw)
    (sh : stod h = .ok vh) (fuel : Nat) :
    parse_xdot_attr (fuel + 2) (ellipse_text x y w h) =
      .ok [Shape.ellipse ⟨⟨vx, vy⟩, vw, vh, Pen.new⟩] := by
  have f1 := read_float_literal
    ⟨ellipse_text x y w h, ' ' :: (x ++ ' ' :: (y ++ ' ' :: (w ++ ' ' :: h))), Pen.new, []⟩
    x (' ' :: (y ++ ' ' :: (w ++ ' ' :: h))) hx rfl rfl
  have f2 := read_float_literal
    ⟨ellipse_text x y w h, ' ' :: (y ++ ' ' :: (w ++ ' ' :: h)), Pen.new, []⟩
    y (' ' :: (w ++ ' ' :: h)) hy rfl rfl
  have f3 := read_float_literal
    ⟨ellipse_text x y w h, ' ' :: (w ++ ' ' :: h), Pen.new, []⟩
    w (' ' :: h) hw rfl rfl
  have f4 := read_float_literal
    ⟨ellipse_text x y w h, ' ' :: (h ++ []), Pen.new, []⟩
    h [] hh rfl rfl
  rw [sx] at f1
  rw [sy] at f2
  rw [sw] at f3
  rw [sh] at f4
  simp only [List.append_nil] at f4
  have hell : XDotAttrParser.handle_ellipse
      ⟨ellipse_text x y w h, ' ' :: (x ++ ' ' :: (y ++ ' ' :: (w ++ ' ' :: h))), Pen.new, []⟩ =
      .ok ⟨ellipse_text x y w h, [], Pen.new, [Shape.ellipse ⟨⟨vx, vy⟩, vw, vh, Pen.new⟩]⟩ := by
    simp only [XDotAttrParser.handle_ellipse, XDotAttrParser.read_point, bind, Except.bind, f1,
      f2, f3, f4, pure, Except.pure, XDotAttrParser.transform, List.nil_append]
  unfold parse_xdot_attr XDotAttrParser.parse XDotAttrParser.new
  simp only [Bool.false_eq_true, if_false]
  rw [parse_loop]
  have hcode : (XDotAttrParser.skip_whitespace
      ⟨ellipse_text x y w h, ellipse_text x y w h, Pen.new, []⟩).read_code =
      (['E'], ⟨ellipse_text x y w h, ' ' :: (x ++ ' ' :: (y ++ ' ' :: (w ++ ' ' :: h))),
        Pen.new, []⟩) := by
    simp [XDotAttrParser.read_code, XDotAttrParser.skip_whitespace, ellipse_text,
      List.dropWhile, List.takeWhile, Dot.is_whitespace]
  have hmore1 : XDotAttrParser.has_more
      ⟨ellipse_text x y w h, ellipse_text x y w h, Pen.new, []⟩ = true := rfl
  have hmore2 : (XDotAttrParser.skip_whitespace
      ⟨ellipse_text x y w h, ellipse_text x y w h, Pen.new, []⟩).has_more = true := rfl
  simp only [hmore1, hmore2, if_true, Bool.not_true, Bool.false_eq_true, if_false, hcode,
    XDotAttrParser.dispatch, hell]
  rw [parse_loop]
  rfl

end XDot
end XDotCpp

namespace XDotCpp
namespace XDot

/-- C6, as amended: for all decimal integer literals `x`, `y`, `w`, `h` of value at most
`2^53`, the drawing string `E x y w h` decodes, with any fuel of at least 2, to exactly one
shape: the ellipse with center `(x, y)`, width `w` and height `h` that carries the default pen
(stroke black, fill white, line width 1, solid, font Arial of size 12). -/
theorem decode_ellipse (x y w h : List Char) (hx : is_literal x = true)
    (hy : is_literal y = true) (hw : is_literal w = true) (hh : is_literal h = true)
    (bx : decimal_value x ≤ 2 ^ 53) (bY : decimal_value y ≤ 2 ^ 53)
    (bw : decimal_value w ≤ 2 ^ 53) (bh : decimal_value h ≤ 2 ^ 53) (fuel : Nat) :
    parse_xdot_attr (fuel + 2) (ellipse_text x y w h) =
      .ok [Shape.ellipse ⟨⟨decimal_value x, decimal_value y⟩, decimal_value w, decimal_value h,
        ⟨⟨0, 0, 0, 1⟩, ⟨1, 1, 1, 1⟩, 1, LineStyle.SOLID, [], "Arial".toList, 12⟩⟩] :=
  parse_ellipse_text_of_stod x y w h hx hy hw hh _ _ _ _ (stod_literal_exact x hx bx)
    (stod_literal_exact y hy bY) (stod_literal_exact w hw bw) (stod_literal_exact h hh bh) fuel

/-- The theorem `decode_ellipse` at `E 100 50 20 10`. -/
theorem decode_ellipse_witness :
    parse_xdot_attr 2 "E 100 50 20 10".toList =
      .ok [Shape.ellipse ⟨⟨100, 50⟩, 20, 10,
        ⟨⟨0, 0, 0, 1⟩, ⟨1, 1, 1, 1⟩, 1, LineStyle.SOLID, [], "Arial".toList, 12⟩⟩] := by
  have h := decode_ellipse "100".toList "50".toList "20".toList "10".toList rfl rfl rfl rfl
    (by decide) (by decide) (by decide) (by decide) 0
  have e1 : decimal_value "100".toList = 100 := by decide
  have e2 : decimal_value "50".toList = 50 := by decide
  have e3 : decimal_value "20".toList = 20 := by decide
  have e4 : decimal_value "10".toList = 10 := by decide
  rw [e1, e2, e3, e4] at h
  exact_mod_cast h

/-- C6 fails as stated: in `E 9007199254740993 0 1 1` the first literal is `2^53 + 1`, which
is no double, and the ellipse that is decoded has its center at `2^53`. -/
theorem decode_ellipse_inexact :
    parse_xdot_attr 2 "E 9007199254740993 0 1 1".toList =
      .ok [Shape.ellipse ⟨⟨9007199254740992, 0⟩, 1, 1, Pen.new⟩] ∧
    parse_xdot_attr 2 "E 9007199254740993 0 1 1".toList ≠
      .ok [Shape.ellipse ⟨⟨9007199254740993, 0⟩, 1, 1, Pen.new⟩] := by
  have e1 : decimal_value "9007199254740993".toList = 9007199254740993 := by decide
  have e2 : decimal_value "0".toList = 0 := by decide
  have e3 : decimal_value "1".toList = 1 := by decide
  have s1 : stod "9007199254740993".toList = .ok 9007199254740992 := by
    rw [stod_literal "9007199254740993".toList rfl, e1, if_neg (by norm_num)]
    have := round_to_double_example
    norm_num at this ⊢
    exact this
  have s2 : stod "0".toList = .ok 0 := by
    have := stod_literal_exact "0".toList rfl (by decide)
    rw [e2] at this
    exact_mod_cast this
  have s3 : stod "1".toList = .ok 1 := by
    have := stod_literal_exact "1".toList rfl (by decide)
    rw [e3] at this
    exact_mod_cast this
  have h := parse_ellipse_text_of_stod "9007199254740993".toList "0".toList "1".toList
    "1".toList rfl rfl rfl rfl _ _ _ _ s1 s2 s3 s3 0
  have ht : ellipse_text "9007199254740993".toList "0".toList "1".toList "1".toList =
      "E 9007199254740993 0 1 1".toList := rfl
  rw [ht] at h
  refine ⟨h, ?_⟩
  rw [h]
  intro hc
  have := Except.ok.inj hc
  simp only [List.cons.injEq, Shape.ellipse.injEq, EllipseShape.mk.injEq, Point.mk.injEq,
    and_true, true_and] at this
  norm_num at this

end XDot
end XDotCpp

namespace XDotCpp
namespace XDot

/-! ## The decoder does not look at `data_` while it runs -/

/-- The method `read_int` on a state with another text in `data_`. -/
theorem read_int_data (s : XDotAttrParser) (d : List Char) :
    (s.with_data d).read_int =
      (s.read_int).map (fun r => (r.1, r.2.with_data d)) := by
  unfold XDotAttrParser.read_int XDotAttrParser.with_data
  simp only [XDotAttrParser.skip_whitespace, XDotAttrParser.current_char, XDotAttrParser.advance]
  split_ifs <;> first | rfl | (cases stoi _ <;> rfl)

theorem read_float_data (s : XDotAttrParser) (d : List Char) :
    (s.with_data d).read_float =
      (s.read_float).map (fun r => (r.1, r.2.with_data d)) := by
  unfold XDotAttrParser.read_float XDotAttrParser.with_data
  simp only [XDotAttrParser.skip_whitespace, XDotAttrParser.current_char, XDotAttrParser.advance]
  split_ifs <;> first | rfl | (cases stod _ <;> rfl)

theorem read_point_data (s : XDotAttrParser) (d : List Char) :
    (s.with_data d).read_point =
      (s.read_point).map (fun r => (r.1, r.2.with_data d)) := by
  unfold XDotAttrParser.read_point
  simp only [bind, Except.bind, read_float_data]
  cases s.read_float with
  | error e => rfl
  | ok r =>
    simp only [Except.map, read_float_data]
    cases r.2.read_float with
    | error e => rfl
    | ok r2 => rfl

theorem read_text_data (s : XDotAttrParser) (d : List Char) :
    (s.with_data d).read_text =
      (s.read_text).map (fun r => (r.1, r.2.with_data d)) := by
  unfold XDotAttrParser.read_text
  have h : (s.with_data d).skip_whitespace = s.skip_whitespace.with_data d := rfl
  simp only [bind, Except.bind, h, read_int_data]
  cases s.skip_whitespace.read_int with
  | error e => rfl
  | ok r =>
    simp only [Except.map, XDotAttrParser.skip_whitespace, XDotAttrParser.current_char,
      XDotAttrParser.advance, XDotAttrParser.with_data]
    split_ifs <;> rfl

theorem read_polygon_loop_data (d : List Char) :
    ∀ (n : Nat) (s : XDotAttrParser) (points : List Point),
      read_polygon_loop n (s.with_data d) points =
        (read_polygon_loop n s points).map (fun r => (r.1, r.2.with_data d)) := by
  intro n
  induction n with
  | zero => intro s points; rfl
  | succ n ih =>
    intro s points
    simp only [read_polygon_loop, bind, Except.bind, read_point_data]
    cases s.read_point with
    | error e => rfl
    | ok r => simp only [Except.map]; exact ih r.2 _

theorem read_polygon_data (s : XDotAttrParser) (d : List Char) :
    (s.with_data d).read_polygon =
      (s.read_polygon).map (fun r => (r.1, r.2.with_data d)) := by
  unfold XDotAttrParser.read_polygon
  simp only [bind, Except.bind, read_int_data]
  cases s.read_int with
  | error e => rfl
  | ok r => simp only [Except.map]; exact read_polygon_loop_data d _ r.2 _

theorem read_color_data (s : XDotAttrParser) (d : List Char) :
    (s.with_data d).read_color =
      (s.read_color).map (fun r => (r.1, r.2.with_data d)) := by
  unfold XDotAttrParser.read_color
  simp only [bind, Except.bind, read_text_data]
  cases s.read_text with
  | error e => rfl
  | ok r => rfl

theorem handle_ellipse_data (s : XDotAttrParser) (d : List Char) :
    (s.with_data d).handle_ellipse = (s.handle_ellipse).map (fun t => t.with_data d) := by
  unfold XDotAttrParser.handle_ellipse
  simp only [bind, Except.bind]
  rw [read_point_data]
  cases s.read_point with
  | error e => rfl
  | ok r0 =>
    simp only [Except.map]
    rw [read_float_data]
    cases r0.2.read_float with
    | error e => rfl
    | ok r1 =>
      simp only [Except.map]
      rw [read_float_data]
      cases r1.2.read_float with
      | error e => rfl
      | ok r2 =>
        rfl

theorem handle_polygon_data (s : XDotAttrParser) (d : List Char) :
    (s.with_data d).handle_polygon = (s.handle_polygon).map (fun t => t.with_data d) := by
  unfold XDotAttrParser.handle_polygon
  simp only [bind, Except.bind]
  rw [read_polygon_data]
  cases s.read_polygon with
  | error e => rfl
  | ok r0 =>
    rfl

theorem handle_polyline_data (s : XDotAttrParser) (d : List Char) :
    (s.with_data d).handle_polyline = (s.handle_polyline).map (fun t => t.with_data d) := by
  unfold XDotAttrParser.handle_polyline
  simp only [bind, Except.bind]
  rw [read_polygon_data]
  cases s.read_polygon with
  | error e => rfl
  | ok r0 =>
    rfl

theorem handle_bezier_data (s : XDotAttrParser) (d : List Char) :
    (s.with_data d).handle_bezier = (s.handle_bezier).map (fun t => t.with_data d) := by
  unfold XDotAttrParser.handle_bezier
  simp only [bind, Except.bind]
  rw [read_polygon_data]
  cases s.read_polygon with
  | error e => rfl
  | ok r0 =>
    rfl

theorem handle_text_data (s : XDotAttrParser) (d : List Char) :
    (s.with_data d).handle_text = (s.handle_text).map (fun t => t.with_data d) := by
  unfold XDotAttrParser.handle_text
  simp only [bind, Except.bind]
  rw [read_point_data]
  cases s.read_point with
  | error e => rfl
  | ok r0 =>
    simp only [Except.map]
    rw [read_int_data]
    cases r0.2.read_int with
    | error e => rfl
    | ok r1 =>
      simp only [Except.map]
      rw [read_float_data]
      cases r1.2.read_float with
      | error e => rfl
      | ok r2 =>
        simp only [Except.map]
        rw [read_text_data]
        cases r2.2.read_text with
        | error e => rfl
        | ok r3 =>
          rfl

theorem handle_image_data (s : XDotAttrParser) (d : List Char) :
    (s.with_data d).handle_image = (s.handle_image).map (fun t => t.with_data d) := by
  unfold XDotAttrParser.handle_image
  simp only [bind, Except.bind]
  rw [read_point_data]
  cases s.read_point with
  | error e => rfl
  | ok r0 =>
    simp only [Except.map]
    rw [read_float_data]
    cases r0.2.read_float with
    | error e => rfl
    | ok r1 =>
      simp only [Except.map]
      rw [read_float_data]
      cases r1.2.read_float with
      | error e => rfl
      | ok r2 =>
        simp only [Except.map]
        rw [read_text_data]
        cases r2.2.read_text with
        | error e => rfl
        | ok r3 =>
          rfl

theorem handle_style_data (s : XDotAttrParser) (d : List Char) :
    (s.with_data d).handle_style = (s.handle_style).map (fun t => t.with_data d) := by
  unfold XDotAttrParser.handle_style
  simp only [bind, Except.bind]
  rw [read_text_data]
  cases s.read_text with
  | error e => rfl
  | ok r0 =>
    simp only [Except.map]
    split_ifs <;> rfl

theorem handle_color_data (s : XDotAttrParser) (d : List Char) :
    (s.with_data d).handle_color = (s.handle_color).map (fun t => t.with_data d) := by
  unfold XDotAttrParser.handle_color
  simp only [bind, Except.bind]
  rw [read_color_data]
  cases s.read_color with
  | error e => rfl
  | ok r0 =>
    rfl

theorem handle_fill_color_data (s : XDotAttrParser) (d : List Char) :
    (s.with_data d).handle_fill_color = (s.handle_fill_color).map (fun t => t.with_data d) := by
  unfold XDotAttrParser.handle_fill_color
  simp only [bind, Except.bind]
  rw [read_color_data]
  cases s.read_color with
  | error e => rfl
  | ok r0 =>
    rfl

theorem handle_font_data (s : XDotAttrParser) (d : List Char) :
    (s.with_data d).handle_font = (s.handle_font).map (fun t => t.with_data d) := by
  unfold XDotAttrParser.handle_font
  simp only [bind, Except.bind]
  rw [read_float_data]
  cases s.read_float with
  | error e => rfl
  | ok r0 =>
    simp only [Except.map]
    rw [read_text_data]
    cases r0.2.read_text with
    | error e => rfl
    | ok r1 =>
      rfl

/-- Every handler of an opcode on a state with another text in `data_`. -/
theorem dispatch_data (code : List Char) (s : XDotAttrParser) (d : List Char) :
    (s.with_data d).dispatch code = (s.dispatch code).map (fun t => t.with_data d) := by
  unfold XDotAttrParser.dispatch
  by_cases h : code = ['E']
  · rw [if_pos h, if_pos h]; exact handle_ellipse_data s d
  rw [if_neg h, if_neg h]; clear h
  by_cases h : code = ['P']
  · rw [if_pos h, if_pos h]; exact handle_polygon_data s d
  rw [if_neg h, if_neg h]; clear h
  by_cases h : code = ['L']
  · rw [if_pos h, if_pos h]; exact handle_polyline_data s d
  rw [if_neg h, if_neg h]; clear h
  by_cases h : code = ['B']
  · rw [if_pos h, if_pos h]; exact handle_bezier_data s d
  rw [if_neg h, if_neg h]; clear h
  by_cases h : code = ['T']
  · rw [if_pos h, if_pos h]; exact handle_text_data s d
  rw [if_neg h, if_neg h]; clear h
  by_cases h : code = ['I']
  · rw [if_pos h, if_pos h]; exact handle_image_data s d
  rw [if_neg h, if_neg h]; clear h
  by_cases h : code = ['S']
  · rw [if_pos h, if_pos h]; exact handle_style_data s d
  rw [if_neg h, if_neg h]; clear h
  by_cases h : code = ['c']
  · rw [if_pos h, if_pos h]; exact handle_color_data s d
  rw [if_neg h, if_neg h]; clear h
  by_cases h : code = ['C']
  · rw [if_pos h, if_pos h]; exact handle_fill_color_data s d
  rw [if_neg h, if_neg h]; clear h
  by_cases h : code = ['F']
  · rw [if_pos h, if_pos h]; exact handle_font_data s d
  rw [if_neg h, if_neg h]; clear h
  rfl

/-- The loop of `parse` on a state with another text in `data_`. -/
theorem parse_loop_data (d : List Char) :
    ∀ (fuel : Nat) (s : XDotAttrParser),
      parse_loop fuel (s.with_data d) =
        (parse_loop fuel s).map (fun t => t.with_data d) := by
  intro fuel
  induction fuel with
  | zero => intro s; rfl
  | succ fuel ih =>
    intro s
    simp only [parse_loop]
    have h1 : (s.with_data d).has_more = s.has_more := rfl
    have h2 : (s.with_data d).skip_whitespace = s.skip_whitespace.with_data d := rfl
    have h3 : ∀ t : XDotAttrParser, (t.with_data d).read_code =
        (t.read_code.1, t.read_code.2.with_data d) := fun t => rfl
    have h4 : (s.skip_whitespace.with_data d).has_more = s.skip_whitespace.has_more := rfl
    rw [h1, h2, h4, h3]
    cases s.has_more with
    | false => rfl
    | true =>
      simp only [if_true]
      cases s.skip_whitespace.has_more with
      | false => rfl
      | true =>
        simp only [Bool.not_true, Bool.false_eq_true, if_false]
        rw [dispatch_data]
        cases XDotAttrParser.dispatch s.skip_whitespace.read_code.1 s.skip_whitespace.read_code.2 with
        | error e => rfl
        | ok t => simp only [Except.map]; exact ih t

/-! ## Steps of the decode loop -/

theorem not_whitespace_of_alpha (c : Char) (h : c.isAlpha = true) :
    Dot.is_whitespace c = false := by
  cases hw : Dot.is_whitespace c
  · rfl
  · unfold Dot.is_whitespace at hw
    simp only [Bool.or_eq_true, beq_iff_eq] at hw
    rcases hw with ((((h1 | h1) | h1) | h1) | h1) | h1 <;> subst h1 <;> cases h

theorem not_whitespace_of_digit (c : Char) (h : c.isDigit = true) :
    Dot.is_whitespace c = false := by
  cases hw : Dot.is_whitespace c
  · rfl
  · unfold Dot.is_whitespace at hw
    simp only [Bool.or_eq_true, beq_iff_eq] at hw
    rcases hw with ((((h1 | h1) | h1) | h1) | h1) | h1 <;> subst h1 <;> cases h

/-- What `dropWhile` leaves does not start with a character it drops. -/
theorem dropWhile_idem (p : Char → Bool) (l : List Char) :
    (l.dropWhile p).dropWhile p = l.dropWhile p := by
  induction l with
  | nil => rfl
  | cons a l ih =>
    rw [List.dropWhile_cons]
    split
    · exact ih
    · rename_i h
      rw [List.dropWhile_cons, if_neg h]

theorem dropWhile_space (l : List Char) :
    (' ' :: l).dropWhile Dot.is_whitespace = l.dropWhile Dot.is_whitespace := by
  rw [List.dropWhile_cons, if_pos (by decide)]

theorem dropWhile_stop (p : Char → Bool) (c : Char) (l : List Char) (h : p c = false) :
    (c :: l).dropWhile p = c :: l := by
  rw [List.dropWhile_cons, h]; rfl

theorem skip_whitespace_idem (s : XDotAttrParser) :
    s.skip_whitespace.skip_whitespace = s.skip_whitespace := by
  unfold XDotAttrParser.skip_whitespace
  simp only [dropWhile_idem]

/-- The loop of `parse` skips the white space at the cursor before anything else. -/
theorem parse_loop_skip_whitespace (fuel : Nat) (s : XDotAttrParser) :
    parse_loop fuel s.skip_whitespace = parse_loop fuel s := by
  cases fuel with
  | zero => rfl
  | succ fuel =>
    simp only [parse_loop, skip_whitespace_idem]
    cases h1 : s.skip_whitespace.has_more with
    | true =>
      have h2 : s.has_more = true := by
        unfold XDotAttrParser.has_more XDotAttrParser.skip_whitespace at *
        cases hr : s.rest with
        | nil => rw [hr] at h1; simp at h1
        | cons c r => rfl
      simp [h2]
    | false =>
      cases h2 : s.has_more with
      | true => simp
      | false =>
        simp only [Bool.false_eq_true, if_false]
        have : s.rest = [] := by
          unfold XDotAttrParser.has_more at h2
          cases hr : s.rest with
          | nil => rfl
          | cons c r => rw [hr] at h2; simp at h2
        unfold XDotAttrParser.skip_whitespace
        rw [this]
        cases s
        simp only at this
        subst this
        rfl

/-- Two states that differ in the white space at the cursor only decode alike. -/
theorem parse_loop_same_after_whitespace (fuel : Nat) (s : XDotAttrParser) (r1 r2 : List Char)
    (h : r1.dropWhile Dot.is_whitespace = r2.dropWhile Dot.is_whitespace) :
    parse_loop fuel { s with rest := r1 } = parse_loop fuel { s with rest := r2 } := by
  rw [← parse_loop_skip_whitespace fuel { s with rest := r1 },
    ← parse_loop_skip_whitespace fuel { s with rest := r2 }]
  unfold XDotAttrParser.skip_whitespace
  simp only [h]

/-- One iteration of the loop of `parse` on an opcode: the letters at the cursor, up to
the end of the data or a character that is no letter, are dispatched. -/
theorem parse_loop_opcode (fuel : Nat) (s : XDotAttrParser) (c : Char) (cs r : List Char)
    (hc : ∀ d ∈ c :: cs, d.isAlpha = true) (hr : r.head?.all (fun d => !d.isAlpha) = true)
    (hs : s.rest = c :: cs ++ r) :
    parse_loop (fuel + 1) s =
      match XDotAttrParser.dispatch (c :: cs) { s with rest := r } with
      | .error e => .error (DecodeFailure.thrown e)
      | .ok t => parse_loop fuel t := by
  have hws : Dot.is_whitespace c = false := not_whitespace_of_alpha c (hc c (List.mem_cons_self _ _))
  have hskip : s.skip_whitespace = s := by
    unfold XDotAttrParser.skip_whitespace
    rw [hs, List.cons_append, List.dropWhile_cons, hws]
    simp only [Bool.false_eq_true, if_false]
    cases s
    simp only at hs
    subst hs
    rfl
  have hmore : s.has_more = true := by
    unfold XDotAttrParser.has_more; rw [hs]; rfl
  have hcode : s.read_code = (c :: cs, { s with rest := r }) := by
    unfold XDotAttrParser.read_code
    simp only [hskip]
    rw [hs, takeWhile_append_stop (c :: cs) r hc hr, dropWhile_append_stop (c :: cs) r hc hr]
  rw [parse_loop]
  simp only [hmore, if_true, hskip, Bool.not_true, Bool.false_eq_true, if_false, hcode]
  all_goals rfl

/-- The loop of `parse` at the end of the data. -/
theorem parse_loop_end (fuel : Nat) (s : XDotAttrParser) (hs : s.rest = []) :
    parse_loop (fuel + 1) s = .ok s := by
  rw [parse_loop]
  have : s.has_more = false := by unfold XDotAttrParser.has_more; rw [hs]; rfl
  simp [this]

/-- The loop of `parse` makes no progress at a character that is neither white space nor
a letter: `read_code` returns the empty code, no handler runs, and the next iteration finds
the same state. -/
theorem parse_loop_stuck (s : XDotAttrParser) (c : Char) (r : List Char)
    (hs : s.rest = c :: r) (hw : Dot.is_whitespace c = false) (ha : c.isAlpha = false) :
    ∀ fuel, parse_loop fuel s = .error DecodeFailure.out_of_fuel := by
  have hskip : s.skip_whitespace = s := by
    unfold XDotAttrParser.skip_whitespace
    rw [hs, List.dropWhile_cons, hw]
    simp only [Bool.false_eq_true, if_false]
    cases s
    simp only at hs
    subst hs
    rfl
  have hmore : s.has_more = true := by
    unfold XDotAttrParser.has_more; rw [hs]; rfl
  have hcode : s.read_code = ([], s) := by
    unfold XDotAttrParser.read_code
    simp only [hskip]
    rw [hs, List.takeWhile_cons, List.dropWhile_cons, ha]
    simp only [Bool.false_eq_true, if_false]
    cases s
    simp only at hs
    subst hs
    rfl
  intro fuel
  induction fuel with
  | zero => rfl
  | succ fuel ih =>
    rw [parse_loop]
    simp only [hmore, if_true, hskip, Bool.not_true, Bool.false_eq_true, if_false, hcode]
    have hd : XDotAttrParser.dispatch [] s = .ok s := by
      unfold XDotAttrParser.dispatch
      simp
    rw [hd]
    exact ih

/-! ## The readers on literals -/

/-- The method `read_int` on a decimal literal below `2^31`, after white space, that is
followed by the end of the data or by a character that is no digit. -/
theorem read_int_literal (s : XDotAttrParser) (lit r : List Char) (h : is_literal lit = true)
    (hr : r.head?.all (fun c => !c.isDigit) = true)
    (hs : s.rest.dropWhile Dot.is_whitespace = lit ++ r) (hv : decimal_value lit < 2 ^ 31) :
    s.read_int = .ok ((decimal_value lit : Int), { s with rest := r }) := by
  obtain ⟨c, cs, rfl, hc, hall⟩ := is_literal_chars lit h
  have hminus : (c == '-') = false := by
    cases hm : (c == '-')
    · rfl
    · simp only [beq_iff_eq] at hm; subst hm; cases hc
  unfold XDotAttrParser.read_int
  simp only [XDotAttrParser.skip_whitespace, hs, XDotAttrParser.current_char]
  simp only [List.cons_append, List.headD_cons, hminus, Bool.false_eq_true, if_false]
  have e1 := takeWhile_append_stop (p := Char.isDigit) (c :: cs) r hall hr
  have e2 := dropWhile_append_stop (p := Char.isDigit) (c :: cs) r hall hr
  simp only [List.cons_append] at e1 e2
  rw [e1, e2]
  simp only [List.isEmpty_cons, Bool.false_eq_true, if_false, stoi]
  rw [if_neg (by omega)]

/-- The method `read_text` on ` n -t`, where the literal `n` is the length of the text `t`,
which does not start with white space: it returns `t` and leaves the cursor behind it, or
behind the white space after it when `t` is empty. -/
theorem read_text_payload (s : XDotAttrParser) (n t r : List Char) (hn : is_literal n = true)
    (hlen : decimal_value n = t.length) (hv : t.length < 2 ^ 31)
    (ht : starts_without_space t = true)
    (hs : s.rest = ' ' :: (n ++ ' ' :: '-' :: (t ++ r))) :
    ∃ r1, s.read_text = .ok (t, { s with rest := r1 }) ∧
      r1.dropWhile Dot.is_whitespace = r.dropWhile Dot.is_whitespace := by
  obtain ⟨c, cs, rfl, hc, hall⟩ := is_literal_chars n hn
  have hwc : Dot.is_whitespace c = false := not_whitespace_of_digit c hc
  have h1 : s.skip_whitespace.rest.dropWhile Dot.is_whitespace =
      (c :: cs) ++ (' ' :: '-' :: (t ++ r)) := by
    unfold XDotAttrParser.skip_whitespace
    simp only [dropWhile_idem]
    rw [hs, dropWhile_space, List.cons_append, dropWhile_stop _ c _ hwc]
  have hint := read_int_literal s.skip_whitespace (c :: cs) (' ' :: '-' :: (t ++ r)) hn rfl h1
    (by omega)
  unfold XDotAttrParser.read_text
  simp only [bind, Except.bind, hint]
  simp only [XDotAttrParser.skip_whitespace, XDotAttrParser.current_char,
    XDotAttrParser.advance, pure, Except.pure]
  rw [dropWhile_space, dropWhile_stop _ '-' _ (by decide)]
  simp only [List.headD_cons, beq_self_eq_true, if_true, List.drop_succ_cons, List.drop_zero,
    hlen, Int.toNat_ofNat]
  cases t with
  | nil =>
    refine ⟨r.dropWhile Dot.is_whitespace, ?_, dropWhile_idem _ _⟩
    simp
  | cons a t =>
    have ha : Dot.is_whitespace a = false := by
      simpa [starts_without_space] using ht
    refine ⟨r, ?_, rfl⟩
    rw [List.cons_append, dropWhile_stop _ a _ ha, ← List.cons_append]
    simp

/-- The method `read_float` on a space and a minus sign before a literal. -/
theorem read_float_negative (s : XDotAttrParser) (lit r : List Char) (h : is_literal lit = true)
    (hr : r.head?.all (fun c => !(c.isDigit || c == '.')) = true)
    (hs : s.rest = ' ' :: '-' :: (lit ++ r)) :
    s.read_float =
      match stod lit with
      | .error e => .error e
      | .ok v => .ok (-v, { s with rest := r }) := by
  obtain ⟨c, cs, rfl, hc, hall⟩ := is_literal_chars lit h
  have hall1 : ∀ d ∈ c :: cs, (d.isDigit || d == '.') = true := by
    intro d hd; simp [hall d hd]
  unfold XDotAttrParser.read_float
  simp only [XDotAttrParser.skip_whitespace, XDotAttrParser.current_char, XDotAttrParser.advance,
    hs]
  rw [dropWhile_space, dropWhile_stop _ '-' _ (by decide)]
  simp only [List.headD_cons, beq_self_eq_true, if_true, List.drop_succ_cons, List.drop_zero]
  have e1 := takeWhile_append_stop (p := fun c => c.isDigit || c == '.') (c :: cs) r hall1 hr
  have e2 := dropWhile_append_stop (p := fun c => c.isDigit || c == '.') (c :: cs) r hall1 hr
  rw [e1, e2]
  cases stod (c :: cs) <;> simp only [List.isEmpty_cons, Bool.false_eq_true, if_false]

/-- A decimal integer literal with an optional minus sign is a literal, or a minus sign
and a literal. -/
theorem is_int_literal_cases (lit : List Char) (h : is_int_literal lit = true) :
    (is_literal lit = true ∧ int_literal_value lit = (decimal_value lit : Int)) ∨
    ∃ digits, lit = '-' :: digits ∧ is_literal digits = true ∧
      int_literal_value lit = -(decimal_value digits : Int) := by
  cases lit with
  | nil => cases h
  | cons c cs =>
    by_cases hc : c = '-'
    · subst hc
      exact Or.inr ⟨cs, rfl, h, rfl⟩
    · left
      have e1 : is_int_literal (c :: cs) = is_literal (c :: cs) := by
        unfold is_int_literal
        split
        · rename_i heq; simp only [List.cons.injEq] at heq; exact absurd heq.1 hc
        · rfl
      have e2 : int_literal_value (c :: cs) = (decimal_value (c :: cs) : Int) := by
        unfold int_literal_value
        split
        · rename_i heq; simp only [List.cons.injEq] at heq; exact absurd heq.1 hc
        · rfl
      exact ⟨e1 ▸ h, e2⟩

/-- The method `read_float` on a space and a decimal integer literal, with or without a
minus sign, of absolute value at most `2^53`: the number is read exactly. -/
theorem read_float_int_literal (s : XDotAttrParser) (lit r : List Char)
    (h : is_int_literal lit = true)
    (hr : r.head?.all (fun c => !(c.isDigit || c == '.')) = true)
    (hv : (int_literal_value lit).natAbs ≤ 2 ^ 53) (hs : s.rest = ' ' :: (lit ++ r)) :
    s.read_float = .ok (((int_literal_value lit : Int) : ℚ), { s with rest := r }) := by
  rcases is_int_literal_cases lit h with ⟨hl, hval⟩ | ⟨digits, rfl, hl, hval⟩
  · rw [read_float_literal s lit r hl hr hs, stod_literal_exact lit hl (by rw [hval] at hv; simpa using hv)]
    simp only [hval, Int.cast_natCast]
  · rw [read_float_negative s digits r hl hr hs,
      stod_literal_exact digits hl (by rw [hval] at hv; simpa using hv)]
    simp only [hval, Int.cast_neg, Int.cast_natCast]

/-- The method `handle_ellipse` on four decimal integer literals of absolute value at most
`2^53`: it appends the ellipse they describe, with the current pen. -/
theorem handle_ellipse_literals (s : XDotAttrParser) (x y w h r : List Char)
    (hx : is_int_literal x = true) (hy : is_int_literal y = true)
    (hw : is_int_literal w = true) (hh : is_int_literal h = true)
    (bx : (int_literal_value x).natAbs ≤ 2 ^ 53) (bY : (int_literal_value y).natAbs ≤ 2 ^ 53)
    (bw : (int_literal_value w).natAbs ≤ 2 ^ 53) (bh : (int_literal_value h).natAbs ≤ 2 ^ 53)
    (hr : r.head?.all (fun c => !(c.isDigit || c == '.')) = true)
    (hs : s.rest = ' ' :: (x ++ ' ' :: (y ++ ' ' :: (w ++ ' ' :: (h ++ r))))) :
    s.handle_ellipse = .ok { s with
      rest := r,
      shapes_ := s.shapes_ ++ [Shape.ellipse ⟨⟨(int_literal_value x : ℚ), (int_literal_value y : ℚ)⟩,
        (int_literal_value w : ℚ), (int_literal_value h : ℚ), s.current_pen_⟩] } := by
  have f1 := read_float_int_literal s x (' ' :: (y ++ ' ' :: (w ++ ' ' :: (h ++ r)))) hx rfl bx hs
  have f2 := read_float_int_literal { s with rest := ' ' :: (y ++ ' ' :: (w ++ ' ' :: (h ++ r))) }
    y (' ' :: (w ++ ' ' :: (h ++ r))) hy rfl bY rfl
  have f3 := read_float_int_literal { s with rest := ' ' :: (w ++ ' ' :: (h ++ r)) }
    w (' ' :: (h ++ r)) hw rfl bw rfl
  have f4 := read_float_int_literal { s with rest := ' ' :: (h ++ r) } h r hh hr bh rfl
  simp only [XDotAttrParser.handle_ellipse, XDotAttrParser.read_point, bind, Except.bind, f1,
    f2, f3, f4, pure, Except.pure, XDotAttrParser.transform]

/-! ## Whole opcodes -/

theorem ellipse_text_append (x y w h r : List Char) :
    ellipse_text x y w h ++ r = 'E' :: (' ' :: (x ++ ' ' :: (y ++ ' ' :: (w ++ ' ' :: (h ++ r))))) := by
  simp [ellipse_text, List.append_assoc]

theorem style_text_append (n style r : List Char) :
    style_text n style ++ r = 'S' :: (' ' :: (n ++ ' ' :: '-' :: (style ++ r))) := by
  simp [style_text, List.append_assoc]

theorem color_text_append (n col r : List Char) :
    color_text n col ++ r = 'c' :: (' ' :: (n ++ ' ' :: '-' :: (col ++ r))) := by
  simp [color_text, List.append_assoc]

/-- An iteration of the loop of `parse` on `E x y w h`: the ellipse is appended with the
current pen, and the decode goes on behind it. -/
theorem parse_loop_ellipse (fuel : Nat) (s : XDotAttrParser) (x y w h r : List Char)
    (hx : is_int_literal x = true) (hy : is_int_literal y = true)
    (hw : is_int_literal w = true) (hh : is_int_literal h = true)
    (bx : (int_literal_value x).natAbs ≤ 2 ^ 53) (bY : (int_literal_value y).natAbs ≤ 2 ^ 53)
    (bw : (int_literal_value w).natAbs ≤ 2 ^ 53) (bh : (int_literal_value h).natAbs ≤ 2 ^ 53)
    (hr : r.head?.all (fun c => !(c.isDigit || c == '.')) = true)
    (hs : s.rest = ellipse_text x y w h ++ r) :
    parse_loop (fuel + 1) s = parse_loop fuel { s with
      rest := r,
      shapes_ := s.shapes_ ++ [Shape.ellipse ⟨⟨(int_literal_value x : ℚ), (int_literal_value y : ℚ)⟩,
        (int_literal_value w : ℚ), (int_literal_value h : ℚ), s.current_pen_⟩] } := by
  rw [ellipse_text_append] at hs
  rw [parse_loop_opcode fuel s 'E' [] (' ' :: (x ++ ' ' :: (y ++ ' ' :: (w ++ ' ' :: (h ++ r)))))
    (by simp) rfl hs]
  have hd : ∀ t : XDotAttrParser, XDotAttrParser.dispatch ['E'] t = t.handle_ellipse := fun t => rfl
  rw [hd, handle_ellipse_literals _ x y w h r hx hy hw hh bx bY bw bh hr rfl]

/-- An iteration of the loop of `parse` on `c n -col`, where the literal `n` is the length
of `col`, which does not start with white space: the stroke colour of the pen becomes
`lookup_color col`, and the decode goes on behind `col`. -/
theorem parse_loop_color (fuel : Nat) (s : XDotAttrParser) (n col r : List Char)
    (hn : is_literal n = true) (hlen : decimal_value n = col.length)
    (hv : col.length < 2 ^ 31) (ht : starts_without_space col = true)
    (hs : s.rest = color_text n col ++ r) :
    parse_loop (fuel + 1) s = parse_loop fuel { s with
      rest := r, current_pen_ := { s.current_pen_ with color := lookup_color col } } := by
  rw [color_text_append] at hs
  rw [parse_loop_opcode fuel s 'c' [] (' ' :: (n ++ ' ' :: '-' :: (col ++ r))) (by simp) rfl hs]
  have hd : ∀ t : XDotAttrParser, XDotAttrParser.dispatch ['c'] t = t.handle_color := fun t => rfl
  obtain ⟨r1, hread, hr1⟩ := read_text_payload
    { s with rest := ' ' :: (n ++ ' ' :: '-' :: (col ++ r)) } n col r hn hlen hv ht rfl
  rw [hd]
  simp only [XDotAttrParser.handle_color, XDotAttrParser.read_color, bind, Except.bind, hread,
    pure, Except.pure]
  exact parse_loop_same_after_whitespace fuel
    { s with current_pen_ := { s.current_pen_ with color := lookup_color col } } r1 r hr1

/-- An iteration of the loop of `parse` on `S n -style`, where the literal `n` is the
length of `style`, which does not start with white space and contains no keyword: the pen
stays as it is, and the decode goes on behind `style`. -/
theorem parse_loop_style_unrecognized (fuel : Nat) (s : XDotAttrParser) (n style r : List Char)
    (hn : is_literal n = true) (hlen : decimal_value n = style.length)
    (hv : style.length < 2 ^ 31) (ht : starts_without_space style = true)
    (hk : no_style_keyword style = true) (hs : s.rest = style_text n style ++ r) :
    parse_loop (fuel + 1) s = parse_loop fuel { s with rest := r } := by
  rw [style_text_append] at hs
  rw [parse_loop_opcode fuel s 'S' [] (' ' :: (n ++ ' ' :: '-' :: (style ++ r))) (by simp) rfl hs]
  have hd : ∀ t : XDotAttrParser, XDotAttrParser.dispatch ['S'] t = t.handle_style := fun t => rfl
  obtain ⟨r1, hread, hr1⟩ := read_text_payload
    { s with rest := ' ' :: (n ++ ' ' :: '-' :: (style ++ r)) } n style r hn hlen hv ht rfl
  simp only [no_style_keyword, Bool.and_eq_true, Bool.not_eq_true'] at hk
  obtain ⟨⟨k1, k2⟩, k3⟩ := hk
  rw [hd]
  simp only [XDotAttrParser.handle_style, bind, Except.bind, hread, k1, k2, k3,
    Bool.false_eq_true, if_false, pure, Except.pure]
  exact parse_loop_same_after_whitespace fuel s r1 r hr1

/-! ### The same steps on a state that is written out -/

theorem parse_loop_whitespace_at (fuel : Nat) (d : List Char) (pen : Pen) (shapes : List Shape)
    (r1 r2 : List Char)
    (h : r1.dropWhile Dot.is_whitespace = r2.dropWhile Dot.is_whitespace) :
    parse_loop fuel ⟨d, r1, pen, shapes⟩ = parse_loop fuel ⟨d, r2, pen, shapes⟩ :=
  parse_loop_same_after_whitespace fuel ⟨d, r1, pen, shapes⟩ r1 r2 h

theorem parse_loop_space_at (fuel : Nat) (d : List Char) (pen : Pen) (shapes : List Shape)
    (r : List Char) :
    parse_loop fuel ⟨d, ' ' :: r, pen, shapes⟩ = parse_loop fuel ⟨d, r, pen, shapes⟩ :=
  parse_loop_whitespace_at fuel d pen shapes _ _ (dropWhile_space r)

theorem parse_loop_ellipse_at (fuel : Nat) (d : List Char) (pen : Pen) (shapes : List Shape)
    (x y w h r : List Char)
    (hx : is_int_literal x = true) (hy : is_int_literal y = true)
    (hw : is_int_literal w = true) (hh : is_int_literal h = true)
    (bx : (int_literal_value x).natAbs ≤ 2 ^ 53) (bY : (int_literal_value y).natAbs ≤ 2 ^ 53)
    (bw : (int_literal_value w).natAbs ≤ 2 ^ 53) (bh : (int_literal_value h).natAbs ≤ 2 ^ 53)
    (hr : r.head?.all (fun c => !(c.isDigit || c == '.')) = true) :
    parse_loop (fuel + 1) ⟨d, ellipse_text x y w h ++ r, pen, shapes⟩ =
      parse_loop fuel ⟨d, r, pen,
        shapes ++ [Shape.ellipse ⟨⟨(int_literal_value x : ℚ), (int_literal_value y : ℚ)⟩,
          (int_literal_value w : ℚ), (int_literal_value h : ℚ), pen⟩]⟩ :=
  parse_loop_ellipse fuel ⟨d, ellipse_text x y w h ++ r, pen, shapes⟩ x y w h r hx hy hw hh bx bY
    bw bh hr rfl

theorem parse_loop_color_at (fuel : Nat) (d : List Char) (pen : Pen) (shapes : List Shape)
    (n col r : List Char) (hn : is_literal n = true) (hlen : decimal_value n = col.length)
    (hv : col.length < 2 ^ 31) (ht : starts_without_space col = true) :
    parse_loop (fuel + 1) ⟨d, color_text n col ++ r, pen, shapes⟩ =
      parse_loop fuel ⟨d, r, { pen with color := lookup_color col }, shapes⟩ :=
  parse_loop_color fuel ⟨d, color_text n col ++ r, pen, shapes⟩ n col r hn hlen hv ht rfl

theorem parse_loop_style_unrecognized_at (fuel : Nat) (d : List Char) (pen : Pen)
    (shapes : List Shape) (n style r : List Char) (hn : is_literal n = true)
    (hlen : decimal_value n = style.length) (hv : style.length < 2 ^ 31)
    (ht : starts_without_space style = true) (hk : no_style_keyword style = true) :
    parse_loop (fuel + 1) ⟨d, style_text n style ++ r, pen, shapes⟩ =
      parse_loop fuel ⟨d, r, pen, shapes⟩ :=
  parse_loop_style_unrecognized fuel ⟨d, style_text n style ++ r, pen, shapes⟩ n style r hn hlen
    hv ht hk rfl

theorem parse_loop_end_at (fuel : Nat) (d : List Char) (pen : Pen) (shapes : List Shape) :
    parse_loop (fuel + 1) ⟨d, [], pen, shapes⟩ = .ok ⟨d, [], pen, shapes⟩ :=
  parse_loop_end fuel _ rfl

theorem parse_loop_opcode_at (fuel : Nat) (d : List Char) (pen : Pen) (shapes : List Shape)
    (c : Char) (cs r : List Char) (hc : ∀ a ∈ c :: cs, a.isAlpha = true)
    (hr : r.head?.all (fun a => !a.isAlpha) = true) :
    parse_loop (fuel + 1) ⟨d, c :: cs ++ r, pen, shapes⟩ =
      match XDotAttrParser.dispatch (c :: cs) ⟨d, r, pen, shapes⟩ with
      | .error e => .error (DecodeFailure.thrown e)
      | .ok t => parse_loop fuel t :=
  parse_loop_opcode fuel ⟨d, c :: cs ++ r, pen, shapes⟩ c cs r hc hr rfl

/-- The shapes that `parse_xdot_attr` returns are those of the state in which the loop of
`parse` ends when it starts on the whole string with the default pen. -/
theorem parse_xdot_attr_eq (fuel : Nat) (xdot_data : List Char) :
    parse_xdot_attr fuel xdot_data =
      (parse_loop fuel ⟨xdot_data, xdot_data, Pen.new, []⟩).map (fun t => t.shapes_) := by
  unfold parse_xdot_attr XDotAttrParser.parse XDotAttrParser.new
  simp only [Bool.false_eq_true, if_false]
  cases parse_loop fuel ⟨xdot_data, xdot_data, Pen.new, []⟩ <;> rfl

/-- The shapes that the loop of `parse` ends with do not depend on `data_`. -/
theorem parse_loop_shapes_data (fuel : Nat) (s : XDotAttrParser) (d : List Char) :
    (parse_loop fuel { s with data_ := d }).map (fun t => t.shapes_) =
      (parse_loop fuel s).map (fun t => t.shapes_) := by
  have h := parse_loop_data d fuel s
  unfold XDotAttrParser.with_data at h
  rw [h]
  cases parse_loop fuel s <;> rfl

/-- The method `parse` restarts at the beginning of `data_` with no shapes and with the
pen the parser has; it returns the shapes and the state in which the loop ends. -/
theorem parse_eq (fuel : Nat) (d r : List Char) (pen : Pen) (shapes : List Shape) :
    XDotAttrParser.parse fuel ⟨d, r, pen, shapes⟩ =
      (parse_loop fuel ⟨d, d, pen, []⟩).map (fun t => (t.shapes_, t)) := by
  unfold XDotAttrParser.parse
  simp only
  cases parse_loop fuel ⟨d, d, pen, []⟩ <;> rfl

/-! ## Lengths that are no `int` -/

/-- The method `read_int` on a decimal literal of value `2^31` or more: `std::stoi`
throws. -/
theorem read_int_overflow (s : XDotAttrParser) (lit r : List Char) (h : is_literal lit = true)
    (hr : r.head?.all (fun c => !c.isDigit) = true)
    (hs : s.rest.dropWhile Dot.is_whitespace = lit ++ r) (hv : 2 ^ 31 ≤ decimal_value lit) :
    s.read_int = .error StdException.out_of_range := by
  obtain ⟨c, cs, rfl, hc, hall⟩ := is_literal_chars lit h
  have hminus : (c == '-') = false := by
    cases hm : (c == '-')
    · rfl
    · simp only [beq_iff_eq] at hm; subst hm; cases hc
  unfold XDotAttrParser.read_int
  simp only [XDotAttrParser.skip_whitespace, hs, XDotAttrParser.current_char]
  simp only [List.cons_append, List.headD_cons, hminus, Bool.false_eq_true, if_false]
  have e1 := takeWhile_append_stop (p := Char.isDigit) (c :: cs) r hall hr
  have e2 := dropWhile_append_stop (p := Char.isDigit) (c :: cs) r hall hr
  simp only [List.cons_append] at e1 e2
  rw [e1, e2]
  simp only [List.isEmpty_cons, Bool.false_eq_true, if_false, stoi]
  rw [if_pos hv]

/-- The method `read_text` on a length of `2^31` or more: the exception of `std::stoi`
leaves it. -/
theorem read_text_overflow (s : XDotAttrParser) (n r : List Char) (hn : is_literal n = true)
    (hv : 2 ^ 31 ≤ decimal_value n) (hs : s.rest = ' ' :: (n ++ ' ' :: r)) :
    s.read_text = .error StdException.out_of_range := by
  obtain ⟨c, cs, rfl, hc, hall⟩ := is_literal_chars n hn
  have hwc : Dot.is_whitespace c = false := not_whitespace_of_digit c hc
  have h1 : s.skip_whitespace.rest.dropWhile Dot.is_whitespace = (c :: cs) ++ (' ' :: r) := by
    unfold XDotAttrParser.skip_whitespace
    simp only [dropWhile_idem]
    rw [hs, dropWhile_space, List.cons_append, dropWhile_stop _ c _ hwc]
  have hint := read_int_overflow s.skip_whitespace (c :: cs) (' ' :: r) hn rfl h1 hv
  unfold XDotAttrParser.read_text
  simp only [bind, Except.bind, hint]

/-- A text in which the first character of a word does not occur does not contain the
word. -/
theorem contains_word_of_head_not_mem (style : List Char) (w : Char) (ws : List Char)
    (h : w ∉ style) : contains_word style (w :: ws) = false := by
  unfold contains_word
  rw [List.any_eq_false]
  intro t ht
  cases t with
  | nil => simp [List.isPrefixOf]
  | cons a t =>
    have hsuf : (a :: t) <:+ style := (List.mem_tails _ _).1 ht
    have ha : a ∈ style := hsuf.subset (List.mem_cons_self _ _)
    have hne : a ≠ w := fun e => h (e ▸ ha)
    simp [List.isPrefixOf, hne, Ne.symm hne]

/-- A string of the letter `x` contains no keyword of a style. -/
theorem no_style_keyword_replicate (k : Nat) : no_style_keyword (List.replicate k 'x') = true := by
  have hx : ∀ w : Char, w ≠ 'x' → w ∉ List.replicate k 'x' :=
    fun w hw hm => hw (List.eq_of_mem_replicate hm)
  unfold no_style_keyword
  rw [show "solid".toList = 's' :: "olid".toList from rfl,
    show "dashed".toList = 'd' :: "ashed".toList from rfl,
    show "dotted".toList = 'd' :: "otted".toList from rfl,
    contains_word_of_head_not_mem _ 's' _ (hx 's' (by decide)),
    contains_word_of_head_not_mem _ 'd' _ (hx 'd' (by decide)),
    contains_word_of_head_not_mem _ 'd' _ (hx 'd' (by decide))]
  rfl

/-- The decode of `S n -style` and more, when the length `n` is `2^31` or more: the
exception of `std::stoi` ends it. -/
theorem parse_style_overflow (fuel : Nat) (n style r : List Char) (hn : is_literal n = true)
    (hv : 2 ^ 31 ≤ decimal_value n) :
    parse_xdot_attr (fuel + 1) (style_text n style ++ r) =
      .error (DecodeFailure.thrown StdException.out_of_range) := by
  have hd : ∀ t : XDotAttrParser, XDotAttrParser.dispatch ['S'] t = t.handle_style := fun t => rfl
  have h1 := parse_loop_opcode_at fuel (style_text n style ++ r) Pen.new [] 'S' []
    (' ' :: (n ++ ' ' :: '-' :: (style ++ r))) (by decide) rfl
  have h2 : XDotAttrParser.handle_style
      ⟨style_text n style ++ r, ' ' :: (n ++ ' ' :: '-' :: (style ++ r)), Pen.new, []⟩ =
      .error StdException.out_of_range := by
    have hread := read_text_overflow
      ⟨style_text n style ++ r, ' ' :: (n ++ ' ' :: '-' :: (style ++ r)), Pen.new, []⟩ n
      ('-' :: (style ++ r)) hn hv rfl
    unfold XDotAttrParser.handle_style
    simp only [bind, Except.bind, hread]
  rw [hd, h2] at h1
  rw [parse_xdot_attr_eq]
  have h3 : style_text n style ++ r = 'S' :: [] ++ (' ' :: (n ++ ' ' :: '-' :: (style ++ r))) := by
    rw [style_text_append]; rfl
  rw [show (⟨style_text n style ++ r, style_text n style ++ r, Pen.new, []⟩ : XDotAttrParser) =
      ⟨style_text n style ++ r, 'S' :: [] ++ (' ' :: (n ++ ' ' :: '-' :: (style ++ r))), Pen.new,
        []⟩ from by rw [← h3], h1]
  rfl

/-- An iteration of the loop of `parse` on `c n -col`, when the length `n` is `2^31` or
more: the exception of `std::stoi` ends the decode. -/
theorem parse_loop_color_overflow_at (fuel : Nat) (d : List Char) (pen : Pen)
    (shapes : List Shape) (n col r : List Char) (hn : is_literal n = true)
    (hv : 2 ^ 31 ≤ decimal_value n) :
    parse_loop (fuel + 1) ⟨d, color_text n col ++ r, pen, shapes⟩ =
      .error (DecodeFailure.thrown StdException.out_of_range) := by
  have hd : ∀ t : XDotAttrParser, XDotAttrParser.dispatch ['c'] t = t.handle_color := fun t => rfl
  have h1 := parse_loop_opcode_at fuel d pen shapes 'c' []
    (' ' :: (n ++ ' ' :: '-' :: (col ++ r))) (by decide) rfl
  have h2 : XDotAttrParser.handle_color
      ⟨d, ' ' :: (n ++ ' ' :: '-' :: (col ++ r)), pen, shapes⟩ =
      .error StdException.out_of_range := by
    have hread := read_text_overflow
      ⟨d, ' ' :: (n ++ ' ' :: '-' :: (col ++ r)), pen, shapes⟩ n ('-' :: (col ++ r)) hn hv rfl
    unfold XDotAttrParser.handle_color XDotAttrParser.read_color
    simp only [bind, Except.bind, hread]
  rw [hd, h2] at h1
  rw [color_text_append]
  exact h1

end XDot
end XDotCpp

namespace XDotCpp
namespace XDot

/-! ## Claims about the decode of drawing strings -/

/-- C14, for style strings that do not start with white space and are shorter than `2^31`:
when such a string contains none of the keywords, the opcode `S n -style` (`n` the length
of the string) leaves the pen as it is, in every state of the decoder, and the decode goes
on behind the string; so `S n -style E x y w h` decodes to the ellipse with the default
pen, whose line style is solid. -/
theorem unrecognized_style_keeps_pen (n style : List Char) (hn : is_literal n = true)
    (hlen : decimal_value n = style.length) (hv : style.length < 2 ^ 31)
    (ht : starts_without_space style = true) (hk : no_style_keyword style = true) :
    (∀ (fuel : Nat) (s : XDotAttrParser) (r : List Char), s.rest = style_text n style ++ r →
      parse_loop (fuel + 1) s = parse_loop fuel { s with rest := r }) ∧
    (∀ (fuel : Nat) (x y w h : List Char), is_int_literal x = true → is_int_literal y = true →
      is_int_literal w = true → is_int_literal h = true →
      (int_literal_value x).natAbs ≤ 2 ^ 53 → (int_literal_value y).natAbs ≤ 2 ^ 53 →
      (int_literal_value w).natAbs ≤ 2 ^ 53 → (int_literal_value h).natAbs ≤ 2 ^ 53 →
      parse_xdot_attr (fuel + 3) (style_text n style ++ ' ' :: ellipse_text x y w h) =
        .ok [Shape.ellipse ⟨⟨(int_literal_value x : ℚ), (int_literal_value y : ℚ)⟩,
          (int_literal_value w : ℚ), (int_literal_value h : ℚ),
          ⟨⟨0, 0, 0, 1⟩, ⟨1, 1, 1, 1⟩, 1, LineStyle.SOLID, [], "Arial".toList, 12⟩⟩]) := by
  refine ⟨fun fuel s r hs => parse_loop_style_unrecognized fuel s n style r hn hlen hv ht hk hs,
    ?_⟩
  intro fuel x y w h hx hy hw hh bx bY bw bh
  rw [parse_xdot_attr_eq,
    parse_loop_style_unrecognized_at (fuel + 2) _ _ _ n style (' ' :: ellipse_text x y w h) hn
      hlen hv ht hk,
    parse_loop_space_at, ← List.append_nil (ellipse_text x y w h),
    parse_loop_ellipse_at (fuel + 1) _ _ _ x y w h [] hx hy hw hh bx bY bw bh rfl,
    parse_loop_end_at]
  rfl

/-- The theorem `unrecognized_style_keeps_pen` at the style string `bold`, in `S 4 -bold E 1
2 3 4`. -/
theorem unrecognized_style_keeps_pen_witness :
    parse_xdot_attr 3 "S 4 -bold E 1 2 3 4".toList =
      .ok [Shape.ellipse ⟨⟨1, 2⟩, 3, 4,
        ⟨⟨0, 0, 0, 1⟩, ⟨1, 1, 1, 1⟩, 1, LineStyle.SOLID, [], "Arial".toList, 12⟩⟩] := by
  have h := (unrecognized_style_keeps_pen "4".toList "bold".toList rfl (by decide) (by decide)
    (by decide) (by decide)).2 0 "1".toList "2".toList "3".toList "4".toList rfl rfl rfl rfl
    (by decide) (by decide) (by decide) (by decide)
  have e1 : int_literal_value "1".toList = 1 := by decide
  have e2 : int_literal_value "2".toList = 2 := by decide
  have e3 : int_literal_value "3".toList = 3 := by decide
  have e4 : int_literal_value "4".toList = 4 := by decide
  rw [e1, e2, e3, e4] at h
  exact_mod_cast h

/-- The style string of 20 blanks contains no keyword, and `S 20 -` with that string and
then ` T 0 0 0 0 6 -dashed E 0 0 1 1` decodes to one shape, an ellipse whose pen has the line
style dashed. -/
theorem decode_style_of_blanks :
    no_style_keyword (List.replicate 20 ' ') = true ∧
    parse_xdot_attr 3 (style_text "20".toList (List.replicate 20 ' ') ++
        " T 0 0 0 0 6 -dashed E 0 0 1 1".toList) =
      .ok [Shape.ellipse ⟨⟨0, 0⟩, 1, 1, { Pen.new with line_style := LineStyle.DASHED }⟩] := by
  refine ⟨by decide, ?_⟩
  rw [parse_xdot_attr_eq]
  have hstyle : XDotAttrParser.dispatch ['S']
      ⟨style_text "20".toList (List.replicate 20 ' ') ++ " T 0 0 0 0 6 -dashed E 0 0 1 1".toList,
        " 20 -                     T 0 0 0 0 6 -dashed E 0 0 1 1".toList, Pen.new, []⟩ =
      .ok ⟨style_text "20".toList (List.replicate 20 ' ') ++
          " T 0 0 0 0 6 -dashed E 0 0 1 1".toList,
        ellipse_text "0".toList "0".toList "1".toList "1".toList ++ [],
        { Pen.new with line_style := LineStyle.DASHED }, []⟩ := by
    rfl
  have h1 := parse_loop_opcode_at 2
    (style_text "20".toList (List.replicate 20 ' ') ++ " T 0 0 0 0 6 -dashed E 0 0 1 1".toList)
    Pen.new [] 'S' [] " 20 -                     T 0 0 0 0 6 -dashed E 0 0 1 1".toList
    (by decide) (by decide)
  rw [hstyle] at h1
  have h2 : (⟨style_text "20".toList (List.replicate 20 ' ') ++
        " T 0 0 0 0 6 -dashed E 0 0 1 1".toList,
      style_text "20".toList (List.replicate 20 ' ') ++
        " T 0 0 0 0 6 -dashed E 0 0 1 1".toList, Pen.new, []⟩ : XDotAttrParser) =
      ⟨style_text "20".toList (List.replicate 20 ' ') ++
        " T 0 0 0 0 6 -dashed E 0 0 1 1".toList,
       'S' :: [] ++ " 20 -                     T 0 0 0 0 6 -dashed E 0 0 1 1".toList, Pen.new,
       []⟩ := by decide
  rw [h2, h1]
  simp only
  rw [parse_loop_ellipse_at 1 _ _ _ "0".toList "0".toList "1".toList "1".toList [] rfl rfl rfl rfl
      (by decide) (by decide) (by decide) (by decide) rfl,
    parse_loop_end_at]
  have e0 : int_literal_value "0".toList = 0 := by decide
  have e1 : int_literal_value "1".toList = 1 := by decide
  simp only [e0, e1, Except.map, List.nil_append, Int.cast_zero, Int.cast_one]

/-- C14 as stated fails, for two reasons. The length of a style string of `2^31`
characters is no `int`: `std::stoi` throws, and the decode of `S 2147483648 -`, the string
and ` E 0 0 1 1` ends with `std::out_of_range`. And `read_text` skips white space behind
the `-`: for the style string of 20 blanks the decoder reads the 20 characters behind them
instead, `T 0 0 0 0 6 -dashed` and a blank, and the ellipse that follows gets a dashed
pen. -/
theorem style_too_long_or_blank :
    (no_style_keyword (List.replicate (2 ^ 31) 'x') = true ∧
      decimal_value "2147483648".toList = (List.replicate (2 ^ 31) 'x').length ∧
      parse_xdot_attr 3 (style_text "2147483648".toList (List.replicate (2 ^ 31) 'x') ++
          " E 0 0 1 1".toList) =
        .error (DecodeFailure.thrown StdException.out_of_range)) ∧
    (no_style_keyword (List.replicate 20 ' ') = true ∧
      decimal_value "20".toList = (List.replicate 20 ' ').length ∧
      parse_xdot_attr 3 (style_text "20".toList (List.replicate 20 ' ') ++
          " T 0 0 0 0 6 -dashed E 0 0 1 1".toList) =
        .ok [Shape.ellipse ⟨⟨0, 0⟩, 1, 1, { Pen.new with line_style := LineStyle.DASHED }⟩]) := by
  have hv : decimal_value "2147483648".toList = 2 ^ 31 := by decide
  refine ⟨⟨no_style_keyword_replicate _, ?_, ?_⟩, decode_style_of_blanks.1, by decide,
    decode_style_of_blanks.2⟩
  · rw [List.length_replicate, hv]
  · exact parse_style_overflow 2 _ _ _ rfl (by rw [hv])

/-- The loop of `parse` on `E 0 0 1 1 c 3 -red` with the pen `pen`: the ellipse gets
`pen`, and the pen is red thereafter. -/
theorem parse_loop_ellipse_then_red (pen : Pen) (fuel : Nat) :
    parse_loop (fuel + 3) ⟨"E 0 0 1 1 c 3 -red".toList, "E 0 0 1 1 c 3 -red".toList, pen, []⟩ =
      .ok ⟨"E 0 0 1 1 c 3 -red".toList, [], { pen with color := ⟨1, 0, 0, 1⟩ },
          [Shape.ellipse ⟨⟨0, 0⟩, 1, 1, pen⟩]⟩ := by
  have hd : "E 0 0 1 1 c 3 -red".toList =
      ellipse_text "0".toList "0".toList "1".toList "1".toList ++
        (' ' :: (color_text "3".toList "red".toList ++ [])) := by decide
  have hred : lookup_color "red".toList = ⟨1, 0, 0, 1⟩ := by with_unfolding_all decide
  have e0 : int_literal_value "0".toList = 0 := by decide
  have e1 : int_literal_value "1".toList = 1 := by decide
  have h1 : parse_loop (fuel + 3)
      ⟨"E 0 0 1 1 c 3 -red".toList, "E 0 0 1 1 c 3 -red".toList, pen, []⟩ =
      parse_loop (fuel + 3) ⟨"E 0 0 1 1 c 3 -red".toList,
        ellipse_text "0".toList "0".toList "1".toList "1".toList ++
          (' ' :: (color_text "3".toList "red".toList ++ [])), pen, []⟩ := by rw [← hd]
  rw [h1, parse_loop_ellipse_at (fuel + 2) _ _ _ "0".toList "0".toList "1".toList "1".toList
      (' ' :: (color_text "3".toList "red".toList ++ [])) rfl rfl
      rfl rfl (by decide) (by decide) (by decide) (by decide) rfl,
    parse_loop_space_at,
    parse_loop_color_at (fuel + 1) _ _ _ "3".toList "red".toList [] rfl (by decide) (by decide)
      (by decide),
    parse_loop_end_at, hred, e0, e1]
  simp only [List.nil_append, Int.cast_zero, Int.cast_one]

/-- The method `parse` on a parser for `E 0 0 1 1 c 3 -red` whose pen is `pen`. -/
theorem parse_ellipse_then_red (pen : Pen) (shapes : List Shape) (fuel : Nat) :
    XDotAttrParser.parse (fuel + 3) ⟨"E 0 0 1 1 c 3 -red".toList, [], pen, shapes⟩ =
      .ok ([Shape.ellipse ⟨⟨0, 0⟩, 1, 1, pen⟩],
        ⟨"E 0 0 1 1 c 3 -red".toList, [], { pen with color := ⟨1, 0, 0, 1⟩ },
          [Shape.ellipse ⟨⟨0, 0⟩, 1, 1, pen⟩]⟩) := by
  rw [parse_eq, parse_loop_ellipse_then_red pen fuel]
  rfl

/-- C15 fails on the code: `parse()` does not reset `current_pen_`. On a parser for
`E 0 0 1 1 c 3 -red` the first call returns the ellipse with the default pen, whose stroke
is black, and the second call returns the ellipse with a red stroke. -/
theorem parse_twice_differs :
    (XDotAttrParser.new "E 0 0 1 1 c 3 -red".toList).parse 3 =
      .ok ([Shape.ellipse ⟨⟨0, 0⟩, 1, 1, Pen.new⟩],
        ⟨"E 0 0 1 1 c 3 -red".toList, [], { Pen.new with color := ⟨1, 0, 0, 1⟩ },
          [Shape.ellipse ⟨⟨0, 0⟩, 1, 1, Pen.new⟩]⟩) ∧
    XDotAttrParser.parse 3
      ⟨"E 0 0 1 1 c 3 -red".toList, [], { Pen.new with color := ⟨1, 0, 0, 1⟩ },
          [Shape.ellipse ⟨⟨0, 0⟩, 1, 1, Pen.new⟩]⟩ =
      .ok ([Shape.ellipse ⟨⟨0, 0⟩, 1, 1, { Pen.new with color := ⟨1, 0, 0, 1⟩ }⟩],
        ⟨"E 0 0 1 1 c 3 -red".toList, [], { Pen.new with color := ⟨1, 0, 0, 1⟩ },
          [Shape.ellipse ⟨⟨0, 0⟩, 1, 1, { Pen.new with color := ⟨1, 0, 0, 1⟩ }⟩]⟩) ∧
    [Shape.ellipse ⟨⟨0, 0⟩, 1, 1, Pen.new⟩] ≠
      [Shape.ellipse ⟨⟨0, 0⟩, 1, 1, { Pen.new with color := ⟨1, 0, 0, 1⟩ }⟩] := by
  refine ⟨?_, ?_, by with_unfolding_all decide⟩
  · exact parse_ellipse_then_red Pen.new [] 0
  · exact parse_ellipse_then_red _ _ 0

/-- C16 fails on the code: the loop of `parse` does not move at a character that is
neither white space nor a letter. On the drawing string `1`, and on `X 1`, where the
digit is left over after the unknown opcode `X`, the decode does not end, whatever the
number of iterations it is given. -/
theorem decode_stuck_at_digit (fuel : Nat) :
    parse_xdot_attr fuel "1".toList = .error DecodeFailure.out_of_fuel ∧
    parse_xdot_attr fuel "X 1".toList = .error DecodeFailure.out_of_fuel := by
  constructor
  · rw [parse_xdot_attr_eq,
      parse_loop_stuck ⟨"1".toList, "1".toList, Pen.new, []⟩ '1' [] rfl (by decide) (by decide)
        fuel]
    rfl
  · cases fuel with
    | zero => rfl
    | succ fuel =>
      have hd : ∀ t : XDotAttrParser, XDotAttrParser.dispatch ['X'] t = .ok t := fun t => rfl
      have h1 := parse_loop_opcode_at fuel "X 1".toList Pen.new [] 'X' [] " 1".toList
        (by decide) (by decide)
      rw [hd] at h1
      have h2 : (⟨"X 1".toList, "X 1".toList, Pen.new, []⟩ : XDotAttrParser) =
          ⟨"X 1".toList, 'X' :: [] ++ " 1".toList, Pen.new, []⟩ := by decide
      rw [parse_xdot_attr_eq, h2, h1]
      simp only
      rw [show " 1".toList = ' ' :: "1".toList from rfl, parse_loop_space_at,
        parse_loop_stuck ⟨"X 1".toList, "1".toList, Pen.new, []⟩ '1' [] rfl (by decide)
          (by decide) fuel]
      rfl

/-- C17 fails on the code: the number readers pass what they collected to `std::stod` and
`std::stoi`, which throw. The decode of `E .` ends with `std::invalid_argument`, the lone
point being no number, and the decode of `P 99999999999` with `std::out_of_range`, the
number being no `int`. -/
theorem decode_throws_on_malformed_number (fuel : Nat) :
    parse_xdot_attr (fuel + 1) "E .".toList =
      .error (DecodeFailure.thrown StdException.invalid_argument) ∧
    parse_xdot_attr (fuel + 1) "P 99999999999".toList =
      .error (DecodeFailure.thrown StdException.out_of_range) := by
  constructor
  · have h1 := parse_loop_opcode_at fuel "E .".toList Pen.new [] 'E' [] " .".toList
      (by decide) (by decide)
    have hd : XDotAttrParser.dispatch ['E'] ⟨"E .".toList, " .".toList, Pen.new, []⟩ =
        .error StdException.invalid_argument := rfl
    rw [hd] at h1
    have h2 : (⟨"E .".toList, "E .".toList, Pen.new, []⟩ : XDotAttrParser) =
        ⟨"E .".toList, 'E' :: [] ++ " .".toList, Pen.new, []⟩ := by decide
    rw [parse_xdot_attr_eq, h2, h1]
    rfl
  · have h1 := parse_loop_opcode_at fuel "P 99999999999".toList Pen.new [] 'P' []
      " 99999999999".toList (by decide) (by decide)
    have hd : XDotAttrParser.dispatch ['P']
        ⟨"P 99999999999".toList, " 99999999999".toList, Pen.new, []⟩ =
        .error StdException.out_of_range := rfl
    rw [hd] at h1
    have h2 : (⟨"P 99999999999".toList, "P 99999999999".toList, Pen.new, []⟩ : XDotAttrParser) =
        ⟨"P 99999999999".toList, 'P' :: [] ++ " 99999999999".toList, Pen.new, []⟩ := by decide
    rw [parse_xdot_attr_eq, h2, h1]
    rfl

/-- The method `handle_text` on ` 0 0 0 0 2 - a E 0 0 1 1`: the blank before `a` is skipped,
and the two characters of the text are `a` and the blank behind it. -/
theorem handle_text_leading_blank (d : List Char) (pen : Pen) (shapes : List Shape) :
    XDotAttrParser.handle_text ⟨d, " 0 0 0 0 2 - a E 0 0 1 1".toList, pen, shapes⟩ =
      .ok ⟨d, "E 0 0 1 1".toList, pen, shapes ++ [Shape.text ⟨⟨0, 0⟩, "a ".toList, pen⟩]⟩ := by
  have e0 : int_literal_value "0".toList = 0 := by decide
  have f1 := read_float_int_literal ⟨d, " 0 0 0 0 2 - a E 0 0 1 1".toList, pen, shapes⟩
    "0".toList " 0 0 0 2 - a E 0 0 1 1".toList rfl rfl (by decide) rfl
  have f2 := read_float_int_literal ⟨d, " 0 0 0 2 - a E 0 0 1 1".toList, pen, shapes⟩
    "0".toList " 0 0 2 - a E 0 0 1 1".toList rfl rfl (by decide) rfl
  have f3 := read_int_literal ⟨d, " 0 0 2 - a E 0 0 1 1".toList, pen, shapes⟩
    "0".toList " 0 2 - a E 0 0 1 1".toList rfl rfl rfl (by decide)
  have f4 := read_float_int_literal ⟨d, " 0 2 - a E 0 0 1 1".toList, pen, shapes⟩
    "0".toList " 2 - a E 0 0 1 1".toList rfl rfl (by decide) rfl
  have f5 : XDotAttrParser.read_text ⟨d, " 2 - a E 0 0 1 1".toList, pen, shapes⟩ =
      .ok ("a ".toList, ⟨d, "E 0 0 1 1".toList, pen, shapes⟩) := rfl
  rw [e0] at f1 f2 f4
  simp only [Int.cast_zero] at f1 f2 f4
  simp only [XDotAttrParser.handle_text, XDotAttrParser.read_point, bind, Except.bind, f1, f2,
    f3, f4, f5, pure, Except.pure, XDotAttrParser.transform]

/-- C18 fails on the code: `read_text` skips white space behind the `-`. For the text ` a`
of length 2, followed by ` E 0 0 1 1`, the decode of `T 0 0 0 0 2 - a E 0 0 1 1` returns a
Text shape whose text is `a` and a blank, not a blank and `a`. -/
theorem text_payload_loses_leading_blank :
    text_text "0".toList "0".toList "0".toList "0".toList "2".toList " a".toList ++
        " E 0 0 1 1".toList = "T 0 0 0 0 2 - a E 0 0 1 1".toList ∧
    parse_xdot_attr 3 "T 0 0 0 0 2 - a E 0 0 1 1".toList =
      .ok [Shape.text ⟨⟨0, 0⟩, "a ".toList, Pen.new⟩, Shape.ellipse ⟨⟨0, 0⟩, 1, 1, Pen.new⟩] := by
  refine ⟨by decide, ?_⟩
  have h1 := parse_loop_opcode_at 2 "T 0 0 0 0 2 - a E 0 0 1 1".toList Pen.new [] 'T' []
    " 0 0 0 0 2 - a E 0 0 1 1".toList (by decide) (by decide)
  have hd : ∀ t : XDotAttrParser, XDotAttrParser.dispatch ['T'] t = t.handle_text := fun t => rfl
  rw [hd, handle_text_leading_blank] at h1
  have h2 : (⟨"T 0 0 0 0 2 - a E 0 0 1 1".toList, "T 0 0 0 0 2 - a E 0 0 1 1".toList, Pen.new,
      []⟩ : XDotAttrParser) =
      ⟨"T 0 0 0 0 2 - a E 0 0 1 1".toList, 'T' :: [] ++ " 0 0 0 0 2 - a E 0 0 1 1".toList,
        Pen.new, []⟩ := by decide
  have h3 : "E 0 0 1 1".toList =
      ellipse_text "0".toList "0".toList "1".toList "1".toList ++ [] := by decide
  have e0 : int_literal_value "0".toList = 0 := by decide
  have e1 : int_literal_value "1".toList = 1 := by decide
  rw [parse_xdot_attr_eq, h2, h1]
  simp only
  rw [h3, parse_loop_ellipse_at 1 _ _ _ "0".toList "0".toList "1".toList "1".toList [] rfl rfl
      rfl rfl (by decide) (by decide) (by decide) (by decide) rfl,
    parse_loop_end_at, e0, e1]
  simp only [Except.map, List.nil_append, List.cons_append, Int.cast_zero, Int.cast_one]

/-- A code that is none of the ten opcodes has no handler. -/
theorem dispatch_unknown (u : List Char) (hu : u ∉ known_opcodes) (s : XDotAttrParser) :
    XDotAttrParser.dispatch u s = .ok s := by
  simp only [known_opcodes, List.mem_cons, List.mem_singleton, List.not_mem_nil, or_false,
    not_or] at hu
  obtain ⟨h1, h2, h3, h4, h5, h6, h7, h8, h9, h10⟩ := hu
  unfold XDotAttrParser.dispatch
  rw [if_neg h1, if_neg h2, if_neg h3, if_neg h4, if_neg h5, if_neg h6, if_neg h7, if_neg h8,
    if_neg h9, if_neg h10]

/-- C19: for every alphabetic opcode word `u` that is none of `E`, `P`, `L`, `B`, `T`, `I`,
`S`, `c`, `C`, `F` and every drawing string `r`, the decode of `u`, a space and `r` takes
one iteration for `u`, which changes nothing, and then goes as the decode of `r` alone: it
returns the same shapes, throws the same exception, or does not end either. -/
theorem unknown_opcode_skipped (u r : List Char) (hw : is_opcode_word u = true)
    (hu : u ∉ known_opcodes) (fuel : Nat) :
    parse_xdot_attr (fuel + 1) (u ++ ' ' :: r) = parse_xdot_attr fuel r := by
  cases u with
  | nil => cases hw
  | cons c cs =>
    have hall : ∀ a ∈ c :: cs, a.isAlpha = true := by
      simp only [is_opcode_word, List.isEmpty_cons, Bool.not_false, Bool.true_and,
        List.all_eq_true] at hw
      exact hw
    rw [parse_xdot_attr_eq, parse_xdot_attr_eq,
      parse_loop_opcode_at fuel (c :: cs ++ ' ' :: r) Pen.new [] c cs (' ' :: r) hall rfl,
      dispatch_unknown (c :: cs) hu]
    simp only
    rw [parse_loop_space_at]
    exact parse_loop_shapes_data fuel ⟨r, r, Pen.new, []⟩ (c :: cs ++ ' ' :: r)

/-- The theorem `unknown_opcode_skipped` at the opcode word `X` before `E 1 2 3 4`. -/
theorem unknown_opcode_skipped_witness :
    parse_xdot_attr 3 "X E 1 2 3 4".toList = parse_xdot_attr 2 "E 1 2 3 4".toList :=
  unknown_opcode_skipped "X".toList "E 1 2 3 4".toList (by decide) (by decide) 2

/-- C20, for literals of absolute value at most `2^53` and colour specs that do not start
with white space and are shorter than `2^31`: `E x y w h c n -col E x2 y2 w2 h2` (`n` the
length of `col`) decodes to two ellipses, the first with the default pen, whose stroke is
black, the second with the pen whose stroke is `lookup_color col` and that is the default
pen otherwise. -/
theorem shapes_freeze_pen (x y w h x2 y2 w2 h2 n col : List Char)
    (hx : is_int_literal x = true) (hy : is_int_literal y = true)
    (hw : is_int_literal w = true) (hh : is_int_literal h = true)
    (hx2 : is_int_literal x2 = true) (hy2 : is_int_literal y2 = true)
    (hw2 : is_int_literal w2 = true) (hh2 : is_int_literal h2 = true)
    (bx : (int_literal_value x).natAbs ≤ 2 ^ 53) (bY : (int_literal_value y).natAbs ≤ 2 ^ 53)
    (bw : (int_literal_value w).natAbs ≤ 2 ^ 53) (bh : (int_literal_value h).natAbs ≤ 2 ^ 53)
    (bx2 : (int_literal_value x2).natAbs ≤ 2 ^ 53)
    (bY2 : (int_literal_value y2).natAbs ≤ 2 ^ 53)
    (bw2 : (int_literal_value w2).natAbs ≤ 2 ^ 53)
    (bh2 : (int_literal_value h2).natAbs ≤ 2 ^ 53)
    (hn : is_literal n = true) (hlen : decimal_value n = col.length)
    (hv : col.length < 2 ^ 31) (ht : starts_without_space col = true) (fuel : Nat) :
    parse_xdot_attr (fuel + 4)
        (ellipse_text x y w h ++ ' ' :: (color_text n col ++ ' ' :: ellipse_text x2 y2 w2 h2)) =
      .ok [Shape.ellipse ⟨⟨(int_literal_value x : ℚ), (int_literal_value y : ℚ)⟩,
            (int_literal_value w : ℚ), (int_literal_value h : ℚ),
            ⟨⟨0, 0, 0, 1⟩, ⟨1, 1, 1, 1⟩, 1, LineStyle.SOLID, [], "Arial".toList, 12⟩⟩,
          Shape.ellipse ⟨⟨(int_literal_value x2 : ℚ), (int_literal_value y2 : ℚ)⟩,
            (int_literal_value w2 : ℚ), (int_literal_value h2 : ℚ),
            ⟨lookup_color col, ⟨1, 1, 1, 1⟩, 1, LineStyle.SOLID, [], "Arial".toList, 12⟩⟩] := by
  rw [parse_xdot_attr_eq,
    parse_loop_ellipse_at (fuel + 3) _ _ _ x y w h
      (' ' :: (color_text n col ++ ' ' :: ellipse_text x2 y2 w2 h2)) hx hy hw hh bx bY bw bh rfl,
    parse_loop_space_at,
    parse_loop_color_at (fuel + 2) _ _ _ n col (' ' :: ellipse_text x2 y2 w2 h2) hn hlen hv ht,
    parse_loop_space_at, ← List.append_nil (ellipse_text x2 y2 w2 h2),
    parse_loop_ellipse_at (fuel + 1) _ _ _ x2 y2 w2 h2 [] hx2 hy2 hw2 hh2 bx2 bY2 bw2 bh2 rfl,
    parse_loop_end_at]
  rfl

/-- The theorem `shapes_freeze_pen` at `E 1 2 3 4 c 3 -red E -5 6 7 8`. -/
theorem shapes_freeze_pen_witness :
    parse_xdot_attr 4 "E 1 2 3 4 c 3 -red E -5 6 7 8".toList =
      .ok [Shape.ellipse ⟨⟨1, 2⟩, 3, 4,
            ⟨⟨0, 0, 0, 1⟩, ⟨1, 1, 1, 1⟩, 1, LineStyle.SOLID, [], "Arial".toList, 12⟩⟩,
          Shape.ellipse ⟨⟨-5, 6⟩, 7, 8,
            ⟨⟨1, 0, 0, 1⟩, ⟨1, 1, 1, 1⟩, 1, LineStyle.SOLID, [], "Arial".toList, 12⟩⟩] := by
  have h := shapes_freeze_pen "1".toList "2".toList "3".toList "4".toList "-5".toList "6".toList
    "7".toList "8".toList "3".toList "red".toList rfl rfl rfl rfl rfl rfl rfl rfl
    (by decide) (by decide) (by decide) (by decide) (by decide) (by decide) (by decide)
    (by decide) rfl (by decide) (by decide) (by decide) 0
  have hred : lookup_color "red".toList = ⟨1, 0, 0, 1⟩ := by with_unfolding_all decide
  have e1 : int_literal_value "1".toList = 1 := by decide
  have e2 : int_literal_value "2".toList = 2 := by decide
  have e3 : int_literal_value "3".toList = 3 := by decide
  have e4 : int_literal_value "4".toList = 4 := by decide
  have e5 : int_literal_value "-5".toList = -5 := by decide
  have e6 : int_literal_value "6".toList = 6 := by decide
  have e7 : int_literal_value "7".toList = 7 := by decide
  have e8 : int_literal_value "8".toList = 8 := by decide
  rw [e1, e2, e3, e4, e5, e6, e7, e8, hred] at h
  have hd : "E 1 2 3 4 c 3 -red E -5 6 7 8".toList =
      ellipse_text "1".toList "2".toList "3".toList "4".toList ++
        ' ' :: (color_text "3".toList "red".toList ++
          ' ' :: ellipse_text "-5".toList "6".toList "7".toList "8".toList) := by decide
  rw [hd]
  exact_mod_cast h

/-- The conversion of `2^53 + 1`, which is no double, gives `2^53`. -/
theorem stod_not_exact : stod "9007199254740993".toList = .ok 9007199254740992 := by
  have e1 : decimal_value "9007199254740993".toList = 9007199254740993 := by decide
  rw [stod_literal "9007199254740993".toList rfl, e1, if_neg (by norm_num)]
  have := round_to_double_example
  norm_num at this ⊢
  exact this

/-- The method `handle_ellipse`, given what the four calls of `read_float` return. -/
theorem handle_ellipse_of_reads (s s1 s2 s3 s4 : XDotAttrParser) (vx vy vw vh : ℚ)
    (f1 : s.read_float = .ok (vx, s1)) (f2 : s1.read_float = .ok (vy, s2))
    (f3 : s2.read_float = .ok (vw, s3)) (f4 : s3.read_float = .ok (vh, s4)) :
    s.handle_ellipse =
      .ok { s4 with shapes_ := s4.shapes_ ++ [Shape.ellipse ⟨⟨vx, vy⟩, vw, vh, s4.current_pen_⟩] } := by
  simp only [XDotAttrParser.handle_ellipse, XDotAttrParser.read_point, bind, Except.bind, f1,
    f2, f3, f4, pure, Except.pure, XDotAttrParser.transform]

/-- The method `handle_ellipse` on ` 9007199254740993 0 1 1` and what follows. -/
theorem handle_ellipse_not_exact (d r : List Char) (pen : Pen) (shapes : List Shape)
    (hr : r.head?.all (fun c => !(c.isDigit || c == '.')) = true) :
    XDotAttrParser.handle_ellipse ⟨d, " 9007199254740993 0 1 1".toList ++ r, pen, shapes⟩ =
      .ok ⟨d, r, pen, shapes ++ [Shape.ellipse ⟨⟨9007199254740992, 0⟩, 1, 1, pen⟩]⟩ := by
  have e0 : int_literal_value "0".toList = 0 := by decide
  have e1 : int_literal_value "1".toList = 1 := by decide
  have f1 := read_float_literal ⟨d, " 9007199254740993 0 1 1".toList ++ r, pen, shapes⟩
    "9007199254740993".toList (" 0 1 1".toList ++ r) rfl rfl rfl
  rw [stod_not_exact] at f1
  have f2 := read_float_int_literal ⟨d, " 0 1 1".toList ++ r, pen, shapes⟩
    "0".toList (" 1 1".toList ++ r) rfl rfl (by decide) rfl
  have f3 := read_float_int_literal ⟨d, " 1 1".toList ++ r, pen, shapes⟩
    "1".toList (" 1".toList ++ r) rfl rfl (by decide) rfl
  have f4 := read_float_int_literal ⟨d, " 1".toList ++ r, pen, shapes⟩
    "1".toList r rfl hr (by decide) rfl
  rw [e0] at f2
  rw [e1] at f3 f4
  simp only [Int.cast_zero, Int.cast_one] at f2 f3 f4
  exact handle_ellipse_of_reads _ _ _ _ _ _ _ _ _ f1 f2 f3 f4
/-- The decode of `E 9007199254740993 0 1 1 c 3 -red E 0 0 1 1`, and of `E 0 0 1 1 c 9 -`,
nine blanks and ` E 0 0 1 1`. -/
theorem decode_pen_inexact_and_blank :
    parse_xdot_attr 4 "E 9007199254740993 0 1 1 c 3 -red E 0 0 1 1".toList =
      .ok [Shape.ellipse ⟨⟨9007199254740992, 0⟩, 1, 1, Pen.new⟩,
        Shape.ellipse ⟨⟨0, 0⟩, 1, 1, { Pen.new with color := ⟨1, 0, 0, 1⟩ }⟩] ∧
    parse_xdot_attr 4 (ellipse_text "0".toList "0".toList "1".toList "1".toList ++
        ' ' :: (color_text "9".toList (List.replicate 9 ' ') ++
          ' ' :: ellipse_text "0".toList "0".toList "1".toList "1".toList)) =
      .ok [Shape.ellipse ⟨⟨0, 0⟩, 1, 1, Pen.new⟩] := by
  have e0 : int_literal_value "0".toList = 0 := by decide
  have e1 : int_literal_value "1".toList = 1 := by decide
  have hred : lookup_color "red".toList = ⟨1, 0, 0, 1⟩ := by with_unfolding_all decide
  constructor
  · have h1 := parse_loop_opcode_at 3 "E 9007199254740993 0 1 1 c 3 -red E 0 0 1 1".toList
      Pen.new [] 'E' [] (" 9007199254740993 0 1 1".toList ++ " c 3 -red E 0 0 1 1".toList)
      (by decide) (by decide)
    have hd : ∀ t : XDotAttrParser, XDotAttrParser.dispatch ['E'] t = t.handle_ellipse :=
      fun t => rfl
    rw [hd, handle_ellipse_not_exact _ " c 3 -red E 0 0 1 1".toList _ _ rfl] at h1
    have h2 : (⟨"E 9007199254740993 0 1 1 c 3 -red E 0 0 1 1".toList,
        "E 9007199254740993 0 1 1 c 3 -red E 0 0 1 1".toList, Pen.new, []⟩ : XDotAttrParser) =
        ⟨"E 9007199254740993 0 1 1 c 3 -red E 0 0 1 1".toList,
          'E' :: [] ++ (" 9007199254740993 0 1 1".toList ++ " c 3 -red E 0 0 1 1".toList),
          Pen.new, []⟩ := by decide
    have h3 : " c 3 -red E 0 0 1 1".toList =
        ' ' :: (color_text "3".toList "red".toList ++
          ' ' :: (ellipse_text "0".toList "0".toList "1".toList "1".toList ++ [])) := by decide
    rw [parse_xdot_attr_eq, h2, h1]
    simp only
    rw [h3, parse_loop_space_at,
      parse_loop_color_at 2 _ _ _ "3".toList "red".toList _ rfl (by decide) (by decide)
        (by decide),
      parse_loop_space_at,
      parse_loop_ellipse_at 1 _ _ _ "0".toList "0".toList "1".toList "1".toList [] rfl rfl
        rfl rfl (by decide) (by decide) (by decide) (by decide) rfl,
      parse_loop_end_at, e0, e1, hred]
    simp only [Except.map, List.nil_append, List.cons_append, Int.cast_zero, Int.cast_one]
  · have hc : ∀ (d : List Char) (pen : Pen) (shapes : List Shape),
        XDotAttrParser.dispatch ['c']
          ⟨d, " 9 -          E 0 0 1 1".toList, pen, shapes⟩ =
        .ok ⟨d, [], { pen with color := lookup_color "E 0 0 1 1".toList }, shapes⟩ :=
      fun d pen shapes => rfl
    have h3 : color_text "9".toList (List.replicate 9 ' ') ++
          ' ' :: ellipse_text "0".toList "0".toList "1".toList "1".toList =
        'c' :: [] ++ " 9 -          E 0 0 1 1".toList := by decide
    have key : ∀ (d : List Char) (shapes : List Shape),
        parse_loop 3 ⟨d, ' ' :: (color_text "9".toList (List.replicate 9 ' ') ++
          ' ' :: ellipse_text "0".toList "0".toList "1".toList "1".toList), Pen.new, shapes⟩ =
        .ok ⟨d, [], { Pen.new with color := lookup_color "E 0 0 1 1".toList }, shapes⟩ := by
      intro d shapes
      rw [parse_loop_space_at, h3,
        parse_loop_opcode_at 2 d Pen.new shapes 'c' [] " 9 -          E 0 0 1 1".toList
          (by decide) (by decide), hc]
      simp only
      rw [parse_loop_end_at]
    rw [parse_xdot_attr_eq,
      parse_loop_ellipse_at 3 _ _ _ "0".toList "0".toList "1".toList "1".toList
        (' ' :: (color_text "9".toList (List.replicate 9 ' ') ++
          ' ' :: ellipse_text "0".toList "0".toList "1".toList "1".toList)) rfl rfl
        rfl rfl (by decide) (by decide) (by decide) (by decide) rfl,
      key, e0, e1]
    simp only [Except.map, List.nil_append, Int.cast_zero, Int.cast_one]

/-- C20 as stated fails, for three reasons. In `E 9007199254740993 0 1 1 c 3 -red E 0 0 1 1`
the literal `2^53 + 1` is no double, and the first ellipse has its center at `2^53`. The
length of a colour spec of `2^31` characters is no `int`, and the decode ends with
`std::out_of_range`. And in `E 0 0 1 1 c 9 -`, nine blanks and ` E 0 0 1 1`, the colour spec
is the nine blanks, which `read_text` skips, so that the nine characters `E 0 0 1 1` are
read as the colour spec and only one ellipse is decoded. -/
theorem pen_opcode_inexact_long_or_blank :
    parse_xdot_attr 4 "E 9007199254740993 0 1 1 c 3 -red E 0 0 1 1".toList =
      .ok [Shape.ellipse ⟨⟨9007199254740992, 0⟩, 1, 1, Pen.new⟩,
        Shape.ellipse ⟨⟨0, 0⟩, 1, 1, { Pen.new with color := ⟨1, 0, 0, 1⟩ }⟩] ∧
    (decimal_value "2147483648".toList = (List.replicate (2 ^ 31) 'x').length ∧
      parse_xdot_attr 4 (ellipse_text "0".toList "0".toList "1".toList "1".toList ++
          ' ' :: (color_text "2147483648".toList (List.replicate (2 ^ 31) 'x') ++
            ' ' :: ellipse_text "0".toList "0".toList "1".toList "1".toList)) =
        .error (DecodeFailure.thrown StdException.out_of_range)) ∧
    (decimal_value "9".toList = (List.replicate 9 ' ').length ∧
      parse_xdot_attr 4 (ellipse_text "0".toList "0".toList "1".toList "1".toList ++
          ' ' :: (color_text "9".toList (List.replicate 9 ' ') ++
            ' ' :: ellipse_text "0".toList "0".toList "1".toList "1".toList)) =
        .ok [Shape.ellipse ⟨⟨0, 0⟩, 1, 1, Pen.new⟩]) := by
  have hv : decimal_value "2147483648".toList = 2 ^ 31 := by decide
  refine ⟨decode_pen_inexact_and_blank.1, ⟨?_, ?_⟩, by decide, decode_pen_inexact_and_blank.2⟩
  · rw [List.length_replicate, hv]
  · rw [parse_xdot_attr_eq,
      parse_loop_ellipse_at 3 _ _ _ "0".toList "0".toList "1".toList "1".toList
        (' ' :: (color_text "2147483648".toList (List.replicate (2 ^ 31) 'x') ++
          ' ' :: ellipse_text "0".toList "0".toList "1".toList "1".toList)) rfl rfl
        rfl rfl (by decide) (by decide) (by decide) (by decide) rfl,
      parse_loop_space_at,
      parse_loop_color_overflow_at 2 _ _ _ "2147483648".toList _ _ rfl (by rw [hv])]
    rfl

end XDot
end XDotCpp

/-! ## The ellipse and its box -/

namespace XDotCpp
namespace XDot

/-- A quotient whose numerator exceeds the denominator by one half or more stays away from
`1` after rounding, for a denominator up to `2^20`. -/
theorem quotient_far (t d : ℚ) (hd : 0 < d) (hd20 : d ≤ 2 ^ 20) (ht : d + 1 / 2 ≤ |t|) :
    1 + 1 / 2 ^ 22 ≤ |double_div t d| := by
  unfold double_div
  have h1 : 1 + 1 / 2 ^ 21 ≤ |t / d| := by
    rw [abs_div, abs_of_pos hd, le_div_iff₀ hd]
    have : 1 / 2 ^ 21 * d ≤ 1 / 2 := by
      have : 1 / 2 ^ 21 * d ≤ 1 / 2 ^ 21 * 2 ^ 20 := mul_le_mul_of_nonneg_left hd20 (by positivity)
      have e : (1 : ℚ) / 2 ^ 21 * 2 ^ 20 = 1 / 2 := by norm_num
      linarith
    linarith
  have h2 := round_double_abs_ge (t / d) (1 + 1 / 2 ^ 21) h1 (by norm_num)
  have : (1 : ℚ) + 1 / 2 ^ 22 ≤ (1 + 1 / 2 ^ 21) * (1 - 1 / 2 ^ 52) := by norm_num
  linarith

/-- The sum of the squares that `EllipseShape::contains_point` compares with `1` exceeds
`1` when the first quotient stays away from `1`. -/
theorem squares_exceed_left (dx dy : ℚ) (h : 1 + 1 / 2 ^ 22 ≤ |dx|) :
    1 < double_add (double_mul dx dx) (double_mul dy dy) := by
  unfold double_add double_mul
  have hsq : 1 + 1 / 2 ^ 21 ≤ |dx * dx| := by
    rw [abs_mul]
    have h0 : (0 : ℚ) ≤ 1 + 1 / 2 ^ 22 := by norm_num
    have := mul_le_mul h h h0 (abs_nonneg dx)
    have e : (1 : ℚ) + 1 / 2 ^ 21 ≤ (1 + 1 / 2 ^ 22) * (1 + 1 / 2 ^ 22) := by norm_num
    linarith
  have hA := round_double_abs_ge (dx * dx) (1 + 1 / 2 ^ 21) hsq (by norm_num)
  have hA0 : 0 ≤ round_double (dx * dx) := round_double_nonneg _ (mul_self_nonneg dx)
  rw [abs_of_nonneg hA0] at hA
  have hB0 : 0 ≤ round_double (dy * dy) := round_double_nonneg _ (mul_self_nonneg dy)
  have hA' : (1 : ℚ) + 1 / 2 ^ 22 ≤ round_double (dx * dx) := by
    have : (1 : ℚ) + 1 / 2 ^ 22 ≤ (1 + 1 / 2 ^ 21) * (1 - 1 / 2 ^ 52) := by norm_num
    linarith
  have hS : 1 + 1 / 2 ^ 22 ≤ |round_double (dx * dx) + round_double (dy * dy)| := by
    rw [abs_of_nonneg (by linarith)]
    linarith
  have hR := round_double_abs_ge _ (1 + 1 / 2 ^ 22) hS (by norm_num)
  have hR0 : 0 ≤ round_double (round_double (dx * dx) + round_double (dy * dy)) :=
    round_double_nonneg _ (by linarith)
  rw [abs_of_nonneg hR0] at hR
  have : (1 : ℚ) < (1 + 1 / 2 ^ 22) * (1 - 1 / 2 ^ 52) := by norm_num
  linarith

/-- The sum of the squares exceeds `1` when the second quotient stays away from `1`. -/
theorem squares_exceed_right (dx dy : ℚ) (h : 1 + 1 / 2 ^ 22 ≤ |dy|) :
    1 < double_add (double_mul dx dx) (double_mul dy dy) := by
  have := squares_exceed_left dy dx h
  unfold double_add double_mul at this ⊢
  rwa [add_comm] at this

end XDot
end XDotCpp

namespace XDotCpp
namespace XDot

/-- The hit test of an ellipse whose halved width and height are not zero. -/
theorem ellipse_contains_iff (s : EllipseShape) (p : Point) (hw : double_div s.width_ 2 ≠ 0)
    (hh : double_div s.height_ 2 ≠ 0) :
    s.contains_point p = true ↔
      double_add
        (double_mul (double_div (double_sub p.x s.center_.x) (double_div s.width_ 2))
          (double_div (double_sub p.x s.center_.x) (double_div s.width_ 2)))
        (double_mul (double_div (double_sub p.y s.center_.y) (double_div s.height_ 2))
          (double_div (double_sub p.y s.center_.y) (double_div s.height_ 2))) ≤ 1 := by
  unfold EllipseShape.contains_point
  rw [if_neg (by tauto)]
  simp

/-- The hit test at the distance of the half axis from the center along one axis: the
quotient is `1` or `-1`, its square `1`, and the sum of the squares `1`. -/
theorem squares_on_axis (t d d2 : ℚ) (hd : d ≠ 0) (ht : t = d ∨ t = -d) :
    double_add (double_mul (double_div t d) (double_div t d))
      (double_mul (double_div 0 d2) (double_div 0 d2)) = 1 ∧
    double_add (double_mul (double_div 0 d2) (double_div 0 d2))
      (double_mul (double_div t d) (double_div t d)) = 1 := by
  have r1 : round_double 1 = 1 := by simpa using round_double_intCast 1 (by norm_num)
  have rm1 : round_double (-1) = -1 := by simpa using round_double_intCast (-1) (by norm_num)
  have hq : double_div t d = 1 ∨ double_div t d = -1 := by
    unfold double_div
    rcases ht with rfl | rfl
    · left; rw [div_self hd, r1]
    · right; rw [neg_div, div_self hd, rm1]
  have hz : double_div 0 d2 = 0 := by
    unfold double_div
    rw [zero_div, round_double_zero]
  rw [hz]
  have hm0 : double_mul 0 0 = 0 := by
    unfold double_mul
    rw [mul_zero, round_double_zero]
  rw [hm0]
  have hm1 : double_mul (double_div t d) (double_div t d) = 1 := by
    unfold double_mul
    rcases hq with h | h <;> rw [h] <;> norm_num [r1]
  rw [hm1]
  unfold double_add
  constructor <;> norm_num [r1]

/-- The box of an ellipse whose center coordinates, width and height are integers of
absolute value at most `2^20`: the four corners are doubles, so no operation rounds. -/
theorem ellipse_box_of_integers (s : EllipseShape) (hc : s.center_.is_integral_within (2 ^ 20))
    (hwi : is_integer_within (2 ^ 20) s.width_) (hhi : is_integer_within (2 ^ 20) s.height_) :
    s.bounding_box = ⟨s.center_.x - s.width_ / 2, s.center_.y - s.height_ / 2,
      s.center_.x + s.width_ / 2, s.center_.y + s.height_ / 2⟩ := by
  obtain ⟨a, ha, ha'⟩ := hc.1.cast
  obtain ⟨b, hb, hb'⟩ := hc.2.cast
  obtain ⟨W, hW, hW'⟩ := hwi.cast
  obtain ⟨H, hH, hH'⟩ := hhi.cast
  have ha2 := abs_le.1 ha'
  have hb2 := abs_le.1 hb'
  have hW2 := abs_le.1 hW'
  have hH2 := abs_le.1 hH'
  norm_num at ha2 hb2 hW2 hH2
  have hhw : double_div s.width_ 2 = s.width_ / 2 := by
    unfold double_div
    rw [hW]
    exact round_double_half W (by rw [abs_lt]; constructor <;> omega)
  have hhh : double_div s.height_ 2 = s.height_ / 2 := by
    unfold double_div
    rw [hH]
    exact round_double_half H (by rw [abs_lt]; constructor <;> omega)
  have hx1 : double_sub s.center_.x (s.width_ / 2) = s.center_.x - s.width_ / 2 := by
    unfold double_sub
    have e : s.center_.x - s.width_ / 2 = ((2 * a - W : Int) : ℚ) / 2 := by
      rw [ha, hW]; push_cast; ring
    rw [e]
    exact round_double_half _ (by rw [abs_lt]; constructor <;> omega)
  have hx2 : double_add s.center_.x (s.width_ / 2) = s.center_.x + s.width_ / 2 := by
    unfold double_add
    have e : s.center_.x + s.width_ / 2 = ((2 * a + W : Int) : ℚ) / 2 := by
      rw [ha, hW]; push_cast; ring
    rw [e]
    exact round_double_half _ (by rw [abs_lt]; constructor <;> omega)
  have hy1 : double_sub s.center_.y (s.height_ / 2) = s.center_.y - s.height_ / 2 := by
    unfold double_sub
    have e : s.center_.y - s.height_ / 2 = ((2 * b - H : Int) : ℚ) / 2 := by
      rw [hb, hH]; push_cast; ring
    rw [e]
    exact round_double_half _ (by rw [abs_lt]; constructor <;> omega)
  have hy2 : double_add s.center_.y (s.height_ / 2) = s.center_.y + s.height_ / 2 := by
    unfold double_add
    have e : s.center_.y + s.height_ / 2 = ((2 * b + H : Int) : ℚ) / 2 := by
      rw [hb, hH]; push_cast; ring
    rw [e]
    exact round_double_half _ (by rw [abs_lt]; constructor <;> omega)
  unfold EllipseShape.bounding_box
  simp only [hhw, hhh, hx1, hx2, hy1, hy2]

/-- C40 on integer coordinates: `contains_point` is true at the center of every ellipse
whose halved width and halved height are not zero; and for every ellipse whose center
coordinates, width and height are integers of absolute value at most `2^20`, the width and
the height positive, the box of `bounding_box` has the corners `center ± (width/2,
height/2)`, every point with integer coordinates of absolute value at most `2^20` that
`contains_point` accepts is contained in that box, and `contains_point` is true at the four
end points of the axes, `(center.x ± width/2, center.y)` and `(center.x, center.y ±
height/2)`. Every operation is rounded as the machine rounds it. -/
theorem ellipse_inside_its_box :
    (∀ s : EllipseShape, double_div s.width_ 2 ≠ 0 → double_div s.height_ 2 ≠ 0 →
      s.contains_point s.center_ = true) ∧
    (∀ s : EllipseShape, s.center_.is_integral_within (2 ^ 20) →
      is_integer_within (2 ^ 20) s.width_ → is_integer_within (2 ^ 20) s.height_ →
      0 < s.width_ → 0 < s.height_ →
      s.bounding_box = ⟨s.center_.x - s.width_ / 2, s.center_.y - s.height_ / 2,
        s.center_.x + s.width_ / 2, s.center_.y + s.height_ / 2⟩ ∧
      (∀ p : Point, p.is_integral_within (2 ^ 20) → s.contains_point p = true →
        s.bounding_box.contains p = true) ∧
      s.contains_point ⟨s.center_.x + s.width_ / 2, s.center_.y⟩ = true ∧
      s.contains_point ⟨s.center_.x - s.width_ / 2, s.center_.y⟩ = true ∧
      s.contains_point ⟨s.center_.x, s.center_.y + s.height_ / 2⟩ = true ∧
      s.contains_point ⟨s.center_.x, s.center_.y - s.height_ / 2⟩ = true) := by
  constructor
  · intro s hw hh
    rw [ellipse_contains_iff s _ hw hh]
    have h0 : ∀ d : ℚ, double_div (double_sub d d) = double_div 0 := by
      intro d
      unfold double_sub
      rw [sub_self, round_double_zero]
    have hz : ∀ d : ℚ, double_div 0 d = 0 := by
      intro d
      unfold double_div
      rw [zero_div, round_double_zero]
    rw [h0, h0, hz, hz]
    unfold double_add double_mul
    norm_num [round_double_zero]
  · intro s hc hwi hhi hwpos hhpos
    obtain ⟨a, ha, ha'⟩ := hc.1.cast
    obtain ⟨b, hb, hb'⟩ := hc.2.cast
    obtain ⟨W, hW, hW'⟩ := hwi.cast
    obtain ⟨H, hH, hH'⟩ := hhi.cast
    have hWpos : 0 < W := by
      rw [hW] at hwpos; exact_mod_cast hwpos
    have hHpos : 0 < H := by
      rw [hH] at hhpos; exact_mod_cast hhpos
    have ha2 := abs_le.1 ha'
    have hb2 := abs_le.1 hb'
    have hW2 := abs_le.1 hW'
    have hH2 := abs_le.1 hH'
    norm_num at ha2 hb2 hW2 hH2
    have hhw : double_div s.width_ 2 = s.width_ / 2 := by
      unfold double_div
      rw [hW]
      exact round_double_half W (by rw [abs_lt]; constructor <;> omega)
    have hhh : double_div s.height_ 2 = s.height_ / 2 := by
      unfold double_div
      rw [hH]
      exact round_double_half H (by rw [abs_lt]; constructor <;> omega)
    have hw0 : s.width_ / 2 ≠ 0 := by linarith
    have hh0 : s.height_ / 2 ≠ 0 := by linarith
    have hwne : double_div s.width_ 2 ≠ 0 := by rw [hhw]; exact hw0
    have hhne : double_div s.height_ 2 ≠ 0 := by rw [hhh]; exact hh0
    have hbox := ellipse_box_of_integers s hc hwi hhi
    have hwle : s.width_ / 2 ≤ 2 ^ 20 := by
      rw [hW]
      have : (W : ℚ) ≤ 1048576 := by exact_mod_cast hW2.2
      linarith
    have hhle : s.height_ / 2 ≤ 2 ^ 20 := by
      rw [hH]
      have : (H : ℚ) ≤ 1048576 := by exact_mod_cast hH2.2
      linarith
    refine ⟨hbox, ?_, ?_, ?_, ?_, ?_⟩
    · intro p hp hin
      obtain ⟨X, hX, hX'⟩ := hp.1.cast
      obtain ⟨Y, hY, hY'⟩ := hp.2.cast
      have hX2 := abs_le.1 hX'
      have hY2 := abs_le.1 hY'
      norm_num at hX2 hY2
      rw [ellipse_contains_iff s p hwne hhne, hhw, hhh] at hin
      have hdx : double_sub p.x s.center_.x = p.x - s.center_.x := by
        unfold double_sub
        have e : p.x - s.center_.x = ((X - a : Int) : ℚ) := by rw [hX, ha]; push_cast; ring
        rw [e]
        exact round_double_intCast _ (by rw [abs_lt]; constructor <;> omega)
      have hdy : double_sub p.y s.center_.y = p.y - s.center_.y := by
        unfold double_sub
        have e : p.y - s.center_.y = ((Y - b : Int) : ℚ) := by rw [hY, hb]; push_cast; ring
        rw [e]
        exact round_double_intCast _ (by rw [abs_lt]; constructor <;> omega)
      rw [hdx, hdy] at hin
      -- outside of the box in one direction, the quotient of that direction is too large
      have farx : ¬ (s.width_ / 2 + 1 / 2 ≤ |p.x - s.center_.x|) := by
        intro hfar
        have := squares_exceed_left _
          (double_div (p.y - s.center_.y) (s.height_ / 2))
          (quotient_far (p.x - s.center_.x) (s.width_ / 2) (by linarith) hwle hfar)
        linarith
      have fary : ¬ (s.height_ / 2 + 1 / 2 ≤ |p.y - s.center_.y|) := by
        intro hfar
        have := squares_exceed_right (double_div (p.x - s.center_.x) (s.width_ / 2)) _
          (quotient_far (p.y - s.center_.y) (s.height_ / 2) (by linarith) hhle hfar)
        linarith
      -- on integers, outside means outside by one half at least
      have gridx : |p.x - s.center_.x| ≤ s.width_ / 2 := by
        by_contra hc
        apply farx
        rw [hX, ha, hW] at hc ⊢
        have hc' : (W : ℚ) / 2 < |(X : ℚ) - a| := not_le.1 hc
        have h1 : (W : ℚ) < |((2 * (X - a) : Int) : ℚ)| := by
          push_cast
          rw [abs_mul]
          norm_num
          linarith
        have h2 : W < |2 * (X - a)| := by exact_mod_cast h1
        have h3 : W + 1 ≤ |2 * (X - a)| := by omega
        have h4 : ((W + 1 : Int) : ℚ) ≤ |((2 * (X - a) : Int) : ℚ)| := by exact_mod_cast h3
        push_cast at h4
        rw [abs_mul] at h4
        norm_num at h4
        linarith
      have gridy : |p.y - s.center_.y| ≤ s.height_ / 2 := by
        by_contra hc
        apply fary
        rw [hY, hb, hH] at hc ⊢
        have hc' : (H : ℚ) / 2 < |(Y : ℚ) - b| := not_le.1 hc
        have h1 : (H : ℚ) < |((2 * (Y - b) : Int) : ℚ)| := by
          push_cast
          rw [abs_mul]
          norm_num
          linarith
        have h2 : H < |2 * (Y - b)| := by exact_mod_cast h1
        have h3 : H + 1 ≤ |2 * (Y - b)| := by omega
        have h4 : ((H + 1 : Int) : ℚ) ≤ |((2 * (Y - b) : Int) : ℚ)| := by exact_mod_cast h3
        push_cast at h4
        rw [abs_mul] at h4
        norm_num at h4
        linarith
      rw [hbox]
      unfold BoundingBox.contains
      rw [abs_le] at gridx gridy
      simp only [ge_iff_le, Bool.and_eq_true, decide_eq_true_eq]
      refine ⟨⟨⟨?_, ?_⟩, ?_⟩, ?_⟩ <;> linarith [gridx.1, gridx.2, gridy.1, gridy.2]
    · rw [ellipse_contains_iff s _ hwne hhne, hhw, hhh]
      simp only
      have e1 : s.center_.x + s.width_ / 2 - s.center_.x = s.width_ / 2 := by ring
      have e2 : double_sub s.center_.y s.center_.y = 0 := by
        unfold double_sub
        rw [sub_self, round_double_zero]
      have e3 : double_sub (s.center_.x + s.width_ / 2) s.center_.x = s.width_ / 2 := by
        unfold double_sub
        rw [e1]
        unfold double_div at hhw
        exact hhw
      rw [e3, e2, (squares_on_axis (s.width_ / 2) (s.width_ / 2) (s.height_ / 2) hw0
        (Or.inl rfl)).1]
    · rw [ellipse_contains_iff s _ hwne hhne, hhw, hhh]
      simp only
      have e1 : s.center_.x - s.width_ / 2 - s.center_.x = -(s.width_ / 2) := by ring
      have e2 : double_sub s.center_.y s.center_.y = 0 := by
        unfold double_sub
        rw [sub_self, round_double_zero]
      have e3 : double_sub (s.center_.x - s.width_ / 2) s.center_.x = -(s.width_ / 2) := by
        unfold double_sub
        rw [e1, round_double_neg]
        unfold double_div at hhw
        rw [hhw]
      rw [e3, e2, (squares_on_axis (-(s.width_ / 2)) (s.width_ / 2) (s.height_ / 2) hw0
        (Or.inr rfl)).1]
    · rw [ellipse_contains_iff s _ hwne hhne, hhw, hhh]
      simp only
      have e1 : s.center_.y + s.height_ / 2 - s.center_.y = s.height_ / 2 := by ring
      have e2 : double_sub s.center_.x s.center_.x = 0 := by
        unfold double_sub
        rw [sub_self, round_double_zero]
      have e3 : double_sub (s.center_.y + s.height_ / 2) s.center_.y = s.height_ / 2 := by
        unfold double_sub
        rw [e1]
        unfold double_div at hhh
        exact hhh
      rw [e3, e2, (squares_on_axis (s.height_ / 2) (s.height_ / 2) (s.width_ / 2) hh0
        (Or.inl rfl)).2]
    · rw [ellipse_contains_iff s _ hwne hhne, hhw, hhh]
      simp only
      have e1 : s.center_.y - s.height_ / 2 - s.center_.y = -(s.height_ / 2) := by ring
      have e2 : double_sub s.center_.x s.center_.x = 0 := by
        unfold double_sub
        rw [sub_self, round_double_zero]
      have e3 : double_sub (s.center_.y - s.height_ / 2) s.center_.y = -(s.height_ / 2) := by
        unfold double_sub
        rw [e1, round_double_neg]
        unfold double_div at hhh
        rw [hhh]
      rw [e3, e2, (squares_on_axis (-(s.height_ / 2)) (s.height_ / 2) (s.width_ / 2) hh0
        (Or.inr rfl)).2]

end XDot
end XDotCpp

namespace XDotCpp
namespace XDot

/-- The theorem `ellipse_inside_its_box` at the ellipse with center `(0, 0)`, width `4` and
height `2`. -/
theorem ellipse_inside_its_box_witness :
    double_div (EllipseShape.mk ⟨0, 0⟩ 4 2 Pen.new).width_ 2 ≠ 0 ∧
    (EllipseShape.mk ⟨0, 0⟩ 4 2 Pen.new).center_.is_integral_within (2 ^ 20) ∧
    is_integer_within (2 ^ 20) (EllipseShape.mk ⟨0, 0⟩ 4 2 Pen.new).width_ ∧
    (EllipseShape.mk ⟨0, 0⟩ 4 2 Pen.new).contains_point ⟨0, 0⟩ = true ∧
    (EllipseShape.mk ⟨0, 0⟩ 4 2 Pen.new).contains_point ⟨0 + 4 / 2, 0⟩ = true ∧
    (EllipseShape.mk ⟨0, 0⟩ 4 2 Pen.new).bounding_box = ⟨0 - 4 / 2, 0 - 2 / 2, 0 + 4 / 2, 0 + 2 / 2⟩ :=
  have h2 : ∀ z : Int, |z| < 2 ^ 53 → z ≠ 0 → double_div (z : ℚ) 2 ≠ 0 := by
    intro z hz h0
    unfold double_div
    rw [round_double_half z hz]
    have : (z : ℚ) ≠ 0 := by exact_mod_cast h0
    intro h
    apply this
    linarith
  have hw : double_div (4 : ℚ) 2 ≠ 0 := by simpa using h2 4 (by norm_num) (by norm_num)
  have hh : double_div (2 : ℚ) 2 ≠ 0 := by simpa using h2 2 (by norm_num) (by norm_num)
  have i4 : is_integer_within (2 ^ 20) (4 : ℚ) := by
    unfold is_integer_within; norm_num
  have i2 : is_integer_within (2 ^ 20) (2 : ℚ) := by
    unfold is_integer_within; norm_num
  have i0 : is_integer_within (2 ^ 20) (0 : ℚ) := by
    unfold is_integer_within; norm_num
  have key := ellipse_inside_its_box.2 (EllipseShape.mk ⟨0, 0⟩ 4 2 Pen.new) ⟨i0, i0⟩ i4 i2
    (by norm_num) (by norm_num)
  ⟨hw, ⟨i0, i0⟩, i4, ellipse_inside_its_box.1 (EllipseShape.mk ⟨0, 0⟩ 4 2 Pen.new) hw hh,
    key.2.2.1, key.1⟩

end XDot
end XDotCpp

namespace XDotCpp
namespace XDot

/-- C40 as stated fails on the ellipse of the drawing `E 0.1 0 0.4 2`, whose center abscissa
and width are the doubles nearest to `0.1` and `0.4`: `contains_point` accepts the point
`(-0.10000000000000002, 0)`, a double that lies to the left of the box of `bounding_box`,
whose left edge is `-0.1`; and it rejects the end point `(center.x + width/2, center.y)` of
the horizontal axis as the machine computes it, `(0.30000000000000004, 0)`, the right edge
of the box. Integer data of the ellipse alone are not enough either: the ellipse with
center `(-1, 0)`, width `3` and height `2` has the box from `-2.5` to `0.5`, and
`contains_point` accepts the point `(0.5 + 2^-53, 0)`, where `p.x - center.x` rounds to
`1.5`; nor are integer coordinates of the point: the ellipse with center
`(-0.5 - 2^-53, 0)`, width `3` and height `2` has the right edge `1 - 2^-53`, and
`contains_point` accepts the point `(1, 0)`, where `p.x - center.x` rounds to `1.5` again.
And an ellipse of positive width and height need not contain its center: half
the width `2^-1074`, the least positive double, rounds to zero, and `contains_point` answers
false wherever a halved axis is zero. -/
theorem ellipse_hit_outside_its_box :
    narrow_ellipse.center_.x = round_double (1 / 10) ∧
    narrow_ellipse.width_ = round_double (4 / 10) ∧
    round_double left_of_narrow_ellipse.x = left_of_narrow_ellipse.x ∧
    narrow_ellipse.bounding_box =
      ⟨(-((3602879701896397 : ℚ) / 36028797018963968)), -1, ((1351079888211149 : ℚ) / 4503599627370496), 1⟩ ∧
    narrow_ellipse.contains_point left_of_narrow_ellipse = true ∧
    narrow_ellipse.bounding_box.contains left_of_narrow_ellipse = false ∧
    narrow_ellipse.contains_point ⟨narrow_ellipse.bounding_box.x2, narrow_ellipse.center_.y⟩ =
      false ∧
    offset_ellipse.bounding_box = ⟨(-((5 : ℚ) / 2)), (-1 : ℚ), ((1 : ℚ) / 2), (1 : ℚ)⟩ ∧
    round_double right_of_offset_ellipse.x = right_of_offset_ellipse.x ∧
    offset_ellipse.contains_point right_of_offset_ellipse = true ∧
    offset_ellipse.bounding_box.contains right_of_offset_ellipse = false ∧
    round_double shifted_ellipse.center_.x = shifted_ellipse.center_.x ∧
    shifted_ellipse.bounding_box = ⟨(-2 : ℚ), (-1 : ℚ), ((9007199254740991 : ℚ) / 9007199254740992), (1 : ℚ)⟩ ∧
    shifted_ellipse.contains_point ⟨1, 0⟩ = true ∧
    shifted_ellipse.bounding_box.contains ⟨1, 0⟩ = false ∧
    0 < flat_ellipse.width_ ∧ 0 < flat_ellipse.height_ ∧
    round_double flat_ellipse.width_ = flat_ellipse.width_ ∧
    double_div flat_ellipse.width_ 2 = 0 ∧
    flat_ellipse.contains_point flat_ellipse.center_ = false := by
  have e1 : round_double ((1 : ℚ) / 10) = ((3602879701896397 : ℚ) / 36028797018963968) := by
    rw [round_double_eval_pos ((1 : ℚ) / 10) 7205759403792794 56 (by norm_num) (by norm_num) (by norm_num)
      (round_half_even_between _ 7205759403792794 (by norm_num) (by norm_num))]
    norm_num
  have e2 : round_double ((4 : ℚ) / 10) = ((3602879701896397 : ℚ) / 9007199254740992) := by
    rw [round_double_eval_pos ((4 : ℚ) / 10) 7205759403792794 54 (by norm_num) (by norm_num) (by norm_num)
      (round_half_even_between _ 7205759403792794 (by norm_num) (by norm_num))]
    norm_num
  have e3 : round_double (-((7205759403792795 : ℚ) / 72057594037927936)) = (-((7205759403792795 : ℚ) / 72057594037927936)) := by
    rw [round_double_eval_neg (-((7205759403792795 : ℚ) / 72057594037927936)) 7205759403792795 56 (by norm_num) (by norm_num) (by norm_num)
      (round_half_even_between _ 7205759403792795 (by norm_num) (by norm_num))]
    norm_num
  have e4 : double_div ((3602879701896397 : ℚ) / 9007199254740992) (2 : ℚ) = ((3602879701896397 : ℚ) / 18014398509481984) := by
    unfold double_div
    rw [round_double_eval_pos (((3602879701896397 : ℚ) / 9007199254740992) / (2 : ℚ)) 7205759403792794 55 (by norm_num) (by norm_num) (by norm_num)
      (round_half_even_between _ 7205759403792794 (by norm_num) (by norm_num))]
    norm_num
  have e5 : double_div (2 : ℚ) (2 : ℚ) = (1 : ℚ) := by
    unfold double_div
    rw [round_double_eval_pos ((2 : ℚ) / (2 : ℚ)) 4503599627370496 52 (by norm_num) (by norm_num) (by norm_num)
      (round_half_even_between _ 4503599627370496 (by norm_num) (by norm_num))]
    norm_num
  have e6 : double_sub ((3602879701896397 : ℚ) / 36028797018963968) ((3602879701896397 : ℚ) / 18014398509481984) = (-((3602879701896397 : ℚ) / 36028797018963968)) := by
    unfold double_sub
    rw [round_double_eval_neg (((3602879701896397 : ℚ) / 36028797018963968) - ((3602879701896397 : ℚ) / 18014398509481984)) 7205759403792794 56 (by norm_num) (by norm_num) (by norm_num)
      (round_half_even_between _ 7205759403792794 (by norm_num) (by norm_num))]
    norm_num
  have e7 : double_sub (0 : ℚ) (1 : ℚ) = (-1 : ℚ) := by
    unfold double_sub
    rw [round_double_eval_neg ((0 : ℚ) - (1 : ℚ)) 4503599627370496 52 (by norm_num) (by norm_num) (by norm_num)
      (round_half_even_between _ 4503599627370496 (by norm_num) (by norm_num))]
    norm_num
  have e8 : double_add ((3602879701896397 : ℚ) / 36028797018963968) ((3602879701896397 : ℚ) / 18014398509481984) = ((1351079888211149 : ℚ) / 4503599627370496) := by
    unfold double_add
    rw [round_double_eval_pos (((3602879701896397 : ℚ) / 36028797018963968) + ((3602879701896397 : ℚ) / 18014398509481984)) 5404319552844596 54 (by norm_num) (by norm_num) (by norm_num)
      (round_half_even_tie_up _ 5404319552844596 (by norm_num) (by norm_num))]
    norm_num
  have e9 : double_add (0 : ℚ) (1 : ℚ) = (1 : ℚ) := by
    unfold double_add
    rw [round_double_eval_pos ((0 : ℚ) + (1 : ℚ)) 4503599627370496 52 (by norm_num) (by norm_num) (by norm_num)
      (round_half_even_between _ 4503599627370496 (by norm_num) (by norm_num))]
    norm_num
  have e10 : double_sub (-((7205759403792795 : ℚ) / 72057594037927936)) ((3602879701896397 : ℚ) / 36028797018963968) = (-((3602879701896397 : ℚ) / 18014398509481984)) := by
    unfold double_sub
    rw [round_double_eval_neg ((-((7205759403792795 : ℚ) / 72057594037927936)) - ((3602879701896397 : ℚ) / 36028797018963968)) 7205759403792794 55 (by norm_num) (by norm_num) (by norm_num)
      (round_half_even_tie_down _ 7205759403792794 (by norm_num) (by norm_num))]
    norm_num
  have e11 : double_div (-((3602879701896397 : ℚ) / 18014398509481984)) ((3602879701896397 : ℚ) / 18014398509481984) = (-1 : ℚ) := by
    unfold double_div
    rw [round_double_eval_neg ((-((3602879701896397 : ℚ) / 18014398509481984)) / ((3602879701896397 : ℚ) / 18014398509481984)) 4503599627370496 52 (by norm_num) (by norm_num) (by norm_num)
      (round_half_even_between _ 4503599627370496 (by norm_num) (by norm_num))]
    norm_num
  have e12 : double_sub (0 : ℚ) (0 : ℚ) = (0 : ℚ) := by
    unfold double_sub
    norm_num [round_double_zero]
  have e13 : double_div (0 : ℚ) (1 : ℚ) = (0 : ℚ) := by
    unfold double_div
    norm_num [round_double_zero]
  have e14 : double_mul (-1 : ℚ) (-1 : ℚ) = (1 : ℚ) := by
    unfold double_mul
    rw [round_double_eval_pos ((-1 : ℚ) * (-1 : ℚ)) 4503599627370496 52 (by norm_num) (by norm_num) (by norm_num)
      (round_half_even_between _ 4503599627370496 (by norm_num) (by norm_num))]
    norm_num
  have e15 : double_mul (0 : ℚ) (0 : ℚ) = (0 : ℚ) := by
    unfold double_mul
    norm_num [round_double_zero]
  have e16 : double_add (1 : ℚ) (0 : ℚ) = (1 : ℚ) := by
    unfold double_add
    rw [round_double_eval_pos ((1 : ℚ) + (0 : ℚ)) 4503599627370496 52 (by norm_num) (by norm_num) (by norm_num)
      (round_half_even_between _ 4503599627370496 (by norm_num) (by norm_num))]
    norm_num
  have e17 : double_sub ((1351079888211149 : ℚ) / 4503599627370496) ((3602879701896397 : ℚ) / 36028797018963968) = ((7205759403792795 : ℚ) / 36028797018963968) := by
    unfold double_sub
    rw [round_double_eval_pos (((1351079888211149 : ℚ) / 4503599627370496) - ((3602879701896397 : ℚ) / 36028797018963968)) 7205759403792795 55 (by norm_num) (by norm_num) (by norm_num)
      (round_half_even_between _ 7205759403792795 (by norm_num) (by norm_num))]
    norm_num
  have e18 : double_div ((7205759403792795 : ℚ) / 36028797018963968) ((3602879701896397 : ℚ) / 18014398509481984) = ((4503599627370497 : ℚ) / 4503599627370496) := by
    unfold double_div
    rw [round_double_eval_pos (((7205759403792795 : ℚ) / 36028797018963968) / ((3602879701896397 : ℚ) / 18014398509481984)) 4503599627370497 52 (by norm_num) (by norm_num) (by norm_num)
      (round_half_even_between _ 4503599627370497 (by norm_num) (by norm_num))]
    norm_num
  have e19 : double_mul ((4503599627370497 : ℚ) / 4503599627370496) ((4503599627370497 : ℚ) / 4503599627370496) = ((2251799813685249 : ℚ) / 2251799813685248) := by
    unfold double_mul
    rw [round_double_eval_pos (((4503599627370497 : ℚ) / 4503599627370496) * ((4503599627370497 : ℚ) / 4503599627370496)) 4503599627370498 52 (by norm_num) (by norm_num) (by norm_num)
      (round_half_even_between _ 4503599627370498 (by norm_num) (by norm_num))]
    norm_num
  have e20 : double_add ((2251799813685249 : ℚ) / 2251799813685248) (0 : ℚ) = ((2251799813685249 : ℚ) / 2251799813685248) := by
    unfold double_add
    rw [round_double_eval_pos (((2251799813685249 : ℚ) / 2251799813685248) + (0 : ℚ)) 4503599627370498 52 (by norm_num) (by norm_num) (by norm_num)
      (round_half_even_between _ 4503599627370498 (by norm_num) (by norm_num))]
    norm_num
  have hbox : narrow_ellipse.bounding_box =
      ⟨(-((3602879701896397 : ℚ) / 36028797018963968)), -1, ((1351079888211149 : ℚ) / 4503599627370496), 1⟩ := by
    simp only [EllipseShape.bounding_box, narrow_ellipse, e1, e2, e3, e4, e5, e6, e7, e8, e9, e10, e11, e12, e13, e14, e15, e16, e17, e18, e19, e20]
  have e101 : round_double ((4503599627370497 : ℚ) / 9007199254740992) = ((4503599627370497 : ℚ) / 9007199254740992) := by
    rw [round_double_eval_pos ((4503599627370497 : ℚ) / 9007199254740992) 4503599627370497 53 (by norm_num) (by norm_num) (by norm_num)
      (round_half_even_between _ 4503599627370497 (by norm_num) (by norm_num))]
    norm_num
  have e102 : double_div (3 : ℚ) (2 : ℚ) = ((3 : ℚ) / 2) := by
    unfold double_div
    rw [round_double_eval_pos ((3 : ℚ) / (2 : ℚ)) 6755399441055744 52 (by norm_num) (by norm_num) (by norm_num)
      (round_half_even_between _ 6755399441055744 (by norm_num) (by norm_num))]
    norm_num
  have e103 : double_div (2 : ℚ) (2 : ℚ) = (1 : ℚ) := by
    unfold double_div
    rw [round_double_eval_pos ((2 : ℚ) / (2 : ℚ)) 4503599627370496 52 (by norm_num) (by norm_num) (by norm_num)
      (round_half_even_between _ 4503599627370496 (by norm_num) (by norm_num))]
    norm_num
  have e104 : double_sub (-1 : ℚ) ((3 : ℚ) / 2) = (-((5 : ℚ) / 2)) := by
    unfold double_sub
    rw [round_double_eval_neg ((-1 : ℚ) - ((3 : ℚ) / 2)) 5629499534213120 51 (by norm_num) (by norm_num) (by norm_num)
      (round_half_even_between _ 5629499534213120 (by norm_num) (by norm_num))]
    norm_num
  have e105 : double_sub (0 : ℚ) (1 : ℚ) = (-1 : ℚ) := by
    unfold double_sub
    rw [round_double_eval_neg ((0 : ℚ) - (1 : ℚ)) 4503599627370496 52 (by norm_num) (by norm_num) (by norm_num)
      (round_half_even_between _ 4503599627370496 (by norm_num) (by norm_num))]
    norm_num
  have e106 : double_add (-1 : ℚ) ((3 : ℚ) / 2) = ((1 : ℚ) / 2) := by
    unfold double_add
    rw [round_double_eval_pos ((-1 : ℚ) + ((3 : ℚ) / 2)) 4503599627370496 53 (by norm_num) (by norm_num) (by norm_num)
      (round_half_even_between _ 4503599627370496 (by norm_num) (by norm_num))]
    norm_num
  have e107 : double_add (0 : ℚ) (1 : ℚ) = (1 : ℚ) := by
    unfold double_add
    rw [round_double_eval_pos ((0 : ℚ) + (1 : ℚ)) 4503599627370496 52 (by norm_num) (by norm_num) (by norm_num)
      (round_half_even_between _ 4503599627370496 (by norm_num) (by norm_num))]
    norm_num
  have e108 : double_sub ((4503599627370497 : ℚ) / 9007199254740992) (-1 : ℚ) = ((3 : ℚ) / 2) := by
    unfold double_sub
    rw [round_double_eval_pos (((4503599627370497 : ℚ) / 9007199254740992) - (-1 : ℚ)) 6755399441055744 52 (by norm_num) (by norm_num) (by norm_num)
      (round_half_even_tie_down _ 6755399441055744 (by norm_num) (by norm_num))]
    norm_num
  have e109 : double_div ((3 : ℚ) / 2) ((3 : ℚ) / 2) = (1 : ℚ) := by
    unfold double_div
    rw [round_double_eval_pos (((3 : ℚ) / 2) / ((3 : ℚ) / 2)) 4503599627370496 52 (by norm_num) (by norm_num) (by norm_num)
      (round_half_even_between _ 4503599627370496 (by norm_num) (by norm_num))]
    norm_num
  have e110 : double_sub (0 : ℚ) (0 : ℚ) = (0 : ℚ) := by
    unfold double_sub
    norm_num [round_double_zero]
  have e111 : double_div (0 : ℚ) (1 : ℚ) = (0 : ℚ) := by
    unfold double_div
    norm_num [round_double_zero]
  have e112 : double_mul (1 : ℚ) (1 : ℚ) = (1 : ℚ) := by
    unfold double_mul
    rw [round_double_eval_pos ((1 : ℚ) * (1 : ℚ)) 4503599627370496 52 (by norm_num) (by norm_num) (by norm_num)
      (round_half_even_between _ 4503599627370496 (by norm_num) (by norm_num))]
    norm_num
  have e113 : double_mul (0 : ℚ) (0 : ℚ) = (0 : ℚ) := by
    unfold double_mul
    norm_num [round_double_zero]
  have e114 : double_add (1 : ℚ) (0 : ℚ) = (1 : ℚ) := by
    unfold double_add
    rw [round_double_eval_pos ((1 : ℚ) + (0 : ℚ)) 4503599627370496 52 (by norm_num) (by norm_num) (by norm_num)
      (round_half_even_between _ 4503599627370496 (by norm_num) (by norm_num))]
    norm_num
  have hbox2 : offset_ellipse.bounding_box = ⟨(-((5 : ℚ) / 2)), (-1 : ℚ), ((1 : ℚ) / 2), (1 : ℚ)⟩ := by
    simp only [EllipseShape.bounding_box, offset_ellipse, e101, e102, e103, e104, e105, e106, e107, e108, e109, e110, e111, e112, e113, e114]
  have hin2 : offset_ellipse.contains_point right_of_offset_ellipse = true := by
    simp only [EllipseShape.contains_point, offset_ellipse, right_of_offset_ellipse, e101, e102, e103, e104, e105, e106, e107, e108, e109, e110, e111, e112, e113, e114]
    norm_num
  have hout2 : offset_ellipse.bounding_box.contains right_of_offset_ellipse = false := by
    rw [hbox2]
    simp only [BoundingBox.contains, right_of_offset_ellipse]
    norm_num
  have e201 : round_double (-((4503599627370497 : ℚ) / 9007199254740992)) = (-((4503599627370497 : ℚ) / 9007199254740992)) := by
    rw [round_double_eval_neg (-((4503599627370497 : ℚ) / 9007199254740992)) 4503599627370497 53 (by norm_num) (by norm_num) (by norm_num)
      (round_half_even_between _ 4503599627370497 (by norm_num) (by norm_num))]
    norm_num
  have e202 : double_div (3 : ℚ) (2 : ℚ) = ((3 : ℚ) / 2) := by
    unfold double_div
    rw [round_double_eval_pos ((3 : ℚ) / (2 : ℚ)) 6755399441055744 52 (by norm_num) (by norm_num) (by norm_num)
      (round_half_even_between _ 6755399441055744 (by norm_num) (by norm_num))]
    norm_num
  have e203 : double_div (2 : ℚ) (2 : ℚ) = (1 : ℚ) := by
    unfold double_div
    rw [round_double_eval_pos ((2 : ℚ) / (2 : ℚ)) 4503599627370496 52 (by norm_num) (by norm_num) (by norm_num)
      (round_half_even_between _ 4503599627370496 (by norm_num) (by norm_num))]
    norm_num
  have e204 : double_sub (-((4503599627370497 : ℚ) / 9007199254740992)) ((3 : ℚ) / 2) = (-2 : ℚ) := by
    unfold double_sub
    rw [round_double_eval_neg ((-((4503599627370497 : ℚ) / 9007199254740992)) - ((3 : ℚ) / 2)) 4503599627370496 51 (by norm_num) (by norm_num) (by norm_num)
      (round_half_even_between _ 4503599627370496 (by norm_num) (by norm_num))]
    norm_num
  have e205 : double_sub (0 : ℚ) (1 : ℚ) = (-1 : ℚ) := by
    unfold double_sub
    rw [round_double_eval_neg ((0 : ℚ) - (1 : ℚ)) 4503599627370496 52 (by norm_num) (by norm_num) (by norm_num)
      (round_half_even_between _ 4503599627370496 (by norm_num) (by norm_num))]
    norm_num
  have e206 : double_add (-((4503599627370497 : ℚ) / 9007199254740992)) ((3 : ℚ) / 2) = ((9007199254740991 : ℚ) / 9007199254740992) := by
    unfold double_add
    rw [round_double_eval_pos ((-((4503599627370497 : ℚ) / 9007199254740992)) + ((3 : ℚ) / 2)) 9007199254740991 53 (by norm_num) (by norm_num) (by norm_num)
      (round_half_even_between _ 9007199254740991 (by norm_num) (by norm_num))]
    norm_num
  have e207 : double_add (0 : ℚ) (1 : ℚ) = (1 : ℚ) := by
    unfold double_add
    rw [round_double_eval_pos ((0 : ℚ) + (1 : ℚ)) 4503599627370496 52 (by norm_num) (by norm_num) (by norm_num)
      (round_half_even_between _ 4503599627370496 (by norm_num) (by norm_num))]
    norm_num
  have e208 : double_sub (1 : ℚ) (-((4503599627370497 : ℚ) / 9007199254740992)) = ((3 : ℚ) / 2) := by
    unfold double_sub
    rw [round_double_eval_pos ((1 : ℚ) - (-((4503599627370497 : ℚ) / 9007199254740992))) 6755399441055744 52 (by norm_num) (by norm_num) (by norm_num)
      (round_half_even_tie_down _ 6755399441055744 (by norm_num) (by norm_num))]
    norm_num
  have e209 : double_div ((3 : ℚ) / 2) ((3 : ℚ) / 2) = (1 : ℚ) := by
    unfold double_div
    rw [round_double_eval_pos (((3 : ℚ) / 2) / ((3 : ℚ) / 2)) 4503599627370496 52 (by norm_num) (by norm_num) (by norm_num)
      (round_half_even_between _ 4503599627370496 (by norm_num) (by norm_num))]
    norm_num
  have e210 : double_sub (0 : ℚ) (0 : ℚ) = (0 : ℚ) := by
    unfold double_sub
    norm_num [round_double_zero]
  have e211 : double_div (0 : ℚ) (1 : ℚ) = (0 : ℚ) := by
    unfold double_div
    norm_num [round_double_zero]
  have e212 : double_mul (1 : ℚ) (1 : ℚ) = (1 : ℚ) := by
    unfold double_mul
    rw [round_double_eval_pos ((1 : ℚ) * (1 : ℚ)) 4503599627370496 52 (by norm_num) (by norm_num) (by norm_num)
      (round_half_even_between _ 4503599627370496 (by norm_num) (by norm_num))]
    norm_num
  have e213 : double_mul (0 : ℚ) (0 : ℚ) = (0 : ℚ) := by
    unfold double_mul
    norm_num [round_double_zero]
  have e214 : double_add (1 : ℚ) (0 : ℚ) = (1 : ℚ) := by
    unfold double_add
    rw [round_double_eval_pos ((1 : ℚ) + (0 : ℚ)) 4503599627370496 52 (by norm_num) (by norm_num) (by norm_num)
      (round_half_even_between _ 4503599627370496 (by norm_num) (by norm_num))]
    norm_num
  have hbox3 : shifted_ellipse.bounding_box = ⟨(-2 : ℚ), (-1 : ℚ), ((9007199254740991 : ℚ) / 9007199254740992), (1 : ℚ)⟩ := by
    simp only [EllipseShape.bounding_box, shifted_ellipse, e201, e202, e203, e204, e205, e206, e207, e208, e209, e210, e211, e212, e213, e214]
  have hin3 : shifted_ellipse.contains_point ⟨1, 0⟩ = true := by
    simp only [EllipseShape.contains_point, shifted_ellipse, e201, e202, e203, e204, e205, e206, e207, e208, e209, e210, e211, e212, e213, e214]
    norm_num
  have hout3 : shifted_ellipse.bounding_box.contains ⟨1, 0⟩ = false := by
    rw [hbox3]
    simp only [BoundingBox.contains]
    norm_num
  have hw : round_double flat_ellipse.width_ = flat_ellipse.width_ := by
    have h := round_double_dyadic 1 1074 (by norm_num) le_rfl
    rw [Int.cast_one] at h
    exact h
  have hf : flat_ellipse.contains_point flat_ellipse.center_ = false := by
    have hd : double_div flat_ellipse.width_ 2 = 0 := double_div_least
    simp only [EllipseShape.contains_point, hd, true_or, if_true]
  refine ⟨?_, ?_, ?_, hbox, ?_, ?_, ?_, hbox2, e101, hin2, hout2, e201, hbox3, hin3, hout3,
    by simp only [flat_ellipse]; positivity,
    by simp only [flat_ellipse]; norm_num, hw, double_div_least, hf⟩
  · rw [e1]; rfl
  · rw [e2]; rfl
  · exact e3
  · simp only [EllipseShape.contains_point, narrow_ellipse, left_of_narrow_ellipse, e1, e2, e3, e4, e5, e6, e7, e8, e9, e10, e11, e12, e13, e14, e15, e16, e17, e18, e19, e20]
    norm_num
  · rw [hbox]
    simp only [BoundingBox.contains, left_of_narrow_ellipse]
    norm_num
  · rw [hbox]
    simp only [EllipseShape.contains_point, narrow_ellipse, e1, e2, e3, e4, e5, e6, e7, e8, e9, e10, e11, e12, e13, e14, e15, e16, e17, e18, e19, e20]
    norm_num

end XDot
end XDotCpp

/-! ## The mode for broken backslashes -/

namespace XDotCpp
namespace XDot

/-- A character that is not a backslash is copied. -/
theorem fix_backslashes_other (c : Char) (cs : List Char) (hc : c ≠ '\\') :
    fix_backslashes (c :: cs) = c :: fix_backslashes cs := by
  cases cs with
  | nil => simp [fix_backslashes]
  | cons d ds =>
    rw [fix_backslashes]
    intro _ h1 _
    exact absurd h1 hc

/-- A single backslash before another character, or at the end, is copied. -/
theorem fix_backslashes_single (cs : List Char) (hcs : cs.head? ≠ some '\\') :
    fix_backslashes ('\\' :: cs) = '\\' :: fix_backslashes cs := by
  cases cs with
  | nil => simp [fix_backslashes]
  | cons d ds =>
    rw [fix_backslashes]
    intro _ _ h2
    exact absurd (by rw [h2]; rfl) hcs

/-- A run of `k` backslashes that ends before `rest` becomes `(k + 1) / 2` backslashes. -/
theorem fix_backslashes_run (rest : List Char) (hrest : rest.head? ≠ some '\\') :
    ∀ k : Nat, fix_backslashes (List.replicate k '\\' ++ rest) =
      List.replicate ((k + 1) / 2) '\\' ++ fix_backslashes rest := by
  intro k
  induction k using Nat.strong_induction_on with
  | _ k ih =>
    match k with
    | 0 => simp
    | 1 =>
      simp only [List.replicate_one, List.singleton_append]
      exact fix_backslashes_single rest hrest
    | k + 2 =>
      have e : (k + 2 + 1) / 2 = (k + 1) / 2 + 1 := by omega
      rw [e, List.replicate_succ, List.replicate_succ, List.replicate_succ]
      simp only [List.cons_append]
      rw [fix_backslashes, ih k (by omega)]

/-- A string without two adjacent backslashes is a fixed point. -/
theorem fix_backslashes_id : ∀ s : List Char, ¬ (['\\', '\\'] <:+: s) → fix_backslashes s = s := by
  intro s
  induction s with
  | nil => intro _; rfl
  | cons c cs ih =>
    intro h
    have hcs : ¬ (['\\', '\\'] <:+: cs) := fun hi => h (List.IsInfix.trans hi (List.infix_cons (List.infix_refl _)))
    by_cases hc : c = '\\'
    · subst hc
      have hh : cs.head? ≠ some '\\' := by
        intro hh
        cases cs with
        | nil => simp at hh
        | cons d ds =>
          simp only [List.head?_cons, Option.some.injEq] at hh
          subst hh
          exact h ⟨[], ds, rfl⟩
      rw [fix_backslashes_single cs hh, ih hcs]
    · rw [fix_backslashes_other c cs hc, ih hcs]

/-- The characters that are not backslashes are kept, in their order. -/
theorem fix_backslashes_others : ∀ (n : Nat) (s : List Char), s.length ≤ n →
    (fix_backslashes s).filter (fun c => c != '\\') = s.filter (fun c => c != '\\') := by
  intro n
  induction n with
  | zero =>
    intro s hs
    have : s = [] := List.length_eq_zero.mp (by omega)
    subst this; rfl
  | succ n ih =>
    intro s hs
    match s with
    | [] => rfl
    | [c] =>
      by_cases hc : c = '\\'
      · subst hc; rfl
      · rw [fix_backslashes_other c [] hc]; rfl
    | c :: d :: ds =>
      by_cases hc : c = '\\'
      · by_cases hd : d = '\\'
        · subst hc; subst hd
          rw [fix_backslashes]
          simp only [List.length_cons] at hs
          have := ih ds (by omega)
          simp [List.filter_cons, this]
        · subst hc
          rw [fix_backslashes_single (d :: ds) (by simpa using hd)]
          simp only [List.length_cons] at hs
          have := ih (d :: ds) (by simp only [List.length_cons]; omega)
          simp [List.filter_cons, this]
      · rw [fix_backslashes_other c _ hc]
        simp only [List.length_cons] at hs
        have := ih (d :: ds) (by simp only [List.length_cons]; omega)
        simp [List.filter_cons, this]

/-- C35: with the mode for broken backslashes the constructor of `XDotAttrParser` keeps,
as the data that is decoded, the string in which every pair of adjacent backslashes,
taken from left to right, is one backslash: a maximal run of `k` backslashes becomes
`(k + 1) / 2` backslashes, which is `k / 2` rounded up; every other character is copied, so
the characters that are not backslashes are kept in their order; a string without two
adjacent backslashes is unchanged; and without the mode the data is the string as given.
So the text `a\\\b`, with three backslashes, becomes `a\\b`, with two. -/
theorem broken_backslashes_collapse (s : List Char) :
    XDotAttrParser.new s true = XDotAttrParser.new (XDotAttrParser.new s true).data_ false ∧
      (XDotAttrParser.new s false).data_ = s ∧ (XDotAttrParser.new s false).rest = s ∧
      (∀ (k : Nat) (rest : List Char), rest.head? ≠ some '\\' →
        (XDotAttrParser.new (List.replicate k '\\' ++ rest) true).data_ =
          List.replicate ((k + 1) / 2) '\\' ++ (XDotAttrParser.new rest true).data_) ∧
      (∀ (c : Char) (rest : List Char), c ≠ '\\' →
        (XDotAttrParser.new (c :: rest) true).data_ = c :: (XDotAttrParser.new rest true).data_) ∧
      (XDotAttrParser.new [] true).data_ = [] ∧
      ((XDotAttrParser.new s true).data_.filter (fun c => c != '\\') =
        s.filter (fun c => c != '\\')) ∧
      (¬ (['\\', '\\'] <:+: s) → (XDotAttrParser.new s true).data_ = s) ∧
      (XDotAttrParser.new "a\\\\\\b".toList true).data_ = "a\\\\b".toList :=
  ⟨rfl, rfl, rfl, fun k rest h => fix_backslashes_run rest h k,
    fun c rest h => fix_backslashes_other c rest h, rfl,
    fix_backslashes_others s.length s (Nat.le_refl _), fix_backslashes_id s, by decide⟩

end XDot
end XDotCpp

/-! ## The keywords of a style string -/

namespace XDotCpp
namespace XDot

/-- An iteration of the loop of `parse` on `S n -style`, where the literal `n` is the
length of `style`, which does not start with white space: the line style of the pen is set
by the first of the keywords `solid`, `dashed`, `dotted`, in this order, that the string
contains, and the decode goes on behind `style`. -/
theorem parse_loop_style (fuel : Nat) (s : XDotAttrParser) (n style r : List Char)
    (hn : is_literal n = true) (hlen : decimal_value n = style.length)
    (hv : style.length < 2 ^ 31) (ht : starts_without_space style = true)
    (hs : s.rest = style_text n style ++ r) :
    parse_loop (fuel + 1) s = parse_loop fuel { s with
      rest := r,
      current_pen_ :=
        if contains_word style "solid".toList then
          { s.current_pen_ with line_style := LineStyle.SOLID }
        else if contains_word style "dashed".toList then
          { s.current_pen_ with line_style := LineStyle.DASHED }
        else if contains_word style "dotted".toList then
          { s.current_pen_ with line_style := LineStyle.DOTTED }
        else s.current_pen_ } := by
  rw [style_text_append] at hs
  rw [parse_loop_opcode fuel s 'S' [] (' ' :: (n ++ ' ' :: '-' :: (style ++ r))) (by simp) rfl hs]
  have hd : ∀ t : XDotAttrParser, XDotAttrParser.dispatch ['S'] t = t.handle_style := fun t => rfl
  obtain ⟨r1, hread, hr1⟩ := read_text_payload
    { s with rest := ' ' :: (n ++ ' ' :: '-' :: (style ++ r)) } n style r hn hlen hv ht rfl
  rw [hd]
  cases k1 : contains_word style "solid".toList <;>
    cases k2 : contains_word style "dashed".toList <;>
    cases k3 : contains_word style "dotted".toList <;>
    simp only [XDotAttrParser.handle_style, bind, Except.bind, hread, k1, k2, k3,
      Bool.false_eq_true, if_false, if_true, pure, Except.pure] <;>
    exact parse_loop_whitespace_at fuel _ _ _ r1 r hr1

/-- The decode of `S n -style E x y w h`: the ellipse has the default pen with the line
style that the style string sets. -/
theorem decode_style_then_ellipse (fuel : Nat) (n style x y w h : List Char)
    (hn : is_literal n = true) (hlen : decimal_value n = style.length)
    (hv : style.length < 2 ^ 31) (ht : starts_without_space style = true)
    (hx : is_int_literal x = true) (hy : is_int_literal y = true)
    (hw : is_int_literal w = true) (hh : is_int_literal h = true)
    (bx : (int_literal_value x).natAbs ≤ 2 ^ 53) (bY : (int_literal_value y).natAbs ≤ 2 ^ 53)
    (bw : (int_literal_value w).natAbs ≤ 2 ^ 53) (bh : (int_literal_value h).natAbs ≤ 2 ^ 53) :
    parse_xdot_attr (fuel + 3) (style_text n style ++ ' ' :: ellipse_text x y w h) =
      .ok [Shape.ellipse ⟨⟨(int_literal_value x : ℚ), (int_literal_value y : ℚ)⟩,
        (int_literal_value w : ℚ), (int_literal_value h : ℚ),
        if contains_word style "solid".toList then
          { Pen.new with line_style := LineStyle.SOLID }
        else if contains_word style "dashed".toList then
          { Pen.new with line_style := LineStyle.DASHED }
        else if contains_word style "dotted".toList then
          { Pen.new with line_style := LineStyle.DOTTED }
        else Pen.new⟩] := by
  rw [parse_xdot_attr_eq,
    parse_loop_style (fuel + 2) _ n style (' ' :: ellipse_text x y w h) hn hlen hv ht rfl]
  simp only
  rw [parse_loop_space_at, ← List.append_nil (ellipse_text x y w h),
    parse_loop_ellipse_at (fuel + 1) _ _ _ x y w h [] hx hy hw hh bx bY bw bh rfl,
    parse_loop_end_at]
  rfl

/-- C36, for style strings that are shorter than `2^31`, do not start with white space and
do not contain `solid`: when such a string contains `dashed`, the opcode `S n -style` (`n`
the length of the string) sets the line style of the pen to dashed, in every state of the
decoder, and the decode goes on behind the string, so `S n -style E x y w h` decodes to
the ellipse whose pen is dashed; when it contains `dotted` and not `dashed`, the line style
is set to dotted in the same way. -/
theorem style_keyword_sets_line_style (n style : List Char) (hn : is_literal n = true)
    (hlen : decimal_value n = style.length) (hv : style.length < 2 ^ 31)
    (ht : starts_without_space style = true)
    (hsolid : contains_word style "solid".toList = false) :
    (contains_word style "dashed".toList = true →
      (∀ (fuel : Nat) (s : XDotAttrParser) (r : List Char), s.rest = style_text n style ++ r →
        parse_loop (fuel + 1) s = parse_loop fuel { s with
          rest := r,
          current_pen_ := { s.current_pen_ with line_style := LineStyle.DASHED } }) ∧
      (∀ (fuel : Nat) (x y w h : List Char), is_int_literal x = true → is_int_literal y = true →
        is_int_literal w = true → is_int_literal h = true →
        (int_literal_value x).natAbs ≤ 2 ^ 53 → (int_literal_value y).natAbs ≤ 2 ^ 53 →
        (int_literal_value w).natAbs ≤ 2 ^ 53 → (int_literal_value h).natAbs ≤ 2 ^ 53 →
        parse_xdot_attr (fuel + 3) (style_text n style ++ ' ' :: ellipse_text x y w h) =
          .ok [Shape.ellipse ⟨⟨(int_literal_value x : ℚ), (int_literal_value y : ℚ)⟩,
            (int_literal_value w : ℚ), (int_literal_value h : ℚ),
            ⟨⟨0, 0, 0, 1⟩, ⟨1, 1, 1, 1⟩, 1, LineStyle.DASHED, [], "Arial".toList, 12⟩⟩])) ∧
    (contains_word style "dotted".toList = true →
      contains_word style "dashed".toList = false →
      (∀ (fuel : Nat) (s : XDotAttrParser) (r : List Char), s.rest = style_text n style ++ r →
        parse_loop (fuel + 1) s = parse_loop fuel { s with
          rest := r,
          current_pen_ := { s.current_pen_ with line_style := LineStyle.DOTTED } }) ∧
      (∀ (fuel : Nat) (x y w h : List Char), is_int_literal x = true → is_int_literal y = true →
        is_int_literal w = true → is_int_literal h = true →
        (int_literal_value x).natAbs ≤ 2 ^ 53 → (int_literal_value y).natAbs ≤ 2 ^ 53 →
        (int_literal_value w).natAbs ≤ 2 ^ 53 → (int_literal_value h).natAbs ≤ 2 ^ 53 →
        parse_xdot_attr (fuel + 3) (style_text n style ++ ' ' :: ellipse_text x y w h) =
          .ok [Shape.ellipse ⟨⟨(int_literal_value x : ℚ), (int_literal_value y : ℚ)⟩,
            (int_literal_value w : ℚ), (int_literal_value h : ℚ),
            ⟨⟨0, 0, 0, 1⟩, ⟨1, 1, 1, 1⟩, 1, LineStyle.DOTTED, [], "Arial".toList, 12⟩⟩])) := by
  constructor
  · intro hdashed
    constructor
    · intro fuel s r hs
      have := parse_loop_style fuel s n style r hn hlen hv ht hs
      rw [hsolid, hdashed] at this
      exact this
    · intro fuel x y w h hx hy hw hh bx bY bw bh
      have := decode_style_then_ellipse fuel n style x y w h hn hlen hv ht hx hy hw hh bx bY bw bh
      rw [hsolid, hdashed] at this
      exact this
  · intro hdotted hdashed
    constructor
    · intro fuel s r hs
      have := parse_loop_style fuel s n style r hn hlen hv ht hs
      rw [hsolid, hdashed, hdotted] at this
      exact this
    · intro fuel x y w h hx hy hw hh bx bY bw bh
      have := decode_style_then_ellipse fuel n style x y w h hn hlen hv ht hx hy hw hh bx bY bw bh
      rw [hsolid, hdashed, hdotted] at this
      exact this

/-- The theorem `style_keyword_sets_line_style` at the style strings `dashed` and
`bold,dotted`, in `S 6 -dashed E 1 2 3 4` and `S 11 -bold,dotted E 1 2 3 4`. -/
theorem style_keyword_sets_line_style_witness :
    parse_xdot_attr 3 "S 6 -dashed E 1 2 3 4".toList =
        .ok [Shape.ellipse ⟨⟨1, 2⟩, 3, 4,
          ⟨⟨0, 0, 0, 1⟩, ⟨1, 1, 1, 1⟩, 1, LineStyle.DASHED, [], "Arial".toList, 12⟩⟩] ∧
      parse_xdot_attr 3 "S 11 -bold,dotted E 1 2 3 4".toList =
        .ok [Shape.ellipse ⟨⟨1, 2⟩, 3, 4,
          ⟨⟨0, 0, 0, 1⟩, ⟨1, 1, 1, 1⟩, 1, LineStyle.DOTTED, [], "Arial".toList, 12⟩⟩] := by
  have h1 := ((style_keyword_sets_line_style "6".toList "dashed".toList rfl (by decide)
    (by decide) (by decide) (by decide)).1 (by decide)).2 0 "1".toList "2".toList "3".toList
    "4".toList rfl rfl rfl rfl (by decide) (by decide) (by decide) (by decide)
  have h2 := ((style_keyword_sets_line_style "11".toList "bold,dotted".toList rfl (by decide)
    (by decide) (by decide) (by decide)).2 (by decide) (by decide)).2 0 "1".toList "2".toList
    "3".toList "4".toList rfl rfl rfl rfl (by decide) (by decide) (by decide) (by decide)
  have e1 : int_literal_value "1".toList = 1 := by decide
  have e2 : int_literal_value "2".toList = 2 := by decide
  have e3 : int_literal_value "3".toList = 3 := by decide
  have e4 : int_literal_value "4".toList = 4 := by decide
  rw [e1, e2, e3, e4] at h1 h2
  exact ⟨by exact_mod_cast h1, by exact_mod_cast h2⟩

/-- A text that ends with a word contains it. -/
theorem contains_word_suffix (pre word : List Char) : contains_word (pre ++ word) word = true := by
  unfold contains_word
  rw [List.any_eq_true]
  exact ⟨word, (List.mem_tails _ _).2 ⟨pre, rfl⟩, by simp⟩

/-- The decode of `S 25 -`, 19 blanks and `dashed`, followed by
` T 0 0 0 0 5 -solid E 0 0 1 1`: one shape, an ellipse with the default pen, which is
solid. -/
theorem decode_blanks_then_dashed :
    parse_xdot_attr 3 (style_text "25".toList (List.replicate 19 ' ' ++ "dashed".toList) ++
        " T 0 0 0 0 5 -solid E 0 0 1 1".toList) =
      .ok [Shape.ellipse ⟨⟨0, 0⟩, 1, 1, Pen.new⟩] := by
  rw [parse_xdot_attr_eq]
  have hstyle : XDotAttrParser.dispatch ['S']
      ⟨style_text "25".toList (List.replicate 19 ' ' ++ "dashed".toList) ++
          " T 0 0 0 0 5 -solid E 0 0 1 1".toList,
        " 25 -                   dashed T 0 0 0 0 5 -solid E 0 0 1 1".toList, Pen.new, []⟩ =
      .ok ⟨style_text "25".toList (List.replicate 19 ' ' ++ "dashed".toList) ++
          " T 0 0 0 0 5 -solid E 0 0 1 1".toList,
        ' ' :: (ellipse_text "0".toList "0".toList "1".toList "1".toList ++ []),
        { Pen.new with line_style := LineStyle.SOLID }, []⟩ := by
    rfl
  have h1 := parse_loop_opcode_at 2
    (style_text "25".toList (List.replicate 19 ' ' ++ "dashed".toList) ++
      " T 0 0 0 0 5 -solid E 0 0 1 1".toList)
    Pen.new [] 'S' [] " 25 -                   dashed T 0 0 0 0 5 -solid E 0 0 1 1".toList
    (by decide) (by decide)
  rw [hstyle] at h1
  have h2 : (⟨style_text "25".toList (List.replicate 19 ' ' ++ "dashed".toList) ++
        " T 0 0 0 0 5 -solid E 0 0 1 1".toList,
      style_text "25".toList (List.replicate 19 ' ' ++ "dashed".toList) ++
        " T 0 0 0 0 5 -solid E 0 0 1 1".toList, Pen.new, []⟩ : XDotAttrParser) =
      ⟨style_text "25".toList (List.replicate 19 ' ' ++ "dashed".toList) ++
        " T 0 0 0 0 5 -solid E 0 0 1 1".toList,
       'S' :: [] ++ " 25 -                   dashed T 0 0 0 0 5 -solid E 0 0 1 1".toList, Pen.new,
       []⟩ := by decide
  rw [h2, h1]
  simp only
  rw [parse_loop_space_at,
    parse_loop_ellipse_at 1 _ _ _ "0".toList "0".toList "1".toList "1".toList [] rfl rfl rfl rfl
      (by decide) (by decide) (by decide) (by decide) rfl,
    parse_loop_end_at]
  have e0 : int_literal_value "0".toList = 0 := by decide
  have e1 : int_literal_value "1".toList = 1 := by decide
  simp only [e0, e1, Except.map, List.nil_append, Int.cast_zero, Int.cast_one]
  rfl

/-- C36 as stated fails, for three reasons. The keyword `solid` is looked for first: the
style string `solid,dashed` contains `dashed`, and `S 12 -solid,dashed E 0 0 1 1` decodes
to an ellipse whose pen is solid. The length of a style string of `2^31` characters that
ends with `dashed` is no `int`: `std::stoi` throws, and the decode ends with
`std::out_of_range`. And `read_text` skips white space behind the `-`: for the style string
of 19 blanks and `dashed` the decoder reads `dashed T 0 0 0 0 5 -solid` instead, which
contains `solid`, and the ellipse that follows gets a solid pen. -/
theorem style_solid_first_long_or_blank :
    (contains_word "solid,dashed".toList "dashed".toList = true ∧
      decimal_value "12".toList = "solid,dashed".toList.length ∧
      parse_xdot_attr 3 (style_text "12".toList "solid,dashed".toList ++ " E 0 0 1 1".toList) =
        .ok [Shape.ellipse ⟨⟨0, 0⟩, 1, 1,
          ⟨⟨0, 0, 0, 1⟩, ⟨1, 1, 1, 1⟩, 1, LineStyle.SOLID, [], "Arial".toList, 12⟩⟩]) ∧
    (contains_word (List.replicate (2 ^ 31 - 6) 'x' ++ "dashed".toList) "dashed".toList = true ∧
      decimal_value "2147483648".toList =
        (List.replicate (2 ^ 31 - 6) 'x' ++ "dashed".toList).length ∧
      parse_xdot_attr 3 (style_text "2147483648".toList
          (List.replicate (2 ^ 31 - 6) 'x' ++ "dashed".toList) ++ " E 0 0 1 1".toList) =
        .error (DecodeFailure.thrown StdException.out_of_range)) ∧
    (contains_word (List.replicate 19 ' ' ++ "dashed".toList) "dashed".toList = true ∧
      contains_word (List.replicate 19 ' ' ++ "dashed".toList) "solid".toList = false ∧
      decimal_value "25".toList = (List.replicate 19 ' ' ++ "dashed".toList).length ∧
      parse_xdot_attr 3 (style_text "25".toList (List.replicate 19 ' ' ++ "dashed".toList) ++
          " T 0 0 0 0 5 -solid E 0 0 1 1".toList) =
        .ok [Shape.ellipse ⟨⟨0, 0⟩, 1, 1,
          ⟨⟨0, 0, 0, 1⟩, ⟨1, 1, 1, 1⟩, 1, LineStyle.SOLID, [], "Arial".toList, 12⟩⟩]) := by
  have hv : decimal_value "2147483648".toList = 2 ^ 31 := by decide
  refine ⟨⟨by decide, by decide, ?_⟩, ⟨contains_word_suffix _ _, ?_, ?_⟩,
    ⟨by decide, by decide, by decide, decode_blanks_then_dashed⟩⟩
  · have h := decode_style_then_ellipse 0 "12".toList "solid,dashed".toList "0".toList "0".toList
      "1".toList "1".toList rfl (by decide) (by decide) (by decide) rfl rfl rfl rfl (by decide)
      (by decide) (by decide) (by decide)
    have k : contains_word "solid,dashed".toList "solid".toList = true := by decide
    have e0 : int_literal_value "0".toList = 0 := by decide
    have e1 : int_literal_value "1".toList = 1 := by decide
    rw [k, e0, e1] at h
    simp only [if_true, Int.cast_zero, Int.cast_one] at h
    exact h
  · rw [List.length_append, List.length_replicate, hv]
    rfl
  · exact parse_style_overflow 2 _ _ _ rfl (by rw [hv])

end XDot
end XDotCpp

namespace XDotCpp
namespace XDot

/-! ## Hit queries of `GraphElement` -/

/-- The scan of `find_node_at` returns a node exactly when that node contains the point
and every node tried before it does not. -/
theorem find_node_at_loop_some (h : Heap) (p : Point) (a : Nat) :
    ∀ l : List Nat, find_node_at_loop h p l = .ok (some a) ↔
      ∃ pre post, l = pre ++ a :: post ∧ (h.nodes a).contains_point p = .ok true ∧
        ∀ b ∈ pre, (h.nodes b).contains_point p = .ok false := by
  intro l
  induction l with
  | nil =>
    constructor
    · intro hf; simp [find_node_at_loop] at hf
    · rintro ⟨pre, post, hl, -⟩; simp at hl
  | cons it rest ih =>
    unfold find_node_at_loop
    cases hc : (h.nodes it).contains_point p with
    | error e =>
      constructor
      · intro hf; cases hf
      · rintro ⟨pre, post, hl, ha, hpre⟩
        cases pre with
        | nil =>
          simp only [List.nil_append, List.cons.injEq] at hl
          rw [← hl.1, hc] at ha; cases ha
        | cons b pre =>
          simp only [List.cons_append, List.cons.injEq] at hl
          have := hpre b (List.mem_cons_self _ _)
          rw [← hl.1, hc] at this; cases this
    | ok v =>
      cases v with
      | true =>
        constructor
        · intro hf
          have : it = a := by simpa using hf
          subst this
          exact ⟨[], rest, rfl, hc, by simp⟩
        · rintro ⟨pre, post, hl, ha, hpre⟩
          cases pre with
          | nil =>
            simp only [List.nil_append, List.cons.injEq] at hl
            rw [hl.1]
          | cons b pre =>
            simp only [List.cons_append, List.cons.injEq] at hl
            have := hpre b (List.mem_cons_self _ _)
            rw [← hl.1, hc] at this; cases this
      | false =>
        simp only
        rw [ih]
        constructor
        · rintro ⟨pre, post, hl, ha, hpre⟩
          refine ⟨it :: pre, post, by simp [hl], ha, ?_⟩
          intro b hb
          rcases List.mem_cons.1 hb with rfl | hb
          · exact hc
          · exact hpre b hb
        · rintro ⟨pre, post, hl, ha, hpre⟩
          cases pre with
          | nil =>
            simp only [List.nil_append, List.cons.injEq] at hl
            rw [← hl.1, hc] at ha; cases ha
          | cons b pre =>
            simp only [List.cons_append, List.cons.injEq] at hl
            exact ⟨pre, post, hl.2, ha, fun c hc1 => hpre c (List.mem_cons_of_mem _ hc1)⟩

/-- The scan of `find_node_at` returns the null pointer exactly when no node contains the
point. -/
theorem find_node_at_loop_none (h : Heap) (p : Point) :
    ∀ l : List Nat, find_node_at_loop h p l = .ok none ↔
      ∀ b ∈ l, (h.nodes b).contains_point p = .ok false := by
  intro l
  induction l with
  | nil => simp [find_node_at_loop]
  | cons it rest ih =>
    unfold find_node_at_loop
    cases hc : (h.nodes it).contains_point p with
    | error e =>
      constructor
      · intro hf; cases hf
      · intro hall
        have := hall it (List.mem_cons_self _ _)
        rw [hc] at this; cases this
    | ok v =>
      cases v with
      | true =>
        constructor
        · intro hf; simp at hf
        · intro hall
          have := hall it (List.mem_cons_self _ _)
          rw [hc] at this; cases this
      | false =>
        simp only
        rw [ih]
        constructor
        · intro hall b hb
          rcases List.mem_cons.1 hb with rfl | hb
          · exact hc
          · exact hall b hb
        · intro hall b hb
          exact hall b (List.mem_cons_of_mem _ hb)

/-- The scan of `find_edge_at` returns an edge exactly when that edge contains the point
and every edge tried before it does not. -/
theorem find_edge_at_loop_some (h : Heap) (p : Point) (a : Nat) :
    ∀ l : List Nat, find_edge_at_loop h p l = .ok (some a) ↔
      ∃ pre post, l = pre ++ a :: post ∧ (h.edges a).contains_point p = .ok true ∧
        ∀ b ∈ pre, (h.edges b).contains_point p = .ok false := by
  intro l
  induction l with
  | nil =>
    constructor
    · intro hf; simp [find_edge_at_loop] at hf
    · rintro ⟨pre, post, hl, -⟩; simp at hl
  | cons it rest ih =>
    unfold find_edge_at_loop
    cases hc : (h.edges it).contains_point p with
    | error e =>
      constructor
      · intro hf; cases hf
      · rintro ⟨pre, post, hl, ha, hpre⟩
        cases pre with
        | nil =>
          simp only [List.nil_append, List.cons.injEq] at hl
          rw [← hl.1, hc] at ha; cases ha
        | cons b pre =>
          simp only [List.cons_append, List.cons.injEq] at hl
          have := hpre b (List.mem_cons_self _ _)
          rw [← hl.1, hc] at this; cases this
    | ok v =>
      cases v with
      | true =>
        constructor
        · intro hf
          have : it = a := by simpa using hf
          subst this
          exact ⟨[], rest, rfl, hc, by simp⟩
        · rintro ⟨pre, post, hl, ha, hpre⟩
          cases pre with
          | nil =>
            simp only [List.nil_append, List.cons.injEq] at hl
            rw [hl.1]
          | cons b pre =>
            simp only [List.cons_append, List.cons.injEq] at hl
            have := hpre b (List.mem_cons_self _ _)
            rw [← hl.1, hc] at this; cases this
      | false =>
        simp only
        rw [ih]
        constructor
        · rintro ⟨pre, post, hl, ha, hpre⟩
          refine ⟨it :: pre, post, by simp [hl], ha, ?_⟩
          intro b hb
          rcases List.mem_cons.1 hb with rfl | hb
          · exact hc
          · exact hpre b hb
        · rintro ⟨pre, post, hl, ha, hpre⟩
          cases pre with
          | nil =>
            simp only [List.nil_append, List.cons.injEq] at hl
            rw [← hl.1, hc] at ha; cases ha
          | cons b pre =>
            simp only [List.cons_append, List.cons.injEq] at hl
            exact ⟨pre, post, hl.2, ha, fun c hc1 => hpre c (List.mem_cons_of_mem _ hc1)⟩

/-- The scan of `find_edge_at` returns the null pointer exactly when no edge contains the
point. -/
theorem find_edge_at_loop_none (h : Heap) (p : Point) :
    ∀ l : List Nat, find_edge_at_loop h p l = .ok none ↔
      ∀ b ∈ l, (h.edges b).contains_point p = .ok false := by
  intro l
  induction l with
  | nil => simp [find_edge_at_loop]
  | cons it rest ih =>
    unfold find_edge_at_loop
    cases hc : (h.edges it).contains_point p with
    | error e =>
      constructor
      · intro hf; cases hf
      · intro hall
        have := hall it (List.mem_cons_self _ _)
        rw [hc] at this; cases this
    | ok v =>
      cases v with
      | true =>
        constructor
        · intro hf; simp at hf
        · intro hall
          have := hall it (List.mem_cons_self _ _)
          rw [hc] at this; cases this
      | false =>
        simp only
        rw [ih]
        constructor
        · intro hall b hb
          rcases List.mem_cons.1 hb with rfl | hb
          · exact hc
          · exact hall b hb
        · intro hall b hb
          exact hall b (List.mem_cons_of_mem _ hb)

/-- A list read backwards splits at an element as the list does, with the parts swapped. -/
theorem reverse_eq_split {α : Type} (l pre post : List α) (a : α) :
    l.reverse = pre ++ a :: post ↔ l = post.reverse ++ a :: pre.reverse := by
  constructor
  · intro h
    have := congrArg List.reverse h
    simpa using this
  · intro h
    rw [h]; simp

/-- C11: `find_node_at(p)` returns a node exactly when that node contains `p` and no node
added after it does, and it returns the null pointer exactly when no node contains `p`;
the same holds for `find_edge_at(p)` and the edges. -/
theorem find_at_last_containing (g : GraphElement) (h : Heap) (p : Point) :
    (∀ a, g.find_node_at h p = .ok (some a) ↔
      ∃ pre post, g.nodes_ = pre ++ a :: post ∧ (h.nodes a).contains_point p = .ok true ∧
        ∀ b ∈ post, (h.nodes b).contains_point p = .ok false) ∧
    (g.find_node_at h p = .ok none ↔
      ∀ b ∈ g.nodes_, (h.nodes b).contains_point p = .ok false) ∧
    (∀ a, g.find_edge_at h p = .ok (some a) ↔
      ∃ pre post, g.edges_ = pre ++ a :: post ∧ (h.edges a).contains_point p = .ok true ∧
        ∀ b ∈ post, (h.edges b).contains_point p = .ok false) ∧
    (g.find_edge_at h p = .ok none ↔
      ∀ b ∈ g.edges_, (h.edges b).contains_point p = .ok false) := by
  refine ⟨fun a => ?_, ?_, fun a => ?_, ?_⟩
  · unfold GraphElement.find_node_at
    rw [find_node_at_loop_some]
    constructor
    · rintro ⟨pre, post, hl, ha, hpre⟩
      exact ⟨post.reverse, pre.reverse, (reverse_eq_split _ _ _ _).1 hl, ha,
        fun b hb => hpre b (List.mem_reverse.1 hb)⟩
    · rintro ⟨pre, post, hl, ha, hpost⟩
      refine ⟨post.reverse, pre.reverse, (reverse_eq_split _ _ _ _).2 (by simpa using hl), ha,
        fun b hb => hpost b (List.mem_reverse.1 hb)⟩
  · unfold GraphElement.find_node_at
    rw [find_node_at_loop_none]
    simp only [List.mem_reverse]
  · unfold GraphElement.find_edge_at
    rw [find_edge_at_loop_some]
    constructor
    · rintro ⟨pre, post, hl, ha, hpre⟩
      exact ⟨post.reverse, pre.reverse, (reverse_eq_split _ _ _ _).1 hl, ha,
        fun b hb => hpre b (List.mem_reverse.1 hb)⟩
    · rintro ⟨pre, post, hl, ha, hpost⟩
      refine ⟨post.reverse, pre.reverse, (reverse_eq_split _ _ _ _).2 (by simpa using hl), ha,
        fun b hb => hpost b (List.mem_reverse.1 hb)⟩
  · unfold GraphElement.find_edge_at
    rw [find_edge_at_loop_none]
    simp only [List.mem_reverse]

/-- C12, for nodes that contain the point: among the nodes that contain `p`
(`contains_point(p)` is true for them), be they two or more or only one, `find_node_at(p)`
returns the one that was added last: the node `a` when no node added after it contains
`p`. -/
theorem find_node_at_overlap (g : GraphElement) (h : Heap) (p : Point) (pre post : List Nat)
    (a : Nat) (hn : g.nodes_ = pre ++ a :: post)
    (ha : (h.nodes a).contains_point p = .ok true)
    (hpost : ∀ b ∈ post, (h.nodes b).contains_point p = .ok false) :
    g.find_node_at h p = .ok (some a) := by
  unfold GraphElement.find_node_at
  rw [find_node_at_loop_some]
  exact ⟨post.reverse, pre.reverse, (reverse_eq_split _ _ _ _).2 (by simpa using hn), ha,
    fun b hb => hpost b (List.mem_reverse.1 hb)⟩

/-- The circle of radius 2 around `(0, 0)` contains `(1, 0)`. -/
theorem circle_hit_a :
    (EllipseShape.mk ⟨(0 : ℚ), (0 : ℚ)⟩ (4 : ℚ) (4 : ℚ) Pen.new).contains_point ⟨(1 : ℚ), (0 : ℚ)⟩ = true := by
  have e1 : double_div (4 : ℚ) (2 : ℚ) = (2 : ℚ) := by
    unfold double_div
    rw [round_double_eval_pos ((4 : ℚ) / (2 : ℚ)) 4503599627370496 51 (by norm_num) (by norm_num) (by norm_num)
      (round_half_even_between _ 4503599627370496 (by norm_num) (by norm_num))]
    norm_num
  have e2 : double_sub (1 : ℚ) (0 : ℚ) = (1 : ℚ) := by
    unfold double_sub
    rw [round_double_eval_pos ((1 : ℚ) - (0 : ℚ)) 4503599627370496 52 (by norm_num) (by norm_num) (by norm_num)
      (round_half_even_between _ 4503599627370496 (by norm_num) (by norm_num))]
    norm_num
  have e3 : double_div (1 : ℚ) (2 : ℚ) = ((1 : ℚ) / 2) := by
    unfold double_div
    rw [round_double_eval_pos ((1 : ℚ) / (2 : ℚ)) 4503599627370496 53 (by norm_num) (by norm_num) (by norm_num)
      (round_half_even_between _ 4503599627370496 (by norm_num) (by norm_num))]
    norm_num
  have e4 : double_sub (0 : ℚ) (0 : ℚ) = (0 : ℚ) := by
    unfold double_sub
    norm_num [round_double_zero]
  have e5 : double_div (0 : ℚ) (2 : ℚ) = (0 : ℚ) := by
    unfold double_div
    norm_num [round_double_zero]
  have e6 : double_mul ((1 : ℚ) / 2) ((1 : ℚ) / 2) = ((1 : ℚ) / 4) := by
    unfold double_mul
    rw [round_double_eval_pos (((1 : ℚ) / 2) * ((1 : ℚ) / 2)) 4503599627370496 54 (by norm_num) (by norm_num) (by norm_num)
      (round_half_even_between _ 4503599627370496 (by norm_num) (by norm_num))]
    norm_num
  have e7 : double_mul (0 : ℚ) (0 : ℚ) = (0 : ℚ) := by
    unfold double_mul
    norm_num [round_double_zero]
  have e8 : double_add ((1 : ℚ) / 4) (0 : ℚ) = ((1 : ℚ) / 4) := by
    unfold double_add
    rw [round_double_eval_pos (((1 : ℚ) / 4) + (0 : ℚ)) 4503599627370496 54 (by norm_num) (by norm_num) (by norm_num)
      (round_half_even_between _ 4503599627370496 (by norm_num) (by norm_num))]
    norm_num
  simp only [EllipseShape.contains_point, e1, e2, e3, e4, e5, e6, e7, e8]
  norm_num

/-- The circle of radius 2 around `(1, 1)` contains `(1, 0)`. -/
theorem circle_hit_b :
    (EllipseShape.mk ⟨(1 : ℚ), (1 : ℚ)⟩ (4 : ℚ) (4 : ℚ) Pen.new).contains_point ⟨(1 : ℚ), (0 : ℚ)⟩ = true := by
  have e1 : double_div (4 : ℚ) (2 : ℚ) = (2 : ℚ) := by
    unfold double_div
    rw [round_double_eval_pos ((4 : ℚ) / (2 : ℚ)) 4503599627370496 51 (by norm_num) (by norm_num) (by norm_num)
      (round_half_even_between _ 4503599627370496 (by norm_num) (by norm_num))]
    norm_num
  have e2 : double_sub (1 : ℚ) (1 : ℚ) = (0 : ℚ) := by
    unfold double_sub
    norm_num [round_double_zero]
  have e3 : double_div (0 : ℚ) (2 : ℚ) = (0 : ℚ) := by
    unfold double_div
    norm_num [round_double_zero]
  have e4 : double_sub (0 : ℚ) (1 : ℚ) = (-1 : ℚ) := by
    unfold double_sub
    rw [round_double_eval_neg ((0 : ℚ) - (1 : ℚ)) 4503599627370496 52 (by norm_num) (by norm_num) (by norm_num)
      (round_half_even_between _ 4503599627370496 (by norm_num) (by norm_num))]
    norm_num
  have e5 : double_div (-1 : ℚ) (2 : ℚ) = (-((1 : ℚ) / 2)) := by
    unfold double_div
    rw [round_double_eval_neg ((-1 : ℚ) / (2 : ℚ)) 4503599627370496 53 (by norm_num) (by norm_num) (by norm_num)
      (round_half_even_between _ 4503599627370496 (by norm_num) (by norm_num))]
    norm_num
  have e6 : double_mul (0 : ℚ) (0 : ℚ) = (0 : ℚ) := by
    unfold double_mul
    norm_num [round_double_zero]
  have e7 : double_mul (-((1 : ℚ) / 2)) (-((1 : ℚ) / 2)) = ((1 : ℚ) / 4) := by
    unfold double_mul
    rw [round_double_eval_pos ((-((1 : ℚ) / 2)) * (-((1 : ℚ) / 2))) 4503599627370496 54 (by norm_num) (by norm_num) (by norm_num)
      (round_half_even_between _ 4503599627370496 (by norm_num) (by norm_num))]
    norm_num
  have e8 : double_add (0 : ℚ) ((1 : ℚ) / 4) = ((1 : ℚ) / 4) := by
    unfold double_add
    rw [round_double_eval_pos ((0 : ℚ) + ((1 : ℚ) / 4)) 4503599627370496 54 (by norm_num) (by norm_num) (by norm_num)
      (round_half_even_between _ 4503599627370496 (by norm_num) (by norm_num))]
    norm_num
  simp only [EllipseShape.contains_point, e1, e2, e3, e4, e5, e6, e7, e8]
  norm_num

/-- The circle of radius 2 around `(0, 0)` contains `(1, 1)`. -/
theorem circle_hit_c :
    (EllipseShape.mk ⟨(0 : ℚ), (0 : ℚ)⟩ (4 : ℚ) (4 : ℚ) Pen.new).contains_point ⟨(1 : ℚ), (1 : ℚ)⟩ = true := by
  have e1 : double_div (4 : ℚ) (2 : ℚ) = (2 : ℚ) := by
    unfold double_div
    rw [round_double_eval_pos ((4 : ℚ) / (2 : ℚ)) 4503599627370496 51 (by norm_num) (by norm_num) (by norm_num)
      (round_half_even_between _ 4503599627370496 (by norm_num) (by norm_num))]
    norm_num
  have e2 : double_sub (1 : ℚ) (0 : ℚ) = (1 : ℚ) := by
    unfold double_sub
    rw [round_double_eval_pos ((1 : ℚ) - (0 : ℚ)) 4503599627370496 52 (by norm_num) (by norm_num) (by norm_num)
      (round_half_even_between _ 4503599627370496 (by norm_num) (by norm_num))]
    norm_num
  have e3 : double_div (1 : ℚ) (2 : ℚ) = ((1 : ℚ) / 2) := by
    unfold double_div
    rw [round_double_eval_pos ((1 : ℚ) / (2 : ℚ)) 4503599627370496 53 (by norm_num) (by norm_num) (by norm_num)
      (round_half_even_between _ 4503599627370496 (by norm_num) (by norm_num))]
    norm_num
  have e4 : double_mul ((1 : ℚ) / 2) ((1 : ℚ) / 2) = ((1 : ℚ) / 4) := by
    unfold double_mul
    rw [round_double_eval_pos (((1 : ℚ) / 2) * ((1 : ℚ) / 2)) 4503599627370496 54 (by norm_num) (by norm_num) (by norm_num)
      (round_half_even_between _ 4503599627370496 (by norm_num) (by norm_num))]
    norm_num
  have e5 : double_add ((1 : ℚ) / 4) ((1 : ℚ) / 4) = ((1 : ℚ) / 2) := by
    unfold double_add
    rw [round_double_eval_pos (((1 : ℚ) / 4) + ((1 : ℚ) / 4)) 4503599627370496 53 (by norm_num) (by norm_num) (by norm_num)
      (round_half_even_between _ 4503599627370496 (by norm_num) (by norm_num))]
    norm_num
  simp only [EllipseShape.contains_point, e1, e2, e3, e4, e5]
  norm_num

/-- The circle of radius 1 around `(2, 2)` does not contain `(1, 1)`. -/
theorem circle_miss_d :
    (EllipseShape.mk ⟨(2 : ℚ), (2 : ℚ)⟩ (2 : ℚ) (2 : ℚ) Pen.new).contains_point ⟨(1 : ℚ), (1 : ℚ)⟩ = false := by
  have e1 : double_div (2 : ℚ) (2 : ℚ) = (1 : ℚ) := by
    unfold double_div
    rw [round_double_eval_pos ((2 : ℚ) / (2 : ℚ)) 4503599627370496 52 (by norm_num) (by norm_num) (by norm_num)
      (round_half_even_between _ 4503599627370496 (by norm_num) (by norm_num))]
    norm_num
  have e2 : double_sub (1 : ℚ) (2 : ℚ) = (-1 : ℚ) := by
    unfold double_sub
    rw [round_double_eval_neg ((1 : ℚ) - (2 : ℚ)) 4503599627370496 52 (by norm_num) (by norm_num) (by norm_num)
      (round_half_even_between _ 4503599627370496 (by norm_num) (by norm_num))]
    norm_num
  have e3 : double_div (-1 : ℚ) (1 : ℚ) = (-1 : ℚ) := by
    unfold double_div
    rw [round_double_eval_neg ((-1 : ℚ) / (1 : ℚ)) 4503599627370496 52 (by norm_num) (by norm_num) (by norm_num)
      (round_half_even_between _ 4503599627370496 (by norm_num) (by norm_num))]
    norm_num
  have e4 : double_mul (-1 : ℚ) (-1 : ℚ) = (1 : ℚ) := by
    unfold double_mul
    rw [round_double_eval_pos ((-1 : ℚ) * (-1 : ℚ)) 4503599627370496 52 (by norm_num) (by norm_num) (by norm_num)
      (round_half_even_between _ 4503599627370496 (by norm_num) (by norm_num))]
    norm_num
  have e5 : double_add (1 : ℚ) (1 : ℚ) = (2 : ℚ) := by
    unfold double_add
    rw [round_double_eval_pos ((1 : ℚ) + (1 : ℚ)) 4503599627370496 51 (by norm_num) (by norm_num) (by norm_num)
      (round_half_even_between _ 4503599627370496 (by norm_num) (by norm_num))]
    norm_num
  simp only [EllipseShape.contains_point, e1, e2, e3, e4, e5]
  norm_num

/-- The box of the circle of radius 2 around `(0, 0)`. -/
theorem circle_box_a :
    (EllipseShape.mk ⟨0, 0⟩ 4 4 Pen.new).bounding_box = ⟨-2, -2, 2, 2⟩ := by
  rw [ellipse_box_of_integers _ (by unfold Point.is_integral_within is_integer_within; norm_num)
    (by unfold is_integer_within; norm_num) (by unfold is_integer_within; norm_num)]
  norm_num

/-- The box of the circle of radius 1 around `(2, 2)`. -/
theorem circle_box_d :
    (EllipseShape.mk ⟨2, 2⟩ 2 2 Pen.new).bounding_box = ⟨1, 1, 3, 3⟩ := by
  rw [ellipse_box_of_integers _ (by unfold Point.is_integral_within is_integer_within; norm_num)
    (by unfold is_integer_within; norm_num) (by unfold is_integer_within; norm_num)]
  norm_num

/-- The theorem `find_node_at_overlap` at two circles of radius 2 around `(0, 0)` and
around `(1, 1)` and the point `(1, 0)`, which both contain. -/
theorem find_node_at_overlap_witness :
    (GraphNode.new ['a'] [Shape.ellipse ⟨⟨0, 0⟩, 4, 4, Pen.new⟩]).contains_point ⟨1, 0⟩ =
      .ok true ∧
    (GraphNode.new ['b'] [Shape.ellipse ⟨⟨1, 1⟩, 4, 4, Pen.new⟩]).contains_point ⟨1, 0⟩ =
      .ok true ∧
    (GraphElement.mk [0, 1] [] [] []).find_node_at
      { nodes := fun a =>
          if a = 0 then GraphNode.new ['a'] [Shape.ellipse ⟨⟨0, 0⟩, 4, 4, Pen.new⟩]
          else GraphNode.new ['b'] [Shape.ellipse ⟨⟨1, 1⟩, 4, 4, Pen.new⟩],
        edges := fun _ => GraphEdge.new [] [] [] } ⟨1, 0⟩ = .ok (some 1) :=
  ⟨by simp [GraphNode.contains_point, GraphNode.new, shapes_contain_point, Shape.contains_point,
      circle_hit_a],
   by simp [GraphNode.contains_point, GraphNode.new, shapes_contain_point, Shape.contains_point,
      circle_hit_b],
   find_node_at_overlap _ _ _ [0] [] 1 rfl
     (by simp [GraphNode.contains_point, GraphNode.new, shapes_contain_point,
       Shape.contains_point, circle_hit_b]) (by simp)⟩

/-- C12 as stated fails: the bounding boxes of the two nodes of `two_circles` both contain
the point `(1, 1)`, the node at `1` was added last, and `find_node_at` returns the node at
`0`, the only one whose shape contains the point. -/
theorem find_node_at_bounding_boxes :
    two_circles.nodes_ = [0, 1] ∧
    (two_circles_heap.nodes 0).bounding_box.contains ⟨1, 1⟩ = true ∧
    (two_circles_heap.nodes 1).bounding_box.contains ⟨1, 1⟩ = true ∧
    two_circles.find_node_at two_circles_heap ⟨1, 1⟩ = .ok (some 0) :=
  ⟨rfl,
   by
    simp only [two_circles_heap, GraphNode.bounding_box, GraphNode.new, shapes_bounding_box,
      Shape.bounding_box, List.foldl_nil, circle_box_a, if_true, BoundingBox.contains]
    norm_num,
   by
    simp only [two_circles_heap, GraphNode.bounding_box, GraphNode.new, shapes_bounding_box,
      Shape.bounding_box, List.foldl_nil, circle_box_d, if_false, one_ne_zero,
      BoundingBox.contains]
    norm_num,
   by
    have hn : two_circles.nodes_ = [0, 1] := rfl
    unfold GraphElement.find_node_at
    rw [hn]
    simp [find_node_at_loop, two_circles_heap, GraphNode.contains_point, GraphNode.new,
      shapes_contain_point, Shape.contains_point, circle_hit_c, circle_miss_d]⟩

end XDot
end XDotCpp

namespace XDotCpp
namespace XDot

/-! ## Highlights of `GraphElement` -/

/-- The first loop of `clear_highlights` clears the flag of the nodes it visits and
changes nothing else. -/
theorem clear_nodes_loop (l : List Nat) :
    ∀ h : Heap,
      let h1 := l.foldl (fun h node => h.set_node node ((h.nodes node).set_highlighted false)) h
      h1.edges = h.edges ∧
      ∀ a, h1.nodes a = if a ∈ l then (h.nodes a).set_highlighted false else h.nodes a := by
  induction l with
  | nil => intro h; simp
  | cons b l ih =>
    intro h
    simp only [List.foldl_cons]
    obtain ⟨he, hn⟩ := ih (h.set_node b ((h.nodes b).set_highlighted false))
    refine ⟨he, fun a => ?_⟩
    rw [hn a]
    by_cases hab : a = b
    · subst hab
      by_cases hal : a ∈ l <;> simp [hal, Heap.set_node, GraphNode.set_highlighted]
    · by_cases hal : a ∈ l <;> simp [hal, hab, Heap.set_node]

/-- The second loop of `clear_highlights` clears the flag of the edges it visits and
changes nothing else. -/
theorem clear_edges_loop (l : List Nat) :
    ∀ h : Heap,
      let h1 := l.foldl (fun h edge => h.set_edge edge ((h.edges edge).set_highlighted false)) h
      h1.nodes = h.nodes ∧
      ∀ a, h1.edges a = if a ∈ l then (h.edges a).set_highlighted false else h.edges a := by
  induction l with
  | nil => intro h; simp
  | cons b l ih =>
    intro h
    simp only [List.foldl_cons]
    obtain ⟨he, hn⟩ := ih (h.set_edge b ((h.edges b).set_highlighted false))
    refine ⟨he, fun a => ?_⟩
    rw [hn a]
    by_cases hab : a = b
    · subst hab
      by_cases hal : a ∈ l <;> simp [hal, Heap.set_edge, GraphEdge.set_highlighted]
    · by_cases hal : a ∈ l <;> simp [hal, hab, Heap.set_edge]

/-- What `clear_highlights` leaves at every address. -/
theorem clear_highlights_at (g : GraphElement) (h : Heap) :
    (∀ a, (g.clear_highlights h).nodes a =
      if a ∈ g.nodes_ then (h.nodes a).set_highlighted false else h.nodes a) ∧
    (∀ a, (g.clear_highlights h).edges a =
      if a ∈ g.edges_ then (h.edges a).set_highlighted false else h.edges a) := by
  unfold GraphElement.clear_highlights
  obtain ⟨he1, hn1⟩ := clear_nodes_loop g.nodes_ h
  obtain ⟨hn2, he2⟩ := clear_edges_loop g.edges_
    (g.nodes_.foldl (fun h node => h.set_node node ((h.nodes node).set_highlighted false)) h)
  simp only at he1 hn1 hn2 he2 ⊢
  constructor
  · intro a; rw [hn2, hn1]
  · intro a; rw [he2, he1]

/-- C13: after `highlight_node(id)` and then `clear_highlights()` the flag of every node
and of every edge of the graph element is false; from any state `clear_highlights` sets
the flag of every node and of every edge to false, and it leaves the ids, the shapes and
the urls of all nodes and the sources, targets, shapes and urls of all edges as they
were. -/
theorem highlight_then_clear (g : GraphElement) (h : Heap) (node_id : List Char) :
    (∀ a ∈ g.nodes_,
      ((g.clear_highlights (g.highlight_node h node_id)).nodes a).highlighted_ = false) ∧
    (∀ a ∈ g.edges_,
      ((g.clear_highlights (g.highlight_node h node_id)).edges a).highlighted_ = false) ∧
    (∀ a ∈ g.nodes_, ((g.clear_highlights h).nodes a).highlighted_ = false) ∧
    (∀ a ∈ g.edges_, ((g.clear_highlights h).edges a).highlighted_ = false) ∧
    (∀ a, ((g.clear_highlights h).nodes a).id_ = (h.nodes a).id_ ∧
      ((g.clear_highlights h).nodes a).shapes_ = (h.nodes a).shapes_ ∧
      ((g.clear_highlights h).nodes a).url_ = (h.nodes a).url_) ∧
    (∀ a, ((g.clear_highlights h).edges a).source_ = (h.edges a).source_ ∧
      ((g.clear_highlights h).edges a).target_ = (h.edges a).target_ ∧
      ((g.clear_highlights h).edges a).shapes_ = (h.edges a).shapes_ ∧
      ((g.clear_highlights h).edges a).url_ = (h.edges a).url_) := by
  have key : ∀ h0 : Heap,
      (∀ a ∈ g.nodes_, ((g.clear_highlights h0).nodes a).highlighted_ = false) ∧
      (∀ a ∈ g.edges_, ((g.clear_highlights h0).edges a).highlighted_ = false) := by
    intro h0
    obtain ⟨hn, he⟩ := clear_highlights_at g h0
    constructor
    · intro a ha; rw [hn a, if_pos ha]; rfl
    · intro a ha; rw [he a, if_pos ha]; rfl
  obtain ⟨hn, he⟩ := clear_highlights_at g h
  refine ⟨(key _).1, (key _).2, (key h).1, (key h).2, fun a => ?_, fun a => ?_⟩
  · rw [hn a]
    by_cases ha : a ∈ g.nodes_ <;> simp [ha, GraphNode.set_highlighted]
  · rw [he a]
    by_cases ha : a ∈ g.edges_ <;> simp [ha, GraphEdge.set_highlighted]

end XDot
end XDotCpp

/-! ## The hit test of a polyline -/

namespace XDotCpp
namespace XDot

theorem size_minus_one_pos (n : Nat) (h1 : 1 ≤ n) (h2 : n < 2 ^ 64) : size_minus_one n = n - 1 := by
  unfold size_minus_one
  have : n + 2 ^ 64 - 1 = (n - 1) + 2 ^ 64 := by omega
  rw [this, Nat.add_mod_right]
  exact Nat.mod_eq_of_lt (by omega)

/-- With at least one point, the loop of `PolylineShape::contains_point` reads inside the
vector only and ends with a result. -/
theorem polyline_loop_safe (points : List Point) (p : Point) (t : ℚ) (h1 : 1 ≤ points.length)
    (h2 : points.length < 2 ^ 64) :
    ∀ fuel i, points.length ≤ i + fuel → 0 < fuel →
      ∃ b, polyline_loop points p t fuel i = .ok b := by
  intro fuel
  induction fuel with
  | zero => intro i _ h; omega
  | succ fuel ih =>
    intro i hle _
    rw [polyline_loop, size_minus_one_pos _ h1 h2]
    by_cases hi : i < points.length - 1
    · rw [if_pos hi]
      have hg1 : points.get? i = some (points.get ⟨i, by omega⟩) := List.get?_eq_get (by omega)
      have hg2 : points.get? (i + 1) = some (points.get ⟨i + 1, by omega⟩) :=
        List.get?_eq_get (by omega)
      rw [hg1, hg2]
      simp only
      have hrec := ih (i + 1) (by omega) (by omega)
      split_ifs <;> first | exact hrec | exact ⟨true, rfl⟩
    · rw [if_neg hi]; exact ⟨false, rfl⟩

/-- The bound `points_.size() - 1` of the loop for the empty vector. -/
theorem size_minus_one_zero : size_minus_one 0 = 18446744073709551615 := by
  norm_num [size_minus_one]

/-- On the empty polyline the loop reads `points_[0]` and `points_[1]`. -/
theorem polyline_empty (pen : Pen) (p : Point) :
    PolylineShape.contains_point ⟨[], pen⟩ p = .error Fault.out_of_bounds := by
  unfold PolylineShape.contains_point
  simp only [List.length_nil, Nat.zero_add]
  rw [polyline_loop, List.length_nil, size_minus_one_zero, if_pos (by norm_num)]
  rfl

/-- On a polyline of one point the loop makes no iteration. -/
theorem polyline_single (q : Point) (pen : Pen) (p : Point) :
    PolylineShape.contains_point ⟨[q], pen⟩ p = .ok false := by
  unfold PolylineShape.contains_point
  simp only [List.length_singleton]
  rw [polyline_loop, List.length_singleton, size_minus_one_pos 1 (by norm_num) (by norm_num),
    if_neg (by norm_num)]

/-- C38 fails on the code at the empty polyline: decoding `L 0` gives a polyline without
points, and on it `PolylineShape::contains_point` reads `points_[0]` and `points_[1]`,
which are outside the vector, because the bound `size() - 1` of its loop wraps around. On a
polyline of one point it returns false; on every polyline with at least one point it reads
inside the vector only and returns a result. -/
theorem empty_polyline_reads_out_of_bounds :
    parse_xdot_attr 3 "L 0".toList = .ok [Shape.polyline ⟨[], Pen.new⟩] ∧
      (∀ (pen : Pen) (p : Point),
        PolylineShape.contains_point ⟨[], pen⟩ p = .error Fault.out_of_bounds) ∧
      (∀ (q : Point) (pen : Pen) (p : Point),
        PolylineShape.contains_point ⟨[q], pen⟩ p = .ok false) ∧
      (∀ (s : PolylineShape) (p : Point), 1 ≤ s.points_.length → s.points_.length < 2 ^ 64 →
        ∃ b, s.contains_point p = .ok b) := by
  refine ⟨rfl, polyline_empty, polyline_single, fun s p h1 h2 => ?_⟩
  exact polyline_loop_safe s.points_ p _ h1 h2 _ 0 (by omega) (by omega)

end XDot
end XDotCpp

/-! ## Bounding boxes of collections -/

namespace XDotCpp
namespace XDot

theorem is_least_snoc (l : List ℚ) (v w : ℚ) (h : is_least l v) : is_least (l ++ [w]) (min v w) := by
  obtain ⟨hm, hl⟩ := h
  constructor
  · rcases min_choice v w with e | e <;> rw [e] <;> simp [hm]
  · intro u hu
    rcases List.mem_append.mp hu with hu | hu
    · exact le_trans (min_le_left _ _) (hl u hu)
    · rw [List.mem_singleton.mp hu]; exact min_le_right _ _

theorem is_greatest_snoc (l : List ℚ) (v w : ℚ) (h : is_greatest l v) :
    is_greatest (l ++ [w]) (max v w) := by
  obtain ⟨hm, hl⟩ := h
  constructor
  · rcases max_choice v w with e | e <;> rw [e] <;> simp [hm]
  · intro u hu
    rcases List.mem_append.mp hu with hu | hu
    · exact le_trans (hl u hu) (le_max_left _ _)
    · rw [List.mem_singleton.mp hu]; exact le_max_right _ _

theorem is_least_unique (l : List ℚ) (v w : ℚ) (hv : is_least l v) (hw : is_least l w) : v = w :=
  le_antisymm (hv.2 w hw.1) (hw.2 v hv.1)

theorem is_greatest_unique (l : List ℚ) (v w : ℚ) (hv : is_greatest l v) (hw : is_greatest l w) :
    v = w :=
  le_antisymm (hw.2 v hv.1) (hv.2 w hw.1)

/-- A box has the extremes of itself. -/
theorem box_extremes_single (b : BoundingBox) : box_extremes [b] b := by
  simp [box_extremes, is_least, is_greatest]

/-- Widening by one more box keeps the extremes. -/
theorem box_extremes_snoc (boxes : List BoundingBox) (r b : BoundingBox)
    (h : box_extremes boxes r) : box_extremes (boxes ++ [b]) (r.extend b) := by
  obtain ⟨h1, h2, h3, h4⟩ := h
  simp only [box_extremes, List.map_append, List.map_cons, List.map_nil, BoundingBox.extend]
  exact ⟨is_least_snoc _ _ _ h1, is_least_snoc _ _ _ h2, is_greatest_snoc _ _ _ h3,
    is_greatest_snoc _ _ _ h4⟩

/-- The extremes of a list of boxes are determined by the boxes that occur in it. -/
theorem box_extremes_unique (boxes boxes2 : List BoundingBox) (r r2 : BoundingBox)
    (hm : ∀ b, b ∈ boxes ↔ b ∈ boxes2) (h : box_extremes boxes r) (h2 : box_extremes boxes2 r2) :
    r = r2 := by
  have hmap : ∀ (f : BoundingBox → ℚ) (v : ℚ), v ∈ boxes2.map f → v ∈ boxes.map f := by
    intro f v hv
    obtain ⟨b, hb, e⟩ := List.mem_map.mp hv
    exact List.mem_map.mpr ⟨b, (hm b).mpr hb, e⟩
  have hl : ∀ (f : BoundingBox → ℚ) (v : ℚ), is_least (boxes2.map f) v →
      is_least (boxes.map f) v := by
    intro f v hv
    obtain ⟨b, hb, e⟩ := List.mem_map.mp hv.1
    refine ⟨List.mem_map.mpr ⟨b, (hm b).mpr hb, e⟩, fun w hw => ?_⟩
    obtain ⟨c, hc, e2⟩ := List.mem_map.mp hw
    exact hv.2 w (List.mem_map.mpr ⟨c, (hm c).mp hc, e2⟩)
  have hg : ∀ (f : BoundingBox → ℚ) (v : ℚ), is_greatest (boxes2.map f) v →
      is_greatest (boxes.map f) v := by
    intro f v hv
    obtain ⟨b, hb, e⟩ := List.mem_map.mp hv.1
    refine ⟨List.mem_map.mpr ⟨b, (hm b).mpr hb, e⟩, fun w hw => ?_⟩
    obtain ⟨c, hc, e2⟩ := List.mem_map.mp hw
    exact hv.2 w (List.mem_map.mpr ⟨c, (hm c).mp hc, e2⟩)
  obtain ⟨a1, a2, a3, a4⟩ := h
  obtain ⟨b1, b2, b3, b4⟩ := h2
  cases r; cases r2
  simp only [BoundingBox.mk.injEq]
  exact ⟨is_least_unique _ _ _ a1 (hl _ _ b1), is_least_unique _ _ _ a2 (hl _ _ b2),
    is_greatest_unique _ _ _ a3 (hg _ _ b3), is_greatest_unique _ _ _ a4 (hg _ _ b4)⟩

/-- The union of a list of boxes is determined by the boxes that occur in it. -/
theorem is_box_union_unique (boxes boxes2 : List BoundingBox) (r r2 : BoundingBox)
    (hm : ∀ b, b ∈ boxes ↔ b ∈ boxes2) (h : is_box_union boxes r) (h2 : is_box_union boxes2 r2) :
    r = r2 := by
  unfold is_box_union at h h2
  by_cases he : boxes = []
  · have he2 : boxes2 = [] := by
      subst he
      cases boxes2 with
      | nil => rfl
      | cons b l => exact absurd ((hm b).mpr (List.mem_cons_self _ _)) (List.not_mem_nil _)
    rw [if_pos he] at h
    rw [if_pos he2] at h2
    rw [h, h2]
  · have he2 : boxes2 ≠ [] := by
      intro he2
      subst he2
      cases boxes with
      | nil => exact he rfl
      | cons b l => exact absurd ((hm b).mp (List.mem_cons_self _ _)) (List.not_mem_nil _)
    rw [if_neg he] at h
    rw [if_neg he2] at h2
    exact box_extremes_unique boxes boxes2 r r2 hm h h2

/-- The loop of `GraphNode::bounding_box` from a box with the extremes of the boxes so
far. -/
theorem fold_extend_extremes (f : Shape → BoundingBox) :
    ∀ (shapes : List Shape) (boxes : List BoundingBox) (r : BoundingBox),
      box_extremes boxes r →
      box_extremes (boxes ++ shapes.map f) (shapes.foldl (fun bbox shape => bbox.extend (f shape)) r) := by
  intro shapes
  induction shapes with
  | nil => intro boxes r h; simpa using h
  | cons s rest ih =>
    intro boxes r h
    have := ih (boxes ++ [f s]) (r.extend (f s)) (box_extremes_snoc boxes r (f s) h)
    simpa using this

/-- The box of a list of shapes is the union of the boxes of the shapes. -/
theorem shapes_bounding_box_union (shapes : List Shape) :
    is_box_union (shapes.map Shape.bounding_box) (shapes_bounding_box shapes) := by
  cases shapes with
  | nil => simp [is_box_union, shapes_bounding_box, BoundingBox.new]
  | cons s0 rest =>
    unfold is_box_union
    rw [if_neg (by simp)]
    have := fold_extend_extremes Shape.bounding_box rest [s0.bounding_box] s0.bounding_box
      (box_extremes_single _)
    simpa [shapes_bounding_box] using this

/-- What the loops of `GraphElement::bounding_box` keep: while `first` is set no box was
seen, and afterwards the box so far has the extremes of the boxes seen. -/
theorem fold_step_extremes {α : Type} (f : α → BoundingBox) :
    ∀ (xs : List α) (boxes : List BoundingBox) (acc : BoundingBox × Bool),
      ((acc.2 = true ∧ boxes = []) ∨ (acc.2 = false ∧ box_extremes boxes acc.1)) →
      let acc1 := xs.foldl (fun acc x => bounding_box_step acc (f x)) acc
      (acc1.2 = true ∧ boxes ++ xs.map f = [] ∧ acc1 = acc) ∨
        (acc1.2 = false ∧ box_extremes (boxes ++ xs.map f) acc1.1) := by
  intro xs
  induction xs with
  | nil =>
    intro boxes acc h
    rcases h with ⟨h1, h2⟩ | ⟨h1, h2⟩
    · left; simp [h1, h2]
    · right; simpa using ⟨h1, h2⟩
  | cons x rest ih =>
    intro boxes acc h
    have hstep : (bounding_box_step acc (f x)).2 = false ∧
        box_extremes (boxes ++ [f x]) (bounding_box_step acc (f x)).1 := by
      rcases h with ⟨h1, h2⟩ | ⟨h1, h2⟩
      · subst h2
        simp only [bounding_box_step, h1, if_true, List.nil_append]
        exact ⟨trivial, box_extremes_single _⟩
      · simp only [bounding_box_step, h1, Bool.false_eq_true, if_false]
        exact ⟨trivial, box_extremes_snoc boxes acc.1 (f x) h2⟩
    have := ih (boxes ++ [f x]) (bounding_box_step acc (f x)) (Or.inr hstep)
    simp only [List.foldl_cons, List.map_cons]
    rcases this with ⟨_, h2, _⟩ | ⟨h1, h2⟩
    · simp at h2
    · right
      refine ⟨h1, ?_⟩
      simpa using h2

/-- The box of a graph element is the union of the boxes of its constituents. -/
theorem element_bounding_box_union (g : GraphElement) (h : Heap) :
    is_box_union (g.boxes h) (g.bounding_box h) := by
  unfold GraphElement.bounding_box is_box_union GraphElement.boxes
  by_cases he : (g.nodes_.isEmpty && g.edges_.isEmpty && g.background_shapes_.isEmpty) = true
  · rw [if_pos he]
    simp only [Bool.and_eq_true, List.isEmpty_iff] at he
    obtain ⟨⟨h1, h2⟩, h3⟩ := he
    simp [h1, h2, h3, BoundingBox.new]
  · rw [if_neg he]
    have hne : ¬ (List.map (fun node => (h.nodes node).bounding_box) g.nodes_ ++
        List.map (fun edge => (h.edges edge).bounding_box) g.edges_ ++
        List.map (fun shape => shape.bounding_box) g.background_shapes_ = []) := by
      intro hnil
      apply he
      simp only [List.append_eq_nil, List.map_eq_nil_iff] at hnil
      simp [hnil.1.1, hnil.1.2, hnil.2]
    rw [if_neg hne]
    simp only
    have s1 := fold_step_extremes (fun node => (h.nodes node).bounding_box) g.nodes_ []
      (BoundingBox.new, true) (Or.inl ⟨rfl, rfl⟩)
    simp only [List.nil_append] at s1
    have s1' : ((g.nodes_.foldl (fun acc node => bounding_box_step acc (h.nodes node).bounding_box)
        (BoundingBox.new, true)).2 = true ∧
          List.map (fun node => (h.nodes node).bounding_box) g.nodes_ = []) ∨
        ((g.nodes_.foldl (fun acc node => bounding_box_step acc (h.nodes node).bounding_box)
          (BoundingBox.new, true)).2 = false ∧
          box_extremes (List.map (fun node => (h.nodes node).bounding_box) g.nodes_)
            (g.nodes_.foldl (fun acc node => bounding_box_step acc (h.nodes node).bounding_box)
              (BoundingBox.new, true)).1) := by
      rcases s1 with ⟨a, b, _⟩ | ⟨a, b⟩
      · exact Or.inl ⟨a, b⟩
      · exact Or.inr ⟨a, b⟩
    have s2 := fold_step_extremes (fun edge => (h.edges edge).bounding_box) g.edges_ _ _ s1'
    simp only at s2
    have s2' := (Or.imp (fun x => And.intro x.1 x.2.1) id) s2
    have s3 := fold_step_extremes (fun shape : Shape => shape.bounding_box) g.background_shapes_
      _ _ s2'
    simp only at s3
    rcases s3 with ⟨_, b, _⟩ | ⟨_, b⟩
    · exact absurd b hne
    · exact b

/-- C33: the boxes of collections are component-wise unions. For a `GraphNode` and for a
`GraphEdge` with a non-empty shape list the box has the least `x1`, the least `y1`, the
greatest `x2` and the greatest `y2` of the boxes of its shapes; for a `GraphElement` it has
these extremes over the boxes of all its nodes, edges and background shapes, so it is the
same for every graph element with the same boxes, in whatever order; and an empty
collection has the zero box `(0, 0, 0, 0)`. -/
theorem bounding_boxes_are_unions (g : GraphElement) (h : Heap) (n : GraphNode) (e : GraphEdge) :
    is_box_union (n.shapes_.map Shape.bounding_box) n.bounding_box ∧
      is_box_union (e.shapes_.map Shape.bounding_box) e.bounding_box ∧
      is_box_union (g.boxes h) (g.bounding_box h) ∧
      (n.shapes_ ≠ [] → box_extremes (n.shapes_.map Shape.bounding_box) n.bounding_box) ∧
      (e.shapes_ ≠ [] → box_extremes (e.shapes_.map Shape.bounding_box) e.bounding_box) ∧
      (g.boxes h ≠ [] → box_extremes (g.boxes h) (g.bounding_box h)) ∧
      (∀ (g2 : GraphElement) (h2 : Heap), (g2.boxes h2).Perm (g.boxes h) →
        g2.bounding_box h2 = g.bounding_box h) ∧
      (∀ g2 : GraphElement, g2.nodes_.Perm g.nodes_ → g2.edges_.Perm g.edges_ →
        g2.background_shapes_.Perm g.background_shapes_ →
        g2.bounding_box h = g.bounding_box h) ∧
      (n.shapes_ = [] → n.bounding_box = ⟨0, 0, 0, 0⟩) ∧
      (e.shapes_ = [] → e.bounding_box = ⟨0, 0, 0, 0⟩) ∧
      (g.nodes_ = [] → g.edges_ = [] → g.background_shapes_ = [] →
        g.bounding_box h = ⟨0, 0, 0, 0⟩) ∧
      two_circles.bounding_box two_circles_heap = ⟨-2, -2, 3, 3⟩ := by
  have hn := shapes_bounding_box_union n.shapes_
  have he := shapes_bounding_box_union e.shapes_
  have hg := element_bounding_box_union g h
  have hperm : ∀ (g2 : GraphElement) (h2 : Heap), (g2.boxes h2).Perm (g.boxes h) →
      g2.bounding_box h2 = g.bounding_box h := fun g2 h2 hp =>
    is_box_union_unique _ _ _ _ (fun b => hp.mem_iff) (element_bounding_box_union g2 h2) hg
  refine ⟨hn, he, hg, fun hne => ?_, fun hne => ?_, fun hne => ?_, hperm, ?_, fun hnil => ?_,
    fun hnil => ?_, fun h1 h2 h3 => ?_, ?_⟩
  · unfold is_box_union at hn
    rwa [if_neg (by simpa using hne)] at hn
  · unfold is_box_union at he
    rwa [if_neg (by simpa using hne)] at he
  · unfold is_box_union at hg
    rwa [if_neg hne] at hg
  · intro g2 p1 p2 p3
    apply hperm
    unfold GraphElement.boxes
    exact ((p1.map _).append (p2.map _)).append (p3.map _)
  · unfold GraphNode.bounding_box; rw [hnil]; rfl
  · unfold GraphEdge.bounding_box; rw [hnil]; rfl
  · unfold GraphElement.bounding_box; rw [h1, h2, h3]; rfl
  · have hn : two_circles.nodes_ = [0, 1] := rfl
    have he : two_circles.edges_ = [] := rfl
    have hb : two_circles.background_shapes_ = [] := rfl
    have b0 : (two_circles_heap.nodes 0).bounding_box = ⟨-2, -2, 2, 2⟩ := by
      simp only [two_circles_heap, GraphNode.bounding_box, GraphNode.new, shapes_bounding_box,
        Shape.bounding_box, List.foldl_nil, circle_box_a, if_true]
    have b1 : (two_circles_heap.nodes 1).bounding_box = ⟨1, 1, 3, 3⟩ := by
      simp only [two_circles_heap, GraphNode.bounding_box, GraphNode.new, shapes_bounding_box,
        Shape.bounding_box, List.foldl_nil, circle_box_d, if_false, one_ne_zero]
    unfold GraphElement.bounding_box
    simp only [hn, he, hb, List.foldl_cons, List.foldl_nil, b0, b1]
    with_unfolding_all decide

end XDot
end XDotCpp

/-! ## The orchestrator -/

namespace XDotCpp
namespace XDot

/-- The decode of the empty drawing string has no shapes. -/
theorem parse_xdot_attr_nil (fuel : Nat) (shapes : List Shape)
    (h : parse_xdot_attr fuel [] = .ok shapes) : shapes = [] := by
  rw [parse_xdot_attr_eq] at h
  cases fuel with
  | zero => cases h
  | succ n =>
    rw [parse_loop_end_at] at h
    simp only [Except.map, Except.ok.injEq] at h
    exact h.symm

/-- The block that decodes one attribute adds the shapes of its decode. -/
theorem append_drawing_ok (fuel : Nat) (all : List Shape) (draw : List Char)
    (shapes : List Shape) (h : parse_xdot_attr fuel draw = .ok shapes) :
    append_drawing fuel all draw = .ok (all ++ shapes) := by
  unfold append_drawing
  cases draw with
  | nil =>
    have := parse_xdot_attr_nil fuel shapes h
    subst this
    simp
  | cons c cs =>
    rw [h]
    rfl

/-- The body of the loop over the nodes, for a node whose drawing attributes decode. -/
theorem parse_node_ok (fuel : Nat) (g : GraphElement) (h : Heap) (node : Dot.Node)
    (shapes : List Shape) (hd : node_drawing fuel node = .ok shapes) :
    parse_node fuel (g, h) node =
      .ok (match expected_node node shapes with
        | none => (g, h)
        | some n =>
          (g.add_node (h.set_node g.nodes_.length n) g.nodes_.length,
            h.set_node g.nodes_.length n)) := by
  unfold node_drawing decode_attribute at hd
  cases h1 : parse_xdot_attr fuel (get_attribute_value node.attributes "_draw_".toList) with
  | error e => rw [h1] at hd; cases hd
  | ok body =>
    rw [h1] at hd
    simp only at hd
    cases h2 : parse_xdot_attr fuel (get_attribute_value node.attributes "_ldraw_".toList) with
    | error e => rw [h2] at hd; cases hd
    | ok label =>
      rw [h2] at hd
      simp only [Except.ok.injEq] at hd
      subst hd
      unfold parse_node
      simp only [bind, Except.bind, append_drawing_ok fuel [] _ body h1,
        append_drawing_ok fuel body _ label h2, List.nil_append, pure, Except.pure]
      unfold expected_node
      cases hs : (body ++ label).isEmpty
      · simp only [Bool.not_false, if_true, Bool.false_eq_true, if_false]
        cases hu : (get_attribute_value node.attributes "URL".toList).isEmpty
        · rfl
        · have : get_attribute_value node.attributes "URL".toList = [] := by
            simpa using hu
          simp only [Bool.not_true, Bool.false_eq_true, if_false, this]
          rfl
      · simp

/-- The body of the loop over the edges, for an edge whose drawing attributes decode. -/
theorem parse_edge_ok (fuel : Nat) (g : GraphElement) (h : Heap) (edge : Dot.Edge)
    (shapes : List Shape) (hd : edge_drawing fuel edge = .ok shapes) :
    parse_edge fuel (g, h) edge =
      .ok (match expected_edge edge shapes with
        | none => (g, h)
        | some e => (g.add_edge g.edges_.length, h.set_edge g.edges_.length e)) := by
  unfold edge_drawing decode_attribute at hd
  cases h1 : parse_xdot_attr fuel (get_attribute_value edge.attributes "_draw_".toList) with
  | error e => rw [h1] at hd; cases hd
  | ok line =>
    rw [h1] at hd
    simp only at hd
    cases h2 : parse_xdot_attr fuel (get_attribute_value edge.attributes "_hdraw_".toList) with
    | error e => rw [h2] at hd; cases hd
    | ok head =>
      rw [h2] at hd
      simp only at hd
      cases h3 : parse_xdot_attr fuel (get_attribute_value edge.attributes "_ldraw_".toList) with
      | error e => rw [h3] at hd; cases hd
      | ok label =>
        rw [h3] at hd
        simp only [Except.ok.injEq] at hd
        subst hd
        unfold parse_edge
        simp only [bind, Except.bind, append_drawing_ok fuel [] _ line h1,
          append_drawing_ok fuel line _ head h2,
          append_drawing_ok fuel (line ++ head) _ label h3, List.nil_append, pure,
          Except.pure]
        unfold expected_edge
        cases hs : (line ++ head ++ label).isEmpty
        · simp only [Bool.not_false, if_true, Bool.false_eq_true, if_false]
          cases hu : (get_attribute_value edge.attributes "URL".toList).isEmpty
          · rfl
          · have : get_attribute_value edge.attributes "URL".toList = [] := by
              simpa using hu
            simp only [Bool.not_true, Bool.false_eq_true, if_false, this]
            rfl
        · simp

theorem set_node_map (h : Heap) (k : Nat) (n : GraphNode) (as : List Nat)
    (hlt : ∀ a ∈ as, a < k) : as.map (h.set_node k n).nodes = as.map h.nodes := by
  apply List.map_congr_left
  intro a ha
  have := hlt a ha
  simp only [Heap.set_node]
  rw [if_neg (by omega)]

theorem set_edge_map (h : Heap) (k : Nat) (e : GraphEdge) (as : List Nat)
    (hlt : ∀ a ∈ as, a < k) : as.map (h.set_edge k e).edges = as.map h.edges := by
  apply List.map_congr_left
  intro a ha
  have := hlt a ha
  simp only [Heap.set_edge]
  rw [if_neg (by omega)]

/-- The loop over the nodes, when the drawing attributes of every node decode: it returns,
and it has added the expected nodes, in their order, and nothing else. -/
theorem parse_nodes_ok (fuel : Nat) :
    ∀ (nodes : List Dot.Node) (g : GraphElement) (h : Heap),
      (∀ node ∈ nodes, ∃ shapes, node_drawing fuel node = .ok shapes) →
      (∀ a ∈ g.nodes_, a < g.nodes_.length) →
      ∃ g1 h1, parse_nodes fuel nodes (g, h) = .ok (g1, h1) ∧
        (∀ a ∈ g1.nodes_, a < g1.nodes_.length) ∧
        g1.nodes_.map h1.nodes = g.nodes_.map h.nodes ++ expected_nodes fuel nodes ∧
        g1.edges_ = g.edges_ ∧ h1.edges = h.edges ∧
        g1.background_shapes_ = g.background_shapes_ := by
  intro nodes
  induction nodes with
  | nil =>
    intro g h _ hinv
    exact ⟨g, h, rfl, hinv, by simp [expected_nodes], rfl, rfl, rfl⟩
  | cons node rest ih =>
    intro g h hd hinv
    obtain ⟨shapes, hs⟩ := hd node (List.mem_cons_self _ _)
    have hrest : ∀ x ∈ rest, ∃ shapes, node_drawing fuel x = .ok shapes :=
      fun x hx => hd x (List.mem_cons_of_mem _ hx)
    have hexp : expected_nodes fuel (node :: rest) =
        (expected_node node shapes).toList ++ expected_nodes fuel rest := by
      simp only [expected_nodes, List.filterMap_cons, hs]
      cases expected_node node shapes <;> rfl
    rw [parse_nodes, parse_node_ok fuel g h node shapes hs, hexp]
    cases he : expected_node node shapes with
    | none =>
      obtain ⟨g1, h1, e1, e2, e3, e4, e5, e6⟩ := ih g h hrest hinv
      exact ⟨g1, h1, e1, e2, by simpa using e3, e4, e5, e6⟩
    | some n =>
      have hinv1 : ∀ a ∈ (g.add_node (h.set_node g.nodes_.length n) g.nodes_.length).nodes_,
          a < (g.add_node (h.set_node g.nodes_.length n) g.nodes_.length).nodes_.length := by
        intro a ha
        simp only [GraphElement.add_node, List.mem_append, List.mem_singleton,
          List.length_append, List.length_singleton] at ha ⊢
        rcases ha with ha | ha
        · have := hinv a ha; omega
        · omega
      obtain ⟨g1, h1, e1, e2, e3, e4, e5, e6⟩ :=
        ih (g.add_node (h.set_node g.nodes_.length n) g.nodes_.length)
          (h.set_node g.nodes_.length n) hrest hinv1
      refine ⟨g1, h1, e1, e2, ?_, e4, e5, e6⟩
      rw [e3]
      simp only [GraphElement.add_node, List.map_append, List.map_cons, List.map_nil,
        Option.toList, List.append_assoc, List.singleton_append]
      rw [set_node_map h _ n g.nodes_ hinv]
      simp [Heap.set_node]

/-- The loop over the edges, when the drawing attributes of every edge decode: it returns,
and it has added the expected edges, in their order, and nothing else. -/
theorem parse_edges_ok (fuel : Nat) :
    ∀ (edges : List Dot.Edge) (g : GraphElement) (h : Heap),
      (∀ edge ∈ edges, ∃ shapes, edge_drawing fuel edge = .ok shapes) →
      (∀ a ∈ g.edges_, a < g.edges_.length) →
      ∃ g1 h1, parse_edges fuel edges (g, h) = .ok (g1, h1) ∧
        g1.edges_.map h1.edges = g.edges_.map h.edges ++ expected_edges fuel edges ∧
        g1.nodes_ = g.nodes_ ∧ h1.nodes = h.nodes ∧
        g1.background_shapes_ = g.background_shapes_ := by
  intro edges
  induction edges with
  | nil =>
    intro g h _ _
    exact ⟨g, h, rfl, by simp [expected_edges], rfl, rfl, rfl⟩
  | cons edge rest ih =>
    intro g h hd hinv
    obtain ⟨shapes, hs⟩ := hd edge (List.mem_cons_self _ _)
    have hrest : ∀ x ∈ rest, ∃ shapes, edge_drawing fuel x = .ok shapes :=
      fun x hx => hd x (List.mem_cons_of_mem _ hx)
    have hexp : expected_edges fuel (edge :: rest) =
        (expected_edge edge shapes).toList ++ expected_edges fuel rest := by
      simp only [expected_edges, List.filterMap_cons, hs]
      cases expected_edge edge shapes <;> rfl
    rw [parse_edges, parse_edge_ok fuel g h edge shapes hs, hexp]
    cases he : expected_edge edge shapes with
    | none =>
      obtain ⟨g1, h1, e1, e3, e4, e5, e6⟩ := ih g h hrest hinv
      exact ⟨g1, h1, e1, by simpa using e3, e4, e5, e6⟩
    | some e =>
      have hinv1 : ∀ a ∈ (g.add_edge g.edges_.length).edges_,
          a < (g.add_edge g.edges_.length).edges_.length := by
        intro a ha
        simp only [GraphElement.add_edge, List.mem_append, List.mem_singleton,
          List.length_append, List.length_singleton] at ha ⊢
        rcases ha with ha | ha
        · have := hinv a ha; omega
        · omega
      obtain ⟨g1, h1, e1, e3, e4, e5, e6⟩ :=
        ih (g.add_edge g.edges_.length) (h.set_edge g.edges_.length e) hrest hinv1
      refine ⟨g1, h1, e1, ?_, e4, e5, e6⟩
      rw [e3]
      simp only [GraphElement.add_edge, List.map_append, List.map_cons, List.map_nil,
        Option.toList, List.append_assoc, List.singleton_append]
      rw [set_edge_map h _ e g.edges_ hinv]
      simp [Heap.set_edge]

theorem background_fold (shapes : List Shape) :
    ∀ g : GraphElement,
      (shapes.foldl (fun g shape => g.add_background_shape shape) g).nodes_ = g.nodes_ ∧
      (shapes.foldl (fun g shape => g.add_background_shape shape) g).edges_ = g.edges_ := by
  induction shapes with
  | nil => intro g; exact ⟨rfl, rfl⟩
  | cons s rest ih =>
    intro g
    simp only [List.foldl_cons]
    exact ih (g.add_background_shape s)

/-- What `XDotParser::parse` returns when every drawing attribute decodes: the expected
nodes and the expected edges, each in the order of the graph. -/
theorem parse_result (fuel : Nat) (graph : Dot.Graph) (hd : drawings_decode fuel graph) :
    ∃ g h, (XDotParser.mk graph).parse fuel = .ok (g, h) ∧
      g.nodes_.map h.nodes = expected_nodes fuel graph.nodes ∧
      g.edges_.map h.edges = expected_edges fuel graph.edges := by
  obtain ⟨⟨bg, hbg⟩, hnodes, hedges⟩ := hd
  have main : ∀ g0 : GraphElement, g0.nodes_ = [] → g0.edges_ = [] →
      ∃ g1 h1 g h, parse_nodes fuel graph.nodes (g0, Heap.empty) = Except.ok (g1, h1) ∧
        parse_edges fuel graph.edges (g1, h1) = Except.ok (g, h) ∧
        g.nodes_.map h.nodes = expected_nodes fuel graph.nodes ∧
        g.edges_.map h.edges = expected_edges fuel graph.edges := by
    intro g0 hn0 he0
    obtain ⟨g1, h1, e1, -, e3, e4, e5, -⟩ := parse_nodes_ok fuel graph.nodes g0 Heap.empty
      hnodes (by rw [hn0]; simp)
    obtain ⟨g2, h2, f1, f3, f4, f5, -⟩ := parse_edges_ok fuel graph.edges g1 h1 hedges
      (by rw [e4, he0]; simp)
    refine ⟨g1, h1, g2, h2, e1, f1, ?_, ?_⟩
    · rw [f4, f5, e3, hn0]
      simp
    · rw [f3, e4, he0]
      simp
  unfold decode_attribute at hbg
  unfold XDotParser.parse
  simp only [bind, Except.bind]
  by_cases hempty : (!(get_attribute_value graph.attributes "_draw_".toList).isEmpty) = true
  · obtain ⟨g1, h1, g, h, e1, f1, r1, r2⟩ := main _ (background_fold bg GraphElement.new).1
      (background_fold bg GraphElement.new).2
    refine ⟨g, h, ?_, r1, r2⟩
    rw [if_pos hempty, hbg]
    simp only
    rw [e1]
    exact f1
  · obtain ⟨g1, h1, g, h, e1, f1, r1, r2⟩ := main GraphElement.new rfl rfl
    refine ⟨g, h, ?_, r1, r2⟩
    rw [if_neg hempty, e1]
    exact f1

/-- The decode of the drawing string `E 0 0 1 1`. -/
theorem decode_unit_ellipse (fuel : Nat) :
    parse_xdot_attr (fuel + 2) "E 0 0 1 1".toList =
      .ok [Shape.ellipse ⟨⟨0, 0⟩, 1, 1, Pen.new⟩] := by
  have hd : "E 0 0 1 1".toList =
      ellipse_text "0".toList "0".toList "1".toList "1".toList ++ [] := by decide
  have e0 : int_literal_value "0".toList = 0 := by decide
  have e1 : int_literal_value "1".toList = 1 := by decide
  have h1 : parse_loop (fuel + 2) ⟨"E 0 0 1 1".toList, "E 0 0 1 1".toList, Pen.new, []⟩ =
      parse_loop (fuel + 2) ⟨"E 0 0 1 1".toList,
        ellipse_text "0".toList "0".toList "1".toList "1".toList ++ [], Pen.new, []⟩ := by
    rw [← hd]
  rw [parse_xdot_attr_eq, h1,
    parse_loop_ellipse_at (fuel + 1) _ _ _ "0".toList "0".toList "1".toList "1".toList []
      rfl rfl rfl rfl (by decide) (by decide) (by decide) (by decide) rfl,
    parse_loop_end_at, e0, e1]
  simp only [List.nil_append, Int.cast_zero, Int.cast_one]
  rfl

/-- The decode of the empty drawing string. -/
theorem decode_empty (fuel : Nat) : parse_xdot_attr (fuel + 1) [] = .ok [] := by
  rw [parse_xdot_attr_eq, parse_loop_end_at]
  rfl

/-- The drawing attributes of the sample graph decode, and what they decode to. -/
theorem sample_graph_decodes :
    drawings_decode 2 sample_graph ∧
      expected_nodes 2 sample_graph.nodes =
        [⟨['a'], [Shape.ellipse ⟨⟨0, 0⟩, 1, 1, Pen.new⟩], ['u'], false⟩] ∧
      expected_edges 2 sample_graph.edges =
        [⟨['a'], ['b'], [Shape.ellipse ⟨⟨0, 0⟩, 1, 1, Pen.new⟩], [], false⟩] := by
  have hu := decode_unit_ellipse 0
  have he := decode_empty 1
  have ga : get_attribute_value [(⟨"_draw_".toList, "E 0 0 1 1".toList⟩ : Dot.Attribute),
      ⟨"URL".toList, ['u']⟩] "_draw_".toList = "E 0 0 1 1".toList := by decide
  have gb : get_attribute_value [(⟨"_draw_".toList, "E 0 0 1 1".toList⟩ : Dot.Attribute),
      ⟨"URL".toList, ['u']⟩] "_ldraw_".toList = [] := by decide
  have gu : get_attribute_value [(⟨"_draw_".toList, "E 0 0 1 1".toList⟩ : Dot.Attribute),
      ⟨"URL".toList, ['u']⟩] "URL".toList = ['u'] := by decide
  have gc : get_attribute_value [(⟨"_hdraw_".toList, "E 0 0 1 1".toList⟩ : Dot.Attribute)]
      "_draw_".toList = [] := by decide
  have gd : get_attribute_value [(⟨"_hdraw_".toList, "E 0 0 1 1".toList⟩ : Dot.Attribute)]
      "_hdraw_".toList = "E 0 0 1 1".toList := by decide
  have ge : get_attribute_value [(⟨"_hdraw_".toList, "E 0 0 1 1".toList⟩ : Dot.Attribute)]
      "_ldraw_".toList = [] := by decide
  have gf : get_attribute_value [(⟨"_hdraw_".toList, "E 0 0 1 1".toList⟩ : Dot.Attribute)]
      "URL".toList = [] := by decide
  have gn : ∀ name, get_attribute_value ([] : Dot.AttributeList) name = [] := fun _ => rfl
  have na : node_drawing 2 ⟨['a'], [⟨"_draw_".toList, "E 0 0 1 1".toList⟩,
      ⟨"URL".toList, ['u']⟩]⟩ = .ok [Shape.ellipse ⟨⟨0, 0⟩, 1, 1, Pen.new⟩] := by
    simp only [node_drawing, decode_attribute, ga, gb, hu, he, List.append_nil]
  have nb : node_drawing 2 ⟨['b'], []⟩ = .ok [] := by
    simp only [node_drawing, decode_attribute, gn, he, List.append_nil]
  have ea : edge_drawing 2 ⟨['a'], ['b'], [⟨"_hdraw_".toList, "E 0 0 1 1".toList⟩]⟩ =
      .ok [Shape.ellipse ⟨⟨0, 0⟩, 1, 1, Pen.new⟩] := by
    simp only [edge_drawing, decode_attribute, gc, gd, ge, hu, he, List.append_nil,
      List.nil_append]
  have eb : edge_drawing 2 ⟨['b'], ['a'], []⟩ = .ok [] := by
    simp only [edge_drawing, decode_attribute, gn, he, List.append_nil]
  refine ⟨⟨⟨[], he⟩, ?_, ?_⟩, ?_, ?_⟩
  · intro node hn
    simp only [sample_graph, List.mem_cons, List.mem_singleton, List.not_mem_nil, or_false]
      at hn
    rcases hn with rfl | rfl
    · exact ⟨_, na⟩
    · exact ⟨_, nb⟩
  · intro edge hn
    simp only [sample_graph, List.mem_cons, List.mem_singleton, List.not_mem_nil, or_false]
      at hn
    rcases hn with rfl | rfl
    · exact ⟨_, ea⟩
    · exact ⟨_, eb⟩
  · simp only [expected_nodes, sample_graph, List.filterMap_cons, List.filterMap_nil, na, nb,
      expected_node, gu]
    rfl
  · simp only [expected_edges, sample_graph, List.filterMap_cons, List.filterMap_nil, ea, eb,
      expected_edge, gf]
    rfl

/-- C21, for graphs whose drawing attributes decode: for every such graph
`XDotParser::parse` returns, and the nodes of the graph element that it returns are, in
the order of the graph, one `GraphNode` for each top-level node for which the decode of
`_draw_` followed by the decode of `_ldraw_` is not empty, and none for the other nodes;
that `GraphNode` has the id of the node, those shapes, the body before the label, the
value of the attribute `URL` as its url, and no highlight. -/
theorem parse_builds_nodes (fuel : Nat) (graph : Dot.Graph)
    (hd : drawings_decode fuel graph) :
    ∃ g h, (XDotParser.mk graph).parse fuel = .ok (g, h) ∧
      g.nodes_.map h.nodes = graph.nodes.filterMap (fun node =>
        match node_drawing fuel node with
        | .error _ => none
        | .ok shapes =>
          if shapes.isEmpty then none
          else some ⟨node.id, shapes, get_attribute_value node.attributes "URL".toList,
            false⟩) := by
  obtain ⟨g, h, h1, h2, -⟩ := parse_result fuel graph hd
  exact ⟨g, h, h1, h2⟩

/-- The nodes built for the sample graph: one for `a`, none for `b`. -/
theorem parse_builds_nodes_witness :
    drawings_decode 2 sample_graph ∧
    ∃ g h, (XDotParser.mk sample_graph).parse 2 = .ok (g, h) ∧
      g.nodes_.map h.nodes = sample_graph.nodes.filterMap (fun node =>
        match node_drawing 2 node with
        | .error _ => none
        | .ok shapes =>
          if shapes.isEmpty then none
          else some ⟨node.id, shapes, get_attribute_value node.attributes "URL".toList,
            false⟩) :=
  ⟨sample_graph_decodes.1, parse_builds_nodes 2 sample_graph sample_graph_decodes.1⟩


/-- C22, for graphs whose drawing attributes decode: for every such graph
`XDotParser::parse` returns, and the edges of the graph element that it returns are, in
the order of the graph, one `GraphEdge` for each top-level edge for which the decode of
`_draw_` followed by the decode of `_hdraw_` and by the decode of `_ldraw_` is not empty,
and none for the other edges; that `GraphEdge` has the source and the target of the edge,
those shapes in that order, the value of the attribute `URL` as its url, and no
highlight. -/
theorem parse_builds_edges (fuel : Nat) (graph : Dot.Graph)
    (hd : drawings_decode fuel graph) :
    ∃ g h, (XDotParser.mk graph).parse fuel = .ok (g, h) ∧
      g.edges_.map h.edges = graph.edges.filterMap (fun edge =>
        match edge_drawing fuel edge with
        | .error _ => none
        | .ok shapes =>
          if shapes.isEmpty then none
          else some ⟨edge.source, edge.target, shapes,
            get_attribute_value edge.attributes "URL".toList, false⟩) := by
  obtain ⟨g, h, h1, -, h3⟩ := parse_result fuel graph hd
  exact ⟨g, h, h1, h3⟩

/-- The edges built for the sample graph: one for the edge from `a` to `b`, none for the
edge from `b` to `a`. -/
theorem parse_builds_edges_witness :
    drawings_decode 2 sample_graph ∧
    ∃ g h, (XDotParser.mk sample_graph).parse 2 = .ok (g, h) ∧
      g.edges_.map h.edges = sample_graph.edges.filterMap (fun edge =>
        match edge_drawing 2 edge with
        | .error _ => none
        | .ok shapes =>
          if shapes.isEmpty then none
          else some ⟨edge.source, edge.target, shapes,
            get_attribute_value edge.attributes "URL".toList, false⟩) :=
  ⟨sample_graph_decodes.1, parse_builds_edges 2 sample_graph sample_graph_decodes.1⟩

/-- The decode of the overlong drawing string ends with the exception of `std::stoi`. -/
theorem decode_overlong (fuel : Nat) :
    parse_xdot_attr (fuel + 1) overlong_drawing =
      .error (DecodeFailure.thrown StdException.out_of_range) := by
  have hv : decimal_value "2147483648".toList = 2 ^ 31 := by decide
  have := parse_style_overflow fuel "2147483648".toList (List.replicate (2 ^ 31) 'x') [] rfl
    (by rw [hv])
  rw [List.append_nil] at this
  exact this

/-- The block that decodes one attribute throws on the overlong drawing string. -/
theorem append_drawing_overlong (fuel : Nat) (all : List Shape) :
    append_drawing (fuel + 1) all overlong_drawing =
      .error (DecodeFailure.thrown StdException.out_of_range) := by
  unfold append_drawing
  have hne : (!overlong_drawing.isEmpty) = true := rfl
  rw [if_pos hne, decode_overlong]

/-- C21 as stated fails: in the graph with the node `a`, whose `_draw_` decodes to one
ellipse, and the node `b`, whose `_draw_` has a style string of `2^31` characters,
`XDotParser::parse` makes no `GraphNode` for `a`: the decode of the second drawing string
throws `std::out_of_range`, and so does `parse`. -/
theorem parse_throws_on_overlong_node :
    node_drawing 2 ⟨['a'], [⟨"_draw_".toList, "E 0 0 1 1".toList⟩]⟩ =
        .ok [Shape.ellipse ⟨⟨0, 0⟩, 1, 1, Pen.new⟩] ∧
      ∀ fuel, (XDotParser.mk overlong_node_graph).parse (fuel + 2) =
        .error (DecodeFailure.thrown StdException.out_of_range) := by
  have ga : get_attribute_value [(⟨"_draw_".toList, "E 0 0 1 1".toList⟩ : Dot.Attribute)]
      "_draw_".toList = "E 0 0 1 1".toList := by decide
  have gb : get_attribute_value [(⟨"_draw_".toList, "E 0 0 1 1".toList⟩ : Dot.Attribute)]
      "_ldraw_".toList = [] := by decide
  have gc : get_attribute_value [(⟨"_draw_".toList, overlong_drawing⟩ : Dot.Attribute)]
      "_draw_".toList = overlong_drawing := by
    simp [get_attribute_value]
  have na : ∀ fuel, node_drawing (fuel + 2) ⟨['a'], [⟨"_draw_".toList, "E 0 0 1 1".toList⟩]⟩ =
      .ok [Shape.ellipse ⟨⟨0, 0⟩, 1, 1, Pen.new⟩] := by
    intro fuel
    simp only [node_drawing, decode_attribute, ga, gb, decode_unit_ellipse fuel,
      decode_empty (fuel + 1), List.append_nil]
  refine ⟨na 0, ?_⟩
  intro fuel
  have hb : ∀ st, parse_node (fuel + 2) st ⟨['b'], [⟨"_draw_".toList, overlong_drawing⟩]⟩ =
      .error (DecodeFailure.thrown StdException.out_of_range) := by
    intro st
    unfold parse_node
    simp only [gc, append_drawing_overlong (fuel + 1), bind, Except.bind]
  unfold XDotParser.parse
  simp only [overlong_node_graph, bind, Except.bind, get_attribute_value, List.isEmpty_nil,
    Bool.not_true, Bool.false_eq_true, if_false, parse_nodes,
    parse_node_ok (fuel + 2) _ _ _ _ (na fuel), hb]

/-- C22 as stated fails: in the graph with an edge from `a` to `b`, whose `_draw_`
decodes to one ellipse, and an edge from `b` to `a`, whose `_draw_` has a style string of
`2^31` characters, `XDotParser::parse` builds no `GraphEdge` for the first edge: the decode
of the second drawing string throws `std::out_of_range`, and so does `parse`. -/
theorem parse_throws_on_overlong_edge :
    edge_drawing 2 ⟨['a'], ['b'], [⟨"_draw_".toList, "E 0 0 1 1".toList⟩]⟩ =
        .ok [Shape.ellipse ⟨⟨0, 0⟩, 1, 1, Pen.new⟩] ∧
      ∀ fuel, (XDotParser.mk overlong_edge_graph).parse (fuel + 2) =
        .error (DecodeFailure.thrown StdException.out_of_range) := by
  have ga : get_attribute_value [(⟨"_draw_".toList, "E 0 0 1 1".toList⟩ : Dot.Attribute)]
      "_draw_".toList = "E 0 0 1 1".toList := by decide
  have gb : get_attribute_value [(⟨"_draw_".toList, "E 0 0 1 1".toList⟩ : Dot.Attribute)]
      "_ldraw_".toList = [] := by decide
  have gh : get_attribute_value [(⟨"_draw_".toList, "E 0 0 1 1".toList⟩ : Dot.Attribute)]
      "_hdraw_".toList = [] := by decide
  have gc : get_attribute_value [(⟨"_draw_".toList, overlong_drawing⟩ : Dot.Attribute)]
      "_draw_".toList = overlong_drawing := by
    simp [get_attribute_value]
  have ea : ∀ fuel, edge_drawing (fuel + 2)
      ⟨['a'], ['b'], [⟨"_draw_".toList, "E 0 0 1 1".toList⟩]⟩ =
      .ok [Shape.ellipse ⟨⟨0, 0⟩, 1, 1, Pen.new⟩] := by
    intro fuel
    simp only [edge_drawing, decode_attribute, ga, gb, gh, decode_unit_ellipse fuel,
      decode_empty (fuel + 1), List.append_nil]
  refine ⟨ea 0, ?_⟩
  intro fuel
  have hb : ∀ st, parse_edge (fuel + 2) st
      ⟨['b'], ['a'], [⟨"_draw_".toList, overlong_drawing⟩]⟩ =
      .error (DecodeFailure.thrown StdException.out_of_range) := by
    intro st
    unfold parse_edge
    simp only [gc, append_drawing_overlong (fuel + 1), bind, Except.bind]
  unfold XDotParser.parse
  simp only [overlong_edge_graph, bind, Except.bind, get_attribute_value, List.isEmpty_nil,
    Bool.not_true, Bool.false_eq_true, if_false, parse_nodes, parse_edges,
    parse_edge_ok (fuel + 2) _ _ _ _ (ea fuel), hb]

end XDot
end XDotCpp

/-! ## Subgraphs and the orchestrator -/

namespace XDotCpp
namespace XDot

/-- C39: the result of `XDotParser::parse` does not depend on the subgraph list of the
graph: for every graph it is the same when the subgraph list is replaced by the empty
list, or by any other list. Nodes and edges declared inside a subgraph make no `GraphNode`
and no `GraphEdge`: the text `digraph { subgraph s { a [_draw_="E 0 0 1 1"]; b;
a -> b [_draw_="E 0 0 1 1"]; } }` parses to a graph that holds the two nodes and the edge
in its subgraph `s`, and from this graph `XDotParser::parse` builds the empty graph
element. -/
theorem parse_ignores_subgraphs (fuel : Nat) (graph : Dot.Graph) :
    (XDotParser.mk { graph with subgraphs := [] }).parse fuel = (XDotParser.mk graph).parse fuel ∧
      (∀ subgraphs : List Dot.Subgraph,
        (XDotParser.mk { graph with subgraphs := subgraphs }).parse fuel =
          (XDotParser.mk graph).parse fuel) ∧
      Dot.parse nested_text = .ok nested_graph ∧
      (XDotParser.mk nested_graph).parse fuel = .ok (GraphElement.new, Heap.empty) :=
  ⟨rfl, fun _ => rfl, rfl, rfl⟩

end XDot
end XDotCpp

/-! ## The id index of a graph element -/

namespace XDotCpp
namespace XDot

/-- What `find` returns after an assignment. -/
theorem map_find_assign (key : List Char) (value : Nat) (id : List Char) :
    ∀ m : List (List Char × Nat),
      map_find (map_assign m key value) id = if key = id then some value else map_find m id := by
  intro m
  induction m with
  | nil =>
    by_cases hk : key = id <;> simp [map_find, map_assign, hk]
  | cons kv m ih =>
    unfold map_assign
    by_cases h1 : (kv.1 == key) = true
    · rw [if_pos h1]
      have e1 : kv.1 = key := by simpa using h1
      by_cases hk : key = id
      · simp [map_find, hk]
      · have : ¬ kv.1 = id := by rw [e1]; exact hk
        simp [map_find, hk, this]
    · rw [if_neg h1]
      have e1 : ¬ kv.1 = key := by simpa using h1
      have ih2 : Option.map (fun kv => kv.2) (List.find? (fun kv => kv.1 == id) (map_assign m key value)) =
          if key = id then some value else Option.map (fun kv => kv.2) (List.find? (fun kv => kv.1 == id) m) := ih
      by_cases hk : key = id
      · have : ¬ kv.1 = id := by rw [← hk]; exact e1
        simp [map_find, hk, this, List.find?_cons] at ih2 ⊢
        exact ih2
      · by_cases h2 : kv.1 = id
        · simp [map_find, hk, h2, List.find?_cons]
        · simp [map_find, hk, h2, List.find?_cons] at ih2 ⊢
          exact ih2

/-- The last node with an id after one more node. -/
theorem last_with_id_snoc (h : Heap) (nodes : List Nat) (node : Nat) (id : List Char) :
    last_with_id h (nodes ++ [node]) id =
      if (h.nodes node).id_ = id then some node else last_with_id h nodes id := by
  unfold last_with_id
  rw [List.reverse_append, List.reverse_singleton, List.singleton_append, List.find?_cons]
  by_cases hk : (h.nodes node).id_ = id
  · have hb : ((h.nodes node).id_ == id) = true := by simpa using hk
    rw [hb, if_pos hk]
  · have hb : ((h.nodes node).id_ == id) = false := by simpa using hk
    rw [hb, if_neg hk]

/-- The last node with an id depends on the ids of the nodes of the list only. -/
theorem last_with_id_congr (h h2 : Heap) (nodes : List Nat) (id : List Char)
    (hid : ∀ a ∈ nodes, (h2.nodes a).id_ = (h.nodes a).id_) :
    last_with_id h2 nodes id = last_with_id h nodes id := by
  unfold last_with_id
  have : ∀ l : List Nat, (∀ a ∈ l, (h2.nodes a).id_ = (h.nodes a).id_) →
      l.find? (fun a => (h2.nodes a).id_ == id) = l.find? (fun a => (h.nodes a).id_ == id) := by
    intro l
    induction l with
    | nil => intro _; rfl
    | cons b l ih =>
      intro hl
      rw [List.find?_cons, List.find?_cons, hl b (List.mem_cons_self _ _),
        ih (fun a ha => hl a (List.mem_cons_of_mem _ ha))]
  exact this _ (fun a ha => hid a (List.mem_reverse.mp ha))

/-- The last node with an id is a node of the list with that id. -/
theorem last_with_id_some (h : Heap) (nodes : List Nat) (id : List Char) (a : Nat)
    (ha : last_with_id h nodes id = some a) : a ∈ nodes ∧ (h.nodes a).id_ = id := by
  unfold last_with_id at ha
  exact ⟨List.mem_reverse.mp (List.mem_of_find?_eq_some ha),
    by simpa using List.find?_some ha⟩

/-- No node is the last with an id that no node of the list has. -/
theorem last_with_id_none (h : Heap) (nodes : List Nat) (id : List Char)
    (hn : ∀ a ∈ nodes, (h.nodes a).id_ ≠ id) : last_with_id h nodes id = none := by
  unfold last_with_id
  rw [List.find?_eq_none]
  intro a ha
  simpa using hn a (List.mem_reverse.mp ha)

/-- A node that is not followed by a node with its id is the last node with its id. -/
theorem last_with_id_split (h : Heap) (pre post : List Nat) (a : Nat)
    (hpost : ∀ b ∈ post, (h.nodes b).id_ ≠ (h.nodes a).id_) :
    last_with_id h (pre ++ a :: post) (h.nodes a).id_ = some a := by
  unfold last_with_id
  rw [List.reverse_append, List.reverse_cons, List.append_assoc, List.find?_append]
  have hnone : post.reverse.find? (fun b => (h.nodes b).id_ == (h.nodes a).id_) = none := by
    rw [List.find?_eq_none]
    intro b hb
    simpa using hpost b (List.mem_reverse.mp hb)
  rw [hnone]
  simp

/-- The invariant holds for the element that the constructor makes. -/
theorem index_consistent_new (h : Heap) : index_consistent GraphElement.new h := fun _ => rfl

/-- The method `add_node` keeps the invariant, also when the heap has changed since the
earlier calls, as long as the nodes of the element have kept their ids. -/
theorem index_consistent_add_node (g : GraphElement) (h h2 : Heap) (node : Nat)
    (hc : index_consistent g h) (hid : ∀ a ∈ g.nodes_, (h2.nodes a).id_ = (h.nodes a).id_) :
    index_consistent (g.add_node h2 node) h2 := by
  intro id
  simp only [GraphElement.add_node]
  rw [map_find_assign, last_with_id_snoc, hc id, last_with_id_congr h h2 g.nodes_ id hid]

/-- The element after a sequence of calls of `add_node`. -/
theorem add_nodes_spec (h : Heap) :
    ∀ (nodes : List Nat) (g : GraphElement), index_consistent g h →
      (g.add_nodes h nodes).nodes_ = g.nodes_ ++ nodes ∧ index_consistent (g.add_nodes h nodes) h ∧
        (g.add_nodes h nodes).edges_ = g.edges_ ∧
        (g.add_nodes h nodes).background_shapes_ = g.background_shapes_ := by
  intro nodes
  induction nodes with
  | nil => intro g hc; exact ⟨by simp [GraphElement.add_nodes], hc, rfl, rfl⟩
  | cons a rest ih =>
    intro g hc
    have hc1 := index_consistent_add_node g h h a hc (fun _ _ => rfl)
    obtain ⟨e1, e2, e3, e4⟩ := ih (g.add_node h a) hc1
    refine ⟨?_, e2, e3, e4⟩
    have : (g.add_nodes h (a :: rest)) = (g.add_node h a).add_nodes h rest := rfl
    rw [this, e1]
    simp [GraphElement.add_node]

/-- The decode of the node of the twin graph. -/
theorem twin_node_drawing :
    node_drawing 2 ⟨['a'], [⟨"_draw_".toList, "E 0 0 1 1".toList⟩]⟩ =
      .ok [Shape.ellipse ⟨⟨0, 0⟩, 1, 1, Pen.new⟩] := by
  have hu := decode_unit_ellipse 0
  have he := decode_empty 1
  have ga : get_attribute_value [(⟨"_draw_".toList, "E 0 0 1 1".toList⟩ : Dot.Attribute)]
      "_draw_".toList = "E 0 0 1 1".toList := by decide
  have gb : get_attribute_value [(⟨"_draw_".toList, "E 0 0 1 1".toList⟩ : Dot.Attribute)]
      "_ldraw_".toList = [] := by decide
  simp only [node_drawing, decode_attribute, ga, gb, hu, he, List.append_nil]

/-- What `XDotParser::parse` builds from the twin graph: two nodes with the id `a`, and an
index whose entry for `a` is the second of them. -/
theorem twin_graph_result :
    ∃ g h, (XDotParser.mk twin_graph).parse 2 = .ok (g, h) ∧ g.nodes_ = [0, 1] ∧
      (h.nodes 0).id_ = ['a'] ∧ (h.nodes 1).id_ = ['a'] ∧ g.node_map_ = [(['a'], 1)] := by
  have hn := twin_node_drawing
  have x1 : expected_node ⟨['a'], [⟨"_draw_".toList, "E 0 0 1 1".toList⟩]⟩
      [Shape.ellipse ⟨⟨0, 0⟩, 1, 1, Pen.new⟩] =
      some ⟨['a'], [Shape.ellipse ⟨⟨0, 0⟩, 1, 1, Pen.new⟩], [], false⟩ := by
    with_unfolding_all decide
  have key : ∀ (g : GraphElement) (h : Heap),
      parse_node 2 (g, h) ⟨['a'], [⟨"_draw_".toList, "E 0 0 1 1".toList⟩]⟩ =
        .ok (g.add_node (h.set_node g.nodes_.length
            ⟨['a'], [Shape.ellipse ⟨⟨0, 0⟩, 1, 1, Pen.new⟩], [], false⟩) g.nodes_.length,
          h.set_node g.nodes_.length
            ⟨['a'], [Shape.ellipse ⟨⟨0, 0⟩, 1, 1, Pen.new⟩], [], false⟩) := by
    intro g h
    have := parse_node_ok 2 g h ⟨['a'], [⟨"_draw_".toList, "E 0 0 1 1".toList⟩]⟩ _ hn
    rw [x1] at this
    exact this
  have hp : (XDotParser.mk twin_graph).parse 2 =
      .ok ((GraphElement.new.add_node (Heap.empty.set_node 0
            ⟨['a'], [Shape.ellipse ⟨⟨0, 0⟩, 1, 1, Pen.new⟩], [], false⟩) 0).add_node
          ((Heap.empty.set_node 0
            ⟨['a'], [Shape.ellipse ⟨⟨0, 0⟩, 1, 1, Pen.new⟩], [], false⟩).set_node 1
            ⟨['a'], [Shape.ellipse ⟨⟨0, 0⟩, 1, 1, Pen.new⟩], [], false⟩) 1,
        (Heap.empty.set_node 0
            ⟨['a'], [Shape.ellipse ⟨⟨0, 0⟩, 1, 1, Pen.new⟩], [], false⟩).set_node 1
            ⟨['a'], [Shape.ellipse ⟨⟨0, 0⟩, 1, 1, Pen.new⟩], [], false⟩) := by
    unfold XDotParser.parse
    simp only [bind, Except.bind]
    have hg : get_attribute_value twin_graph.attributes "_draw_".toList = [] := rfl
    rw [hg]
    simp only [List.isEmpty_nil, Bool.not_true, Bool.false_eq_true, if_false]
    have hnodes : twin_graph.nodes = [⟨['a'], [⟨"_draw_".toList, "E 0 0 1 1".toList⟩]⟩,
      ⟨['a'], [⟨"_draw_".toList, "E 0 0 1 1".toList⟩]⟩] := rfl
    have hedges : twin_graph.edges = [] := rfl
    rw [hnodes, hedges]
    simp only [parse_nodes, key, parse_edges]
    rfl
  exact ⟨_, _, hp, rfl, rfl, rfl, rfl⟩

/-- C32 as stated fails: after `add_node` for two nodes with the same id `a`, both are in
the node list, and the index returns the second of them for `a`, so the first is not the
node that the index returns for its id. The DOT text
`digraph { a [_draw_="E 0 0 1 1"]; a [_draw_="E 0 0 1 1"]; }` leads there: it parses to a
graph with two nodes of the id `a`, from which `XDotParser::parse` builds two nodes and an
index whose only entry maps `a` to the second. -/
theorem index_misses_earlier_twin :
    twins.nodes_ = [0, 1] ∧ (twin_heap.nodes 0).id_ = ['a'] ∧
      map_find twins.node_map_ (twin_heap.nodes 0).id_ = some 1 ∧
      ¬ (∀ a ∈ twins.nodes_, map_find twins.node_map_ (twin_heap.nodes a).id_ = some a) ∧
      Dot.parse twin_text = .ok twin_graph ∧
      ∃ g h, (XDotParser.mk twin_graph).parse 2 = .ok (g, h) ∧ g.nodes_ = [0, 1] ∧
        (h.nodes 0).id_ = ['a'] ∧ (h.nodes 1).id_ = ['a'] ∧ g.node_map_ = [(['a'], 1)] := by
  refine ⟨by decide, by decide, by decide, ?_, rfl, twin_graph_result⟩
  intro hall
  have := hall 0 (by decide)
  revert this
  decide

/-- C32, as amended: after every sequence of `add_node` calls on a new `GraphElement` the
node list holds the nodes added, in their order; every entry of the id index maps an id to
a node that is in the node list and has that id; and for every id the index returns the
last node of the list with that id. So every node of the list that is not followed by a
node with the same id is the node that the index returns for its id, and when the ids of
the nodes are pairwise different this holds for every node of the list. A call of
`add_node` keeps this also when the heap has changed in between, as long as the nodes of
the element kept their ids. For the element of the two circles the index returns the
first for `a` and the second for `b`. -/
theorem index_follows_node_list (h : Heap) (nodes : List Nat) :
    (GraphElement.new.add_nodes h nodes).nodes_ = nodes ∧
      (∀ (id : List Char) (a : Nat),
        map_find (GraphElement.new.add_nodes h nodes).node_map_ id = some a →
          a ∈ (GraphElement.new.add_nodes h nodes).nodes_ ∧ (h.nodes a).id_ = id) ∧
      (∀ id : List Char, map_find (GraphElement.new.add_nodes h nodes).node_map_ id =
        last_with_id h nodes id) ∧
      (∀ (pre post : List Nat) (a : Nat), nodes = pre ++ a :: post →
        (∀ b ∈ post, (h.nodes b).id_ ≠ (h.nodes a).id_) →
        map_find (GraphElement.new.add_nodes h nodes).node_map_ (h.nodes a).id_ = some a) ∧
      ((nodes.map (fun a => (h.nodes a).id_)).Nodup → ∀ a ∈ nodes,
        map_find (GraphElement.new.add_nodes h nodes).node_map_ (h.nodes a).id_ = some a) ∧
      (∀ (g : GraphElement) (h1 h2 : Heap) (node : Nat), index_consistent g h1 →
        (∀ a ∈ g.nodes_, (h2.nodes a).id_ = (h1.nodes a).id_) →
        index_consistent (g.add_node h2 node) h2) ∧
      (map_find two_circles.node_map_ ['a'] = some 0 ∧
        map_find two_circles.node_map_ ['b'] = some 1) := by
  obtain ⟨e1, e2, -, -⟩ := add_nodes_spec h nodes GraphElement.new (index_consistent_new h)
  have e1' : (GraphElement.new.add_nodes h nodes).nodes_ = nodes := by
    rw [e1]; rfl
  have hfind : ∀ id : List Char, map_find (GraphElement.new.add_nodes h nodes).node_map_ id =
      last_with_id h nodes id := by
    intro id
    have := e2 id
    rw [e1'] at this
    exact this
  have hsplit : ∀ (pre post : List Nat) (a : Nat), nodes = pre ++ a :: post →
      (∀ b ∈ post, (h.nodes b).id_ ≠ (h.nodes a).id_) →
      map_find (GraphElement.new.add_nodes h nodes).node_map_ (h.nodes a).id_ = some a := by
    intro pre post a hn hpost
    rw [hfind, hn]
    exact last_with_id_split h pre post a hpost
  refine ⟨e1', fun id a ha => ?_, hfind, hsplit, fun hnd a ha => ?_,
    fun g h1 h2 node hc hid => index_consistent_add_node g h1 h2 node hc hid,
    by decide, by decide⟩
  · rw [hfind] at ha
    rw [e1']
    exact last_with_id_some h nodes id a ha
  · obtain ⟨pre, post, hn⟩ := List.append_of_mem ha
    apply hsplit pre post a hn
    intro b hb hid
    rw [hn, List.map_append, List.map_cons] at hnd
    have h2 := (List.nodup_append.mp hnd).2.1
    rw [List.nodup_cons] at h2
    apply h2.1
    rw [← hid]
    exact List.mem_map_of_mem _ hb

/-- C31: `GraphElement::highlight_node(id)` leaves every edge as it was and every node
with its id, its shapes and its url; when the index has no entry for the id it changes
nothing at all, and so it is for an element whose index follows its node list, as after
the calls of `add_node`, when no node of the list has the id; when the index has the
node `it` for the id, the flag of `it` is true afterwards and every other node is as it
was, and for such an element `it` is a node of the list with that id. -/
theorem highlight_node_frame (g : GraphElement) (h : Heap) (node_id : List Char) :
    (g.highlight_node h node_id).edges = h.edges ∧
      (∀ a, ((g.highlight_node h node_id).nodes a).id_ = (h.nodes a).id_ ∧
        ((g.highlight_node h node_id).nodes a).shapes_ = (h.nodes a).shapes_ ∧
        ((g.highlight_node h node_id).nodes a).url_ = (h.nodes a).url_) ∧
      (map_find g.node_map_ node_id = none → g.highlight_node h node_id = h) ∧
      (index_consistent g h → (∀ a ∈ g.nodes_, (h.nodes a).id_ ≠ node_id) →
        g.highlight_node h node_id = h) ∧
      (∀ nodes : List Nat, (∀ a ∈ nodes, (h.nodes a).id_ ≠ node_id) →
        (GraphElement.new.add_nodes h nodes).highlight_node h node_id = h) ∧
      (∀ it, map_find g.node_map_ node_id = some it →
        ((g.highlight_node h node_id).nodes it).highlighted_ = true ∧
        (∀ a, a ≠ it → (g.highlight_node h node_id).nodes a = h.nodes a) ∧
        (index_consistent g h → it ∈ g.nodes_ ∧ (h.nodes it).id_ = node_id)) := by
  have hnone : map_find g.node_map_ node_id = none → g.highlight_node h node_id = h := by
    intro hn
    unfold GraphElement.highlight_node
    rw [hn]
  have hcons : ∀ g2 : GraphElement, index_consistent g2 h →
      (∀ a ∈ g2.nodes_, (h.nodes a).id_ ≠ node_id) → g2.highlight_node h node_id = h := by
    intro g2 hc hn
    unfold GraphElement.highlight_node
    rw [hc node_id, last_with_id_none h g2.nodes_ node_id hn]
  refine ⟨?_, fun a => ?_, hnone, hcons g, fun nodes hn => ?_, fun it hit => ⟨?_, fun a ha => ?_,
    fun hc => ?_⟩⟩
  · unfold GraphElement.highlight_node
    cases map_find g.node_map_ node_id <;> rfl
  · unfold GraphElement.highlight_node
    cases map_find g.node_map_ node_id with
    | none => exact ⟨rfl, rfl, rfl⟩
    | some it =>
      simp only [Heap.set_node]
      by_cases ha : a = it
      · subst ha; simp [GraphNode.set_highlighted]
      · simp [ha]
  · obtain ⟨e1, e2, -, -⟩ := add_nodes_spec h nodes GraphElement.new (index_consistent_new h)
    apply hcons _ e2
    rw [e1]
    exact hn
  · unfold GraphElement.highlight_node
    rw [hit]
    simp [Heap.set_node, GraphNode.set_highlighted]
  · unfold GraphElement.highlight_node
    rw [hit]
    simp [Heap.set_node, ha]
  · rw [hc node_id] at hit
    exact last_with_id_some h g.nodes_ node_id it hit

end XDot
end XDotCpp
